import Mathlib

/-!
# Incidence simplicial mesh (`is_mesh::t4mesh`)

A shallow embedding of `src/is_mesh/is_mesh.h` and `src/is_mesh/simplex.h`.

* Keys are natural numbers; a key of dimension `d` indexes the kernel of dimension `d`
  (`0` nodes, `1` edges, `2` faces, `3` tetrahedra).
* `std::set<key>` is a strictly ascending list, `std::vector<key>` a list.
* Code that can fail (an invalid key lookup, a failed assertion, reading past the end
  of a container) returns `none`.
* Recursion that is bounded only by the labels of the mesh takes a `fuel` argument.
-/

namespace ISMesh

/-! ## Key sets -/

/-- Modelled from the spec: `std::set::insert` on a set of keys, kept as a strictly
ascending list (the header `simplex_set.h` and the STL are not part of the sources). -/
def set_insert (k : Nat) : List Nat → List Nat
  | [] => [k]
  | x :: xs => if k < x then k :: x :: xs else if k = x then x :: xs else x :: set_insert k xs

/-- Modelled from the spec: `std::set::erase` by key. -/
def set_erase (k : Nat) (s : List Nat) : List Nat := s.filter (fun x => x != k)

/-! ## Simplex records (`simplex.h`) -/

/-- The record `Simplex<boundary_key_type, co_boundary_key_type>`. -/
structure Simplex where
  m_boundary : List Nat
  m_co_boundary : List Nat
  m_is_compact : Bool
  m_label : Int
deriving DecidableEq, Repr

namespace Simplex

/-- `Simplex()` for nodes and edges (`d < 2`); `Face()` and `Tetrahedron()` call
`set_compact(true)`. -/
def create (d : Nat) : Simplex :=
  { m_boundary := [], m_co_boundary := [], m_is_compact := decide (2 ≤ d), m_label := 0 }

def set_label (s : Simplex) (l : Int) : Simplex := { s with m_label := l }

def reset_label (s : Simplex) : Simplex := { s with m_label := 0 }

def add_co_face (s : Simplex) (n : Nat) : Simplex :=
  { s with m_co_boundary := set_insert n s.m_co_boundary }

def add_face (s : Simplex) (n : Nat) : Simplex :=
  { s with m_boundary := s.m_boundary ++ [n] }

def remove_co_face (s : Simplex) (n : Nat) : Simplex :=
  { s with m_co_boundary := set_erase n s.m_co_boundary }

def set_compact (s : Simplex) (c : Bool) : Simplex := { s with m_is_compact := c }

def set_boundary_list (s : Simplex) (l : List Nat) : Simplex := { s with m_boundary := l }

def set_co_boundary_set (s : Simplex) (l : List Nat) : Simplex := { s with m_co_boundary := l }

end Simplex

/-! ## Kernel -/

/-- One slot of a kernel: the record and whether it is currently live. -/
structure KernelElement where
  valid : Bool
  value : Simplex
deriving DecidableEq, Repr

/-- Modelled from the spec: the arena `kernel<value, key>` of `kernel.h`, which is not part
of the sources. Keys are slot indices; `create` appends a slot, `erase` marks it removed,
`find` fails on a key that is out of range or erased. `marks` holds, for each outstanding
undo mark, the validity flags at the time of the mark. -/
structure Kernel where
  elements : List KernelElement
  marks : List (List Bool)
deriving DecidableEq, Repr

namespace Kernel

def empty : Kernel := { elements := [], marks := [] }

def find (K : Kernel) (k : Nat) : Option Simplex :=
  match K.elements[k]? with
  | some e => if e.valid then some e.value else none
  | none => none

def is_valid (K : Kernel) (k : Nat) : Bool := (K.find k).isSome

def create (K : Kernel) (d : Nat) : Kernel × Nat :=
  ({ K with elements := K.elements ++ [{ valid := true, value := Simplex.create d }] },
   K.elements.length)

def modify (K : Kernel) (k : Nat) (f : Simplex → Simplex) : Option Kernel :=
  match K.find k with
  | some s => some { K with elements := K.elements.set k { valid := true, value := f s } }
  | none => none

def erase (K : Kernel) (k : Nat) : Option Kernel :=
  match K.find k with
  | some s => some { K with elements := K.elements.set k { valid := false, value := s } }
  | none => none

def size (K : Kernel) : Nat := (K.elements.filter (fun e => e.valid)).length

/-- The keys of the live elements, in iteration order (`begin()` .. `end()`). -/
def keys (K : Kernel) : List Nat :=
  (List.range K.elements.length).filter (fun k => K.is_valid k)

def set_undo_mark (K : Kernel) : Kernel :=
  { K with marks := K.elements.map (fun e => e.valid) :: K.marks }

def undo (K : Kernel) : Option Kernel :=
  match K.marks with
  | [] => none
  | snap :: rest =>
    some { elements := (List.range K.elements.length).zipWith
              (fun i e => { e with valid := snap.getD i false }) K.elements,
           marks := rest }

def commit (K : Kernel) : Option Kernel :=
  match K.marks with
  | [] => none
  | _ :: rest => some { K with marks := rest }

end Kernel

/-! ## Simplex sets -/

/-- Modelled from the spec: `simplex_set<...>` of `simplex_set.h` (not part of the sources),
four key sets with set algebra. -/
structure SimplexSet where
  nodes : List Nat
  edges : List Nat
  faces : List Nat
  tetrahedra : List Nat
deriving DecidableEq, Repr

namespace SimplexSet

def empty : SimplexSet := { nodes := [], edges := [], faces := [], tetrahedra := [] }

/-- The key set of dimension `d`. -/
def keys (s : SimplexSet) (d : Nat) : List Nat :=
  match d with
  | 0 => s.nodes
  | 1 => s.edges
  | 2 => s.faces
  | _ => s.tetrahedra

def setKeys (s : SimplexSet) (d : Nat) (l : List Nat) : SimplexSet :=
  match d with
  | 0 => { s with nodes := l }
  | 1 => { s with edges := l }
  | 2 => { s with faces := l }
  | _ => { s with tetrahedra := l }

def insert (s : SimplexSet) (d : Nat) (k : Nat) : SimplexSet :=
  s.setKeys d (set_insert k (s.keys d))

def contains (s : SimplexSet) (d : Nat) (k : Nat) : Bool := (s.keys d).contains k

def size_nodes (s : SimplexSet) : Nat := s.nodes.length
def size_edges (s : SimplexSet) : Nat := s.edges.length
def size_faces (s : SimplexSet) : Nat := s.faces.length
def size_tetrahedra (s : SimplexSet) : Nat := s.tetrahedra.length

/-- In-place union `add`. -/
def add (s t : SimplexSet) : SimplexSet :=
  { nodes := t.nodes.foldl (fun acc k => set_insert k acc) s.nodes,
    edges := t.edges.foldl (fun acc k => set_insert k acc) s.edges,
    faces := t.faces.foldl (fun acc k => set_insert k acc) s.faces,
    tetrahedra := t.tetrahedra.foldl (fun acc k => set_insert k acc) s.tetrahedra }

/-- In-place `difference`. -/
def difference (s t : SimplexSet) : SimplexSet :=
  { nodes := s.nodes.filter (fun k => !t.nodes.contains k),
    edges := s.edges.filter (fun k => !t.edges.contains k),
    faces := s.faces.filter (fun k => !t.faces.contains k),
    tetrahedra := s.tetrahedra.filter (fun k => !t.tetrahedra.contains k) }

/-- In-place `intersection`. -/
def intersection (s t : SimplexSet) : SimplexSet :=
  { nodes := s.nodes.filter (fun k => t.nodes.contains k),
    edges := s.edges.filter (fun k => t.edges.contains k),
    faces := s.faces.filter (fun k => t.faces.contains k),
    tetrahedra := s.tetrahedra.filter (fun k => t.tetrahedra.contains k) }

/-- The call `filter(tag)` with the node tag: restrict to the nodes. -/
def filter_nodes (s : SimplexSet) : SimplexSet :=
  { nodes := s.nodes, edges := [], faces := [], tetrahedra := [] }

end SimplexSet

/-! ## The mesh -/

/-- The four `*_undo_info` records; `old_boundary` is unused for nodes and
`old_co_boundary` for tetrahedra. -/
structure UndoInfo where
  key : Nat
  old_boundary : List Nat
  old_co_boundary : List Nat
deriving DecidableEq, Repr

/-- The state of a `t4mesh`. -/
structure Mesh where
  m_node_kernel : Kernel
  m_edge_kernel : Kernel
  m_face_kernel : Kernel
  m_tetrahedron_kernel : Kernel
  m_node_undo_stack : List UndoInfo
  m_edge_undo_stack : List UndoInfo
  m_face_undo_stack : List UndoInfo
  m_tetrahedron_undo_stack : List UndoInfo
  m_node_mark_stack : List Nat
  m_edge_mark_stack : List Nat
  m_face_mark_stack : List Nat
  m_tetrahedron_mark_stack : List Nat
  m_uncompressed : Nat
deriving DecidableEq, Repr

namespace Mesh

/-- The constructor `t4mesh()`. -/
def empty : Mesh :=
  { m_node_kernel := Kernel.empty, m_edge_kernel := Kernel.empty,
    m_face_kernel := Kernel.empty, m_tetrahedron_kernel := Kernel.empty,
    m_node_undo_stack := [], m_edge_undo_stack := [], m_face_undo_stack := [],
    m_tetrahedron_undo_stack := [],
    m_node_mark_stack := [], m_edge_mark_stack := [], m_face_mark_stack := [],
    m_tetrahedron_mark_stack := [],
    m_uncompressed := 0 }

/-- The kernel of dimension `d`. -/
def kernel (m : Mesh) (d : Nat) : Kernel :=
  match d with
  | 0 => m.m_node_kernel
  | 1 => m.m_edge_kernel
  | 2 => m.m_face_kernel
  | _ => m.m_tetrahedron_kernel

def setKernel (m : Mesh) (d : Nat) (K : Kernel) : Mesh :=
  match d with
  | 0 => { m with m_node_kernel := K }
  | 1 => { m with m_edge_kernel := K }
  | 2 => { m with m_face_kernel := K }
  | _ => { m with m_tetrahedron_kernel := K }

/-- The overloads of `lookup_simplex`: `m_*_kernel->find(k)`. -/
def lookup_simplex (m : Mesh) (d : Nat) (k : Nat) : Option Simplex := (m.kernel d).find k

/-- A write through the reference returned by `lookup_simplex`. -/
def modify (m : Mesh) (d : Nat) (k : Nat) (f : Simplex → Simplex) : Option Mesh :=
  match (m.kernel d).modify k f with
  | some K => some (m.setKernel d K)
  | none => none

/-- The overloads of `exists`. -/
def «exists» (m : Mesh) (d : Nat) (k : Nat) : Bool := (m.kernel d).is_valid k

/-- The statement `++m_uncompressed`. -/
def incr_uncompressed (m : Mesh) : Mesh := { m with m_uncompressed := m.m_uncompressed + 1 }

def size_nodes (m : Mesh) : Nat := m.m_node_kernel.size
def size_edges (m : Mesh) : Nat := m.m_edge_kernel.size
def size_faces (m : Mesh) : Nat := m.m_face_kernel.size
def size_tetrahedra (m : Mesh) : Nat := m.m_tetrahedron_kernel.size

end Mesh

/-! ## Boundary, closure, membership -/

/-- The overloads of `boundary_helper` for a key of dimension `d`. -/
def boundary_helper (m : Mesh) : (d : Nat) → Nat → SimplexSet → Option SimplexSet
  | 0, _, set => some set
  | d + 1, k, set => do
    let s ← m.lookup_simplex (d + 1) k
    s.m_boundary.foldlM (fun set b => boundary_helper m d b (set.insert d b)) set

/-- The call `boundary(k, result_set)` for one key. -/
def boundary (m : Mesh) (d : Nat) (k : Nat) (result_set : SimplexSet) : Option SimplexSet :=
  boundary_helper m d k result_set

/-- The call `closure(k, result_set)` for one key. -/
def closure (m : Mesh) (d : Nat) (k : Nat) (result_set : SimplexSet) : Option SimplexSet := do
  let set ← boundary_helper m d k result_set
  pure (set.insert d k)

/-- The loop of `in_boundary` that stops at the first `true`. -/
def first_true (g : Nat → Option Bool) : List Nat → Option Bool
  | [] => some false
  | x :: xs =>
    match g x with
    | none => none
    | some true => some true
    | some false => first_true g xs

/-- The call `in_boundary(f, s)` for `f` of dimension `fd` and `s` of dimension `sd`. -/
def in_boundary (m : Mesh) (fd f : Nat) : (sd : Nat) → Nat → Option Bool
  | 0, _ => some false
  | sd + 1, s =>
    if fd ≥ sd + 1 then some false
    else do
      let simplex ← m.lookup_simplex (sd + 1) s
      if fd + 1 < sd + 1 then
        first_true (fun b => in_boundary m fd f sd b) simplex.m_boundary.tail
      else
        pure (simplex.m_boundary.contains f)

/-! ## Labels and the star -/

mutual

/-- The template `reset_label` at dimension `d`, called on the simplex of key `k`. -/
def reset_label : (fuel : Nat) → (d : Nat) → (k : Nat) → Mesh → Option Mesh
  | 0, _, _, _ => none
  | fuel + 1, d, k, m => do
    let s ← m.lookup_simplex d k
    let m ← m.modify d k Simplex.reset_label
    s.m_co_boundary.foldlM (fun m c => do
      let simplex ← m.lookup_simplex (d + 1) c
      if simplex.m_label ≠ 0 then reset_co_label fuel (d + 1) c m else pure m) m

/-- The template `reset_co_label` at dimension `d`, called on the simplex of key `k`. -/
def reset_co_label : (fuel : Nat) → (d : Nat) → (k : Nat) → Mesh → Option Mesh
  | 0, _, _, _ => none
  | fuel + 1, d, k, m => do
    let s ← m.lookup_simplex d k
    let m ← m.modify d k Simplex.reset_label
    s.m_boundary.foldlM (fun m b => do
      let simplex ← m.lookup_simplex (d - 1) b
      if simplex.m_label ≠ 0 then reset_label fuel (d - 1) b m else pure m) m

end

/-- The template `star_helper(s, t, set)` for `s` of dimension `sd` and `t` of dimension
`td`, with `star_helper_recurse_up` and `star_helper_recurse_down` unfolded in place. -/
def star_helper : (fuel : Nat) → (sd s td t : Nat) → Mesh → SimplexSet →
    Option (Mesh × SimplexSet)
  | 0, _, _, _, _, _, _ => none
  | fuel + 1, sd, s, td, t, m, set =>
    if ¬ sd < td then none
    else do
      let _ ← m.lookup_simplex td t
      let set := set.insert td t
      let m ← m.modify td t (fun x => x.set_label 1)
      -- star_helper_recurse_up
      let up ←
        (if td ≥ 3 then pure (m, set)
        else do
          let simplex ← m.lookup_simplex td t
          simplex.m_co_boundary.foldlM (fun (p : Mesh × SimplexSet) c => do
            let cs ← p.1.lookup_simplex (td + 1) c
            if cs.m_label = 0 then star_helper fuel sd s (td + 1) c p.1 p.2 else pure p)
            (m, set))
      -- star_helper_recurse_down
      if (sd = 1 ∧ td = 3) ∨ (sd = 0 ∧ td = 3) ∨ (sd = 0 ∧ td = 2) then do
        let simplex ← up.1.lookup_simplex td t
        simplex.m_boundary.foldlM (fun (p : Mesh × SimplexSet) b => do
          let bs ← p.1.lookup_simplex (td - 1) b
          if bs.m_label = 0 then do
            let ib ← in_boundary p.1 sd s (td - 1) b
            if ib then star_helper fuel sd s (td - 1) b p.1 p.2 else pure p
          else pure p) up
      else pure up

namespace Mesh

/-- A bound on the depth of the label-driven recursions: each nested call changes the
label of one more simplex. -/
def fuel (m : Mesh) : Nat :=
  m.m_node_kernel.elements.length + m.m_edge_kernel.elements.length +
  m.m_face_kernel.elements.length + m.m_tetrahedron_kernel.elements.length + 2

end Mesh

/-- The loops at the end of `star` that reset the labels of the keys of dimension `d`
in `s_set` with `reset_label`. -/
def star_reset (d : Nat) (s_set : SimplexSet) (m : Mesh) : Option Mesh :=
  (s_set.keys d).foldlM (fun m k => reset_label m.fuel d k m) m

/-- The last loop of `star`: `lookup_simplex(*tit).reset_label()`. -/
def star_reset_tetrahedra (s_set : SimplexSet) (m : Mesh) : Option Mesh :=
  s_set.tetrahedra.foldlM (fun m k => m.modify 3 k Simplex.reset_label) m

/-- The overloads of `star(key, s_set)` for a key of dimension `d`. -/
def star (m : Mesh) (d : Nat) (key : Nat) (s_set : SimplexSet) : Option (Mesh × SimplexSet) :=
  match d with
  | 0 => do
    let simplex ← m.lookup_simplex 0 key
    let (m, s_set) ← simplex.m_co_boundary.foldlM
      (fun (p : Mesh × SimplexSet) c => star_helper p.1.fuel 0 key 1 c p.1 p.2) (m, s_set)
    let m ← star_reset 1 s_set m
    let m ← star_reset 2 s_set m
    let m ← star_reset_tetrahedra s_set m
    pure (m, s_set)
  | 1 => do
    let simplex ← m.lookup_simplex 1 key
    let (m, s_set) ← simplex.m_co_boundary.foldlM
      (fun (p : Mesh × SimplexSet) c => star_helper p.1.fuel 1 key 2 c p.1 p.2) (m, s_set)
    let m ← star_reset 2 s_set m
    let m ← star_reset_tetrahedra s_set m
    pure (m, s_set)
  | 2 => do
    let simplex ← m.lookup_simplex 2 key
    pure (m, simplex.m_co_boundary.foldl (fun s c => s.insert 3 c) s_set)
  | _ => pure (m, s_set)

/-! ## Compression state -/

/-- The overloads of `uncompress(key)` for a key of dimension `d`. -/
def uncompress (m : Mesh) (d : Nat) (k : Nat) : Option Mesh :=
  if d ≥ 2 then pure m
  else do
    let m := m.incr_uncompressed
    let simplex ← m.lookup_simplex d k
    if !simplex.m_is_compact then pure m
    else do
      let m ← m.modify d k (fun x => x.set_compact false)
      let (m, star_set) ← star m d k SimplexSet.empty
      (star_set.keys (d + 1)).foldlM (fun m x => do
        let ib ← in_boundary m d k (d + 1) x
        if ib then m.modify d k (fun y => y.add_co_face x) else pure m) m

/-- The overload `uncompress(simplex_set_type&)`: edges first, then nodes. -/
def uncompress_set (m : Mesh) (s : SimplexSet) : Option Mesh := do
  let m ← s.edges.foldlM (fun m e => uncompress m 1 e) m
  s.nodes.foldlM (fun m n => uncompress m 0 n) m

/-! ## Insertion -/

/-- `m_*_kernel->create()` for the kernel of dimension `d`. -/
def create (m : Mesh) (d : Nat) : Mesh × Nat :=
  let r := (m.kernel d).create d
  (m.setKernel d r.1, r.2)

def insert_node (m : Mesh) (is_compact : Bool) : Option (Mesh × Nat) := do
  let (m, node) := create m 0
  let m ← m.modify 0 node (fun x => x.set_compact is_compact)
  pure (m, node)

def insert_edge (m : Mesh) (node1 node2 : Nat) (is_compact : Bool) : Option (Mesh × Nat) := do
  let (m, edge) := create m 1
  let m ← uncompress m 0 node1
  let m ← uncompress m 0 node2
  let m ← m.modify 0 node1 (fun x => x.add_co_face edge)
  let m ← m.modify 0 node2 (fun x => x.add_co_face edge)
  let m ← m.modify 1 edge (fun x => x.add_face node1)
  let m ← m.modify 1 edge (fun x => x.add_face node2)
  let m ← m.modify 1 edge (fun x => x.set_compact is_compact)
  pure (m, edge)

def insert_face (m : Mesh) (edge1 edge2 edge3 : Nat) : Option (Mesh × Nat) := do
  let (m, face) := create m 2
  let set ← closure m 1 edge1 SimplexSet.empty
  let set ← closure m 1 edge2 set
  let set ← closure m 1 edge3 set
  let m ← uncompress_set m set
  let m ← m.modify 1 edge1 (fun x => x.add_co_face face)
  let m ← m.modify 1 edge2 (fun x => x.add_co_face face)
  let m ← m.modify 1 edge3 (fun x => x.add_co_face face)
  let m ← m.modify 2 face (fun x => x.add_face edge1)
  let m ← m.modify 2 face (fun x => x.add_face edge2)
  let m ← m.modify 2 face (fun x => x.add_face edge3)
  pure (m, face)

/-- The block "update relations" of `insert_tetrahedron`. -/
def insert_tetrahedron_relations (m : Mesh) (tetrahedron face1 face2 face3 face4 : Nat) :
    Option Mesh := do
  let m ← m.modify 2 face1 (fun x => x.add_co_face tetrahedron)
  let m ← m.modify 2 face2 (fun x => x.add_co_face tetrahedron)
  let m ← m.modify 2 face3 (fun x => x.add_co_face tetrahedron)
  let m ← m.modify 2 face4 (fun x => x.add_co_face tetrahedron)
  let m ← m.modify 3 tetrahedron (fun x => x.add_face face1)
  let m ← m.modify 3 tetrahedron (fun x => x.add_face face2)
  let m ← m.modify 3 tetrahedron (fun x => x.add_face face3)
  m.modify 3 tetrahedron (fun x => x.add_face face4)

def insert_tetrahedron (m : Mesh) (face1 face2 face3 face4 : Nat) : Option (Mesh × Nat) := do
  let (m, tetrahedron) := create m 3
  let set ← closure m 2 face1 SimplexSet.empty
  let set ← closure m 2 face2 set
  let set ← closure m 2 face3 set
  let set ← closure m 2 face4 set
  let m ← uncompress_set m set
  let m ← insert_tetrahedron_relations m tetrahedron face1 face2 face3 face4
  pure (m, tetrahedron)

/-! ## Closure and boundary of a simplex set -/

/-- One level of `closure_helper(input_set, set)`: the keys of dimension `d` of
`input_set` are inserted into `set`, then the boundary of every key of dimension `d`
of `set` is inserted. -/
def closure_level (m : Mesh) (d : Nat) (input_set set : SimplexSet) : Option SimplexSet :=
  let set := (input_set.keys d).foldl (fun s k => s.insert d k) set
  (set.keys d).foldlM (fun s k => do
    let simplex ← m.lookup_simplex d k
    pure (simplex.m_boundary.foldl (fun s b => s.insert (d - 1) b) s)) set

/-- The two-argument `closure_helper(input_set, set)`. -/
def closure_helper (m : Mesh) (input_set set : SimplexSet) : Option SimplexSet := do
  let set ← closure_level m 3 input_set set
  let set ← closure_level m 2 input_set set
  let set ← closure_level m 1 input_set set
  pure (input_set.nodes.foldl (fun s k => s.insert 0 k) set)

/-- The overload `closure(input_set, result_set)`. -/
def closure_set (m : Mesh) (input_set result_set : SimplexSet) : Option SimplexSet :=
  closure_helper m input_set result_set

/-- The template `boundary_helper2<key_type_simplex, key_type_face>` for simplices of
dimension `d`; the occurrence counters are of type `char`. -/
def boundary_helper2 (m : Mesh) (d : Nat) (patch result_set : SimplexSet) :
    Option SimplexSet := do
  let occ ← (patch.keys d).foldlM (fun (acc : List Nat) k => do
    let simplex ← m.lookup_simplex d k
    pure (acc ++ simplex.m_boundary)) []
  let keys := occ.foldl (fun s k => set_insert k s) []
  let boundary_faces := (keys.filter (fun k => occ.count k % 256 = 1)).foldl
    (fun s k => s.insert (d - 1) k) SimplexSet.empty
  closure_set m boundary_faces result_set

/-- The overload `boundary(tetrahedra, result_set)`. -/
def boundary_set (m : Mesh) (tetrahedra result_set : SimplexSet) : Option SimplexSet :=
  boundary_helper2 m 3 tetrahedra result_set

/-! ## Link -/

/-- The overload `link(node_key_type const & n, result)`. -/
def link_node (m : Mesh) (n : Nat) (result : SimplexSet) : Option (Mesh × SimplexSet) := do
  let (m, st_n) ← star m 0 n SimplexSet.empty
  let st_n := st_n.insert 0 n
  let result ← closure_set m st_n result
  pure (m, result.difference st_n)

/-- The loop of `link(e, result, st_e)` over the edges of `temp`: an edge whose first or
second boundary node is `n1` or `n2` is skipped. -/
def link_edge_loop (m : Mesh) (n1 n2 : Nat) (edges : List Nat) (result : SimplexSet) :
    Option SimplexSet :=
  edges.foldlM (fun result e => do
    let simplex ← m.lookup_simplex 1 e
    let b0 ← simplex.m_boundary[0]?
    if b0 = n1 ∨ b0 = n2 then pure result
    else do
      let b1 ← simplex.m_boundary[1]?
      if b1 = n1 ∨ b1 = n2 then pure result
      else pure (result.insert 1 e)) result

/-- The overload `link(edge_key_type const & e, result, st_e)`; returns the mesh, `result`
and `st_e`. -/
def link_edge_st (m : Mesh) (e : Nat) (result st_e : SimplexSet) :
    Option (Mesh × SimplexSet × SimplexSet) := do
  let (m, st_e) ← star m 1 e st_e
  let temp ← closure_set m st_e SimplexSet.empty
  let cl_e ← closure m 1 e SimplexSet.empty
  let n1 ← cl_e.nodes[0]?
  let n2 ← cl_e.nodes[1]?
  let temp := temp.difference st_e
  let temp := temp.difference cl_e
  let result ← link_edge_loop m n1 n2 temp.edges result
  let temp := temp.filter_nodes
  pure (m, result.add temp, st_e)

/-- The overload `link(edge_key_type const & e, result)`. -/
def link_edge (m : Mesh) (e : Nat) (result : SimplexSet) : Option (Mesh × SimplexSet) := do
  let (m, result, _) ← link_edge_st m e result SimplexSet.empty
  pure (m, result)

/-! ## Unsafe primitives -/

/-- The overloads of `unsafe_erase`. -/
def unsafe_erase (m : Mesh) (d : Nat) (key : Nat) : Option Mesh :=
  match (m.kernel d).erase key with
  | some K => some (m.setKernel d K)
  | none => none

/-- The overload `unsafe_remove(tetrahedron_key_type const & key)`. -/
def unsafe_remove_tetrahedron (m : Mesh) (key : Nat) : Option Mesh := do
  let tet ← m.lookup_simplex 3 key
  let m ← tet.m_boundary.foldlM (fun m f => m.modify 2 f (fun x => x.remove_co_face key)) m
  unsafe_erase m 3 key

/-- The inner loop of `repair_co_boundaries` for one simplex `b` (of dimension `d`) on the
boundary list of the simplex `k` (of dimension `d + 1`) of the boundary set. -/
def repair_one (interior : SimplexSet) (d : Nat) (k : Nat)
    (p : Mesh × List Nat) (b : Nat) : Option (Mesh × List Nat) :=
  if p.2.contains b then pure p
  else do
    let simplex ← p.1.lookup_simplex d b
    let m ← (match simplex.m_co_boundary.find? (fun c => interior.contains (d + 1) c) with
      | some c => p.1.modify d b
          (fun x => x.set_co_boundary_set (set_erase c (set_insert k x.m_co_boundary)))
      | none => some p.1)
    pure (m, set_insert b p.2)

/-- One of the two passes of `repair_co_boundaries`: over the simplices of dimension
`d + 1` of `boundary`, repairing simplices of dimension `d`. -/
def repair_pass (interior boundary : SimplexSet) (d : Nat) (m : Mesh) : Option Mesh := do
  let r ← (boundary.keys (d + 1)).foldlM (fun (p : Mesh × List Nat) k => do
    let simplex ← p.1.lookup_simplex (d + 1) k
    simplex.m_boundary.foldlM (repair_one interior d k) p) (m, [])
  pure r.1

def repair_co_boundaries (m : Mesh) (interior boundary : SimplexSet) : Option Mesh := do
  let m ← repair_pass interior boundary 1 m
  repair_pass interior boundary 0 m

/-! ## Edge collapse -/

/-- Modelled from the spec: the value of a default-constructed key (`key.h` is not part of
the sources); it is never the key of a live simplex. -/
def undefined_key : Nat := 4294967295

/-- `std::map<key, key>::operator[]` as an assignment, on a list ascending in the keys. -/
def map_set (k v : Nat) : List (Nat × Nat) → List (Nat × Nat)
  | [] => [(k, v)]
  | x :: xs =>
    if k < x.1 then (k, v) :: x :: xs
    else if k = x.1 then (k, v) :: xs
    else x :: map_set k v xs

/-- `std::map<key, key>::operator[]` as a read. -/
def map_get (k : Nat) (mp : List (Nat × Nat)) : Nat :=
  match mp.find? (fun x => x.1 = k) with
  | some x => x.2
  | none => undefined_key

def edge_collapse_precond (m : Mesh) (e n1 n2 : Nat) : Option (Mesh × Bool) := do
  let (m, lk_e) ← link_edge m e SimplexSet.empty
  let (m, lk1) ← link_node m n1 SimplexSet.empty
  let (m, lk12) ← link_node m n2 SimplexSet.empty
  let lk12 := lk12.intersection lk1
  let lk12 := lk12.difference lk_e
  if lk12.size_nodes = 0 ∧ lk12.size_edges = 0 ∧ lk12.size_faces = 0 then pure (m, true)
  else pure (m, false)

/-- The pair of keys found by the inner loops of `edge_collapse_clear_interior`: among
the entries of `bnd` that pass `keep`, the last one in `lk1` (second component) and the
last one in `lk2` (first component). -/
def collapse_pair (lk1 lk2 : SimplexSet) (d : Nat) (keep : Nat → Bool) (bnd : List Nat) :
    Nat × Nat :=
  bnd.foldl (fun (p : Nat × Nat) b =>
    if keep b then
      let p := if lk1.contains d b then (p.1, b) else p
      if lk2.contains d b then (b, p.2) else p
    else p) (undefined_key, undefined_key)

def edge_collapse_clear_interior (m : Mesh) (e : Nat) (st_e lk1 lk2 : SimplexSet) :
    Option (Mesh × List (Nat × Nat) × List (Nat × Nat)) := do
  let (m, face_2_face_map) ← st_e.tetrahedra.foldlM
    (fun (p : Mesh × List (Nat × Nat)) t => do
      let simplex ← p.1.lookup_simplex 3 t
      let f := collapse_pair lk1 lk2 2 (fun b => !st_e.contains 2 b) simplex.m_boundary
      let m ← unsafe_remove_tetrahedron p.1 t
      pure (m, map_set f.2 f.1 p.2)) (m, [])
  let (m, edge_2_edge_map) ← st_e.faces.foldlM
    (fun (p : Mesh × List (Nat × Nat)) f => do
      let simplex ← p.1.lookup_simplex 2 f
      let ee := collapse_pair lk1 lk2 1 (fun b => b != e) simplex.m_boundary
      let m ← unsafe_erase p.1 2 f
      pure (m, map_set ee.2 ee.1 p.2)) (m, [])
  let m ← unsafe_erase m 1 e
  pure (m, edge_2_edge_map, face_2_face_map)

/-- The two closing loops of `edge_collapse_sew_hole_up`: for every pair `(old, new)` of
the map (simplices of dimension `d + 1`), `old` is replaced by `new` in the co-boundary of
every simplex on the boundary list of `old`, and `old` is erased. -/
def sew_replace (d : Nat) (mp : List (Nat × Nat)) (m : Mesh) : Option Mesh :=
  mp.foldlM (fun m kv => do
    let simplex ← m.lookup_simplex (d + 1) kv.1
    let m ← simplex.m_boundary.foldlM (fun m b => do
      let bs ← m.lookup_simplex d b
      if bs.m_co_boundary.length ≠ 1 then none
      else
        let new_coboundary := bs.m_co_boundary.foldl
          (fun s c => if c = kv.1 then set_insert kv.2 s else set_insert c s) []
        m.modify d b (fun x => x.set_co_boundary_set
          (new_coboundary.foldl (fun s c => set_insert c s) []))) m
    unsafe_erase m (d + 1) kv.1) m

/-- The key set `to_be_removed` built by the first two loops of
`edge_collapse_sew_hole_up`: the keys of the two maps. -/
def to_be_removed (edge_2_edge_map face_2_face_map : List (Nat × Nat)) : SimplexSet :=
  face_2_face_map.foldl (fun s kv => s.insert 2 kv.1)
    (edge_2_edge_map.foldl (fun s kv => s.insert 1 kv.1) SimplexSet.empty)

/-- The loop of `edge_collapse_sew_hole_up` over the edges of `st2`: the first entry `n2`
of the boundary list becomes `n1`. -/
def sew_edges (m : Mesh) (n1 n2 : Nat) (st2 st_e to_be_removed : SimplexSet) : Option Mesh :=
  st2.edges.foldlM (fun m e =>
    if !st_e.contains 1 e && !to_be_removed.contains 1 e then do
      let simplex ← m.lookup_simplex 1 e
      match simplex.m_boundary.indexOf? n2 with
      | some i => m.modify 1 e (fun x => x.set_boundary_list (x.m_boundary.set i n1))
      | none => pure m
    else pure m) m

/-- The loop of `edge_collapse_sew_hole_up` over the faces of `st2`. -/
def sew_faces (m : Mesh) (st2 st_e to_be_removed : SimplexSet)
    (edge_2_edge_map : List (Nat × Nat)) : Option Mesh :=
  st2.faces.foldlM (fun m f =>
    if !st_e.contains 2 f && !to_be_removed.contains 2 f then
      m.modify 2 f (fun x => x.set_boundary_list (x.m_boundary.map
        (fun b => if to_be_removed.contains 1 b then map_get b edge_2_edge_map else b)))
    else pure m) m

/-- The loop of `edge_collapse_sew_hole_up` over the tetrahedra of `st2`. -/
def sew_tetrahedra (m : Mesh) (st2 st_e to_be_removed : SimplexSet)
    (face_2_face_map : List (Nat × Nat)) : Option Mesh :=
  st2.tetrahedra.foldlM (fun m t =>
    if !st_e.contains 3 t then do
      let simplex ← m.lookup_simplex 3 t
      (List.range simplex.m_boundary.length).foldlM (fun m i => do
        let tet ← m.lookup_simplex 3 t
        let b ← tet.m_boundary[i]?
        if to_be_removed.contains 2 b then do
          let f := map_get b face_2_face_map
          let m ← m.modify 3 t (fun x => x.set_boundary_list (x.m_boundary.set i f))
          m.modify 2 f (fun x => x.add_co_face t)
        else pure m) m
    else pure m) m

def edge_collapse_sew_hole_up (m : Mesh) (n1 n2 : Nat) (st2 st_e : SimplexSet)
    (edge_2_edge_map face_2_face_map : List (Nat × Nat)) : Option Mesh := do
  let to_be_removed := to_be_removed edge_2_edge_map face_2_face_map
  let m ← sew_edges m n1 n2 st2 st_e to_be_removed
  let m ← sew_faces m st2 st_e to_be_removed edge_2_edge_map
  let m ← sew_tetrahedra m st2 st_e to_be_removed face_2_face_map
  let m ← sew_replace 1 face_2_face_map m
  let m ← sew_replace 0 edge_2_edge_map m
  unsafe_erase m 0 n2

/-- The part of `edge_collapse_helper` after the precondition check. -/
def edge_collapse_body (m : Mesh) (e n1 n2 : Nat) : Option (Mesh × Int) := do
  let (m, st2) ← star m 0 n2 SimplexSet.empty
  let (m, lk1) ← link_node m n1 SimplexSet.empty
  let (m, lk2) ← link_node m n2 SimplexSet.empty
  let (m, st_e) ← star m 1 e SimplexSet.empty
  let st_e := st_e.insert 1 e
  let (m, _) ← link_edge m e SimplexSet.empty
  let st_e_boundary ← boundary_set m st_e SimplexSet.empty
  let st_e_boundary := st_e_boundary.difference st_e
  let m ← repair_co_boundaries m st_e st_e_boundary
  let (m, edge_2_edge_map, face_2_face_map) ←
    edge_collapse_clear_interior m e st_e lk1 lk2
  let m ← edge_collapse_sew_hole_up m n1 n2 st2 st_e edge_2_edge_map face_2_face_map
  pure (m, (n1 : Int))

/-- The call `edge_collapse_helper(e, n1, n2)`: the sentinel `-1` when the precondition
check fails. -/
def edge_collapse_helper (m : Mesh) (e n1 n2 : Nat) : Option (Mesh × Int) := do
  let (m, ok) ← edge_collapse_precond m e n1 n2
  if !ok then pure (m, -1)
  else edge_collapse_body m e n1 n2

def edge_collapse (m : Mesh) (e : Nat) : Option (Mesh × Int) := do
  let simplex ← m.lookup_simplex 1 e
  let n1 ← simplex.m_boundary[0]?
  let n2 ← simplex.m_boundary[1]?
  edge_collapse_helper m e n1 n2

/-! ## Compression -/

mutual

/-- The template `label_co_bound(ssk, s, label)`: `ssk` has dimension `sd`, `s` is the
simplex of key `k` and dimension `d`. -/
def label_co_bound : (fuel : Nat) → (sd ssk d k : Nat) → (label : Int) → Mesh → Option Mesh
  | 0, _, _, _, _, _, _ => none
  | fuel + 1, sd, ssk, d, k, label, m => do
    let s ← m.lookup_simplex d k
    if s.m_label ≠ 0 then none
    else do
      let m ← m.modify d k (fun x => x.set_label label)
      s.m_co_boundary.foldlM (fun m c => do
        let simplex ← m.lookup_simplex (d + 1) c
        if simplex.m_label = 0 then do
          let s_boundary ← boundary m (d + 1) c SimplexSet.empty
          if s_boundary.contains sd ssk then label_co_co_bound fuel sd ssk (d + 1) c label m
          else pure m
        else pure m) m

/-- The template `label_co_co_bound(ssk, s, label)`. -/
def label_co_co_bound : (fuel : Nat) → (sd ssk d k : Nat) → (label : Int) → Mesh → Option Mesh
  | 0, _, _, _, _, _, _ => none
  | fuel + 1, sd, ssk, d, k, label, m => do
    let s ← m.lookup_simplex d k
    if s.m_label ≠ 0 then none
    else do
      let m ← m.modify d k (fun x => x.set_label label)
      s.m_boundary.foldlM (fun m b => do
        let simplex ← m.lookup_simplex (d - 1) b
        if simplex.m_label = 0 then do
          let s_boundary ← boundary m (d - 1) b SimplexSet.empty
          if s_boundary.contains sd ssk then label_co_bound fuel sd ssk (d - 1) b label m
          else pure m
        else pure m) m

end

/-- The body of the loops of `compress` for one node (`d = 0`) or edge (`d = 1`). -/
def compress_one (d : Nat) (m : Mesh) (k : Nat) : Option Mesh := do
  let simplex ← m.lookup_simplex d k
  if simplex.m_is_compact then pure m
  else do
    let m ← m.modify d k (fun x => x.set_compact true)
    let vec := simplex.m_co_boundary
    let (m, _) ← vec.foldlM (fun (p : Mesh × Int) c => do
      let cs ← p.1.lookup_simplex (d + 1) c
      if cs.m_label = 0 then do
        let m ← label_co_bound p.1.fuel d k (d + 1) c p.2 p.1
        pure (m, p.2 + 1)
      else pure p) (m, (1 : Int))
    let m ← m.modify d k (fun x => x.set_co_boundary_set [])
    let (m, _) ← vec.foldlM (fun (p : Mesh × Int) c => do
      let cs ← p.1.lookup_simplex (d + 1) c
      if ¬ cs.m_label ≤ p.2 then none
      else do
        let q ←
          (if cs.m_label = p.2 then do
            let m ← p.1.modify d k (fun x => x.add_co_face c)
            pure (m, p.2 + 1)
          else pure p)
        let m ← reset_label q.1.fuel (d + 1) c q.1
        pure (m, q.2)) (m, (1 : Int))
    if d = 0 then pure { m with m_uncompressed := 0 } else pure m

/-- The call `compress(s)`: nodes first, then edges. -/
def compress (m : Mesh) (s : SimplexSet) : Option Mesh := do
  let m ← s.nodes.foldlM (compress_one 0) m
  s.edges.foldlM (compress_one 1) m

/-! ## Undo marks -/

namespace Mesh

/-- The undo stack of dimension `d`. -/
def undo_stack (m : Mesh) (d : Nat) : List UndoInfo :=
  match d with
  | 0 => m.m_node_undo_stack
  | 1 => m.m_edge_undo_stack
  | 2 => m.m_face_undo_stack
  | _ => m.m_tetrahedron_undo_stack

def set_undo_stack (m : Mesh) (d : Nat) (l : List UndoInfo) : Mesh :=
  match d with
  | 0 => { m with m_node_undo_stack := l }
  | 1 => { m with m_edge_undo_stack := l }
  | 2 => { m with m_face_undo_stack := l }
  | _ => { m with m_tetrahedron_undo_stack := l }

/-- The mark stack of dimension `d`; its front is the head of the list. -/
def mark_stack (m : Mesh) (d : Nat) : List Nat :=
  match d with
  | 0 => m.m_node_mark_stack
  | 1 => m.m_edge_mark_stack
  | 2 => m.m_face_mark_stack
  | _ => m.m_tetrahedron_mark_stack

def set_mark_stack (m : Mesh) (d : Nat) (l : List Nat) : Mesh :=
  match d with
  | 0 => { m with m_node_mark_stack := l }
  | 1 => { m with m_edge_mark_stack := l }
  | 2 => { m with m_face_mark_stack := l }
  | _ => { m with m_tetrahedron_mark_stack := l }

end Mesh

/-- The snapshot that `set_undo_mark` stores for the simplex `s` of key `k` and dimension
`d`: nodes have no `old_boundary`, tetrahedra no `old_co_boundary`. -/
def undo_info (d : Nat) (k : Nat) (s : Simplex) : UndoInfo :=
  { key := k,
    old_boundary := if 1 ≤ d then s.m_boundary else [],
    old_co_boundary := if d ≤ 2 then s.m_co_boundary else [] }

/-- One of the four blocks of `set_undo_mark`, for the dimension `d`. The simplex gets a
copy of its containers, the undo stack keeps the originals. -/
def set_undo_mark_dim (d : Nat) (marked_simplices : SimplexSet) (m : Mesh) : Option Mesh :=
  if (marked_simplices.keys d).length > 0 then do
    let m := m.set_mark_stack d ((marked_simplices.keys d).length :: m.mark_stack d)
    let m := m.setKernel d (m.kernel d).set_undo_mark
    (marked_simplices.keys d).foldlM (fun m k => do
      let s ← m.lookup_simplex d k
      pure (m.set_undo_stack d (m.undo_stack d ++ [undo_info d k s]))) m
  else pure m

def set_undo_mark (m : Mesh) (marked_simplices : SimplexSet) : Option Mesh := do
  let m ← set_undo_mark_dim 0 marked_simplices m
  let m ← set_undo_mark_dim 1 marked_simplices m
  let m ← set_undo_mark_dim 2 marked_simplices m
  set_undo_mark_dim 3 marked_simplices m

/-- The restore of one undo record of dimension `d`. -/
def undo_restore (d : Nat) (info : UndoInfo) (s : Simplex) : Simplex :=
  let s := if d ≤ 2 then s.set_co_boundary_set info.old_co_boundary else s
  if 1 ≤ d then s.set_boundary_list info.old_boundary else s

/-- One of the four blocks of `undo`, for the dimension `d`. -/
def undo_dim (d : Nat) (m : Mesh) : Option Mesh :=
  match m.mark_stack d with
  | [] => pure m
  | cnt :: rest => do
    let K ← (m.kernel d).undo
    let m := m.setKernel d K
    let m ← (List.range cnt).foldlM (fun m i =>
      if (m.undo_stack d).length < i + 1 then none
      else do
        let info ← (m.undo_stack d)[(m.undo_stack d).length - (i + 1)]?
        m.modify d info.key (undo_restore d info)) m
    if (m.undo_stack d).length < cnt then none
    else
      let m := m.set_undo_stack d ((m.undo_stack d).take ((m.undo_stack d).length - cnt))
      pure (m.set_mark_stack d rest)

def undo (m : Mesh) : Option Mesh := do
  let m ← undo_dim 0 m
  let m ← undo_dim 1 m
  let m ← undo_dim 2 m
  undo_dim 3 m

/-! ## Predicates used in the statements -/

/-- The meshes built from the empty mesh by the public insert operators, with the default
`is_compact = false`. -/
inductive Reachable : Mesh → Prop
  | empty : Reachable Mesh.empty
  | node {m m' : Mesh} {k : Nat} :
      Reachable m → insert_node m false = some (m', k) → Reachable m'
  | edge {m m' : Mesh} {n1 n2 k : Nat} :
      Reachable m → insert_edge m n1 n2 false = some (m', k) → Reachable m'
  | face {m m' : Mesh} {e1 e2 e3 k : Nat} :
      Reachable m → insert_face m e1 e2 e3 = some (m', k) → Reachable m'
  | tetrahedron {m m' : Mesh} {f1 f2 f3 f4 k : Nat} :
      Reachable m → insert_tetrahedron m f1 f2 f3 f4 = some (m', k) → Reachable m'

/-- Every live node and edge is uncompressed. -/
def Uncompressed (m : Mesh) : Prop :=
  ∀ d k s, d < 2 → m.lookup_simplex d k = some s → s.m_is_compact = false

/-- Every live edge, face and tetrahedron has a boundary list of length 2, 3 and 4. -/
def BoundaryArity (m : Mesh) : Prop :=
  ∀ d k s, 1 ≤ d → d ≤ 3 → m.lookup_simplex d k = some s → s.m_boundary.length = d + 1

/-- Literal bidirectional incidence: every entry of the boundary list of a live simplex is
live and lists the simplex in its co-boundary set. -/
def Incidence (m : Mesh) : Prop :=
  ∀ d k s, 1 ≤ d → d ≤ 3 → m.lookup_simplex d k = some s →
    ∀ b ∈ s.m_boundary, ∃ sb, m.lookup_simplex (d - 1) b = some sb ∧ k ∈ sb.m_co_boundary

/-- The simplex `s'` is the simplex `s` with a co-boundary that may have grown. -/
def CoGrow (s s' : Option Simplex) : Prop :=
  match s, s' with
  | none, none => True
  | some a, some b =>
    b.m_boundary = a.m_boundary ∧ b.m_is_compact = a.m_is_compact ∧
      ∀ y ∈ a.m_co_boundary, y ∈ b.m_co_boundary
  | _, _ => False

/-! ## Scripts of insertions and example meshes -/

/-- One call of a public insert operator, with the default `is_compact = false`. -/
inductive Insert where
  | node : Insert
  | edge (node1 node2 : Nat) : Insert
  | face (edge1 edge2 edge3 : Nat) : Insert
  | tetrahedron (face1 face2 face3 face4 : Nat) : Insert
deriving DecidableEq, Repr

/-- Runs one insertion. -/
def run_insert (m : Mesh) : Insert → Option (Mesh × Nat)
  | .node => insert_node m false
  | .edge n1 n2 => insert_edge m n1 n2 false
  | .face e1 e2 e3 => insert_face m e1 e2 e3
  | .tetrahedron f1 f2 f3 f4 => insert_tetrahedron m f1 f2 f3 f4

/-- Runs a script of insertions, dropping the returned keys. -/
def run_inserts (m : Mesh) : List Insert → Option Mesh
  | [] => some m
  | i :: rest =>
    match run_insert m i with
    | some r => run_inserts r.1 rest
    | none => none

/-- The script that builds one triangle: nodes 0, 1, 2, then edges 0 = (0,1), 1 = (1,2),
2 = (0,2), then the face on the three edges. -/
def triangle_script : List Insert :=
  [.node, .node, .node, .edge 0 1, .edge 1 2, .edge 0 2, .face 0 1 2]

/-- The mesh with one triangle. -/
def triangle_mesh : Mesh := (run_inserts Mesh.empty triangle_script).getD Mesh.empty

/-- The script that builds one tetrahedron on the nodes 0..3: the edges
0 = (0,1), 1 = (0,2), 2 = (0,3), 3 = (1,2), 4 = (1,3), 5 = (2,3), the faces
0 = (012), 1 = (013), 2 = (023), 3 = (123) and the tetrahedron on the four faces. -/
def tetrahedron_script : List Insert :=
  [.node, .node, .node, .node,
   .edge 0 1, .edge 0 2, .edge 0 3, .edge 1 2, .edge 1 3, .edge 2 3,
   .face 0 3 1, .face 0 4 2, .face 1 5 2, .face 3 5 4,
   .tetrahedron 0 1 2 3]

/-- The mesh with one tetrahedron. -/
def tetrahedron_mesh : Mesh := (run_inserts Mesh.empty tetrahedron_script).getD Mesh.empty

/-- The set `R` is the closure of `S` in the mesh `m`: its key sets are ascending, its
edges, faces and tetrahedra are live, its tetrahedra are those of `S`, and in every lower
dimension it holds the keys of `S` and the boundary entries of its keys one dimension up. -/
def IsClosure (m : Mesh) (S R : SimplexSet) : Prop :=
  (∀ d, d ≤ 3 → (R.keys d).Sorted (· < ·)) ∧
  (∀ d, 1 ≤ d → d ≤ 3 → ∀ k ∈ R.keys d, (m.lookup_simplex d k).isSome) ∧
  (∀ x, x ∈ R.keys 3 ↔ x ∈ S.keys 3) ∧
  (∀ d, d < 3 → ∀ x, x ∈ R.keys d ↔ x ∈ S.keys d ∨
    ∃ k ∈ R.keys (d + 1), ∃ a, m.lookup_simplex (d + 1) k = some a ∧ x ∈ a.m_boundary)

/-- No dangling keys: every entry of the boundary list of a live simplex is live. -/
def BoundaryLive (m : Mesh) : Prop :=
  ∀ d k s, 1 ≤ d → d ≤ 3 → m.lookup_simplex d k = some s →
    ∀ b ∈ s.m_boundary, (m.lookup_simplex (d - 1) b).isSome

/-- Every edge, face and tetrahedron of the set `S` is live in `m`. -/
def LiveSet (m : Mesh) (S : SimplexSet) : Prop :=
  ∀ d, 1 ≤ d → d ≤ 3 → ∀ k ∈ S.keys d, (m.lookup_simplex d k).isSome

/-! ## Labels -/

/-- The label stored in slot `k` of a kernel (0 when there is no slot). -/
def Kernel.label (K : Kernel) (k : Nat) : Int :=
  match K.elements[k]? with
  | some e => e.value.m_label
  | none => 0

/-- The label stored in slot `k` of the kernel of dimension `d`. -/
def Mesh.label (m : Mesh) (d k : Nat) : Int := (m.kernel d).label k

/-- Every label of the mesh is 0 (no traversal is in progress). -/
def LabelsZero (m : Mesh) : Prop := ∀ d k, m.label d k = 0

/-- The kernel with every label set to 0. -/
def Kernel.erase_labels (K : Kernel) : Kernel :=
  { K with elements := K.elements.map (fun e => { e with value := e.value.reset_label }) }

/-- The mesh with every label set to 0. -/
def Mesh.erase_labels (m : Mesh) : Mesh :=
  { m with
    m_node_kernel := m.m_node_kernel.erase_labels,
    m_edge_kernel := m.m_edge_kernel.erase_labels,
    m_face_kernel := m.m_face_kernel.erase_labels,
    m_tetrahedron_kernel := m.m_tetrahedron_kernel.erase_labels }

/-- The mesh `m'` is the mesh `m` with some labels reset to 0. -/
def LabelsShrink (m m' : Mesh) : Prop :=
  m'.erase_labels = m.erase_labels ∧ ∀ d k, m'.label d k ≠ 0 → m.label d k ≠ 0

/-- One step of the upward traversal of `star` for a simplex of dimension `sd`: only labels
change, and a simplex that got a label is in the result set, in a dimension above `sd`. -/
def StarStep (sd : Nat) (p p' : Mesh × SimplexSet) : Prop :=
  p'.1.erase_labels = p.1.erase_labels ∧
  (∀ d k, d ≤ 3 → p'.1.label d k ≠ 0 → p.1.label d k ≠ 0 ∨ (sd < d ∧ k ∈ p'.2.keys d)) ∧
  (∀ d k, k ∈ p.2.keys d → k ∈ p'.2.keys d)

/-- A decidable form of `LabelsZero`: every slot of the four kernels has label 0. -/
def Mesh.labels_zero_check (m : Mesh) : Bool :=
  m.m_node_kernel.elements.all (fun e => e.value.m_label == 0) &&
  m.m_edge_kernel.elements.all (fun e => e.value.m_label == 0) &&
  m.m_face_kernel.elements.all (fun e => e.value.m_label == 0) &&
  m.m_tetrahedron_kernel.elements.all (fun e => e.value.m_label == 0)

/-- The test of the loop of `link(e, result, st_e)` on the edge `x`: neither its first nor
its second boundary node is `n1` or `n2`. -/
def avoids_nodes (m : Mesh) (n1 n2 x : Nat) : Bool :=
  match m.lookup_simplex 1 x with
  | some s =>
    !(s.m_boundary[0]? == some n1 || s.m_boundary[0]? == some n2 ||
      s.m_boundary[1]? == some n1 || s.m_boundary[1]? == some n2)
  | none => false

/-- The script that builds three nodes and the three edges 0 = (0,1), 1 = (1,2),
2 = (0,2) between them, without a face. -/
def hollow_triangle_script : List Insert :=
  [.node, .node, .node, .edge 0 1, .edge 1 2, .edge 0 2]

/-- The mesh with the three edges of a triangle and no face. -/
def hollow_triangle_mesh : Mesh :=
  (run_inserts Mesh.empty hollow_triangle_script).getD Mesh.empty

/-! ## Mutations of the incidence relations -/

/-- A mutation of the topology of one simplex: any rewrite of the boundary list of an
edge, face or tetrahedron (`add_face`, a write through a boundary iterator), or of the
co-boundary set of a node, edge or face (`add_co_face`, `remove_co_face`, `insert`,
`erase`, `clear`). -/
inductive Mutation where
  | boundary (d k : Nat) (l : List Nat) : Mutation
  | co_boundary (d k : Nat) (l : List Nat) : Mutation
deriving DecidableEq, Repr

/-- Applies one mutation; it fails on a key that is not live and on a dimension that has
no such relation. -/
def apply_mutation (m : Mesh) : Mutation → Option Mesh
  | .boundary d k l =>
    if 1 ≤ d ∧ d ≤ 3 then m.modify d k (fun x => x.set_boundary_list l) else none
  | .co_boundary d k l =>
    if d ≤ 2 then m.modify d k (fun x => x.set_co_boundary_set l) else none

/-- Applies a sequence of mutations. -/
def apply_mutations (m : Mesh) (ops : List Mutation) : Option Mesh :=
  ops.foldlM apply_mutation m

/-- The mesh `m'` has the bookkeeping of `m` (undo stacks, mark stacks, kernel marks, the
live keys), the boundary lists of nodes and the co-boundary sets of tetrahedra of `m`. -/
def SameFrame (m m' : Mesh) : Prop :=
  (∀ d, m'.undo_stack d = m.undo_stack d ∧ m'.mark_stack d = m.mark_stack d ∧
    (m'.kernel d).marks = (m.kernel d).marks ∧
    (m'.kernel d).elements.map (fun e => e.valid) =
      (m.kernel d).elements.map (fun e => e.valid)) ∧
  (∀ d k s, m.lookup_simplex d k = some s → ∃ s', m'.lookup_simplex d k = some s' ∧
    (d = 0 → s'.m_boundary = s.m_boundary) ∧ (3 ≤ d → s'.m_co_boundary = s.m_co_boundary))

/-- The topology of the simplex `k` of dimension `d` is the same in `m'` as in `m`. -/
def SameTopology (m m' : Mesh) (d k : Nat) : Prop :=
  ∃ s s', m.lookup_simplex d k = some s ∧ m'.lookup_simplex d k = some s' ∧
    s'.m_boundary = s.m_boundary ∧ s'.m_co_boundary = s.m_co_boundary

/-- The meshes `x` and `y` agree on the dimension `d`: same kernel, undo stack and mark
stack. -/
def DimEq (d : Nat) (x y : Mesh) : Prop :=
  y.kernel d = x.kernel d ∧ y.undo_stack d = x.undo_stack d ∧ y.mark_stack d = x.mark_stack d

/-- An example for the undo log: the node 0, the edge 0, the face 0 and the tetrahedron 0
of the mesh with one tetrahedron are marked. -/
def undo_example_set : SimplexSet := ⟨[0], [0], [0], [0]⟩

/-- The mesh with one tetrahedron after `set_undo_mark(undo_example_set)`. -/
def undo_example_marked : Mesh :=
  (set_undo_mark tetrahedron_mesh undo_example_set).getD Mesh.empty

/-- Mutations of the four marked simplices (and of the unmarked node 1). -/
def undo_example_ops : List Mutation :=
  [.co_boundary 0 0 [], .boundary 1 0 [3, 2], .co_boundary 1 0 [7], .boundary 2 0 [],
   .co_boundary 0 1 [5], .boundary 3 0 [3, 2, 1, 0], .co_boundary 2 0 [0, 9]]

/-- The marked mesh after the mutations. -/
def undo_example_mutated : Mesh :=
  (apply_mutations undo_example_marked undo_example_ops).getD Mesh.empty

/-! ## Tracking erasures and rewrites -/

/-- Compact form: every live node and edge stores exactly one representative co-face. -/
def CompactForm (m : Mesh) : Prop :=
  ∀ d k s, d < 2 → m.lookup_simplex d k = some s → s.m_co_boundary.length = 1

/-- The key set `E` with the key `k` of dimension `d` put in front. -/
def SimplexSet.cons (E : SimplexSet) (d k : Nat) : SimplexSet := E.setKeys d (k :: E.keys d)

/-- The mesh `m'` is the mesh `m` after the simplices of `E` have been erased (each once)
and incidence relations rewritten: the other simplices are live as before, and the
simplices selected by `P` have kept their boundary list. -/
def Tracks (P : Nat → Nat → Prop) (E : SimplexSet) (m m' : Mesh) : Prop :=
  (∀ d k, (m'.lookup_simplex d k).isSome ↔ ((m.lookup_simplex d k).isSome ∧ k ∉ E.keys d)) ∧
  (∀ d, (m'.kernel d).size + (E.keys d).length = (m.kernel d).size) ∧
  (∀ d k s s', P d k → m.lookup_simplex d k = some s → m'.lookup_simplex d k = some s' →
    s'.m_boundary = s.m_boundary)

/-- The key sets of `E'` put in front of those of `E`. -/
def SimplexSet.append (E E' : SimplexSet) : SimplexSet :=
  { nodes := E'.nodes ++ E.nodes, edges := E'.edges ++ E.edges,
    faces := E'.faces ++ E.faces, tetrahedra := E'.tetrahedra ++ E.tetrahedra }

/-- The map that a loop of `edge_collapse_clear_interior` builds over the simplices `keys`
of dimension `d`, as a function of the mesh `x` at the start of the loop. -/
def collapse_map (x : Mesh) (lk1 lk2 : SimplexSet) (d : Nat) (keep : Nat → Bool)
    (keys : List Nat) : List (Nat × Nat) :=
  keys.foldl (fun mp k =>
    let p := collapse_pair lk1 lk2 (d - 1) keep
      (((x.lookup_simplex d k).map (fun s => s.m_boundary)).getD [])
    map_set p.2 p.1 mp) []

/-- The simplices erased by `edge_collapse_clear_interior`. -/
def cleared (e : Nat) (st_e : SimplexSet) : SimplexSet :=
  ⟨[], [e], st_e.faces.reverse, st_e.tetrahedra.reverse⟩

/-- The boundary lists of the edges after the loop `sew_edges`, relative to the lists `s`
before it: the entries are old entries or `n1`, and `n2` has gone from the edges of `S`
that the loop rewrites. -/
def EdgesSewn (n1 n2 : Nat) (S : List Nat) (st_e tbr : SimplexSet) (x x' : Mesh) : Prop :=
  ∀ k s s', x.lookup_simplex 1 k = some s → x'.lookup_simplex 1 k = some s' →
    (∀ b ∈ s'.m_boundary, b ∈ s.m_boundary ∨ b = n1) ∧
    (s'.m_boundary = s.m_boundary ∨ n2 ∉ s'.m_boundary) ∧
    (k ∈ S → k ∉ st_e.edges → k ∉ tbr.edges → n2 ∉ s'.m_boundary)

/-- The key set that holds the keys `l` in dimension `d` and nothing else. -/
def erased_at (d : Nat) (l : List Nat) : SimplexSet := SimplexSet.empty.setKeys d l

/-! ## Boundary queries -/

/-- The overloads of `is_boundary` for a key of dimension `d`: a tetrahedron is never on
the boundary, a face is unless its co-boundary has size 2, an edge or a node is when its
star has no face or one of the faces of its star is. -/
def is_boundary (m : Mesh) (d : Nat) (k : Nat) : Option (Mesh × Bool) :=
  match d with
  | 2 => do
    let s ← m.lookup_simplex 2 k
    if s.m_co_boundary.length = 2 then pure (m, false) else pure (m, true)
  | 0 | 1 => do
    let (m, st) ← star m d k SimplexSet.empty
    if st.faces = [] then pure (m, true)
    else do
      let r ← first_true (fun f => do
        let s ← m.lookup_simplex 2 f
        pure (decide (s.m_co_boundary.length ≠ 2))) st.faces
      pure (m, r)
  | _ => pure (m, false)

/-! ## Commit -/

/-- One of the four blocks of `commit`, for the dimension `d`: the kernel commits, then
the records of the front mark are dropped from the undo stack. -/
def commit_dim (d : Nat) (m : Mesh) : Option Mesh := do
  let K ← (m.kernel d).commit
  let m := m.setKernel d K
  match m.mark_stack d with
  | [] => pure m
  | i :: rest =>
    if (m.undo_stack d).length < i then none
    else
      let m := m.set_undo_stack d ((m.undo_stack d).take ((m.undo_stack d).length - i))
      pure (m.set_mark_stack d rest)

def commit (m : Mesh) : Option Mesh := do
  let m ← commit_dim 0 m
  let m ← commit_dim 1 m
  let m ← commit_dim 2 m
  commit_dim 3 m

/-! ## Validation -/

/-- The body of the loop of `validate_faces` for the live face `f`; a failed assertion or
lookup is `none`. -/
def validate_face (m : Mesh) (f : Nat) : Option Unit := do
  let s ← m.lookup_simplex 2 f
  if s.m_boundary.length ≠ 3 then none
  else do
    s.m_boundary.foldlM (fun _ b => do
      let _ ← m.lookup_simplex 1 b
      pure ()) ()
    if ¬ s.m_co_boundary.length < 3 then none
    else if ¬ s.m_co_boundary.length > 0 then none
    else
      s.m_co_boundary.foldlM (fun _ t => do
        let ts ← m.lookup_simplex 3 t
        if ts.m_boundary.contains f then pure () else none) ()

def validate_faces (m : Mesh) : Option Unit :=
  m.m_face_kernel.keys.foldlM (fun _ f => validate_face m f) ()

/-! ## Removal -/

/-- The call `compress_all()`: the whole mesh is compressed when more than a fifth of the
nodes and edges count as uncompressed. -/
def compress_all (m : Mesh) : Option Mesh :=
  if m.m_uncompressed * 5 > m.size_nodes + m.size_edges then
    compress m ⟨m.m_node_kernel.keys, m.m_edge_kernel.keys, m.m_face_kernel.keys,
      m.m_tetrahedron_kernel.keys⟩
  else pure m

mutual

/-- The overloads of `remove(key)` for a key of dimension `d`. The overload for nodes
erases the key from `m_face_kernel`, as the source does. -/
def remove : (fuel : Nat) → (d : Nat) → (key : Nat) → Mesh → Option Mesh
  | 0, _, _, _ => none
  | fuel + 1, d, key, m => do
    let cls ← closure m d key SimplexSet.empty
    let m ← uncompress_set m cls
    let _ ← m.lookup_simplex d key
    let m ← (if d ≥ 3 then pure m else remove_co_boundary fuel d key m)
    let m ←
      (if d = 2 then do
        let set ← closure m 2 key SimplexSet.empty
        uncompress_set m set
      else pure m)
    let simplex ← m.lookup_simplex d key
    let m ←
      (if d = 0 then pure m
      else simplex.m_boundary.foldlM (fun m b => do
        let m ← (if d = 1 then uncompress m 0 b else pure m)
        m.modify (d - 1) b (fun x => x.remove_co_face key)) m)
    let m ← unsafe_erase m (if d = 0 then 2 else d) key
    compress_all m

/-- The loop `while (c_itr != co_boundary->end()) { remove(*c_itr); c_itr = begin(); }` of
`remove(key)` on the co-boundary of the simplex `key` of dimension `d`. -/
def remove_co_boundary : (fuel : Nat) → (d : Nat) → (key : Nat) → Mesh → Option Mesh
  | 0, _, _, _ => none
  | fuel + 1, d, key, m => do
    let simplex ← m.lookup_simplex d key
    match simplex.m_co_boundary with
    | [] => pure m
    | tmp :: _ => do
      let m ← remove fuel (d + 1) tmp m
      remove_co_boundary fuel d key m

end

/-! ## More example meshes -/

/-- The script that builds two tetrahedra on the nodes 0..4 glued along the face (123):
the edges 0 = (0,1), 1 = (0,2), 2 = (0,3), 3 = (1,2), 4 = (1,3), 5 = (2,3), 6 = (1,4),
7 = (2,4), 8 = (3,4), the faces 0 = (012), 1 = (013), 2 = (023), 3 = (123), 4 = (124),
5 = (134), 6 = (234), the tetrahedra 0 = (0123) and 1 = (1234). -/
def glued_script : List Insert :=
  [.node, .node, .node, .node, .node,
   .edge 0 1, .edge 0 2, .edge 0 3, .edge 1 2, .edge 1 3, .edge 2 3,
   .edge 1 4, .edge 2 4, .edge 3 4,
   .face 0 3 1, .face 0 4 2, .face 1 5 2, .face 3 5 4, .face 3 7 6, .face 4 8 6, .face 5 8 7,
   .tetrahedron 0 1 2 3, .tetrahedron 3 4 5 6]

/-- The mesh with two tetrahedra glued along one face. -/
def glued_mesh : Mesh := (run_inserts Mesh.empty glued_script).getD Mesh.empty

/-- The script that builds three tetrahedra around the edge 0 = (0,1), on the nodes 0..4:
the edges 1 = (0,2), 2 = (0,3), 3 = (0,4), 4 = (1,2), 5 = (1,3), 6 = (1,4), 7 = (2,3),
8 = (3,4), 9 = (2,4), the faces 0 = (012), 1 = (013), 2 = (014), 3 = (023), 4 = (123),
5 = (034), 6 = (134), 7 = (042), 8 = (142), the tetrahedra 0 = (0123), 1 = (0134),
2 = (0142). -/
def fan_script : List Insert :=
  [.node, .node, .node, .node, .node,
   .edge 0 1, .edge 0 2, .edge 0 3, .edge 0 4, .edge 1 2, .edge 1 3, .edge 1 4,
   .edge 2 3, .edge 3 4, .edge 2 4,
   .face 0 4 1, .face 0 5 2, .face 0 6 3, .face 1 7 2, .face 4 7 5, .face 2 8 3,
   .face 5 8 6, .face 3 9 1, .face 6 9 4,
   .tetrahedron 0 1 3 4, .tetrahedron 1 2 5 6, .tetrahedron 2 0 7 8]

/-- The mesh with three tetrahedra around one edge, as the insert operators leave it (every
node and edge uncompressed). -/
def fan_mesh : Mesh := (run_inserts Mesh.empty fan_script).getD Mesh.empty

/-- The mesh `fan_mesh` after `compress` on all its nodes and edges. -/
def fan_compact_mesh : Mesh :=
  (compress fan_mesh ⟨[0, 1, 2, 3, 4], [0, 1, 2, 3, 4, 5, 6, 7, 8, 9], [], []⟩).getD Mesh.empty

/-- The script that builds the triangle (123) as face 0 and the edge 3 = (0,1) from the
node 0 to it. -/
def stray_script : List Insert :=
  [.node, .node, .node, .node, .edge 1 2, .edge 2 3, .edge 1 3, .face 0 1 2, .edge 0 1]

/-- The mesh with one triangle and one more edge. -/
def stray_mesh : Mesh := (run_inserts Mesh.empty stray_script).getD Mesh.empty

/-! ## Orientation -/

/-- The template `invert_orientation(k)` for a key of dimension `d`: the first two entries
of the boundary list are swapped. -/
def invert_orientation (m : Mesh) (d k : Nat) : Option Mesh :=
  if d = 0 then pure m
  else do
    let s ← m.lookup_simplex d k
    match s.m_boundary with
    | a :: b :: rest => m.modify d k (fun x => x.set_boundary_list (b :: a :: rest))
    | _ => none

/-- The template `get_intersection(k1, k2, k)` for keys of dimension `d`: the first entry of
the boundary list of `k1` that is on the boundary list of `k2`, if there is one. The two
assertions are failures. -/
def get_intersection (m : Mesh) (d k1 k2 : Nat) : Option (Option Nat) :=
  if k1 = k2 then none
  else if d = 0 then none
  else do
    let s1 ← m.lookup_simplex d k1
    let s2 ← m.lookup_simplex d k2
    pure (s1.m_boundary.find? (fun b => s2.m_boundary.contains b))

/-- The template `orient_face_helper(sk, fk, consistently)` for `sk` of dimension `d` and
`fk` of dimension `d - 1`. -/
def orient_face_helper (m : Mesh) (d sk fk : Nat) (consistently : Bool) : Option Mesh :=
  if d ≤ 1 then none
  else do
    let simplex ← m.lookup_simplex d sk
    let face ← m.lookup_simplex (d - 1) fk
    let r ← simplex.m_boundary.foldlM (fun (p : List Nat × Nat × Nat) sb =>
      if sb = fk then pure (p.1, p.2.2 + 1, p.2.2)
      else do
        let res ← get_intersection m (d - 1) fk sb
        match res with
        | none => none
        | some ek =>
          if p.2.2 < p.1.length then pure (p.1.set p.2.2 ek, p.2.1, p.2.2 + 1) else none)
      (List.replicate face.m_boundary.length undefined_key, 0, 0)
    if r.2.1 = 0 then none
    else do
      let m ← m.modify (d - 1) fk (fun x => x.set_boundary_list r.1)
      if (r.2.1 % 2 = 0 ∧ consistently = true) ∨ (r.2.1 % 2 = 1 ∧ consistently = false) then
        invert_orientation m (d - 1) fk
      else pure m

/-- The template `orient_faces_oppositely(sk)` for `sk` of dimension `d`. -/
def orient_faces_oppositely (m : Mesh) (d sk : Nat) : Option Mesh := do
  let simplex ← m.lookup_simplex d sk
  simplex.m_boundary.foldlM (fun m f => orient_face_helper m d sk f false) m

/-- The template `orient_coface_helper(sk, cfk, consistently)` for `sk` of dimension `d`
and `cfk` of dimension `d + 1`. -/
def orient_coface_helper (m : Mesh) (d sk cfk : Nat) (consistently : Bool) : Option Mesh :=
  if d = 0 ∨ d ≥ 3 then none
  else do
    let simplex ← m.lookup_simplex d sk
    let coface ← m.lookup_simplex (d + 1) cfk
    let face_to_simplex ← coface.m_boundary.foldlM (fun (mp : List (Nat × Nat)) cfb =>
      if cfb ≠ sk then do
        let res ← get_intersection m d sk cfb
        match res with
        | none => none
        | some k => pure (map_set k cfb mp)
      else pure mp) []
    match coface.m_boundary with
    | [] => none
    | _ :: rest =>
      if rest.length < simplex.m_boundary.length then none
      else do
        let m ← m.modify (d + 1) cfk (fun x => x.set_boundary_list
          (sk :: (simplex.m_boundary.map (fun sb => map_get sb face_to_simplex) ++
            rest.drop simplex.m_boundary.length)))
        if consistently then pure m else invert_orientation m (d + 1) cfk

/-- The template `orient_coface_oppositely(fk, sk)`. -/
def orient_coface_oppositely (m : Mesh) (d fk sk : Nat) : Option Mesh :=
  orient_coface_helper m d fk sk false

/-! ## Unsafe insertion -/

/-- The overload `unsafe_insert_edge(node1, node2)`: no check, no co-boundary update. -/
def unsafe_insert_edge (m : Mesh) (node1 node2 : Nat) : Option (Mesh × Nat) := do
  let (m, edge) := create m 1
  let m ← m.modify 1 edge (fun x => x.add_face node1)
  let m ← m.modify 1 edge (fun x => x.add_face node2)
  pure (m, edge)

/-- The overload `unsafe_insert_face(edge1, edge2, edge3)`. -/
def unsafe_insert_face (m : Mesh) (edge1 edge2 edge3 : Nat) : Option (Mesh × Nat) := do
  let (m, face) := create m 2
  let m ← m.modify 2 face (fun x => x.add_face edge1)
  let m ← m.modify 2 face (fun x => x.add_face edge2)
  let m ← m.modify 2 face (fun x => x.add_face edge3)
  pure (m, face)

/-- The overload `unsafe_insert_tetrahedron(face1, face2, face3, face4)`. -/
def unsafe_insert_tetrahedron (m : Mesh) (face1 face2 face3 face4 : Nat) :
    Option (Mesh × Nat) := do
  let (m, tetrahedron) := create m 3
  let m ← insert_tetrahedron_relations m tetrahedron face1 face2 face3 face4
  pure (m, tetrahedron)

/-! ## Edge split -/

/-- The new edge from the node `k` to the new node `n` of `split_edge_helper`
(`unsafe_insert_edge(a, b)`, `set_compact(false)`, the entry of `node_2_edge_map` and the
insertion into the co-boundary of `n`). -/
def split_edge_spoke (n k a b : Nat) (p : Mesh × List (Nat × Nat)) :
    Option (Mesh × List (Nat × Nat)) := do
  let (m, new_edge) ← unsafe_insert_edge p.1 a b
  let m ← m.modify 1 new_edge (fun x => x.set_compact false)
  let m ← m.modify 0 n (fun x => x.add_co_face new_edge)
  pure (m, map_set k new_edge p.2)

/-- The body of the loop of `split_edge_helper` over the edges of the shell. -/
def split_edge_face (node_2_edge_map old_edge_2_face_map : List (Nat × Nat))
    (p : Mesh × List (Nat × Nat)) (eit : Nat) : Option (Mesh × List (Nat × Nat)) := do
  let s ← p.1.lookup_simplex 1 eit
  if s.m_boundary.length ≠ 2 then none
  else do
    let n1 ← s.m_boundary[0]?
    let n2 ← s.m_boundary[1]?
    let e1 := map_get n1 node_2_edge_map
    let e2 := map_get n2 node_2_edge_map
    let (m, f) ← unsafe_insert_face p.1 eit e1 e2
    let m ← m.modify 1 e1 (fun x => x.add_co_face f)
    let m ← m.modify 1 e2 (fun x => x.add_co_face f)
    let es ← m.lookup_simplex 1 eit
    let old := map_get eit old_edge_2_face_map
    let m ←
      (if (old_edge_2_face_map.map Prod.fst).contains eit ∧ es.m_co_boundary.contains old then
        m.modify 1 eit (fun x => x.set_co_boundary_set (set_insert f (set_erase old x.m_co_boundary)))
      else pure m)
    let m ← orient_coface_oppositely m 1 eit f
    pure (m, map_set eit f p.2)

/-- The body of the loop of `split_edge_helper` over the faces of the shell. -/
def split_edge_tetrahedron (edge_2_face_map face_2_tet_map : List (Nat × Nat))
    (p : Mesh × List (Nat × Nat)) (sfit : Nat) : Option (Mesh × List (Nat × Nat)) := do
  let s ← p.1.lookup_simplex 2 sfit
  if s.m_boundary.length ≠ 3 then none
  else do
    let e1 ← s.m_boundary[0]?
    let e2 ← s.m_boundary[1]?
    let e3 ← s.m_boundary[2]?
    let (m, tet) ← unsafe_insert_tetrahedron p.1 sfit (map_get e1 edge_2_face_map)
      (map_get e2 edge_2_face_map) (map_get e3 edge_2_face_map)
    let m ← orient_coface_oppositely m 2 sfit tet
    pure (m, map_set tet (map_get sfit face_2_tet_map) p.2)

/-- The first half of `split_edge_helper`: the star and the shell of `e`, the repair of the
co-boundaries, the maps from the old star and the orientation of the star. -/
def split_edge_prepare (m : Mesh) (e : Nat) :
    Option (Mesh × SimplexSet × SimplexSet × List (Nat × Nat) × List (Nat × Nat)) := do
  let (m, st_e) ← star m 1 e SimplexSet.empty
  let st_e := st_e.insert 1 e
  let shell ← closure_set m st_e SimplexSet.empty
  let shell := shell.difference st_e
  let m ← repair_co_boundaries m st_e shell
  let face_2_tet_map ← st_e.tetrahedra.foldlM (fun (mp : List (Nat × Nat)) t => do
    let s ← m.lookup_simplex 3 t
    pure (s.m_boundary.foldl (fun mp f => map_set f t mp) mp)) []
  let (m, old_edge_2_face_map) ← st_e.faces.foldlM
    (fun (p : Mesh × List (Nat × Nat)) f => do
      let s ← p.1.lookup_simplex 2 f
      let mp := s.m_boundary.foldl (fun mp b => if b ≠ e then map_set b f mp else mp) p.2
      let m ← orient_faces_oppositely p.1 2 f
      pure (m, mp)) (m, [])
  let m ← st_e.tetrahedra.foldlM (fun m t => orient_faces_oppositely m 3 t) m
  pure (m, st_e, shell, face_2_tet_map, old_edge_2_face_map)

/-- The second half of `split_edge_helper`: the new node, the new edges, faces and
tetrahedra. -/
def split_edge_fill (m : Mesh) (e : Nat) (shell : SimplexSet)
    (face_2_tet_map old_edge_2_face_map : List (Nat × Nat)) :
    Option (Mesh × Nat × List (Nat × Nat)) := do
  let es ← m.lookup_simplex 1 e
  let n1 ← es.m_boundary[0]?
  let n2 ← es.m_boundary[1]?
  let (m, n) ← insert_node m false
  let m ← m.modify 0 n (fun x => x.set_compact false)
  let p ← split_edge_spoke n n1 n n1 (m, [])
  let p ← split_edge_spoke n n2 n2 n p
  let (m, node_2_edge_map) ← shell.nodes.foldlM (fun (p : Mesh × List (Nat × Nat)) nit =>
    if nit ≠ n1 ∧ nit ≠ n2 then split_edge_spoke n nit nit n p else pure p) p
  let (m, edge_2_face_map) ← shell.edges.foldlM
    (split_edge_face node_2_edge_map old_edge_2_face_map) (m, [])
  let (m, new_tets) ← shell.faces.foldlM
    (split_edge_tetrahedron edge_2_face_map face_2_tet_map) (m, [])
  pure (m, n, new_tets)

/-- The call `split_edge_helper(edge, new_tets)`; returns the mesh, the new node and
`new_tets`. -/
def split_edge_helper (m : Mesh) (e : Nat) : Option (Mesh × Nat × List (Nat × Nat)) := do
  let (m, st_e, shell, face_2_tet_map, old_edge_2_face_map) ← split_edge_prepare m e
  let (m, n, new_tets) ← split_edge_fill m e shell face_2_tet_map old_edge_2_face_map
  let m ← st_e.tetrahedra.foldlM (fun m t => unsafe_remove_tetrahedron m t) m
  let m ← st_e.faces.foldlM (fun m f => unsafe_erase m 2 f) m
  let m ← unsafe_erase m 1 e
  let (m, starn) ← star m 0 n SimplexSet.empty
  let starn := starn.insert 0 n
  let m ← compress m starn
  pure (m, n, new_tets)

/-- The call `split_edge(e)`. -/
def split_edge (m : Mesh) (e : Nat) : Option (Mesh × Nat) := do
  let (m, n, _) ← split_edge_helper m e
  pure (m, n)

/-! ## The setting of an edge collapse -/

/-- The simplices erased by `edge_collapse_sew_hole_up`. -/
def sewn (n2 : Nat) (edge_2_edge_map face_2_face_map : List (Nat × Nat)) : SimplexSet :=
  ⟨[n2], (edge_2_edge_map.map Prod.fst).reverse, (face_2_face_map.map Prod.fst).reverse, []⟩

/-- The boundary list of the simplex `k` of dimension `d` (empty when `k` is not live). -/
def Mesh.boundary_list (m : Mesh) (d k : Nat) : List Nat :=
  ((m.lookup_simplex d k).map (fun s => s.m_boundary)).getD []

/-- The two end nodes of every live edge are distinct. -/
def EdgesProper (m : Mesh) : Prop :=
  ∀ k s, m.lookup_simplex 1 k = some s → s.m_boundary.Nodup

/-- The sets `st2` and `st_e` are the star of the node `n2` and the star of the edge `e`:
their simplices are live, `st_e` holds faces and tetrahedra only, each once, every live edge
on `n2` is in `st2` and every live face on `e` is in `st_e`. -/
structure StarsOf (m : Mesh) (e n2 : Nat) (st2 st_e : SimplexSet) : Prop where
  live2 : LiveSet m st2
  live_e : LiveSet m st_e
  no_edges : st_e.edges = []
  nodup_faces : st_e.faces.Nodup
  nodup_tetrahedra : st_e.tetrahedra.Nodup
  complete2 : ∀ k s, m.lookup_simplex 1 k = some s → n2 ∈ s.m_boundary → k ∈ st2.edges
  complete_e : ∀ f s, m.lookup_simplex 2 f = some s → e ∈ s.m_boundary → f ∈ st_e.faces

/-- The star `st_e` of the edge `e = [n1, n2]` is a fan: every tetrahedron of the star has a
face outside the star in the link `lk1` of `n1` and one in the link `lk2` of `n2`, and every
face of the star has an edge other than `e` in `lk1`. -/
structure FanAround (m : Mesh) (e : Nat) (st_e lk1 lk2 : SimplexSet) : Prop where
  tetrahedra : ∀ t ∈ st_e.tetrahedra,
    (∃ b ∈ m.boundary_list 3 t, b ∉ st_e.faces ∧ b ∈ lk1.faces) ∧
    (∃ b ∈ m.boundary_list 3 t, b ∉ st_e.faces ∧ b ∈ lk2.faces)
  faces : ∀ f ∈ st_e.faces, ∃ b ∈ m.boundary_list 2 f, b ≠ e ∧ b ∈ lk1.edges

/-- The edge `e` is interior and its star `st_e` is embedded: there are as many faces as
tetrahedra around `e`, two tetrahedra of the star share faces of the star only, and two
faces of the star share the edge `e` only. -/
structure InteriorEdge (m : Mesh) (e : Nat) (st_e : SimplexSet) : Prop where
  valence : st_e.faces.length = st_e.tetrahedra.length
  tetrahedra_apart : ∀ t ∈ st_e.tetrahedra, ∀ t' ∈ st_e.tetrahedra, t ≠ t' →
    ∀ b ∈ m.boundary_list 3 t, b ∈ m.boundary_list 3 t' → b ∈ st_e.faces
  faces_apart : ∀ f ∈ st_e.faces, ∀ f' ∈ st_e.faces, f ≠ f' →
    ∀ b ∈ m.boundary_list 2 f, b ∈ m.boundary_list 2 f' → b = e

/-- A decidable form of a property of every live simplex of dimension `d`. -/
def Mesh.all_live (m : Mesh) (d : Nat) (p : Nat → Simplex → Bool) : Bool :=
  (m.kernel d).keys.all (fun k =>
    match m.lookup_simplex d k with
    | some s => p k s
    | none => true)

/-- The mesh `fan_compact_mesh` written out: three tetrahedra around the edge 0 = (0,1),
every node and edge with one representative co-face. -/
def compact_fan : Mesh :=
  { m_node_kernel := ⟨[⟨true, ⟨[], [0], true, 0⟩⟩, ⟨true, ⟨[], [0], true, 0⟩⟩,
      ⟨true, ⟨[], [1], true, 0⟩⟩, ⟨true, ⟨[], [2], true, 0⟩⟩, ⟨true, ⟨[], [3], true, 0⟩⟩], []⟩,
    m_edge_kernel := ⟨[⟨true, ⟨[0, 1], [0], true, 0⟩⟩, ⟨true, ⟨[0, 2], [0], true, 0⟩⟩,
      ⟨true, ⟨[0, 3], [1], true, 0⟩⟩, ⟨true, ⟨[0, 4], [2], true, 0⟩⟩,
      ⟨true, ⟨[1, 2], [0], true, 0⟩⟩, ⟨true, ⟨[1, 3], [1], true, 0⟩⟩,
      ⟨true, ⟨[1, 4], [2], true, 0⟩⟩, ⟨true, ⟨[2, 3], [3], true, 0⟩⟩,
      ⟨true, ⟨[3, 4], [5], true, 0⟩⟩, ⟨true, ⟨[2, 4], [7], true, 0⟩⟩], []⟩,
    m_face_kernel := ⟨[⟨true, ⟨[0, 4, 1], [0, 2], true, 0⟩⟩, ⟨true, ⟨[0, 5, 2], [0, 1], true, 0⟩⟩,
      ⟨true, ⟨[0, 6, 3], [1, 2], true, 0⟩⟩, ⟨true, ⟨[1, 7, 2], [0], true, 0⟩⟩,
      ⟨true, ⟨[4, 7, 5], [0], true, 0⟩⟩, ⟨true, ⟨[2, 8, 3], [1], true, 0⟩⟩,
      ⟨true, ⟨[5, 8, 6], [1], true, 0⟩⟩, ⟨true, ⟨[3, 9, 1], [2], true, 0⟩⟩,
      ⟨true, ⟨[6, 9, 4], [2], true, 0⟩⟩], []⟩,
    m_tetrahedron_kernel := ⟨[⟨true, ⟨[0, 1, 3, 4], [], true, 0⟩⟩,
      ⟨true, ⟨[1, 2, 5, 6], [], true, 0⟩⟩, ⟨true, ⟨[2, 0, 7, 8], [], true, 0⟩⟩], []⟩,
    m_node_undo_stack := [], m_edge_undo_stack := [], m_face_undo_stack := [],
    m_tetrahedron_undo_stack := [], m_node_mark_stack := [], m_edge_mark_stack := [],
    m_face_mark_stack := [], m_tetrahedron_mark_stack := [], m_uncompressed := 0 }

/-! ## Further examples and specification-side definitions -/

/-- The mesh with one tetrahedron after `compress` on all its nodes and edges. -/
def tetrahedron_compact_mesh : Mesh :=
  (compress tetrahedron_mesh ⟨[0, 1, 2, 3], [0, 1, 2, 3, 4, 5], [], []⟩).getD Mesh.empty

/-- The compressed mesh with one tetrahedron after `uncompress` of the node 0. -/
def tetrahedron_open_mesh : Mesh := (uncompress tetrahedron_compact_mesh 0 0).getD Mesh.empty

/-- The mesh with one tetrahedron and an outstanding mark on the node 0, the edge 0, the
face 0 and the tetrahedron 0, after a rewrite of the co-boundary of the edge 0 and a second
mark on the node 0 alone. -/
def second_mark_mesh : Mesh :=
  ((apply_mutations undo_example_marked [.co_boundary 1 0 [7]]).bind
    (fun m => set_undo_mark m ⟨[0], [], [], []⟩)).getD Mesh.empty

/-- The mesh with one tetrahedron after a first mark on the node 0, the edge 0, the face 0
and the tetrahedron 0 and a rewrite of the co-boundary of the edge 0. -/
def first_mark_mesh : Mesh :=
  (apply_mutations undo_example_marked [.co_boundary 1 0 [7]]).getD Mesh.empty

/-- The simplex `x` of dimension `d'` lies in the transitive boundary of the simplex `k`
of dimension `d`: it is an entry of the boundary list of `k`, or lies in the transitive
boundary of such an entry. -/
def InBoundary (m : Mesh) : Nat → Nat → Nat → Nat → Prop
  | 0, _, _, _ => False
  | d + 1, k, d', x => ∃ s, m.lookup_simplex (d + 1) k = some s ∧
      ∃ b ∈ s.m_boundary, (d' = d ∧ x = b) ∨ InBoundary m d b d' x

/-- The closures of the keys of dimension `d` of a set, each computed by the single-key
overload `closure(k, result)` into an empty set, added to `acc`. -/
def closure_union_dim (m : Mesh) (d : Nat) (keys : List Nat) (acc : SimplexSet) :
    Option SimplexSet :=
  keys.foldlM (fun acc k => do
    let c ← closure m d k SimplexSet.empty
    pure (acc.add c)) acc

/-- The closure of a set as the specification words it: the union, over all members `s` of
`S`, of `closure(s)` computed by the single-key overload. -/
def closure_union (m : Mesh) (S : SimplexSet) : Option SimplexSet := do
  let r ← closure_union_dim m 0 S.nodes SimplexSet.empty
  let r ← closure_union_dim m 1 S.edges r
  let r ← closure_union_dim m 2 S.faces r
  closure_union_dim m 3 S.tetrahedra r

/-! ## Label traversals -/

/-- The boundary list and the co-boundary set of the simplex `k` of dimension `d`. -/
def Mesh.topology (m : Mesh) (d k : Nat) : Option (List Nat × List Nat) :=
  (m.lookup_simplex d k).map (fun s => (s.m_boundary, s.m_co_boundary))

/-- Labels fade from `m` to `m'` in a traversal by `reset_label` over the dimensions `L`
and `L + 1`: the incidence relations of these dimensions are the same, labels are only
reset, and a simplex whose label has been reset (other than those excepted by `E`) has its
neighbours in the traversal at label 0: the co-boundary entries of a simplex of dimension
`L`, the boundary entries of a simplex of dimension `L + 1`. -/
structure FadesExcept (L : Nat) (E : Nat → Nat → Prop) (m m' : Mesh) : Prop where
  topo : ∀ k, m'.topology L k = m.topology L k ∧ m'.topology (L + 1) k = m.topology (L + 1) k
  shrink : ∀ d k, m'.label d k ≠ 0 → m.label d k ≠ 0
  up : ∀ y s, ¬ E L y → m.label L y ≠ 0 → m'.label L y = 0 → m.lookup_simplex L y = some s →
    ∀ c ∈ s.m_co_boundary, m'.label (L + 1) c = 0
  down : ∀ c s, ¬ E (L + 1) c → m.label (L + 1) c ≠ 0 → m'.label (L + 1) c = 0 →
    m.lookup_simplex (L + 1) c = some s → ∀ b ∈ s.m_boundary, m'.label L b = 0

/-- The set `C` of simplices of the dimensions `L` and `L + 1` holds the labelled entries
of `vec` and is closed under the steps of the label traversals between labelled simplices:
from a simplex of dimension `L` to an entry of its co-boundary, from a simplex of dimension
`L + 1` to an entry of its boundary list. -/
structure LabelClosed (m : Mesh) (L : Nat) (vec : List Nat) (C : Nat → Nat → Prop) : Prop where
  root : ∀ c ∈ vec, m.label L c ≠ 0 → C L c
  up : ∀ y s c, C L y → m.label L y ≠ 0 → m.lookup_simplex L y = some s →
    c ∈ s.m_co_boundary → m.label (L + 1) c ≠ 0 → C (L + 1) c
  down : ∀ c s b, C (L + 1) c → m.label (L + 1) c ≠ 0 → m.lookup_simplex (L + 1) c = some s →
    b ∈ s.m_boundary → m.label L b ≠ 0 → C L b

/-- Every labelled simplex of `m` has dimension `L` or `L + 1` and is linked to a labelled
entry of `vec` by steps of the label traversals through labelled simplices. -/
def LinkedLabels (m : Mesh) (L : Nat) (vec : List Nat) : Prop :=
  ∀ d x, d ≤ 3 → m.label d x ≠ 0 →
    (d = L ∨ d = L + 1) ∧ ∀ C, LabelClosed m L vec C → C d x

/-- Labels grow from `m` to `m'`: the incidence relations of the dimensions `L` and `L + 1`
are the same and no label is reset. -/
structure Grows (L : Nat) (m m' : Mesh) : Prop where
  topo : ∀ k, m'.topology L k = m.topology L k ∧ m'.topology (L + 1) k = m.topology (L + 1) k
  grow : ∀ d k, m.label d k ≠ 0 → m'.label d k ≠ 0

/-- Literal bidirectional incidence, upwards: every entry of the co-boundary set of a live
node, edge or face is live and lists the simplex in its boundary list. -/
def CoIncidence (m : Mesh) : Prop :=
  ∀ d k s, d ≤ 2 → m.lookup_simplex d k = some s →
    ∀ c ∈ s.m_co_boundary, ∃ sc, m.lookup_simplex (d + 1) c = some sc ∧ k ∈ sc.m_boundary

/-- The slots of dimension `d` whose label satisfies `P`. -/
def Mesh.slots (m : Mesh) (P : Int → Bool) (d : Nat) : Finset Nat :=
  (Finset.range (m.kernel d).elements.length).filter (fun k => P (m.label d k) = true)

/-- The number of slots of the four kernels whose label satisfies `P`. -/
def Mesh.weight (m : Mesh) (P : Int → Bool) : Nat :=
  (Finset.range 4).sum (fun d => (m.slots P d).card)

/-- A run of the traversal of `star` for the simplex `s` of dimension `sd`, from the state
`p` to the state `p'`: labels are only set, the result set only grows and stays ascending,
every new member of the result set has `s` in its transitive boundary, and every simplex
that got a label is in the result set and (unless excepted by `E`) has every entry of its
co-boundary labelled. -/
structure StarRun (sd s : Nat) (E : Nat → Nat → Prop) (p p' : Mesh × SimplexSet) : Prop where
  grows : LabelsShrink p'.1 p.1
  keep : ∀ d k, k ∈ p.2.keys d → k ∈ p'.2.keys d
  sorted : ∀ d, (p.2.keys d).Sorted (· < ·) → (p'.2.keys d).Sorted (· < ·)
  sound : ∀ d x, d ≤ 3 → x ∈ p'.2.keys d → x ∈ p.2.keys d ∨ InBoundary p.1 d x sd s
  closed : ∀ d x, d ≤ 3 → p'.1.label d x ≠ 0 → p.1.label d x ≠ 0 ∨
    (x ∈ p'.2.keys d ∧ (¬ E d x → d ≤ 2 → ∀ sx, p'.1.lookup_simplex d x = some sx →
      ∀ c ∈ sx.m_co_boundary, p'.1.label (d + 1) c ≠ 0))

/-! ## Faces of a multi-face -/

/-- The call `find_min_multi_face(f, multi_face, min_multi_face)`. -/
def find_min_multi_face (m : Mesh) (f : Nat) (multi_face min_multi_face : SimplexSet) :
    Option SimplexSet := do
  let r ← multi_face.faces.foldlM (fun (acc : SimplexSet) fit =>
    if fit ≠ f then do
      let res ← get_intersection m 2 f fit
      if res.isSome then pure (acc.insert 2 f) else pure acc
    else pure acc) min_multi_face
  pure (r.insert 2 f)

/-- The local state of `find_connected_component`: the keys whose entry in the maps
`visited` and `added` is `true`, the set `adjacent_faces` and the flag `changes`. -/
structure ComponentState where
  visited : List Nat
  added : List Nat
  adjacent : List Nat
  changes : Bool
deriving DecidableEq, Repr

/-- The body of the inner loop of `find_connected_component` for the face `mfit` of the
multi-face, seen from the face `fit` of the component. -/
def component_scan (m : Mesh) (fit : Nat) (st : ComponentState) (mfit : Nat) :
    Option ComponentState :=
  if !st.visited.contains mfit && !st.added.contains mfit then do
    let res ← get_intersection m 2 fit mfit
    if res.isSome then
      pure { st with adjacent := set_insert mfit st.adjacent, added := mfit :: st.added,
                     changes := true }
    else pure st
  else pure st

/-- The body of the loop of `find_connected_component` over the faces of the component. -/
def component_visit (m : Mesh) (multi_face : SimplexSet) (st : ComponentState) (fit : Nat) :
    Option ComponentState :=
  if !st.visited.contains fit then do
    let st ← multi_face.faces.foldlM (component_scan m fit) st
    pure { st with visited := fit :: st.visited }
  else pure st

/-- The loop `while (changes)` of `find_connected_component`. -/
def component_loop (m : Mesh) (multi_face : SimplexSet) :
    (fuel : Nat) → (visited added : List Nat) → SimplexSet → Option SimplexSet
  | 0, _, _, _ => none
  | fuel + 1, visited, added, connected_component => do
    let st ← connected_component.faces.foldlM (component_visit m multi_face)
      { visited := visited, added := added, adjacent := [], changes := false }
    let connected_component := connected_component.add ⟨[], [], st.adjacent, []⟩
    if st.changes then component_loop m multi_face fuel st.visited st.added connected_component
    else pure connected_component

/-- The call `find_connected_component(f, multi_face, connected_component)`; every pass of
the loop but the last adds a face of the multi-face, which bounds the number of passes. -/
def find_connected_component (m : Mesh) (f : Nat) (multi_face connected_component : SimplexSet) :
    Option SimplexSet :=
  if !multi_face.contains 2 f then none
  else component_loop m multi_face (multi_face.faces.length + 2) [] [f]
    (connected_component.insert 2 f)

/-! ## Vertices -/

/-- The overload `vertices(edge, verts)`: the boundary nodes are written to `verts[1]`,
`verts[0]`, ... -/
def vertices_edge (m : Mesh) (e : Nat) (verts : List Nat) : Option (List Nat) := do
  let s ← m.lookup_simplex 1 e
  let r ← s.m_boundary.foldlM (fun (p : List Nat × Int) b =>
    if 0 ≤ p.2 ∧ p.2.toNat < p.1.length then pure (p.1.set p.2.toNat b, p.2 - 1) else none)
    (verts, (1 : Int))
  pure r.1

/-- The overload `vertices(face, verts)`. -/
def vertices_face (m : Mesh) (f : Nat) (verts : List Nat) : Option (List Nat) := do
  let s ← m.lookup_simplex 2 f
  if verts.length < 3 then none
  else do
    let e0 ← s.m_boundary[0]?
    let ev ← vertices_edge m e0 [undefined_key, undefined_key]
    let ev0 ← ev[0]?
    let ev1 ← ev[1]?
    let verts := (verts.set 1 ev1).set 2 ev0
    let e1 ← s.m_boundary[1]?
    let ev ← vertices_edge m e1 ev
    let ev0 ← ev[0]?
    let ev1 ← ev[1]?
    let v1 ← verts[1]?
    let v2 ← verts[2]?
    let verts := if ev0 = v1 ∨ ev0 = v2 then verts.set 0 ev1 else verts.set 0 ev0
    if v1 = ev0 ∨ v1 = ev1 then pure ((verts.set 1 v2).set 2 v1) else pure verts

/-- The value of `k1` (or `k2`) after a loop `for (k = 0; k < n; ++k)` that assigns `k` to
it whenever `p k` holds. -/
def last_where (p : Nat → Bool) (n : Nat) (init : Int) : Int :=
  (List.range n).foldl (fun acc k => if p k then (k : Int) else acc) init

/-- The block of `vertices(tetrahedron, verts)` after the second call of `vertices(face)`:
the two search loops, the assertion, the write of `verts[0]` and the swap of `verts[1]` with
`verts[k2]`. The value of `k1` is kept for the last loop. -/
def vertices_second_face (verts f_verts : List Nat) : Option (List Nat × Int) :=
  let k1 := last_where (fun k => !(f_verts.getD k 0 = verts.getD 1 0 ∨
    f_verts.getD k 0 = verts.getD 2 0 ∨ f_verts.getD k 0 = verts.getD 3 0)) 3 (-1)
  let k2 := last_where (fun k => !(verts.getD k 0 = f_verts.getD 0 0 ∨
    verts.getD k 0 = f_verts.getD 1 0 ∨ verts.getD k 0 = f_verts.getD 2 0)) 4 (-1)
  if k1 = -1 ∨ k2 = -1 then none
  else
    let verts := verts.set 0 (f_verts.getD k1.toNat 0)
    let temp := verts.getD 1 0
    some ((verts.set 1 (verts.getD k2.toNat 0)).set k2.toNat temp, k1)

/-- The block of `vertices(tetrahedron, verts)` after the third call of `vertices(face)`:
the search loop, which starts from the old value of `k1`, and the swap of `verts[2]` with
`verts[k1]`. -/
def vertices_third_face (verts f_verts : List Nat) (k1 : Int) : List Nat :=
  let k1 := last_where (fun k => !(verts.getD k 0 = f_verts.getD 0 0 ∨
    verts.getD k 0 = f_verts.getD 1 0 ∨ verts.getD k 0 = f_verts.getD 2 0)) 4 k1
  let temp := verts.getD 2 0
  (verts.set 2 (verts.getD k1.toNat 0)).set k1.toNat temp

/-- The overload `vertices(tetrahedron, verts)`. -/
def vertices_tetrahedron (m : Mesh) (t : Nat) (verts : List Nat) : Option (List Nat) := do
  let s ← m.lookup_simplex 3 t
  if verts.length < 4 then none
  else do
    let f0 ← s.m_boundary[0]?
    let fv ← vertices_face m f0 [undefined_key, undefined_key, undefined_key]
    let verts := ((verts.set 1 (fv.getD 0 0)).set 2 (fv.getD 1 0)).set 3 (fv.getD 2 0)
    let f1 ← s.m_boundary[1]?
    let fv ← vertices_face m f1 fv
    let (verts, k1) ← vertices_second_face verts fv
    let f2 ← s.m_boundary[2]?
    let fv ← vertices_face m f2 fv
    pure (vertices_third_face verts fv k1)

/-! ## Undo marks: the remaining calls -/

/-- Modelled from the spec: `kernel::commit_all()` discards every pending mark. -/
def Kernel.commit_all (K : Kernel) : Kernel := { K with marks := [] }

/-- Modelled from the spec: `kernel::garbage_collect()` reclaims the erased slots and
invalidates every pending mark; the reuse of reclaimed slots by later `create()` calls is
not modelled. -/
def Kernel.garbage_collect (K : Kernel) : Kernel := { K with marks := [] }

/-- One of the four blocks of `commit_all`, for the dimension `d`. -/
def commit_all_dim (d : Nat) (m : Mesh) : Mesh :=
  ((m.setKernel d (m.kernel d).commit_all).set_undo_stack d []).set_mark_stack d []

def commit_all (m : Mesh) : Mesh :=
  commit_all_dim 3 (commit_all_dim 2 (commit_all_dim 1 (commit_all_dim 0 m)))

/-- One of the four blocks of `garbage_collect`, for the dimension `d`. -/
def garbage_collect_dim (d : Nat) (m : Mesh) : Mesh :=
  ((m.setKernel d (m.kernel d).garbage_collect).set_undo_stack d []).set_mark_stack d []

def garbage_collect (m : Mesh) : Mesh :=
  garbage_collect_dim 3 (garbage_collect_dim 2 (garbage_collect_dim 1 (garbage_collect_dim 0 m)))

/-- The loop of `undo_all`. -/
def undo_all_loop : (fuel : Nat) → Mesh → Option Mesh
  | 0, _ => none
  | fuel + 1, m =>
    if m.m_node_mark_stack ≠ [] ∨ m.m_edge_mark_stack ≠ [] ∨ m.m_face_mark_stack ≠ [] ∨
        m.m_tetrahedron_mark_stack ≠ [] then do
      let m ← undo m
      undo_all_loop fuel m
    else pure m

/-- The call `undo_all()`; every pass of the loop pops a mark, which bounds the number of
passes. -/
def undo_all (m : Mesh) : Option Mesh :=
  undo_all_loop (m.m_node_mark_stack.length + m.m_edge_mark_stack.length +
    m.m_face_mark_stack.length + m.m_tetrahedron_mark_stack.length + 1) m

/-! ## Orientation of a co-face -/

/-- The template `orient_coface_consistently(fk, sk)`. -/
def orient_coface_consistently (m : Mesh) (d fk sk : Nat) : Option Mesh :=
  orient_coface_helper m d fk sk true

/-! ## Tetrahedron split -/

/-- The body of the loop of `split_tetrahedron_helper` over the nodes of the boundary: the
new edge to the new node `n`; `p.2.2` tells whether the iterator is at `nodes_begin()`. -/
def split_tetrahedron_edge (n : Nat) (p : Mesh × List (Nat × Nat) × Bool) (nit : Nat) :
    Option (Mesh × List (Nat × Nat) × Bool) := do
  let (m, e) ← unsafe_insert_edge p.1 nit n
  let m ← m.modify 1 e (fun x => x.set_compact true)
  let m ← (if p.2.2 then m.modify 0 n (fun x => x.add_co_face e) else pure m)
  pure (m, map_set nit e p.2.1, false)

/-- The body of the loop of `split_tetrahedron_helper` over the edges of the boundary. -/
def split_tetrahedron_face (node_2_edge_map : List (Nat × Nat))
    (p : Mesh × List (Nat × Nat)) (eit : Nat) : Option (Mesh × List (Nat × Nat)) := do
  let s ← p.1.lookup_simplex 1 eit
  if s.m_boundary.length ≠ 2 then none
  else do
    let n1 ← s.m_boundary[0]?
    let n2 ← s.m_boundary[1]?
    let e1 := map_get n1 node_2_edge_map
    let e2 := map_get n2 node_2_edge_map
    let (m, f) ← unsafe_insert_face p.1 eit e1 e2
    let s1 ← m.lookup_simplex 1 e1
    let _ ← m.lookup_simplex 1 e2
    let m ← (if s1.m_co_boundary.isEmpty then m.modify 1 e1 (fun x => x.add_co_face f)
      else pure m)
    let s2 ← m.lookup_simplex 1 e2
    let m ← (if s2.m_co_boundary.isEmpty then m.modify 1 e2 (fun x => x.add_co_face f)
      else pure m)
    pure (m, map_set eit f p.2)

/-- The body of the loop of `split_tetrahedron_helper` over the faces of the boundary. -/
def split_tetrahedron_fill (t : Nat) (edge_2_face_map : List (Nat × Nat))
    (p : Mesh × List (Nat × Nat)) (fit : Nat) : Option (Mesh × List (Nat × Nat)) := do
  let s ← p.1.lookup_simplex 2 fit
  if s.m_boundary.length ≠ 3 then none
  else do
    let e1 ← s.m_boundary[0]?
    let e2 ← s.m_boundary[1]?
    let e3 ← s.m_boundary[2]?
    let (m, tet) ← unsafe_insert_tetrahedron p.1 fit (map_get e1 edge_2_face_map)
      (map_get e2 edge_2_face_map) (map_get e3 edge_2_face_map)
    let m ← orient_coface_oppositely m 2 fit tet
    pure (m, map_set tet t p.2)

/-- The call `split_tetrahedron_helper(t, new_tets)` with an empty map `new_tets`; returns
the mesh, the new node and `new_tets`. -/
def split_tetrahedron_helper (m : Mesh) (t : Nat) : Option (Mesh × Nat × List (Nat × Nat)) := do
  let m ← orient_faces_oppositely m 3 t
  let t_boundary ← boundary m 3 t SimplexSet.empty
  let m ← unsafe_remove_tetrahedron m t
  let (m, n) ← insert_node m false
  let m ← m.modify 0 n (fun x => x.set_compact true)
  let (m, node_2_edge_map, _) ← t_boundary.nodes.foldlM (split_tetrahedron_edge n) (m, [], true)
  let (m, edge_2_face_map) ← t_boundary.edges.foldlM (split_tetrahedron_face node_2_edge_map)
    (m, [])
  let (m, new_tets) ← t_boundary.faces.foldlM (split_tetrahedron_fill t edge_2_face_map) (m, [])
  pure (m, n, new_tets)

/-- The call `split_tetrahedron(t)`. -/
def split_tetrahedron (m : Mesh) (t : Nat) : Option (Mesh × Nat) := do
  let (m, n, _) ← split_tetrahedron_helper m t
  pure (m, n)

/-! ## Edge-connected components of a multi-face -/

/-- The faces `a` and `b` are live and their boundary lists have a common edge. -/
def SharesEdge (m : Mesh) (a b : Nat) : Prop :=
  ∃ sa sb, m.lookup_simplex 2 a = some sa ∧ m.lookup_simplex 2 b = some sb ∧
    ∃ e, e ∈ sa.m_boundary ∧ e ∈ sb.m_boundary

/-- The face `g` is reached from the face `f` through a chain of faces of `multi_face` in
which consecutive faces share a boundary edge. -/
def EdgeConnected (m : Mesh) (multi_face : SimplexSet) (f g : Nat) : Prop :=
  Relation.ReflTransGen (fun a b => b ∈ multi_face.faces ∧ SharesEdge m a b) f g

/-- The invariant of one pass of `find_connected_component` over the faces `cc` of the
component, entered with the map `added` holding `added0`. -/
structure ComponentInv (m : Mesh) (multi_face : SimplexSet) (f : Nat) (cc added0 : List Nat)
    (st : ComponentState) : Prop where
  added_reach : ∀ g ∈ st.added, g ∈ multi_face.faces ∧ EdgeConnected m multi_face f g
  added_split : ∀ g, g ∈ st.added ↔ g ∈ added0 ∨ g ∈ st.adjacent
  visited_cc : ∀ v ∈ st.visited, v ∈ cc
  closed : ∀ v ∈ st.visited, ∀ g ∈ multi_face.faces, SharesEdge m v g → g ∈ st.added
  measure : multi_face.faces.countP (fun g => !st.added.contains g) +
      (if st.changes then 1 else 0) ≤ multi_face.faces.countP (fun g => !added0.contains g)
  unchanged : st.changes = false → st.adjacent = []

/-! ## Sequences of calls on the undo log -/

/-- The meshes reached from a fresh mesh by `set_undo_mark`, `undo`, `commit`, `commit_all`,
`undo_all` and `garbage_collect`, interleaved with any steps that leave the undo stacks and
the mark stacks as they are (the other operations of the mesh do not mention them). The
second index records, per dimension, the key lists of the marks that are still pending, the
most recent first. -/
inductive Marked : Mesh → (Nat → List (List Nat)) → Prop
  | fresh : Marked Mesh.empty (fun _ => [])
  | edit {m m' : Mesh} {P : Nat → List (List Nat)} :
      Marked m P →
      (∀ d, d ≤ 3 → m'.undo_stack d = m.undo_stack d ∧ m'.mark_stack d = m.mark_stack d) →
      Marked m' P
  | set_undo_mark {m m' : Mesh} {P : Nat → List (List Nat)} (S : SimplexSet) :
      Marked m P → ISMesh.set_undo_mark m S = some m' →
      Marked m' (fun d => if S.keys d = [] then P d else S.keys d :: P d)
  | undo {m m' : Mesh} {P : Nat → List (List Nat)} :
      Marked m P → ISMesh.undo m = some m' → Marked m' (fun d => (P d).tail)
  | commit {m m' : Mesh} {P : Nat → List (List Nat)} :
      Marked m P → ISMesh.commit m = some m' → Marked m' (fun d => (P d).tail)
  | commit_all {m : Mesh} {P : Nat → List (List Nat)} :
      Marked m P → Marked (ISMesh.commit_all m) (fun _ => [])
  | undo_all {m m' : Mesh} {P : Nat → List (List Nat)} :
      Marked m P → ISMesh.undo_all m = some m' → Marked m' (fun _ => [])
  | garbage_collect {m : Mesh} {P : Nat → List (List Nat)} :
      Marked m P → Marked (ISMesh.garbage_collect m) (fun _ => [])

/-- The bookkeeping of the undo log in the dimension `d`, for the pending key lists `P`:
the mark stack holds their lengths and the undo stack their records, the oldest first. -/
def Booked (m : Mesh) (d : Nat) (P : List (List Nat)) : Prop :=
  m.mark_stack d = P.map List.length ∧
  (m.undo_stack d).map (fun info => info.key) = P.reverse.flatten

/-- One block of `undo` or `commit` on the stacks of a dimension: the front mark and the
records it counts are dropped. -/
def PopsMark (d : Nat) (x y : Mesh) : Prop :=
  (x.mark_stack d = [] → y.mark_stack d = [] ∧ y.undo_stack d = x.undo_stack d) ∧
  ∀ cnt rest, x.mark_stack d = cnt :: rest →
    cnt ≤ (x.undo_stack d).length ∧ y.mark_stack d = rest ∧
    y.undo_stack d = (x.undo_stack d).take ((x.undo_stack d).length - cnt)

/-! ## Well-formed simplices -/

/-- The edge `e` is live and its boundary list holds the nodes `x` and `y`, in either
order. -/
def EdgeOn (m : Mesh) (e x y : Nat) : Prop :=
  m.boundary_list 1 e ∈ [[x, y], [y, x]]

instance (m : Mesh) (e x y : Nat) : Decidable (EdgeOn m e x y) :=
  inferInstanceAs (Decidable (_ ∈ _))

/-- The face `f` is live and its boundary list holds the edges `a`, `b` and `c`, in any
order. -/
def FaceOn (m : Mesh) (f a b c : Nat) : Prop :=
  m.boundary_list 2 f ∈ [[a, b, c], [a, c, b], [b, a, c], [b, c, a], [c, a, b], [c, b, a]]

instance (m : Mesh) (f a b c : Nat) : Decidable (FaceOn m f a b c) :=
  inferInstanceAs (Decidable (_ ∈ _))

/-- The three edges of the face `f` form a triangle on the distinct nodes `x`, `y`, `z`:
`exy` joins `x` and `y`, `exz` joins `x` and `z`, `eyz` joins `y` and `z`. -/
def TriangleOn (m : Mesh) (f x y z exy exz eyz : Nat) : Prop :=
  [x, y, z].Nodup ∧ EdgeOn m exy x y ∧ EdgeOn m exz x z ∧ EdgeOn m eyz y z ∧
  FaceOn m f exy exz eyz

instance (m : Mesh) (f x y z exy exz eyz : Nat) : Decidable (TriangleOn m f x y z exy exz eyz) :=
  inferInstanceAs (Decidable (_ ∧ _))

/-- The faces, nodes and edges of a tetrahedron: `f0 .. f3` in the order of its boundary
list, `vi` the node opposite to `fi`, `eij` the edge that joins `vi` and `vj`. -/
structure TetFrame where
  f0 : Nat
  f1 : Nat
  f2 : Nat
  f3 : Nat
  v0 : Nat
  v1 : Nat
  v2 : Nat
  v3 : Nat
  e01 : Nat
  e02 : Nat
  e03 : Nat
  e12 : Nat
  e13 : Nat
  e23 : Nat
deriving DecidableEq, Repr

/-- The four faces of the tetrahedron `t` form a tetrahedron on four distinct nodes: the
face `fi` holds the three edges that join the nodes other than `vi`. -/
def TetrahedronOn (m : Mesh) (t : Nat) (F : TetFrame) : Prop :=
  m.boundary_list 3 t = [F.f0, F.f1, F.f2, F.f3] ∧
  [F.v0, F.v1, F.v2, F.v3].Nodup ∧
  EdgeOn m F.e01 F.v0 F.v1 ∧ EdgeOn m F.e02 F.v0 F.v2 ∧ EdgeOn m F.e03 F.v0 F.v3 ∧
  EdgeOn m F.e12 F.v1 F.v2 ∧ EdgeOn m F.e13 F.v1 F.v3 ∧ EdgeOn m F.e23 F.v2 F.v3 ∧
  FaceOn m F.f0 F.e12 F.e13 F.e23 ∧ FaceOn m F.f1 F.e02 F.e03 F.e23 ∧
  FaceOn m F.f2 F.e01 F.e03 F.e13 ∧ FaceOn m F.f3 F.e01 F.e02 F.e12

instance (m : Mesh) (t : Nat) (F : TetFrame) : Decidable (TetrahedronOn m t F) :=
  inferInstanceAs (Decidable (_ ∧ _))

/-- A well-formed simplex of dimension 1, 2 or 3: an edge with two distinct nodes, a face
whose three edges form a triangle, a tetrahedron whose four faces form a tetrahedron. -/
def WellFormed (m : Mesh) : Nat → Nat → Prop
  | 1, e => ∃ x y, x ≠ y ∧ EdgeOn m e x y
  | 2, f => ∃ x y z exy exz eyz, TriangleOn m f x y z exy exz eyz
  | 3, t => ∃ F, TetrahedronOn m t F
  | _, _ => False

/-- The frame of the tetrahedron 0 of the mesh with one tetrahedron. -/
def tetrahedron_frame : TetFrame :=
  { f0 := 0, f1 := 1, f2 := 2, f3 := 3, v0 := 3, v1 := 2, v2 := 1, v3 := 0,
    e01 := 5, e02 := 4, e03 := 2, e12 := 3, e13 := 1, e23 := 0 }

/-! ## Reordered boundary lists -/

/-- The mesh `m'` is the mesh `m` with the boundary list of the live simplex `k` of
dimension `d` replaced by `B`: the co-boundary, the compact flag and the label of `k` and
every other simplex are as in `m`. -/
def ReorderedAt (m m' : Mesh) (d k : Nat) (B : List Nat) : Prop :=
  (∃ s, m.lookup_simplex d k = some s ∧
    m'.lookup_simplex d k = some (s.set_boundary_list B)) ∧
  ∀ d' k', d' ≤ 3 → ¬ (d' = d ∧ k' = k) → m'.lookup_simplex d' k' = m.lookup_simplex d' k'

/-- The edge that `get_intersection` finds for the faces `sk` and `c` (0 when the call
fails or finds none). -/
def shared_edge (m : Mesh) (sk c : Nat) : Nat :=
  ((get_intersection m 2 sk c).getD none).getD 0

/-! ## Star of a set, removal of a set -/

/-- One step of the loops of `star(set, result_set)` over the keys of dimension `d`: the
star of the key is added to the result. -/
def star_set_step (d : Nat) (p : Mesh × SimplexSet) (k : Nat) : Option (Mesh × SimplexSet) := do
  let (m, st) ← star p.1 d k SimplexSet.empty
  pure (m, p.2.add st)

/-- The overload `star(simplex_set_type & set, simplex_set_type & result_set)`. -/
def star_set (m : Mesh) (set result_set : SimplexSet) : Option (Mesh × SimplexSet) := do
  let p ← set.nodes.foldlM (star_set_step 0) (m, result_set)
  let p ← set.edges.foldlM (fun (p : Mesh × SimplexSet) e =>
    if !p.2.contains 1 e then star_set_step 1 p e else pure p) p
  let p ← set.faces.foldlM (fun (p : Mesh × SimplexSet) f =>
    if !p.2.contains 2 f then star_set_step 2 p f else pure p) p
  pure (p.1, set.tetrahedra.foldl (fun r t => r.insert 3 t) p.2)

/-- The overload `unsafe_remove(simplex_set_type & set)`. -/
def unsafe_remove_set (m : Mesh) (set : SimplexSet) : Option Mesh := do
  let m ← set.tetrahedra.foldlM unsafe_remove_tetrahedron m
  let m ← set.faces.foldlM (fun m f => unsafe_erase m 2 f) m
  let m ← set.edges.foldlM (fun m e => unsafe_erase m 1 e) m
  set.nodes.foldlM (fun m n => unsafe_erase m 0 n) m

/-! ## Multi-face removal -/

/-- The call `mf_remove_get_apices(f, vv)`. -/
def mf_remove_get_apices (m : Mesh) (f : Nat) (vv : List Nat) : Option (Mesh × List Nat) := do
  let (m, st_f) ← star m 2 f SimplexSet.empty
  let bnd_f ← boundary m 2 f SimplexSet.empty
  let r ← st_f.tetrahedra.foldlM (fun (p : List Nat × Nat) tit => do
    let bnd_t ← boundary m 3 tit SimplexSet.empty
    let bnd_t := bnd_t.difference bnd_f
    let v ← bnd_t.nodes.head?
    if p.2 < p.1.length then pure (p.1.set p.2 v, p.2 + 1) else none) (vv, 0)
  pure (m, r.1)

/-- The body of the loop of `mf_remove_clear_interior` over the edges of the region
boundary: the edge is entered in the map of the apex it touches, under its other node. -/
def mf_remove_apex_edge (m : Mesh) (vv : List Nat)
    (maps : List (Nat × Nat) × List (Nat × Nat)) (eit : Nat) :
    Option (List (Nat × Nat) × List (Nat × Nat)) := do
  let s ← m.lookup_simplex 1 eit
  let v0 ← vv[0]?
  let v1 ← vv[1]?
  let r := s.m_boundary.foldl (fun (p : Int × Nat) b =>
    if b = v0 then ((0 : Int), p.2) else if b = v1 then ((1 : Int), p.2) else (p.1, b))
    ((-1 : Int), undefined_key)
  if r.1 = 0 then pure (map_set r.2 eit maps.1, maps.2)
  else if r.1 = 1 then pure (maps.1, map_set r.2 eit maps.2)
  else none

/-- The body of the loop of `mf_remove_clear_interior` over the faces of the region
boundary. -/
def mf_remove_apex_face (m : Mesh) (mf_boundary : SimplexSet)
    (node_2_edge_map0 : List (Nat × Nat))
    (maps : List (Nat × Nat) × List (Nat × Nat)) (fit : Nat) :
    Option (List (Nat × Nat) × List (Nat × Nat)) := do
  let s ← m.lookup_simplex 2 fit
  let r ← s.m_boundary.foldlM (fun (p : Nat × List Nat × Nat) b =>
    if mf_boundary.contains 1 b then pure (b, p.2.1, p.2.2)
    else if p.2.2 < p.2.1.length then pure (p.1, p.2.1.set p.2.2 b, p.2.2 + 1)
    else none) (undefined_key, [undefined_key, undefined_key], 0)
  let se ← m.lookup_simplex 1 r.1
  let first ← se.m_boundary.head?
  let e := map_get first node_2_edge_map0
  if e = r.2.1.getD 0 0 ∨ e = r.2.1.getD 1 0 then pure (map_set r.1 fit maps.1, maps.2)
  else pure (maps.1, map_set r.1 fit maps.2)

/-- The results of `mf_remove_clear_interior`: the mesh, `mf_boundary`, `region_boundary`
and the two pairs of maps. -/
structure ClearedInterior where
  mesh : Mesh
  mf_boundary : SimplexSet
  region_boundary : SimplexSet
  node_2_edge_map : List (Nat × Nat) × List (Nat × Nat)
  edge_2_face_map : List (Nat × Nat) × List (Nat × Nat)
deriving DecidableEq, Repr

/-- The call `mf_remove_clear_interior(...)` with an empty `mf_boundary` and empty maps. -/
def mf_remove_clear_interior (m : Mesh) (removed_faces region_boundary region_int : SimplexSet)
    (vv : List Nat) : Option ClearedInterior := do
  let m ← region_int.tetrahedra.foldlM (fun m t => orient_faces_oppositely m 3 t) m
  let mf_boundary ← boundary_helper2 m 2 removed_faces SimplexSet.empty
  let region_boundary := region_boundary.difference mf_boundary
  let m ← unsafe_remove_set m region_int
  let n2e ← region_boundary.edges.foldlM (mf_remove_apex_edge m vv) ([], [])
  let e2f ← region_boundary.faces.foldlM (mf_remove_apex_face m mf_boundary n2e.1) ([], [])
  pure ⟨m, mf_boundary, region_boundary, n2e, e2f⟩

/-- The body of the first loop of `mf_remove_fill_hole`: the new face on the new edge `e`
and the node `nit`. -/
def mf_remove_new_face (e : Nat) (node_2_edge_map : List (Nat × Nat) × List (Nat × Nat))
    (p : Mesh × List (Nat × Nat) × Bool) (nit : Nat) :
    Option (Mesh × List (Nat × Nat) × Bool) := do
  let (m, f) ← unsafe_insert_face p.1 e (map_get nit node_2_edge_map.1)
    (map_get nit node_2_edge_map.2)
  let m ← (if p.2.2 then m.modify 1 e (fun x => x.add_co_face f) else pure m)
  pure (m, map_set nit f p.2.1, false)

/-- The body of the second loop of `mf_remove_fill_hole`: the new tetrahedron over the
edge `mfb_eit` of the multi-face boundary. -/
def mf_remove_new_tetrahedron (edge_2_face_map : List (Nat × Nat) × List (Nat × Nat))
    (new_faces : List (Nat × Nat)) (m : Mesh) (mfb_eit : Nat) : Option Mesh := do
  let s ← m.lookup_simplex 1 mfb_eit
  let n1 ← s.m_boundary[0]?
  let n2 ← s.m_boundary[1]?
  let (m, t) ← unsafe_insert_tetrahedron m (map_get mfb_eit edge_2_face_map.1)
    (map_get mfb_eit edge_2_face_map.2) (map_get n1 new_faces) (map_get n2 new_faces)
  orient_coface_oppositely m 2 (map_get mfb_eit edge_2_face_map.1) t

/-- The call `mf_remove_fill_hole(mf_boundary, e, node_2_edge_map, edge_2_face_map)`. -/
def mf_remove_fill_hole (m : Mesh) (mf_boundary : SimplexSet) (e : Nat)
    (node_2_edge_map edge_2_face_map : List (Nat × Nat) × List (Nat × Nat)) : Option Mesh := do
  let p ← mf_boundary.nodes.foldlM (mf_remove_new_face e node_2_edge_map) (m, [], true)
  mf_boundary.edges.foldlM (mf_remove_new_tetrahedron edge_2_face_map p.2.1) p.1

/-- The call `multi_face_remove_helper(removed_faces, new_simplices)`. -/
def multi_face_remove_helper (m : Mesh) (removed_faces new_simplices : SimplexSet) :
    Option (Mesh × SimplexSet) := do
  let (m, region) ← star_set m removed_faces SimplexSet.empty
  let region_int ← closure_set m region SimplexSet.empty
  let region_boundary ← boundary_set m region SimplexSet.empty
  let region_int := region_int.difference region_boundary
  let m ← repair_co_boundaries m region_int region_boundary
  let f ← removed_faces.faces.head?
  let (m, vv) ← mf_remove_get_apices m f [undefined_key, undefined_key]
  let c ← mf_remove_clear_interior m removed_faces region_boundary region_int vv
  let v0 ← vv[0]?
  let v1 ← vv[1]?
  let (m, e) ← unsafe_insert_edge c.mesh v0 v1
  let m ← mf_remove_fill_hole m c.mf_boundary e c.node_2_edge_map c.edge_2_face_map
  let (m, st_e) ← star m 1 e SimplexSet.empty
  pure (m, (new_simplices.insert 1 e).add st_e)

/-- The call `multi_face_remove(removed_faces, new_simplices)`. -/
def multi_face_remove (m : Mesh) (removed_faces new_simplices : SimplexSet) :
    Option (Mesh × SimplexSet) :=
  multi_face_remove_helper m removed_faces new_simplices

/-! ## Vertex insertion -/

/-- The state of the loops of `vertex_insertion_fill_hole`: the mesh, the map of the loop,
the keys whose entry in `edge_processed` is `true`, `new_simplices`, and whether the
iterator is at the beginning. -/
structure FillState where
  mesh : Mesh
  map : List (Nat × Nat)
  processed : List Nat
  new_simplices : SimplexSet
  first : Bool
deriving DecidableEq, Repr

/-- The body of the loop of `vertex_insertion_fill_hole` over the nodes of the boundary. -/
def vertex_insertion_edge (n : Nat) (st : FillState) (nit : Nat) : Option FillState := do
  let (m, e) ← unsafe_insert_edge st.mesh n nit
  let m ← (if st.first then m.modify 0 n (fun x => x.add_co_face e) else pure m)
  pure { st with mesh := m, map := map_set nit e st.map,
                 new_simplices := st.new_simplices.insert 1 e, first := false }

/-- The body of the loop of `vertex_insertion_fill_hole` over the edges of the boundary. -/
def vertex_insertion_face (node_2_edge_map : List (Nat × Nat)) (st : FillState) (eit : Nat) :
    Option FillState := do
  let s ← st.mesh.lookup_simplex 1 eit
  let n1 ← s.m_boundary[0]?
  let n2 ← s.m_boundary[1]?
  let e1 := map_get n1 node_2_edge_map
  let e2 := map_get n2 node_2_edge_map
  let (m, f) ← unsafe_insert_face st.mesh eit e1 e2
  let (m, processed) ← (if !st.processed.contains e1 then do
      let m ← m.modify 1 e1 (fun x => x.add_co_face f)
      pure (m, e1 :: st.processed)
    else pure (m, st.processed))
  let (m, processed) ← (if !processed.contains e2 then do
      let m ← m.modify 1 e2 (fun x => x.add_co_face f)
      pure (m, e2 :: processed)
    else pure (m, processed))
  pure { st with mesh := m, map := map_set eit f st.map, processed := processed,
                 new_simplices := st.new_simplices.insert 2 f }

/-- The body of the loop of `vertex_insertion_fill_hole` over the faces of the boundary. -/
def vertex_insertion_tetrahedron (edge_2_face_map : List (Nat × Nat))
    (p : Mesh × SimplexSet) (fit : Nat) : Option (Mesh × SimplexSet) := do
  let s ← p.1.lookup_simplex 2 fit
  let e1 ← s.m_boundary[0]?
  let e2 ← s.m_boundary[1]?
  let e3 ← s.m_boundary[2]?
  let (m, t) ← unsafe_insert_tetrahedron p.1 (map_get e1 edge_2_face_map)
    (map_get e2 edge_2_face_map) (map_get e3 edge_2_face_map) fit
  pure (m, p.2.insert 3 t)

/-- The call `vertex_insertion_fill_hole(region_boundary, n, new_simplices)`. -/
def vertex_insertion_fill_hole (m : Mesh) (region_boundary : SimplexSet) (n : Nat)
    (new_simplices : SimplexSet) : Option (Mesh × SimplexSet) := do
  let st ← region_boundary.nodes.foldlM (vertex_insertion_edge n)
    ⟨m, [], [], new_simplices.insert 0 n, true⟩
  let st2 ← region_boundary.edges.foldlM (vertex_insertion_face st.map)
    ⟨st.mesh, [], [], st.new_simplices, true⟩
  region_boundary.faces.foldlM (vertex_insertion_tetrahedron st2.map)
    (st2.mesh, st2.new_simplices)

/-- The call `vertex_insertion_helper(removed_tets, new_simplices)`. -/
def vertex_insertion_helper (m : Mesh) (removed_tets new_simplices : SimplexSet) :
    Option (Mesh × Nat × SimplexSet) := do
  let region_int ← closure_set m removed_tets SimplexSet.empty
  let region_boundary ← boundary_set m removed_tets SimplexSet.empty
  let region_int := region_int.difference region_boundary
  let m ← repair_co_boundaries m region_int region_boundary
  let m ← unsafe_remove_set m region_int
  let (m, n) ← insert_node m false
  let (m, ns) ← vertex_insertion_fill_hole m region_boundary n new_simplices
  pure (m, n, ns)

/-- The call `vertex_insertion(removed_tets, new_simplices)`. -/
def vertex_insertion (m : Mesh) (removed_tets new_simplices : SimplexSet) :
    Option (Mesh × Nat × SimplexSet) :=
  vertex_insertion_helper m removed_tets new_simplices

/-! ## The shape of a mesh -/

/-- The slots of a kernel with their validity flag and the boundary list they hold. -/
def Kernel.shape (K : Kernel) : List (Bool × List Nat) :=
  K.elements.map (fun e => (e.valid, e.value.m_boundary))

/-- The slots of the kernel of dimension `d` with their validity flag and boundary list. -/
def Mesh.shape (m : Mesh) (d : Nat) : List (Bool × List Nat) := (m.kernel d).shape

/-! ## The label traversal of `compress` for a node -/

/-- One step of the label traversal of `compress` for the node `n`: from an edge to an entry
of its co-boundary set, or from a face to an entry of its boundary list; the target has `n`
in its transitive boundary. -/
def LabelStep (m : Mesh) (n : Nat) (d x d' y : Nat) : Prop :=
  InBoundary m d' y 0 n ∧
  ((d = 1 ∧ d' = 2 ∧ ∃ s, m.lookup_simplex 1 x = some s ∧ y ∈ s.m_co_boundary) ∨
   (d = 2 ∧ d' = 1 ∧ ∃ s, m.lookup_simplex 2 x = some s ∧ y ∈ s.m_boundary))

/-- The simplex `y` is reached from the simplex `x` (pairs of a dimension and a key) by
steps of the label traversal through simplices that carry the label `l`. -/
def LabelPath (m : Mesh) (n : Nat) (l : Int) (x y : Nat × Nat) : Prop :=
  Relation.ReflTransGen
    (fun a b => LabelStep m n a.1 a.2 b.1 b.2 ∧ m.label b.1 b.2 = l) x y

/-- A run of the label traversal of `compress` for the node `n` with the label `l`, started
on the simplex `root`, from the mesh `m` to the mesh `m'`: only labels change, a label is
only set where it was 0, on a simplex that has `n` in its transitive boundary and is
reached from `root` through simplices labelled `l`, and every simplex that got a label
(unless excepted by `E`) has the targets of its steps labelled. -/
structure LabelRun (n : Nat) (l : Int) (E : Nat → Nat → Prop) (root : Nat × Nat)
    (m m' : Mesh) : Prop where
  erase : m'.erase_labels = m.erase_labels
  set : ∀ d k, m'.label d k = m.label d k ∨
    (m.label d k = 0 ∧ m'.label d k = l ∧ InBoundary m d k 0 n ∧ LabelPath m' n l root (d, k))
  closed : ∀ d k d' y, m.label d k = 0 → m'.label d k ≠ 0 → ¬ E d k →
    LabelStep m n d k d' y → m'.label d' y ≠ 0

/-- The mesh `m'` agrees with the mesh `m` on the boundary lists and co-boundary sets of all
simplices but the node `n`. -/
def TopologyOff (n : Nat) (m m' : Mesh) : Prop :=
  ∀ d k, ¬ (d = 0 ∧ k = n) → m'.topology d k = m.topology d k

/-- The counter of the loops of `compress` over the co-boundary `vec` after the entries of
`vec`, read off the labels of the first loop: it starts at 1 and grows at each entry whose
label is its value. -/
def compress_counter (m : Mesh) (vec : List Nat) : Int :=
  vec.foldl (fun k c => if m.label 1 c = k then k + 1 else k) 1

/-- The labels of the first loop of `compress` for the node `n` after the entries `pre` of
the co-boundary, with the counter at `k`: the labels in use are those from 1 up to `k`
(excluded), only simplices with `n` in their transitive boundary carry one, the target of
a step of the label traversal from a labelled simplex is labelled and its label is not
larger, every entry of `pre` carries a label that the counter had reached, the entries at
which the counter grew are linked to every simplex of their label through simplices of
this label, and every label in use is that of such an entry. -/
structure ClassLabels (m : Mesh) (n : Nat) (pre : List Nat) (k : Int) : Prop where
  counter : compress_counter m pre = k
  range : ∀ d x, m.label d x ≠ 0 → 0 < m.label d x ∧ m.label d x < k ∧ InBoundary m d x 0 n
  closed : ∀ d x d' y, m.label d x ≠ 0 → LabelStep m n d x d' y →
    m.label d' y ≠ 0 ∧ m.label d' y ≤ m.label d x
  order : ∀ p c q, pre = p ++ c :: q → 0 < m.label 1 c ∧ m.label 1 c ≤ compress_counter m p
  root : ∀ p c q, pre = p ++ c :: q → m.label 1 c = compress_counter m p →
    ∀ d x, m.label d x = m.label 1 c → LabelPath m n (m.label 1 c) (1, c) (d, x)
  rooted : ∀ d x, m.label d x ≠ 0 → ∃ p c q, pre = p ++ c :: q ∧
    m.label 1 c = compress_counter m p ∧ m.label d x = m.label 1 c

/-- The downward steps of a run of the traversal of `star` for the node `n`, from the mesh
`m` to the mesh `m'`: labels are only set, and every face that got a label (unless excepted
by `E`) has those entries of its boundary list labelled that have `n` in their boundary. -/
structure StarDown (n : Nat) (E : Nat → Prop) (m m' : Mesh) : Prop where
  grows : LabelsShrink m' m
  down : ∀ f sf, ¬ E f → m.label 2 f = 0 → m'.label 2 f ≠ 0 →
    m'.lookup_simplex 2 f = some sf → ∀ b ∈ sf.m_boundary, InBoundary m' 1 b 0 n →
    m'.label 1 b ≠ 0

/-- The compact fan with a fourth tetrahedron that touches it at the node 1 only: the nodes
5, 6, 7, the edges 10 = (1,5), 11 = (1,6), 12 = (1,7), 13 = (5,6), 14 = (5,7), 15 = (6,7), the
faces 9 to 12 and the tetrahedron 3. Every node and edge stores one representative co-face;
the representative of the node 1 is the edge 0 of the fan. -/
def pinched_fan : Mesh :=
  { compact_fan with
    m_node_kernel := ⟨compact_fan.m_node_kernel.elements ++
      [⟨true, ⟨[], [10], true, 0⟩⟩, ⟨true, ⟨[], [11], true, 0⟩⟩,
        ⟨true, ⟨[], [12], true, 0⟩⟩], []⟩,
    m_edge_kernel := ⟨compact_fan.m_edge_kernel.elements ++
      [⟨true, ⟨[1, 5], [9], true, 0⟩⟩, ⟨true, ⟨[1, 6], [9], true, 0⟩⟩,
        ⟨true, ⟨[1, 7], [10], true, 0⟩⟩, ⟨true, ⟨[5, 6], [9], true, 0⟩⟩,
        ⟨true, ⟨[5, 7], [10], true, 0⟩⟩, ⟨true, ⟨[6, 7], [11], true, 0⟩⟩], []⟩,
    m_face_kernel := ⟨compact_fan.m_face_kernel.elements ++
      [⟨true, ⟨[10, 13, 11], [3], true, 0⟩⟩, ⟨true, ⟨[10, 14, 12], [3], true, 0⟩⟩,
        ⟨true, ⟨[11, 15, 12], [3], true, 0⟩⟩, ⟨true, ⟨[13, 15, 14], [3], true, 0⟩⟩], []⟩,
    m_tetrahedron_kernel := ⟨compact_fan.m_tetrahedron_kernel.elements ++
      [⟨true, ⟨[9, 10, 11, 12], [], true, 0⟩⟩], []⟩ }

end ISMesh

namespace ISMesh

/-! # Facts about the containers and the kernels -/

theorem mem_set_insert (k x : Nat) (l : List Nat) : x ∈ set_insert k l ↔ x = k ∨ x ∈ l := by
  induction l with
  | nil => simp [set_insert]
  | cons a l ih =>
    unfold set_insert
    split_ifs with h1 h2
    · simp
    · subst h2; simp
    · simp [ih]; tauto

theorem Kernel.find_eq_some {K : Kernel} {k : Nat} {s : Simplex} :
    K.find k = some s ↔ K.elements[k]? = some { valid := true, value := s } := by
  unfold Kernel.find
  cases h : K.elements[k]? with
  | none => simp
  | some e =>
    rcases e with ⟨v, x⟩
    cases v <;> simp

theorem Kernel.find_create (K : Kernel) (d k : Nat) :
    (K.create d).1.find k =
      if k = K.elements.length then some (Simplex.create d) else K.find k := by
  unfold Kernel.create Kernel.find
  simp only [List.getElem?_append]
  by_cases h : k < K.elements.length
  · simp [h, Nat.ne_of_lt h]
  · by_cases h2 : k = K.elements.length
    · subst h2; simp
    · have h3 : K.elements.length < k := by omega
      have h4 : K.elements[k]? = none := List.getElem?_eq_none (by omega)
      have h5 : [({ valid := true, value := Simplex.create d } : KernelElement)][k - K.elements.length]?
          = none := List.getElem?_eq_none (by simp; omega)
      simp [h, h2, h4, h5]

theorem Kernel.find_modify {K K' : Kernel} {k : Nat} {f : Simplex → Simplex}
    (h : K.modify k f = some K') (k' : Nat) :
    K'.find k' = if k' = k then (K.find k).map f else K.find k' := by
  unfold Kernel.modify at h
  cases hs : K.find k with
  | none => simp [hs] at h
  | some s =>
    simp only [hs, Option.some.injEq] at h
    subst h
    have hlt : k < K.elements.length := by
      have := Kernel.find_eq_some.1 hs
      by_contra hc
      rw [List.getElem?_eq_none (by omega)] at this
      exact absurd this (by simp)
    by_cases hk : k' = k
    · subst hk
      simp [Kernel.find, List.getElem?_set, hlt]
    · have hk2 : k ≠ k' := fun h => hk h.symm
      simp [Kernel.find, List.getElem?_set, hk, hk2]

theorem Kernel.kernel_modify_isSome {K : Kernel} {k : Nat} {s : Simplex} (f : Simplex → Simplex)
    (h : K.find k = some s) : ∃ K', K.modify k f = some K' := by
  unfold Kernel.modify; simp [h]

namespace Mesh

theorem kernel_setKernel (m : Mesh) (d d' : Nat) (K : Kernel) :
    (m.setKernel d K).kernel d' = if min d 3 = min d' 3 then K else m.kernel d' := by
  rcases d with _ | _ | _ | d <;> rcases d' with _ | _ | _ | d' <;>
    simp [setKernel, kernel]

theorem lookup_modify {m m' : Mesh} {d k : Nat} {f : Simplex → Simplex}
    (h : m.modify d k f = some m') (d' k' : Nat) :
    m'.lookup_simplex d' k' =
      if min d 3 = min d' 3 ∧ k' = k then (m.lookup_simplex d k).map f
      else m.lookup_simplex d' k' := by
  unfold modify at h
  cases hK : (m.kernel d).modify k f with
  | none => simp [hK] at h
  | some K =>
    simp only [hK, Option.some.injEq] at h
    subst h
    unfold lookup_simplex
    rw [kernel_setKernel]
    by_cases hd : min d 3 = min d' 3
    · have hkk : m.kernel d' = m.kernel d := by
        rcases d with _ | _ | _ | d <;> rcases d' with _ | _ | _ | d' <;>
          simp [kernel] at hd ⊢
      simp only [hd, if_true, true_and, hkk]
      exact Kernel.find_modify hK k'
    · simp [hd]

theorem lookup_create (m : Mesh) (d d' k' : Nat) :
    (create m d).1.lookup_simplex d' k' =
      if min d 3 = min d' 3 ∧ k' = (m.kernel d).elements.length then some (Simplex.create d)
      else m.lookup_simplex d' k' := by
  unfold create lookup_simplex
  simp only
  rw [kernel_setKernel]
  by_cases hd : min d 3 = min d' 3
  · have hkk : m.kernel d' = m.kernel d := by
      rcases d with _ | _ | _ | d <;> rcases d' with _ | _ | _ | d' <;>
        simp [kernel] at hd ⊢
    simp only [hd, if_true, true_and, hkk]
    exact Kernel.find_create _ _ _
  · simp [hd]

end Mesh

end ISMesh

namespace ISMesh

/-! # The insert operators keep the mesh well formed -/

theorem CoGrow.refl (s : Option Simplex) : CoGrow s s := by
  cases s <;> simp [CoGrow]

theorem CoGrow.trans {a b c : Option Simplex} (h1 : CoGrow a b) (h2 : CoGrow b c) :
    CoGrow a c := by
  cases a <;> cases b <;> cases c <;> simp_all [CoGrow]

theorem Mesh.lookup_create_none (m : Mesh) (d : Nat) :
    m.lookup_simplex d (m.kernel d).elements.length = none := by
  unfold Mesh.lookup_simplex Kernel.find
  rw [List.getElem?_eq_none (Nat.le_refl _)]

/-- A mesh whose nodes and edges are all uncompressed: `uncompress` only counts. -/
theorem uncompress_kernel {m m' : Mesh} {d k : Nat} (hu : Uncompressed m)
    (h : uncompress m d k = some m') : ∀ d', m'.kernel d' = m.kernel d' := by
  unfold uncompress at h
  by_cases hd : d ≥ 2
  · simp only [hd, if_true, pure, Option.some.injEq] at h
    subst h; intro d'; rfl
  · simp only [hd, if_false, bind, Option.bind_eq_some, pure] at h
    obtain ⟨s, hs, h⟩ := h
    have hs0 : m.lookup_simplex d k = some s := by
      rw [← hs]; rcases d with _ | _ | _ | d <;> rfl
    have hc : s.m_is_compact = false := hu d k s (by omega) hs0
    simp only [hc, Bool.not_false, if_true, Option.some.injEq] at h
    subst h; intro d'
    rcases d' with _ | _ | _ | d' <;> rfl

theorem Uncompressed.of_kernel {m m' : Mesh} (hu : Uncompressed m)
    (h : ∀ d', m'.kernel d' = m.kernel d') : Uncompressed m' := by
  intro d k s hd hs
  apply hu d k s hd
  simpa [Mesh.lookup_simplex, h] using hs

theorem uncompress_fold_kernel (d : Nat) (l : List Nat) :
    ∀ {m m' : Mesh}, Uncompressed m →
      l.foldlM (fun m k => uncompress m d k) m = some m' →
      ∀ d', m'.kernel d' = m.kernel d' := by
  induction l with
  | nil =>
    intro m m' _ h d'
    simp only [List.foldlM_nil, pure, Option.some.injEq] at h
    subst h; rfl
  | cons a l ih =>
    intro m m' hu h d'
    simp only [List.foldlM_cons, bind, Option.bind_eq_some] at h
    obtain ⟨m1, h1, h2⟩ := h
    have hk := uncompress_kernel hu h1
    rw [ih (hu.of_kernel hk) h2 d', hk d']

theorem uncompress_set_kernel {m m' : Mesh} {s : SimplexSet} (hu : Uncompressed m)
    (h : uncompress_set m s = some m') : ∀ d', m'.kernel d' = m.kernel d' := by
  unfold uncompress_set at h
  simp only [bind, Option.bind_eq_some] at h
  obtain ⟨m1, h1, h2⟩ := h
  intro d'
  have hk := uncompress_fold_kernel 1 s.edges hu h1
  rw [uncompress_fold_kernel 0 s.nodes (hu.of_kernel hk) h2 d', hk d']

/-- Adding a co-face only grows co-boundaries. -/
theorem modify_add_co_face_grow {m m' : Mesh} {d k x : Nat}
    (h : m.modify d k (fun s => s.add_co_face x) = some m') (d' k' : Nat) :
    CoGrow (m.lookup_simplex d' k') (m'.lookup_simplex d' k') := by
  rw [Mesh.lookup_modify h d' k']
  by_cases hc : min d 3 = min d' 3 ∧ k' = k
  · obtain ⟨hd, hk⟩ := hc
    subst hk
    have hkk : m.lookup_simplex d' k' = m.lookup_simplex d k' := by
      unfold Mesh.lookup_simplex
      rcases d with _ | _ | _ | d <;> rcases d' with _ | _ | _ | d' <;>
        simp [Mesh.kernel] at hd ⊢
    simp only [hd, and_self, if_true, hkk]
    cases hs : m.lookup_simplex d k' with
    | none => simp [CoGrow]
    | some s =>
      simp only [Option.map_some', CoGrow, Simplex.add_co_face, true_and]
      intro y hy
      exact (mem_set_insert _ _ _).2 (Or.inr hy)
  · simp only [hc, if_false]
    exact CoGrow.refl _

/-- After adding the co-face `x` to the simplex `k`, its co-boundary contains `x`. -/
theorem modify_add_co_face_mem {m m' : Mesh} {d k x : Nat}
    (h : m.modify d k (fun s => s.add_co_face x) = some m') :
    ∃ s, m'.lookup_simplex d k = some s ∧ x ∈ s.m_co_boundary := by
  rw [Mesh.lookup_modify h d k]
  simp only [and_self, if_true]
  unfold Mesh.modify at h
  cases hK : (m.kernel d).modify k (fun s => s.add_co_face x) with
  | none => simp [hK] at h
  | some K =>
    unfold Kernel.modify at hK
    cases hs : (m.kernel d).find k with
    | none => simp [hs] at hK
    | some s =>
      refine ⟨s.add_co_face x, by simp [Mesh.lookup_simplex, hs], ?_⟩
      exact (mem_set_insert _ _ _).2 (Or.inl rfl)

/-- Co-boundary membership survives growth. -/
theorem CoGrow.mem {s s' : Option Simplex} (h : CoGrow s s') {a : Simplex} {x : Nat}
    (ha : s = some a) (hx : x ∈ a.m_co_boundary) :
    ∃ b, s' = some b ∧ x ∈ b.m_co_boundary := by
  subst ha
  cases s' with
  | none => simp [CoGrow] at h
  | some b => exact ⟨b, rfl, h.2.2 x hx⟩

/-- The three invariants are kept when a mesh is extended by one fresh simplex whose
boundary entries list it, all other simplices keeping their records up to growth of the
co-boundary. -/
theorem invariants_extend {m m' : Mesh} {d e : Nat} {snew : Simplex} (hd3 : d ≤ 3)
    (hu : Uncompressed m) (ha : BoundaryArity m) (hi : Incidence m)
    (hnone : m.lookup_simplex d e = none)
    (hnew : m'.lookup_simplex d e = some snew)
    (hcompact : d < 2 → snew.m_is_compact = false)
    (hlen : 1 ≤ d → snew.m_boundary.length = d + 1)
    (hbnd : 1 ≤ d → ∀ b ∈ snew.m_boundary,
      ∃ sb, m'.lookup_simplex (d - 1) b = some sb ∧ e ∈ sb.m_co_boundary)
    (hrest : ∀ d' k', d' ≤ 3 → ¬ (d' = d ∧ k' = e) →
      CoGrow (m.lookup_simplex d' k') (m'.lookup_simplex d' k')) :
    Uncompressed m' ∧ BoundaryArity m' ∧ Incidence m' := by
  have key : ∀ d' k' s', d' ≤ 3 → ¬ (d' = d ∧ k' = e) → m'.lookup_simplex d' k' = some s' →
      ∃ s, m.lookup_simplex d' k' = some s ∧ s'.m_boundary = s.m_boundary ∧
        s'.m_is_compact = s.m_is_compact := by
    intro d' k' s' hd' hne hs'
    have := hrest d' k' hd' hne
    rw [hs'] at this
    cases hs : m.lookup_simplex d' k' with
    | none => rw [hs] at this; simp [CoGrow] at this
    | some s => rw [hs] at this; exact ⟨s, rfl, this.1, this.2.1⟩
  refine ⟨?_, ?_, ?_⟩
  · intro d' k' s' hd' hs'
    by_cases hc : d' = d ∧ k' = e
    · obtain ⟨h1, h2⟩ := hc
      subst h1 h2
      rw [hnew] at hs'
      cases hs'
      exact hcompact hd'
    · obtain ⟨s, hs, _, hcp⟩ := key d' k' s' (by omega) hc hs'
      rw [hcp]; exact hu d' k' s hd' hs
  · intro d' k' s' h1 h3 hs'
    by_cases hc : d' = d ∧ k' = e
    · obtain ⟨h1', h2⟩ := hc
      subst h1' h2
      rw [hnew] at hs'
      cases hs'
      exact hlen h1
    · obtain ⟨s, hs, hb, _⟩ := key d' k' s' h3 hc hs'
      rw [hb]; exact ha d' k' s h1 h3 hs
  · intro d' k' s' h1 h3 hs' b hb
    by_cases hc : d' = d ∧ k' = e
    · obtain ⟨h1', h2⟩ := hc
      subst h1' h2
      rw [hnew] at hs'
      cases hs'
      exact hbnd h1 b hb
    · obtain ⟨s, hs, hbd, _⟩ := key d' k' s' h3 hc hs'
      rw [hbd] at hb
      obtain ⟨sb, hsb, hk⟩ := hi d' k' s h1 h3 hs b hb
      have hne : ¬ (d' - 1 = d ∧ b = e) := by
        rintro ⟨h1', h2⟩
        subst h1' h2
        rw [hnone] at hsb
        cases hsb
      exact (hrest (d' - 1) b (by omega) hne).mem hsb hk

end ISMesh

namespace ISMesh

theorem Mesh.lookup_modify_ne {m m' : Mesh} {d k : Nat} {f : Simplex → Simplex}
    (h : m.modify d k f = some m') {d' k' : Nat} (hd : d ≤ 3) (hd' : d' ≤ 3)
    (hne : ¬ (d' = d ∧ k' = k)) : m'.lookup_simplex d' k' = m.lookup_simplex d' k' := by
  rw [Mesh.lookup_modify h d' k']
  have : ¬ (min d 3 = min d' 3 ∧ k' = k) := by
    rintro ⟨h1, h2⟩
    apply hne
    rw [Nat.min_eq_left hd, Nat.min_eq_left hd'] at h1
    exact ⟨h1.symm, h2⟩
  simp only [this, if_false]

theorem Mesh.lookup_modify_same {m m' : Mesh} {d k : Nat} {f : Simplex → Simplex}
    (h : m.modify d k f = some m') :
    m'.lookup_simplex d k = (m.lookup_simplex d k).map f := by
  rw [Mesh.lookup_modify h d k]
  simp

theorem Mesh.lookup_of_kernel {m m' : Mesh} (h : ∀ d', m'.kernel d' = m.kernel d')
    (d k : Nat) : m'.lookup_simplex d k = m.lookup_simplex d k := by
  unfold Mesh.lookup_simplex; rw [h]

theorem Mesh.lookup_create_ne (m : Mesh) {d d' k' : Nat} (hd : d ≤ 3) (hd' : d' ≤ 3)
    (hne : ¬ (d' = d ∧ k' = (m.kernel d).elements.length)) :
    (create m d).1.lookup_simplex d' k' = m.lookup_simplex d' k' := by
  rw [Mesh.lookup_create]
  have : ¬ (min d 3 = min d' 3 ∧ k' = (m.kernel d).elements.length) := by
    rintro ⟨h1, h2⟩
    apply hne
    rw [Nat.min_eq_left hd, Nat.min_eq_left hd'] at h1
    exact ⟨h1.symm, h2⟩
  simp only [this, if_false]

theorem Mesh.lookup_create_same (m : Mesh) (d : Nat) :
    (create m d).1.lookup_simplex d (m.kernel d).elements.length = some (Simplex.create d) := by
  rw [Mesh.lookup_create]
  simp

theorem Uncompressed.create {m : Mesh} (hu : Uncompressed m) (d : Nat) :
    Uncompressed (create m d).1 := by
  intro d' k s hd' hs
  rw [Mesh.lookup_create] at hs
  by_cases hc : min d 3 = min d' 3 ∧ k = (m.kernel d).elements.length
  · simp only [hc, and_self, if_true, Option.some.injEq] at hs
    subst hs
    have : d < 2 := by
      have := hc.1
      omega
    simp [Simplex.create]
    omega
  · simp only [hc, if_false] at hs
    exact hu d' k s hd' hs

theorem insert_node_invariants {m m' : Mesh} {k : Nat}
    (hu : Uncompressed m) (ha : BoundaryArity m) (hi : Incidence m)
    (h : insert_node m false = some (m', k)) :
    Uncompressed m' ∧ BoundaryArity m' ∧ Incidence m' := by
  unfold insert_node at h
  simp only [bind, Option.bind_eq_some, pure, Option.some.injEq, Prod.mk.injEq] at h
  obtain ⟨m2, h2, rfl, rfl⟩ := h
  have hnew := Mesh.lookup_modify_same h2
  rw [show (create m 0).2 = (m.kernel 0).elements.length from rfl] at hnew h2
  rw [Mesh.lookup_create_same] at hnew
  refine invariants_extend (d := 0) (by omega) hu ha hi (Mesh.lookup_create_none m 0) hnew
    (fun _ => rfl) (fun h => absurd h (by omega)) (fun h => absurd h (by omega)) ?_
  intro d' k' hd' hne
  rw [Mesh.lookup_modify_ne h2 (by omega) hd' hne, Mesh.lookup_create_ne m (by omega) hd' hne]
  exact CoGrow.refl _

theorem insert_edge_spec {m m' : Mesh} {n1 n2 e : Nat} (hu : Uncompressed m)
    (h : insert_edge m n1 n2 false = some (m', e)) :
    e = (m.kernel 1).elements.length ∧
    m'.lookup_simplex 1 e = some
      { m_boundary := [n1, n2], m_co_boundary := [], m_is_compact := false, m_label := 0 } ∧
    (∃ sb, m'.lookup_simplex 0 n1 = some sb ∧ e ∈ sb.m_co_boundary) ∧
    (∃ sb, m'.lookup_simplex 0 n2 = some sb ∧ e ∈ sb.m_co_boundary) ∧
    (∀ d' k', d' ≤ 3 → ¬ (d' = 1 ∧ k' = e) →
      CoGrow (m.lookup_simplex d' k') (m'.lookup_simplex d' k')) := by
  unfold insert_edge at h
  simp only [bind, Option.bind_eq_some, pure, Option.some.injEq, Prod.mk.injEq] at h
  obtain ⟨m2, h2, m3, h3, m4, h4, m5, h5, m6, h6, m7, h7, m8, h8, rfl, rfl⟩ := h
  rw [show (create m 1).2 = (m.kernel 1).elements.length from rfl] at *
  have hu1 := hu.create 1
  have k2 := uncompress_kernel hu1 h2
  have k3 := uncompress_kernel (hu1.of_kernel k2) h3
  have l3 : ∀ d k, m3.lookup_simplex d k = (create m 1).1.lookup_simplex d k := fun d k => by
    rw [Mesh.lookup_of_kernel k3, Mesh.lookup_of_kernel k2]
  have g4 := modify_add_co_face_grow h4
  have g5 := modify_add_co_face_grow h5
  have f8 : ∀ d' k', d' ≤ 3 → ¬ (d' = 1 ∧ k' = (m.kernel 1).elements.length) →
      m8.lookup_simplex d' k' = m5.lookup_simplex d' k' := fun d' k' hd' hne => by
    rw [Mesh.lookup_modify_ne h8 (by omega) hd' hne, Mesh.lookup_modify_ne h7 (by omega) hd' hne,
      Mesh.lookup_modify_ne h6 (by omega) hd' hne]
  refine ⟨rfl, ?_, ?_, ?_, ?_⟩
  · rw [Mesh.lookup_modify_same h8, Mesh.lookup_modify_same h7, Mesh.lookup_modify_same h6,
      Mesh.lookup_modify_ne h5 (by omega) (by omega) (by omega),
      Mesh.lookup_modify_ne h4 (by omega) (by omega) (by omega), l3,
      Mesh.lookup_create_same]
    rfl
  · obtain ⟨s, hs, hmem⟩ := modify_add_co_face_mem h4
    obtain ⟨b, hb, hmem'⟩ := (g5 0 n1).mem hs hmem
    exact ⟨b, by rw [f8 0 n1 (by omega) (by omega)]; exact hb, hmem'⟩
  · obtain ⟨s, hs, hmem⟩ := modify_add_co_face_mem h5
    exact ⟨s, by rw [f8 0 n2 (by omega) (by omega)]; exact hs, hmem⟩
  · intro d' k' hd' hne
    rw [f8 d' k' hd' hne]
    have h0 : m.lookup_simplex d' k' = m3.lookup_simplex d' k' := by
      rw [l3, Mesh.lookup_create_ne m (by omega) hd' hne]
    rw [h0]
    exact (g4 d' k').trans (g5 d' k')

theorem insert_edge_invariants {m m' : Mesh} {n1 n2 k : Nat}
    (hu : Uncompressed m) (ha : BoundaryArity m) (hi : Incidence m)
    (h : insert_edge m n1 n2 false = some (m', k)) :
    Uncompressed m' ∧ BoundaryArity m' ∧ Incidence m' := by
  obtain ⟨rfl, hnew, hb1, hb2, hrest⟩ := insert_edge_spec hu h
  refine invariants_extend (d := 1) (by omega) hu ha hi (Mesh.lookup_create_none m 1) hnew
    (fun _ => rfl) (fun _ => rfl) ?_ hrest
  intro _ b hb
  simp only [List.mem_cons, List.mem_singleton, List.not_mem_nil, or_false] at hb
  rcases hb with rfl | rfl
  · exact hb1
  · exact hb2

end ISMesh

namespace ISMesh

theorem insert_face_spec {m m' : Mesh} {e1 e2 e3 f : Nat} (hu : Uncompressed m)
    (h : insert_face m e1 e2 e3 = some (m', f)) :
    f = (m.kernel 2).elements.length ∧
    m'.lookup_simplex 2 f = some
      { m_boundary := [e1, e2, e3], m_co_boundary := [], m_is_compact := true, m_label := 0 } ∧
    (∀ b ∈ [e1, e2, e3], ∃ sb, m'.lookup_simplex 1 b = some sb ∧ f ∈ sb.m_co_boundary) ∧
    (∀ d' k', d' ≤ 3 → ¬ (d' = 2 ∧ k' = f) →
      CoGrow (m.lookup_simplex d' k') (m'.lookup_simplex d' k')) := by
  unfold insert_face at h
  simp only [bind, Option.bind_eq_some, pure, Option.some.injEq, Prod.mk.injEq] at h
  obtain ⟨s1, -, s2, -, s3, -, m2, h2, m3, h3, m4, h4, m5, h5, m6, h6, m7, h7, m8, h8,
    rfl, rfl⟩ := h
  rw [show (create m 2).2 = (m.kernel 2).elements.length from rfl] at *
  have hu1 := hu.create 2
  have k2 := uncompress_set_kernel hu1 h2
  have l2 : ∀ d k, m2.lookup_simplex d k = (create m 2).1.lookup_simplex d k := fun d k => by
    rw [Mesh.lookup_of_kernel k2]
  have g3 := modify_add_co_face_grow h3
  have g4 := modify_add_co_face_grow h4
  have g5 := modify_add_co_face_grow h5
  have f8 : ∀ d' k', d' ≤ 3 → ¬ (d' = 2 ∧ k' = (m.kernel 2).elements.length) →
      m8.lookup_simplex d' k' = m5.lookup_simplex d' k' := fun d' k' hd' hne => by
    rw [Mesh.lookup_modify_ne h8 (by omega) hd' hne, Mesh.lookup_modify_ne h7 (by omega) hd' hne,
      Mesh.lookup_modify_ne h6 (by omega) hd' hne]
  refine ⟨rfl, ?_, ?_, ?_⟩
  · rw [Mesh.lookup_modify_same h8, Mesh.lookup_modify_same h7, Mesh.lookup_modify_same h6,
      Mesh.lookup_modify_ne h5 (by omega) (by omega) (by omega),
      Mesh.lookup_modify_ne h4 (by omega) (by omega) (by omega),
      Mesh.lookup_modify_ne h3 (by omega) (by omega) (by omega), l2,
      Mesh.lookup_create_same]
    rfl
  · intro b hb
    simp only [List.mem_cons, List.mem_singleton, List.not_mem_nil, or_false] at hb
    rcases hb with rfl | rfl | rfl
    · obtain ⟨s, hs, hmem⟩ := modify_add_co_face_mem h3
      obtain ⟨b1, hb1, hmem1⟩ := (g4 1 b).mem hs hmem
      obtain ⟨b2, hb2, hmem2⟩ := (g5 1 b).mem hb1 hmem1
      exact ⟨b2, by rw [f8 1 b (by omega) (by omega)]; exact hb2, hmem2⟩
    · obtain ⟨s, hs, hmem⟩ := modify_add_co_face_mem h4
      obtain ⟨b2, hb2, hmem2⟩ := (g5 1 b).mem hs hmem
      exact ⟨b2, by rw [f8 1 b (by omega) (by omega)]; exact hb2, hmem2⟩
    · obtain ⟨s, hs, hmem⟩ := modify_add_co_face_mem h5
      exact ⟨s, by rw [f8 1 b (by omega) (by omega)]; exact hs, hmem⟩
  · intro d' k' hd' hne
    rw [f8 d' k' hd' hne]
    have h0 : m.lookup_simplex d' k' = m2.lookup_simplex d' k' := by
      rw [l2, Mesh.lookup_create_ne m (by omega) hd' hne]
    rw [h0]
    exact ((g3 d' k').trans (g4 d' k')).trans (g5 d' k')

theorem insert_face_invariants {m m' : Mesh} {e1 e2 e3 k : Nat}
    (hu : Uncompressed m) (ha : BoundaryArity m) (hi : Incidence m)
    (h : insert_face m e1 e2 e3 = some (m', k)) :
    Uncompressed m' ∧ BoundaryArity m' ∧ Incidence m' := by
  obtain ⟨rfl, hnew, hb, hrest⟩ := insert_face_spec hu h
  exact invariants_extend (d := 2) (by omega) hu ha hi (Mesh.lookup_create_none m 2) hnew
    (fun h => absurd h (by omega)) (fun _ => rfl) (fun _ => hb) hrest

theorem insert_tetrahedron_spec {m m' : Mesh} {f1 f2 f3 f4 t : Nat} (hu : Uncompressed m)
    (h : insert_tetrahedron m f1 f2 f3 f4 = some (m', t)) :
    t = (m.kernel 3).elements.length ∧
    m'.lookup_simplex 3 t = some
      { m_boundary := [f1, f2, f3, f4], m_co_boundary := [], m_is_compact := true,
        m_label := 0 } ∧
    (∀ b ∈ [f1, f2, f3, f4], ∃ sb, m'.lookup_simplex 2 b = some sb ∧ t ∈ sb.m_co_boundary) ∧
    (∀ d' k', d' ≤ 3 → ¬ (d' = 3 ∧ k' = t) →
      CoGrow (m.lookup_simplex d' k') (m'.lookup_simplex d' k')) := by
  unfold insert_tetrahedron insert_tetrahedron_relations at h
  simp only [bind, Option.bind_eq_some, pure, Option.some.injEq, Prod.mk.injEq] at h
  obtain ⟨s1, -, s2, -, s3, -, s4, -, m2, h2, m10, ⟨m3, h3, m4, h4, m5, h5, m6, h6, m7, h7,
    m8, h8, m9, h9, h10⟩, rfl, rfl⟩ := h
  rw [show (create m 3).2 = (m.kernel 3).elements.length from rfl] at *
  have hu1 := hu.create 3
  have k2 := uncompress_set_kernel hu1 h2
  have l2 : ∀ d k, m2.lookup_simplex d k = (create m 3).1.lookup_simplex d k := fun d k => by
    rw [Mesh.lookup_of_kernel k2]
  have g3 := modify_add_co_face_grow h3
  have g4 := modify_add_co_face_grow h4
  have g5 := modify_add_co_face_grow h5
  have g6 := modify_add_co_face_grow h6
  have f10 : ∀ d' k', d' ≤ 3 → ¬ (d' = 3 ∧ k' = (m.kernel 3).elements.length) →
      m10.lookup_simplex d' k' = m6.lookup_simplex d' k' := fun d' k' hd' hne => by
    rw [Mesh.lookup_modify_ne h10 (by omega) hd' hne,
      Mesh.lookup_modify_ne h9 (by omega) hd' hne,
      Mesh.lookup_modify_ne h8 (by omega) hd' hne, Mesh.lookup_modify_ne h7 (by omega) hd' hne]
  refine ⟨rfl, ?_, ?_, ?_⟩
  · rw [Mesh.lookup_modify_same h10, Mesh.lookup_modify_same h9, Mesh.lookup_modify_same h8,
      Mesh.lookup_modify_same h7,
      Mesh.lookup_modify_ne h6 (by omega) (by omega) (by omega),
      Mesh.lookup_modify_ne h5 (by omega) (by omega) (by omega),
      Mesh.lookup_modify_ne h4 (by omega) (by omega) (by omega),
      Mesh.lookup_modify_ne h3 (by omega) (by omega) (by omega), l2,
      Mesh.lookup_create_same]
    rfl
  · intro b hb
    simp only [List.mem_cons, List.mem_singleton, List.not_mem_nil, or_false] at hb
    rcases hb with rfl | rfl | rfl | rfl
    · obtain ⟨s, hs, hmem⟩ := modify_add_co_face_mem h3
      obtain ⟨b1, hb1, hmem1⟩ := (g4 2 b).mem hs hmem
      obtain ⟨b2, hb2, hmem2⟩ := (g5 2 b).mem hb1 hmem1
      obtain ⟨b3, hb3, hmem3⟩ := (g6 2 b).mem hb2 hmem2
      exact ⟨b3, by rw [f10 2 b (by omega) (by omega)]; exact hb3, hmem3⟩
    · obtain ⟨s, hs, hmem⟩ := modify_add_co_face_mem h4
      obtain ⟨b2, hb2, hmem2⟩ := (g5 2 b).mem hs hmem
      obtain ⟨b3, hb3, hmem3⟩ := (g6 2 b).mem hb2 hmem2
      exact ⟨b3, by rw [f10 2 b (by omega) (by omega)]; exact hb3, hmem3⟩
    · obtain ⟨s, hs, hmem⟩ := modify_add_co_face_mem h5
      obtain ⟨b3, hb3, hmem3⟩ := (g6 2 b).mem hs hmem
      exact ⟨b3, by rw [f10 2 b (by omega) (by omega)]; exact hb3, hmem3⟩
    · obtain ⟨s, hs, hmem⟩ := modify_add_co_face_mem h6
      exact ⟨s, by rw [f10 2 b (by omega) (by omega)]; exact hs, hmem⟩
  · intro d' k' hd' hne
    rw [f10 d' k' hd' hne]
    have h0 : m.lookup_simplex d' k' = m2.lookup_simplex d' k' := by
      rw [l2, Mesh.lookup_create_ne m (by omega) hd' hne]
    rw [h0]
    exact (((g3 d' k').trans (g4 d' k')).trans (g5 d' k')).trans (g6 d' k')

theorem insert_tetrahedron_invariants {m m' : Mesh} {f1 f2 f3 f4 k : Nat}
    (hu : Uncompressed m) (ha : BoundaryArity m) (hi : Incidence m)
    (h : insert_tetrahedron m f1 f2 f3 f4 = some (m', k)) :
    Uncompressed m' ∧ BoundaryArity m' ∧ Incidence m' := by
  obtain ⟨rfl, hnew, hb, hrest⟩ := insert_tetrahedron_spec hu h
  exact invariants_extend (d := 3) (by omega) hu ha hi (Mesh.lookup_create_none m 3) hnew
    (fun h => absurd h (by omega)) (fun _ => rfl) (fun _ => hb) hrest

theorem Mesh.lookup_empty (d k : Nat) : Mesh.empty.lookup_simplex d k = none := by
  rcases d with _ | _ | _ | d <;> simp [Mesh.lookup_simplex, Mesh.kernel, Mesh.empty, Kernel.empty, Kernel.find]

/-- The three invariants hold in every mesh built by the insert operators. -/
theorem reachable_invariants {m : Mesh} (h : Reachable m) :
    Uncompressed m ∧ BoundaryArity m ∧ Incidence m := by
  induction h with
  | empty =>
    refine ⟨?_, ?_, ?_⟩
    · intro d k s _ hs; rw [Mesh.lookup_empty] at hs; cases hs
    · intro d k s _ _ hs; rw [Mesh.lookup_empty] at hs; cases hs
    · intro d k s _ _ hs; rw [Mesh.lookup_empty] at hs; cases hs
  | node _ h ih => exact insert_node_invariants ih.1 ih.2.1 ih.2.2 h
  | edge _ h ih => exact insert_edge_invariants ih.1 ih.2.1 ih.2.2 h
  | face _ h ih => exact insert_face_invariants ih.1 ih.2.1 ih.2.2 h
  | tetrahedron _ h ih => exact insert_tetrahedron_invariants ih.1 ih.2.1 ih.2.2 h

end ISMesh

namespace ISMesh

theorem reachable_run_inserts (l : List Insert) :
    ∀ {m m' : Mesh}, Reachable m → run_inserts m l = some m' → Reachable m' := by
  induction l with
  | nil =>
    intro m m' hr h
    simp only [run_inserts, Option.some.injEq] at h
    subst h; exact hr
  | cons i rest ih =>
    intro m m' hr h
    unfold run_inserts at h
    cases hi : run_insert m i with
    | none => simp [hi] at h
    | some r =>
      simp only [hi] at h
      refine ih ?_ h
      rcases r with ⟨m1, k⟩
      cases i with
      | node => exact Reachable.node hr hi
      | edge n1 n2 => exact Reachable.edge hr hi
      | face e1 e2 e3 => exact Reachable.face hr hi
      | tetrahedron f1 f2 f3 f4 => exact Reachable.tetrahedron hr hi

theorem run_triangle : run_inserts Mesh.empty triangle_script = some triangle_mesh := by decide!

theorem run_tetrahedron : run_inserts Mesh.empty tetrahedron_script = some tetrahedron_mesh := by
  decide!

theorem reachable_triangle : Reachable triangle_mesh :=
  reachable_run_inserts _ Reachable.empty run_triangle

theorem reachable_tetrahedron : Reachable tetrahedron_mesh :=
  reachable_run_inserts _ Reachable.empty run_tetrahedron

end ISMesh

namespace ISMesh

theorem Mesh.modify_isSome {m : Mesh} {d k : Nat} (f : Simplex → Simplex)
    (h : (m.lookup_simplex d k).isSome) : ∃ m', m.modify d k f = some m' := by
  unfold Mesh.lookup_simplex at h
  unfold Mesh.modify Kernel.modify
  cases hs : (m.kernel d).find k with
  | none => simp [hs] at h
  | some s => simp

theorem Mesh.isSome_modify {m m' : Mesh} {d k : Nat} {f : Simplex → Simplex}
    (h : m.modify d k f = some m') (d' k' : Nat) :
    (m'.lookup_simplex d' k').isSome = (m.lookup_simplex d' k').isSome := by
  rw [Mesh.lookup_modify h d' k']
  by_cases hc : min d 3 = min d' 3 ∧ k' = k
  · obtain ⟨hd, hk⟩ := hc
    subst hk
    have hkk : m.lookup_simplex d' k' = m.lookup_simplex d k' := by
      unfold Mesh.lookup_simplex
      rcases d with _ | _ | _ | d <;> rcases d' with _ | _ | _ | d' <;>
        simp [Mesh.kernel] at hd ⊢
    simp [hd, hkk]
  · simp [hc]

theorem Mesh.kernel_incr_uncompressed (m : Mesh) (d : Nat) :
    m.incr_uncompressed.kernel d = m.kernel d := by
  rcases d with _ | _ | _ | d <;> rfl

theorem uncompress_of_uncompressed {m : Mesh} {d k : Nat} (hu : Uncompressed m) (hd : d < 2)
    (h : (m.lookup_simplex d k).isSome) :
    uncompress m d k = some m.incr_uncompressed := by
  cases hs : m.lookup_simplex d k with
  | none => simp [hs] at h
  | some s =>
    have hc := hu d k s hd hs
    have hs' : m.incr_uncompressed.lookup_simplex d k = some s := by
      rw [Mesh.lookup_of_kernel (Mesh.kernel_incr_uncompressed m), hs]
    unfold uncompress
    have : ¬ d ≥ 2 := by omega
    simp only [this, if_false, bind, pure, hs', Option.some_bind, hc, Bool.not_false, if_true]

/-- On a mesh built by the insert operators, `insert_edge` on two live nodes returns. -/
theorem insert_edge_returns {m : Mesh} (hr : Reachable m) {n1 n2 : Nat}
    (h1 : (m.lookup_simplex 0 n1).isSome) (h2 : (m.lookup_simplex 0 n2).isSome) :
    ∃ m' e, insert_edge m n1 n2 false = some (m', e) := by
  have hu := (reachable_invariants hr).1
  have hu1 := hu.create 1
  have hc : ∀ n, (create m 1).1.lookup_simplex 0 n = m.lookup_simplex 0 n := fun n =>
    Mesh.lookup_create_ne m (by omega) (by omega) (by omega)
  generalize hm1 : (create m 1).1 = m1 at hu1 hc
  have e2 := uncompress_of_uncompressed (d := 0) (k := n1) hu1 (by omega)
    (by rw [hc]; exact h1)
  have k2 := Mesh.kernel_incr_uncompressed m1
  generalize hm2 : m1.incr_uncompressed = m2 at e2 k2
  have e3 := uncompress_of_uncompressed (d := 0) (k := n2) (hu1.of_kernel k2) (by omega)
    (by rw [Mesh.lookup_of_kernel k2, hc]; exact h2)
  have k3 := Mesh.kernel_incr_uncompressed m2
  generalize hm3 : m2.incr_uncompressed = m3 at e3 k3
  have l3 : ∀ d k, m3.lookup_simplex d k = m1.lookup_simplex d k := fun d k => by
    rw [Mesh.lookup_of_kernel k3, Mesh.lookup_of_kernel k2]
  obtain ⟨m4, h4⟩ := Mesh.modify_isSome (m := m3) (d := 0) (k := n1)
    (fun x => x.add_co_face (create m 1).2) (by rw [l3, hc]; exact h1)
  obtain ⟨m5, h5⟩ := Mesh.modify_isSome (m := m4) (d := 0) (k := n2)
    (fun x => x.add_co_face (create m 1).2) (by rw [Mesh.isSome_modify h4, l3, hc]; exact h2)
  have s5 : (m5.lookup_simplex 1 (create m 1).2).isSome := by
    rw [Mesh.isSome_modify h5, Mesh.isSome_modify h4, l3, ← hm1]
    rw [show (create m 1).2 = (m.kernel 1).elements.length from rfl, Mesh.lookup_create_same]
    rfl
  obtain ⟨m6, h6⟩ := Mesh.modify_isSome (fun x => x.add_face n1) s5
  obtain ⟨m7, h7⟩ := Mesh.modify_isSome (m := m6) (d := 1) (k := (create m 1).2)
    (fun x => x.add_face n2) (by rw [Mesh.isSome_modify h6]; exact s5)
  obtain ⟨m8, h8⟩ := Mesh.modify_isSome (m := m7) (d := 1) (k := (create m 1).2)
    (fun x => x.set_compact false)
    (by rw [Mesh.isSome_modify h7, Mesh.isSome_modify h6]; exact s5)
  refine ⟨m8, (create m 1).2, ?_⟩
  unfold insert_edge
  simp only [bind, pure, hm1, e2, e3, h4, h5, h6, h7, h8, Option.some_bind]

/-- C1: bidirectional incidence is an invariant of the insert operators. In every mesh
built from the empty mesh by `insert_node`, `insert_edge`, `insert_face` and
`insert_tetrahedron` (default `is_compact = false`), every entry `b` of the boundary list
of a live simplex `s` is live and has `s` in its co-boundary set; and `insert_edge(n1, n2)`
on two live nodes returns an edge `e` whose boundary list is `[n1, n2]` and that lies in
the co-boundary sets of `n1` and of `n2`. -/
theorem insert_bidirectional_incidence (m : Mesh) (hr : Reachable m) :
    (∀ d k s, 1 ≤ d → d ≤ 3 → m.lookup_simplex d k = some s →
      ∀ b ∈ s.m_boundary, ∃ sb, m.lookup_simplex (d - 1) b = some sb ∧ k ∈ sb.m_co_boundary) ∧
    (∀ n1 n2, (m.lookup_simplex 0 n1).isSome → (m.lookup_simplex 0 n2).isSome →
      ∃ m' e, insert_edge m n1 n2 false = some (m', e)) ∧
    (∀ n1 n2 m' e, insert_edge m n1 n2 false = some (m', e) →
      (∃ s, m'.lookup_simplex 1 e = some s ∧ s.m_boundary = [n1, n2]) ∧
      (∃ s1, m'.lookup_simplex 0 n1 = some s1 ∧ e ∈ s1.m_co_boundary) ∧
      (∃ s2, m'.lookup_simplex 0 n2 = some s2 ∧ e ∈ s2.m_co_boundary)) := by
  refine ⟨(reachable_invariants hr).2.2, fun n1 n2 h1 h2 => insert_edge_returns hr h1 h2, ?_⟩
  intro n1 n2 m' e h
  obtain ⟨_, hnew, hb1, hb2, _⟩ := insert_edge_spec (reachable_invariants hr).1 h
  exact ⟨⟨_, hnew, rfl⟩, hb1, hb2⟩

/-- Witness of C1 on the mesh with one tetrahedron. -/
theorem insert_bidirectional_incidence_witness :
    (∀ d k s, 1 ≤ d → d ≤ 3 → tetrahedron_mesh.lookup_simplex d k = some s →
      ∀ b ∈ s.m_boundary,
        ∃ sb, tetrahedron_mesh.lookup_simplex (d - 1) b = some sb ∧ k ∈ sb.m_co_boundary) ∧
    (∀ n1 n2, (tetrahedron_mesh.lookup_simplex 0 n1).isSome →
      (tetrahedron_mesh.lookup_simplex 0 n2).isSome →
      ∃ m' e, insert_edge tetrahedron_mesh n1 n2 false = some (m', e)) ∧
    (∀ n1 n2 m' e, insert_edge tetrahedron_mesh n1 n2 false = some (m', e) →
      (∃ s, m'.lookup_simplex 1 e = some s ∧ s.m_boundary = [n1, n2]) ∧
      (∃ s1, m'.lookup_simplex 0 n1 = some s1 ∧ e ∈ s1.m_co_boundary) ∧
      (∃ s2, m'.lookup_simplex 0 n2 = some s2 ∧ e ∈ s2.m_co_boundary)) :=
  insert_bidirectional_incidence tetrahedron_mesh reachable_tetrahedron

/-- C2: boundary arity is an invariant of the insert operators. In every mesh built from
the empty mesh by `insert_node`, `insert_edge`, `insert_face` and `insert_tetrahedron`,
every live edge has a boundary list of length 2, every live face of length 3 and every
live tetrahedron of length 4. -/
theorem insert_boundary_arity (m : Mesh) (hr : Reachable m) :
    (∀ e s, m.lookup_simplex 1 e = some s → s.m_boundary.length = 2) ∧
    (∀ f s, m.lookup_simplex 2 f = some s → s.m_boundary.length = 3) ∧
    (∀ t s, m.lookup_simplex 3 t = some s → s.m_boundary.length = 4) := by
  have ha := (reachable_invariants hr).2.1
  exact ⟨fun e s h => ha 1 e s (by omega) (by omega) h,
    fun f s h => ha 2 f s (by omega) (by omega) h,
    fun t s h => ha 3 t s (by omega) (by omega) h⟩

/-- Witness of C2 on the mesh with one tetrahedron. -/
theorem insert_boundary_arity_witness :
    (∀ e s, tetrahedron_mesh.lookup_simplex 1 e = some s → s.m_boundary.length = 2) ∧
    (∀ f s, tetrahedron_mesh.lookup_simplex 2 f = some s → s.m_boundary.length = 3) ∧
    (∀ t s, tetrahedron_mesh.lookup_simplex 3 t = some s → s.m_boundary.length = 4) :=
  insert_boundary_arity tetrahedron_mesh reachable_tetrahedron

end ISMesh

namespace ISMesh

/-! # Key sets as ascending lists -/

theorem sorted_set_insert (k : Nat) {l : List Nat} (h : l.Sorted (· < ·)) :
    (set_insert k l).Sorted (· < ·) := by
  induction l with
  | nil => simp [set_insert]
  | cons a l ih =>
    have hl := List.sorted_cons.1 h
    unfold set_insert
    split_ifs with h1 h2
    · refine List.sorted_cons.2 ⟨?_, h⟩
      intro b hb
      rcases List.mem_cons.1 hb with rfl | hb
      · exact h1
      · exact lt_trans h1 (hl.1 b hb)
    · exact h
    · refine List.sorted_cons.2 ⟨?_, ih hl.2⟩
      intro b hb
      rcases (mem_set_insert _ _ _).1 hb with rfl | hb
      · omega
      · exact hl.1 b hb

theorem mem_foldl_set_insert (l : List Nat) :
    ∀ (acc : List Nat) (x : Nat),
      x ∈ l.foldl (fun s k => set_insert k s) acc ↔ x ∈ l ∨ x ∈ acc := by
  induction l with
  | nil => intro acc x; simp
  | cons a l ih =>
    intro acc x
    simp only [List.foldl_cons, ih, mem_set_insert, List.mem_cons]
    tauto

theorem sorted_foldl_set_insert (l : List Nat) :
    ∀ (acc : List Nat), acc.Sorted (· < ·) →
      (l.foldl (fun s k => set_insert k s) acc).Sorted (· < ·) := by
  induction l with
  | nil => intro acc h; simpa using h
  | cons a l ih =>
    intro acc h
    simp only [List.foldl_cons]
    exact ih _ (sorted_set_insert a h)

/-- Two ascending lists with the same members are equal. -/
theorem sorted_ext {l1 l2 : List Nat} (h1 : l1.Sorted (· < ·)) (h2 : l2.Sorted (· < ·))
    (h : ∀ x, x ∈ l1 ↔ x ∈ l2) : l1 = l2 :=
  List.eq_of_perm_of_sorted ((List.perm_ext_iff_of_nodup h1.nodup h2.nodup).2 h) h1 h2

namespace SimplexSet

theorem keys_insert (s : SimplexSet) (d k d' : Nat) :
    (s.insert d k).keys d' =
      if min d 3 = min d' 3 then set_insert k (s.keys d') else s.keys d' := by
  rcases d with _ | _ | _ | d <;> rcases d' with _ | _ | _ | d' <;>
    simp [insert, keys, setKeys]

theorem keys_foldl_insert (d : Nat) (l : List Nat) :
    ∀ (s : SimplexSet) (d' : Nat),
      (l.foldl (fun s b => s.insert d b) s).keys d' =
        if min d 3 = min d' 3 then l.foldl (fun acc k => set_insert k acc) (s.keys d')
        else s.keys d' := by
  induction l with
  | nil => intro s d'; simp
  | cons a l ih =>
    intro s d'
    simp only [List.foldl_cons, ih, keys_insert]
    split_ifs <;> rfl

theorem ext_keys {s t : SimplexSet} (h : ∀ d, d ≤ 3 → s.keys d = t.keys d) : s = t := by
  rcases s with ⟨a, b, c, e⟩
  rcases t with ⟨a', b', c', e'⟩
  have h0 := h 0 (by omega)
  have h1 := h 1 (by omega)
  have h2 := h 2 (by omega)
  have h3 := h 3 (by omega)
  simp only [keys] at h0 h1 h2 h3
  subst h0 h1 h2 h3
  rfl

end SimplexSet

/-! # Closure of a simplex set -/

/-- The scan of one level of `closure_helper`: it returns when every scanned key is live,
and then adds exactly the boundary entries of the scanned keys, one dimension lower. -/
theorem closure_scan (m : Mesh) (d : Nat) (hd : 1 ≤ d) (hd3 : d ≤ 3) (L : List Nat) :
    ∀ (s R : SimplexSet),
      L.foldlM (fun s k => do
        let simplex ← m.lookup_simplex d k
        pure (simplex.m_boundary.foldl (fun s b => s.insert (d - 1) b) s)) s = some R →
      (∀ k ∈ L, (m.lookup_simplex d k).isSome) ∧
      (∀ d', d' ≤ 3 → d' ≠ d - 1 → R.keys d' = s.keys d') ∧
      ((s.keys (d - 1)).Sorted (· < ·) → (R.keys (d - 1)).Sorted (· < ·)) ∧
      (∀ x, x ∈ R.keys (d - 1) ↔ x ∈ s.keys (d - 1) ∨
        ∃ k ∈ L, ∃ a, m.lookup_simplex d k = some a ∧ x ∈ a.m_boundary) := by
  induction L with
  | nil =>
    intro s R h
    simp only [List.foldlM_nil, pure, Option.some.injEq] at h
    subst h
    simp
  | cons k L ih =>
    intro s R h
    simp only [List.foldlM_cons, bind, Option.bind_eq_some, pure, Option.some.injEq] at h
    obtain ⟨s1, ⟨a, ha, rfl⟩, h2⟩ := h
    obtain ⟨i1, i2, i3, i4⟩ := ih _ R h2
    refine ⟨?_, ?_, ?_, ?_⟩
    · intro k' hk'
      rcases List.mem_cons.1 hk' with rfl | hk'
      · simp [ha]
      · exact i1 k' hk'
    · intro d' hd' hne
      rw [i2 d' hd' hne, SimplexSet.keys_foldl_insert]
      have : ¬ min (d - 1) 3 = min d' 3 := by omega
      simp only [this, if_false]
    · intro hs
      apply i3
      rw [SimplexSet.keys_foldl_insert]
      simp only [if_true]
      exact sorted_foldl_set_insert _ _ hs
    · intro x
      rw [i4 x, SimplexSet.keys_foldl_insert]
      simp only [if_true, mem_foldl_set_insert, List.mem_cons]
      constructor
      · rintro ((hx | hx) | ⟨k', hk', a', ha', hx⟩)
        · exact Or.inr ⟨k, Or.inl rfl, a, ha, hx⟩
        · exact Or.inl hx
        · exact Or.inr ⟨k', Or.inr hk', a', ha', hx⟩
      · rintro (hx | ⟨k', hk' | hk', a', ha', hx⟩)
        · exact Or.inl (Or.inr hx)
        · subst hk'
          rw [ha] at ha'
          cases ha'
          exact Or.inl (Or.inl hx)
        · exact Or.inr ⟨k', hk', a', ha', hx⟩

/-- The scan of one level returns when every scanned key is live. -/
theorem closure_scan_returns (m : Mesh) (d : Nat) (L : List Nat) :
    ∀ (s : SimplexSet), (∀ k ∈ L, (m.lookup_simplex d k).isSome) →
      ∃ R, L.foldlM (fun s k => do
        let simplex ← m.lookup_simplex d k
        pure (simplex.m_boundary.foldl (fun s b => s.insert (d - 1) b) s)) s = some R := by
  induction L with
  | nil => intro s _; exact ⟨s, rfl⟩
  | cons k L ih =>
    intro s h
    have hk := h k (List.mem_cons_self _ _)
    cases ha : m.lookup_simplex d k with
    | none => simp [ha] at hk
    | some a =>
      obtain ⟨R, hR⟩ := ih (a.m_boundary.foldl (fun s b => s.insert (d - 1) b) s)
        (fun k' hk' => h k' (List.mem_cons_of_mem _ hk'))
      exact ⟨R, by simp only [List.foldlM_cons, bind, ha, Option.some_bind, pure]; exact hR⟩

end ISMesh

namespace ISMesh

theorem closure_level_spec {m : Mesh} {d : Nat} (hd : 1 ≤ d) (hd3 : d ≤ 3)
    {input set R : SimplexSet} (h : closure_level m d input set = some R) :
    (∀ k ∈ R.keys d, (m.lookup_simplex d k).isSome) ∧
    (∀ d', d' ≤ 3 → d' ≠ d - 1 → d' ≠ d → R.keys d' = set.keys d') ∧
    ((set.keys d).Sorted (· < ·) → (R.keys d).Sorted (· < ·)) ∧
    (∀ x, x ∈ R.keys d ↔ x ∈ input.keys d ∨ x ∈ set.keys d) ∧
    ((set.keys (d - 1)).Sorted (· < ·) → (R.keys (d - 1)).Sorted (· < ·)) ∧
    (∀ x, x ∈ R.keys (d - 1) ↔ x ∈ set.keys (d - 1) ∨
      ∃ k ∈ R.keys d, ∃ a, m.lookup_simplex d k = some a ∧ x ∈ a.m_boundary) := by
  unfold closure_level at h
  obtain ⟨i1, i2, i3, i4⟩ := closure_scan m d hd hd3 _ _ R h
  have hne : d ≠ d - 1 := by omega
  have hkd : R.keys d = (input.keys d).foldl (fun acc k => set_insert k acc) (set.keys d) := by
    rw [i2 d hd3 hne, SimplexSet.keys_foldl_insert]
    simp
  have hk1 : ∀ d', d' ≤ 3 → d' ≠ d →
      ((input.keys d).foldl (fun s k => s.insert d k) set).keys d' = set.keys d' := by
    intro d' hd' hne'
    rw [SimplexSet.keys_foldl_insert]
    have : ¬ min d 3 = min d' 3 := by omega
    simp only [this, if_false]
  refine ⟨?_, ?_, ?_, ?_, ?_, ?_⟩
  · intro k hk
    apply i1
    rw [i2 d hd3 hne] at hk
    exact hk
  · intro d' hd' h1 h2
    rw [i2 d' hd' h1, hk1 d' hd' h2]
  · intro hs
    rw [hkd]
    exact sorted_foldl_set_insert _ _ hs
  · intro x
    rw [hkd, mem_foldl_set_insert]
  · intro hs
    apply i3
    rw [hk1 (d - 1) (by omega) (by omega)]
    exact hs
  · intro x
    rw [i4 x, hk1 (d - 1) (by omega) (by omega), i2 d hd3 hne]

theorem closure_level_returns (m : Mesh) (d : Nat) (input set : SimplexSet)
    (h : ∀ k, k ∈ input.keys d ∨ k ∈ set.keys d → (m.lookup_simplex d k).isSome) :
    ∃ R, closure_level m d input set = some R := by
  unfold closure_level
  apply closure_scan_returns
  intro k hk
  apply h
  rw [SimplexSet.keys_foldl_insert] at hk
  simp only [if_true] at hk
  exact (mem_foldl_set_insert _ _ _).1 hk

theorem SimplexSet.keys_empty (d : Nat) : SimplexSet.empty.keys d = [] := by
  rcases d with _ | _ | _ | d <;> rfl

/-- What `closure(input_set, result_set)` computes into an empty result. -/
theorem closure_helper_spec {m : Mesh} {S R : SimplexSet}
    (h : closure_helper m S SimplexSet.empty = some R) : IsClosure m S R := by
  unfold closure_helper at h
  simp only [bind, Option.bind_eq_some, pure, Option.some.injEq] at h
  obtain ⟨R3, h3, R2, h2, R1, h1, rfl⟩ := h
  obtain ⟨a1, a2, a3, a4, a5, a6⟩ := closure_level_spec (d := 3) (by omega) (by omega) h3
  obtain ⟨b1, b2, b3, b4, b5, b6⟩ := closure_level_spec (d := 2) (by omega) (by omega) h2
  obtain ⟨c1, c2, c3, c4, c5, c6⟩ := closure_level_spec (d := 1) (by omega) (by omega) h1
  simp only [SimplexSet.keys_empty, List.sorted_nil, List.not_mem_nil, or_false, false_or,
    forall_true_left, Nat.add_one_sub_one] at a3 a4 a5 a6
  simp only [Nat.add_one_sub_one] at b5 b6 c5 c6
  have e03 := a2 0 (by omega) (by omega) (by omega)
  have e13 := a2 1 (by omega) (by omega) (by omega)
  have e02 := b2 0 (by omega) (by omega) (by omega)
  have e32 := b2 3 (by omega) (by omega) (by omega)
  have e21 := c2 2 (by omega) (by omega) (by omega)
  have e31 := c2 3 (by omega) (by omega) (by omega)
  rw [SimplexSet.keys_empty] at e03 e13
  have kf : ∀ d', (S.nodes.foldl (fun s k => s.insert 0 k) R1).keys d' =
      if min 0 3 = min d' 3 then S.nodes.foldl (fun acc k => set_insert k acc) (R1.keys d')
      else R1.keys d' := fun d' => SimplexSet.keys_foldl_insert 0 S.nodes R1 d'
  have k0 : (S.nodes.foldl (fun s k => s.insert 0 k) R1).keys 0 =
      S.nodes.foldl (fun acc k => set_insert k acc) (R1.keys 0) := by rw [kf]; rfl
  have k1 : (S.nodes.foldl (fun s k => s.insert 0 k) R1).keys 1 = R1.keys 1 := by rw [kf]; rfl
  have k2 : (S.nodes.foldl (fun s k => s.insert 0 k) R1).keys 2 = R1.keys 2 := by rw [kf]; rfl
  have k3 : (S.nodes.foldl (fun s k => s.insert 0 k) R1).keys 3 = R1.keys 3 := by rw [kf]; rfl
  have s2 : (R2.keys 2).Sorted (· < ·) := b3 a5
  have s1 : (R1.keys 1).Sorted (· < ·) := c3 (b5 (by rw [e13]; exact List.sorted_nil))
  have s0 : (R1.keys 0).Sorted (· < ·) := c5 (by rw [e02, e03]; exact List.sorted_nil)
  refine ⟨?_, ?_, ?_, ?_⟩
  · intro d hd
    rcases d with _ | _ | _ | d
    · rw [k0]; exact sorted_foldl_set_insert _ _ s0
    · rw [k1]; exact s1
    · rw [k2, e21]; exact s2
    · have : d = 0 := by omega
      subst this
      rw [k3, e31, e32]; exact a3
  · intro d hd1 hd3 k hk
    rcases d with _ | _ | _ | d
    · omega
    · rw [k1] at hk; exact c1 k hk
    · rw [k2, e21] at hk; exact b1 k hk
    · have : d = 0 := by omega
      subst this
      rw [k3, e31, e32] at hk; exact a1 k hk
  · intro x
    rw [k3, e31, e32, a4]
  · intro d hd x
    rcases d with _ | _ | d
    · rw [k0, k1, mem_foldl_set_insert, c6 x, e02, e03]
      simp only [List.not_mem_nil, false_or]
      rfl
    · rw [k1, k2, e21, c4 x, b6 x, e13]
      simp only [List.not_mem_nil, false_or]
    · have : d = 0 := by omega
      subst this
      rw [k2, k3, e21, e31, e32, b4 x, a6 x]

/-- The closure of a set is determined by its characterisation. -/
theorem IsClosure.unique {m : Mesh} {S R R' : SimplexSet} (h : IsClosure m S R)
    (h' : IsClosure m S R') : R = R' := by
  obtain ⟨s, -, t, l⟩ := h
  obtain ⟨s', -, t', l'⟩ := h'
  have e3 : R.keys 3 = R'.keys 3 :=
    sorted_ext (s 3 (by omega)) (s' 3 (by omega)) (fun x => by rw [t x, t' x])
  have e2 : R.keys 2 = R'.keys 2 :=
    sorted_ext (s 2 (by omega)) (s' 2 (by omega))
      (fun x => by rw [l 2 (by omega) x, l' 2 (by omega) x, e3])
  have e1 : R.keys 1 = R'.keys 1 :=
    sorted_ext (s 1 (by omega)) (s' 1 (by omega))
      (fun x => by rw [l 1 (by omega) x, l' 1 (by omega) x, e2])
  have e0 : R.keys 0 = R'.keys 0 :=
    sorted_ext (s 0 (by omega)) (s' 0 (by omega))
      (fun x => by rw [l 0 (by omega) x, l' 0 (by omega) x, e1])
  apply SimplexSet.ext_keys
  intro d hd
  rcases d with _ | _ | _ | d
  · exact e0
  · exact e1
  · exact e2
  · have : d = 0 := by omega
    subst this
    exact e3

/-- A closure is its own closure. -/
theorem IsClosure.self {m : Mesh} {S R : SimplexSet} (h : IsClosure m S R) :
    IsClosure m R R := by
  obtain ⟨s, lv, t, l⟩ := h
  refine ⟨s, lv, fun x => Iff.rfl, ?_⟩
  intro d hd x
  constructor
  · exact fun hx => Or.inl hx
  · rintro (hx | hx)
    · exact hx
    · exact (l d hd x).2 (Or.inr hx)

/-- The closure of `S` returns when the keys it meets are live: the keys of `S`, and the
boundary entries of the keys it has met. -/
theorem closure_helper_returns {m : Mesh} {S : SimplexSet} (P : Nat → Nat → Prop)
    (hP : ∀ d k, P d k → (m.lookup_simplex d k).isSome)
    (hS : ∀ d, 1 ≤ d → d ≤ 3 → ∀ k ∈ S.keys d, P d k)
    (hB : ∀ d k a, 2 ≤ d → d ≤ 3 → P d k → m.lookup_simplex d k = some a →
      ∀ b ∈ a.m_boundary, P (d - 1) b) :
    ∃ R, closure_helper m S SimplexSet.empty = some R := by
  obtain ⟨R3, h3⟩ := closure_level_returns m 3 S SimplexSet.empty
    (fun k hk => by
      rw [SimplexSet.keys_empty] at hk
      simp only [List.not_mem_nil, or_false] at hk
      exact hP 3 k (hS 3 (by omega) (by omega) k hk))
  obtain ⟨a1, a2, a3, a4, a5, a6⟩ := closure_level_spec (d := 3) (by omega) (by omega) h3
  simp only [SimplexSet.keys_empty, List.not_mem_nil, or_false, false_or,
    Nat.add_one_sub_one] at a4 a6
  have p3 : ∀ k ∈ R3.keys 3, P 3 k := fun k hk => hS 3 (by omega) (by omega) k ((a4 k).1 hk)
  have p2 : ∀ k ∈ R3.keys 2, P 2 k := by
    intro k hk
    obtain ⟨t, ht, a, ha, hb⟩ := (a6 k).1 hk
    exact hB 3 t a (by omega) (by omega) (p3 t ht) ha k hb
  obtain ⟨R2, h2⟩ := closure_level_returns m 2 S R3
    (fun k hk => by
      rcases hk with hk | hk
      · exact hP 2 k (hS 2 (by omega) (by omega) k hk)
      · exact hP 2 k (p2 k hk))
  obtain ⟨b1, b2, b3, b4, b5, b6⟩ := closure_level_spec (d := 2) (by omega) (by omega) h2
  simp only [Nat.add_one_sub_one] at b6
  have e13 := a2 1 (by omega) (by omega) (by omega)
  rw [SimplexSet.keys_empty] at e13
  have q2 : ∀ k ∈ R2.keys 2, P 2 k := by
    intro k hk
    rcases (b4 k).1 hk with hk | hk
    · exact hS 2 (by omega) (by omega) k hk
    · exact p2 k hk
  have q1 : ∀ k ∈ R2.keys 1, P 1 k := by
    intro k hk
    rcases (b6 k).1 hk with hk | ⟨t, ht, a, ha, hb⟩
    · rw [e13] at hk; cases hk
    · exact hB 2 t a (by omega) (by omega) (q2 t ht) ha k hb
  obtain ⟨R1, h1⟩ := closure_level_returns m 1 S R2
    (fun k hk => by
      rcases hk with hk | hk
      · exact hP 1 k (hS 1 (by omega) (by omega) k hk)
      · exact hP 1 k (q1 k hk))
  refine ⟨S.nodes.foldl (fun s k => s.insert 0 k) R1, ?_⟩
  unfold closure_helper
  simp only [bind, h3, h2, h1, Option.some_bind, pure]

/-- C8: closure is idempotent. Whenever `closure(S)` computed into an empty result returns
`R1`, `closure(R1)` computed into an empty result returns `R1` again; and `closure(S)`
returns for every set `S` of live simplices of a mesh without dangling boundary keys. -/
theorem closure_idempotent (m : Mesh) (S : SimplexSet) :
    (∀ R1, closure_set m S SimplexSet.empty = some R1 →
      closure_set m R1 SimplexSet.empty = some R1) ∧
    (BoundaryLive m → LiveSet m S → ∃ R1, closure_set m S SimplexSet.empty = some R1) := by
  constructor
  · intro R1 h
    have hc := closure_helper_spec h
    obtain ⟨R2, h2⟩ := closure_helper_returns (m := m) (S := R1)
      (fun d k => 1 ≤ d ∧ d ≤ 3 ∧ k ∈ R1.keys d)
      (fun d k hk => hc.2.1 d hk.1 hk.2.1 k hk.2.2)
      (fun d h1 h3 k hk => ⟨h1, h3, hk⟩)
      (fun d k a h2 h3 hk ha b hb => by
        refine ⟨by omega, by omega, ?_⟩
        have e : d - 1 + 1 = d := by omega
        have := hc.2.2.2 (d - 1) (by omega) b
        rw [e] at this
        exact this.2 (Or.inr ⟨k, hk.2.2, a, ha, hb⟩))
    have := IsClosure.unique (closure_helper_spec h2) hc.self
    subst this
    exact h2
  · intro hb hl
    exact closure_helper_returns (m := m) (S := S) (fun d k => (m.lookup_simplex d k).isSome)
      (fun d k hk => hk) hl
      (fun d k a h2 h3 _ ha b hb' => hb d k a (by omega) h3 ha b hb')

end ISMesh

namespace ISMesh

/-! # Labels are restored by `star` -/

theorem Kernel.kernel_erase_labels_modify {K K' : Kernel} {k : Nat} {f : Simplex → Simplex}
    (hf : ∀ s, (f s).reset_label = s.reset_label) (h : K.modify k f = some K') :
    K'.erase_labels = K.erase_labels := by
  unfold Kernel.modify at h
  cases hs : K.find k with
  | none => simp [hs] at h
  | some s =>
    simp only [hs, Option.some.injEq] at h
    subst h
    have he := Kernel.find_eq_some.1 hs
    unfold Kernel.erase_labels
    simp only [List.map_set, hf]
    congr 1
    apply List.ext_getElem?
    intro i
    rw [List.getElem?_set]
    split_ifs with h1 h2
    · subst h1
      simp [he]
    · subst h1
      simp at h2
      rw [List.getElem?_eq_none (by simpa using h2)]
    · rfl

theorem Mesh.erase_labels_setKernel (m : Mesh) (d : Nat) (K : Kernel)
    (h : K.erase_labels = (m.kernel d).erase_labels) :
    (m.setKernel d K).erase_labels = m.erase_labels := by
  rcases d with _ | _ | _ | d <;>
    simp only [Mesh.setKernel, Mesh.erase_labels, Mesh.kernel] at h ⊢ <;> rw [h]

theorem Mesh.erase_labels_modify {m m' : Mesh} {d k : Nat} {f : Simplex → Simplex}
    (hf : ∀ s, (f s).reset_label = s.reset_label) (h : m.modify d k f = some m') :
    m'.erase_labels = m.erase_labels := by
  unfold Mesh.modify at h
  cases hK : (m.kernel d).modify k f with
  | none => simp [hK] at h
  | some K =>
    simp only [hK, Option.some.injEq] at h
    subst h
    exact Mesh.erase_labels_setKernel m d K (Kernel.kernel_erase_labels_modify hf hK)

theorem Mesh.label_modify {m m' : Mesh} {d k : Nat} {f : Simplex → Simplex}
    (h : m.modify d k f = some m') (d' k' : Nat) :
    m'.label d' k' =
      if min d 3 = min d' 3 ∧ k' = k then
        (match m.lookup_simplex d k with
          | some s => (f s).m_label
          | none => 0)
      else m.label d' k' := by
  unfold Mesh.modify at h
  cases hK : (m.kernel d).modify k f with
  | none => simp [hK] at h
  | some K =>
    simp only [hK, Option.some.injEq] at h
    subst h
    unfold Kernel.modify at hK
    unfold Mesh.lookup_simplex
    cases hs : (m.kernel d).find k with
    | none => simp [hs] at hK
    | some s =>
      simp only [hs, Option.some.injEq] at hK
      subst hK
      have he := Kernel.find_eq_some.1 hs
      have hlt : k < (m.kernel d).elements.length := by
        by_contra hc
        rw [List.getElem?_eq_none (by omega)] at he
        cases he
      unfold Mesh.label Kernel.label
      rw [Mesh.kernel_setKernel]
      by_cases hd : min d 3 = min d' 3
      · have hkk : m.kernel d' = m.kernel d := by
          rcases d with _ | _ | _ | d <;> rcases d' with _ | _ | _ | d' <;>
            simp [Mesh.kernel] at hd ⊢
        simp only [hd, if_true, true_and, hkk]
        by_cases hk : k' = k
        · subst hk
          simp [List.getElem?_set, hlt]
        · have hk2 : k ≠ k' := fun h => hk h.symm
          simp [List.getElem?_set, hk, hk2]
      · simp [hd]

theorem Kernel.erase_labels_eq_self {K : Kernel} (h : ∀ k, K.label k = 0) :
    K.erase_labels = K := by
  unfold Kernel.erase_labels
  rcases K with ⟨els, marks⟩
  simp only [Kernel.mk.injEq, and_true]
  apply List.ext_getElem?
  intro i
  rw [List.getElem?_map]
  have hi := h i
  unfold Kernel.label at hi
  simp only at hi
  cases he : els[i]? with
  | none => rfl
  | some e =>
    rw [he] at hi
    simp only at hi
    rcases e with ⟨v, ⟨b, c, cp, l⟩⟩
    simp only at hi
    subst hi
    rfl

theorem LabelsZero.erase_labels {m : Mesh} (h : LabelsZero m) : m.erase_labels = m := by
  have h0 := Kernel.erase_labels_eq_self (K := m.m_node_kernel) (fun k => h 0 k)
  have h1 := Kernel.erase_labels_eq_self (K := m.m_edge_kernel) (fun k => h 1 k)
  have h2 := Kernel.erase_labels_eq_self (K := m.m_face_kernel) (fun k => h 2 k)
  have h3 := Kernel.erase_labels_eq_self (K := m.m_tetrahedron_kernel) (fun k => h 3 k)
  unfold Mesh.erase_labels
  rw [h0, h1, h2, h3]

theorem LabelsShrink.shrink_refl (m : Mesh) : LabelsShrink m m := ⟨rfl, fun _ _ h => h⟩

theorem LabelsShrink.shrink_trans {a b c : Mesh} (h1 : LabelsShrink a b) (h2 : LabelsShrink b c) :
    LabelsShrink a c :=
  ⟨h2.1.trans h1.1, fun d k h => h1.2 d k (h2.2 d k h)⟩

/-- A mesh whose labels were all 0 is unchanged by resets of labels. -/
theorem LabelsShrink.eq_of_zero {m m' : Mesh} (h : LabelsShrink m m') (hz : LabelsZero m) :
    m' = m := by
  have hz' : LabelsZero m' := fun d k => by
    by_contra hc
    exact h.2 d k hc (hz d k)
  rw [← hz'.erase_labels, h.1, hz.erase_labels]

theorem modify_reset_label_shrink {m m' : Mesh} {d k : Nat}
    (h : m.modify d k Simplex.reset_label = some m') :
    LabelsShrink m m' ∧ m'.label d k = 0 := by
  have hl := Mesh.label_modify h
  refine ⟨⟨Mesh.erase_labels_modify (f := Simplex.reset_label) (fun s => rfl) h, ?_⟩, ?_⟩
  · intro d' k' hne
    rw [hl d' k'] at hne
    by_cases hc : min d 3 = min d' 3 ∧ k' = k
    · simp only [hc, and_self, if_true] at hne
      exfalso
      apply hne
      cases m.lookup_simplex d k <;> rfl
    · simpa only [hc, if_false] using hne
  · rw [hl d k]
    simp only [and_self, if_true]
    cases m.lookup_simplex d k <;> rfl

/-- A fold whose steps are related by a reflexive and transitive relation. -/
theorem foldlM_rel {α β : Type} (R : β → β → Prop) (hrefl : ∀ b, R b b)
    (htrans : ∀ a b c, R a b → R b c → R a c) (f : β → α → Option β)
    (hf : ∀ b x b', f b x = some b' → R b b') (l : List α) :
    ∀ b b', l.foldlM f b = some b' → R b b' := by
  induction l with
  | nil =>
    intro b b' h
    simp only [List.foldlM_nil, pure, Option.some.injEq] at h
    subst h; exact hrefl b
  | cons x l ih =>
    intro b b' h
    simp only [List.foldlM_cons, bind, Option.bind_eq_some] at h
    obtain ⟨b1, h1, h2⟩ := h
    exact htrans _ _ _ (hf b x b1 h1) (ih b1 b' h2)

theorem reset_label_shrink (fuel : Nat) :
    (∀ d k m m', reset_label fuel d k m = some m' → LabelsShrink m m' ∧ m'.label d k = 0) ∧
    (∀ d k m m', reset_co_label fuel d k m = some m' → LabelsShrink m m' ∧ m'.label d k = 0) := by
  induction fuel with
  | zero =>
    constructor
    · intro d k m m' h; simp [reset_label] at h
    · intro d k m m' h; simp [reset_co_label] at h
  | succ fuel ih =>
    constructor
    · intro d k m m' h
      rw [reset_label] at h
      simp only [bind, Option.bind_eq_some] at h
      obtain ⟨s, -, m1, h1, h2⟩ := h
      obtain ⟨s1, z1⟩ := modify_reset_label_shrink h1
      have s2 : LabelsShrink m1 m' :=
        foldlM_rel LabelsShrink LabelsShrink.shrink_refl (fun _ _ _ => LabelsShrink.shrink_trans) _
          (fun b x b' hb => by
            simp only [bind, Option.bind_eq_some] at hb
            obtain ⟨c, -, hc⟩ := hb
            split_ifs at hc
            · exact (ih.2 _ _ _ _ hc).1
            · simp only [pure, Option.some.injEq] at hc
              subst hc; exact LabelsShrink.shrink_refl _) _ _ _ h2
      refine ⟨s1.shrink_trans s2, ?_⟩
      by_contra hc
      exact s2.2 d k hc z1
    · intro d k m m' h
      rw [reset_co_label] at h
      simp only [bind, Option.bind_eq_some] at h
      obtain ⟨s, -, m1, h1, h2⟩ := h
      obtain ⟨s1, z1⟩ := modify_reset_label_shrink h1
      have s2 : LabelsShrink m1 m' :=
        foldlM_rel LabelsShrink LabelsShrink.shrink_refl (fun _ _ _ => LabelsShrink.shrink_trans) _
          (fun b x b' hb => by
            simp only [bind, Option.bind_eq_some] at hb
            obtain ⟨c, -, hc⟩ := hb
            split_ifs at hc
            · exact (ih.1 _ _ _ _ hc).1
            · simp only [pure, Option.some.injEq] at hc
              subst hc; exact LabelsShrink.shrink_refl _) _ _ _ h2
      refine ⟨s1.shrink_trans s2, ?_⟩
      by_contra hc
      exact s2.2 d k hc z1

end ISMesh

namespace ISMesh

theorem StarStep.step_refl (sd : Nat) (p : Mesh × SimplexSet) : StarStep sd p p :=
  ⟨rfl, fun _ _ _ h => Or.inl h, fun _ _ h => h⟩

theorem StarStep.step_trans {sd : Nat} {a b c : Mesh × SimplexSet} (h1 : StarStep sd a b)
    (h2 : StarStep sd b c) : StarStep sd a c := by
  refine ⟨h2.1.trans h1.1, ?_, fun d k h => h2.2.2 d k (h1.2.2 d k h)⟩
  intro d k hd h
  rcases h2.2.1 d k hd h with h | h
  · rcases h1.2.1 d k hd h with h | h
    · exact Or.inl h
    · exact Or.inr ⟨h.1, h2.2.2 d k h.2⟩
  · exact Or.inr h

theorem star_helper_step (fuel : Nat) :
    ∀ (sd s td t : Nat) (m : Mesh) (set : SimplexSet) (r : Mesh × SimplexSet), sd < 3 →
      star_helper fuel sd s td t m set = some r → StarStep sd (m, set) r := by
  induction fuel with
  | zero => intro sd s td t m set r _ h; simp [star_helper] at h
  | succ fuel ih =>
    intro sd s td t m set r hsd h
    rw [star_helper] at h
    by_cases hlt : sd < td
    swap
    · simp [hlt] at h
    simp only [hlt, not_true_eq_false, if_false, bind, Option.bind_eq_some] at h
    obtain ⟨_, -, m1, h1, up, hup, hdown⟩ := h
    have step1 : StarStep sd (m, set) (m1, set.insert td t) := by
      refine ⟨Mesh.erase_labels_modify (f := fun x => x.set_label 1) (fun s => rfl) h1, ?_, ?_⟩
      · intro d k hd hne
        simp only at hne ⊢
        rw [Mesh.label_modify h1 d k] at hne
        by_cases hc : min td 3 = min d 3 ∧ k = t
        · right
          obtain ⟨hc1, hc2⟩ := hc
          subst hc2
          refine ⟨by omega, ?_⟩
          rw [SimplexSet.keys_insert]
          simp only [hc1, if_true]
          exact (mem_set_insert _ _ _).2 (Or.inl rfl)
        · left
          simpa only [hc, if_false] using hne
      · intro d k hk
        simp only at hk ⊢
        rw [SimplexSet.keys_insert]
        split_ifs
        · exact (mem_set_insert _ _ _).2 (Or.inr hk)
        · exact hk
    have step2 : StarStep sd (m1, set.insert td t) up := by
      split_ifs at hup with h3
      · simp only [pure, Option.some.injEq] at hup
        subst hup; exact StarStep.step_refl _ _
      · simp only [Option.bind_eq_some] at hup
        obtain ⟨simplex, -, hf⟩ := hup
        refine foldlM_rel (StarStep sd) (StarStep.step_refl sd) (fun _ _ _ => StarStep.step_trans) _
          (fun b x b' hb => ?_) _ _ _ hf
        simp only [bind, Option.bind_eq_some] at hb
        obtain ⟨cs, -, hc⟩ := hb
        split_ifs at hc
        · exact ih _ _ _ _ _ _ _ hsd hc
        · simp only [pure, Option.some.injEq] at hc
          subst hc; exact StarStep.step_refl _ _
    have step3 : StarStep sd up r := by
      split_ifs at hdown with h3
      · simp only [Option.bind_eq_some] at hdown
        obtain ⟨simplex, -, hf⟩ := hdown
        refine foldlM_rel (StarStep sd) (StarStep.step_refl sd) (fun _ _ _ => StarStep.step_trans) _
          (fun b x b' hb => ?_) _ _ _ hf
        simp only [bind, Option.bind_eq_some] at hb
        obtain ⟨bs, -, hc⟩ := hb
        split_ifs at hc
        · simp only [Option.bind_eq_some] at hc
          obtain ⟨ib, -, hc⟩ := hc
          split_ifs at hc
          · exact ih _ _ _ _ _ _ _ hsd hc
          · simp only [pure, Option.some.injEq] at hc
            subst hc; exact StarStep.step_refl _ _
        · simp only [pure, Option.some.injEq] at hc
          subst hc; exact StarStep.step_refl _ _
      · simp only [pure, Option.some.injEq] at hdown
        subst hdown; exact StarStep.step_refl _ _
    exact (step1.step_trans step2).step_trans step3

/-- The reset loops of `star` only reset labels, and reset those of the listed keys. -/
theorem star_reset_shrink (d : Nat) (s_set : SimplexSet) {m m' : Mesh}
    (h : star_reset d s_set m = some m') :
    LabelsShrink m m' ∧ ∀ k ∈ s_set.keys d, m'.label d k = 0 := by
  unfold star_reset at h
  generalize s_set.keys d = L at h
  induction L generalizing m with
  | nil =>
    simp only [List.foldlM_nil, pure, Option.some.injEq] at h
    subst h
    exact ⟨LabelsShrink.shrink_refl _, fun k hk => by cases hk⟩
  | cons a L ih =>
    simp only [List.foldlM_cons, bind, Option.bind_eq_some] at h
    obtain ⟨m1, h1, h2⟩ := h
    obtain ⟨s1, z1⟩ := (reset_label_shrink _).1 _ _ _ _ h1
    obtain ⟨s2, z2⟩ := ih h2
    refine ⟨s1.shrink_trans s2, ?_⟩
    intro k hk
    rcases List.mem_cons.1 hk with rfl | hk
    · by_contra hc
      exact s2.2 d k hc z1
    · exact z2 k hk

theorem star_reset_tetrahedra_shrink (s_set : SimplexSet) {m m' : Mesh}
    (h : star_reset_tetrahedra s_set m = some m') :
    LabelsShrink m m' ∧ ∀ k ∈ s_set.keys 3, m'.label 3 k = 0 := by
  unfold star_reset_tetrahedra at h
  rw [show s_set.keys 3 = s_set.tetrahedra from rfl]
  generalize s_set.tetrahedra = L at h
  induction L generalizing m with
  | nil =>
    simp only [List.foldlM_nil, pure, Option.some.injEq] at h
    subst h
    exact ⟨LabelsShrink.shrink_refl _, fun k hk => by cases hk⟩
  | cons a L ih =>
    simp only [List.foldlM_cons, bind, Option.bind_eq_some] at h
    obtain ⟨m1, h1, h2⟩ := h
    obtain ⟨s1, z1⟩ := modify_reset_label_shrink h1
    obtain ⟨s2, z2⟩ := ih h2
    refine ⟨s1.shrink_trans s2, ?_⟩
    intro k hk
    rcases List.mem_cons.1 hk with rfl | hk
    · by_contra hc
      exact s2.2 3 k hc z1
    · exact z2 k hk

theorem Mesh.label_min (m : Mesh) (d k : Nat) : m.label d k = m.label (min d 3) k := by
  rcases d with _ | _ | _ | d
  · rfl
  · rfl
  · rfl
  · have : min (d + 3) 3 = 3 := by omega
    rw [this]; rfl

/-- A traversal by `star` on a mesh whose labels are all 0 leaves the mesh as it was. -/
theorem star_restores {m m' : Mesh} {d key : Nat} {s_set st : SimplexSet}
    (hz : LabelsZero m) (h : star m d key s_set = some (m', st)) : m' = m := by
  have fold_step : ∀ (sd td : Nat) (L : List Nat) (p r : Mesh × SimplexSet), sd < 3 →
      L.foldlM (fun (p : Mesh × SimplexSet) c => star_helper p.1.fuel sd key td c p.1 p.2) p
        = some r → StarStep sd p r := fun sd td L p r hsd hf =>
    foldlM_rel (StarStep sd) (StarStep.step_refl sd) (fun _ _ _ => StarStep.step_trans) _
      (fun b x b' hb => star_helper_step _ _ _ _ _ _ _ _ hsd hb) _ _ _ hf
  have final : ∀ (sd : Nat) (m1 m2 : Mesh) (st : SimplexSet),
      StarStep sd (m, s_set) (m1, st) → LabelsShrink m1 m2 →
      (∀ d', sd < d' → d' ≤ 3 → ∀ k ∈ st.keys d', m2.label d' k = 0) → m2 = m := by
    intro sd m1 m2 st hs hsh hzero
    have hz2 : LabelsZero m2 := by
      intro d' k
      rw [Mesh.label_min]
      by_contra hc
      have h1 := hsh.2 _ _ hc
      rcases hs.2.1 _ k (by omega) h1 with h0 | ⟨hlt, hmem⟩
      · exact h0 (hz _ _)
      · exact hc (hzero _ hlt (by omega) k hmem)
    rw [← hz2.erase_labels, hsh.1, hs.1]
    exact hz.erase_labels
  unfold star at h
  rcases d with _ | _ | _ | d
  · simp only [bind, Option.bind_eq_some, pure, Option.some.injEq, Prod.mk.injEq] at h
    obtain ⟨simplex, -, ⟨m1, st1⟩, hf, m2, h2, m3, h3, m4, h4, rfl, rfl⟩ := h
    have hs := fold_step 0 1 _ _ _ (by omega) hf
    obtain ⟨a2, z2⟩ := star_reset_shrink 1 st1 h2
    obtain ⟨a3, z3⟩ := star_reset_shrink 2 st1 h3
    obtain ⟨a4, z4⟩ := star_reset_tetrahedra_shrink st1 h4
    refine final 0 m1 m4 st1 hs ((a2.shrink_trans a3).shrink_trans a4) ?_
    intro d' h1 h3' k hk
    have : d' = 1 ∨ d' = 2 ∨ d' = 3 := by omega
    rcases this with rfl | rfl | rfl
    · by_contra hc
      exact (a3.shrink_trans a4).2 1 k hc (z2 k hk)
    · by_contra hc
      exact a4.2 2 k hc (z3 k hk)
    · exact z4 k hk
  · simp only [bind, Option.bind_eq_some, pure, Option.some.injEq, Prod.mk.injEq] at h
    obtain ⟨simplex, -, ⟨m1, st1⟩, hf, m3, h3, m4, h4, rfl, rfl⟩ := h
    have hs := fold_step 1 2 _ _ _ (by omega) hf
    obtain ⟨a3, z3⟩ := star_reset_shrink 2 st1 h3
    obtain ⟨a4, z4⟩ := star_reset_tetrahedra_shrink st1 h4
    refine final 1 m1 m4 st1 hs (a3.shrink_trans a4) ?_
    intro d' h1 h3' k hk
    have : d' = 2 ∨ d' = 3 := by omega
    rcases this with rfl | rfl
    · by_contra hc
      exact a4.2 2 k hc (z3 k hk)
    · exact z4 k hk
  · simp only [bind, Option.bind_eq_some, pure, Option.some.injEq, Prod.mk.injEq] at h
    obtain ⟨simplex, -, rfl, -⟩ := h
    rfl
  · simp only [pure, Option.some.injEq, Prod.mk.injEq] at h
    exact h.1.symm

end ISMesh

namespace ISMesh

/-! # Link -/

/-- A closure returns on every set whose edges, faces and tetrahedra lie in a closure that
has been computed. -/
theorem closure_helper_returns_of {m : Mesh} {S R : SimplexSet} (S' : SimplexSet)
    (hc : IsClosure m S R)
    (hsub : ∀ d, 1 ≤ d → d ≤ 3 → ∀ k ∈ S'.keys d, k ∈ R.keys d) :
    ∃ R', closure_helper m S' SimplexSet.empty = some R' :=
  closure_helper_returns (m := m) (S := S')
    (fun d k => 1 ≤ d ∧ d ≤ 3 ∧ k ∈ R.keys d)
    (fun d k hk => hc.2.1 d hk.1 hk.2.1 k hk.2.2)
    (fun d h1 h3 k hk => ⟨h1, h3, hsub d h1 h3 k hk⟩)
    (fun d k a h2 h3 hk ha b hb => by
      refine ⟨by omega, by omega, ?_⟩
      have e : d - 1 + 1 = d := by omega
      have := hc.2.2.2 (d - 1) (by omega) b
      rw [e] at this
      exact this.2 (Or.inr ⟨k, hk.2.2, a, ha, hb⟩))

theorem IsClosure.subset {m : Mesh} {S R : SimplexSet} (hc : IsClosure m S R) (d : Nat)
    (hd : d ≤ 3) : ∀ k ∈ S.keys d, k ∈ R.keys d := by
  intro k hk
  by_cases h3 : d = 3
  · subst h3; exact (hc.2.2.1 k).2 hk
  · exact (hc.2.2.2 d (by omega) k).2 (Or.inl hk)

/-- Adding a node to a set adds the node to its closure. -/
theorem IsClosure.insert_node {m : Mesh} {S R : SimplexSet} (hc : IsClosure m S R) (n : Nat) :
    IsClosure m (S.insert 0 n) (R.insert 0 n) := by
  obtain ⟨s, lv, t, l⟩ := hc
  have ks : ∀ (X : SimplexSet) d, 1 ≤ d → (X.insert 0 n).keys d = X.keys d := by
    intro X d hd
    rw [SimplexSet.keys_insert]
    have : ¬ min 0 3 = min d 3 := by omega
    simp only [this, if_false]
  have k0 : ∀ (X : SimplexSet), (X.insert 0 n).keys 0 = set_insert n (X.keys 0) := by
    intro X
    rw [SimplexSet.keys_insert]
    simp
  refine ⟨?_, ?_, ?_, ?_⟩
  · intro d hd
    rcases Nat.eq_zero_or_pos d with rfl | hpos
    · rw [k0]; exact sorted_set_insert n (s 0 (by omega))
    · rw [ks R d hpos]; exact s d hd
  · intro d h1 h3 k hk
    rw [ks R d h1] at hk
    exact lv d h1 h3 k hk
  · intro x
    rw [ks R 3 (by omega), ks S 3 (by omega)]
    exact t x
  · intro d hd x
    rw [ks R (d + 1) (by omega)]
    rcases Nat.eq_zero_or_pos d with rfl | hpos
    · rw [k0, k0, mem_set_insert, mem_set_insert, l 0 (by omega) x]
      tauto
    · rw [ks R d hpos, ks S d hpos]
      exact l d hd x

theorem closure_set_insert_node {m : Mesh} {S R : SimplexSet} (n : Nat)
    (h : closure_set m S SimplexSet.empty = some R) :
    closure_set m (S.insert 0 n) SimplexSet.empty = some (R.insert 0 n) := by
  have hc := closure_helper_spec h
  obtain ⟨R', h'⟩ := closure_helper_returns_of (S.insert 0 n) hc (fun d h1 h3 k hk => by
    rw [SimplexSet.keys_insert] at hk
    have : ¬ min 0 3 = min d 3 := by omega
    simp only [this, if_false] at hk
    exact hc.subset d h3 k hk)
  have := IsClosure.unique (closure_helper_spec h') (hc.insert_node n)
  subst this
  exact h'

theorem closure_set_of_insert_node {m : Mesh} {S R' : SimplexSet} (n : Nat)
    (h : closure_set m (S.insert 0 n) SimplexSet.empty = some R') :
    ∃ R, closure_set m S SimplexSet.empty = some R := by
  have hc := closure_helper_spec h
  exact closure_helper_returns_of S hc (fun d h1 h3 k hk => by
    apply hc.subset d h3 k
    rw [SimplexSet.keys_insert]
    have : ¬ min 0 3 = min d 3 := by omega
    simp only [this, if_false]
    exact hk)

theorem closure_node (m : Mesh) (n : Nat) :
    closure m 0 n SimplexSet.empty = some (SimplexSet.empty.insert 0 n) := rfl

/-- The two set expressions for the link of a node agree. -/
theorem link_node_sets {m : Mesh} {S cl : SimplexSet} (n : Nat) (hc : IsClosure m S cl) :
    (cl.insert 0 n).difference (S.insert 0 n) =
      (cl.difference S).difference (SimplexSet.empty.insert 0 n) := by
  have hs := hc.1 0 (by omega)
  rw [show cl.keys 0 = cl.nodes from rfl] at hs
  have hnodes : (set_insert n cl.nodes).filter (fun k => !(set_insert n S.nodes).contains k) =
      (cl.nodes.filter (fun k => !S.nodes.contains k)).filter (fun k => !([n] : List Nat).contains k) := by
    apply sorted_ext
    · exact List.Sorted.filter _ (sorted_set_insert n hs)
    · exact List.Sorted.filter _ (List.Sorted.filter _ hs)
    · intro x
      simp only [List.mem_filter, mem_set_insert, List.contains_eq_any_beq, Bool.not_eq_true',
        List.any_eq_false, beq_iff_eq, List.any_cons, List.any_nil, Bool.or_false,
        beq_eq_false_iff_ne, ne_eq]
      constructor
      · rintro ⟨h1, h2⟩
        have hxn : ¬ x = n := fun hx => h2 x (Or.inl hx) rfl
        rcases h1 with h1 | h1
        · exact absurd h1 hxn
        · exact ⟨⟨h1, fun y hy => h2 y (Or.inr hy)⟩, hxn⟩
      · rintro ⟨⟨h1, h2⟩, h3⟩
        refine ⟨Or.inr h1, ?_⟩
        intro y hy
        rcases hy with rfl | hy
        · exact h3
        · exact h2 y hy
  simp only [SimplexSet.difference, SimplexSet.insert, SimplexSet.setKeys, SimplexSet.keys,
    SimplexSet.empty, set_insert, List.contains_nil, Bool.not_false, List.filter_true,
    SimplexSet.mk.injEq, and_true, true_and]
  exact hnodes

/-- C9: star/link relation for nodes. On a mesh whose labels are all 0, `link(n)`
computed into an empty result equals `closure(star(n)) \ star(n) \ closure(n)`, each
recomputed with `star`, `closure` and `difference`: whenever the three computations on the
right return, `link(n)` returns their difference, and whenever `link(n)` returns, so do
they; the mesh is left as it was. -/
theorem link_node_eq_closure_star (m : Mesh) (n : Nat) (hz : LabelsZero m) :
    (∀ ms st cl cln, star m 0 n SimplexSet.empty = some (ms, st) →
      closure_set m st SimplexSet.empty = some cl →
      closure m 0 n SimplexSet.empty = some cln →
      link_node m n SimplexSet.empty = some (m, (cl.difference st).difference cln)) ∧
    (∀ ml R, link_node m n SimplexSet.empty = some (ml, R) →
      ∃ st cl cln, star m 0 n SimplexSet.empty = some (m, st) ∧
        closure_set m st SimplexSet.empty = some cl ∧
        closure m 0 n SimplexSet.empty = some cln ∧
        ml = m ∧ R = (cl.difference st).difference cln) := by
  constructor
  · intro ms st cl cln hs hcl hcn
    have hms := star_restores hz hs
    subst hms
    rw [closure_node] at hcn
    cases hcn
    unfold link_node
    simp only [bind, hs, Option.some_bind, closure_set_insert_node n hcl, pure]
    rw [link_node_sets n (closure_helper_spec hcl)]
  · intro ml R h
    unfold link_node at h
    simp only [bind, Option.bind_eq_some, pure, Option.some.injEq, Prod.mk.injEq] at h
    obtain ⟨⟨m1, st⟩, hs, R', hR', rfl, rfl⟩ := h
    have hms := star_restores hz hs
    subst hms
    obtain ⟨cl, hcl⟩ := closure_set_of_insert_node n hR'
    have := closure_set_insert_node n hcl
    rw [hR'] at this
    cases this
    exact ⟨st, cl, _, hs, hcl, closure_node m1 n, rfl,
      link_node_sets n (closure_helper_spec hcl)⟩

end ISMesh

namespace ISMesh

theorem Kernel.label_zero_of_all {K : Kernel}
    (h : K.elements.all (fun e => e.value.m_label == 0) = true) (k : Nat) : K.label k = 0 := by
  unfold Kernel.label
  cases he : K.elements[k]? with
  | none => rfl
  | some e =>
    simp only [List.all_eq_true, beq_iff_eq] at h
    exact h e (List.getElem?_mem he)

theorem labelsZero_of_check {m : Mesh} (h : m.labels_zero_check = true) : LabelsZero m := by
  unfold Mesh.labels_zero_check at h
  simp only [Bool.and_eq_true] at h
  obtain ⟨⟨⟨h0, h1⟩, h2⟩, h3⟩ := h
  intro d k
  rcases d with _ | _ | _ | d
  · exact Kernel.label_zero_of_all h0 k
  · exact Kernel.label_zero_of_all h1 k
  · exact Kernel.label_zero_of_all h2 k
  · exact Kernel.label_zero_of_all h3 k

theorem foldl_set_insert_sorted {l : List Nat} (h : l.Sorted (· < ·)) :
    l.foldl (fun s k => set_insert k s) [] = l :=
  sorted_ext (sorted_foldl_set_insert _ _ List.sorted_nil) h
    (fun x => by simp [mem_foldl_set_insert])

/-- The loop of `link(e, result, st_e)` keeps the edges that avoid `n1` and `n2`. -/
theorem link_edge_loop_eq (m : Mesh) (n1 n2 : Nat) (L : List Nat)
    (hL : ∀ x ∈ L, ∃ s, m.lookup_simplex 1 x = some s ∧ s.m_boundary.length = 2) :
    ∀ result, link_edge_loop m n1 n2 L result =
      some ((L.filter (avoids_nodes m n1 n2)).foldl (fun r e => r.insert 1 e) result) := by
  induction L with
  | nil => intro result; rfl
  | cons x L ih =>
    intro result
    obtain ⟨s, hs, hlen⟩ := hL x (List.mem_cons_self _ _)
    have ih' := ih (fun y hy => hL y (List.mem_cons_of_mem _ hy))
    obtain ⟨a, b, hb⟩ : ∃ a b, s.m_boundary = [a, b] := by
      rcases hsb : s.m_boundary with _ | ⟨a, _ | ⟨b, _ | ⟨c, r⟩⟩⟩
      · rw [hsb] at hlen; simp at hlen
      · rw [hsb] at hlen; simp at hlen
      · exact ⟨a, b, rfl⟩
      · rw [hsb] at hlen; simp at hlen
    unfold link_edge_loop at ih' ⊢
    have hav : avoids_nodes m n1 n2 x = (!(a == n1 || a == n2 || b == n1 || b == n2)) := by
      unfold avoids_nodes
      simp [hs, hb]
    simp only [List.foldlM_cons, bind, hs, Option.some_bind, hb, List.getElem?_cons_zero,
      List.getElem?_cons_succ, List.filter_cons, hav]
    by_cases h1 : a = n1 ∨ a = n2
    · have : (a == n1 || a == n2 || b == n1 || b == n2) = true := by
        rcases h1 with h1 | h1 <;> simp [h1]
      simp only [h1, if_true, pure, Option.some_bind, this, Bool.not_true, Bool.false_eq_true,
        if_false]
      exact ih' result
    · by_cases h2 : b = n1 ∨ b = n2
      · have : (a == n1 || a == n2 || b == n1 || b == n2) = true := by
          rcases h2 with h2 | h2 <;> simp [h2]
        simp only [h1, h2, if_true, if_false, pure, Option.some_bind, this, Bool.not_true,
          Bool.false_eq_true]
        exact ih' result
      · have : (a == n1 || a == n2 || b == n1 || b == n2) = false := by
          simp only [not_or] at h1 h2
          simp [h1.1, h1.2, h2.1, h2.2]
        simp only [h1, h2, if_false, pure, Option.some_bind, this, Bool.not_false, if_true,
          List.foldl_cons]
        exact ih' (result.insert 1 x)

/-- C10, as amended: on a mesh whose labels are all 0 and whose live edges have two
boundary nodes, `link(e)` computed into an empty result consists of the nodes of
`D = closure(star(e)) \ star(e) \ closure(e)` and of those edges of `D` whose first and
second boundary nodes are neither of the two nodes `n1`, `n2` of `closure(e)`; it has no
faces and no tetrahedra. The mesh is left as it was. -/
theorem link_edge_eq_filtered (m : Mesh) (e n1 n2 : Nat) (ms : Mesh) (st cl cle : SimplexSet)
    (hz : LabelsZero m)
    (harity : ∀ x s, m.lookup_simplex 1 x = some s → s.m_boundary.length = 2)
    (hs : star m 1 e SimplexSet.empty = some (ms, st))
    (hcl : closure_set m st SimplexSet.empty = some cl)
    (hce : closure m 1 e SimplexSet.empty = some cle)
    (hn1 : cle.nodes[0]? = some n1) (hn2 : cle.nodes[1]? = some n2) :
    link_edge m e SimplexSet.empty = some (m,
      { nodes := ((cl.difference st).difference cle).nodes,
        edges := ((cl.difference st).difference cle).edges.filter (avoids_nodes m n1 n2),
        faces := [],
        tetrahedra := [] }) := by
  have hms := star_restores hz hs
  subst hms
  have hc := closure_helper_spec hcl
  have hsn : (cl.keys 0).Sorted (· < ·) := hc.1 0 (by omega)
  have hse : (cl.keys 1).Sorted (· < ·) := hc.1 1 (by omega)
  rw [show cl.keys 0 = cl.nodes from rfl] at hsn
  rw [show cl.keys 1 = cl.edges from rfl] at hse
  have hedges : ∀ x ∈ ((cl.difference st).difference cle).edges,
      ∃ s, ms.lookup_simplex 1 x = some s ∧ s.m_boundary.length = 2 := by
    intro x hx
    simp only [SimplexSet.difference, List.mem_filter] at hx
    have hlive := hc.2.1 1 (by omega) (by omega) x hx.1.1
    cases hsx : ms.lookup_simplex 1 x with
    | none => rw [hsx] at hlive; cases hlive
    | some s => exact ⟨s, rfl, harity x s hsx⟩
  unfold link_edge link_edge_st
  simp only [bind, hs, Option.some_bind, hcl, hce, hn1, hn2,
    link_edge_loop_eq ms n1 n2 _ hedges, pure]
  have hD1 : (((cl.difference st).difference cle).edges.filter (avoids_nodes ms n1 n2)).Sorted
      (· < ·) := by
    simp only [SimplexSet.difference]
    exact List.Sorted.filter _ (List.Sorted.filter _ (List.Sorted.filter _ hse))
  have hD0 : ((cl.difference st).difference cle).nodes.Sorted (· < ·) := by
    simp only [SimplexSet.difference]
    exact List.Sorted.filter _ (List.Sorted.filter _ hsn)
  have hfold : ∀ (L : List Nat) (r : SimplexSet),
      L.foldl (fun r e => r.insert 1 e) r =
        { r with edges := L.foldl (fun s k => set_insert k s) r.edges } := by
    intro L
    induction L with
    | nil => intro r; rfl
    | cons a L ih => intro r; simp only [List.foldl_cons, ih]; rfl
  rw [hfold]
  simp only [SimplexSet.add, SimplexSet.filter_nodes, SimplexSet.empty, List.foldl_nil,
    foldl_set_insert_sorted hD1, foldl_set_insert_sorted hD0]

end ISMesh

namespace ISMesh

/-! # Concrete checks -/

theorem Incidence.boundaryLive {m : Mesh} (h : Incidence m) : BoundaryLive m := by
  intro d k s h1 h3 hs b hb
  obtain ⟨sb, hsb, _⟩ := h d k s h1 h3 hs b hb
  simp [hsb]

theorem labelsZero_tetrahedron : LabelsZero tetrahedron_mesh :=
  labelsZero_of_check (by decide!)

theorem labelsZero_triangle : LabelsZero triangle_mesh :=
  labelsZero_of_check (by decide!)

/-- Witness of C8: the closure of the face 1 of the mesh with one tetrahedron. -/
theorem closure_idempotent_witness :
    closure_set tetrahedron_mesh ⟨[], [], [1], []⟩ SimplexSet.empty
      = some ⟨[0, 1, 3], [0, 2, 4], [1], []⟩ ∧
    closure_set tetrahedron_mesh ⟨[0, 1, 3], [0, 2, 4], [1], []⟩ SimplexSet.empty
      = some ⟨[0, 1, 3], [0, 2, 4], [1], []⟩ ∧
    BoundaryLive tetrahedron_mesh ∧
    LiveSet tetrahedron_mesh ⟨[], [], [1], []⟩ ∧
    (∃ R1, closure_set tetrahedron_mesh ⟨[], [], [1], []⟩ SimplexSet.empty = some R1) :=
  have hb : BoundaryLive tetrahedron_mesh :=
    (reachable_invariants reachable_tetrahedron).2.2.boundaryLive
  have hl : LiveSet tetrahedron_mesh ⟨[], [], [1], []⟩ := by
    intro d h1 h3 k hk
    have : d = 1 ∨ d = 2 ∨ d = 3 := by omega
    rcases this with rfl | rfl | rfl
    · cases hk
    · simp only [SimplexSet.keys, List.mem_singleton] at hk
      subst hk
      decide
    · cases hk
  ⟨by decide!, (closure_idempotent tetrahedron_mesh ⟨[], [], [1], []⟩).1 _ (by decide!), hb, hl,
    (closure_idempotent tetrahedron_mesh ⟨[], [], [1], []⟩).2 hb hl⟩

/-- Witness of C9: the link of the node 0 of the mesh with one tetrahedron. -/
theorem link_node_eq_closure_star_witness :
    LabelsZero tetrahedron_mesh ∧
    star tetrahedron_mesh 0 0 SimplexSet.empty
      = some (tetrahedron_mesh, ⟨[], [0, 1, 2], [0, 1, 2], [0]⟩) ∧
    closure_set tetrahedron_mesh ⟨[], [0, 1, 2], [0, 1, 2], [0]⟩ SimplexSet.empty
      = some ⟨[0, 1, 2, 3], [0, 1, 2, 3, 4, 5], [0, 1, 2, 3], [0]⟩ ∧
    closure tetrahedron_mesh 0 0 SimplexSet.empty = some ⟨[0], [], [], []⟩ ∧
    link_node tetrahedron_mesh 0 SimplexSet.empty
      = some (tetrahedron_mesh, ⟨[1, 2, 3], [3, 4, 5], [3], []⟩) :=
  ⟨labelsZero_tetrahedron, by decide!, by decide!, by decide!,
    (link_node_eq_closure_star tetrahedron_mesh 0 labelsZero_tetrahedron).1 tetrahedron_mesh
      ⟨[], [0, 1, 2], [0, 1, 2], [0]⟩ ⟨[0, 1, 2, 3], [0, 1, 2, 3, 4, 5], [0, 1, 2, 3], [0]⟩
      ⟨[0], [], [], []⟩ (by decide!) (by decide!) (by decide!)⟩

/-- Counterexample to C10 as stated: in the mesh with one triangle, `link` of the edge 0
is the opposite node 2 alone, while `closure(star(e)) \ star(e) \ closure(e)` also holds
the two other edges of the triangle. -/
theorem link_edge_ne_closure_star :
    star triangle_mesh 1 0 SimplexSet.empty = some (triangle_mesh, ⟨[], [], [0], []⟩) ∧
    closure_set triangle_mesh ⟨[], [], [0], []⟩ SimplexSet.empty
      = some ⟨[0, 1, 2], [0, 1, 2], [0], []⟩ ∧
    closure triangle_mesh 1 0 SimplexSet.empty = some ⟨[0, 1], [0], [], []⟩ ∧
    ((⟨[0, 1, 2], [0, 1, 2], [0], []⟩ : SimplexSet).difference ⟨[], [], [0], []⟩).difference
      ⟨[0, 1], [0], [], []⟩ = ⟨[2], [1, 2], [], []⟩ ∧
    link_edge triangle_mesh 0 SimplexSet.empty = some (triangle_mesh, ⟨[2], [], [], []⟩) ∧
    (⟨[2], [], [], []⟩ : SimplexSet) ≠ ⟨[2], [1, 2], [], []⟩ := by
  decide!

/-- Witness of C10 as amended: the link of the edge 0 of the mesh with one tetrahedron. -/
theorem link_edge_eq_filtered_witness :
    LabelsZero tetrahedron_mesh ∧
    (∀ x s, tetrahedron_mesh.lookup_simplex 1 x = some s → s.m_boundary.length = 2) ∧
    star tetrahedron_mesh 1 0 SimplexSet.empty
      = some (tetrahedron_mesh, ⟨[], [], [0, 1], [0]⟩) ∧
    closure_set tetrahedron_mesh ⟨[], [], [0, 1], [0]⟩ SimplexSet.empty
      = some ⟨[0, 1, 2, 3], [0, 1, 2, 3, 4, 5], [0, 1, 2, 3], [0]⟩ ∧
    closure tetrahedron_mesh 1 0 SimplexSet.empty = some ⟨[0, 1], [0], [], []⟩ ∧
    link_edge tetrahedron_mesh 0 SimplexSet.empty
      = some (tetrahedron_mesh, ⟨[2, 3], [5], [], []⟩) :=
  have ha := (reachable_invariants reachable_tetrahedron).2.1
  ⟨labelsZero_tetrahedron, fun x s h => ha 1 x s (by omega) (by omega) h,
    by decide!, by decide!, by decide!,
    link_edge_eq_filtered tetrahedron_mesh 0 0 1 tetrahedron_mesh
      ⟨[], [], [0, 1], [0]⟩ ⟨[0, 1, 2, 3], [0, 1, 2, 3, 4, 5], [0, 1, 2, 3], [0]⟩
      ⟨[0, 1], [0], [], []⟩ labelsZero_tetrahedron
      (fun x s h => ha 1 x s (by omega) (by omega) h)
      (by decide!) (by decide!) (by decide!) (by decide!) (by decide!)⟩

end ISMesh

namespace ISMesh

/-! # Refusal of `edge_collapse` -/

theorem link_node_restores {m m' : Mesh} {n : Nat} {result R : SimplexSet} (hz : LabelsZero m)
    (h : link_node m n result = some (m', R)) : m' = m := by
  unfold link_node at h
  simp only [bind, Option.bind_eq_some, pure, Option.some.injEq, Prod.mk.injEq] at h
  obtain ⟨⟨m1, st⟩, hs, R', -, rfl, -⟩ := h
  exact star_restores hz hs

theorem link_edge_restores {m m' : Mesh} {e : Nat} {result R : SimplexSet} (hz : LabelsZero m)
    (h : link_edge m e result = some (m', R)) : m' = m := by
  unfold link_edge link_edge_st at h
  simp only [bind, Option.bind_eq_some, pure, Option.some.injEq, Prod.mk.injEq] at h
  obtain ⟨⟨m1, R1, st1⟩, ⟨⟨m2, st⟩, hs, _, -, _, -, _, -, _, -, _, -, h1⟩, rfl, -⟩ := h
  simp only [Prod.mk.injEq] at h1
  obtain ⟨rfl, -⟩ := h1
  exact star_restores hz hs

/-- The link of a node holds no tetrahedron. -/
theorem link_node_tetrahedra {m m' : Mesh} {n : Nat} {R : SimplexSet}
    (h : link_node m n SimplexSet.empty = some (m', R)) : R.tetrahedra = [] := by
  unfold link_node at h
  simp only [bind, Option.bind_eq_some, pure, Option.some.injEq, Prod.mk.injEq] at h
  obtain ⟨⟨m1, st⟩, -, R', hR', -, rfl⟩ := h
  have hc := closure_helper_spec hR'
  simp only [SimplexSet.difference]
  rw [List.filter_eq_nil_iff]
  intro a ha
  have := (hc.2.2.1 a).1 ha
  simp only [SimplexSet.keys] at this
  simpa using this

/-- The precondition check fails, leaving the mesh as it was, when the three links return
and some simplex lies in both node links but not in the edge link. -/
theorem edge_collapse_precond_false {m me m1 m2 : Mesh} {e n1 n2 : Nat}
    {lk_e lk1 lk2 : SimplexSet} (hz : LabelsZero m)
    (hle : link_edge m e SimplexSet.empty = some (me, lk_e))
    (hl1 : link_node m n1 SimplexSet.empty = some (m1, lk1))
    (hl2 : link_node m n2 SimplexSet.empty = some (m2, lk2))
    (hne : ∃ d k, d ≤ 3 ∧ k ∈ lk1.keys d ∧ k ∈ lk2.keys d ∧ k ∉ lk_e.keys d) :
    edge_collapse_precond m e n1 n2 = some (m, false) := by
  have e1 := link_edge_restores hz hle
  have e2 := link_node_restores hz hl1
  have e3 := link_node_restores hz hl2
  subst e1 e2 e3
  have ht := link_node_tetrahedra hl1
  obtain ⟨d, k, hd, h1, h2, h3⟩ := hne
  unfold edge_collapse_precond
  simp only [bind, hle, hl1, hl2, Option.some_bind, pure]
  have hmem : ∀ d', d' ≤ 2 → d' = d →
      k ∈ ((lk2.intersection lk1).difference lk_e).keys d' := by
    intro d' hd' hdd
    subst hdd
    rcases d' with _ | _ | _ | d'
    · simp only [SimplexSet.keys, SimplexSet.difference, SimplexSet.intersection,
        List.mem_filter] at h1 h2 h3 ⊢
      exact ⟨⟨h2, by simpa using h1⟩, by simpa using h3⟩
    · simp only [SimplexSet.keys, SimplexSet.difference, SimplexSet.intersection,
        List.mem_filter] at h1 h2 h3 ⊢
      exact ⟨⟨h2, by simpa using h1⟩, by simpa using h3⟩
    · simp only [SimplexSet.keys, SimplexSet.difference, SimplexSet.intersection,
        List.mem_filter] at h1 h2 h3 ⊢
      exact ⟨⟨h2, by simpa using h1⟩, by simpa using h3⟩
    · omega
  have hd2 : d ≤ 2 := by
    by_contra hc
    have : d = 3 := by omega
    subst this
    simp only [SimplexSet.keys] at h1
    rw [ht] at h1
    cases h1
  have hk := hmem d hd2 rfl
  have : ¬ (((lk2.intersection lk1).difference lk_e).size_nodes = 0 ∧
      ((lk2.intersection lk1).difference lk_e).size_edges = 0 ∧
      ((lk2.intersection lk1).difference lk_e).size_faces = 0) := by
    rintro ⟨c0, c1, c2⟩
    simp only [SimplexSet.size_nodes, SimplexSet.size_edges, SimplexSet.size_faces,
      List.length_eq_zero] at c0 c1 c2
    rcases d with _ | _ | _ | d
    · simp only [SimplexSet.keys] at hk; rw [c0] at hk; cases hk
    · simp only [SimplexSet.keys] at hk; rw [c1] at hk; cases hk
    · simp only [SimplexSet.keys] at hk; rw [c2] at hk; cases hk
    · omega
  simp only [this, if_false]

/-- The key returned by a collapse that has passed the precondition check is `n1`. -/
theorem edge_collapse_body_result {m m' : Mesh} {e n1 n2 : Nat} {r : Int}
    (h : edge_collapse_body m e n1 n2 = some (m', r)) : r = n1 := by
  unfold edge_collapse_body at h
  obtain ⟨_, -, h⟩ := Option.bind_eq_some.1 h
  obtain ⟨_, -, h⟩ := Option.bind_eq_some.1 h
  obtain ⟨_, -, h⟩ := Option.bind_eq_some.1 h
  obtain ⟨_, -, h⟩ := Option.bind_eq_some.1 h
  obtain ⟨_, -, h⟩ := Option.bind_eq_some.1 h
  obtain ⟨_, -, h⟩ := Option.bind_eq_some.1 h
  obtain ⟨_, -, h⟩ := Option.bind_eq_some.1 h
  obtain ⟨_, -, h⟩ := Option.bind_eq_some.1 h
  obtain ⟨_, -, h⟩ := Option.bind_eq_some.1 h
  simp only [pure, Option.some.injEq, Prod.mk.injEq] at h
  exact h.2.symm

/-- The call `edge_collapse(e)` on a live edge with boundary nodes `n1`, `n2`. -/
theorem edge_collapse_eq {m : Mesh} {e n1 n2 : Nat} {s : Simplex}
    (he : m.lookup_simplex 1 e = some s)
    (hb1 : s.m_boundary[0]? = some n1) (hb2 : s.m_boundary[1]? = some n2) :
    edge_collapse m e = edge_collapse_helper m e n1 n2 := by
  unfold edge_collapse
  simp only [bind, he, hb1, hb2, Option.some_bind]

/-- The steps of a collapse that has passed the precondition check, on a mesh that the
star and link computations leave as it is. -/
theorem edge_collapse_body_iff {m : Mesh} {e n1 n2 : Nat} {st2 lk1 lk2 st lk_e : SimplexSet}
    (hst2 : star m 0 n2 SimplexSet.empty = some (m, st2))
    (hl1 : link_node m n1 SimplexSet.empty = some (m, lk1))
    (hl2 : link_node m n2 SimplexSet.empty = some (m, lk2))
    (hste : star m 1 e SimplexSet.empty = some (m, st))
    (hle : link_edge m e SimplexSet.empty = some (m, lk_e)) (r : Mesh × Int) :
    edge_collapse_body m e n1 n2 = some r ↔
      ∃ R x0 x emap fmap x', boundary_set m (st.insert 1 e) SimplexSet.empty = some R ∧
        repair_co_boundaries m (st.insert 1 e) (R.difference (st.insert 1 e)) = some x0 ∧
        edge_collapse_clear_interior x0 e (st.insert 1 e) lk1 lk2 = some (x, emap, fmap) ∧
        edge_collapse_sew_hole_up x n1 n2 st2 (st.insert 1 e) emap fmap = some x' ∧
        r = (x', (n1 : Int)) := by
  have h0 : edge_collapse_body m e n1 n2 =
      (boundary_set m (st.insert 1 e) SimplexSet.empty).bind (fun R =>
        (repair_co_boundaries m (st.insert 1 e) (R.difference (st.insert 1 e))).bind (fun x0 =>
          (edge_collapse_clear_interior x0 e (st.insert 1 e) lk1 lk2).bind (fun p =>
            (edge_collapse_sew_hole_up p.1 n1 n2 st2 (st.insert 1 e) p.2.1 p.2.2).bind
              (fun x' => some (x', (n1 : Int)))))) := by
    unfold edge_collapse_body
    rw [hst2]
    show (link_node m n1 SimplexSet.empty).bind _ = _
    rw [hl1]
    show (link_node m n2 SimplexSet.empty).bind _ = _
    rw [hl2]
    show (star m 1 e SimplexSet.empty).bind _ = _
    rw [hste]
    show (link_edge m e SimplexSet.empty).bind _ = _
    rw [hle]
    rfl
  rw [h0]
  constructor
  · intro h
    obtain ⟨R, hR, h⟩ := Option.bind_eq_some.1 h
    obtain ⟨x0, hx0, h⟩ := Option.bind_eq_some.1 h
    obtain ⟨⟨x, emap, fmap⟩, hx, h⟩ := Option.bind_eq_some.1 h
    obtain ⟨x', hx', h⟩ := Option.bind_eq_some.1 h
    exact ⟨R, x0, x, emap, fmap, x', hR, hx0, hx, hx', (Option.some.inj h).symm⟩
  · rintro ⟨R, x0, x, emap, fmap, x', hR, hx0, hx, hx', rfl⟩
    rw [hR, Option.some_bind, hx0, Option.some_bind, hx, Option.some_bind]
    show (edge_collapse_sew_hole_up x n1 n2 st2 (st.insert 1 e) emap fmap).bind _ = _
    rw [hx', Option.some_bind]

/-- C4: `edge_collapse` refuses when the link condition fails. On a mesh whose labels are
all 0, for a live edge `e` with boundary nodes `n1`, `n2` whose links have been computed,
if some simplex lies in `link(n1)` and in `link(n2)` but not in `link(e)`, then
`edge_collapse(e)` returns the sentinel key `-1`. -/
theorem edge_collapse_refuses (m : Mesh) (e n1 n2 : Nat) (s : Simplex) (me m1 m2 : Mesh)
    (lk_e lk1 lk2 : SimplexSet) (hz : LabelsZero m)
    (he : m.lookup_simplex 1 e = some s)
    (hb1 : s.m_boundary[0]? = some n1) (hb2 : s.m_boundary[1]? = some n2)
    (hle : link_edge m e SimplexSet.empty = some (me, lk_e))
    (hl1 : link_node m n1 SimplexSet.empty = some (m1, lk1))
    (hl2 : link_node m n2 SimplexSet.empty = some (m2, lk2))
    (hne : ∃ d k, d ≤ 3 ∧ k ∈ lk1.keys d ∧ k ∈ lk2.keys d ∧ k ∉ lk_e.keys d) :
    ∃ m', edge_collapse m e = some (m', -1) := by
  refine ⟨m, ?_⟩
  rw [edge_collapse_eq he hb1 hb2]
  unfold edge_collapse_helper
  simp only [bind, Option.some_bind,
    edge_collapse_precond_false hz hle hl1 hl2 hne, Bool.not_false, if_true, pure]

/-- Witness of C4: the edge 0 of the hollow triangle, whose node links share the node 2. -/
theorem edge_collapse_refuses_witness :
    LabelsZero hollow_triangle_mesh ∧
    hollow_triangle_mesh.lookup_simplex 1 0 = some ⟨[0, 1], [], false, 0⟩ ∧
    link_edge hollow_triangle_mesh 0 SimplexSet.empty
      = some (hollow_triangle_mesh, ⟨[], [], [], []⟩) ∧
    link_node hollow_triangle_mesh 0 SimplexSet.empty
      = some (hollow_triangle_mesh, ⟨[1, 2], [], [], []⟩) ∧
    link_node hollow_triangle_mesh 1 SimplexSet.empty
      = some (hollow_triangle_mesh, ⟨[0, 2], [], [], []⟩) ∧
    ∃ m', edge_collapse hollow_triangle_mesh 0 = some (m', -1) :=
  have hz : LabelsZero hollow_triangle_mesh := labelsZero_of_check (by decide!)
  ⟨hz, by decide!, by decide!, by decide!, by decide!,
    edge_collapse_refuses hollow_triangle_mesh 0 0 1 ⟨[0, 1], [], false, 0⟩
      hollow_triangle_mesh hollow_triangle_mesh hollow_triangle_mesh
      ⟨[], [], [], []⟩ ⟨[1, 2], [], [], []⟩ ⟨[0, 2], [], [], []⟩ hz
      (by decide!) (by decide!) (by decide!) (by decide!) (by decide!) (by decide!)
      ⟨0, 2, by decide, by decide, by decide, by decide⟩⟩

/-- C5: a refused `edge_collapse` is atomic. On a mesh whose labels are all 0, when
`edge_collapse(e)` returns the sentinel key `-1` the whole state of the mesh (the live
simplices, every boundary list, co-boundary set, compact flag and label) is as before. -/
theorem edge_collapse_refusal_atomic (m m' : Mesh) (e : Nat) (hz : LabelsZero m)
    (h : edge_collapse m e = some (m', -1)) : m' = m := by
  unfold edge_collapse at h
  obtain ⟨s, -, h⟩ := Option.bind_eq_some.1 h
  obtain ⟨n1, -, h⟩ := Option.bind_eq_some.1 h
  obtain ⟨n2, -, h⟩ := Option.bind_eq_some.1 h
  unfold edge_collapse_helper at h
  obtain ⟨⟨mp, ok⟩, hp, h⟩ := Option.bind_eq_some.1 h
  have hmp : mp = m := by
    unfold edge_collapse_precond at hp
    simp only [bind, Option.bind_eq_some] at hp
    obtain ⟨⟨ma, lk_e⟩, ha, ⟨mb, lk1⟩, hb, ⟨mc, lk12⟩, hc, hp⟩ := hp
    have e1 := link_edge_restores hz ha
    subst e1
    have e2 := link_node_restores hz hb
    subst e2
    have e3 := link_node_restores hz hc
    subst e3
    split_ifs at hp <;> simp only [pure, Option.some.injEq, Prod.mk.injEq] at hp <;>
      exact hp.1.symm
  subst hmp
  cases ok with
  | false =>
    simp only [Bool.not_false, if_true, pure, Option.some.injEq, Prod.mk.injEq] at h
    exact h.1.symm
  | true =>
    exfalso
    simp only [Bool.not_true, Bool.false_eq_true, if_false] at h
    have hn := edge_collapse_body_result h
    omega

/-- Witness of C5: the refused collapse of the edge 0 of the hollow triangle. -/
theorem edge_collapse_refusal_atomic_witness :
    LabelsZero hollow_triangle_mesh ∧
    edge_collapse hollow_triangle_mesh 0 = some (hollow_triangle_mesh, -1) ∧
    hollow_triangle_mesh = hollow_triangle_mesh :=
  have hz : LabelsZero hollow_triangle_mesh := labelsZero_of_check (by decide!)
  ⟨hz, by decide!,
    edge_collapse_refusal_atomic hollow_triangle_mesh hollow_triangle_mesh 0 hz (by decide!)⟩

end ISMesh

namespace ISMesh

/-! # Undo marks -/

namespace Mesh

theorem undo_stack_set_undo_stack (m : Mesh) (d d' : Nat) (l : List UndoInfo) :
    (m.set_undo_stack d l).undo_stack d' = if min d 3 = min d' 3 then l else m.undo_stack d' := by
  rcases d with _ | _ | _ | d <;> rcases d' with _ | _ | _ | d' <;>
    simp [set_undo_stack, undo_stack]

theorem mark_stack_set_undo_stack (m : Mesh) (d d' : Nat) (l : List UndoInfo) :
    (m.set_undo_stack d l).mark_stack d' = m.mark_stack d' := by
  rcases d with _ | _ | _ | d <;> rcases d' with _ | _ | _ | d' <;> rfl

theorem kernel_set_undo_stack (m : Mesh) (d d' : Nat) (l : List UndoInfo) :
    (m.set_undo_stack d l).kernel d' = m.kernel d' := by
  rcases d with _ | _ | _ | d <;> rcases d' with _ | _ | _ | d' <;> rfl

theorem undo_stack_set_mark_stack (m : Mesh) (d d' : Nat) (l : List Nat) :
    (m.set_mark_stack d l).undo_stack d' = m.undo_stack d' := by
  rcases d with _ | _ | _ | d <;> rcases d' with _ | _ | _ | d' <;> rfl

theorem mark_stack_set_mark_stack (m : Mesh) (d d' : Nat) (l : List Nat) :
    (m.set_mark_stack d l).mark_stack d' = if min d 3 = min d' 3 then l else m.mark_stack d' := by
  rcases d with _ | _ | _ | d <;> rcases d' with _ | _ | _ | d' <;>
    simp [set_mark_stack, mark_stack]

theorem kernel_set_mark_stack (m : Mesh) (d d' : Nat) (l : List Nat) :
    (m.set_mark_stack d l).kernel d' = m.kernel d' := by
  rcases d with _ | _ | _ | d <;> rcases d' with _ | _ | _ | d' <;> rfl

theorem undo_stack_setKernel (m : Mesh) (d d' : Nat) (K : Kernel) :
    (m.setKernel d K).undo_stack d' = m.undo_stack d' := by
  rcases d with _ | _ | _ | d <;> rcases d' with _ | _ | _ | d' <;> rfl

theorem mark_stack_setKernel (m : Mesh) (d d' : Nat) (K : Kernel) :
    (m.setKernel d K).mark_stack d' = m.mark_stack d' := by
  rcases d with _ | _ | _ | d <;> rcases d' with _ | _ | _ | d' <;> rfl

theorem undo_stack_modify {m m' : Mesh} {d k : Nat} {f : Simplex → Simplex}
    (h : m.modify d k f = some m') (d' : Nat) : m'.undo_stack d' = m.undo_stack d' := by
  unfold modify at h
  cases hK : (m.kernel d).modify k f with
  | none => simp [hK] at h
  | some K =>
    simp only [hK, Option.some.injEq] at h
    subst h
    exact undo_stack_setKernel m d d' K

theorem mark_stack_modify {m m' : Mesh} {d k : Nat} {f : Simplex → Simplex}
    (h : m.modify d k f = some m') (d' : Nat) : m'.mark_stack d' = m.mark_stack d' := by
  unfold modify at h
  cases hK : (m.kernel d).modify k f with
  | none => simp [hK] at h
  | some K =>
    simp only [hK, Option.some.injEq] at h
    subst h
    exact mark_stack_setKernel m d d' K

theorem kernel_modify_frame {m m' : Mesh} {d k : Nat} {f : Simplex → Simplex}
    (h : m.modify d k f = some m') (d' : Nat) :
    (m'.kernel d').marks = (m.kernel d').marks ∧
    (m'.kernel d').elements.map (fun e => e.valid) =
      (m.kernel d').elements.map (fun e => e.valid) := by
  unfold modify at h
  cases hK : (m.kernel d).modify k f with
  | none => simp [hK] at h
  | some K =>
    simp only [hK, Option.some.injEq] at h
    subst h
    rw [kernel_setKernel]
    by_cases hd : min d 3 = min d' 3
    · have hkk : m.kernel d' = m.kernel d := by
        rcases d with _ | _ | _ | d <;> rcases d' with _ | _ | _ | d' <;>
          simp [kernel] at hd ⊢
      simp only [hd, if_true, hkk]
      unfold Kernel.modify at hK
      cases hs : (m.kernel d).find k with
      | none => simp [hs] at hK
      | some s =>
        simp only [hs, Option.some.injEq] at hK
        subst hK
        have he := Kernel.find_eq_some.1 hs
        refine ⟨rfl, ?_⟩
        simp only [List.map_set]
        apply List.ext_getElem?
        intro i
        rw [List.getElem?_set]
        split_ifs with h1 h2
        · subst h1
          simp [he]
        · subst h1
          simp at h2
          rw [List.getElem?_eq_none (by simpa using h2)]
        · rfl
    · simp [hd]

end Mesh

theorem SameFrame.frame_refl (m : Mesh) : SameFrame m m :=
  ⟨fun _ => ⟨rfl, rfl, rfl, rfl⟩, fun _ _ s hs => ⟨s, hs, fun _ => rfl, fun _ => rfl⟩⟩

theorem SameFrame.frame_trans {a b c : Mesh} (h1 : SameFrame a b) (h2 : SameFrame b c) :
    SameFrame a c := by
  refine ⟨fun d => ?_, fun d k s hs => ?_⟩
  · obtain ⟨x1, x2, x3, x4⟩ := h1.1 d
    obtain ⟨y1, y2, y3, y4⟩ := h2.1 d
    exact ⟨y1.trans x1, y2.trans x2, y3.trans x3, y4.trans x4⟩
  · obtain ⟨s1, hs1, p1, q1⟩ := h1.2 d k s hs
    obtain ⟨s2, hs2, p2, q2⟩ := h2.2 d k s1 hs1
    exact ⟨s2, hs2, fun h => (p2 h).trans (p1 h), fun h => (q2 h).trans (q1 h)⟩

/-- A write that keeps the boundary lists of nodes and the co-boundary sets of tetrahedra
keeps the frame. -/
theorem modify_sameFrame {m m' : Mesh} {d k : Nat} {f : Simplex → Simplex}
    (hf0 : min d 3 = 0 → ∀ s, (f s).m_boundary = s.m_boundary)
    (hf3 : min d 3 = 3 → ∀ s, (f s).m_co_boundary = s.m_co_boundary)
    (h : m.modify d k f = some m') : SameFrame m m' := by
  refine ⟨fun d' => ⟨Mesh.undo_stack_modify h d', Mesh.mark_stack_modify h d',
    (Mesh.kernel_modify_frame h d').1, (Mesh.kernel_modify_frame h d').2⟩, ?_⟩
  intro d' k' s hs
  rw [Mesh.lookup_modify h d' k']
  by_cases hc : min d 3 = min d' 3 ∧ k' = k
  · obtain ⟨hd, hk⟩ := hc
    subst hk
    have hkk : m.lookup_simplex d' k' = m.lookup_simplex d k' := by
      unfold Mesh.lookup_simplex
      rcases d with _ | _ | _ | d <;> rcases d' with _ | _ | _ | d' <;>
        simp [Mesh.kernel] at hd ⊢
    rw [hkk] at hs
    simp only [hd, and_self, if_true, hs, Option.map_some']
    refine ⟨f s, rfl, fun h0 => hf0 (by omega) s, fun h3 => hf3 (by omega) s⟩
  · simp only [hc, if_false]
    exact ⟨s, hs, fun _ => rfl, fun _ => rfl⟩

theorem apply_mutation_sameFrame {m m' : Mesh} {op : Mutation}
    (h : apply_mutation m op = some m') : SameFrame m m' := by
  cases op with
  | boundary d k l =>
    simp only [apply_mutation] at h
    split_ifs at h with hd
    refine modify_sameFrame (d := d) (f := fun x => x.set_boundary_list l) ?_
      (fun _ _ => rfl) h
    intro h0
    omega
  | co_boundary d k l =>
    simp only [apply_mutation] at h
    split_ifs at h with hd
    refine modify_sameFrame (d := d) (f := fun x => x.set_co_boundary_set l)
      (fun _ _ => rfl) ?_ h
    intro h3
    omega

theorem apply_mutations_sameFrame {m m' : Mesh} {ops : List Mutation}
    (h : apply_mutations m ops = some m') : SameFrame m m' :=
  foldlM_rel SameFrame SameFrame.frame_refl (fun _ _ _ => SameFrame.frame_trans) _
    (fun _ _ _ hb => apply_mutation_sameFrame hb) _ _ _ h

end ISMesh

namespace ISMesh

/-- The record pushed for every key of a marked set is the snapshot of its simplex. -/
theorem set_undo_mark_fold (d : Nat) (L : List Nat) :
    ∀ (ma mb : Mesh),
      L.foldlM (fun m k => do
        let s ← m.lookup_simplex d k
        pure (m.set_undo_stack d (m.undo_stack d ++ [undo_info d k s]))) ma = some mb →
      (∀ d', mb.kernel d' = ma.kernel d') ∧
      (∀ d', mb.mark_stack d' = ma.mark_stack d') ∧
      (∀ d', min d 3 ≠ min d' 3 → mb.undo_stack d' = ma.undo_stack d') ∧
      ∃ infos, mb.undo_stack d = ma.undo_stack d ++ infos ∧
        List.Forall₂ (fun k info => ∃ s, ma.lookup_simplex d k = some s ∧
          info = undo_info d k s) L infos := by
  induction L with
  | nil =>
    intro ma mb h
    simp only [List.foldlM_nil, pure, Option.some.injEq] at h
    subst h
    exact ⟨fun _ => rfl, fun _ => rfl, fun _ _ => rfl, [], by simp, List.Forall₂.nil⟩
  | cons k L ih =>
    intro ma mb h
    simp only [List.foldlM_cons, bind, Option.bind_eq_some, pure, Option.some.injEq] at h
    obtain ⟨m1, ⟨s, hs, rfl⟩, h2⟩ := h
    obtain ⟨i1, i2, i3, infos, i4, i5⟩ := ih _ mb h2
    refine ⟨?_, ?_, ?_, undo_info d k s :: infos, ?_, ?_⟩
    · intro d'; rw [i1 d', Mesh.kernel_set_undo_stack]
    · intro d'; rw [i2 d', Mesh.mark_stack_set_undo_stack]
    · intro d' hne
      rw [i3 d' hne, Mesh.undo_stack_set_undo_stack]
      simp only [hne, if_false]
    · rw [i4, Mesh.undo_stack_set_undo_stack]
      simp
    · refine List.Forall₂.cons ⟨s, hs, rfl⟩ ?_
      refine List.Forall₂.imp ?_ i5
      intro a b hab
      obtain ⟨s', hs', rfl⟩ := hab
      refine ⟨s', ?_, rfl⟩
      rw [← hs']
      unfold Mesh.lookup_simplex
      rw [Mesh.kernel_set_undo_stack]

/-- What one block of `set_undo_mark` does to the mesh. -/
theorem set_undo_mark_dim_spec {d : Nat} {M : SimplexSet} {ma mb : Mesh}
    (h : set_undo_mark_dim d M ma = some mb) :
    (∀ d', min d 3 ≠ min d' 3 → mb.kernel d' = ma.kernel d' ∧
      mb.undo_stack d' = ma.undo_stack d' ∧ mb.mark_stack d' = ma.mark_stack d') ∧
    (mb.kernel d).elements = (ma.kernel d).elements ∧
    (M.keys d = [] → mb = ma) ∧
    (M.keys d ≠ [] →
      mb.mark_stack d = (M.keys d).length :: ma.mark_stack d ∧
      (mb.kernel d).marks = (ma.kernel d).elements.map (fun e => e.valid) :: (ma.kernel d).marks ∧
      ∃ infos, mb.undo_stack d = ma.undo_stack d ++ infos ∧
        List.Forall₂ (fun k info => ∃ s, ma.lookup_simplex d k = some s ∧
          info = undo_info d k s) (M.keys d) infos) := by
  unfold set_undo_mark_dim at h
  by_cases hk : (M.keys d).length > 0
  · simp only [hk, if_true] at h
    obtain ⟨i1, i2, i3, infos, i4, i5⟩ := set_undo_mark_fold d _ _ _ h
    have hne : M.keys d ≠ [] := by
      intro hc; rw [hc] at hk; simp at hk
    refine ⟨?_, ?_, fun hc => absurd hc hne, fun _ => ⟨?_, ?_, infos, ?_, ?_⟩⟩
    · intro d' hd
      refine ⟨?_, ?_, ?_⟩
      · rw [i1 d', Mesh.kernel_setKernel]
        simp only [hd, if_false, Mesh.kernel_set_mark_stack]
      · rw [i3 d' hd, Mesh.undo_stack_setKernel, Mesh.undo_stack_set_mark_stack]
      · rw [i2 d', Mesh.mark_stack_setKernel, Mesh.mark_stack_set_mark_stack]
        simp only [hd, if_false]
    · rw [i1 d, Mesh.kernel_setKernel]
      simp only [if_true, Mesh.kernel_setKernel, Mesh.kernel_set_mark_stack]
      rfl
    · rw [i2 d, Mesh.mark_stack_setKernel, Mesh.mark_stack_set_mark_stack]
      simp
    · rw [i1 d, Mesh.kernel_setKernel]
      simp only [if_true, Mesh.kernel_setKernel, Mesh.kernel_set_mark_stack]
      rfl
    · rw [i4, Mesh.undo_stack_setKernel, Mesh.undo_stack_set_mark_stack]
    · refine List.Forall₂.imp ?_ i5
      intro a b hab
      obtain ⟨s', hs', rfl⟩ := hab
      refine ⟨s', ?_, rfl⟩
      rw [← hs']
      unfold Mesh.lookup_simplex
      rw [Mesh.kernel_setKernel]
      simp only [if_true, Mesh.kernel_setKernel, Mesh.kernel_set_mark_stack]
      rfl
  · simp only [hk, if_false, pure, Option.some.injEq] at h
    subst h
    refine ⟨fun _ _ => ⟨rfl, rfl, rfl⟩, rfl, fun _ => rfl, fun hne => ?_⟩
    exfalso
    apply hk
    exact List.length_pos.2 hne

end ISMesh

namespace ISMesh

/-- A loop over `0 .. n-1` with an invariant whose every step returns. -/
theorem foldlM_range_returns {β : Type} (P : Nat → β → Prop) (f : β → Nat → Option β)
    (n : Nat) (b : β) (h0 : P 0 b)
    (hstep : ∀ i, i < n → ∀ x, P i x → ∃ x', f x i = some x' ∧ P (i + 1) x') :
    ∃ b', (List.range n).foldlM f b = some b' ∧ P n b' := by
  induction n with
  | zero => exact ⟨b, rfl, h0⟩
  | succ n ih =>
    obtain ⟨b1, h1, p1⟩ := ih (fun i hi x hx => hstep i (by omega) x hx)
    obtain ⟨b2, h2, p2⟩ := hstep n (by omega) b1 p1
    refine ⟨b2, ?_, p2⟩
    rw [List.range_succ, List.foldlM_append, h1]
    simp only [bind, Option.some_bind, List.foldlM_cons, h2, List.foldlM_nil, pure]

/-- Undoing a kernel mark taken when the same keys were live only pops the mark. -/
theorem Kernel.undo_of_snapshot {K : Kernel} {rest : List (List Bool)}
    (h : K.marks = K.elements.map (fun e => e.valid) :: rest) :
    K.undo = some { elements := K.elements, marks := rest } := by
  unfold Kernel.undo
  rw [h]
  simp only [Option.some.injEq, Kernel.mk.injEq, and_true]
  apply List.ext_getElem?
  intro i
  rw [List.getElem?_zipWith]
  by_cases hi : i < K.elements.length
  · rw [List.getElem?_range hi]
    obtain ⟨e, he⟩ : ∃ e, K.elements[i]? = some e := ⟨K.elements[i], List.getElem?_eq_getElem hi⟩
    simp only [he, List.getD_eq_getElem?_getD, List.getElem?_map, Option.map_some',
      Option.getD_some]
  · have h1 : K.elements[i]? = none := List.getElem?_eq_none (by omega)
    rw [h1]
    cases (List.range K.elements.length)[i]? <;> rfl

theorem Mesh.lookup_setKernel_elements (m : Mesh) (d : Nat) (K : Kernel)
    (h : K.elements = (m.kernel d).elements) (d' k : Nat) :
    (m.setKernel d K).lookup_simplex d' k = m.lookup_simplex d' k := by
  unfold Mesh.lookup_simplex
  rw [Mesh.kernel_setKernel]
  by_cases hd : min d 3 = min d' 3
  · have hkk : m.kernel d' = m.kernel d := by
      rcases d with _ | _ | _ | d <;> rcases d' with _ | _ | _ | d' <;>
        simp [Mesh.kernel] at hd ⊢
    simp only [hd, if_true, hkk, Kernel.find, h]
  · simp only [hd, if_false]

theorem Mesh.kernel_modify_ne {m m' : Mesh} {d k : Nat} {f : Simplex → Simplex}
    (h : m.modify d k f = some m') {d' : Nat} (hne : min d 3 ≠ min d' 3) :
    m'.kernel d' = m.kernel d' := by
  unfold Mesh.modify at h
  cases hK : (m.kernel d).modify k f with
  | none => simp [hK] at h
  | some K =>
    simp only [hK, Option.some.injEq] at h
    subst h
    rw [Mesh.kernel_setKernel]
    simp only [hne, if_false]

/-- What one block of `undo` does when the most recent mark of the dimension holds the
records `infos` and no key has been created or erased since the mark. -/
theorem undo_dim_spec {d : Nat} {m : Mesh} {cnt : Nat} {rest : List Nat}
    {base infos : List UndoInfo} {krest : List (List Bool)} (hd3 : d ≤ 3)
    (hmark : m.mark_stack d = cnt :: rest)
    (hstack : m.undo_stack d = base ++ infos) (hlen : infos.length = cnt)
    (hk : (m.kernel d).marks = (m.kernel d).elements.map (fun e => e.valid) :: krest)
    (hlive : ∀ info ∈ infos, (m.lookup_simplex d info.key).isSome)
    (hcons : ∀ a ∈ infos, ∀ b ∈ infos, a.key = b.key → a = b) :
    ∃ m', undo_dim d m = some m' ∧
      (∀ d', min d 3 ≠ min d' 3 → m'.kernel d' = m.kernel d' ∧
        m'.undo_stack d' = m.undo_stack d' ∧ m'.mark_stack d' = m.mark_stack d') ∧
      m'.mark_stack d = rest ∧ m'.undo_stack d = base ∧
      (m'.kernel d).marks = krest ∧
      (m'.kernel d).elements.map (fun e => e.valid) =
        (m.kernel d).elements.map (fun e => e.valid) ∧
      (∀ info ∈ infos, ∃ s3, m'.lookup_simplex d info.key = some s3 ∧
        (d ≤ 2 → s3.m_co_boundary = info.old_co_boundary) ∧
        (1 ≤ d → s3.m_boundary = info.old_boundary)) ∧
      (∀ k s, m.lookup_simplex d k = some s → ∃ s', m'.lookup_simplex d k = some s' ∧
        (d = 0 → s'.m_boundary = s.m_boundary) ∧
        (d = 3 → s'.m_co_boundary = s.m_co_boundary)) := by
  have hKu := Kernel.undo_of_snapshot hk
  generalize hmK : m.setKernel d { elements := (m.kernel d).elements, marks := krest } = mK
  have lK : ∀ d' k, mK.lookup_simplex d' k = m.lookup_simplex d' k := by
    intro d' k
    rw [← hmK]
    exact Mesh.lookup_setKernel_elements m d
      { elements := (m.kernel d).elements, marks := krest } rfl d' k
  have sK : mK.undo_stack d = base ++ infos := by
    rw [← hmK, Mesh.undo_stack_setKernel, hstack]
  -- the restore loop
  obtain ⟨mL, hL, pL1, pL3, pL2⟩ := foldlM_range_returns
    (fun i (x : Mesh) => SameFrame mK x ∧
      (∀ d', min d 3 ≠ min d' 3 → x.kernel d' = mK.kernel d') ∧
      ∀ j, j < i → ∃ info s3, infos[cnt - 1 - j]? = some info ∧
        x.lookup_simplex d info.key = some s3 ∧
        (d ≤ 2 → s3.m_co_boundary = info.old_co_boundary) ∧
        (1 ≤ d → s3.m_boundary = info.old_boundary))
    (fun m i =>
      if (m.undo_stack d).length < i + 1 then none
      else do
        let info ← (m.undo_stack d)[(m.undo_stack d).length - (i + 1)]?
        m.modify d info.key (undo_restore d info))
    cnt mK ⟨SameFrame.frame_refl mK, fun _ _ => rfl, fun j hj => absurd hj (by omega)⟩
    (by
      intro i hi x ⟨hx1, hx3, hx2⟩
      have sx : x.undo_stack d = base ++ infos := by rw [(hx1.1 d).1, sK]
      have hlt : ¬ (x.undo_stack d).length < i + 1 := by
        rw [sx, List.length_append]; omega
      have hidx : (x.undo_stack d)[(x.undo_stack d).length - (i + 1)]? = infos[cnt - 1 - i]? := by
        rw [sx, List.length_append, List.getElem?_append_right (by omega)]
        congr 1
        omega
      have hbound : cnt - 1 - i < infos.length := by omega
      obtain ⟨info, hinfo⟩ : ∃ info, infos[cnt - 1 - i]? = some info :=
        ⟨infos[cnt - 1 - i], List.getElem?_eq_getElem hbound⟩
      have hmem : info ∈ infos := List.getElem?_mem hinfo
      have hsome : (x.lookup_simplex d info.key).isSome := by
        have h1 := hlive info hmem
        cases hs : m.lookup_simplex d info.key with
        | none => rw [hs] at h1; cases h1
        | some s =>
          obtain ⟨s', hs', -⟩ := hx1.2 d info.key s (by rw [lK]; exact hs)
          simp [hs']
      obtain ⟨x', hx'⟩ := Mesh.modify_isSome (undo_restore d info) hsome
      refine ⟨x', ?_, ?_, ?_, ?_⟩
      · simp only [hlt, if_false, bind, hidx, hinfo, Option.some_bind]
        exact hx'
      · refine hx1.frame_trans (modify_sameFrame (d := d) (f := undo_restore d info) ?_ ?_ hx')
        · intro h0 s
          have : ¬ 1 ≤ d := by omega
          simp [undo_restore, this, Simplex.set_co_boundary_set]
          split_ifs <;> rfl
        · intro h3 s
          have : ¬ d ≤ 2 := by omega
          simp [undo_restore, this, Simplex.set_boundary_list]
          split_ifs <;> rfl
      · intro d' hne
        rw [Mesh.kernel_modify_ne hx' hne, hx3 d' hne]
      · intro j hj
        have hnew : ∃ s3, x'.lookup_simplex d info.key = some s3 ∧
            (d ≤ 2 → s3.m_co_boundary = info.old_co_boundary) ∧
            (1 ≤ d → s3.m_boundary = info.old_boundary) := by
          rw [Mesh.lookup_modify_same hx']
          cases hs : x.lookup_simplex d info.key with
          | none => rw [hs] at hsome; cases hsome
          | some s =>
            refine ⟨undo_restore d info s, rfl, ?_, ?_⟩
            · intro h2
              simp only [undo_restore, h2, if_true]
              split_ifs <;> rfl
            · intro h1
              simp only [undo_restore, h1, if_true]
              rfl
        by_cases hji : j = i
        · subst hji
          obtain ⟨s3, h1, h2, h3⟩ := hnew
          exact ⟨info, s3, hinfo, h1, h2, h3⟩
        · obtain ⟨info', s3, h1, h2, h3, h4⟩ := hx2 j (by omega)
          by_cases hkey : info'.key = info.key
          · have := hcons info' (List.getElem?_mem h1) info hmem hkey
            subst this
            obtain ⟨s3', g1, g2, g3⟩ := hnew
            exact ⟨info', s3', h1, g1, g2, g3⟩
          · refine ⟨info', s3, h1, ?_, h3, h4⟩
            rw [Mesh.lookup_modify_ne hx' hd3 hd3 (by
              rintro ⟨-, hc⟩; exact hkey hc)]
            exact h2)
  have sL : mL.undo_stack d = base ++ infos := by rw [(pL1.1 d).1, sK]
  have hlt : ¬ (mL.undo_stack d).length < cnt := by
    rw [sL, List.length_append]; omega
  refine ⟨(mL.set_undo_stack d ((mL.undo_stack d).take ((mL.undo_stack d).length - cnt))).set_mark_stack
    d rest, ?_, ?_, ?_, ?_, ?_, ?_, ?_, ?_⟩
  · unfold undo_dim
    rw [hmark]
    simp only [bind] at hL
    simp only [bind, hKu, Option.some_bind, hmK, hL, hlt, if_false, pure]
  · intro d' hne
    refine ⟨?_, ?_, ?_⟩
    · rw [Mesh.kernel_set_mark_stack, Mesh.kernel_set_undo_stack, pL3 d' hne, ← hmK,
        Mesh.kernel_setKernel]
      simp only [hne, if_false]
    · rw [Mesh.undo_stack_set_mark_stack, Mesh.undo_stack_set_undo_stack]
      simp only [hne, if_false]
      rw [(pL1.1 d').1, ← hmK, Mesh.undo_stack_setKernel]
    · rw [Mesh.mark_stack_set_mark_stack]
      simp only [hne, if_false]
      rw [Mesh.mark_stack_set_undo_stack, (pL1.1 d').2.1, ← hmK, Mesh.mark_stack_setKernel]
  · rw [Mesh.mark_stack_set_mark_stack]; simp
  · rw [Mesh.undo_stack_set_mark_stack, Mesh.undo_stack_set_undo_stack]
    simp only [if_true]
    rw [sL, List.length_append, hlen]
    simp
  · rw [Mesh.kernel_set_mark_stack, Mesh.kernel_set_undo_stack, (pL1.1 d).2.2.1, ← hmK,
      Mesh.kernel_setKernel]
    simp
  · rw [Mesh.kernel_set_mark_stack, Mesh.kernel_set_undo_stack, (pL1.1 d).2.2.2, ← hmK,
      Mesh.kernel_setKernel]
    simp
  · intro info hinfo
    obtain ⟨j, hj⟩ := List.mem_iff_getElem?.1 hinfo
    have hjlt : j < cnt := by
      by_contra hc
      rw [List.getElem?_eq_none (by omega)] at hj
      cases hj
    obtain ⟨info', s3, h1, h2, h3, h4⟩ := pL2 (cnt - 1 - j) (by omega)
    have hidx : cnt - 1 - (cnt - 1 - j) = j := by omega
    rw [hidx, hj] at h1
    cases h1
    refine ⟨s3, ?_, h3, h4⟩
    rw [← h2]
    unfold Mesh.lookup_simplex
    rw [Mesh.kernel_set_mark_stack, Mesh.kernel_set_undo_stack]
  · intro k s hs
    obtain ⟨s', hs', p, q⟩ := pL1.2 d k s (by rw [lK]; exact hs)
    refine ⟨s', ?_, p, fun h3 => q (by omega)⟩
    rw [← hs']
    unfold Mesh.lookup_simplex
    rw [Mesh.kernel_set_mark_stack, Mesh.kernel_set_undo_stack]

end ISMesh

namespace ISMesh

theorem DimEq.dim_refl (d : Nat) (x : Mesh) : DimEq d x x := ⟨rfl, rfl, rfl⟩

theorem DimEq.dim_trans {d : Nat} {x y z : Mesh} (h1 : DimEq d x y) (h2 : DimEq d y z) :
    DimEq d x z :=
  ⟨h2.1.trans h1.1, h2.2.1.trans h1.2.1, h2.2.2.trans h1.2.2⟩

theorem DimEq.lookup {d : Nat} {x y : Mesh} (h : DimEq d x y) (k : Nat) :
    y.lookup_simplex d k = x.lookup_simplex d k := by
  unfold Mesh.lookup_simplex; rw [h.1]

/-- A block of `undo` leaves the other dimensions alone. -/
theorem undo_dim_frame {d' : Nat} {x y : Mesh} (h : undo_dim d' x = some y) {d : Nat}
    (hne : min d' 3 ≠ min d 3) : DimEq d x y := by
  unfold undo_dim at h
  cases hm : x.mark_stack d' with
  | nil =>
    simp only [hm, pure, Option.some.injEq] at h
    subst h; exact DimEq.dim_refl d x
  | cons cnt rest =>
    simp only [hm, bind, Option.bind_eq_some] at h
    obtain ⟨K, -, mL, hL, h2⟩ := h
    have hloop : DimEq d (x.setKernel d' K) mL :=
      foldlM_rel (DimEq d) (DimEq.dim_refl d) (fun _ _ _ => DimEq.dim_trans) _
        (fun b i b' hb => by
          split_ifs at hb
          simp only [Option.bind_eq_some] at hb
          obtain ⟨info, -, hmod⟩ := hb
          exact ⟨Mesh.kernel_modify_ne hmod hne, Mesh.undo_stack_modify hmod d,
            Mesh.mark_stack_modify hmod d⟩) _ _ _ hL
    split_ifs at h2
    simp only [pure, Option.some.injEq] at h2
    subst h2
    refine ⟨?_, ?_, ?_⟩
    · rw [Mesh.kernel_set_mark_stack, Mesh.kernel_set_undo_stack, hloop.1,
        Mesh.kernel_setKernel]
      simp only [hne, if_false]
    · rw [Mesh.undo_stack_set_mark_stack, Mesh.undo_stack_set_undo_stack]
      simp only [hne, if_false]
      rw [hloop.2.1, Mesh.undo_stack_setKernel]
    · rw [Mesh.mark_stack_set_mark_stack]
      simp only [hne, if_false]
      rw [Mesh.mark_stack_set_undo_stack, hloop.2.2, Mesh.mark_stack_setKernel]

theorem forall₂_mem_left {α β : Type} {R : α → β → Prop} {l1 : List α} {l2 : List β}
    (h : List.Forall₂ R l1 l2) : ∀ a ∈ l1, ∃ b ∈ l2, R a b := by
  induction h with
  | nil => intro a ha; cases ha
  | cons hab _ ih =>
    intro a ha
    rcases List.mem_cons.1 ha with rfl | ha
    · exact ⟨_, List.mem_cons_self _ _, hab⟩
    · obtain ⟨b, hb, hr⟩ := ih a ha
      exact ⟨b, List.mem_cons_of_mem _ hb, hr⟩

theorem forall₂_mem_right {α β : Type} {R : α → β → Prop} {l1 : List α} {l2 : List β}
    (h : List.Forall₂ R l1 l2) : ∀ b ∈ l2, ∃ a ∈ l1, R a b := by
  induction h with
  | nil => intro b hb; cases hb
  | cons hab _ ih =>
    intro b hb
    rcases List.mem_cons.1 hb with rfl | hb
    · exact ⟨_, List.mem_cons_self _ _, hab⟩
    · obtain ⟨a, ha, hr⟩ := ih b hb
      exact ⟨a, List.mem_cons_of_mem _ ha, hr⟩

/-- What `set_undo_mark` does to one dimension. -/
theorem set_undo_mark_spec {m m1 : Mesh} {M : SimplexSet} (h : set_undo_mark m M = some m1)
    (d : Nat) (hd : d ≤ 3) :
    (m1.kernel d).elements = (m.kernel d).elements ∧
    (M.keys d = [] → DimEq d m m1) ∧
    (M.keys d ≠ [] →
      m1.mark_stack d = (M.keys d).length :: m.mark_stack d ∧
      (m1.kernel d).marks = (m.kernel d).elements.map (fun e => e.valid) :: (m.kernel d).marks ∧
      ∃ infos, m1.undo_stack d = m.undo_stack d ++ infos ∧
        List.Forall₂ (fun k info => ∃ s, m.lookup_simplex d k = some s ∧
          info = undo_info d k s) (M.keys d) infos) := by
  unfold set_undo_mark at h
  simp only [bind, Option.bind_eq_some] at h
  obtain ⟨a0, h0, a1, h1, a2, h2, h3⟩ := h
  obtain ⟨f0, e0, n0, p0⟩ := set_undo_mark_dim_spec h0
  obtain ⟨f1, e1, n1, p1⟩ := set_undo_mark_dim_spec h1
  obtain ⟨f2, e2, n2, p2⟩ := set_undo_mark_dim_spec h2
  obtain ⟨f3, e3, n3, p3⟩ := set_undo_mark_dim_spec h3
  -- the block of the dimension, between a state `x` that agrees with `m` and a state `y`
  -- that agrees with `m1`
  have key : ∀ (x y : Mesh), DimEq d m x → DimEq d y m1 →
      (y.kernel d).elements = (x.kernel d).elements →
      (M.keys d = [] → y = x) →
      (M.keys d ≠ [] →
        y.mark_stack d = (M.keys d).length :: x.mark_stack d ∧
        (y.kernel d).marks = (x.kernel d).elements.map (fun e => e.valid) :: (x.kernel d).marks ∧
        ∃ infos, y.undo_stack d = x.undo_stack d ++ infos ∧
          List.Forall₂ (fun k info => ∃ s, x.lookup_simplex d k = some s ∧
            info = undo_info d k s) (M.keys d) infos) →
      (m1.kernel d).elements = (m.kernel d).elements ∧
      (M.keys d = [] → DimEq d m m1) ∧
      (M.keys d ≠ [] →
        m1.mark_stack d = (M.keys d).length :: m.mark_stack d ∧
        (m1.kernel d).marks = (m.kernel d).elements.map (fun e => e.valid) :: (m.kernel d).marks ∧
        ∃ infos, m1.undo_stack d = m.undo_stack d ++ infos ∧
          List.Forall₂ (fun k info => ∃ s, m.lookup_simplex d k = some s ∧
            info = undo_info d k s) (M.keys d) infos) := by
    intro x y hx hy he hn hp
    refine ⟨?_, ?_, ?_⟩
    · rw [hy.1, he, hx.1]
    · intro hnil
      have := hn hnil
      subst this
      exact hx.dim_trans hy
    · intro hne
      obtain ⟨q1, q2, infos, q3, q4⟩ := hp hne
      refine ⟨?_, ?_, infos, ?_, ?_⟩
      · rw [hy.2.2, q1, hx.2.2]
      · rw [hy.1, q2, hx.1]
      · rw [hy.2.1, q3, hx.2.1]
      · refine List.Forall₂.imp ?_ q4
        intro a b hab
        obtain ⟨s, hs, rfl⟩ := hab
        exact ⟨s, by rw [← hs, hx.lookup], rfl⟩
  have fr : ∀ {d' : Nat} {x y : Mesh}, (∀ d'', min d' 3 ≠ min d'' 3 → y.kernel d'' = x.kernel d'' ∧
      y.undo_stack d'' = x.undo_stack d'' ∧ y.mark_stack d'' = x.mark_stack d'') →
      min d' 3 ≠ min d 3 → DimEq d x y := fun hf hne => hf d hne
  have hcase : d = 0 ∨ d = 1 ∨ d = 2 ∨ d = 3 := by omega
  rcases hcase with rfl | rfl | rfl | rfl
  · exact key m a0 (DimEq.dim_refl _ _)
      (((fr f1 (by decide)).dim_trans (fr f2 (by decide))).dim_trans (fr f3 (by decide))) e0 n0 p0
  · exact key a0 a1 (fr f0 (by decide))
      ((fr f2 (by decide)).dim_trans (fr f3 (by decide))) e1 n1 p1
  · exact key a1 a2 ((fr f0 (by decide)).dim_trans (fr f1 (by decide)))
      (fr f3 (by decide)) e2 n2 p2
  · exact key a2 m1 (((fr f0 (by decide)).dim_trans (fr f1 (by decide))).dim_trans (fr f2 (by decide)))
      (DimEq.dim_refl _ _) e3 n3 p3

end ISMesh

namespace ISMesh

theorem Mesh.lookup_of_elements {m m' : Mesh} {d : Nat}
    (h : (m'.kernel d).elements = (m.kernel d).elements) (k : Nat) :
    m'.lookup_simplex d k = m.lookup_simplex d k := by
  unfold Mesh.lookup_simplex Kernel.find
  rw [h]

/-- The block of `undo` for a dimension in which simplices were marked restores them. -/
theorem undo_block {m m1 m2 x : Mesh} {M : SimplexSet} {d : Nat} (hd : d ≤ 3)
    (h1 : set_undo_mark m M = some m1) (hf : SameFrame m1 m2) (hx : DimEq d m2 x)
    (hne : M.keys d ≠ []) :
    ∃ y, undo_dim d x = some y ∧ ∀ k ∈ M.keys d, SameTopology m y d k := by
  obtain ⟨he, -, hp⟩ := set_undo_mark_spec h1 d hd
  obtain ⟨q1, q2, infos, q3, q4⟩ := hp hne
  obtain ⟨g1, g2, g3, g4⟩ := hf.1 d
  have l1 : ∀ k, m1.lookup_simplex d k = m.lookup_simplex d k := Mesh.lookup_of_elements he
  have hlen : infos.length = (M.keys d).length := q4.length_eq.symm
  obtain ⟨y, hy, -, -, -, -, -, r1, r2⟩ := @undo_dim_spec d x (M.keys d).length
    (m.mark_stack d) (m.undo_stack d) infos (m.kernel d).marks hd
    (by rw [hx.2.2, g2, q1]) (by rw [hx.2.1, g1, q3]) hlen
    (by rw [hx.1, g3, q2, g4, he])
    (by
      intro info hinfo
      obtain ⟨k, -, s, hs, rfl⟩ := forall₂_mem_right q4 info hinfo
      obtain ⟨s', hs', -⟩ := hf.2 d k s (by rw [l1]; exact hs)
      rw [hx.lookup]
      simp [undo_info, hs'])
    (by
      intro a ha b hb hab
      obtain ⟨ka, -, sa, hsa, rfl⟩ := forall₂_mem_right q4 a ha
      obtain ⟨kb, -, sb, hsb, rfl⟩ := forall₂_mem_right q4 b hb
      simp only [undo_info] at hab
      subst hab
      rw [hsa] at hsb
      cases hsb
      rfl)
  refine ⟨y, hy, ?_⟩
  intro k hk
  obtain ⟨info, hinfo, s, hs, rfl⟩ := forall₂_mem_left q4 k hk
  obtain ⟨s3, hs3, c1, c2⟩ := r1 _ hinfo
  simp only [undo_info] at hs3 c1 c2
  obtain ⟨s2, hs2, u1, u2⟩ := hf.2 d k s (by rw [l1]; exact hs)
  obtain ⟨s3', hs3', v1, v2⟩ := r2 k s2 (by rw [hx.lookup]; exact hs2)
  rw [hs3] at hs3'
  cases hs3'
  refine ⟨s, s3, hs, hs3, ?_, ?_⟩
  · by_cases h0 : 1 ≤ d
    · rw [c2 h0]; simp [h0]
    · have hd0 : d = 0 := by omega
      rw [v1 hd0, u1 hd0]
  · by_cases h2 : d ≤ 2
    · rw [c1 h2]; simp [h2]
    · have hd3 : d = 3 := by omega
      rw [v2 hd3, u2 (by omega)]

/-- A block of `undo` for a dimension without any mark returns the mesh unchanged. -/
theorem undo_dim_no_mark {d : Nat} {x : Mesh} (h : x.mark_stack d = []) :
    undo_dim d x = some x := by
  unfold undo_dim
  rw [h]
  rfl

/-- C3: undo round trip. For every mesh `m`, simplex set `M` and sequence `ops` of
mutations of boundary lists and co-boundary sets, after `set_undo_mark(M); ops; undo()`
every simplex of `M` has exactly the boundary list and the co-boundary set it had before
`set_undo_mark`; and `undo()` returns when `m` had no outstanding mark. -/
theorem undo_round_trip (m m1 m2 : Mesh) (M : SimplexSet) (ops : List Mutation)
    (h1 : set_undo_mark m M = some m1) (h2 : apply_mutations m1 ops = some m2) :
    (∀ m3, undo m2 = some m3 → ∀ d, d ≤ 3 → ∀ k ∈ M.keys d, SameTopology m m3 d k) ∧
    ((∀ d, d ≤ 3 → m.mark_stack d = []) → ∃ m3, undo m2 = some m3) := by
  have hf := apply_mutations_sameFrame h2
  constructor
  · intro m3 h3 d hd k hk
    have hne : M.keys d ≠ [] := by
      intro hc; rw [hc] at hk; cases hk
    unfold undo at h3
    simp only [bind, Option.bind_eq_some] at h3
    obtain ⟨b0, u0, b1, u1, b2, u2, u3⟩ := h3
    have target : ∀ (x y : Mesh), DimEq d m2 x → undo_dim d x = some y → DimEq d y m3 →
        SameTopology m m3 d k := by
      intro x y hx hxy hy
      obtain ⟨y', hy', ht⟩ := undo_block hd h1 hf hx hne
      rw [hxy] at hy'
      cases hy'
      obtain ⟨s, s3, a1, a2, a3, a4⟩ := ht k hk
      exact ⟨s, s3, a1, by rw [hy.lookup]; exact a2, a3, a4⟩
    have hcase : d = 0 ∨ d = 1 ∨ d = 2 ∨ d = 3 := by omega
    rcases hcase with rfl | rfl | rfl | rfl
    · exact target m2 b0 (DimEq.dim_refl _ _) u0
        (((undo_dim_frame u1 (by decide)).dim_trans (undo_dim_frame u2 (by decide))).dim_trans
          (undo_dim_frame u3 (by decide)))
    · exact target b0 b1 (undo_dim_frame u0 (by decide)) u1
        ((undo_dim_frame u2 (by decide)).dim_trans (undo_dim_frame u3 (by decide)))
    · exact target b1 b2 ((undo_dim_frame u0 (by decide)).dim_trans (undo_dim_frame u1 (by decide)))
        u2 (undo_dim_frame u3 (by decide))
    · exact target b2 m3
        (((undo_dim_frame u0 (by decide)).dim_trans (undo_dim_frame u1 (by decide))).dim_trans
          (undo_dim_frame u2 (by decide))) u3 (DimEq.dim_refl _ _)
  · intro hno
    have block : ∀ (d : Nat) (x : Mesh), d ≤ 3 → DimEq d m2 x → ∃ y, undo_dim d x = some y := by
      intro d x hd hx
      by_cases hne : M.keys d = []
      · refine ⟨x, undo_dim_no_mark ?_⟩
        obtain ⟨-, hn, -⟩ := set_undo_mark_spec h1 d hd
        rw [hx.2.2, (hf.1 d).2.1, (hn hne).2.2, hno d hd]
      · obtain ⟨y, hy, -⟩ := undo_block hd h1 hf hx hne
        exact ⟨y, hy⟩
    obtain ⟨b0, u0⟩ := block 0 m2 (by omega) (DimEq.dim_refl _ _)
    obtain ⟨b1, u1⟩ := block 1 b0 (by omega) (undo_dim_frame u0 (by decide))
    obtain ⟨b2, u2⟩ := block 2 b1 (by omega)
      ((undo_dim_frame u0 (by decide)).dim_trans (undo_dim_frame u1 (by decide)))
    obtain ⟨b3, u3⟩ := block 3 b2 (by omega)
      (((undo_dim_frame u0 (by decide)).dim_trans (undo_dim_frame u1 (by decide))).dim_trans
        (undo_dim_frame u2 (by decide)))
    refine ⟨b3, ?_⟩
    unfold undo
    simp only [bind, u0, u1, u2, u3, Option.some_bind]

end ISMesh

namespace ISMesh

/-- Witness of C3 on the mesh with one tetrahedron. -/
theorem undo_round_trip_witness :
    set_undo_mark tetrahedron_mesh undo_example_set = some undo_example_marked ∧
    apply_mutations undo_example_marked undo_example_ops = some undo_example_mutated ∧
    (∀ m3, undo undo_example_mutated = some m3 → ∀ d, d ≤ 3 →
      ∀ k ∈ undo_example_set.keys d, SameTopology tetrahedron_mesh m3 d k) ∧
    (∀ d, d ≤ 3 → tetrahedron_mesh.mark_stack d = []) ∧
    (∃ m3, undo undo_example_mutated = some m3) :=
  have hno : ∀ d, d ≤ 3 → tetrahedron_mesh.mark_stack d = [] := by
    intro d hd
    have hcase : d = 0 ∨ d = 1 ∨ d = 2 ∨ d = 3 := by omega
    rcases hcase with rfl | rfl | rfl | rfl <;> decide!
  have h := undo_round_trip tetrahedron_mesh undo_example_marked undo_example_mutated
    undo_example_set undo_example_ops (by decide!) (by decide!)
  ⟨by decide!, by decide!, h.1, hno, h.2 hno⟩

end ISMesh
namespace ISMesh

theorem filter_length_set_same {α : Type} (p : α → Bool) (b : α) :
    ∀ (l : List α) (k : Nat) (a : α), l[k]? = some a → p a = p b →
      ((l.set k b).filter p).length = (l.filter p).length := by
  intro l
  induction l with
  | nil => intro k a h; simp at h
  | cons x l ih =>
    intro k a h hp
    cases k with
    | zero =>
      simp only [List.getElem?_cons_zero, Option.some.injEq] at h
      subst h
      simp only [List.set_cons_zero, List.filter_cons, hp]
      split_ifs <;> simp
    | succ k =>
      simp only [List.getElem?_cons_succ] at h
      simp only [List.set_cons_succ, List.filter_cons]
      split_ifs <;> simp [ih k a h hp]

theorem filter_length_set_drop {α : Type} (p : α → Bool) (b : α) :
    ∀ (l : List α) (k : Nat) (a : α), l[k]? = some a → p a = true → p b = false →
      ((l.set k b).filter p).length + 1 = (l.filter p).length := by
  intro l
  induction l with
  | nil => intro k a h; simp at h
  | cons x l ih =>
    intro k a h hp hb
    cases k with
    | zero =>
      simp only [List.getElem?_cons_zero, Option.some.injEq] at h
      subst h
      simp [List.filter_cons, hp, hb]
    | succ k =>
      simp only [List.getElem?_cons_succ] at h
      simp only [List.set_cons_succ, List.filter_cons]
      have := ih k a h hp hb
      split_ifs
      · simp only [List.length_cons]; omega
      · exact this

theorem Kernel.size_modify {K K' : Kernel} {k : Nat} {f : Simplex → Simplex}
    (h : K.modify k f = some K') : K'.size = K.size := by
  unfold Kernel.modify at h
  cases hs : K.find k with
  | none => simp [hs] at h
  | some s =>
    simp only [hs, Option.some.injEq] at h
    subst h
    exact filter_length_set_same _ _ _ _ _ (Kernel.find_eq_some.1 hs) rfl

theorem Kernel.size_erase {K K' : Kernel} {k : Nat} (h : K.erase k = some K') :
    K'.size + 1 = K.size := by
  unfold Kernel.erase at h
  cases hs : K.find k with
  | none => simp [hs] at h
  | some s =>
    simp only [hs, Option.some.injEq] at h
    subst h
    exact filter_length_set_drop _ _ _ _ _ (Kernel.find_eq_some.1 hs) rfl rfl

theorem Kernel.find_erase {K K' : Kernel} {k : Nat} (h : K.erase k = some K') (k' : Nat) :
    K'.find k' = if k' = k then none else K.find k' := by
  unfold Kernel.erase at h
  cases hs : K.find k with
  | none => simp [hs] at h
  | some s =>
    simp only [hs, Option.some.injEq] at h
    subst h
    have hlt : k < K.elements.length := by
      have := Kernel.find_eq_some.1 hs
      by_contra hc
      rw [List.getElem?_eq_none (by omega)] at this
      exact absurd this (by simp)
    by_cases hk : k' = k
    · subst hk
      simp [Kernel.find, List.getElem?_set, hlt]
    · have hk2 : k ≠ k' := fun h => hk h.symm
      simp [Kernel.find, List.getElem?_set, hk, hk2]

theorem Mesh.kernel_min (m : Mesh) (d : Nat) : m.kernel d = m.kernel (min d 3) := by
  rcases d with _ | _ | _ | _ | d <;> simp [Mesh.kernel]

theorem Mesh.kernel_of_min (m : Mesh) {d d' : Nat} (h : min d 3 = min d' 3) :
    m.kernel d' = m.kernel d := by
  rw [Mesh.kernel_min m d, Mesh.kernel_min m d', h]

theorem SimplexSet.keys_min (S : SimplexSet) (d : Nat) : S.keys d = S.keys (min d 3) := by
  rcases d with _ | _ | _ | _ | d <;> simp [SimplexSet.keys]

theorem SimplexSet.keys_of_min (S : SimplexSet) {d d' : Nat} (h : min d 3 = min d' 3) :
    S.keys d' = S.keys d := by
  rw [SimplexSet.keys_min S d, SimplexSet.keys_min S d', h]

theorem SimplexSet.keys_cons (E : SimplexSet) (d k d' : Nat) :
    (E.cons d k).keys d' = if min d 3 = min d' 3 then k :: E.keys d' else E.keys d' := by
  rcases d with _ | _ | _ | d <;> rcases d' with _ | _ | _ | d' <;>
    simp [SimplexSet.cons, SimplexSet.keys, SimplexSet.setKeys]

theorem lookup_unsafe_erase {m m' : Mesh} {d k : Nat} (h : unsafe_erase m d k = some m')
    (d' k' : Nat) :
    m'.lookup_simplex d' k' =
      if min d 3 = min d' 3 ∧ k' = k then none else m.lookup_simplex d' k' := by
  unfold unsafe_erase at h
  cases hK : (m.kernel d).erase k with
  | none => simp [hK] at h
  | some K =>
    simp only [hK, Option.some.injEq] at h
    subst h
    unfold Mesh.lookup_simplex
    rw [Mesh.kernel_setKernel]
    by_cases hd : min d 3 = min d' 3
    · simp only [hd, if_true, true_and, Mesh.kernel_of_min m hd]
      exact Kernel.find_erase hK k'
    · simp [hd]

theorem size_unsafe_erase {m m' : Mesh} {d k : Nat} (h : unsafe_erase m d k = some m')
    (d' : Nat) :
    (m'.kernel d').size + (if min d 3 = min d' 3 then 1 else 0) = (m.kernel d').size := by
  unfold unsafe_erase at h
  cases hK : (m.kernel d).erase k with
  | none => simp [hK] at h
  | some K =>
    simp only [hK, Option.some.injEq] at h
    subst h
    rw [Mesh.kernel_setKernel]
    by_cases hd : min d 3 = min d' 3
    · simp only [hd, if_true, Mesh.kernel_of_min m hd]
      exact Kernel.size_erase hK
    · simp [hd]

theorem size_mesh_modify {m m' : Mesh} {d k : Nat} {f : Simplex → Simplex}
    (h : m.modify d k f = some m') (d' : Nat) : (m'.kernel d').size = (m.kernel d').size := by
  unfold Mesh.modify at h
  cases hK : (m.kernel d).modify k f with
  | none => simp [hK] at h
  | some K =>
    simp only [hK, Option.some.injEq] at h
    subst h
    rw [Mesh.kernel_setKernel]
    by_cases hd : min d 3 = min d' 3
    · simp only [hd, if_true, Mesh.kernel_of_min m hd]
      exact Kernel.size_modify hK
    · simp [hd]

theorem unsafe_erase_returns {m : Mesh} {d k : Nat} (h : (m.lookup_simplex d k).isSome) :
    ∃ m', unsafe_erase m d k = some m' := by
  unfold Mesh.lookup_simplex at h
  unfold unsafe_erase Kernel.erase
  cases hs : (m.kernel d).find k with
  | none => simp [hs] at h
  | some s => simp

theorem unsafe_erase_live {m m' : Mesh} {d k : Nat} (h : unsafe_erase m d k = some m') :
    (m.lookup_simplex d k).isSome := by
  unfold unsafe_erase Kernel.erase at h
  unfold Mesh.lookup_simplex
  cases hs : (m.kernel d).find k with
  | none => simp [hs] at h
  | some s => simp

theorem modify_live {m m' : Mesh} {d k : Nat} {f : Simplex → Simplex}
    (h : m.modify d k f = some m') : (m.lookup_simplex d k).isSome := by
  unfold Mesh.modify Kernel.modify at h
  unfold Mesh.lookup_simplex
  cases hs : (m.kernel d).find k with
  | none => simp [hs] at h
  | some s => simp

theorem Mesh.lookup_min (m : Mesh) (d k : Nat) :
    m.lookup_simplex d k = m.lookup_simplex (min d 3) k := by
  unfold Mesh.lookup_simplex
  rw [Mesh.kernel_min]

theorem Mesh.lookup_of_min (m : Mesh) {d d' : Nat} (h : min d 3 = min d' 3) (k : Nat) :
    m.lookup_simplex d' k = m.lookup_simplex d k := by
  rw [Mesh.lookup_min m d, Mesh.lookup_min m d', h]

/-! ## The relation `Tracks` -/

theorem Tracks.start (P : Nat → Nat → Prop) (m : Mesh) : Tracks P SimplexSet.empty m m := by
  refine ⟨fun d k => ?_, fun d => ?_, fun d k s s' _ h1 h2 => ?_⟩
  · simp [SimplexSet.keys_empty]
  · simp [SimplexSet.keys_empty]
  · rw [h1] at h2
    cases h2
    rfl

theorem Tracks.weaken {P Q : Nat → Nat → Prop} {E : SimplexSet} {m m' : Mesh}
    (h : Tracks P E m m') (hQ : ∀ d k, Q d k → P d k) : Tracks Q E m m' :=
  ⟨h.1, h.2.1, fun d k s s' hq => h.2.2 d k s s' (hQ d k hq)⟩

theorem Tracks.tracks_modify {P : Nat → Nat → Prop} {E : SimplexSet} {m m1 m2 : Mesh} {d k : Nat}
    {f : Simplex → Simplex} (h : Tracks P E m m1) (hm : m1.modify d k f = some m2)
    (hf : P (min d 3) k → ∀ s, m1.lookup_simplex d k = some s → (f s).m_boundary = s.m_boundary)
    (hP : ∀ d k, P d k → P (min d 3) k) :
    Tracks P E m m2 := by
  refine ⟨fun d' k' => ?_, fun d' => ?_, fun d' k' s s' hp h1 h2 => ?_⟩
  · rw [Mesh.isSome_modify hm]
    exact h.1 d' k'
  · rw [size_mesh_modify hm]
    exact h.2.1 d'
  · rw [Mesh.lookup_modify hm d' k'] at h2
    by_cases hc : min d 3 = min d' 3 ∧ k' = k
    · obtain ⟨hd, hk⟩ := hc
      subst hk
      simp only [hd, and_self, if_true] at h2
      cases h3 : m1.lookup_simplex d k' with
      | none => simp [h3] at h2
      | some s1 =>
        simp only [h3, Option.map_some', Option.some.injEq] at h2
        subst h2
        have hp' : P (min d 3) k' := by rw [hd]; exact hP d' k' hp
        rw [hf hp' s1 h3]
        refine h.2.2 d' k' s s1 hp h1 ?_
        rw [Mesh.lookup_of_min m1 hd]
        exact h3
    · simp only [hc, if_false] at h2
      exact h.2.2 d' k' s s' hp h1 h2

theorem Tracks.tracks_erase {P : Nat → Nat → Prop} {E : SimplexSet} {m m1 m2 : Mesh} {d k : Nat}
    (h : Tracks P E m m1) (hm : unsafe_erase m1 d k = some m2) :
    Tracks P (E.cons d k) m m2 := by
  refine ⟨fun d' k' => ?_, fun d' => ?_, fun d' k' s s' hp h1 h2 => ?_⟩
  · rw [lookup_unsafe_erase hm d' k', SimplexSet.keys_cons]
    by_cases hd : min d 3 = min d' 3
    · by_cases hk : k' = k
      · simp [hd, hk]
      · simp only [hd, hk, and_false, if_false, if_true, List.mem_cons, false_or]
        exact h.1 d' k'
    · simp only [hd, false_and, if_false]
      exact h.1 d' k'
  · have := size_unsafe_erase hm d'
    have h0 := h.2.1 d'
    rw [SimplexSet.keys_cons]
    by_cases hd : min d 3 = min d' 3
    · simp only [hd, if_true, List.length_cons] at this ⊢
      omega
    · simp only [hd, if_false] at this ⊢
      omega
  · rw [lookup_unsafe_erase hm d' k'] at h2
    by_cases hc : min d 3 = min d' 3 ∧ k' = k
    · simp [hc] at h2
    · simp only [hc, if_false] at h2
      exact h.2.2 d' k' s s' hp h1 h2

/-! ## Compact form is kept by the primitive steps -/

theorem CompactForm.compact_modify {m m' : Mesh} {d k : Nat} {f : Simplex → Simplex}
    (hc : CompactForm m) (hm : m.modify d k f = some m')
    (hf : d < 2 → ∀ s, m.lookup_simplex d k = some s → (f s).m_co_boundary.length = 1) :
    CompactForm m' := by
  intro d' k' s' hd' hs'
  rw [Mesh.lookup_modify hm d' k'] at hs'
  by_cases hcase : min d 3 = min d' 3 ∧ k' = k
  · obtain ⟨hd, hk⟩ := hcase
    subst hk
    simp only [hd, and_self, if_true] at hs'
    have hdd : d = d' := by omega
    subst hdd
    cases h3 : m.lookup_simplex d k' with
    | none => simp [h3] at hs'
    | some s1 =>
      simp only [h3, Option.map_some', Option.some.injEq] at hs'
      subst hs'
      exact hf hd' s1 h3
  · simp only [hcase, if_false] at hs'
    exact hc d' k' s' hd' hs'

theorem CompactForm.compact_erase {m m' : Mesh} {d k : Nat}
    (hc : CompactForm m) (hm : unsafe_erase m d k = some m') : CompactForm m' := by
  intro d' k' s' hd' hs'
  rw [lookup_unsafe_erase hm d' k'] at hs'
  by_cases hcase : min d 3 = min d' 3 ∧ k' = k
  · simp [hcase] at hs'
  · simp only [hcase, if_false] at hs'
    exact hc d' k' s' hd' hs'

/-! ## Loops with an invariant on the processed prefix -/

theorem foldlM_prefix_spec {α β : Type} (I : List α → β → Prop) (f : β → α → Option β)
    (L : List α)
    (hstep : ∀ pre x suf b b', L = pre ++ x :: suf → I pre b → f b x = some b' →
      I (pre ++ [x]) b') :
    ∀ b b', I [] b → L.foldlM f b = some b' → I L b' := by
  have key : ∀ (suf pre : List α) (b b' : β), L = pre ++ suf → I pre b →
      suf.foldlM f b = some b' → I L b' := by
    intro suf
    induction suf with
    | nil =>
      intro pre b b' hL hI h
      simp only [List.foldlM_nil, pure, Option.some.injEq] at h
      subst h
      rw [hL, List.append_nil]
      exact hI
    | cons x suf ih =>
      intro pre b b' hL hI h
      simp only [List.foldlM_cons, bind, Option.bind_eq_some] at h
      obtain ⟨b1, h1, h2⟩ := h
      exact ih (pre ++ [x]) b1 b' (by rw [hL]; simp) (hstep pre x suf b b1 hL hI h1) h2
  intro b b' h0 h
  exact key L [] b b' rfl h0 h

theorem foldlM_prefix_returns {α β : Type} (I : List α → β → Prop) (f : β → α → Option β)
    (L : List α)
    (hstep : ∀ pre x suf b, L = pre ++ x :: suf → I pre b →
      ∃ b', f b x = some b' ∧ I (pre ++ [x]) b') :
    ∀ b, I [] b → ∃ b', L.foldlM f b = some b' ∧ I L b' := by
  have key : ∀ (suf pre : List α) (b : β), L = pre ++ suf → I pre b →
      ∃ b', suf.foldlM f b = some b' ∧ I L b' := by
    intro suf
    induction suf with
    | nil =>
      intro pre b hL hI
      refine ⟨b, rfl, ?_⟩
      rw [hL, List.append_nil]
      exact hI
    | cons x suf ih =>
      intro pre b hL hI
      obtain ⟨b1, h1, hI1⟩ := hstep pre x suf b hL hI
      obtain ⟨b', h2, hI2⟩ := ih (pre ++ [x]) b1 (by rw [hL]; simp) hI1
      refine ⟨b', ?_, hI2⟩
      simp only [List.foldlM_cons, bind, Option.bind_eq_some]
      exact ⟨b1, h1, h2⟩
  intro b h0
  exact key L [] b rfl h0

end ISMesh
namespace ISMesh

theorem SimplexSet.keys_append (E E' : SimplexSet) (d : Nat) :
    (E.append E').keys d = E'.keys d ++ E.keys d := by
  rcases d with _ | _ | _ | d <;> simp [SimplexSet.append, SimplexSet.keys]

theorem Tracks.tracks_trans {P : Nat → Nat → Prop} {E E' : SimplexSet} {m m1 m2 : Mesh}
    (h1 : Tracks P E m m1) (h2 : Tracks P E' m1 m2) : Tracks P (E.append E') m m2 := by
  refine ⟨fun d k => ?_, fun d => ?_, fun d k s s' hp ha hb => ?_⟩
  · rw [h2.1 d k, h1.1 d k, SimplexSet.keys_append]
    simp only [List.mem_append, not_or]
    tauto
  · have a := h1.2.1 d
    have b := h2.2.1 d
    rw [SimplexSet.keys_append, List.length_append]
    omega
  · have hl : (m1.lookup_simplex d k).isSome := by
      have := (h2.1 d k).1 (by rw [hb]; rfl)
      exact this.1
    obtain ⟨s1, hs1⟩ := Option.isSome_iff_exists.1 hl
    rw [h2.2.2 d k s1 s' hp hs1 hb, h1.2.2 d k s s1 hp ha hs1]

theorem Tracks.same {P : Nat → Nat → Prop} {E : SimplexSet} {m m1 m2 : Mesh}
    (h1 : Tracks P E m m1) (h2 : Tracks P SimplexSet.empty m1 m2) : Tracks P E m m2 := by
  have h := h1.tracks_trans h2
  refine ⟨fun d k => ?_, fun d => ?_, h.2.2⟩
  · have := h.1 d k
    rw [SimplexSet.keys_append, SimplexSet.keys_empty, List.nil_append] at this
    exact this
  · have := h.2.1 d
    rw [SimplexSet.keys_append, SimplexSet.keys_empty, List.nil_append] at this
    exact this

theorem Tracks.live {P : Nat → Nat → Prop} {m m' : Mesh} (h : Tracks P SimplexSet.empty m m')
    (d k : Nat) : (m'.lookup_simplex d k).isSome = (m.lookup_simplex d k).isSome := by
  have := h.1 d k
  rw [SimplexSet.keys_empty] at this
  simp only [List.not_mem_nil, not_false_eq_true, and_true] at this
  exact Bool.eq_iff_iff.2 this

/-- A rewrite of a co-boundary set keeps everything that `Tracks` records. -/
theorem Tracks.co_step (P : Nat → Nat → Prop) {m m' : Mesh} {d k : Nat} {l : Simplex → List Nat}
    (hm : m.modify d k (fun x => x.set_co_boundary_set (l x)) = some m') :
    Tracks P SimplexSet.empty m m' := by
  refine ⟨fun d' k' => ?_, fun d' => ?_, fun d' k' s s' _ h1 h2 => ?_⟩
  · rw [Mesh.isSome_modify hm, SimplexSet.keys_empty]
    simp
  · rw [size_mesh_modify hm, SimplexSet.keys_empty]
    simp
  · rw [Mesh.lookup_modify hm d' k'] at h2
    by_cases hc : min d 3 = min d' 3 ∧ k' = k
    · obtain ⟨hd, hk⟩ := hc
      subst hk
      simp only [hd, and_self, if_true] at h2
      rw [← Mesh.lookup_of_min m hd k', h1] at h2
      simp only [Option.map_some', Option.some.injEq] at h2
      subst h2
      rfl
    · simp only [hc, if_false] at h2
      rw [h1] at h2
      cases h2
      rfl

theorem Tracks.refl_empty (P : Nat → Nat → Prop) (m : Mesh) :
    Tracks P SimplexSet.empty m m := Tracks.start P m

/-! ## `repair_co_boundaries` -/

theorem length_erase_insert {k c : Nat} (h : k ≠ c) :
    (set_erase c (set_insert k [c])).length = 1 := by
  unfold set_erase
  by_cases h1 : k < c
  · simp [set_insert, h1, List.filter_cons, h]
  · simp [set_insert, h1, List.filter_cons, h]

theorem repair_one_spec {interior : SimplexSet} {d k b : Nat} {p p' : Mesh × List Nat}
    (h : repair_one interior d k p b = some p') :
    Tracks (fun _ _ => True) SimplexSet.empty p.1 p'.1 ∧
    (k ∉ interior.keys (d + 1) → CompactForm p.1 → CompactForm p'.1) := by
  unfold repair_one at h
  split_ifs at h with hc
  · simp only [pure, Option.some.injEq] at h
    subst h
    exact ⟨Tracks.start _ _, fun _ hcf => hcf⟩
  · simp only [bind, Option.bind_eq_some, pure, Option.some.injEq] at h
    obtain ⟨simplex, hs, m1, hm1, rfl⟩ := h
    cases hf : simplex.m_co_boundary.find? (fun c => interior.contains (d + 1) c) with
    | none =>
      simp only [hf, Option.some.injEq] at hm1
      subst hm1
      exact ⟨Tracks.start _ _, fun _ hcf => hcf⟩
    | some c =>
      simp only [hf] at hm1
      refine ⟨Tracks.co_step _ hm1, fun hk hcf => ?_⟩
      refine hcf.compact_modify hm1 ?_
      intro hd s hs'
      rw [hs] at hs'
      cases hs'
      have hlen := hcf d b simplex hd hs
      have hcm := List.mem_of_find?_eq_some hf
      have hci := List.find?_some hf
      simp only [SimplexSet.contains, List.contains_iff_exists_mem_beq, beq_iff_eq,
        exists_eq_right'] at hci
      match hcb : simplex.m_co_boundary, hlen with
      | [c0], _ =>
        rw [hcb] at hcm
        simp only [List.mem_singleton] at hcm
        subst hcm
        simp only [Simplex.set_co_boundary_set]
        apply length_erase_insert
        rintro rfl
        exact hk hci

theorem repair_one_returns (interior : SimplexSet) (k : Nat) {d b : Nat} {p : Mesh × List Nat}
    (h : (p.1.lookup_simplex d b).isSome) : ∃ p', repair_one interior d k p b = some p' := by
  unfold repair_one
  split_ifs with hc
  · exact ⟨p, rfl⟩
  · obtain ⟨s, hs⟩ := Option.isSome_iff_exists.1 h
    simp only [bind, Option.bind_eq_some, pure, Option.some.injEq, hs, exists_eq_left']
    cases hf : s.m_co_boundary.find? (fun c => interior.contains (d + 1) c) with
    | none => simp
    | some c =>
      obtain ⟨m', hm'⟩ := Mesh.modify_isSome
        (fun x => x.set_co_boundary_set (set_erase c (set_insert k x.m_co_boundary))) h
      simp [hm']

end ISMesh
namespace ISMesh

theorem Tracks.tracks_lookup {P : Nat → Nat → Prop} {m m' : Mesh}
    (h : Tracks P SimplexSet.empty m m') {d k : Nat} {s : Simplex} (hp : P d k)
    (hs : m.lookup_simplex d k = some s) :
    ∃ s', m'.lookup_simplex d k = some s' ∧ s'.m_boundary = s.m_boundary := by
  have hl : (m'.lookup_simplex d k).isSome := by rw [h.live, hs]; rfl
  obtain ⟨s', hs'⟩ := Option.isSome_iff_exists.1 hl
  exact ⟨s', hs', h.2.2 d k s s' hp hs hs'⟩

theorem repair_inner_spec {interior : SimplexSet} {d k : Nat} (l : List Nat) :
    ∀ (p p' : Mesh × List Nat), l.foldlM (repair_one interior d k) p = some p' →
    Tracks (fun _ _ => True) SimplexSet.empty p.1 p'.1 ∧
    (k ∉ interior.keys (d + 1) → CompactForm p.1 → CompactForm p'.1) := by
  intro p p' h
  refine foldlM_rel (fun (a b : Mesh × List Nat) =>
    Tracks (fun _ _ => True) SimplexSet.empty a.1 b.1 ∧
    (k ∉ interior.keys (d + 1) → CompactForm a.1 → CompactForm b.1)) ?_ ?_
    (repair_one interior d k) ?_ l p p' h
  · intro b
    exact ⟨Tracks.start _ _, fun _ hc => hc⟩
  · intro a b c h1 h2
    exact ⟨h1.1.same h2.1, fun hk hc => h2.2 hk (h1.2 hk hc)⟩
  · intro b x b' hb
    exact repair_one_spec hb

theorem repair_pass_spec {interior boundary : SimplexSet} {d : Nat} {m m' : Mesh}
    (h : repair_pass interior boundary d m = some m') :
    Tracks (fun _ _ => True) SimplexSet.empty m m' ∧
    ((∀ k ∈ boundary.keys (d + 1), k ∉ interior.keys (d + 1)) →
      CompactForm m → CompactForm m') := by
  unfold repair_pass at h
  simp only [bind, Option.bind_eq_some, pure, Option.some.injEq] at h
  obtain ⟨r, hr, rfl⟩ := h
  have key := foldlM_prefix_spec
    (fun (_ : List Nat) (b : Mesh × List Nat) =>
      Tracks (fun _ _ => True) SimplexSet.empty m b.1 ∧
      ((∀ k ∈ boundary.keys (d + 1), k ∉ interior.keys (d + 1)) →
        CompactForm m → CompactForm b.1)) _ (boundary.keys (d + 1)) ?_ (m, []) r
    ⟨Tracks.start _ _, fun _ hc => hc⟩ hr
  · exact key
  · intro pre x suf b b' hL hI hstep
    simp only [Option.bind_eq_some] at hstep
    obtain ⟨simplex, -, hfold⟩ := hstep
    have hx : x ∈ boundary.keys (d + 1) := by rw [hL]; simp
    obtain ⟨t1, t2⟩ := repair_inner_spec _ _ _ hfold
    exact ⟨hI.1.same t1, fun hk hc => t2 (hk x hx) (hI.2 hk hc)⟩

theorem repair_pass_returns (interior boundary : SimplexSet) (d : Nat) (m : Mesh)
    (hl : ∀ k ∈ boundary.keys (d + 1), ∃ s, m.lookup_simplex (d + 1) k = some s ∧
      ∀ b ∈ s.m_boundary, (m.lookup_simplex d b).isSome) :
    ∃ m', repair_pass interior boundary d m = some m' := by
  unfold repair_pass
  have key := foldlM_prefix_returns
    (fun (_ : List Nat) (b : Mesh × List Nat) =>
      Tracks (fun _ _ => True) SimplexSet.empty m b.1)
    (fun (p : Mesh × List Nat) k => do
      let simplex ← p.1.lookup_simplex (d + 1) k
      simplex.m_boundary.foldlM (repair_one interior d k) p)
    (boundary.keys (d + 1)) ?_ (m, []) (Tracks.start _ _)
  · obtain ⟨r, hr, -⟩ := key
    exact ⟨r.1, by simp only [bind, Option.bind_eq_some, pure, Option.some.injEq]; exact ⟨r, hr, rfl⟩⟩
  · intro pre x suf b hL hI
    have hx : x ∈ boundary.keys (d + 1) := by rw [hL]; simp
    obtain ⟨s, hs, hb⟩ := hl x hx
    obtain ⟨s', hs', hbs⟩ := hI.tracks_lookup trivial hs
    have key2 := foldlM_prefix_returns
      (fun (_ : List Nat) (q : Mesh × List Nat) =>
        Tracks (fun _ _ => True) SimplexSet.empty m q.1)
      (repair_one interior d x) s'.m_boundary ?_ b hI
    · obtain ⟨p', hp', hI'⟩ := key2
      refine ⟨p', ?_, hI'⟩
      simp only [bind, Option.bind_eq_some]
      exact ⟨s', hs', hp'⟩
    · intro pre2 y suf2 q hL2 hq
      have hy : y ∈ s.m_boundary := by rw [← hbs, hL2]; simp
      have hlive : (q.1.lookup_simplex d y).isSome := by rw [hq.live]; exact hb y hy
      obtain ⟨q', hq'⟩ := repair_one_returns interior x hlive
      exact ⟨q', hq', hq.same (repair_one_spec hq').1⟩

theorem repair_co_boundaries_spec {interior boundary : SimplexSet} {m m' : Mesh}
    (h : repair_co_boundaries m interior boundary = some m') :
    Tracks (fun _ _ => True) SimplexSet.empty m m' ∧
    ((∀ d, 1 ≤ d → d ≤ 2 → ∀ k ∈ boundary.keys d, k ∉ interior.keys d) →
      CompactForm m → CompactForm m') := by
  unfold repair_co_boundaries at h
  simp only [bind, Option.bind_eq_some] at h
  obtain ⟨m1, h1, h2⟩ := h
  obtain ⟨a1, a2⟩ := repair_pass_spec h1
  obtain ⟨b1, b2⟩ := repair_pass_spec h2
  exact ⟨a1.same b1, fun hk hc =>
    b2 (hk 1 (by omega) (by omega)) (a2 (hk 2 (by omega) (by omega)) hc)⟩

theorem repair_co_boundaries_returns {interior boundary : SimplexSet} {m : Mesh}
    (hl : ∀ d, d ≤ 1 → ∀ k ∈ boundary.keys (d + 1), ∃ s, m.lookup_simplex (d + 1) k = some s ∧
      ∀ b ∈ s.m_boundary, (m.lookup_simplex d b).isSome) :
    ∃ m', repair_co_boundaries m interior boundary = some m' := by
  unfold repair_co_boundaries
  obtain ⟨m1, h1⟩ := repair_pass_returns interior boundary 1 m (hl 1 (by omega))
  have t := (repair_pass_spec h1).1
  obtain ⟨m2, h2⟩ := repair_pass_returns interior boundary 0 m1 (by
      intro k hk
      obtain ⟨s, hs, hb⟩ := hl 0 (by omega) k hk
      obtain ⟨s', hs', hbs⟩ := t.tracks_lookup trivial hs
      refine ⟨s', hs', fun b hb' => ?_⟩
      rw [t.live]
      exact hb b (by rw [← hbs]; exact hb'))
  exact ⟨m2, by simp only [bind, Option.bind_eq_some]; exact ⟨m1, h1, h2⟩⟩

end ISMesh
namespace ISMesh

theorem collapse_map_append (x : Mesh) (lk1 lk2 : SimplexSet) (d : Nat) (keep : Nat → Bool)
    (pre : List Nat) (k : Nat) :
    collapse_map x lk1 lk2 d keep (pre ++ [k]) =
      map_set (collapse_pair lk1 lk2 (d - 1) keep
        (((x.lookup_simplex d k).map (fun s => s.m_boundary)).getD [])).2
        (collapse_pair lk1 lk2 (d - 1) keep
        (((x.lookup_simplex d k).map (fun s => s.m_boundary)).getD [])).1
        (collapse_map x lk1 lk2 d keep pre) := by
  unfold collapse_map
  rw [List.foldl_append]
  rfl

theorem unsafe_remove_tetrahedron_spec {x x' : Mesh} {key : Nat}
    (h : unsafe_remove_tetrahedron x key = some x') :
    Tracks (fun _ _ => True) (SimplexSet.empty.cons 3 key) x x' ∧
    (CompactForm x → CompactForm x') := by
  unfold unsafe_remove_tetrahedron at h
  simp only [bind, Option.bind_eq_some] at h
  obtain ⟨tet, -, m1, h1, h2⟩ := h
  have key1 := foldlM_rel (fun (a b : Mesh) =>
    Tracks (fun _ _ => True) SimplexSet.empty a b ∧ (CompactForm a → CompactForm b)) ?_ ?_
    (fun m f => m.modify 2 f (fun x => x.remove_co_face key)) ?_ tet.m_boundary x m1 h1
  · exact ⟨by
      have := key1.1.tracks_trans ((Tracks.start (fun _ _ => True) m1).tracks_erase h2)
      have he : (SimplexSet.empty.append (SimplexSet.empty.cons 3 key)) =
          SimplexSet.empty.cons 3 key := by
        simp [SimplexSet.append, SimplexSet.cons, SimplexSet.setKeys, SimplexSet.keys,
          SimplexSet.empty]
      exact he ▸ this, fun hc => (key1.2 hc).compact_erase h2⟩
  · intro b
    exact ⟨Tracks.start _ _, fun hc => hc⟩
  · intro a b c h1 h2
    exact ⟨h1.1.same h2.1, fun hc => h2.2 (h1.2 hc)⟩
  · intro b f b' hb
    refine ⟨?_, fun hc => hc.compact_modify hb (fun hd => absurd hd (by decide))⟩
    have : Tracks (fun _ _ => True) SimplexSet.empty b b' :=
      Tracks.co_step (l := fun x => set_erase key x.m_co_boundary) _ hb
    exact this

theorem unsafe_remove_tetrahedron_returns {x : Mesh} {key : Nat} {tet : Simplex}
    (ht : x.lookup_simplex 3 key = some tet)
    (hf : ∀ f ∈ tet.m_boundary, (x.lookup_simplex 2 f).isSome) :
    ∃ x', unsafe_remove_tetrahedron x key = some x' := by
  unfold unsafe_remove_tetrahedron
  have key1 := foldlM_prefix_returns
    (fun (_ : List Nat) (b : Mesh) => Tracks (fun _ _ => True) SimplexSet.empty x b)
    (fun m f => m.modify 2 f (fun x => x.remove_co_face key)) tet.m_boundary ?_ x
    (Tracks.start _ _)
  · obtain ⟨m1, h1, t1⟩ := key1
    have hl : (m1.lookup_simplex 3 key).isSome := by rw [t1.live, ht]; rfl
    obtain ⟨x', hx'⟩ := unsafe_erase_returns hl
    refine ⟨x', ?_⟩
    simp only [bind, Option.bind_eq_some]
    exact ⟨tet, ht, m1, h1, hx'⟩
  · intro pre f suf b hL hI
    have hfm : f ∈ tet.m_boundary := by rw [hL]; simp
    have hl : (b.lookup_simplex 2 f).isSome := by rw [hI.live]; exact hf f hfm
    obtain ⟨b', hb'⟩ := Mesh.modify_isSome (fun x => x.remove_co_face key) hl
    refine ⟨b', hb', hI.same ?_⟩
    exact Tracks.co_step (l := fun x => set_erase key x.m_co_boundary) _ hb'

theorem Tracks.trans_eq {P : Nat → Nat → Prop} {E E' E2 : SimplexSet} {m m1 m2 : Mesh}
    (h1 : Tracks P E m m1) (h2 : Tracks P E' m1 m2) (he : E.append E' = E2) :
    Tracks P E2 m m2 := he ▸ h1.tracks_trans h2

theorem Tracks.erase_eq {P : Nat → Nat → Prop} {E E2 : SimplexSet} {m m1 m2 : Mesh} {d k : Nat}
    (h : Tracks P E m m1) (hm : unsafe_erase m1 d k = some m2) (he : E.cons d k = E2) :
    Tracks P E2 m m2 := he ▸ h.tracks_erase hm

/-- What `Tracks` gives for a simplex that is live and not erased. -/
theorem Tracks.lookup_of {P : Nat → Nat → Prop} {E : SimplexSet} {m m' : Mesh}
    (h : Tracks P E m m') {d k : Nat} {s : Simplex} (hp : P d k)
    (hs : m.lookup_simplex d k = some s) (hk : k ∉ E.keys d) :
    ∃ s', m'.lookup_simplex d k = some s' ∧ s'.m_boundary = s.m_boundary := by
  have hl : (m'.lookup_simplex d k).isSome := (h.1 d k).2 ⟨by rw [hs]; rfl, hk⟩
  obtain ⟨s', hs'⟩ := Option.isSome_iff_exists.1 hl
  exact ⟨s', hs', h.2.2 d k s s' hp hs hs'⟩

theorem Tracks.lookup_back {P : Nat → Nat → Prop} {E : SimplexSet} {m m' : Mesh}
    (h : Tracks P E m m') {d k : Nat} {s' : Simplex} (hp : P d k)
    (hs : m'.lookup_simplex d k = some s') :
    ∃ s, m.lookup_simplex d k = some s ∧ s'.m_boundary = s.m_boundary ∧ k ∉ E.keys d := by
  have hl := (h.1 d k).1 (by rw [hs]; rfl)
  obtain ⟨s, hs0⟩ := Option.isSome_iff_exists.1 hl.1
  exact ⟨s, hs0, h.2.2 d k s s' hp hs0 hs, hl.2⟩

theorem clear_interior_tets_spec {x : Mesh} {st_e lk1 lk2 : SimplexSet}
    {r : Mesh × List (Nat × Nat)}
    (h : st_e.tetrahedra.foldlM
      (fun (p : Mesh × List (Nat × Nat)) t => do
        let simplex ← p.1.lookup_simplex 3 t
        let f := collapse_pair lk1 lk2 2 (fun b => !st_e.contains 2 b) simplex.m_boundary
        let m ← unsafe_remove_tetrahedron p.1 t
        pure (m, map_set f.2 f.1 p.2)) (x, []) = some r) :
    Tracks (fun _ _ => True) ⟨[], [], [], st_e.tetrahedra.reverse⟩ x r.1 ∧
    (CompactForm x → CompactForm r.1) ∧
    r.2 = collapse_map x lk1 lk2 3 (fun b => !st_e.contains 2 b) st_e.tetrahedra := by
  refine foldlM_prefix_spec
    (fun (pre : List Nat) (p : Mesh × List (Nat × Nat)) =>
      Tracks (fun _ _ => True) ⟨[], [], [], pre.reverse⟩ x p.1 ∧
      (CompactForm x → CompactForm p.1) ∧
      p.2 = collapse_map x lk1 lk2 3 (fun b => !st_e.contains 2 b) pre) _ st_e.tetrahedra ?_
    (x, []) r ⟨Tracks.start _ _, fun hc => hc, rfl⟩ h
  intro pre t suf b b' hL hI hstep
  simp only [bind, Option.bind_eq_some, pure, Option.some.injEq] at hstep
  obtain ⟨simplex, hs, m1, hm1, rfl⟩ := hstep
  obtain ⟨t1, t2⟩ := unsafe_remove_tetrahedron_spec hm1
  obtain ⟨s0, hs0, hb0, -⟩ := hI.1.lookup_back (d := 3) trivial hs
  refine ⟨hI.1.trans_eq t1 ?_, fun hc => t2 (hI.2.1 hc), ?_⟩
  · simp [SimplexSet.append, SimplexSet.cons, SimplexSet.setKeys, SimplexSet.keys,
      SimplexSet.empty]
  · rw [collapse_map_append, ← hI.2.2, hs0]
    simp only [Option.map_some', Option.getD_some, hb0]

theorem clear_interior_faces_spec {x : Mesh} {e : Nat} {st_e lk1 lk2 : SimplexSet}
    {r : Mesh × List (Nat × Nat)}
    (h : st_e.faces.foldlM
      (fun (p : Mesh × List (Nat × Nat)) f => do
        let simplex ← p.1.lookup_simplex 2 f
        let ee := collapse_pair lk1 lk2 1 (fun b => b != e) simplex.m_boundary
        let m ← unsafe_erase p.1 2 f
        pure (m, map_set ee.2 ee.1 p.2)) (x, []) = some r) :
    Tracks (fun _ _ => True) ⟨[], [], st_e.faces.reverse, []⟩ x r.1 ∧
    (CompactForm x → CompactForm r.1) ∧
    r.2 = collapse_map x lk1 lk2 2 (fun b => b != e) st_e.faces := by
  refine foldlM_prefix_spec
    (fun (pre : List Nat) (p : Mesh × List (Nat × Nat)) =>
      Tracks (fun _ _ => True) ⟨[], [], pre.reverse, []⟩ x p.1 ∧
      (CompactForm x → CompactForm p.1) ∧
      p.2 = collapse_map x lk1 lk2 2 (fun b => b != e) pre) _ st_e.faces ?_
    (x, []) r ⟨Tracks.start _ _, fun hc => hc, rfl⟩ h
  intro pre t suf b b' hL hI hstep
  simp only [bind, Option.bind_eq_some, pure, Option.some.injEq] at hstep
  obtain ⟨simplex, hs, m1, hm1, rfl⟩ := hstep
  obtain ⟨s0, hs0, hb0, -⟩ := hI.1.lookup_back (d := 2) trivial hs
  refine ⟨hI.1.erase_eq hm1 ?_, fun hc => (hI.2.1 hc).compact_erase hm1, ?_⟩
  · simp [SimplexSet.cons, SimplexSet.setKeys, SimplexSet.keys]
  · rw [collapse_map_append, ← hI.2.2, hs0]
    simp only [Option.map_some', Option.getD_some, hb0]

end ISMesh
namespace ISMesh

theorem Tracks.map_boundary {P : Nat → Nat → Prop} {E : SimplexSet} {m m' : Mesh}
    (h : Tracks P E m m') {d k : Nat} (hp : P d k) (hk : k ∉ E.keys d) :
    (m'.lookup_simplex d k).map (fun s => s.m_boundary) =
      (m.lookup_simplex d k).map (fun s => s.m_boundary) := by
  cases hs : m.lookup_simplex d k with
  | none =>
    cases hs' : m'.lookup_simplex d k with
    | none => rfl
    | some s' =>
      have := (h.1 d k).1 (by rw [hs']; rfl)
      rw [hs] at this
      simp at this
  | some s =>
    obtain ⟨s', hs', hb⟩ := h.lookup_of hp hs hk
    rw [hs']
    simp [hb]

theorem clear_interior_tets_returns (lk1 lk2 : SimplexSet) {x : Mesh} {st_e : SimplexSet}
    (hn : st_e.tetrahedra.Nodup)
    (hl : ∀ t ∈ st_e.tetrahedra, ∃ s, x.lookup_simplex 3 t = some s ∧
      ∀ f ∈ s.m_boundary, (x.lookup_simplex 2 f).isSome) :
    ∃ r, st_e.tetrahedra.foldlM
      (fun (p : Mesh × List (Nat × Nat)) t => do
        let simplex ← p.1.lookup_simplex 3 t
        let f := collapse_pair lk1 lk2 2 (fun b => !st_e.contains 2 b) simplex.m_boundary
        let m ← unsafe_remove_tetrahedron p.1 t
        pure (m, map_set f.2 f.1 p.2)) (x, []) = some r := by
  have key := foldlM_prefix_returns
    (fun (pre : List Nat) (p : Mesh × List (Nat × Nat)) =>
      Tracks (fun _ _ => True) ⟨[], [], [], pre.reverse⟩ x p.1)
    (fun (p : Mesh × List (Nat × Nat)) t => do
        let simplex ← p.1.lookup_simplex 3 t
        let f := collapse_pair lk1 lk2 2 (fun b => !st_e.contains 2 b) simplex.m_boundary
        let m ← unsafe_remove_tetrahedron p.1 t
        pure (m, map_set f.2 f.1 p.2)) st_e.tetrahedra ?_ (x, []) (Tracks.start _ _)
  · obtain ⟨r, hr, -⟩ := key
    exact ⟨r, hr⟩
  · intro pre t suf b hL hI
    have ht : t ∈ st_e.tetrahedra := by rw [hL]; simp
    have hnp : t ∉ pre := by
      rw [hL] at hn
      have := List.nodup_append.1 hn
      intro hc
      exact this.2.2 hc (List.mem_cons_self _ _)
    obtain ⟨s, hs, hf⟩ := hl t ht
    obtain ⟨s', hs', hb'⟩ := hI.lookup_of (d := 3) trivial hs (by
      simp only [SimplexSet.keys, List.mem_reverse]; exact hnp)
    obtain ⟨m1, hm1⟩ := unsafe_remove_tetrahedron_returns hs' (by
      intro f hfm
      rw [hb'] at hfm
      exact (hI.1 2 f).2 ⟨hf f hfm, by simp [SimplexSet.keys]⟩)
    refine ⟨(m1, map_set
      (collapse_pair lk1 lk2 2 (fun b => !st_e.contains 2 b) s'.m_boundary).2
      (collapse_pair lk1 lk2 2 (fun b => !st_e.contains 2 b) s'.m_boundary).1 b.2), ?_, ?_⟩
    · simp only [bind, Option.bind_eq_some, pure, Option.some.injEq]
      exact ⟨s', hs', m1, hm1, rfl⟩
    · refine hI.trans_eq (unsafe_remove_tetrahedron_spec hm1).1 ?_
      simp [SimplexSet.append, SimplexSet.cons, SimplexSet.setKeys, SimplexSet.keys,
        SimplexSet.empty]

theorem clear_interior_faces_returns (x : Mesh) (e : Nat) (lk1 lk2 : SimplexSet)
    {st_e : SimplexSet}
    (hn : st_e.faces.Nodup)
    (hl : ∀ f ∈ st_e.faces, (x.lookup_simplex 2 f).isSome) :
    ∃ r, st_e.faces.foldlM
      (fun (p : Mesh × List (Nat × Nat)) f => do
        let simplex ← p.1.lookup_simplex 2 f
        let ee := collapse_pair lk1 lk2 1 (fun b => b != e) simplex.m_boundary
        let m ← unsafe_erase p.1 2 f
        pure (m, map_set ee.2 ee.1 p.2)) (x, []) = some r := by
  have key := foldlM_prefix_returns
    (fun (pre : List Nat) (p : Mesh × List (Nat × Nat)) =>
      Tracks (fun _ _ => True) ⟨[], [], pre.reverse, []⟩ x p.1)
    (fun (p : Mesh × List (Nat × Nat)) f => do
        let simplex ← p.1.lookup_simplex 2 f
        let ee := collapse_pair lk1 lk2 1 (fun b => b != e) simplex.m_boundary
        let m ← unsafe_erase p.1 2 f
        pure (m, map_set ee.2 ee.1 p.2)) st_e.faces ?_ (x, []) (Tracks.start _ _)
  · obtain ⟨r, hr, -⟩ := key
    exact ⟨r, hr⟩
  · intro pre t suf b hL hI
    have ht : t ∈ st_e.faces := by rw [hL]; simp
    have hnp : t ∉ pre := by
      rw [hL] at hn
      have := List.nodup_append.1 hn
      intro hc
      exact this.2.2 hc (List.mem_cons_self _ _)
    obtain ⟨s, hs⟩ := Option.isSome_iff_exists.1 (hl t ht)
    obtain ⟨s', hs', -⟩ := hI.lookup_of (d := 2) trivial hs (by
      simp only [SimplexSet.keys, List.mem_reverse]; exact hnp)
    obtain ⟨m1, hm1⟩ := unsafe_erase_returns (m := b.1) (d := 2) (k := t) (by rw [hs']; rfl)
    refine ⟨(m1, map_set
      (collapse_pair lk1 lk2 1 (fun b => b != e) s'.m_boundary).2
      (collapse_pair lk1 lk2 1 (fun b => b != e) s'.m_boundary).1 b.2), ?_, ?_⟩
    · simp only [bind, Option.bind_eq_some, pure, Option.some.injEq]
      exact ⟨s', hs', m1, hm1, rfl⟩
    · refine hI.erase_eq hm1 ?_
      simp [SimplexSet.cons, SimplexSet.setKeys, SimplexSet.keys]

theorem clear_interior_spec {x x' : Mesh} {e : Nat} {st_e lk1 lk2 : SimplexSet}
    {emap fmap : List (Nat × Nat)}
    (h : edge_collapse_clear_interior x e st_e lk1 lk2 = some (x', emap, fmap)) :
    Tracks (fun _ _ => True) (cleared e st_e) x x' ∧
    (CompactForm x → CompactForm x') ∧
    fmap = collapse_map x lk1 lk2 3 (fun b => !st_e.contains 2 b) st_e.tetrahedra ∧
    emap = collapse_map x lk1 lk2 2 (fun b => b != e) st_e.faces := by
  unfold edge_collapse_clear_interior at h
  simp only [bind, Option.bind_eq_some, pure, Option.some.injEq, Prod.mk.injEq] at h
  obtain ⟨⟨m1, fm⟩, h1, ⟨m2, em⟩, h2, m3, h3, rfl, rfl, rfl⟩ := h
  obtain ⟨a1, a2, a3⟩ := clear_interior_tets_spec h1
  obtain ⟨b1, b2, b3⟩ := clear_interior_faces_spec h2
  simp only at a1 a2 a3 b1 b2 b3 h3
  have t12 : Tracks (fun _ _ => True) ⟨[], [], st_e.faces.reverse, st_e.tetrahedra.reverse⟩
      x m2 := a1.trans_eq b1 (by simp [SimplexSet.append])
  refine ⟨t12.erase_eq h3 (by simp [SimplexSet.cons, SimplexSet.setKeys, SimplexSet.keys,
    cleared]), fun hc => (b2 (a2 hc)).compact_erase h3, a3, ?_⟩
  rw [b3]
  unfold collapse_map
  refine List.foldl_ext _ _ _ ?_
  intro mp k _
  rw [a1.map_boundary (d := 2) trivial (by simp [SimplexSet.keys])]

theorem clear_interior_returns {x : Mesh} {e : Nat} {st_e lk1 lk2 : SimplexSet}
    (hnt : st_e.tetrahedra.Nodup)
    (hlt : ∀ t ∈ st_e.tetrahedra, ∃ s, x.lookup_simplex 3 t = some s ∧
      ∀ f ∈ s.m_boundary, (x.lookup_simplex 2 f).isSome)
    (hnf : st_e.faces.Nodup)
    (hlf : ∀ f ∈ st_e.faces, (x.lookup_simplex 2 f).isSome)
    (he : (x.lookup_simplex 1 e).isSome) :
    ∃ r, edge_collapse_clear_interior x e st_e lk1 lk2 = some r := by
  obtain ⟨⟨m1, fm⟩, h1⟩ := clear_interior_tets_returns lk1 lk2 hnt hlt
  obtain ⟨a1, -, -⟩ := clear_interior_tets_spec h1
  simp only at a1
  obtain ⟨⟨m2, em⟩, h2⟩ := clear_interior_faces_returns m1 e lk1 lk2 hnf (by
      intro f hf
      exact (a1.1 2 f).2 ⟨hlf f hf, by simp [SimplexSet.keys]⟩)
  obtain ⟨b1, -, -⟩ := clear_interior_faces_spec h2
  simp only at b1
  have hle : (m2.lookup_simplex 1 e).isSome :=
    (b1.1 1 e).2 ⟨(a1.1 1 e).2 ⟨he, by simp [SimplexSet.keys]⟩, by simp [SimplexSet.keys]⟩
  obtain ⟨m3, h3⟩ := unsafe_erase_returns hle
  refine ⟨(m3, em, fm), ?_⟩
  unfold edge_collapse_clear_interior
  simp only [bind, Option.bind_eq_some, pure, Option.some.injEq, Prod.mk.injEq]
  exact ⟨(m1, fm), h1, (m2, em), h2, m3, h3, rfl, rfl, rfl⟩

end ISMesh
namespace ISMesh

/-! ## The identification maps of `edge_collapse_clear_interior` -/

theorem collapse_pair_snd (lk1 lk2 : SimplexSet) (d : Nat) (keep : Nat → Bool) (bnd : List Nat)
    (h : ∃ b ∈ bnd, keep b = true ∧ lk1.contains d b = true) :
    (collapse_pair lk1 lk2 d keep bnd).2 ∈ bnd ∧
    keep (collapse_pair lk1 lk2 d keep bnd).2 = true ∧
    lk1.contains d (collapse_pair lk1 lk2 d keep bnd).2 = true := by
  unfold collapse_pair
  generalize (undefined_key, undefined_key) = init
  have key : ∀ (l : List Nat) (init : Nat × Nat),
      ((l.foldl (fun (p : Nat × Nat) b =>
        if keep b then
          let p := if lk1.contains d b then (p.1, b) else p
          if lk2.contains d b then (b, p.2) else p
        else p) init).2 = init.2 ∧ ¬ ∃ b ∈ l, keep b = true ∧ lk1.contains d b = true) ∨
      ((l.foldl (fun (p : Nat × Nat) b =>
        if keep b then
          let p := if lk1.contains d b then (p.1, b) else p
          if lk2.contains d b then (b, p.2) else p
        else p) init).2 ∈ l ∧
       keep (l.foldl (fun (p : Nat × Nat) b =>
        if keep b then
          let p := if lk1.contains d b then (p.1, b) else p
          if lk2.contains d b then (b, p.2) else p
        else p) init).2 = true ∧
       lk1.contains d (l.foldl (fun (p : Nat × Nat) b =>
        if keep b then
          let p := if lk1.contains d b then (p.1, b) else p
          if lk2.contains d b then (b, p.2) else p
        else p) init).2 = true) := by
    intro l
    induction l with
    | nil => intro init; left; simp
    | cons b l ih =>
      intro init
      simp only [List.foldl_cons]
      rcases ih (if keep b then
          let p := if lk1.contains d b then (init.1, b) else init
          if lk2.contains d b then (b, p.2) else p
        else init) with ⟨h1, h2⟩ | ⟨h1, h2, h3⟩
      · by_cases hk : keep b = true
        · by_cases hl : lk1.contains d b = true
          · right
            rw [h1]
            by_cases hl2 : lk2.contains d b = true
            · simp [hk, hl, hl2]
            · simp [hk, hl, hl2]
          · left
            rw [h1]
            refine ⟨by by_cases hl2 : lk2.contains d b = true <;> simp [hk, hl, hl2], ?_⟩
            rintro ⟨c, hc, hc1, hc2⟩
            rcases List.mem_cons.1 hc with rfl | hc
            · exact hl hc2
            · exact h2 ⟨c, hc, hc1, hc2⟩
        · left
          rw [h1]
          refine ⟨by simp [hk], ?_⟩
          rintro ⟨c, hc, hc1, hc2⟩
          rcases List.mem_cons.1 hc with rfl | hc
          · exact hk hc1
          · exact h2 ⟨c, hc, hc1, hc2⟩
      · right
        exact ⟨List.mem_cons_of_mem _ h1, h2, h3⟩
  rcases key bnd init with ⟨-, h2⟩ | h3
  · exact absurd h h2
  · exact h3

theorem collapse_pair_fst (lk1 lk2 : SimplexSet) (d : Nat) (keep : Nat → Bool) (bnd : List Nat)
    (h : ∃ b ∈ bnd, keep b = true ∧ lk2.contains d b = true) :
    (collapse_pair lk1 lk2 d keep bnd).1 ∈ bnd ∧
    keep (collapse_pair lk1 lk2 d keep bnd).1 = true ∧
    lk2.contains d (collapse_pair lk1 lk2 d keep bnd).1 = true := by
  unfold collapse_pair
  generalize (undefined_key, undefined_key) = init
  have key : ∀ (l : List Nat) (init : Nat × Nat),
      ((l.foldl (fun (p : Nat × Nat) b =>
        if keep b then
          let p := if lk1.contains d b then (p.1, b) else p
          if lk2.contains d b then (b, p.2) else p
        else p) init).1 = init.1 ∧ ¬ ∃ b ∈ l, keep b = true ∧ lk2.contains d b = true) ∨
      ((l.foldl (fun (p : Nat × Nat) b =>
        if keep b then
          let p := if lk1.contains d b then (p.1, b) else p
          if lk2.contains d b then (b, p.2) else p
        else p) init).1 ∈ l ∧
       keep (l.foldl (fun (p : Nat × Nat) b =>
        if keep b then
          let p := if lk1.contains d b then (p.1, b) else p
          if lk2.contains d b then (b, p.2) else p
        else p) init).1 = true ∧
       lk2.contains d (l.foldl (fun (p : Nat × Nat) b =>
        if keep b then
          let p := if lk1.contains d b then (p.1, b) else p
          if lk2.contains d b then (b, p.2) else p
        else p) init).1 = true) := by
    intro l
    induction l with
    | nil => intro init; left; simp
    | cons b l ih =>
      intro init
      simp only [List.foldl_cons]
      rcases ih (if keep b then
          let p := if lk1.contains d b then (init.1, b) else init
          if lk2.contains d b then (b, p.2) else p
        else init) with ⟨h1, h2⟩ | ⟨h1, h2, h3⟩
      · by_cases hk : keep b = true
        · by_cases hl : lk2.contains d b = true
          · right
            rw [h1]
            simp [hk, hl]
          · left
            rw [h1]
            refine ⟨by by_cases hl1 : lk1.contains d b = true <;> simp [hk, hl, hl1], ?_⟩
            rintro ⟨c, hc, hc1, hc2⟩
            rcases List.mem_cons.1 hc with rfl | hc
            · exact hl hc2
            · exact h2 ⟨c, hc, hc1, hc2⟩
        · left
          rw [h1]
          refine ⟨by simp [hk], ?_⟩
          rintro ⟨c, hc, hc1, hc2⟩
          rcases List.mem_cons.1 hc with rfl | hc
          · exact hk hc1
          · exact h2 ⟨c, hc, hc1, hc2⟩
      · right
        exact ⟨List.mem_cons_of_mem _ h1, h2, h3⟩
  rcases key bnd init with ⟨-, h2⟩ | h3
  · exact absurd h h2
  · exact h3

theorem keys_map_set (k v : Nat) (mp : List (Nat × Nat)) :
    (map_set k v mp).map Prod.fst = set_insert k (mp.map Prod.fst) := by
  induction mp with
  | nil => simp [map_set, set_insert]
  | cons x mp ih =>
    unfold map_set
    simp only [List.map_cons, set_insert]
    split_ifs with h1 h2
    · simp
    · simp [h2]
    · simp [ih]

theorem mem_map_set {k v : Nat} {mp : List (Nat × Nat)} {a : Nat × Nat}
    (h : a ∈ map_set k v mp) : a = (k, v) ∨ a ∈ mp := by
  induction mp with
  | nil =>
    simp only [map_set, List.mem_singleton] at h
    exact Or.inl h
  | cons x mp ih =>
    unfold map_set at h
    split_ifs at h with h1 h2
    · rcases List.mem_cons.1 h with h | h
      · exact Or.inl h
      · exact Or.inr h
    · rcases List.mem_cons.1 h with h | h
      · exact Or.inl h
      · exact Or.inr (List.mem_cons_of_mem _ h)
    · rcases List.mem_cons.1 h with h | h
      · exact Or.inr (h ▸ List.mem_cons_self _ _)
      · rcases ih h with h | h
        · exact Or.inl h
        · exact Or.inr (List.mem_cons_of_mem _ h)

theorem length_set_insert {k : Nat} {l : List Nat} (h : k ∉ l) :
    (set_insert k l).length = l.length + 1 := by
  induction l with
  | nil => simp [set_insert]
  | cons x l ih =>
    unfold set_insert
    have hx : k ≠ x := fun hc => h (hc ▸ List.mem_cons_self _ _)
    have hl : k ∉ l := fun hc => h (List.mem_cons_of_mem _ hc)
    split_ifs with h1
    · simp
    · simp [ih hl]

/-- The keys of `collapse_map`, as a fold of `set_insert`. -/
theorem keys_collapse_map (x : Mesh) (lk1 lk2 : SimplexSet) (d : Nat) (keep : Nat → Bool)
    (keys : List Nat) :
    (collapse_map x lk1 lk2 d keep keys).map Prod.fst =
      (keys.map (fun k => (collapse_pair lk1 lk2 (d - 1) keep
        (((x.lookup_simplex d k).map (fun s => s.m_boundary)).getD [])).2)).foldl
        (fun s k => set_insert k s) [] := by
  induction keys using List.reverseRecOn with
  | nil => rfl
  | append_singleton l a ih =>
    rw [collapse_map_append, keys_map_set, ih]
    simp [List.foldl_append]

theorem sorted_keys_collapse_map (x : Mesh) (lk1 lk2 : SimplexSet) (d : Nat) (keep : Nat → Bool)
    (keys : List Nat) :
    ((collapse_map x lk1 lk2 d keep keys).map Prod.fst).Sorted (· < ·) := by
  rw [keys_collapse_map]
  exact sorted_foldl_set_insert _ _ List.sorted_nil

theorem mem_keys_collapse_map (x : Mesh) (lk1 lk2 : SimplexSet) (d : Nat) (keep : Nat → Bool)
    (keys : List Nat) (a : Nat) :
    a ∈ (collapse_map x lk1 lk2 d keep keys).map Prod.fst ↔
      ∃ k ∈ keys, a = (collapse_pair lk1 lk2 (d - 1) keep
        (((x.lookup_simplex d k).map (fun s => s.m_boundary)).getD [])).2 := by
  rw [keys_collapse_map, mem_foldl_set_insert]
  simp only [List.mem_map, List.not_mem_nil, or_false]
  constructor
  · rintro ⟨k, hk, rfl⟩
    exact ⟨k, hk, rfl⟩
  · rintro ⟨k, hk, rfl⟩
    exact ⟨k, hk, rfl⟩

theorem mem_collapse_map (x : Mesh) (lk1 lk2 : SimplexSet) (d : Nat) (keep : Nat → Bool)
    (keys : List Nat) (a : Nat × Nat) (h : a ∈ collapse_map x lk1 lk2 d keep keys) :
    ∃ k ∈ keys, a = ((collapse_pair lk1 lk2 (d - 1) keep
        (((x.lookup_simplex d k).map (fun s => s.m_boundary)).getD [])).2,
        (collapse_pair lk1 lk2 (d - 1) keep
        (((x.lookup_simplex d k).map (fun s => s.m_boundary)).getD [])).1) := by
  induction keys using List.reverseRecOn with
  | nil => simp [collapse_map] at h
  | append_singleton l k ih =>
    rw [collapse_map_append] at h
    rcases mem_map_set h with h | h
    · exact ⟨k, by simp, h⟩
    · obtain ⟨k', hk', ha⟩ := ih h
      exact ⟨k', by simp [hk'], ha⟩

theorem length_collapse_map (x : Mesh) (lk1 lk2 : SimplexSet) (d : Nat) (keep : Nat → Bool)
    (keys : List Nat) (hn : keys.Nodup)
    (hinj : ∀ k ∈ keys, ∀ k' ∈ keys, k ≠ k' →
      (collapse_pair lk1 lk2 (d - 1) keep
        (((x.lookup_simplex d k).map (fun s => s.m_boundary)).getD [])).2 ≠
      (collapse_pair lk1 lk2 (d - 1) keep
        (((x.lookup_simplex d k').map (fun s => s.m_boundary)).getD [])).2) :
    (collapse_map x lk1 lk2 d keep keys).length = keys.length := by
  induction keys using List.reverseRecOn with
  | nil => rfl
  | append_singleton l k ih =>
    have hn' := List.nodup_append.1 hn
    have hlen : ((collapse_map x lk1 lk2 d keep (l ++ [k])).map Prod.fst).length =
        (l ++ [k]).length := by
      rw [collapse_map_append, keys_map_set, length_set_insert, List.length_map, ih hn'.1]
      · simp
      · intro k1 h1 k2 h2 hne
        exact hinj k1 (by simp [h1]) k2 (by simp [h2]) hne
      · intro hc
        obtain ⟨k', hk', he⟩ := (mem_keys_collapse_map _ _ _ _ _ _ _).1 hc
        refine hinj k (by simp) k' (by simp [hk']) ?_ he
        rintro rfl
        exact hn'.2.2 hk' (List.mem_singleton_self _)
    rw [List.length_map] at hlen
    exact hlen

theorem map_get_of_mem {mp : List (Nat × Nat)} (hn : (mp.map Prod.fst).Nodup) {k v : Nat}
    (h : (k, v) ∈ mp) : map_get k mp = v := by
  unfold map_get
  have : mp.find? (fun x => decide (x.1 = k)) = some (k, v) := by
    induction mp with
    | nil => simp at h
    | cons a mp ih =>
      simp only [List.map_cons, List.nodup_cons] at hn
      rcases List.mem_cons.1 h with h | h
      · subst h
        simp
      · have hne : a.1 ≠ k := by
          intro hc
          apply hn.1
          rw [hc]
          exact List.mem_map.2 ⟨(k, v), h, rfl⟩
        simp only [List.find?_cons, hne, decide_False]
        exact ih hn.2 h
  rw [this]

theorem map_get_mem {mp : List (Nat × Nat)} (hn : (mp.map Prod.fst).Nodup) {k : Nat}
    (h : k ∈ mp.map Prod.fst) : (k, map_get k mp) ∈ mp := by
  obtain ⟨⟨a, v⟩, hm, rfl⟩ := List.mem_map.1 h
  rw [map_get_of_mem hn hm]
  exact hm

theorem keys_foldl_insert_map (d : Nat) (mp : List (Nat × Nat)) :
    ∀ (s : SimplexSet) (d' : Nat),
      (mp.foldl (fun s kv => s.insert d kv.1) s).keys d' =
        if min d 3 = min d' 3 then (mp.map Prod.fst).foldl (fun s k => set_insert k s) (s.keys d')
        else s.keys d' := by
  induction mp with
  | nil => intro s d'; simp
  | cons a mp ih =>
    intro s d'
    simp only [List.foldl_cons, List.map_cons, ih, SimplexSet.keys_insert]
    split_ifs <;> rfl

theorem mem_to_be_removed (emap fmap : List (Nat × Nat)) (d k : Nat) :
    k ∈ (to_be_removed emap fmap).keys d ↔
      (d = 1 ∧ k ∈ emap.map Prod.fst) ∨ (2 ≤ d ∧ min d 3 = 2 ∧ k ∈ fmap.map Prod.fst) := by
  unfold to_be_removed
  rw [keys_foldl_insert_map, keys_foldl_insert_map]
  rcases d with _ | _ | _ | d
  · simp [SimplexSet.keys_empty]
  · simp [SimplexSet.keys_empty, mem_foldl_set_insert]
  · simp [SimplexSet.keys_empty, mem_foldl_set_insert]
  · simp [SimplexSet.keys_empty]

end ISMesh
namespace ISMesh

/-! ## The loops of `edge_collapse_sew_hole_up` -/

theorem SimplexSet.contains_iff (S : SimplexSet) (d k : Nat) :
    S.contains d k = true ↔ k ∈ S.keys d := by
  unfold SimplexSet.contains
  simp

theorem SimplexSet.contains_false_iff (S : SimplexSet) (d k : Nat) :
    S.contains d k = false ↔ k ∉ S.keys d := by
  rw [← SimplexSet.contains_iff]
  simp

theorem not_mem_of_indexOf?_none {l : List Nat} {a : Nat} (h : l.indexOf? a = none) :
    a ∉ l := by
  unfold List.indexOf? at h
  rw [List.findIdx?_eq_none_iff] at h
  intro hc
  have := h a hc
  simp at this

theorem not_mem_set_indexOf? {l : List Nat} {a b i : Nat} (hn : l.Nodup) (hab : b ≠ a)
    (h : l.indexOf? a = some i) : a ∉ l.set i b := by
  unfold List.indexOf? at h
  rw [List.findIdx?_eq_some_iff_getElem] at h
  obtain ⟨hi, hp, -⟩ := h
  simp only [beq_iff_eq] at hp
  have hia : l[i]? = some a := by rw [List.getElem?_eq_getElem hi, hp]
  intro hc
  obtain ⟨n, hn'⟩ := List.mem_iff_getElem?.1 hc
  rw [List.getElem?_set] at hn'
  by_cases hin : i = n
  · simp only [hin, if_true] at hn'
    split_ifs at hn' with h1
    simp only [Option.some.injEq] at hn'
    exact hab hn'
  · simp only [hin, if_false] at hn'
    have hnl : n < l.length := by
      by_contra hc2
      rw [List.getElem?_eq_none (by omega)] at hn'
      cases hn'
    rcases Nat.lt_or_gt_of_ne hin with h1 | h1
    · exact (List.nodup_iff_getElem?_ne_getElem?.1 hn) i n h1 hnl (by rw [hia, hn'])
    · exact (List.nodup_iff_getElem?_ne_getElem?.1 hn) n i h1 hi (by rw [hia, hn'])

theorem mem_of_indexOf?_some {l : List Nat} {a i : Nat} (h : l.indexOf? a = some i) :
    a ∈ l := by
  by_contra hc
  have : l.indexOf? a = none := by
    unfold List.indexOf?
    rw [List.findIdx?_eq_none_iff]
    intro x hx
    simp only [beq_eq_false_iff_ne, ne_eq]
    rintro rfl
    exact hc hx
  rw [this] at h
  cases h

theorem EdgesSewn.step_same {n1 n2 e : Nat} {pre : List Nat} {st_e tbr : SimplexSet}
    {x b : Mesh} (hE : EdgesSewn n1 n2 pre st_e tbr x b)
    (hc : e ∈ st_e.edges ∨ e ∈ tbr.edges ∨
      ∀ s1, b.lookup_simplex 1 e = some s1 → n2 ∉ s1.m_boundary) :
    EdgesSewn n1 n2 (pre ++ [e]) st_e tbr x b := by
  intro k s s' hs hs'
  obtain ⟨e1, e2, e3⟩ := hE k s s' hs hs'
  refine ⟨e1, e2, fun hm h1 h2 => ?_⟩
  rcases List.mem_append.1 hm with hm | hm
  · exact e3 hm h1 h2
  · simp only [List.mem_singleton] at hm
    subst hm
    rcases hc with hc | hc | hc
    · exact absurd hc h1
    · exact absurd hc h2
    · exact hc s' hs'

theorem EdgesSewn.step_modify {n1 n2 e i : Nat} {pre : List Nat} {st_e tbr : SimplexSet}
    {x b b' : Mesh} {s1 : Simplex} (hne : n1 ≠ n2)
    (hnd : ∀ k s, x.lookup_simplex 1 k = some s → s.m_boundary.Nodup)
    (hE : EdgesSewn n1 n2 pre st_e tbr x b)
    (hs1 : b.lookup_simplex 1 e = some s1) (hi : s1.m_boundary.indexOf? n2 = some i)
    (hm : b.modify 1 e (fun x => x.set_boundary_list (x.m_boundary.set i n1)) = some b') :
    EdgesSewn n1 n2 (pre ++ [e]) st_e tbr x b' := by
  intro k s s' hs hs'
  rw [Mesh.lookup_modify hm 1 k] at hs'
  by_cases hk : k = e
  · subst hk
    simp only [and_self, if_true, hs1, Option.map_some', Option.some.injEq] at hs'
    subst hs'
    obtain ⟨e1, e2, -⟩ := hE k s s1 hs hs1
    have hn2 : n2 ∉ s1.m_boundary.set i n1 := by
      rcases e2 with e2 | e2
      · exact not_mem_set_indexOf? (e2 ▸ hnd k s hs) hne hi
      · exact absurd (mem_of_indexOf?_some hi) e2
    refine ⟨fun b hb => ?_, Or.inr hn2, fun _ _ _ => hn2⟩
    rcases List.mem_or_eq_of_mem_set hb with hb | hb
    · exact e1 b hb
    · exact Or.inr hb
  · simp only [hk, and_false, if_false] at hs'
    obtain ⟨e1, e2, e3⟩ := hE k s s' hs hs'
    refine ⟨e1, e2, fun hm' => ?_⟩
    simp only [List.mem_append, List.mem_singleton, hk, or_false] at hm'
    exact e3 hm'

theorem Tracks.boundary_step {m m' : Mesh} {d k : Nat} {l : Simplex → List Nat}
    (P : Nat → Nat → Prop) (hP : ∀ d' k', P d' k' → ¬ (min d 3 = min d' 3 ∧ k' = k))
    (hm : m.modify d k (fun x => x.set_boundary_list (l x)) = some m') :
    Tracks P SimplexSet.empty m m' := by
  refine ⟨fun d' k' => ?_, fun d' => ?_, fun d' k' s s' hp h1 h2 => ?_⟩
  · rw [Mesh.isSome_modify hm, SimplexSet.keys_empty]
    simp
  · rw [size_mesh_modify hm, SimplexSet.keys_empty]
    simp
  · rw [Mesh.lookup_modify hm d' k'] at h2
    simp only [hP d' k' hp, if_false] at h2
    rw [h1] at h2
    cases h2
    rfl

theorem sew_edges_spec {x x' : Mesh} {n1 n2 : Nat} {st2 st_e tbr : SimplexSet}
    (hne : n1 ≠ n2)
    (hnd : ∀ k s, x.lookup_simplex 1 k = some s → s.m_boundary.Nodup)
    (h : sew_edges x n1 n2 st2 st_e tbr = some x') :
    Tracks (fun d _ => min d 3 ≠ 1) SimplexSet.empty x x' ∧
    (CompactForm x → CompactForm x') ∧
    EdgesSewn n1 n2 st2.edges st_e tbr x x' := by
  unfold sew_edges at h
  refine foldlM_prefix_spec
    (fun (pre : List Nat) (b : Mesh) =>
      Tracks (fun d _ => min d 3 ≠ 1) SimplexSet.empty x b ∧
      (CompactForm x → CompactForm b) ∧
      EdgesSewn n1 n2 pre st_e tbr x b) _ st2.edges ?_ x x' ?_ h
  · intro pre e suf b b' hL hI hstep
    obtain ⟨hT, hC, hE⟩ := hI
    split_ifs at hstep with hcond
    · simp only [bind, Option.bind_eq_some] at hstep
      obtain ⟨simplex, hs, hstep⟩ := hstep
      cases hi : simplex.m_boundary.indexOf? n2 with
      | none =>
        simp only [hi, pure, Option.some.injEq] at hstep
        subst hstep
        refine ⟨hT, hC, hE.step_same (Or.inr (Or.inr ?_))⟩
        intro s1 hs1
        rw [hs] at hs1
        cases hs1
        exact not_mem_of_indexOf?_none hi
      | some i =>
        simp only [hi] at hstep
        refine ⟨hT.same (Tracks.boundary_step (l := fun x => x.m_boundary.set i n1) _ ?_ hstep),
          fun hc => (hC hc).compact_modify hstep (fun _ s hs2 => ?_),
          hE.step_modify hne hnd hs hi hstep⟩
        · intro d' k' hp hc
          apply hp
          rw [← hc.1]
          decide
        · have := (hC hc) 1 e s (by omega) hs2
          simpa [Simplex.set_boundary_list] using this
    · simp only [pure, Option.some.injEq] at hstep
      subst hstep
      refine ⟨hT, hC, hE.step_same ?_⟩
      simp only [Bool.and_eq_true, Bool.not_eq_true', not_and, Bool.not_eq_false,
        SimplexSet.contains_iff, SimplexSet.contains_false_iff] at hcond
      by_cases h1 : e ∈ st_e.edges
      · exact Or.inl h1
      · right; left
        exact not_not.1 (hcond h1)
  · exact ⟨Tracks.start _ _, fun hc => hc, fun k s s' hs hs' => by
      rw [hs] at hs'
      cases hs'
      exact ⟨fun b hb => Or.inl hb, Or.inl rfl, fun hk => absurd hk (by simp)⟩⟩

end ISMesh
namespace ISMesh

theorem sew_edges_returns {x : Mesh} {n1 n2 : Nat} {st2 st_e tbr : SimplexSet}
    (hl : ∀ k ∈ st2.edges, k ∉ st_e.edges → k ∉ tbr.edges → (x.lookup_simplex 1 k).isSome) :
    ∃ x', sew_edges x n1 n2 st2 st_e tbr = some x' := by
  unfold sew_edges
  have key := foldlM_prefix_returns
    (fun (_ : List Nat) (b : Mesh) => Tracks (fun _ _ => False) SimplexSet.empty x b)
    (fun m e =>
      if !st_e.contains 1 e && !tbr.contains 1 e then do
        let simplex ← m.lookup_simplex 1 e
        match simplex.m_boundary.indexOf? n2 with
        | some i => m.modify 1 e (fun x => x.set_boundary_list (x.m_boundary.set i n1))
        | none => pure m
      else pure m) st2.edges ?_ x (Tracks.start _ _)
  · obtain ⟨r, hr, -⟩ := key
    exact ⟨r, hr⟩
  · intro pre e suf b hL hI
    have he : e ∈ st2.edges := by rw [hL]; simp
    by_cases hcond : (!st_e.contains 1 e && !tbr.contains 1 e) = true
    · simp only [hcond, if_true]
      have hc := hcond
      simp only [Bool.and_eq_true, Bool.not_eq_true', SimplexSet.contains_false_iff] at hc
      have hlive : (b.lookup_simplex 1 e).isSome := by
        rw [hI.live]
        exact hl e he hc.1 hc.2
      obtain ⟨s, hs⟩ := Option.isSome_iff_exists.1 hlive
      simp only [bind, Option.bind_eq_some, hs, Option.some.injEq, exists_eq_left']
      cases hi : s.m_boundary.indexOf? n2 with
      | none => exact ⟨b, rfl, hI⟩
      | some i =>
        obtain ⟨b', hb'⟩ := Mesh.modify_isSome
          (fun x => x.set_boundary_list (x.m_boundary.set i n1)) hlive
        exact ⟨b', hb', hI.same
          (Tracks.boundary_step (l := fun x => x.m_boundary.set i n1) _
            (fun _ _ hp => absurd hp (by simp)) hb')⟩
    · simp only [hcond, if_false]
      exact ⟨b, rfl, hI⟩

theorem sew_faces_spec {x x' : Mesh} {st2 st_e tbr : SimplexSet} {emap : List (Nat × Nat)}
    (h : sew_faces x st2 st_e tbr emap = some x') :
    Tracks (fun d k => min d 3 ≠ 2 ∨ k ∈ tbr.faces) SimplexSet.empty x x' ∧
    (CompactForm x → CompactForm x') := by
  unfold sew_faces at h
  refine foldlM_rel (fun (a b : Mesh) =>
    Tracks (fun d k => min d 3 ≠ 2 ∨ k ∈ tbr.faces) SimplexSet.empty a b ∧
    (CompactForm a → CompactForm b)) ?_ ?_ _ ?_ st2.faces x x' h
  · intro b
    exact ⟨Tracks.start _ _, fun hc => hc⟩
  · intro a b c h1 h2
    exact ⟨h1.1.same h2.1, fun hc => h2.2 (h1.2 hc)⟩
  · intro b f b' hstep
    split_ifs at hstep with hcond
    · simp only [Bool.and_eq_true, Bool.not_eq_true', SimplexSet.contains_false_iff] at hcond
      refine ⟨Tracks.boundary_step (l := fun x => x.m_boundary.map
        (fun b => if tbr.contains 1 b then map_get b emap else b)) _ ?_ hstep,
        fun hc => hc.compact_modify hstep (fun hd => absurd hd (by decide))⟩
      intro d' k' hp hc
      rcases hp with hp | hp
      · apply hp
        rw [← hc.1]
        decide
      · apply hcond.2
        rw [← hc.2]
        exact hp
    · simp only [pure, Option.some.injEq] at hstep
      subst hstep
      exact ⟨Tracks.start _ _, fun hc => hc⟩

theorem sew_faces_returns {x : Mesh} {st2 st_e tbr : SimplexSet} {emap : List (Nat × Nat)}
    (hl : ∀ k ∈ st2.faces, k ∉ st_e.faces → k ∉ tbr.faces → (x.lookup_simplex 2 k).isSome) :
    ∃ x', sew_faces x st2 st_e tbr emap = some x' := by
  unfold sew_faces
  have key := foldlM_prefix_returns
    (fun (_ : List Nat) (b : Mesh) => Tracks (fun _ _ => False) SimplexSet.empty x b)
    (fun m f =>
      if !st_e.contains 2 f && !tbr.contains 2 f then
        m.modify 2 f (fun x => x.set_boundary_list (x.m_boundary.map
          (fun b => if tbr.contains 1 b then map_get b emap else b)))
      else pure m) st2.faces ?_ x (Tracks.start _ _)
  · obtain ⟨r, hr, -⟩ := key
    exact ⟨r, hr⟩
  · intro pre f suf b hL hI
    have hf : f ∈ st2.faces := by rw [hL]; simp
    by_cases hcond : (!st_e.contains 2 f && !tbr.contains 2 f) = true
    · simp only [hcond, if_true]
      have hc := hcond
      simp only [Bool.and_eq_true, Bool.not_eq_true', SimplexSet.contains_false_iff] at hc
      have hlive : (b.lookup_simplex 2 f).isSome := by
        rw [hI.live]
        exact hl f hf hc.1 hc.2
      obtain ⟨b', hb'⟩ := Mesh.modify_isSome
        (fun x => x.set_boundary_list (x.m_boundary.map
          (fun b => if tbr.contains 1 b then map_get b emap else b))) hlive
      exact ⟨b', hb', hI.same
        (Tracks.boundary_step (l := fun x => x.m_boundary.map
          (fun b => if tbr.contains 1 b then map_get b emap else b)) _
          (fun _ _ hp => absurd hp (by simp)) hb')⟩
    · simp only [hcond, if_false]
      exact ⟨b, rfl, hI⟩

end ISMesh
namespace ISMesh

theorem sew_tetrahedra_step_spec {tbr : SimplexSet} {fmap : List (Nat × Nat)} {t i : Nat}
    {b b' : Mesh}
    (h : (do
        let tet ← b.lookup_simplex 3 t
        let c ← tet.m_boundary[i]?
        if tbr.contains 2 c then do
          let f := map_get c fmap
          let m ← b.modify 3 t (fun x => x.set_boundary_list (x.m_boundary.set i f))
          m.modify 2 f (fun x => x.add_co_face t)
        else pure b) = some b') :
    Tracks (fun d _ => min d 3 ≠ 3) SimplexSet.empty b b' ∧
    (CompactForm b → CompactForm b') := by
  simp only [bind, Option.bind_eq_some] at h
  obtain ⟨tet, -, c, -, h⟩ := h
  split_ifs at h with hc
  · simp only [Option.bind_eq_some] at h
    obtain ⟨m1, h1, h2⟩ := h
    refine ⟨(Tracks.boundary_step (l := fun x => x.m_boundary.set i (map_get c fmap)) _ ?_
      h1).same (Tracks.co_step (l := fun x => set_insert t x.m_co_boundary) _ h2),
      fun hcf => (hcf.compact_modify h1 (fun hd => absurd hd (by decide))).compact_modify h2
        (fun hd => absurd hd (by decide))⟩
    intro d' k' hp hc
    apply hp
    rw [← hc.1]
    decide
  · simp only [pure, Option.some.injEq] at h
    subst h
    exact ⟨Tracks.start _ _, fun hc => hc⟩

theorem sew_tetrahedra_spec {x x' : Mesh} {st2 st_e tbr : SimplexSet}
    {fmap : List (Nat × Nat)} (h : sew_tetrahedra x st2 st_e tbr fmap = some x') :
    Tracks (fun d _ => min d 3 ≠ 3) SimplexSet.empty x x' ∧
    (CompactForm x → CompactForm x') := by
  unfold sew_tetrahedra at h
  refine foldlM_rel (fun (a b : Mesh) =>
    Tracks (fun d _ => min d 3 ≠ 3) SimplexSet.empty a b ∧
    (CompactForm a → CompactForm b)) ?_ ?_ _ ?_ st2.tetrahedra x x' h
  · intro b
    exact ⟨Tracks.start _ _, fun hc => hc⟩
  · intro a b c h1 h2
    exact ⟨h1.1.same h2.1, fun hc => h2.2 (h1.2 hc)⟩
  · intro b t b' hstep
    split_ifs at hstep with hcond
    · simp only [bind, Option.bind_eq_some] at hstep
      obtain ⟨simplex, -, hfold⟩ := hstep
      refine foldlM_rel (fun (a b : Mesh) =>
        Tracks (fun d _ => min d 3 ≠ 3) SimplexSet.empty a b ∧
        (CompactForm a → CompactForm b)) ?_ ?_ _ ?_ _ b b' hfold
      · intro b
        exact ⟨Tracks.start _ _, fun hc => hc⟩
      · intro a b c h1 h2
        exact ⟨h1.1.same h2.1, fun hc => h2.2 (h1.2 hc)⟩
      · intro a i a' ha
        exact sew_tetrahedra_step_spec ha
    · simp only [pure, Option.some.injEq] at hstep
      subst hstep
      exact ⟨Tracks.start _ _, fun hc => hc⟩

theorem sew_tetrahedra_returns {x : Mesh} {st2 st_e tbr : SimplexSet}
    {fmap : List (Nat × Nat)}
    (hl : ∀ k ∈ st2.tetrahedra, k ∉ st_e.tetrahedra → (x.lookup_simplex 3 k).isSome)
    (hf : ∀ c ∈ tbr.faces, (x.lookup_simplex 2 (map_get c fmap)).isSome) :
    ∃ x', sew_tetrahedra x st2 st_e tbr fmap = some x' := by
  unfold sew_tetrahedra
  have key := foldlM_prefix_returns
    (fun (_ : List Nat) (b : Mesh) => Tracks (fun _ _ => False) SimplexSet.empty x b)
    (fun m t =>
      if !st_e.contains 3 t then do
        let simplex ← m.lookup_simplex 3 t
        (List.range simplex.m_boundary.length).foldlM (fun m i => do
          let tet ← m.lookup_simplex 3 t
          let b ← tet.m_boundary[i]?
          if tbr.contains 2 b then do
            let f := map_get b fmap
            let m ← m.modify 3 t (fun x => x.set_boundary_list (x.m_boundary.set i f))
            m.modify 2 f (fun x => x.add_co_face t)
          else pure m) m
      else pure m) st2.tetrahedra ?_ x (Tracks.start _ _)
  · obtain ⟨r, hr, -⟩ := key
    exact ⟨r, hr⟩
  · intro pre t suf b hL hI
    have ht : t ∈ st2.tetrahedra := by rw [hL]; simp
    by_cases hcond : (!st_e.contains 3 t) = true
    · simp only [hcond, if_true]
      have hc := hcond
      simp only [Bool.not_eq_true', SimplexSet.contains_false_iff] at hc
      have hlive : (b.lookup_simplex 3 t).isSome := by
        rw [hI.live]
        exact hl t ht hc
      obtain ⟨s, hs⟩ := Option.isSome_iff_exists.1 hlive
      simp only [bind, Option.bind_eq_some, hs, Option.some.injEq, exists_eq_left']
      have key2 := foldlM_range_returns
        (fun (_ : Nat) (a : Mesh) => Tracks (fun _ _ => False) SimplexSet.empty x a ∧
          ∃ tet, a.lookup_simplex 3 t = some tet ∧
            tet.m_boundary.length = s.m_boundary.length)
        (fun m i => do
          let tet ← m.lookup_simplex 3 t
          let b ← tet.m_boundary[i]?
          if tbr.contains 2 b then do
            let f := map_get b fmap
            let m ← m.modify 3 t (fun x => x.set_boundary_list (x.m_boundary.set i f))
            m.modify 2 f (fun x => x.add_co_face t)
          else pure m) s.m_boundary.length b ⟨hI, s, hs, rfl⟩ ?_
      · obtain ⟨b', hb', hI', -⟩ := key2
        exact ⟨b', hb', hI'⟩
      · intro i hi a ⟨hIa, tet, htet, hlen⟩
        have hi' : i < tet.m_boundary.length := by omega
        simp only [bind, Option.bind_eq_some, htet, Option.some.injEq, exists_eq_left',
          List.getElem?_eq_getElem hi']
        by_cases hc2 : tbr.contains 2 tet.m_boundary[i] = true
        · simp only [hc2, if_true]
          obtain ⟨m1, hm1⟩ := Mesh.modify_isSome (fun x => x.set_boundary_list
            (x.m_boundary.set i (map_get tet.m_boundary[i] fmap))) (by rw [htet]; rfl :
              (a.lookup_simplex 3 t).isSome)
          have hf2 : (m1.lookup_simplex 2 (map_get tet.m_boundary[i] fmap)).isSome := by
            rw [Mesh.isSome_modify hm1, hIa.live]
            exact hf _ ((SimplexSet.contains_iff _ _ _).1 hc2)
          obtain ⟨m2, hm2⟩ := Mesh.modify_isSome (fun x => x.add_co_face t) hf2
          refine ⟨m2, by rw [hm1]; exact hm2, ?_, ?_⟩
          · exact (hIa.same (Tracks.boundary_step (l := fun x => x.m_boundary.set i
              (map_get tet.m_boundary[i] fmap)) _ (fun _ _ hp => absurd hp (by simp))
              hm1)).same (Tracks.co_step (l := fun x => set_insert t x.m_co_boundary) _ hm2)
          · have h1 := Mesh.lookup_modify hm1 3 t
            simp only [and_self, if_true, htet, Option.map_some'] at h1
            have h2 := Mesh.lookup_modify hm2 3 t
            have hne : ¬ (min 2 3 = min 3 3 ∧ t = map_get tet.m_boundary[i] fmap) := by
              rintro ⟨hh, -⟩
              revert hh
              decide
            simp only [hne, if_false, h1] at h2
            exact ⟨_, h2, by simp [Simplex.set_boundary_list, hlen]⟩
        · simp only [hc2, if_false]
          exact ⟨a, rfl, hIa, tet, htet, hlen⟩
    · simp only [hcond, if_false]
      exact ⟨b, rfl, hI⟩

end ISMesh
namespace ISMesh

theorem keys_erased_at (d : Nat) (l : List Nat) (d' : Nat) :
    (erased_at d l).keys d' = if min d 3 = min d' 3 then l else [] := by
  rcases d with _ | _ | _ | d <;> rcases d' with _ | _ | _ | d' <;>
    simp [erased_at, SimplexSet.keys, SimplexSet.setKeys, SimplexSet.empty]

theorem erased_at_cons (d : Nat) (l : List Nat) (k : Nat) :
    (erased_at d l).cons d k = erased_at d (k :: l) := by
  rcases d with _ | _ | _ | d <;>
    simp [erased_at, SimplexSet.cons, SimplexSet.keys, SimplexSet.setKeys, SimplexSet.empty]

theorem erased_at_nil (d : Nat) : erased_at d [] = SimplexSet.empty := by
  rcases d with _ | _ | _ | d <;>
    simp [erased_at, SimplexSet.setKeys, SimplexSet.empty]

theorem append_erased_at (E : SimplexSet) :
    E.append SimplexSet.empty = E := by
  simp [SimplexSet.append, SimplexSet.empty]

theorem sew_replace_inner_spec {d : Nat} {kv : Nat × Nat} {a a' : Mesh} {b : Nat}
    (h : (do
      let bs ← a.lookup_simplex d b
      if bs.m_co_boundary.length ≠ 1 then none
      else
        let new_coboundary := bs.m_co_boundary.foldl
          (fun s c => if c = kv.1 then set_insert kv.2 s else set_insert c s) []
        a.modify d b (fun x => x.set_co_boundary_set
          (new_coboundary.foldl (fun s c => set_insert c s) []))) = some a') :
    Tracks (fun _ _ => True) SimplexSet.empty a a' ∧ (CompactForm a → CompactForm a') := by
  simp only [bind, Option.bind_eq_some] at h
  obtain ⟨bs, hbs, h⟩ := h
  split_ifs at h with hlen
  refine ⟨Tracks.co_step (l := fun _ => (bs.m_co_boundary.foldl
      (fun s c => if c = kv.1 then set_insert kv.2 s else set_insert c s) []).foldl
      (fun s c => set_insert c s) []) _ h, fun hc => hc.compact_modify h (fun _ s _ => ?_)⟩
  simp only [ne_eq, not_not] at hlen
  match hcb : bs.m_co_boundary, hlen with
  | [c], _ =>
    simp only [Simplex.set_co_boundary_set, List.foldl_cons, List.foldl_nil]
    split_ifs <;> simp [set_insert]

theorem sew_replace_step_spec {d : Nat} {kv : Nat × Nat} {b b' : Mesh}
    (h : (do
      let simplex ← b.lookup_simplex (d + 1) kv.1
      let m ← simplex.m_boundary.foldlM (fun m b => do
        let bs ← m.lookup_simplex d b
        if bs.m_co_boundary.length ≠ 1 then none
        else
          let new_coboundary := bs.m_co_boundary.foldl
            (fun s c => if c = kv.1 then set_insert kv.2 s else set_insert c s) []
          m.modify d b (fun x => x.set_co_boundary_set
            (new_coboundary.foldl (fun s c => set_insert c s) []))) b
      unsafe_erase m (d + 1) kv.1) = some b') :
    Tracks (fun _ _ => True) (erased_at (d + 1) [kv.1]) b b' ∧
    (CompactForm b → CompactForm b') := by
  simp only [bind, Option.bind_eq_some] at h
  obtain ⟨simplex, -, m1, h1, h2⟩ := h
  have key := foldlM_rel (fun (a b : Mesh) =>
    Tracks (fun _ _ => True) SimplexSet.empty a b ∧ (CompactForm a → CompactForm b)) ?_ ?_
    _ ?_ simplex.m_boundary b m1 h1
  · refine ⟨key.1.erase_eq h2 ?_, fun hc => (key.2 hc).compact_erase h2⟩
    rw [← erased_at_nil (d + 1), erased_at_cons]
  · intro b
    exact ⟨Tracks.start _ _, fun hc => hc⟩
  · intro a b c h1 h2
    exact ⟨h1.1.same h2.1, fun hc => h2.2 (h1.2 hc)⟩
  · intro a y a' ha
    exact sew_replace_inner_spec ha

theorem erased_at_append (d : Nat) (l : List Nat) (k : Nat) :
    (erased_at d l).append (erased_at d [k]) = erased_at d (k :: l) := by
  rcases d with _ | _ | _ | d <;>
    simp [erased_at, SimplexSet.append, SimplexSet.setKeys, SimplexSet.empty]

theorem sew_replace_spec {d : Nat} {mp : List (Nat × Nat)} {x x' : Mesh}
    (h : sew_replace d mp x = some x') :
    Tracks (fun _ _ => True) (erased_at (d + 1) (mp.map Prod.fst).reverse) x x' ∧
    (CompactForm x → CompactForm x') := by
  unfold sew_replace at h
  refine foldlM_prefix_spec
    (fun (pre : List (Nat × Nat)) (b : Mesh) =>
      Tracks (fun _ _ => True) (erased_at (d + 1) (pre.map Prod.fst).reverse) x b ∧
      (CompactForm x → CompactForm b)) _ mp ?_ x x' ?_ h
  · intro pre kv suf b b' _ hI hstep
    obtain ⟨t1, t2⟩ := sew_replace_step_spec hstep
    refine ⟨hI.1.trans_eq t1 ?_, fun hc => t2 (hI.2 hc)⟩
    rw [erased_at_append]
    simp
  · refine ⟨?_, fun hc => hc⟩
    simp only [List.map_nil, List.reverse_nil, erased_at_nil]
    exact Tracks.start _ _

theorem sew_replace_returns {d : Nat} {mp : List (Nat × Nat)} {x : Mesh} (hd : d ≤ 1)
    (hc : CompactForm x) (hn : (mp.map Prod.fst).Nodup)
    (hl : ∀ kv ∈ mp, ∃ s, x.lookup_simplex (d + 1) kv.1 = some s ∧
      ∀ b ∈ s.m_boundary, (x.lookup_simplex d b).isSome) :
    ∃ x', sew_replace d mp x = some x' := by
  unfold sew_replace
  have key := foldlM_prefix_returns
    (fun (pre : List (Nat × Nat)) (b : Mesh) =>
      Tracks (fun _ _ => True) (erased_at (d + 1) (pre.map Prod.fst).reverse) x b ∧
      CompactForm b)
    (fun m kv => do
      let simplex ← m.lookup_simplex (d + 1) kv.1
      let m ← simplex.m_boundary.foldlM (fun m b => do
        let bs ← m.lookup_simplex d b
        if bs.m_co_boundary.length ≠ 1 then none
        else
          let new_coboundary := bs.m_co_boundary.foldl
            (fun s c => if c = kv.1 then set_insert kv.2 s else set_insert c s) []
          m.modify d b (fun x => x.set_co_boundary_set
            (new_coboundary.foldl (fun s c => set_insert c s) []))) m
      unsafe_erase m (d + 1) kv.1) mp ?_ x
    ⟨by simp only [List.map_nil, List.reverse_nil, erased_at_nil]; exact Tracks.start _ _, hc⟩
  · obtain ⟨r, hr, -⟩ := key
    exact ⟨r, hr⟩
  · intro pre kv suf b hL hI
    have hkv : kv ∈ mp := by rw [hL]; simp
    have hnp : kv.1 ∉ pre.map Prod.fst := by
      rw [hL] at hn
      simp only [List.map_append, List.map_cons] at hn
      have := List.nodup_append.1 hn
      intro hc
      exact this.2.2 hc (List.mem_cons_self _ _)
    obtain ⟨s, hs, hb⟩ := hl kv hkv
    obtain ⟨s', hs', hbs⟩ := hI.1.lookup_of (d := d + 1) trivial hs (by
      rw [keys_erased_at]
      simp only [if_true, List.mem_reverse]
      exact hnp)
    have key2 := foldlM_prefix_returns
      (fun (_ : List Nat) (a : Mesh) =>
        Tracks (fun _ _ => True) SimplexSet.empty b a ∧ CompactForm a)
      (fun m b => do
        let bs ← m.lookup_simplex d b
        if bs.m_co_boundary.length ≠ 1 then none
        else
          let new_coboundary := bs.m_co_boundary.foldl
            (fun s c => if c = kv.1 then set_insert kv.2 s else set_insert c s) []
          m.modify d b (fun x => x.set_co_boundary_set
            (new_coboundary.foldl (fun s c => set_insert c s) []))) s'.m_boundary ?_ b
      ⟨Tracks.start _ _, hI.2⟩
    · obtain ⟨m1, hm1, t1, c1⟩ := key2
      have hlive : (m1.lookup_simplex (d + 1) kv.1).isSome := by
        rw [t1.live, hs']; rfl
      obtain ⟨b', hb'⟩ := unsafe_erase_returns hlive
      have hstep : (do
          let simplex ← b.lookup_simplex (d + 1) kv.1
          let m ← simplex.m_boundary.foldlM (fun m b => do
            let bs ← m.lookup_simplex d b
            if bs.m_co_boundary.length ≠ 1 then none
            else
              let new_coboundary := bs.m_co_boundary.foldl
                (fun s c => if c = kv.1 then set_insert kv.2 s else set_insert c s) []
              m.modify d b (fun x => x.set_co_boundary_set
                (new_coboundary.foldl (fun s c => set_insert c s) []))) b
          unsafe_erase m (d + 1) kv.1) = some b' := by
        simp only [bind, Option.bind_eq_some]
        exact ⟨s', hs', m1, hm1, hb'⟩
      refine ⟨b', hstep, ?_, c1.compact_erase hb'⟩
      obtain ⟨t2, -⟩ := sew_replace_step_spec hstep
      refine hI.1.trans_eq t2 ?_
      rw [erased_at_append]
      simp
    · intro pre2 y suf2 a hL2 ⟨ha, hca⟩
      have hy : y ∈ s.m_boundary := by rw [← hbs, hL2]; simp
      have hlive : (a.lookup_simplex d y).isSome := by
        rw [ha.live]
        refine (hI.1.1 d y).2 ⟨hb y hy, ?_⟩
        rw [keys_erased_at]
        have : ¬ (min (d + 1) 3 = min d 3) := by omega
        simp [this]
      obtain ⟨bs, hbs'⟩ := Option.isSome_iff_exists.1 hlive
      have hlen := hca d y bs (by omega) hbs'
      obtain ⟨a', ha'⟩ := Mesh.modify_isSome (fun x => x.set_co_boundary_set
            ((bs.m_co_boundary.foldl
            (fun s c => if c = kv.1 then set_insert kv.2 s else set_insert c s) []).foldl
              (fun s c => set_insert c s) [])) hlive
      have hstep : (do
            let bs ← a.lookup_simplex d y
            if bs.m_co_boundary.length ≠ 1 then none
            else
              let new_coboundary := bs.m_co_boundary.foldl
                (fun s c => if c = kv.1 then set_insert kv.2 s else set_insert c s) []
              a.modify d y (fun x => x.set_co_boundary_set
                (new_coboundary.foldl (fun s c => set_insert c s) []))) = some a' := by
        simp only [bind, Option.bind_eq_some]
        refine ⟨bs, hbs', ?_⟩
        simp only [hlen, ne_eq, not_true_eq_false, if_false]
        exact ha'
      obtain ⟨t3, c3⟩ := sew_replace_inner_spec hstep
      exact ⟨a', hstep, ha.same t3, c3 hca⟩

end ISMesh
namespace ISMesh

/-- C15: the single-tetrahedron scenario. The insertion chain of 4 nodes, 6 edges, 4 faces
and the tetrahedron runs, and gives `size_nodes() = 4`, `size_edges() = 6`,
`size_faces() = 4`, `size_tetrahedra() = 1` and the live faces 0..3, each with a
co-boundary of size exactly 1. -/
theorem single_tetrahedron_scenario :
    (run_inserts Mesh.empty tetrahedron_script).map (fun m =>
      (m.size_nodes, m.size_edges, m.size_faces, m.size_tetrahedra)) = some (4, 6, 4, 1) ∧
    (run_inserts Mesh.empty tetrahedron_script).map (fun m =>
      (m.m_face_kernel.keys, m.m_face_kernel.keys.map (fun f =>
          (m.lookup_simplex 2 f).map (fun s => s.m_co_boundary.length)))) =
      some ([0, 1, 2, 3], [some 1, some 1, some 1, some 1]) := by
  decide!

/-- C16: the glued-tetrahedra scenario. In the mesh built by the insert operators from 5
nodes as two tetrahedra sharing the face 3, the face 3 has co-boundary size 2 and
`is_boundary` false, each of the other 6 faces has co-boundary size 1 and `is_boundary`
true. -/
theorem glued_tetrahedra_scenario :
    (run_inserts Mesh.empty glued_script).map (fun m =>
      (m.size_nodes, m.size_tetrahedra, m.m_face_kernel.keys.map (fun f =>
          ((m.lookup_simplex 2 f).map (fun s => s.m_co_boundary.length),
            (is_boundary m 2 f).map (fun r => r.2))))) =
      some (5, 2, [(some 1, some true), (some 1, some true), (some 1, some true),
        (some 2, some false), (some 1, some true), (some 1, some true),
        (some 1, some true)]) := by
  decide!

/-- C18: `remove` on the node 0 of the mesh with the triangle (123) and the edge (0,1)
returns, and afterwards the node 0 still exists and `size_nodes()` is as before, while the
face 0, which does not touch the node, has been erased. -/
theorem remove_node_keeps_node :
    (remove (2 * stray_mesh.fuel) 0 0 stray_mesh).map (fun m =>
      (Mesh.«exists» m 0 0, m.size_nodes, Mesh.«exists» m 1 3, Mesh.«exists» m 2 0, m.size_faces)) =
      some (true, 4, false, false, 0) ∧
    (Mesh.«exists» stray_mesh 0 0, stray_mesh.size_nodes, Mesh.«exists» stray_mesh 2 0,
      (stray_mesh.lookup_simplex 2 0).map (fun s => s.m_boundary),
      (stray_mesh.lookup_simplex 1 3).map (fun s => s.m_boundary)) =
      (true, 4, true, some [0, 1, 2], some [0, 1]) := by
  decide!

/-- C11: the round trip on the node 0 of the compact mesh with three tetrahedra around an
edge. Before, the node is compact with the one representative edge 0 of its connected
star; `uncompress(0)` lists the four edges 0..3 of the star; `compress({0})` then leaves
the node compact with the three representatives 0, 2, 3. -/
theorem compress_round_trip_node :
    (fan_compact_mesh.lookup_simplex 0 0).map (fun s => (s.m_co_boundary, s.m_is_compact)) =
      some ([0], true) ∧
    (uncompress fan_compact_mesh 0 0).map (fun m =>
      (m.lookup_simplex 0 0).map (fun s => (s.m_co_boundary, s.m_is_compact))) =
      some (some ([0, 1, 2, 3], false)) ∧
    ((uncompress fan_compact_mesh 0 0).bind (fun m => compress m ⟨[0], [], [], []⟩)).map
      (fun m => (m.lookup_simplex 0 0).map (fun s => (s.m_co_boundary, s.m_is_compact))) =
      some (some ([0, 2, 3], true)) := by
  decide!

end ISMesh
namespace ISMesh

/-! # Compress state, boundary queries and validation -/

/-- C12, as amended: `uncompress(k)` on a live node or edge whose compact flag is false
leaves every simplex and the undo log as they are and adds 1 to the counter
`m_uncompressed`. -/
theorem uncompress_uncompressed_counts (m : Mesh) (d k : Nat) (s : Simplex) (hd : d < 2)
    (hs : m.lookup_simplex d k = some s) (hc : s.m_is_compact = false) :
    uncompress m d k = some m.incr_uncompressed ∧
    m.incr_uncompressed.m_uncompressed = m.m_uncompressed + 1 ∧
    (∀ d' k', m.incr_uncompressed.lookup_simplex d' k' = m.lookup_simplex d' k') := by
  have hk : ∀ d' k', m.incr_uncompressed.lookup_simplex d' k' = m.lookup_simplex d' k' := by
    intro d' k'
    unfold Mesh.lookup_simplex
    rw [Mesh.kernel_incr_uncompressed]
  refine ⟨?_, rfl, hk⟩
  unfold uncompress
  have : ¬ d ≥ 2 := by omega
  simp only [this, if_false, bind, pure, hk, hs, Option.some_bind, hc, Bool.not_false, if_true]

/-- Witness of C12 as amended: the node 0 of the mesh with one triangle. -/
theorem uncompress_uncompressed_counts_witness :
    triangle_mesh.lookup_simplex 0 0 = some ⟨[], [0, 2], false, 0⟩ ∧
    uncompress triangle_mesh 0 0 = some triangle_mesh.incr_uncompressed ∧
    triangle_mesh.incr_uncompressed.m_uncompressed = triangle_mesh.m_uncompressed + 1 ∧
    (∀ d' k', triangle_mesh.incr_uncompressed.lookup_simplex d' k' =
      triangle_mesh.lookup_simplex d' k') :=
  ⟨by decide!, uncompress_uncompressed_counts triangle_mesh 0 0 ⟨[], [0, 2], false, 0⟩
    (by decide) (by decide!) rfl⟩

/-- C12 fails as stated: the node 0 of the mesh with one triangle has its compact flag
false, and `uncompress(0)` returns a mesh that differs from the mesh before the call (the
counter `m_uncompressed` has grown). -/
theorem uncompress_uncompressed_changes_counter :
    (triangle_mesh.lookup_simplex 0 0).map (fun s => s.m_is_compact) = some false ∧
    uncompress triangle_mesh 0 0 ≠ some triangle_mesh ∧
    (uncompress triangle_mesh 0 0).map (fun m => m.m_uncompressed) =
      some (triangle_mesh.m_uncompressed + 1) := by
  decide!

/-- C19, as amended: for every live face `f`, `is_boundary(f)` returns, leaves the mesh as
it is, and is false if and only if the co-boundary of `f` has size exactly 2. -/
theorem is_boundary_face_iff (m : Mesh) (f : Nat) (s : Simplex)
    (hs : m.lookup_simplex 2 f = some s) :
    ∃ b, is_boundary m 2 f = some (m, b) ∧ (b = false ↔ s.m_co_boundary.length = 2) := by
  unfold is_boundary
  simp only [bind, hs, Option.some_bind, pure]
  by_cases h : s.m_co_boundary.length = 2
  · exact ⟨false, by simp [h], by simp [h]⟩
  · exact ⟨true, by simp [h], by simp [h]⟩

/-- Witness of C19 as amended: the face 3 shared by the two glued tetrahedra. -/
theorem is_boundary_face_iff_witness :
    glued_mesh.lookup_simplex 2 3 = some ⟨[3, 5, 4], [0, 1], true, 0⟩ ∧
    ∃ b, is_boundary glued_mesh 2 3 = some (glued_mesh, b) ∧
      (b = false ↔ (⟨[3, 5, 4], [0, 1], true, 0⟩ : Simplex).m_co_boundary.length = 2) :=
  ⟨by decide!, is_boundary_face_iff glued_mesh 3 ⟨[3, 5, 4], [0, 1], true, 0⟩ (by decide!)⟩

/-- C19 fails as stated: the face 0 of the mesh with one triangle is live, `is_boundary`
is true for it, and its co-boundary has size 0, not 1. -/
theorem is_boundary_face_empty_co_boundary :
    (triangle_mesh.lookup_simplex 2 0).map (fun s => s.m_co_boundary.length) = some 0 ∧
    (is_boundary triangle_mesh 2 0).map (fun r => r.2) = some true := by
  decide!

/-- C14, as amended: on a mesh with no outstanding mark (empty mark stacks, no mark in
the kernels), `undo()` returns normally and leaves the mesh as it is, and `commit()`
fails. -/
theorem undo_commit_without_mark (m : Mesh)
    (h : ∀ d, d ≤ 3 → m.mark_stack d = [] ∧ (m.kernel d).marks = []) :
    undo m = some m ∧ commit m = none := by
  constructor
  · unfold undo
    rw [undo_dim_no_mark (h 0 (by omega)).1]
    simp only [bind, Option.some_bind]
    rw [undo_dim_no_mark (h 1 (by omega)).1]
    simp only [bind, Option.some_bind]
    rw [undo_dim_no_mark (h 2 (by omega)).1]
    simp only [bind, Option.some_bind]
    exact undo_dim_no_mark (h 3 (by omega)).1
  · unfold commit commit_dim
    have := (h 0 (by omega)).2
    simp only [Kernel.commit, this, bind, Option.none_bind]

/-- Witness of C14 as amended: the mesh with one tetrahedron, on which no mark was set. -/
theorem undo_commit_without_mark_witness :
    (∀ d, d ≤ 3 → tetrahedron_mesh.mark_stack d = [] ∧
      (tetrahedron_mesh.kernel d).marks = []) ∧
    undo tetrahedron_mesh = some tetrahedron_mesh ∧ commit tetrahedron_mesh = none :=
  have h : ∀ d, d ≤ 3 → tetrahedron_mesh.mark_stack d = [] ∧
      (tetrahedron_mesh.kernel d).marks = [] := by
    intro d hd
    have : d = 0 ∨ d = 1 ∨ d = 2 ∨ d = 3 := by omega
    rcases this with rfl | rfl | rfl | rfl <;> decide!
  ⟨h, undo_commit_without_mark tetrahedron_mesh h⟩

/-- C14 fails as stated: `undo()` on the mesh with one tetrahedron, which has no
outstanding mark, returns normally, with the mesh unchanged. -/
theorem undo_without_mark_returns :
    tetrahedron_mesh.m_node_mark_stack = [] ∧ tetrahedron_mesh.m_edge_mark_stack = [] ∧
    tetrahedron_mesh.m_face_mark_stack = [] ∧ tetrahedron_mesh.m_tetrahedron_mark_stack = [] ∧
    undo tetrahedron_mesh = some tetrahedron_mesh := by
  decide!

end ISMesh
namespace ISMesh

/-! # Commit -/

theorem Mesh.ext_dims {x y : Mesh} (h : ∀ d, d ≤ 3 → DimEq d x y)
    (hu : y.m_uncompressed = x.m_uncompressed) : y = x := by
  obtain ⟨a0, b0, c0⟩ := h 0 (by omega)
  obtain ⟨a1, b1, c1⟩ := h 1 (by omega)
  obtain ⟨a2, b2, c2⟩ := h 2 (by omega)
  obtain ⟨a3, b3, c3⟩ := h 3 (by omega)
  cases x
  cases y
  simp only [Mesh.kernel, Mesh.undo_stack, Mesh.mark_stack] at a0 b0 c0 a1 b1 c1 a2 b2 c2 a3 b3 c3 hu
  simp only [Mesh.mk.injEq]
  exact ⟨a0, a1, a2, a3, b0, b1, b2, b3, c0, c1, c2, c3, hu⟩

theorem Mesh.uncompressed_setKernel (m : Mesh) (d : Nat) (K : Kernel) :
    (m.setKernel d K).m_uncompressed = m.m_uncompressed := by
  rcases d with _ | _ | _ | d <;> rfl

theorem Mesh.uncompressed_set_undo_stack (m : Mesh) (d : Nat) (l : List UndoInfo) :
    (m.set_undo_stack d l).m_uncompressed = m.m_uncompressed := by
  rcases d with _ | _ | _ | d <;> rfl

theorem Mesh.uncompressed_set_mark_stack (m : Mesh) (d : Nat) (l : List Nat) :
    (m.set_mark_stack d l).m_uncompressed = m.m_uncompressed := by
  rcases d with _ | _ | _ | d <;> rfl

theorem set_undo_mark_dim_uncompressed {d : Nat} {M : SimplexSet} {ma mb : Mesh}
    (h : set_undo_mark_dim d M ma = some mb) : mb.m_uncompressed = ma.m_uncompressed := by
  unfold set_undo_mark_dim at h
  split_ifs at h with hk
  · have := foldlM_rel (fun (a b : Mesh) => b.m_uncompressed = a.m_uncompressed)
      (fun _ => rfl) (fun a b c h1 h2 => h2.trans h1) _ ?_ _ _ _ h
    · rw [this, Mesh.uncompressed_setKernel, Mesh.uncompressed_set_mark_stack]
    · intro b k b' hb
      simp only [bind, Option.bind_eq_some, pure, Option.some.injEq] at hb
      obtain ⟨s, -, rfl⟩ := hb
      exact Mesh.uncompressed_set_undo_stack _ _ _
  · simp only [pure, Option.some.injEq] at h
    subst h
    rfl

theorem set_undo_mark_uncompressed {M : SimplexSet} {m m1 : Mesh}
    (h : set_undo_mark m M = some m1) : m1.m_uncompressed = m.m_uncompressed := by
  unfold set_undo_mark at h
  simp only [bind, Option.bind_eq_some] at h
  obtain ⟨a, ha, b, hb, c, hc, hd⟩ := h
  rw [set_undo_mark_dim_uncompressed hd, set_undo_mark_dim_uncompressed hc,
    set_undo_mark_dim_uncompressed hb, set_undo_mark_dim_uncompressed ha]

theorem set_undo_mark_loop_returns (d : Nat) (L : List Nat) :
    ∀ (ma : Mesh), (∀ k ∈ L, (ma.lookup_simplex d k).isSome) →
      ∃ mb, L.foldlM (fun m k => do
        let s ← m.lookup_simplex d k
        pure (m.set_undo_stack d (m.undo_stack d ++ [undo_info d k s]))) ma = some mb := by
  induction L with
  | nil => intro ma _; exact ⟨ma, rfl⟩
  | cons k L ih =>
    intro ma hl
    obtain ⟨s, hs⟩ := Option.isSome_iff_exists.1 (hl k (List.mem_cons_self _ _))
    obtain ⟨mb, hmb⟩ := ih (ma.set_undo_stack d (ma.undo_stack d ++ [undo_info d k s])) (by
      intro k' hk'
      have := hl k' (List.mem_cons_of_mem _ hk')
      unfold Mesh.lookup_simplex at this ⊢
      rw [Mesh.kernel_set_undo_stack]
      exact this)
    refine ⟨mb, ?_⟩
    simp only [List.foldlM_cons, bind, Option.bind_eq_some, pure, Option.some.injEq]
    exact ⟨_, ⟨s, hs, rfl⟩, hmb⟩

theorem set_undo_mark_dim_returns (d : Nat) (M : SimplexSet) (ma : Mesh)
    (hl : ∀ k ∈ M.keys d, (ma.lookup_simplex d k).isSome) :
    ∃ mb, set_undo_mark_dim d M ma = some mb := by
  unfold set_undo_mark_dim
  split_ifs with hk
  · refine set_undo_mark_loop_returns d _ _ ?_
    intro k hk'
    have := hl k hk'
    unfold Mesh.lookup_simplex at this ⊢
    rw [Mesh.kernel_setKernel]
    simp only [if_true, Mesh.kernel_set_mark_stack]
    unfold Kernel.find Kernel.set_undo_mark
    exact this
  · exact ⟨ma, rfl⟩

theorem set_undo_mark_returns {M : SimplexSet} {m : Mesh}
    (hl : ∀ d, d ≤ 3 → ∀ k ∈ M.keys d, (m.lookup_simplex d k).isSome) :
    ∃ m1, set_undo_mark m M = some m1 := by
  have live : ∀ {d : Nat} {x y : Mesh}, set_undo_mark_dim d M x = some y →
      ∀ d' k, (y.lookup_simplex d' k).isSome = (x.lookup_simplex d' k).isSome := by
    intro d x y h d' k
    obtain ⟨s1, s2, -, -⟩ := set_undo_mark_dim_spec h
    unfold Mesh.lookup_simplex Kernel.find
    by_cases hd : min d 3 = min d' 3
    · rw [Mesh.kernel_of_min y hd, Mesh.kernel_of_min x hd, s2]
    · rw [(s1 d' hd).1]
  obtain ⟨a, ha⟩ := set_undo_mark_dim_returns 0 M m (hl 0 (by omega))
  obtain ⟨b, hb⟩ := set_undo_mark_dim_returns 1 M a (by
    intro k hk; rw [live ha]; exact hl 1 (by omega) k hk)
  obtain ⟨c, hc⟩ := set_undo_mark_dim_returns 2 M b (by
    intro k hk; rw [live hb, live ha]; exact hl 2 (by omega) k hk)
  obtain ⟨e, he⟩ := set_undo_mark_dim_returns 3 M c (by
    intro k hk; rw [live hc, live hb, live ha]; exact hl 3 (by omega) k hk)
  refine ⟨e, ?_⟩
  unfold set_undo_mark
  simp only [bind, Option.bind_eq_some]
  exact ⟨a, ha, b, hb, c, hc, he⟩

/-- What one block of `commit` does on a dimension with an outstanding mark. -/
theorem commit_dim_spec {d : Nat} {x : Mesh} {snap : List Bool} {km : List (List Bool)}
    {i : Nat} {rest : List Nat} (hk : (x.kernel d).marks = snap :: km)
    (hm : x.mark_stack d = i :: rest) (hi : i ≤ (x.undo_stack d).length) :
    ∃ y, commit_dim d x = some y ∧
      y.kernel d = { elements := (x.kernel d).elements, marks := km } ∧
      y.undo_stack d = (x.undo_stack d).take ((x.undo_stack d).length - i) ∧
      y.mark_stack d = rest ∧
      (∀ d', min d 3 ≠ min d' 3 → DimEq d' x y) ∧
      y.m_uncompressed = x.m_uncompressed := by
  unfold commit_dim
  simp only [Kernel.commit, hk, bind, Option.some_bind, Mesh.mark_stack_setKernel, hm,
    Mesh.undo_stack_setKernel, pure]
  have : ¬ (x.undo_stack d).length < i := by omega
  simp only [this, if_false]
  refine ⟨_, rfl, ?_, ?_, ?_, ?_, ?_⟩
  · rw [Mesh.kernel_set_mark_stack, Mesh.kernel_set_undo_stack, Mesh.kernel_setKernel]
    simp
  · rw [Mesh.undo_stack_set_mark_stack, Mesh.undo_stack_set_undo_stack]
    simp
  · rw [Mesh.mark_stack_set_mark_stack]
    simp
  · intro d' hd
    refine ⟨?_, ?_, ?_⟩
    · rw [Mesh.kernel_set_mark_stack, Mesh.kernel_set_undo_stack, Mesh.kernel_setKernel]
      simp [hd]
    · rw [Mesh.undo_stack_set_mark_stack, Mesh.undo_stack_set_undo_stack]
      simp [hd, Mesh.undo_stack_setKernel]
    · rw [Mesh.mark_stack_set_mark_stack]
      simp [hd, Mesh.mark_stack_set_undo_stack, Mesh.mark_stack_setKernel]
  · rw [Mesh.uncompressed_set_mark_stack, Mesh.uncompressed_set_undo_stack,
      Mesh.uncompressed_setKernel]


/-- One block of `commit` after `set_undo_mark(M)`, on a dimension in which `M` is not
empty: the dimension is as it was before the mark. -/
theorem commit_dim_after_mark {d : Nat} {m m1 x : Mesh} {M : SimplexSet} (hd : d ≤ 3)
    (h : set_undo_mark m M = some m1) (hne : M.keys d ≠ []) (hx : DimEq d m1 x) :
    ∃ y, commit_dim d x = some y ∧ DimEq d m y ∧
      (∀ d', min d 3 ≠ min d' 3 → DimEq d' x y) ∧ y.m_uncompressed = x.m_uncompressed := by
  obtain ⟨he, -, hp⟩ := set_undo_mark_spec h d hd
  obtain ⟨p1, p2, infos, p3, p4⟩ := hp hne
  have hlen : infos.length = (M.keys d).length := (List.Forall₂.length_eq p4).symm
  obtain ⟨y, hy, y1, y2, y3, y4, y5⟩ := @commit_dim_spec d x
    ((m.kernel d).elements.map (fun e => e.valid)) (m.kernel d).marks
    (M.keys d).length (m.mark_stack d)
    (by rw [hx.1, p2]) (by rw [hx.2.2, p1]) (by
      rw [hx.2.1, p3, List.length_append]
      omega)
  refine ⟨y, hy, ⟨?_, ?_, y3⟩, y4, y5⟩
  · rw [y1, hx.1, he]
  · rw [y2, hx.2.1, p3, List.length_append, hlen]
    simp

/-- C13, as amended: for a set `M` that holds a live simplex in each of the four
dimensions and no other key, `set_undo_mark(M)` followed by `commit()` returns and leaves
the whole state of the mesh (the live simplices, every boundary list and co-boundary set,
the undo and mark stacks) as it was before the mark. -/
theorem mark_commit_restores (m : Mesh) (M : SimplexSet)
    (hne : ∀ d, d ≤ 3 → M.keys d ≠ [])
    (hl : ∀ d, d ≤ 3 → ∀ k ∈ M.keys d, (m.lookup_simplex d k).isSome) :
    ∃ m1, set_undo_mark m M = some m1 ∧ commit m1 = some m := by
  obtain ⟨m1, h⟩ := set_undo_mark_returns hl
  refine ⟨m1, h, ?_⟩
  obtain ⟨y0, c0, e0, f0, u0⟩ := commit_dim_after_mark (d := 0) (x := m1) (by omega) h
    (hne 0 (by omega)) (DimEq.dim_refl _ _)
  obtain ⟨y1, c1, e1, f1, u1⟩ := commit_dim_after_mark (d := 1) (x := y0) (by omega) h
    (hne 1 (by omega)) (f0 1 (by decide))
  obtain ⟨y2, c2, e2, f2, u2⟩ := commit_dim_after_mark (d := 2) (x := y1) (by omega) h
    (hne 2 (by omega)) ((f0 2 (by decide)).dim_trans (f1 2 (by decide)))
  obtain ⟨y3, c3, e3, f3, u3⟩ := commit_dim_after_mark (d := 3) (x := y2) (by omega) h
    (hne 3 (by omega))
    (((f0 3 (by decide)).dim_trans (f1 3 (by decide))).dim_trans (f2 3 (by decide)))
  have hfin : y3 = m := by
    refine Mesh.ext_dims ?_ ?_
    · intro d hd
      have : d = 0 ∨ d = 1 ∨ d = 2 ∨ d = 3 := by omega
      rcases this with rfl | rfl | rfl | rfl
      · exact ((e0.dim_trans (f1 0 (by decide))).dim_trans (f2 0 (by decide))).dim_trans
          (f3 0 (by decide))
      · exact (e1.dim_trans (f2 1 (by decide))).dim_trans (f3 1 (by decide))
      · exact e2.dim_trans (f3 2 (by decide))
      · exact e3
    · rw [u3, u2, u1, u0, set_undo_mark_uncompressed h]
  unfold commit
  simp only [bind, Option.bind_eq_some]
  exact ⟨y0, c0, y1, c1, y2, c2, hfin ▸ c3⟩

/-- Witness of C13 as amended: the node 0, the edge 0, the face 0 and the tetrahedron 0 of
the mesh with one tetrahedron. -/
theorem mark_commit_restores_witness :
    (∀ d, d ≤ 3 → undo_example_set.keys d ≠ []) ∧
    (∀ d, d ≤ 3 → ∀ k ∈ undo_example_set.keys d,
      (tetrahedron_mesh.lookup_simplex d k).isSome) ∧
    ∃ m1, set_undo_mark tetrahedron_mesh undo_example_set = some m1 ∧
      commit m1 = some tetrahedron_mesh :=
  have h1 : ∀ d, d ≤ 3 → undo_example_set.keys d ≠ [] := by
    intro d hd
    have : d = 0 ∨ d = 1 ∨ d = 2 ∨ d = 3 := by omega
    rcases this with rfl | rfl | rfl | rfl <;> decide
  have h2 : ∀ d, d ≤ 3 → ∀ k ∈ undo_example_set.keys d,
      (tetrahedron_mesh.lookup_simplex d k).isSome := by
    intro d hd
    have : d = 0 ∨ d = 1 ∨ d = 2 ∨ d = 3 := by omega
    rcases this with rfl | rfl | rfl | rfl <;> decide!
  ⟨h1, h2, mark_commit_restores tetrahedron_mesh undo_example_set h1 h2⟩

/-- C13 fails as stated: on the mesh with one tetrahedron that holds an outstanding mark
on the node 0, the edge 0, the face 0 and the tetrahedron 0, `set_undo_mark` on the node 0
alone followed by `commit()` returns a mesh whose edge mark stack and edge undo stack are
empty, while before that mark they held the older mark and its record. -/
theorem mark_commit_drops_older_mark :
    (undo_example_marked.m_edge_mark_stack, undo_example_marked.m_edge_undo_stack.length) =
      (([1] : List Nat), 1) ∧
    ((set_undo_mark undo_example_marked ⟨[0], [], [], []⟩).bind commit).map
      (fun m => (m.m_edge_mark_stack, m.m_edge_undo_stack.length)) =
      some (([] : List Nat), 0) := by
  decide!

end ISMesh
namespace ISMesh

/-! # Validation of the faces -/

theorem foldlM_unit_all {α : Type} (g : α → Option Unit) (L : List α)
    (h : L.foldlM (fun _ x => g x) () = some ()) : ∀ x ∈ L, g x = some () := by
  induction L with
  | nil => intro x hx; cases hx
  | cons a L ih =>
    simp only [List.foldlM_cons, bind, Option.bind_eq_some] at h
    obtain ⟨u, h1, h2⟩ := h
    intro x hx
    rcases List.mem_cons.1 hx with rfl | hx
    · exact h1
    · exact ih h2 x hx

theorem Kernel.mem_keys {K : Kernel} {k : Nat} {s : Simplex} (h : K.find k = some s) :
    k ∈ K.keys := by
  unfold Kernel.keys
  rw [List.mem_filter, List.mem_range]
  refine ⟨?_, by unfold Kernel.is_valid; rw [h]; rfl⟩
  have := Kernel.find_eq_some.1 h
  by_contra hc
  rw [List.getElem?_eq_none (by omega)] at this
  cases this

/-- C20, as amended: whenever `validate_faces()` passes, every live face has a co-boundary
of size 1 or 2. -/
theorem validate_faces_bound (m : Mesh) (h : validate_faces m = some ()) (f : Nat)
    (s : Simplex) (hs : m.lookup_simplex 2 f = some s) :
    s.m_co_boundary.length = 1 ∨ s.m_co_boundary.length = 2 := by
  unfold validate_faces at h
  have hf := foldlM_unit_all (validate_face m) _ h f (Kernel.mem_keys hs)
  unfold validate_face at hf
  simp only [bind, Option.bind_eq_some, hs, Option.some.injEq, exists_eq_left'] at hf
  split_ifs at hf with h1 h2 h3
  · omega
  · simp only [Option.bind_eq_some] at hf
    obtain ⟨_, -, hf⟩ := hf
    cases hf
  · simp only [Option.bind_eq_some] at hf
    obtain ⟨_, -, hf⟩ := hf
    cases hf

/-- Witness of C20 as amended: the two glued tetrahedra pass `validate_faces()`. -/
theorem validate_faces_bound_witness :
    validate_faces glued_mesh = some () ∧
    glued_mesh.lookup_simplex 2 3 = some ⟨[3, 5, 4], [0, 1], true, 0⟩ ∧
    ((⟨[3, 5, 4], [0, 1], true, 0⟩ : Simplex).m_co_boundary.length = 1 ∨
      (⟨[3, 5, 4], [0, 1], true, 0⟩ : Simplex).m_co_boundary.length = 2) :=
  ⟨by decide!, by decide!,
    validate_faces_bound glued_mesh (by decide!) 3 ⟨[3, 5, 4], [0, 1], true, 0⟩ (by decide!)⟩

/-- C20 fails as stated: `insert_face` on the three edges of the hollow triangle returns
the face 0, which is live and has a co-boundary of size 0. -/
theorem insert_face_empty_co_boundary :
    (insert_face hollow_triangle_mesh 0 1 2).map (fun r =>
      (r.2, (r.1.lookup_simplex 2 r.2).map (fun s => s.m_co_boundary.length))) =
      some (0, some 0) := by
  decide!

end ISMesh
namespace ISMesh

/-! # Sewing the hole up -/

theorem sew_hole_up_phases {x x1 x2 x3 x4 x5 : Mesh} {n1 n2 : Nat}
    {st2 st_e tbr : SimplexSet} {emap fmap : List (Nat × Nat)} (hne : n1 ≠ n2)
    (hnd : ∀ k s, x.lookup_simplex 1 k = some s → s.m_boundary.Nodup)
    (h1 : sew_edges x n1 n2 st2 st_e tbr = some x1)
    (h2 : sew_faces x1 st2 st_e tbr emap = some x2)
    (h3 : sew_tetrahedra x2 st2 st_e tbr fmap = some x3)
    (h4 : sew_replace 1 fmap x3 = some x4)
    (h5 : sew_replace 0 emap x4 = some x5) :
    Tracks (fun d k => min d 3 = 0 ∨ (min d 3 = 2 ∧ k ∈ tbr.faces)) SimplexSet.empty x x3 ∧
    Tracks (fun d _ => min d 3 ≤ 1) SimplexSet.empty x1 x3 ∧
    Tracks (fun d _ => min d 3 ≤ 1) (erased_at 2 (fmap.map Prod.fst).reverse) x1 x4 ∧
    Tracks (fun d _ => min d 3 ≤ 1)
      ⟨[], (emap.map Prod.fst).reverse, (fmap.map Prod.fst).reverse, []⟩ x1 x5 ∧
    Tracks (fun d _ => min d 3 = 0) SimplexSet.empty x x1 ∧
    EdgesSewn n1 n2 st2.edges st_e tbr x x1 ∧
    (CompactForm x → CompactForm x3 ∧ CompactForm x4 ∧ CompactForm x5) := by
  obtain ⟨a1, c1, e1⟩ := sew_edges_spec hne hnd h1
  obtain ⟨a2, c2⟩ := sew_faces_spec h2
  obtain ⟨a3, c3⟩ := sew_tetrahedra_spec h3
  obtain ⟨a4, c4⟩ := sew_replace_spec h4
  obtain ⟨a5, c5⟩ := sew_replace_spec h5
  have t13 : Tracks (fun d _ => min d 3 ≤ 1) SimplexSet.empty x1 x3 :=
    (a2.weaken (fun d k (h : min d 3 ≤ 1) => Or.inl (by omega))).same
      (a3.weaken (fun d k (h : min d 3 ≤ 1) => by omega))
  have t14 : Tracks (fun d _ => min d 3 ≤ 1) (erased_at 2 (fmap.map Prod.fst).reverse) x1 x4 :=
    t13.trans_eq (a4.weaken (fun _ _ _ => trivial)) (by
      simp [SimplexSet.append, erased_at, SimplexSet.setKeys, SimplexSet.empty])
  refine ⟨?_, t13, t14, ?_, a1.weaken (fun d k (h : min d 3 = 0) => by omega), e1,
    fun hc => ⟨c3 (c2 (c1 hc)), c4 (c3 (c2 (c1 hc))), c5 (c4 (c3 (c2 (c1 hc))))⟩⟩
  · exact ((a1.weaken (fun d k h => by rcases h with h | h <;> omega)).same
      (a2.weaken (fun d k h => by
        rcases h with h | h
        · exact Or.inl (by omega)
        · exact Or.inr h.2))).same
      (a3.weaken (fun d k h => by rcases h with h | h <;> omega))
  · exact t14.trans_eq (a5.weaken (fun _ _ _ => trivial)) (by
      simp [SimplexSet.append, erased_at, SimplexSet.setKeys, SimplexSet.empty])

theorem sew_hole_up_spec {x x' : Mesh} {n1 n2 : Nat} {st2 st_e : SimplexSet}
    {emap fmap : List (Nat × Nat)} (hne : n1 ≠ n2)
    (hnd : ∀ k s, x.lookup_simplex 1 k = some s → s.m_boundary.Nodup)
    (h : edge_collapse_sew_hole_up x n1 n2 st2 st_e emap fmap = some x') :
    Tracks (fun d _ => min d 3 = 0) (sewn n2 emap fmap) x x' ∧
    (CompactForm x → CompactForm x') ∧
    EdgesSewn n1 n2 st2.edges st_e (to_be_removed emap fmap) x x' := by
  unfold edge_collapse_sew_hole_up at h
  simp only [bind, Option.bind_eq_some] at h
  obtain ⟨x1, h1, x2, h2, x3, h3, x4, h4, x5, h5, h6⟩ := h
  obtain ⟨-, -, -, t15, t01, e1, hc⟩ := sew_hole_up_phases hne hnd h1 h2 h3 h4 h5
  have t05 : Tracks (fun d _ => min d 3 = 0)
      ⟨[], (emap.map Prod.fst).reverse, (fmap.map Prod.fst).reverse, []⟩ x x5 :=
    t01.trans_eq (t15.weaken (fun d k (h : min d 3 = 0) => by omega)) (by
      simp [SimplexSet.append, SimplexSet.empty])
  refine ⟨t05.erase_eq h6 (by simp [SimplexSet.cons, SimplexSet.setKeys, SimplexSet.keys,
    sewn]), fun hcx => (hc hcx).2.2.compact_erase h6, ?_⟩
  intro k s s' hs hs'
  rw [lookup_unsafe_erase h6 1 k] at hs'
  have hdim : ¬ (min 0 3 = min 1 3 ∧ k = n2) := fun h => absurd h.1 (by decide)
  simp only [hdim, if_false] at hs'
  have hl1 : (x1.lookup_simplex 1 k).isSome := by
    have := (t15.1 1 k).1 (by rw [hs']; rfl)
    exact this.1
  obtain ⟨s1, hs1⟩ := Option.isSome_iff_exists.1 hl1
  have hb := t15.2.2 1 k s1 s' (show min 1 3 ≤ 1 by decide) hs1 hs'
  rw [hb]
  exact e1 k s s1 hs hs1

theorem sew_hole_up_returns {x : Mesh} {n1 n2 : Nat} {st2 st_e : SimplexSet}
    {emap fmap : List (Nat × Nat)} (hne : n1 ≠ n2)
    (hnd : ∀ k s, x.lookup_simplex 1 k = some s → s.m_boundary.Nodup)
    (hc : CompactForm x)
    (hn1 : (x.lookup_simplex 0 n1).isSome) (hn2 : (x.lookup_simplex 0 n2).isSome)
    (hE : ∀ k ∈ st2.edges, k ∉ st_e.edges → k ∉ (to_be_removed emap fmap).edges →
      (x.lookup_simplex 1 k).isSome)
    (hF : ∀ k ∈ st2.faces, k ∉ st_e.faces → k ∉ (to_be_removed emap fmap).faces →
      (x.lookup_simplex 2 k).isSome)
    (hT : ∀ k ∈ st2.tetrahedra, k ∉ st_e.tetrahedra → (x.lookup_simplex 3 k).isSome)
    (hfv : ∀ c ∈ (to_be_removed emap fmap).faces, (x.lookup_simplex 2 (map_get c fmap)).isSome)
    (hkf : (fmap.map Prod.fst).Nodup) (hke : (emap.map Prod.fst).Nodup)
    (hfm : ∀ kv ∈ fmap, ∃ s, x.lookup_simplex 2 kv.1 = some s ∧
      ∀ b ∈ s.m_boundary, (x.lookup_simplex 1 b).isSome)
    (hem : ∀ kv ∈ emap, ∃ s, x.lookup_simplex 1 kv.1 = some s ∧
      ∀ b ∈ s.m_boundary, (x.lookup_simplex 0 b).isSome) :
    ∃ x', edge_collapse_sew_hole_up x n1 n2 st2 st_e emap fmap = some x' := by
  obtain ⟨x1, h1⟩ := @sew_edges_returns x n1 n2 st2 st_e (to_be_removed emap fmap) hE
  obtain ⟨a1, c1, e1⟩ := sew_edges_spec hne hnd h1
  obtain ⟨x2, h2⟩ := @sew_faces_returns x1 st2 st_e (to_be_removed emap fmap) emap (by
      intro k hk hk1 hk2
      rw [a1.live]
      exact hF k hk hk1 hk2)
  obtain ⟨a2, c2⟩ := sew_faces_spec h2
  obtain ⟨x3, h3⟩ := @sew_tetrahedra_returns x2 st2 st_e (to_be_removed emap fmap) fmap (by
      intro k hk hk1
      rw [a2.live, a1.live]
      exact hT k hk hk1) (by
      intro c hc'
      rw [a2.live, a1.live]
      exact hfv c hc')
  obtain ⟨a3, c3⟩ := sew_tetrahedra_spec h3
  have hl4 : ∀ kv ∈ fmap, ∃ s, x3.lookup_simplex 2 kv.1 = some s ∧
      ∀ b ∈ s.m_boundary, (x3.lookup_simplex 1 b).isSome := by
    intro kv hkv
    obtain ⟨s, hs, hb⟩ := hfm kv hkv
    have hmem : kv.1 ∈ (to_be_removed emap fmap).faces :=
      (mem_to_be_removed emap fmap 2 kv.1).2
        (Or.inr ⟨le_refl _, by decide, List.mem_map_of_mem _ hkv⟩)
    have t03 : Tracks (fun d k => min d 3 = 2 ∧ k ∈ (to_be_removed emap fmap).faces)
        SimplexSet.empty x x3 :=
      ((a1.weaken (fun d k h => by omega)).same
        (a2.weaken (fun d k h => Or.inr h.2))).same (a3.weaken (fun d k h => by omega))
    obtain ⟨s3, hs3, hb3⟩ := t03.tracks_lookup (d := 2) ⟨by decide, hmem⟩ hs
    refine ⟨s3, hs3, fun b hb' => ?_⟩
    rw [t03.live]
    exact hb b (hb3 ▸ hb')
  obtain ⟨x4, h4⟩ := sew_replace_returns (d := 1) (by decide) (c3 (c2 (c1 hc))) hkf hl4
  obtain ⟨a4, c4⟩ := sew_replace_spec h4
  have t13 : Tracks (fun d _ => min d 3 ≤ 1) SimplexSet.empty x1 x3 :=
    (a2.weaken (fun d k (h : min d 3 ≤ 1) => Or.inl (by omega))).same
      (a3.weaken (fun d k (h : min d 3 ≤ 1) => by omega))
  have t14 : Tracks (fun d _ => min d 3 ≤ 1) (erased_at 2 (fmap.map Prod.fst).reverse) x1 x4 :=
    t13.trans_eq (a4.weaken (fun _ _ _ => trivial)) (by
      simp [SimplexSet.append, erased_at, SimplexSet.setKeys, SimplexSet.empty])
  have live4 : ∀ d k, min d 3 ≤ 1 → (x.lookup_simplex d k).isSome →
      (x4.lookup_simplex d k).isSome := by
    intro d k hd hl
    refine (t14.1 d k).2 ⟨by rw [a1.live]; exact hl, ?_⟩
    rw [keys_erased_at]
    have h23 : min 2 3 = 2 := by decide
    have : ¬ (min 2 3 = min d 3) := by
      intro h
      omega
    rw [if_neg this]
    exact List.not_mem_nil _
  have hl5 : ∀ kv ∈ emap, ∃ s, x4.lookup_simplex 1 kv.1 = some s ∧
      ∀ b ∈ s.m_boundary, (x4.lookup_simplex 0 b).isSome := by
    intro kv hkv
    obtain ⟨s, hs, hb⟩ := hem kv hkv
    obtain ⟨s4, hs4⟩ := Option.isSome_iff_exists.1
      (live4 1 kv.1 (by decide) (by rw [hs]; rfl))
    have hl1 : (x1.lookup_simplex 1 kv.1).isSome := by
      rw [a1.live, hs]; rfl
    obtain ⟨s1, hs1⟩ := Option.isSome_iff_exists.1 hl1
    have hb4 := t14.2.2 1 kv.1 s1 s4 (show min 1 3 ≤ 1 by decide) hs1 hs4
    refine ⟨s4, hs4, fun b hb' => ?_⟩
    rw [hb4] at hb'
    rcases (e1 kv.1 s s1 hs hs1).1 b hb' with h | h
    · exact live4 0 b (by decide) (hb b h)
    · rw [h]
      exact live4 0 n1 (by decide) hn1
  obtain ⟨x5, h5⟩ := sew_replace_returns (d := 0) (by decide)
    (c4 (c3 (c2 (c1 hc)))) hke hl5
  obtain ⟨a5, c5⟩ := sew_replace_spec h5
  have hl6 : (x5.lookup_simplex 0 n2).isSome := by
    refine (a5.1 0 n2).2 ⟨live4 0 n2 (by decide) hn2, ?_⟩
    rw [keys_erased_at, if_neg (by decide)]
    exact List.not_mem_nil _
  obtain ⟨x6, h6⟩ := unsafe_erase_returns hl6
  refine ⟨x6, ?_⟩
  unfold edge_collapse_sew_hole_up
  simp only [bind, Option.bind_eq_some]
  exact ⟨x1, h1, x2, h2, x3, h3, x4, h4, x5, h5, h6⟩

end ISMesh
namespace ISMesh

/-! # The boundary of the star and the precondition -/

theorem SimplexSet.mem_keys_difference (s t : SimplexSet) (d k : Nat) :
    k ∈ (s.difference t).keys d ↔ k ∈ s.keys d ∧ k ∉ t.keys d := by
  rcases d with _ | _ | _ | d <;>
    simp [SimplexSet.difference, SimplexSet.keys, List.mem_filter]

theorem boundary_occurrences_returns (m : Mesh) (d : Nat) (L : List Nat)
    (hl : ∀ k ∈ L, (m.lookup_simplex d k).isSome) :
    ∀ acc : List Nat, ∃ occ, L.foldlM (fun (acc : List Nat) k => do
        let simplex ← m.lookup_simplex d k
        pure (acc ++ simplex.m_boundary)) acc = some occ ∧
      ∀ x ∈ occ, x ∈ acc ∨ ∃ k ∈ L, ∃ s, m.lookup_simplex d k = some s ∧ x ∈ s.m_boundary := by
  induction L with
  | nil => intro acc; exact ⟨acc, rfl, fun x hx => Or.inl hx⟩
  | cons k L ih =>
    intro acc
    obtain ⟨s, hs⟩ := Option.isSome_iff_exists.1 (hl k (List.mem_cons_self _ _))
    obtain ⟨occ, ho, hm⟩ := ih (fun k' hk' => hl k' (List.mem_cons_of_mem _ hk'))
      (acc ++ s.m_boundary)
    refine ⟨occ, ?_, ?_⟩
    · simp only [List.foldlM_cons, bind, hs, Option.some_bind, pure]
      exact ho
    · intro x hx
      rcases hm x hx with h | ⟨k', hk', s', hs', hx'⟩
      · rcases List.mem_append.1 h with h | h
        · exact Or.inl h
        · exact Or.inr ⟨k, List.mem_cons_self _ _, s, hs, h⟩
      · exact Or.inr ⟨k', List.mem_cons_of_mem _ hk', s', hs', hx'⟩

/-- The boundary of a set of live tetrahedra returns on a mesh without dangling boundary
keys, and the edges, faces and tetrahedra of the result are live. -/
theorem boundary_set_returns {m : Mesh} {S : SimplexSet} (hb : BoundaryLive m)
    (hl : ∀ t ∈ S.tetrahedra, (m.lookup_simplex 3 t).isSome) :
    ∃ R, boundary_set m S SimplexSet.empty = some R ∧ LiveSet m R := by
  obtain ⟨occ, ho, hm⟩ := boundary_occurrences_returns m 3 S.tetrahedra hl []
  have hS : ∀ d, 1 ≤ d → d ≤ 3 → ∀ k ∈ (((occ.foldl (fun s k => set_insert k s) []).filter
      (fun k => occ.count k % 256 = 1)).foldl
      (fun s k => s.insert (3 - 1) k) SimplexSet.empty).keys d,
      (m.lookup_simplex d k).isSome := by
    intro d h1 h3 k hk
    rw [SimplexSet.keys_foldl_insert] at hk
    split_ifs at hk with hd
    · have hd2 : d = 2 := by
        have : min (3 - 1) 3 = 2 := by decide
        omega
      subst hd2
      rw [SimplexSet.keys_empty] at hk
      have hk' := (mem_foldl_set_insert _ _ _).1 hk
      simp only [List.not_mem_nil, or_false, List.mem_filter] at hk'
      have hk2 := (mem_foldl_set_insert _ _ _).1 hk'.1
      simp only [List.not_mem_nil, or_false] at hk2
      rcases hm k hk2 with h | ⟨t, ht, s, hs, hx⟩
      · cases h
      · exact hb 3 t s (by omega) (by omega) hs k hx
    · rw [SimplexSet.keys_empty] at hk
      cases hk
  obtain ⟨R, hR⟩ := closure_helper_returns (m := m)
    (S := ((occ.foldl (fun s k => set_insert k s) []).filter
      (fun k => occ.count k % 256 = 1)).foldl
      (fun s k => s.insert (3 - 1) k) SimplexSet.empty)
    (fun d k => 1 ≤ d ∧ d ≤ 3 ∧ (m.lookup_simplex d k).isSome)
    (fun d k h => h.2.2)
    (fun d h1 h3 k hk => ⟨h1, h3, hS d h1 h3 k hk⟩)
    (fun d k a h2 h3 hk ha b hb' =>
      ⟨by omega, by omega, hb d k a (by omega) h3 ha b hb'⟩)
  refine ⟨R, ?_, (closure_helper_spec hR).2.1⟩
  unfold boundary_set boundary_helper2 closure_set
  simp only [SimplexSet.keys, bind, Option.bind_eq_some]
  exact ⟨occ, ho, hR⟩

/-- The precondition check passes, leaving the mesh as it was, when the three links return
and every simplex that lies in both node links lies in the edge link. -/
theorem edge_collapse_precond_true {m me m1 m2 : Mesh} {e n1 n2 : Nat}
    {lk_e lk1 lk2 : SimplexSet} (hz : LabelsZero m)
    (hle : link_edge m e SimplexSet.empty = some (me, lk_e))
    (hl1 : link_node m n1 SimplexSet.empty = some (m1, lk1))
    (hl2 : link_node m n2 SimplexSet.empty = some (m2, lk2))
    (hlk : ∀ d k, d ≤ 2 → k ∈ lk1.keys d → k ∈ lk2.keys d → k ∈ lk_e.keys d) :
    edge_collapse_precond m e n1 n2 = some (m, true) := by
  have e1 := link_edge_restores hz hle
  have e2 := link_node_restores hz hl1
  have e3 := link_node_restores hz hl2
  subst e1 e2 e3
  unfold edge_collapse_precond
  simp only [bind, hle, hl1, hl2, Option.some_bind, pure]
  have hempty : ∀ d, d ≤ 2 → ((lk2.intersection lk1).difference lk_e).keys d = [] := by
    intro d hd
    rw [List.eq_nil_iff_forall_not_mem]
    intro k hk
    rw [SimplexSet.mem_keys_difference] at hk
    have h12 : k ∈ lk2.keys d ∧ k ∈ lk1.keys d := by
      have := hk.1
      rcases d with _ | _ | _ | d <;>
        simpa [SimplexSet.intersection, SimplexSet.keys, List.mem_filter] using this
    exact hk.2 (hlk d k hd h12.2 h12.1)
  have h0 := hempty 0 (by omega)
  have h1 := hempty 1 (by omega)
  have h2 := hempty 2 (by omega)
  simp only [SimplexSet.keys] at h0 h1 h2
  simp only [SimplexSet.size_nodes, SimplexSet.size_edges, SimplexSet.size_faces, h0, h1, h2,
    List.length_nil, and_self, if_true]

/-- The maps of `edge_collapse_clear_interior` depend on the boundary lists only. -/
theorem collapse_map_congr {x y : Mesh} (lk1 lk2 : SimplexSet) (d : Nat) (keep : Nat → Bool)
    (keys : List Nat)
    (h : ∀ k ∈ keys, (y.lookup_simplex d k).map (fun s => s.m_boundary) =
      (x.lookup_simplex d k).map (fun s => s.m_boundary)) :
    collapse_map y lk1 lk2 d keep keys = collapse_map x lk1 lk2 d keep keys := by
  unfold collapse_map
  refine List.foldl_ext _ _ _ ?_
  intro mp k hk
  rw [h k hk]

end ISMesh
namespace ISMesh

/-! # The identification maps -/

theorem Mesh.boundary_list_eq {m : Mesh} {d k : Nat} {s : Simplex}
    (h : m.lookup_simplex d k = some s) : m.boundary_list d k = s.m_boundary := by
  unfold Mesh.boundary_list
  rw [h]
  rfl

theorem SimplexSet.faces_insert_edge (S : SimplexSet) (e : Nat) :
    (S.insert 1 e).faces = S.faces ∧ (S.insert 1 e).tetrahedra = S.tetrahedra ∧
    (S.insert 1 e).edges = set_insert e S.edges := by
  simp [SimplexSet.insert, SimplexSet.setKeys, SimplexSet.keys]

/-- The entries of the map from removed faces to kept faces. -/
theorem face_map_entries {m : Mesh} {e : Nat} {st lk1 lk2 : SimplexSet}
    (hf : FanAround m e st lk1 lk2) {kv : Nat × Nat}
    (h : kv ∈ collapse_map m lk1 lk2 3 (fun b => !(st.insert 1 e).contains 2 b) st.tetrahedra) :
    ∃ t ∈ st.tetrahedra, kv.1 ∈ m.boundary_list 3 t ∧ kv.1 ∉ st.faces ∧
      kv.2 ∈ m.boundary_list 3 t ∧ kv.2 ∉ st.faces := by
  obtain ⟨t, ht, rfl⟩ := mem_collapse_map _ _ _ _ _ _ _ h
  obtain ⟨⟨b1, hb1, hn1, hl1⟩, ⟨b2, hb2, hn2, hl2⟩⟩ := hf.tetrahedra t ht
  have hkeep : ∀ b, b ∉ st.faces → (fun b => !(st.insert 1 e).contains 2 b) b = true := by
    intro b hb
    simp only [Bool.not_eq_true', SimplexSet.contains_false_iff]
    simpa [SimplexSet.keys, (st.faces_insert_edge e).1] using hb
  have hkeep' : ∀ b, (fun b => !(st.insert 1 e).contains 2 b) b = true → b ∉ st.faces := by
    intro b hb
    simp only [Bool.not_eq_true', SimplexSet.contains_false_iff] at hb
    simpa [SimplexSet.keys, (st.faces_insert_edge e).1] using hb
  obtain ⟨p1, p2, -⟩ := collapse_pair_snd lk1 lk2 2 (fun b => !(st.insert 1 e).contains 2 b)
    (m.boundary_list 3 t) ⟨b1, hb1, hkeep b1 hn1, (SimplexSet.contains_iff lk1 2 b1).2 hl1⟩
  obtain ⟨q1, q2, -⟩ := collapse_pair_fst lk1 lk2 2 (fun b => !(st.insert 1 e).contains 2 b)
    (m.boundary_list 3 t) ⟨b2, hb2, hkeep b2 hn2, (SimplexSet.contains_iff lk2 2 b2).2 hl2⟩
  exact ⟨t, ht, p1, hkeep' _ p2, q1, hkeep' _ q2⟩

/-- The entries of the map from removed edges to kept edges. -/
theorem edge_map_entries {m : Mesh} {e : Nat} {st lk1 lk2 : SimplexSet}
    (hf : FanAround m e st lk1 lk2) {kv : Nat × Nat}
    (h : kv ∈ collapse_map m lk1 lk2 2 (fun b => b != e) st.faces) :
    ∃ f ∈ st.faces, kv.1 ∈ m.boundary_list 2 f ∧ kv.1 ≠ e := by
  obtain ⟨f, hf', rfl⟩ := mem_collapse_map _ _ _ _ _ _ _ h
  obtain ⟨b1, hb1, hn1, hl1⟩ := hf.faces f hf'
  obtain ⟨p1, p2, -⟩ := collapse_pair_snd lk1 lk2 1 (fun b => b != e)
    (m.boundary_list 2 f) ⟨b1, hb1, by simpa using hn1, (SimplexSet.contains_iff lk1 1 b1).2 hl1⟩
  exact ⟨f, hf', p1, by simpa using p2⟩

end ISMesh
namespace ISMesh

/-! # A collapse in compact form returns -/

theorem edge_collapse_tracks {m ms mk1 mk2 me mle : Mesh} {e n1 n2 : Nat} {s : Simplex}
    {st2 lk1 lk2 st lk_e : SimplexSet}
    (hz : LabelsZero m) (hb : BoundaryLive m) (hp : EdgesProper m) (hc : CompactForm m)
    (he : m.lookup_simplex 1 e = some s) (hs : s.m_boundary = [n1, n2])
    (hst2 : star m 0 n2 SimplexSet.empty = some (ms, st2))
    (hl1 : link_node m n1 SimplexSet.empty = some (mk1, lk1))
    (hl2 : link_node m n2 SimplexSet.empty = some (mk2, lk2))
    (hste : star m 1 e SimplexSet.empty = some (me, st))
    (hle : link_edge m e SimplexSet.empty = some (mle, lk_e))
    (hlk : ∀ d k, d ≤ 2 → k ∈ lk1.keys d → k ∈ lk2.keys d → k ∈ lk_e.keys d)
    (hstars : StarsOf m e n2 st2 st) (hfan : FanAround m e st lk1 lk2) :
    ∃ m', edge_collapse m e = some (m', (n1 : Int)) ∧
      Tracks (fun d _ => min d 3 = 0)
        ((cleared e (st.insert 1 e)).append
          (sewn n2 (collapse_map m lk1 lk2 2 (fun b => b != e) st.faces)
            (collapse_map m lk1 lk2 3 (fun b => !(st.insert 1 e).contains 2 b)
              st.tetrahedra))) m m' ∧
      ∀ k s', m'.lookup_simplex 1 k = some s' → n2 ∉ s'.m_boundary := by
  have e1 := star_restores hz hst2
  have e2 := link_node_restores hz hl1
  have e3 := link_node_restores hz hl2
  have e4 := star_restores hz hste
  have e5 := link_edge_restores hz hle
  rw [e1] at hst2
  rw [e2] at hl1
  rw [e3] at hl2
  rw [e4] at hste
  rw [e5] at hle
  clear e1 e2 e3 e4 e5
  have hpre := edge_collapse_precond_true hz hle hl1 hl2 hlk
  obtain ⟨hSf, hSt, hSe⟩ := st.faces_insert_edge e
  rw [hstars.no_edges] at hSe
  have hSe' : (st.insert 1 e).edges = [e] := hSe
  have hnd12 : n1 ≠ n2 := by
    have := hp e s he
    rw [hs] at this
    intro h
    subst h
    simp at this
  have hn1 : (m.lookup_simplex 0 n1).isSome :=
    hb 1 e s (by omega) (by omega) he n1 (by rw [hs]; simp)
  have hn2 : (m.lookup_simplex 0 n2).isSome :=
    hb 1 e s (by omega) (by omega) he n2 (by rw [hs]; simp)
  -- the boundary of the star
  obtain ⟨R, hR, hRl⟩ := boundary_set_returns (m := m) (S := st.insert 1 e) hb (by
    intro t ht
    rw [hSt] at ht
    exact hstars.live_e 3 (by omega) (by omega) t ht)
  -- the repair of the co-boundaries
  obtain ⟨x0, hx0⟩ := @repair_co_boundaries_returns (st.insert 1 e)
    (R.difference (st.insert 1 e)) m (by
      intro d hd k hk
      rw [SimplexSet.mem_keys_difference] at hk
      have hl := hRl (d + 1) (by omega) (by omega) k hk.1
      obtain ⟨a, ha⟩ := Option.isSome_iff_exists.1 hl
      exact ⟨a, ha, fun b hb' => hb (d + 1) k a (by omega) (by omega) ha b hb'⟩)
  obtain ⟨t0, c0⟩ := repair_co_boundaries_spec hx0
  have hc0 : CompactForm x0 := c0 (by
    intro d _ _ k hk
    rw [SimplexSet.mem_keys_difference] at hk
    exact hk.2) hc
  have live0 : ∀ d k, (x0.lookup_simplex d k).isSome = (m.lookup_simplex d k).isSome :=
    t0.live
  have bnd0 : ∀ d k, (x0.lookup_simplex d k).map (fun s => s.m_boundary) =
      (m.lookup_simplex d k).map (fun s => s.m_boundary) :=
    fun d k => t0.map_boundary trivial (by rw [SimplexSet.keys_empty]; exact List.not_mem_nil _)
  -- the interior is cleared
  obtain ⟨⟨x, emap, fmap⟩, hx⟩ := @clear_interior_returns x0 e (st.insert 1 e) lk1 lk2
    (by rw [hSt]; exact hstars.nodup_tetrahedra)
    (by
      intro t ht
      rw [hSt] at ht
      obtain ⟨a, ha⟩ := Option.isSome_iff_exists.1
        (hstars.live_e 3 (by omega) (by omega) t ht)
      obtain ⟨a0, ha0, hb0⟩ := t0.tracks_lookup (d := 3) trivial ha
      refine ⟨a0, ha0, fun f hf => ?_⟩
      rw [live0]
      exact hb 3 t a (by omega) (by omega) ha f (hb0 ▸ hf))
    (by rw [hSf]; exact hstars.nodup_faces)
    (by
      intro f hf
      rw [hSf] at hf
      rw [live0]
      exact hstars.live_e 2 (by omega) (by omega) f hf)
    (by rw [live0, he]; rfl)
  obtain ⟨t1, c1, hfm, hem⟩ := clear_interior_spec hx
  rw [collapse_map_congr lk1 lk2 3 _ _ (fun k _ => bnd0 3 k)] at hfm
  rw [collapse_map_congr lk1 lk2 2 _ _ (fun k _ => bnd0 2 k), hSf] at hem
  rw [hSt] at hfm
  have t01 : Tracks (fun _ _ => True) (cleared e (st.insert 1 e)) m x :=
    t0.trans_eq t1 (by simp [SimplexSet.append, SimplexSet.empty])
  have hk0 : (cleared e (st.insert 1 e)).keys 0 = [] := rfl
  have hk1 : (cleared e (st.insert 1 e)).keys 1 = [e] := rfl
  have hk2 : (cleared e (st.insert 1 e)).keys 2 = st.faces.reverse := by
    rw [← hSf]; rfl
  have hk3 : (cleared e (st.insert 1 e)).keys 3 = st.tetrahedra.reverse := by
    rw [← hSt]; rfl
  have livex : ∀ d k, (m.lookup_simplex d k).isSome → k ∉ (cleared e (st.insert 1 e)).keys d →
      (x.lookup_simplex d k).isSome := fun d k h hn => (t01.1 d k).2 ⟨h, hn⟩
  have tetface : ∀ t ∈ st.tetrahedra, ∀ f ∈ m.boundary_list 3 t, f ∉ st.faces →
      ∃ a, m.lookup_simplex 2 f = some a ∧ (x.lookup_simplex 2 f).isSome := by
    intro t ht f hf hnf
    obtain ⟨a, ha⟩ := Option.isSome_iff_exists.1
      (hstars.live_e 3 (by omega) (by omega) t ht)
    rw [Mesh.boundary_list_eq ha] at hf
    have hl := hb 3 t a (by omega) (by omega) ha f hf
    obtain ⟨af, haf⟩ := Option.isSome_iff_exists.1 hl
    exact ⟨af, haf, livex 2 f hl (by rw [hk2]; simpa using hnf)⟩
  have hkf : (fmap.map Prod.fst).Nodup := by
    rw [hfm]; exact (sorted_keys_collapse_map _ _ _ _ _ _).nodup
  have hke : (emap.map Prod.fst).Nodup := by
    rw [hem]; exact (sorted_keys_collapse_map _ _ _ _ _ _).nodup
  have hndx : ∀ k a, x.lookup_simplex 1 k = some a → a.m_boundary.Nodup := by
    intro k a ha
    obtain ⟨a0, ha0, hb0, -⟩ := t01.lookup_back (d := 1) trivial ha
    rw [hb0]
    exact hp k a0 ha0
  obtain ⟨x', hx'⟩ := @sew_hole_up_returns x n1 n2 st2 (st.insert 1 e) emap fmap hnd12 hndx
    (c1 hc0)
    (livex 0 n1 hn1 (by rw [hk0]; exact List.not_mem_nil _))
    (livex 0 n2 hn2 (by rw [hk0]; exact List.not_mem_nil _))
    (by
      intro k hk hk' _
      refine livex 1 k (hstars.live2 1 (by omega) (by omega) k hk) ?_
      rw [hk1]
      rw [hSe'] at hk'
      exact hk')
    (by
      intro k hk hk' _
      refine livex 2 k (hstars.live2 2 (by omega) (by omega) k hk) ?_
      rw [hk2]
      rw [hSf] at hk'
      simpa using hk')
    (by
      intro k hk hk'
      refine livex 3 k (hstars.live2 3 (by omega) (by omega) k hk) ?_
      rw [hk3]
      rw [hSt] at hk'
      simpa using hk')
    (by
      intro c hc'
      have hmem : c ∈ fmap.map Prod.fst := by
        rcases (mem_to_be_removed emap fmap 2 c).1 hc' with h | h
        · exact absurd h.1 (by decide)
        · exact h.2.2
      have hin := map_get_mem hkf hmem
      rw [hfm] at hin
      obtain ⟨t, ht, -, -, q1, q2⟩ := face_map_entries hfan hin
      rw [← hfm] at q1 q2
      obtain ⟨_, -, hl⟩ := tetface t ht _ q1 q2
      exact hl)
    hkf hke
    (by
      intro kv hkv
      have hin := hkv
      rw [hfm] at hin
      obtain ⟨t, ht, p1, p2, -, -⟩ := face_map_entries hfan hin
      obtain ⟨a, ha, hl⟩ := tetface t ht _ p1 p2
      obtain ⟨a', ha', hb'⟩ := t01.lookup_of (d := 2) trivial ha
        (by rw [hk2]; simpa using p2)
      refine ⟨a', ha', fun b hbb => ?_⟩
      rw [hb'] at hbb
      refine livex 1 b (hb 2 kv.1 a (by omega) (by omega) ha b hbb) ?_
      rw [hk1]
      intro hbe
      have hbe' : b = e := by simpa using hbe
      rw [hbe'] at hbb
      exact p2 (hstars.complete_e kv.1 a ha hbb))
    (by
      intro kv hkv
      have hin := hkv
      rw [hem] at hin
      obtain ⟨f, hf, p1, p2⟩ := edge_map_entries hfan hin
      obtain ⟨a, ha⟩ := Option.isSome_iff_exists.1
        (hstars.live_e 2 (by omega) (by omega) f hf)
      rw [Mesh.boundary_list_eq ha] at p1
      have hl := hb 2 f a (by omega) (by omega) ha kv.1 p1
      obtain ⟨ae, hae⟩ := Option.isSome_iff_exists.1 hl
      obtain ⟨a', ha', hb'⟩ := t01.lookup_of (d := 1) trivial hae
        (by rw [hk1]; simpa using p2)
      refine ⟨a', ha', fun b hbb => ?_⟩
      rw [hb'] at hbb
      exact livex 0 b (hb 1 kv.1 ae (by omega) (by omega) hae b hbb)
        (by rw [hk0]; exact List.not_mem_nil _))
  obtain ⟨t2, -, es⟩ := sew_hole_up_spec hnd12 hndx hx'
  refine ⟨x', ?_, ?_, ?_⟩
  · rw [@edge_collapse_eq m e n1 n2 s he (by rw [hs]; rfl) (by rw [hs]; rfl)]
    unfold edge_collapse_helper
    simp only [bind, hpre, Option.some_bind, Bool.not_true, Bool.false_eq_true, if_false]
    exact (edge_collapse_body_iff hst2 hl1 hl2 hste hle _).2
      ⟨R, x0, x, emap, fmap, x', hR, hx0, hx, hx', rfl⟩
  · rw [← hem, ← hfm]
    exact (t01.weaken (fun _ _ _ => trivial)).tracks_trans t2
  · intro k a' ha' hmem
    have hlx : (x.lookup_simplex 1 k).isSome ∧ k ∉ (sewn n2 emap fmap).keys 1 :=
      (t2.1 1 k).1 (by rw [ha']; rfl)
    obtain ⟨ax, hax⟩ := Option.isSome_iff_exists.1 hlx.1
    obtain ⟨a, ha, hba, hne⟩ := t01.lookup_back (d := 1) trivial hax
    obtain ⟨q1, -, q3⟩ := es k ax a' hax ha'
    by_cases h2 : n2 ∈ a.m_boundary
    · refine q3 (hstars.complete2 k a ha h2) ?_ ?_ hmem
      · rw [hSe']
        rw [hk1] at hne
        exact hne
      · intro hc'
        rcases (mem_to_be_removed emap fmap 1 k).1 hc' with h | h
        · apply hlx.2
          simpa [sewn, SimplexSet.keys] using h.2
        · exact absurd h.1 (by decide)
    · rcases q1 n2 hmem with h | h
      · rw [hba] at h
        exact h2 h
      · exact hnd12 h.symm

end ISMesh
namespace ISMesh

/-! # What a collapse erases -/

/-- What a collapse that returns `n1` has erased. -/
theorem edge_collapse_spec {m m' ms mk1 mk2 me mle : Mesh} {e n1 n2 : Nat} {s : Simplex}
    {st2 lk1 lk2 st lk_e : SimplexSet}
    (hz : LabelsZero m) (hp : EdgesProper m)
    (he : m.lookup_simplex 1 e = some s) (hs : s.m_boundary = [n1, n2])
    (hst2 : star m 0 n2 SimplexSet.empty = some (ms, st2))
    (hl1 : link_node m n1 SimplexSet.empty = some (mk1, lk1))
    (hl2 : link_node m n2 SimplexSet.empty = some (mk2, lk2))
    (hste : star m 1 e SimplexSet.empty = some (me, st))
    (hle : link_edge m e SimplexSet.empty = some (mle, lk_e))
    (h : edge_collapse m e = some (m', (n1 : Int))) :
    Tracks (fun d _ => min d 3 = 0)
      ((cleared e (st.insert 1 e)).append
        (sewn n2 (collapse_map m lk1 lk2 2 (fun b => b != e) st.faces)
          (collapse_map m lk1 lk2 3 (fun b => !(st.insert 1 e).contains 2 b)
            st.tetrahedra))) m m' := by
  have e1 := star_restores hz hst2
  have e2 := link_node_restores hz hl1
  have e3 := link_node_restores hz hl2
  have e4 := star_restores hz hste
  have e5 := link_edge_restores hz hle
  rw [e1] at hst2
  rw [e2] at hl1
  rw [e3] at hl2
  rw [e4] at hste
  rw [e5] at hle
  clear e1 e2 e3 e4 e5
  obtain ⟨hSf, hSt, -⟩ := st.faces_insert_edge e
  have hnd12 : n1 ≠ n2 := by
    have := hp e s he
    rw [hs] at this
    intro h
    subst h
    simp at this
  have hpre : ∃ b, edge_collapse_precond m e n1 n2 = some (m, b) := by
    unfold edge_collapse_precond
    simp only [bind, hle, hl1, hl2, Option.some_bind, pure]
    split_ifs
    · exact ⟨true, rfl⟩
    · exact ⟨false, rfl⟩
  obtain ⟨b, hpre⟩ := hpre
  rw [@edge_collapse_eq m e n1 n2 s he (by rw [hs]; rfl) (by rw [hs]; rfl)] at h
  unfold edge_collapse_helper at h
  simp only [bind, hpre, Option.some_bind] at h
  cases b with
  | false =>
    simp only [Bool.not_false, if_true, pure, Option.some.injEq, Prod.mk.injEq] at h
    omega
  | true =>
    simp only [Bool.not_true, Bool.false_eq_true, if_false] at h
    obtain ⟨R, x0, x, emap, fmap, x', hR, hx0, hx, hx', hr⟩ :=
      (edge_collapse_body_iff hst2 hl1 hl2 hste hle _).1 h
    obtain ⟨rfl, -⟩ := Prod.mk.inj hr
    obtain ⟨t0, -⟩ := repair_co_boundaries_spec hx0
    obtain ⟨t1, -, hfm, hem⟩ := clear_interior_spec hx
    have bnd0 : ∀ d k, (x0.lookup_simplex d k).map (fun s => s.m_boundary) =
        (m.lookup_simplex d k).map (fun s => s.m_boundary) :=
      fun d k => t0.map_boundary trivial
        (by rw [SimplexSet.keys_empty]; exact List.not_mem_nil _)
    rw [collapse_map_congr lk1 lk2 3 _ _ (fun k _ => bnd0 3 k)] at hfm
    rw [collapse_map_congr lk1 lk2 2 _ _ (fun k _ => bnd0 2 k), hSf] at hem
    rw [hSt] at hfm
    have t01 : Tracks (fun _ _ => True) (cleared e (st.insert 1 e)) m x :=
      t0.trans_eq t1 (by simp [SimplexSet.append, SimplexSet.empty])
    have hndx : ∀ k a, x.lookup_simplex 1 k = some a → a.m_boundary.Nodup := by
      intro k a ha
      obtain ⟨a0, ha0, hb0, -⟩ := t01.lookup_back (d := 1) trivial ha
      rw [hb0]
      exact hp k a0 ha0
    obtain ⟨t2, -, -⟩ := sew_hole_up_spec hnd12 hndx hx'
    rw [← hem, ← hfm]
    exact (t01.weaken (fun _ _ _ => trivial)).tracks_trans t2

/-- The two maps of the collapse have one entry for every face and for every tetrahedron
of the star. -/
theorem collapse_maps_length {m : Mesh} {e n2 : Nat} {st2 st lk1 lk2 : SimplexSet}
    (hstars : StarsOf m e n2 st2 st) (hfan : FanAround m e st lk1 lk2)
    (hint : InteriorEdge m e st) :
    (collapse_map m lk1 lk2 2 (fun b => b != e) st.faces).length = st.faces.length ∧
    (collapse_map m lk1 lk2 3 (fun b => !(st.insert 1 e).contains 2 b) st.tetrahedra).length =
      st.tetrahedra.length := by
  constructor
  · refine length_collapse_map m lk1 lk2 2 _ st.faces hstars.nodup_faces ?_
    intro f hf f' hf' hne heq
    obtain ⟨b1, hb1, hn1, hl1⟩ := hfan.faces f hf
    obtain ⟨p1, p2, -⟩ := collapse_pair_snd lk1 lk2 1 (fun b => b != e)
      (m.boundary_list 2 f) ⟨b1, hb1, by simpa using hn1, (SimplexSet.contains_iff lk1 1 b1).2 hl1⟩
    obtain ⟨b2, hb2, hn2, hl2⟩ := hfan.faces f' hf'
    obtain ⟨q1, -, -⟩ := collapse_pair_snd lk1 lk2 1 (fun b => b != e)
      (m.boundary_list 2 f') ⟨b2, hb2, by simpa using hn2, (SimplexSet.contains_iff lk1 1 b2).2 hl2⟩
    have := hint.faces_apart f hf f' hf' hne _ p1 (by
      show (collapse_pair lk1 lk2 1 (fun b => b != e) (m.boundary_list 2 f)).2 ∈
        m.boundary_list 2 f'
      have h' : (collapse_pair lk1 lk2 1 (fun b => b != e) (m.boundary_list 2 f)).2 =
          (collapse_pair lk1 lk2 1 (fun b => b != e) (m.boundary_list 2 f')).2 := heq
      rw [h']
      exact q1)
    simp only [bne_iff_ne, ne_eq] at p2
    exact p2 this
  · refine length_collapse_map m lk1 lk2 3 _ st.tetrahedra hstars.nodup_tetrahedra ?_
    intro t ht t' ht' hne heq
    have hkeep : ∀ b, b ∉ st.faces → (fun b => !(st.insert 1 e).contains 2 b) b = true := by
      intro b hb
      simp only [Bool.not_eq_true', SimplexSet.contains_false_iff]
      simpa [SimplexSet.keys, (st.faces_insert_edge e).1] using hb
    have hkeep' : ∀ b, (fun b => !(st.insert 1 e).contains 2 b) b = true → b ∉ st.faces := by
      intro b hb
      simp only [Bool.not_eq_true', SimplexSet.contains_false_iff] at hb
      simpa [SimplexSet.keys, (st.faces_insert_edge e).1] using hb
    obtain ⟨⟨b1, hb1, hn1, hl1⟩, -⟩ := hfan.tetrahedra t ht
    obtain ⟨p1, p2, -⟩ := collapse_pair_snd lk1 lk2 2 (fun b => !(st.insert 1 e).contains 2 b)
      (m.boundary_list 3 t) ⟨b1, hb1, hkeep b1 hn1, (SimplexSet.contains_iff lk1 2 b1).2 hl1⟩
    obtain ⟨⟨b2, hb2, hn2, hl2⟩, -⟩ := hfan.tetrahedra t' ht'
    obtain ⟨q1, -, -⟩ := collapse_pair_snd lk1 lk2 2 (fun b => !(st.insert 1 e).contains 2 b)
      (m.boundary_list 3 t') ⟨b2, hb2, hkeep b2 hn2, (SimplexSet.contains_iff lk1 2 b2).2 hl2⟩
    have := hint.tetrahedra_apart t ht t' ht' hne _ p1 (by
      show (collapse_pair lk1 lk2 2 (fun b => !(st.insert 1 e).contains 2 b)
        (m.boundary_list 3 t)).2 ∈ m.boundary_list 3 t'
      have h' : (collapse_pair lk1 lk2 2 (fun b => !(st.insert 1 e).contains 2 b)
          (m.boundary_list 3 t)).2 =
          (collapse_pair lk1 lk2 2 (fun b => !(st.insert 1 e).contains 2 b)
          (m.boundary_list 3 t')).2 := heq
      rw [h']
      exact q1)
    exact hkeep' _ p2 this

/-- The sizes of the four kernels after a collapse, from what it has erased. -/
theorem collapse_counts {m m' : Mesh} {e n2 : Nat} {st : SimplexSet}
    {emap fmap : List (Nat × Nat)}
    (h : Tracks (fun d _ => min d 3 = 0)
      ((cleared e (st.insert 1 e)).append (sewn n2 emap fmap)) m m') :
    m'.size_nodes + 1 = m.size_nodes ∧
    m'.size_edges + (emap.length + 1) = m.size_edges ∧
    m'.size_faces + (fmap.length + st.faces.length) = m.size_faces ∧
    m'.size_tetrahedra + st.tetrahedra.length = m.size_tetrahedra := by
  obtain ⟨hSf, hSt, -⟩ := st.faces_insert_edge e
  have h0 := h.2.1 0
  have h1 := h.2.1 1
  have h2 := h.2.1 2
  have h3 := h.2.1 3
  simp only [SimplexSet.keys_append] at h0 h1 h2 h3
  simp only [cleared, sewn, SimplexSet.keys, hSf, hSt, List.length_append, List.length_reverse,
    List.length_map, List.length_cons, List.length_nil, Mesh.kernel] at h0 h1 h2 h3
  exact ⟨h0, h1, h2, by simpa using h3⟩

end ISMesh
namespace ISMesh

/-! # The compact fan -/

theorem Mesh.all_live_sound {m : Mesh} {d : Nat} {p : Nat → Simplex → Bool}
    (h : m.all_live d p = true) {k : Nat} {s : Simplex} (hs : m.lookup_simplex d k = some s) :
    p k s = true := by
  unfold Mesh.all_live at h
  rw [List.all_eq_true] at h
  have := h k (Kernel.mem_keys hs)
  rw [hs] at this
  exact this

theorem boundaryLive_of_check {m : Mesh}
    (h1 : m.all_live 1 (fun _ s => s.m_boundary.all
      (fun b => (m.lookup_simplex 0 b).isSome)) = true)
    (h2 : m.all_live 2 (fun _ s => s.m_boundary.all
      (fun b => (m.lookup_simplex 1 b).isSome)) = true)
    (h3 : m.all_live 3 (fun _ s => s.m_boundary.all
      (fun b => (m.lookup_simplex 2 b).isSome)) = true) : BoundaryLive m := by
  intro d k s hd1 hd3 hs b hb
  have hd : d = 1 ∨ d = 2 ∨ d = 3 := by omega
  rcases hd with rfl | rfl | rfl
  · have := Mesh.all_live_sound h1 hs
    rw [List.all_eq_true] at this
    exact this b hb
  · have := Mesh.all_live_sound h2 hs
    rw [List.all_eq_true] at this
    exact this b hb
  · have := Mesh.all_live_sound h3 hs
    rw [List.all_eq_true] at this
    exact this b hb

theorem compactForm_of_check {m : Mesh}
    (h0 : m.all_live 0 (fun _ s => s.m_co_boundary.length == 1) = true)
    (h1 : m.all_live 1 (fun _ s => s.m_co_boundary.length == 1) = true) : CompactForm m := by
  intro d k s hd hs
  have hd' : d = 0 ∨ d = 1 := by omega
  rcases hd' with rfl | rfl
  · simpa using Mesh.all_live_sound h0 hs
  · simpa using Mesh.all_live_sound h1 hs

theorem edgesProper_of_check {m : Mesh}
    (h : m.all_live 1 (fun _ s => decide s.m_boundary.Nodup) = true) : EdgesProper m := by
  intro k s hs
  simpa using Mesh.all_live_sound h hs

theorem compact_fan_eq : fan_compact_mesh = compact_fan := by decide!

theorem compact_fan_labels : LabelsZero compact_fan := labelsZero_of_check (by decide!)

theorem compact_fan_boundaryLive : BoundaryLive compact_fan :=
  boundaryLive_of_check (by decide!) (by decide!) (by decide!)

theorem compact_fan_compactForm : CompactForm compact_fan :=
  compactForm_of_check (by decide!) (by decide!)

theorem compact_fan_edgesProper : EdgesProper compact_fan :=
  edgesProper_of_check (by decide!)

theorem compact_fan_star_node :
    star compact_fan 0 1 SimplexSet.empty =
      some (compact_fan, ⟨[], [0, 4, 5, 6], [0, 1, 2, 4, 6, 8], [0, 1, 2]⟩) := by decide!

theorem compact_fan_link_first :
    link_node compact_fan 0 SimplexSet.empty =
      some (compact_fan, ⟨[1, 2, 3, 4], [4, 5, 6, 7, 8, 9], [4, 6, 8], []⟩) := by decide!

theorem compact_fan_link_second :
    link_node compact_fan 1 SimplexSet.empty =
      some (compact_fan, ⟨[0, 2, 3, 4], [1, 2, 3, 7, 8, 9], [3, 5, 7], []⟩) := by decide!

theorem compact_fan_star_edge :
    star compact_fan 1 0 SimplexSet.empty =
      some (compact_fan, ⟨[], [], [0, 1, 2], [0, 1, 2]⟩) := by decide!

theorem compact_fan_link_edge :
    link_edge compact_fan 0 SimplexSet.empty =
      some (compact_fan, ⟨[2, 3, 4], [7, 8, 9], [], []⟩) := by decide!

end ISMesh
namespace ISMesh

/-! # Edge collapse -/

/-- C6, as amended: on a mesh in compact form (every live node and edge stores one
representative co-face), whose labels are all 0, without dangling boundary keys and whose
edges have two distinct end nodes, let `e` be a live edge with boundary `[n1, n2]` for which
`star(n2)`, `star(e)`, `link(n1)`, `link(n2)` and `link(e)` return, whose computed stars are
complete (the simplices of `star(n2)` and `star(e)` are live, `star(e)` holds faces and
tetrahedra only, each once, every live edge that has `n2` in its boundary list is in
`star(n2)` and every live face that has `e` in its boundary list is in `star(e)`), with
`link(n1) ∩ link(n2) ⊆ link(e)` and with a fan of faces and tetrahedra around it. Then
`edge_collapse(e)` returns `n1`; afterwards `n2` and `e` no longer exist, `size_nodes()` has
decreased by exactly 1, and no live edge has `n2` in its boundary list. -/
theorem edge_collapse_merges (m : Mesh) (e n1 n2 : Nat) (s : Simplex)
    (ms mk1 mk2 me mle : Mesh) (st2 lk1 lk2 st_e lk_e : SimplexSet)
    (hz : LabelsZero m) (hb : BoundaryLive m) (hp : EdgesProper m) (hc : CompactForm m)
    (he : m.lookup_simplex 1 e = some s) (hs : s.m_boundary = [n1, n2])
    (hst2 : star m 0 n2 SimplexSet.empty = some (ms, st2))
    (hl1 : link_node m n1 SimplexSet.empty = some (mk1, lk1))
    (hl2 : link_node m n2 SimplexSet.empty = some (mk2, lk2))
    (hste : star m 1 e SimplexSet.empty = some (me, st_e))
    (hle : link_edge m e SimplexSet.empty = some (mle, lk_e))
    (hlk : ∀ d k, d ≤ 2 → k ∈ lk1.keys d → k ∈ lk2.keys d → k ∈ lk_e.keys d)
    (hstars : StarsOf m e n2 st2 st_e) (hfan : FanAround m e st_e lk1 lk2) :
    ∃ m', edge_collapse m e = some (m', (n1 : Int)) ∧
      m'.«exists» 0 n2 = false ∧ m'.«exists» 1 e = false ∧
      m'.size_nodes + 1 = m.size_nodes ∧
      ∀ k s', m'.lookup_simplex 1 k = some s' → n2 ∉ s'.m_boundary := by
  obtain ⟨m', h1, t, hedges⟩ :=
    edge_collapse_tracks hz hb hp hc he hs hst2 hl1 hl2 hste hle hlk hstars hfan
  refine ⟨m', h1, ?_, ?_, (collapse_counts t).1, hedges⟩
  · have := t.1 0 n2
    rw [SimplexSet.keys_append] at this
    have hn : ¬ (m'.lookup_simplex 0 n2).isSome := by
      rw [this]
      simp [sewn, SimplexSet.keys]
    simpa [Mesh.«exists», Kernel.is_valid, Mesh.lookup_simplex] using hn
  · have := t.1 1 e
    rw [SimplexSet.keys_append] at this
    have hn : ¬ (m'.lookup_simplex 1 e).isSome := by
      rw [this]
      simp [cleared, SimplexSet.keys]
    simpa [Mesh.«exists», Kernel.is_valid, Mesh.lookup_simplex] using hn

/-- C7: a successful `edge_collapse` preserves the Euler characteristic. On a mesh whose
labels are all 0, without dangling boundary keys and whose edges have two distinct end
nodes, let `e` be a live interior edge with boundary `[n1, n2]` whose stars and links have
been computed, with `link(n1) ∩ link(n2) ⊆ link(e)` and an embedded fan of `k` tetrahedra
around it. Whenever `edge_collapse(e)` returns `n1`, 1 node, `k + 1` edges, `2k` faces and
`k` tetrahedra have been removed, so `size_nodes() - size_edges() + size_faces() -
size_tetrahedra()` has the same value as before; and `edge_collapse(e)` does return `n1`
when the mesh is in compact form. -/
theorem edge_collapse_euler (m : Mesh) (e n1 n2 : Nat) (s : Simplex)
    (ms mk1 mk2 me mle : Mesh) (st2 lk1 lk2 st_e lk_e : SimplexSet)
    (hz : LabelsZero m) (hb : BoundaryLive m) (hp : EdgesProper m)
    (he : m.lookup_simplex 1 e = some s) (hs : s.m_boundary = [n1, n2])
    (hst2 : star m 0 n2 SimplexSet.empty = some (ms, st2))
    (hl1 : link_node m n1 SimplexSet.empty = some (mk1, lk1))
    (hl2 : link_node m n2 SimplexSet.empty = some (mk2, lk2))
    (hste : star m 1 e SimplexSet.empty = some (me, st_e))
    (hle : link_edge m e SimplexSet.empty = some (mle, lk_e))
    (hlk : ∀ d k, d ≤ 2 → k ∈ lk1.keys d → k ∈ lk2.keys d → k ∈ lk_e.keys d)
    (hstars : StarsOf m e n2 st2 st_e) (hfan : FanAround m e st_e lk1 lk2)
    (hint : InteriorEdge m e st_e) :
    (∀ m', edge_collapse m e = some (m', (n1 : Int)) →
      m'.size_nodes + 1 = m.size_nodes ∧
      m'.size_edges + (st_e.tetrahedra.length + 1) = m.size_edges ∧
      m'.size_faces + 2 * st_e.tetrahedra.length = m.size_faces ∧
      m'.size_tetrahedra + st_e.tetrahedra.length = m.size_tetrahedra ∧
      (m'.size_nodes : Int) - m'.size_edges + m'.size_faces - m'.size_tetrahedra =
        (m.size_nodes : Int) - m.size_edges + m.size_faces - m.size_tetrahedra) ∧
    (CompactForm m → ∃ m', edge_collapse m e = some (m', (n1 : Int))) := by
  constructor
  · intro m' h
    have t := edge_collapse_spec hz hp he hs hst2 hl1 hl2 hste hle h
    obtain ⟨c0, c1, c2, c3⟩ := collapse_counts t
    obtain ⟨l1, l2⟩ := collapse_maps_length hstars hfan hint
    rw [l1, hint.valence] at c1
    rw [l2, hint.valence] at c2
    refine ⟨c0, c1, by omega, c3, ?_⟩
    omega
  · intro hc
    obtain ⟨m', h1, -, -⟩ :=
      edge_collapse_tracks hz hb hp hc he hs hst2 hl1 hl2 hste hle hlk hstars hfan
    exact ⟨m', h1⟩

theorem compact_fan_link_condition : ∀ d k, d ≤ 2 →
    k ∈ (⟨[1, 2, 3, 4], [4, 5, 6, 7, 8, 9], [4, 6, 8], []⟩ : SimplexSet).keys d →
    k ∈ (⟨[0, 2, 3, 4], [1, 2, 3, 7, 8, 9], [3, 5, 7], []⟩ : SimplexSet).keys d →
    k ∈ (⟨[2, 3, 4], [7, 8, 9], [], []⟩ : SimplexSet).keys d := by
  intro d k hd h1 h2
  have hd' : d = 0 ∨ d = 1 ∨ d = 2 := by omega
  rcases hd' with rfl | rfl | rfl <;>
    simp only [SimplexSet.keys, List.mem_cons, List.mem_singleton, List.not_mem_nil,
      or_false] at h1 h2 ⊢ <;> omega

theorem compact_fan_stars : StarsOf compact_fan 0 1
    ⟨[], [0, 4, 5, 6], [0, 1, 2, 4, 6, 8], [0, 1, 2]⟩ ⟨[], [], [0, 1, 2], [0, 1, 2]⟩ where
  live2 := by
    intro d h1 h3 k hk
    have hd : d = 1 ∨ d = 2 ∨ d = 3 := by omega
    rcases hd with rfl | rfl | rfl <;> revert k <;> decide!
  live_e := by
    intro d h1 h3 k hk
    have hd : d = 1 ∨ d = 2 ∨ d = 3 := by omega
    rcases hd with rfl | rfl | rfl <;> revert k <;> decide!
  no_edges := rfl
  nodup_faces := by decide
  nodup_tetrahedra := by decide
  complete2 := by
    intro k s hs h
    have := Mesh.all_live_sound (m := compact_fan) (d := 1)
      (p := fun k s => !s.m_boundary.contains 1 ||
        (([0, 4, 5, 6] : List Nat).contains k)) (by decide!) hs
    simpa [h] using this
  complete_e := by
    intro f s hs h
    have := Mesh.all_live_sound (m := compact_fan) (d := 2)
      (p := fun k s => !s.m_boundary.contains 0 ||
        (([0, 1, 2] : List Nat).contains k)) (by decide!) hs
    simpa [h] using this

theorem compact_fan_around : FanAround compact_fan 0 ⟨[], [], [0, 1, 2], [0, 1, 2]⟩
    ⟨[1, 2, 3, 4], [4, 5, 6, 7, 8, 9], [4, 6, 8], []⟩
    ⟨[0, 2, 3, 4], [1, 2, 3, 7, 8, 9], [3, 5, 7], []⟩ where
  tetrahedra := by decide!
  faces := by decide!

theorem compact_fan_interior :
    InteriorEdge compact_fan 0 ⟨[], [], [0, 1, 2], [0, 1, 2]⟩ where
  valence := rfl
  tetrahedra_apart := by decide!
  faces_apart := by decide!

/-- Witness of C6: the edge 0 = (0,1) of the compact fan of three tetrahedra. -/
theorem edge_collapse_merges_witness :
    LabelsZero compact_fan ∧ CompactForm compact_fan ∧
    compact_fan.lookup_simplex 1 0 = some ⟨[0, 1], [0], true, 0⟩ ∧
    ∃ m', edge_collapse compact_fan 0 = some (m', ((0 : Nat) : Int)) ∧
      m'.«exists» 0 1 = false ∧ m'.«exists» 1 0 = false ∧
      m'.size_nodes + 1 = compact_fan.size_nodes ∧
      ∀ k s', m'.lookup_simplex 1 k = some s' → 1 ∉ s'.m_boundary :=
  ⟨compact_fan_labels, compact_fan_compactForm, by decide!,
    edge_collapse_merges compact_fan 0 0 1 ⟨[0, 1], [0], true, 0⟩
      compact_fan compact_fan compact_fan compact_fan compact_fan
      ⟨[], [0, 4, 5, 6], [0, 1, 2, 4, 6, 8], [0, 1, 2]⟩
      ⟨[1, 2, 3, 4], [4, 5, 6, 7, 8, 9], [4, 6, 8], []⟩
      ⟨[0, 2, 3, 4], [1, 2, 3, 7, 8, 9], [3, 5, 7], []⟩
      ⟨[], [], [0, 1, 2], [0, 1, 2]⟩ ⟨[2, 3, 4], [7, 8, 9], [], []⟩
      compact_fan_labels compact_fan_boundaryLive compact_fan_edgesProper
      compact_fan_compactForm (by decide!) rfl
      compact_fan_star_node compact_fan_link_first compact_fan_link_second
      compact_fan_star_edge compact_fan_link_edge compact_fan_link_condition
      compact_fan_stars compact_fan_around⟩

/-- C6 as stated fails on a mesh that is not in compact form: on the fan of three
tetrahedra as the insertion operators leave it (full co-boundary sets), the link condition
holds for the interior edge 0 = (0,1), and `edge_collapse(0)` fails the assertion
`e_coboundary->size() == 1` instead of returning the node 0. -/
theorem edge_collapse_uncompressed_fails :
    fan_mesh.lookup_simplex 1 0 = some ⟨[0, 1], [0, 1, 2], false, 0⟩ ∧
    edge_collapse_precond fan_mesh 0 0 1 = some (fan_mesh, true) ∧
    edge_collapse fan_mesh 0 = none := by
  refine ⟨by decide!, by decide!, by decide!⟩

/-- Witness of C7: the edge 0 = (0,1) of the compact fan of three tetrahedra. -/
theorem edge_collapse_euler_witness :
    LabelsZero compact_fan ∧ CompactForm compact_fan ∧
    compact_fan.lookup_simplex 1 0 = some ⟨[0, 1], [0], true, 0⟩ ∧
    (∀ m', edge_collapse compact_fan 0 = some (m', ((0 : Nat) : Int)) →
      m'.size_nodes + 1 = compact_fan.size_nodes ∧
      m'.size_edges + (3 + 1) = compact_fan.size_edges ∧
      m'.size_faces + 2 * 3 = compact_fan.size_faces ∧
      m'.size_tetrahedra + 3 = compact_fan.size_tetrahedra ∧
      (m'.size_nodes : Int) - m'.size_edges + m'.size_faces - m'.size_tetrahedra =
        (compact_fan.size_nodes : Int) - compact_fan.size_edges + compact_fan.size_faces -
          compact_fan.size_tetrahedra) ∧
    (CompactForm compact_fan → ∃ m', edge_collapse compact_fan 0 = some (m', ((0 : Nat) : Int))) :=
  ⟨compact_fan_labels, compact_fan_compactForm, by decide!,
    edge_collapse_euler compact_fan 0 0 1 ⟨[0, 1], [0], true, 0⟩
      compact_fan compact_fan compact_fan compact_fan compact_fan
      ⟨[], [0, 4, 5, 6], [0, 1, 2, 4, 6, 8], [0, 1, 2]⟩
      ⟨[1, 2, 3, 4], [4, 5, 6, 7, 8, 9], [4, 6, 8], []⟩
      ⟨[0, 2, 3, 4], [1, 2, 3, 7, 8, 9], [3, 5, 7], []⟩
      ⟨[], [], [0, 1, 2], [0, 1, 2]⟩ ⟨[2, 3, 4], [7, 8, 9], [], []⟩
      compact_fan_labels compact_fan_boundaryLive compact_fan_edgesProper
      (by decide!) rfl
      compact_fan_star_node compact_fan_link_first compact_fan_link_second
      compact_fan_star_edge compact_fan_link_edge compact_fan_link_condition
      compact_fan_stars compact_fan_around compact_fan_interior⟩

end ISMesh
namespace ISMesh

/-! # Edge split -/

/-- The split of the edge 0 = (0,1) of the compact fan, which has three faces and three
tetrahedra around it, returns the node 5 and leaves 6 nodes, 14 edges, 15 faces and
6 tetrahedra (from 5, 10, 9 and 3). -/
theorem split_edge_fan :
    (split_edge compact_fan 0).map (fun r => (r.2, r.1.size_nodes, r.1.size_edges,
      r.1.size_faces, r.1.size_tetrahedra)) = some (5, 6, 14, 15, 6) := by
  decide!

end ISMesh
namespace ISMesh

/-- C23: the threshold of `compress_all`. When `5 * m_uncompressed` does not exceed
`size_nodes() + size_edges()` the call returns the mesh unchanged; when it does, the call is
`compress` on the set of all live simplices. -/
theorem compress_all_threshold (m : Mesh) :
    (m.m_uncompressed * 5 ≤ m.size_nodes + m.size_edges → compress_all m = some m) ∧
    (m.size_nodes + m.size_edges < m.m_uncompressed * 5 →
      compress_all m = compress m ⟨m.m_node_kernel.keys, m.m_edge_kernel.keys,
        m.m_face_kernel.keys, m.m_tetrahedron_kernel.keys⟩) := by
  constructor
  · intro h
    unfold compress_all
    rw [if_neg (by omega)]
    rfl
  · intro h
    unfold compress_all
    rw [if_pos (by omega)]

/-- Witness of C23: the compact fan has counter 0 and stays as it is; the fan as inserted
has counter 104 against 15 nodes and edges and is compressed. -/
theorem compress_all_threshold_witness :
    compact_fan.m_uncompressed * 5 ≤ compact_fan.size_nodes + compact_fan.size_edges ∧
    compress_all compact_fan = some compact_fan ∧
    fan_mesh.size_nodes + fan_mesh.size_edges < fan_mesh.m_uncompressed * 5 ∧
    compress_all fan_mesh = compress fan_mesh ⟨fan_mesh.m_node_kernel.keys,
      fan_mesh.m_edge_kernel.keys, fan_mesh.m_face_kernel.keys,
      fan_mesh.m_tetrahedron_kernel.keys⟩ :=
  ⟨by decide!, (compress_all_threshold compact_fan).1 (by decide!), by decide!,
    (compress_all_threshold fan_mesh).2 (by decide!)⟩

/-- C24: `get_intersection` finds the shared boundary entry. For two distinct live
simplices `k1`, `k2` of the same dimension `d ≥ 1` the call returns; it returns `true` if
and only if the two boundary lists have a common entry, and then `k` is an entry of both
lists. -/
theorem get_intersection_shared (m : Mesh) (d k1 k2 : Nat) (s1 s2 : Simplex)
    (hd : 1 ≤ d) (hne : k1 ≠ k2)
    (h1 : m.lookup_simplex d k1 = some s1) (h2 : m.lookup_simplex d k2 = some s2) :
    ∃ r, get_intersection m d k1 k2 = some r ∧
      (r.isSome ↔ ∃ b ∈ s1.m_boundary, b ∈ s2.m_boundary) ∧
      (∀ k, r = some k → k ∈ s1.m_boundary ∧ k ∈ s2.m_boundary) := by
  refine ⟨s1.m_boundary.find? (fun b => s2.m_boundary.contains b), ?_, ?_, ?_⟩
  · unfold get_intersection
    rw [if_neg hne, if_neg (by omega)]
    simp only [bind, h1, h2, Option.some_bind, pure]
  · rw [List.find?_isSome]
    simp
  · intro k hk
    have h := List.find?_some hk
    exact ⟨List.mem_of_find?_eq_some hk, by simpa using h⟩

/-- Witness of C24: the faces 0 and 1 of the mesh with one tetrahedron share the edge 0. -/
theorem get_intersection_shared_witness :
    tetrahedron_mesh.lookup_simplex 2 0 = some ⟨[0, 3, 1], [0], true, 0⟩ ∧
    tetrahedron_mesh.lookup_simplex 2 1 = some ⟨[0, 4, 2], [0], true, 0⟩ ∧
    ∃ r, get_intersection tetrahedron_mesh 2 0 1 = some r ∧
      (r.isSome ↔ ∃ b ∈ ([0, 3, 1] : List Nat), b ∈ ([0, 4, 2] : List Nat)) ∧
      (∀ k, r = some k → k ∈ ([0, 3, 1] : List Nat) ∧ k ∈ ([0, 4, 2] : List Nat)) :=
  ⟨by decide!, by decide!,
    get_intersection_shared tetrahedron_mesh 2 0 1 ⟨[0, 3, 1], [0], true, 0⟩
      ⟨[0, 4, 2], [0], true, 0⟩ (by decide) (by decide) (by decide!) (by decide!)⟩

/-- C25 fails as stated: on the face 0 of the mesh with one tetrahedron, whose boundary
list is `[0, 3, 1]`, `invert_orientation` gives `[3, 0, 1]`: the first and second entries are
swapped, the third stays. -/
theorem invert_orientation_first_two :
    (tetrahedron_mesh.lookup_simplex 2 0).map (fun s => s.m_boundary) = some [0, 3, 1] ∧
    ((invert_orientation tetrahedron_mesh 2 0).bind (fun m => m.lookup_simplex 2 0)).map
      (fun s => s.m_boundary) = some [3, 0, 1] := by
  decide!

/-- C25, as amended: on a live simplex `k` of dimension `d ≥ 1` whose boundary list is
`a :: b :: rest`, `invert_orientation(k)` returns; the boundary list of `k` becomes
`b :: a :: rest` (the first and second entries are swapped), everything else in the record
of `k` and every other simplex stay as they were. -/
theorem invert_orientation_swaps (m : Mesh) (d k a b : Nat) (rest : List Nat) (s : Simplex)
    (hd : 1 ≤ d) (hs : m.lookup_simplex d k = some s) (hb : s.m_boundary = a :: b :: rest) :
    ∃ m', invert_orientation m d k = some m' ∧
      m'.lookup_simplex d k = some { s with m_boundary := b :: a :: rest } ∧
      ∀ d' k', ¬ (min d 3 = min d' 3 ∧ k' = k) →
        m'.lookup_simplex d' k' = m.lookup_simplex d' k' := by
  obtain ⟨m', hm'⟩ := Mesh.modify_isSome (fun x => x.set_boundary_list (b :: a :: rest))
    (by rw [hs]; rfl : (m.lookup_simplex d k).isSome)
  refine ⟨m', ?_, ?_, ?_⟩
  · unfold invert_orientation
    rw [if_neg (by omega)]
    simp only [bind, hs, Option.some_bind, hb]
    exact hm'
  · rw [Mesh.lookup_modify hm' d k]
    simp only [and_self, if_true, hs, Option.map_some']
    rfl
  · intro d' k' hne
    rw [Mesh.lookup_modify hm' d' k', if_neg hne]

/-- Witness of C25 as amended: the face 0 of the mesh with one tetrahedron. -/
theorem invert_orientation_swaps_witness :
    tetrahedron_mesh.lookup_simplex 2 0 = some ⟨[0, 3, 1], [0], true, 0⟩ ∧
    ∃ m', invert_orientation tetrahedron_mesh 2 0 = some m' ∧
      m'.lookup_simplex 2 0 = some { (⟨[0, 3, 1], [0], true, 0⟩ : Simplex) with
        m_boundary := 3 :: 0 :: [1] } ∧
      ∀ d' k', ¬ (min 2 3 = min d' 3 ∧ k' = 0) →
        m'.lookup_simplex d' k' = tetrahedron_mesh.lookup_simplex d' k' :=
  ⟨by decide!, invert_orientation_swaps tetrahedron_mesh 2 0 0 3 [1] ⟨[0, 3, 1], [0], true, 0⟩
    (by decide) (by decide!) rfl⟩

end ISMesh
namespace ISMesh

/-- C30, evaluated where the code departs from it: the node 0 of the compressed mesh with
one tetrahedron, uncompressed, is not compact and its co-boundary holds its three edges 0,
1, 2, which lie in one connected component of its star (there is one tetrahedron). After
`compress` on the node the co-boundary holds the two edges 0 and 2. -/
theorem compress_two_representatives :
    (tetrahedron_open_mesh.lookup_simplex 0 0).map
      (fun s => (s.m_co_boundary, s.m_is_compact)) = some ([0, 1, 2], false) ∧
    ((compress tetrahedron_open_mesh ⟨[0], [], [], []⟩).bind
      (fun m => m.lookup_simplex 0 0)).map
      (fun s => (s.m_co_boundary, s.m_is_compact)) = some ([0, 2], true) := by
  decide!

end ISMesh
namespace ISMesh

end ISMesh
namespace ISMesh

end ISMesh
namespace ISMesh

end ISMesh
namespace ISMesh

theorem InBoundary.succ_iff {m : Mesh} {d k d' x : Nat} :
    InBoundary m (d + 1) k d' x ↔ ∃ s, m.lookup_simplex (d + 1) k = some s ∧
      ∃ b ∈ s.m_boundary, (d' = d ∧ x = b) ∨ InBoundary m d b d' x := by
  rw [InBoundary]

theorem InBoundary.lt {m : Mesh} : ∀ {d k d' x : Nat}, InBoundary m d k d' x → d' < d := by
  intro d
  induction d with
  | zero => intro k d' x h; exact absurd h (by simp [InBoundary])
  | succ d ih =>
    intro k d' x h
    rw [InBoundary.succ_iff] at h
    obtain ⟨s, -, b, -, h | h⟩ := h
    · omega
    · have := ih h
      omega

theorem InBoundary.step {m : Mesh} : ∀ {d k d' x : Nat} {a : Simplex} {b : Nat},
    InBoundary m d k (d' + 1) x → m.lookup_simplex (d' + 1) x = some a → b ∈ a.m_boundary →
    InBoundary m d k d' b := by
  intro d
  induction d with
  | zero => intro k d' x a b h; exact absurd h (by simp [InBoundary])
  | succ d ih =>
    intro k d' x a b h ha hb
    rw [InBoundary.succ_iff] at h ⊢
    obtain ⟨s, hs, c, hc, h | h⟩ := h
    · obtain ⟨rfl, rfl⟩ := h
      refine ⟨s, hs, x, hc, Or.inr ?_⟩
      rw [InBoundary.succ_iff]
      exact ⟨a, ha, b, hb, Or.inl ⟨rfl, rfl⟩⟩
    · exact ⟨s, hs, c, hc, Or.inr (ih h ha hb)⟩

theorem InBoundary.last {m : Mesh} : ∀ {d k d' x : Nat}, InBoundary m d k d' x →
    ∃ y a, ((d = d' + 1 ∧ y = k) ∨ InBoundary m d k (d' + 1) y) ∧
      m.lookup_simplex (d' + 1) y = some a ∧ x ∈ a.m_boundary := by
  intro d
  induction d with
  | zero => intro k d' x h; exact absurd h (by simp [InBoundary])
  | succ d ih =>
    intro k d' x h
    rw [InBoundary.succ_iff] at h
    obtain ⟨s, hs, c, hc, h | h⟩ := h
    · obtain ⟨rfl, rfl⟩ := h
      exact ⟨k, s, Or.inl ⟨rfl, rfl⟩, hs, hc⟩
    · obtain ⟨y, a, hy, ha, hx⟩ := ih h
      refine ⟨y, a, Or.inr ?_, ha, hx⟩
      rw [InBoundary.succ_iff]
      rcases hy with ⟨rfl, rfl⟩ | hy
      · exact ⟨s, hs, y, hc, Or.inl ⟨rfl, rfl⟩⟩
      · exact ⟨s, hs, c, hc, Or.inr hy⟩

/-- What `boundary_helper` adds to a set: exactly the transitive boundary of the key; the
edges, faces and tetrahedra it meets are live. -/
theorem boundary_helper_spec (m : Mesh) : ∀ (d : Nat), d ≤ 3 → ∀ (k : Nat)
    (set R : SimplexSet), boundary_helper m d k set = some R →
    (∀ d', d' ≤ 3 → ∀ x, x ∈ R.keys d' ↔ x ∈ set.keys d' ∨ InBoundary m d k d' x) ∧
    (∀ d', (set.keys d').Sorted (· < ·) → (R.keys d').Sorted (· < ·)) ∧
    (1 ≤ d → (m.lookup_simplex d k).isSome) ∧
    (∀ d' x, 1 ≤ d' → InBoundary m d k d' x → (m.lookup_simplex d' x).isSome) := by
  intro d
  induction d with
  | zero =>
    intro _ k set R h
    simp only [boundary_helper, Option.some.injEq] at h
    subst h
    refine ⟨fun d' _ x => by simp [InBoundary], fun d' h => h, fun h => absurd h (by omega),
      fun d' x _ h => absurd h (by simp [InBoundary])⟩
  | succ d ih =>
    intro hd k set R h
    unfold boundary_helper at h
    obtain ⟨s, hs, hfold⟩ := Option.bind_eq_some.1 h
    have key := foldlM_prefix_spec
      (fun (pre : List Nat) (acc : SimplexSet) =>
        (∀ d', d' ≤ 3 → ∀ x, x ∈ acc.keys d' ↔
          x ∈ set.keys d' ∨ ∃ b ∈ pre, (d' = d ∧ x = b) ∨ InBoundary m d b d' x) ∧
        (∀ d', (set.keys d').Sorted (· < ·) → (acc.keys d').Sorted (· < ·)) ∧
        (∀ b ∈ pre, (1 ≤ d → (m.lookup_simplex d b).isSome) ∧
          ∀ d' x, 1 ≤ d' → InBoundary m d b d' x → (m.lookup_simplex d' x).isSome))
      (fun set b => boundary_helper m d b (set.insert d b)) s.m_boundary ?_ set R
      ⟨fun d' _ x => by simp, fun d' h => h, fun b hb => absurd hb (List.not_mem_nil _)⟩ hfold
    · obtain ⟨k1, k2, k3⟩ := key
      refine ⟨fun d' hd' x => ?_, k2, fun _ => by rw [hs]; rfl, fun d' x h1 hx => ?_⟩
      · rw [k1 d' hd' x]
        simp only [InBoundary, hs, Option.some.injEq, exists_eq_left']
      · simp only [InBoundary, hs, Option.some.injEq, exists_eq_left'] at hx
        obtain ⟨b, hb, hx | hx⟩ := hx
        · obtain ⟨rfl, rfl⟩ := hx
          exact (k3 x hb).1 h1
        · exact (k3 b hb).2 d' x h1 hx
    · intro pre b suf acc acc' hL hI hstep
      obtain ⟨i1, i2, i3, i4⟩ := ih (by omega) b (acc.insert d b) acc' hstep
      obtain ⟨j1, j2, j3⟩ := hI
      refine ⟨fun d' hd' x => ?_, fun d' hsd => ?_, fun c hc => ?_⟩
      · rw [i1 d' hd' x, SimplexSet.keys_insert]
        have hmin : (min d 3 = min d' 3) ↔ d' = d := by
          rw [Nat.min_eq_left (by omega), Nat.min_eq_left hd']
          exact eq_comm
        by_cases hdd : d' = d
        · rw [if_pos (hmin.2 hdd), mem_set_insert, j1 d' hd' x]
          simp only [List.mem_append, List.mem_singleton]
          constructor
          · rintro ((rfl | h | ⟨c, hc, h⟩) | h)
            · exact Or.inr ⟨x, Or.inr rfl, Or.inl ⟨hdd, rfl⟩⟩
            · exact Or.inl h
            · exact Or.inr ⟨c, Or.inl hc, h⟩
            · exact Or.inr ⟨b, Or.inr rfl, Or.inr h⟩
          · rintro (h | ⟨c, hc | rfl, h | h⟩)
            · exact Or.inl (Or.inr (Or.inl h))
            · exact Or.inl (Or.inr (Or.inr ⟨c, hc, Or.inl h⟩))
            · exact Or.inl (Or.inr (Or.inr ⟨c, hc, Or.inr h⟩))
            · exact Or.inl (Or.inl h.2)
            · exact Or.inr h
        · rw [if_neg (fun h => hdd (hmin.1 h)), j1 d' hd' x]
          simp only [List.mem_append, List.mem_singleton]
          constructor
          · rintro ((h | ⟨c, hc, h⟩) | h)
            · exact Or.inl h
            · exact Or.inr ⟨c, Or.inl hc, h⟩
            · exact Or.inr ⟨b, Or.inr rfl, Or.inr h⟩
          · rintro (h | ⟨c, hc | rfl, h | h⟩)
            · exact Or.inl (Or.inl h)
            · exact Or.inl (Or.inr ⟨c, hc, Or.inl h⟩)
            · exact Or.inl (Or.inr ⟨c, hc, Or.inr h⟩)
            · exact absurd h.1 hdd
            · exact Or.inr h
      · apply i2
        rw [SimplexSet.keys_insert]
        split_ifs
        · exact sorted_set_insert _ (j2 d' hsd)
        · exact j2 d' hsd
      · rcases List.mem_append.1 hc with hc | hc
        · exact j3 c hc
        · simp only [List.mem_singleton] at hc
          subst hc
          exact ⟨i3, i4⟩

/-- The call `boundary_helper` returns when the keys it meets are live. -/
theorem boundary_helper_returns (m : Mesh) (P : Nat → Nat → Prop)
    (hP : ∀ d k, P d k → (m.lookup_simplex d k).isSome)
    (hB : ∀ d k a, 2 ≤ d → d ≤ 3 → P d k → m.lookup_simplex d k = some a →
      ∀ b ∈ a.m_boundary, P (d - 1) b) :
    ∀ (d : Nat), d ≤ 3 → ∀ (k : Nat) (set : SimplexSet), (1 ≤ d → P d k) →
      ∃ R, boundary_helper m d k set = some R := by
  intro d
  induction d with
  | zero => intro _ k set _; exact ⟨set, rfl⟩
  | succ d ih =>
    intro hd k set hk
    obtain ⟨s, hs⟩ := Option.isSome_iff_exists.1 (hP _ _ (hk (by omega)))
    unfold boundary_helper
    have key := foldlM_prefix_returns (fun (_ : List Nat) (_ : SimplexSet) => True)
      (fun set b => boundary_helper m d b (set.insert d b)) s.m_boundary ?_ set trivial
    · obtain ⟨R, hR, -⟩ := key
      exact ⟨R, by rw [hs]; exact hR⟩
    · intro pre b suf acc hL _
      have hb : b ∈ s.m_boundary := by rw [hL]; simp
      obtain ⟨R, hR⟩ := ih (by omega) b (acc.insert d b) (fun h1 =>
        hB (d + 1) k s (by omega) hd (hk (by omega)) hs b hb)
      exact ⟨R, hR, trivial⟩

theorem SimplexSet.keys_add (s t : SimplexSet) (d : Nat) :
    (s.add t).keys d = (t.keys d).foldl (fun acc k => set_insert k acc) (s.keys d) := by
  rcases d with _ | _ | _ | d <;> rfl

theorem closure_single_spec {m : Mesh} {d k : Nat} {c : SimplexSet} (hd : d ≤ 3)
    (h : closure m d k SimplexSet.empty = some c) :
    (∀ d', d' ≤ 3 → ∀ x, x ∈ c.keys d' ↔ (d' = d ∧ x = k) ∨ InBoundary m d k d' x) ∧
    (∀ d', (c.keys d').Sorted (· < ·)) ∧
    (1 ≤ d → (m.lookup_simplex d k).isSome) ∧
    (∀ d' x, 1 ≤ d' → InBoundary m d k d' x → (m.lookup_simplex d' x).isSome) := by
  unfold closure at h
  simp only [bind, Option.bind_eq_some, pure, Option.some.injEq] at h
  obtain ⟨bh, hbh, rfl⟩ := h
  obtain ⟨a1, a2, a3, a4⟩ := boundary_helper_spec m d hd k _ _ hbh
  refine ⟨fun d' hd' x => ?_, fun d' => ?_, a3, a4⟩
  · rw [SimplexSet.keys_insert]
    have hmin : (min d 3 = min d' 3) ↔ d' = d := by
      rw [Nat.min_eq_left hd, Nat.min_eq_left hd']
      exact eq_comm
    by_cases hdd : d' = d
    · rw [if_pos (hmin.2 hdd), mem_set_insert, a1 d' hd' x, SimplexSet.keys_empty]
      simp [hdd]
    · rw [if_neg (fun h => hdd (hmin.1 h)), a1 d' hd' x, SimplexSet.keys_empty]
      simp [hdd]
  · have hs := a2 d' (by rw [SimplexSet.keys_empty]; exact List.sorted_nil)
    rw [SimplexSet.keys_insert]
    split_ifs
    · exact sorted_set_insert _ hs
    · exact hs

theorem closure_union_dim_spec (m : Mesh) (d : Nat) (hd : d ≤ 3) (L : List Nat)
    (acc R : SimplexSet) (h : closure_union_dim m d L acc = some R) :
    (∀ d', d' ≤ 3 → ∀ x, x ∈ R.keys d' ↔
      x ∈ acc.keys d' ∨ ∃ k ∈ L, (d' = d ∧ x = k) ∨ InBoundary m d k d' x) ∧
    (∀ d', (acc.keys d').Sorted (· < ·) → (R.keys d').Sorted (· < ·)) ∧
    (∀ k ∈ L, (1 ≤ d → (m.lookup_simplex d k).isSome) ∧
      ∀ d' x, 1 ≤ d' → InBoundary m d k d' x → (m.lookup_simplex d' x).isSome) := by
  unfold closure_union_dim at h
  refine foldlM_prefix_spec
    (fun (pre : List Nat) (r : SimplexSet) =>
      (∀ d', d' ≤ 3 → ∀ x, x ∈ r.keys d' ↔
        x ∈ acc.keys d' ∨ ∃ k ∈ pre, (d' = d ∧ x = k) ∨ InBoundary m d k d' x) ∧
      (∀ d', (acc.keys d').Sorted (· < ·) → (r.keys d').Sorted (· < ·)) ∧
      (∀ k ∈ pre, (1 ≤ d → (m.lookup_simplex d k).isSome) ∧
        ∀ d' x, 1 ≤ d' → InBoundary m d k d' x → (m.lookup_simplex d' x).isSome))
    _ L ?_ acc R
    ⟨fun d' _ x => by simp, fun d' h => h, fun b hb => absurd hb (List.not_mem_nil _)⟩ h
  intro pre k suf r r' hL hI hstep
  simp only [bind, Option.bind_eq_some, pure, Option.some.injEq] at hstep
  obtain ⟨c, hc, rfl⟩ := hstep
  obtain ⟨a1, a2, a3, a4⟩ := closure_single_spec hd hc
  obtain ⟨j1, j2, j3⟩ := hI
  refine ⟨fun d' hd' x => ?_, fun d' hsd => ?_, fun y hy => ?_⟩
  · rw [SimplexSet.keys_add, mem_foldl_set_insert, a1 d' hd' x, j1 d' hd' x]
    simp only [List.mem_append, List.mem_singleton]
    constructor
    · rintro (h | h | ⟨y, hy, h⟩)
      · exact Or.inr ⟨k, Or.inr rfl, h⟩
      · exact Or.inl h
      · exact Or.inr ⟨y, Or.inl hy, h⟩
    · rintro (h | ⟨y, hy | rfl, h⟩)
      · exact Or.inr (Or.inl h)
      · exact Or.inr (Or.inr ⟨y, hy, h⟩)
      · exact Or.inl h
  · rw [SimplexSet.keys_add]
    exact sorted_foldl_set_insert _ _ (j2 d' hsd)
  · rcases List.mem_append.1 hy with hy | hy
    · exact j3 y hy
    · simp only [List.mem_singleton] at hy
      subst hy
      exact ⟨a3, a4⟩

theorem closure_union_dim_returns (m : Mesh) (d : Nat) (L : List Nat)
    (hL : ∀ k ∈ L, ∃ c, closure m d k SimplexSet.empty = some c) :
    ∀ acc, ∃ R, closure_union_dim m d L acc = some R := by
  intro acc
  unfold closure_union_dim
  have key := foldlM_prefix_returns (fun (_ : List Nat) (_ : SimplexSet) => True)
    (fun acc k => do
      let c ← closure m d k SimplexSet.empty
      pure (acc.add c)) L ?_ acc trivial
  · obtain ⟨R, hR, -⟩ := key
    exact ⟨R, hR⟩
  · intro pre k suf r hl _
    obtain ⟨c, hc⟩ := hL k (by rw [hl]; simp)
    exact ⟨r.add c, by simp only [bind, hc, Option.some_bind, pure], trivial⟩

end ISMesh
namespace ISMesh

/-- The union of the single-key closures of the members of `S` is the closure of `S`. -/
theorem closure_union_spec {m : Mesh} {S R : SimplexSet} (h : closure_union m S = some R) :
    IsClosure m S R := by
  unfold closure_union at h
  simp only [bind, Option.bind_eq_some] at h
  obtain ⟨r0, h0, r1, h1, r2, h2, h3⟩ := h
  obtain ⟨a1, a2, a3⟩ := closure_union_dim_spec m 0 (by omega) _ _ _ h0
  obtain ⟨b1, b2, b3⟩ := closure_union_dim_spec m 1 (by omega) _ _ _ h1
  obtain ⟨c1, c2, c3⟩ := closure_union_dim_spec m 2 (by omega) _ _ _ h2
  obtain ⟨e1, e2, e3⟩ := closure_union_dim_spec m 3 (by omega) _ _ _ h3
  have hmem : ∀ d', d' ≤ 3 → ∀ x, x ∈ R.keys d' ↔
      x ∈ S.keys d' ∨ ∃ d, d ≤ 3 ∧ ∃ k ∈ S.keys d, InBoundary m d k d' x := by
    intro d' hd' x
    rw [e1 d' hd' x, c1 d' hd' x, b1 d' hd' x, a1 d' hd' x, SimplexSet.keys_empty]
    constructor
    · rintro ((((h | ⟨k, hk, h | h⟩) | ⟨k, hk, h | h⟩) | ⟨k, hk, h | h⟩) | ⟨k, hk, h | h⟩)
      · cases h
      · obtain ⟨rfl, rfl⟩ := h; exact Or.inl hk
      · exact Or.inr ⟨0, by omega, k, hk, h⟩
      · obtain ⟨rfl, rfl⟩ := h; exact Or.inl hk
      · exact Or.inr ⟨1, by omega, k, hk, h⟩
      · obtain ⟨rfl, rfl⟩ := h; exact Or.inl hk
      · exact Or.inr ⟨2, by omega, k, hk, h⟩
      · obtain ⟨rfl, rfl⟩ := h; exact Or.inl hk
      · exact Or.inr ⟨3, by omega, k, hk, h⟩
    · rintro (h | ⟨d, hd, k, hk, h⟩)
      · have hc : d' = 0 ∨ d' = 1 ∨ d' = 2 ∨ d' = 3 := by omega
        rcases hc with rfl | rfl | rfl | rfl
        · exact Or.inl (Or.inl (Or.inl (Or.inr ⟨x, h, Or.inl ⟨rfl, rfl⟩⟩)))
        · exact Or.inl (Or.inl (Or.inr ⟨x, h, Or.inl ⟨rfl, rfl⟩⟩))
        · exact Or.inl (Or.inr ⟨x, h, Or.inl ⟨rfl, rfl⟩⟩)
        · exact Or.inr ⟨x, h, Or.inl ⟨rfl, rfl⟩⟩
      · have hc : d = 0 ∨ d = 1 ∨ d = 2 ∨ d = 3 := by omega
        rcases hc with rfl | rfl | rfl | rfl
        · exact Or.inl (Or.inl (Or.inl (Or.inr ⟨k, hk, Or.inr h⟩)))
        · exact Or.inl (Or.inl (Or.inr ⟨k, hk, Or.inr h⟩))
        · exact Or.inl (Or.inr ⟨k, hk, Or.inr h⟩)
        · exact Or.inr ⟨k, hk, Or.inr h⟩
  have hlive : ∀ d, d ≤ 3 → ∀ k ∈ S.keys d, (1 ≤ d → (m.lookup_simplex d k).isSome) ∧
      ∀ d' x, 1 ≤ d' → InBoundary m d k d' x → (m.lookup_simplex d' x).isSome := by
    intro d hd k hk
    have hc : d = 0 ∨ d = 1 ∨ d = 2 ∨ d = 3 := by omega
    rcases hc with rfl | rfl | rfl | rfl
    · exact a3 k hk
    · exact b3 k hk
    · exact c3 k hk
    · exact e3 k hk
  refine ⟨fun d hd => ?_, fun d h1 h3 k hk => ?_, fun x => ?_, fun d hd x => ?_⟩
  · exact e2 d (c2 d (b2 d (a2 d (by rw [SimplexSet.keys_empty]; exact List.sorted_nil))))
  · rcases (hmem d h3 k).1 hk with h | ⟨d0, hd0, k0, hk0, h⟩
    · exact (hlive d h3 k h).1 h1
    · exact (hlive d0 hd0 k0 hk0).2 d k h1 h
  · rw [hmem 3 (by omega) x]
    constructor
    · rintro (h | ⟨d0, hd0, k0, hk0, h⟩)
      · exact h
      · have := h.lt
        omega
    · exact fun h => Or.inl h
  · rw [hmem d (by omega) x]
    constructor
    · rintro (h | ⟨d0, hd0, k0, hk0, h⟩)
      · exact Or.inl h
      · obtain ⟨y, a, hy, ha, hx⟩ := h.last
        refine Or.inr ⟨y, ?_, a, ha, hx⟩
        rw [hmem (d + 1) (by omega) y]
        rcases hy with ⟨rfl, rfl⟩ | hy
        · exact Or.inl hk0
        · exact Or.inr ⟨d0, hd0, k0, hk0, hy⟩
    · rintro (h | ⟨y, hy, a, ha, hx⟩)
      · exact Or.inl h
      · rcases (hmem (d + 1) (by omega) y).1 hy with h | ⟨d0, hd0, k0, hk0, h⟩
        · refine Or.inr ⟨d + 1, by omega, y, h, ?_⟩
          rw [InBoundary.succ_iff]
          exact ⟨a, ha, x, hx, Or.inl ⟨rfl, rfl⟩⟩
        · exact Or.inr ⟨d0, hd0, k0, hk0, h.step ha hx⟩

/-- The union of the single-key closures returns when the keys it meets are live. -/
theorem closure_union_returns {m : Mesh} {S : SimplexSet} (P : Nat → Nat → Prop)
    (hP : ∀ d k, P d k → (m.lookup_simplex d k).isSome)
    (hS : ∀ d, 1 ≤ d → d ≤ 3 → ∀ k ∈ S.keys d, P d k)
    (hB : ∀ d k a, 2 ≤ d → d ≤ 3 → P d k → m.lookup_simplex d k = some a →
      ∀ b ∈ a.m_boundary, P (d - 1) b) :
    ∃ R, closure_union m S = some R := by
  have hone : ∀ d, d ≤ 3 → ∀ k ∈ S.keys d, ∃ c, closure m d k SimplexSet.empty = some c := by
    intro d hd k hk
    obtain ⟨bh, hbh⟩ := boundary_helper_returns m P hP hB d hd k SimplexSet.empty
      (fun h1 => hS d h1 hd k hk)
    exact ⟨bh.insert d k, by unfold closure; simp only [bind, hbh, Option.some_bind, pure]⟩
  obtain ⟨r0, h0⟩ := closure_union_dim_returns m 0 S.nodes (hone 0 (by omega)) SimplexSet.empty
  obtain ⟨r1, h1⟩ := closure_union_dim_returns m 1 S.edges (hone 1 (by omega)) r0
  obtain ⟨r2, h2⟩ := closure_union_dim_returns m 2 S.faces (hone 2 (by omega)) r1
  obtain ⟨r3, h3⟩ := closure_union_dim_returns m 3 S.tetrahedra (hone 3 (by omega)) r2
  exact ⟨r3, by unfold closure_union; simp only [bind, h0, h1, h2, h3, Option.some_bind]⟩

/-- C26: the closure of a set is the union of its members' closures. For every mesh and
every simplex set `S`, `closure(S)` computed into an empty result and the union, over the
members `s` of `S`, of `closure(s)` computed by the single-key overload are the same: when
one returns so does the other, with the same set. Both return when `S` holds live
simplices of a mesh without dangling boundary keys. -/
theorem closure_set_eq_union (m : Mesh) (S : SimplexSet) :
    closure_set m S SimplexSet.empty = closure_union m S ∧
    (BoundaryLive m → LiveSet m S →
      ∃ R, closure_set m S SimplexSet.empty = some R ∧ closure_union m S = some R) := by
  have hiff : ∀ R, closure_set m S SimplexSet.empty = some R ↔ closure_union m S = some R := by
    intro R
    constructor
    · intro h
      have hc := closure_helper_spec h
      obtain ⟨R', h'⟩ := @closure_union_returns m S
        (fun d k => 1 ≤ d ∧ d ≤ 3 ∧ k ∈ R.keys d)
        (fun d k hk => hc.2.1 d hk.1 hk.2.1 k hk.2.2)
        (fun d h1 h3 k hk => ⟨h1, h3, hc.subset d h3 k hk⟩)
        (fun d k a h2 h3 hk ha b hb => by
          refine ⟨by omega, by omega, ?_⟩
          have e : d - 1 + 1 = d := by omega
          have := hc.2.2.2 (d - 1) (by omega) b
          rw [e] at this
          exact this.2 (Or.inr ⟨k, hk.2.2, a, ha, hb⟩))
      rw [h', IsClosure.unique (closure_union_spec h') hc]
    · intro h
      have hc := closure_union_spec h
      obtain ⟨R', h'⟩ := closure_helper_returns_of S hc (fun d _ h3 => hc.subset d h3)
      have : closure_set m S SimplexSet.empty = some R' := h'
      rw [this, IsClosure.unique (closure_helper_spec h') hc]
  refine ⟨Option.ext (fun R => hiff R), fun hb hl => ?_⟩
  obtain ⟨R, hR⟩ := closure_helper_returns (fun d k => (m.lookup_simplex d k).isSome)
    (fun d k hk => hk) hl (fun d k a h2 h3 _ ha b hbm => hb d k a (by omega) h3 ha b hbm)
  exact ⟨R, hR, (hiff R).1 hR⟩

/-- C27: `boundary(key)` is the strict boundary. Whenever `boundary(k)` computed into an
empty set returns for a key `k` of dimension `d`, the result holds no simplex of dimension
`d` or higher (so never `k` itself), it holds every entry of the boundary list of `k`, and
with each edge, face or tetrahedron it holds the entries of its boundary list; it is empty
when `k` is a node. The call returns for every live simplex of a mesh without dangling
boundary keys. -/
theorem boundary_strict (m : Mesh) (d k : Nat) (hd : d ≤ 3) :
    (∀ R, boundary m d k SimplexSet.empty = some R →
      (∀ d', d ≤ d' → R.keys d' = []) ∧
      (∀ s, 1 ≤ d → m.lookup_simplex d k = some s → ∀ b ∈ s.m_boundary, b ∈ R.keys (d - 1)) ∧
      (∀ d' x s, 1 ≤ d' → d' ≤ 3 → x ∈ R.keys d' → m.lookup_simplex d' x = some s →
        ∀ b ∈ s.m_boundary, b ∈ R.keys (d' - 1)) ∧
      (d = 0 → R = SimplexSet.empty)) ∧
    (BoundaryLive m → (m.lookup_simplex d k).isSome →
      ∃ R, boundary m d k SimplexSet.empty = some R) := by
  constructor
  · intro R h
    obtain ⟨a1, -, -, -⟩ := boundary_helper_spec m d hd k _ _ h
    simp only [SimplexSet.keys_empty, List.not_mem_nil, false_or] at a1
    refine ⟨fun d' hdd => ?_, fun s h1 hs b hb => ?_, fun d' x s h1 h3 hx hs b hb => ?_,
      fun h0 => ?_⟩
    · rw [SimplexSet.keys_min]
      apply List.eq_nil_iff_forall_not_mem.2
      intro x hx
      have := ((a1 (min d' 3) (Nat.min_le_right _ _) x).1 hx).lt
      have : min d' 3 < d := this
      omega
    · rw [a1 (d - 1) (by omega) b]
      obtain ⟨e, rfl⟩ : ∃ e, d = e + 1 := ⟨d - 1, by omega⟩
      rw [InBoundary.succ_iff]
      exact ⟨s, hs, b, hb, Or.inl ⟨rfl, rfl⟩⟩
    · rw [a1 (d' - 1) (by omega) b]
      obtain ⟨e, rfl⟩ : ∃ e, d' = e + 1 := ⟨d' - 1, by omega⟩
      exact ((a1 (e + 1) h3 x).1 hx).step hs hb
    · subst h0
      simp only [boundary, boundary_helper, Option.some.injEq] at h
      exact h.symm
  · intro hb hl
    exact boundary_helper_returns m (fun d k => (m.lookup_simplex d k).isSome)
      (fun d k hk => hk) (fun d k a h2 h3 _ ha b hbm => hb d k a (by omega) h3 ha b hbm)
      d hd k SimplexSet.empty (fun _ => hl)

theorem liveSet_of_check {m : Mesh} {S : SimplexSet}
    (h1 : S.edges.all (fun k => (m.lookup_simplex 1 k).isSome) = true)
    (h2 : S.faces.all (fun k => (m.lookup_simplex 2 k).isSome) = true)
    (h3 : S.tetrahedra.all (fun k => (m.lookup_simplex 3 k).isSome) = true) : LiveSet m S := by
  intro d hd1 hd3 k hk
  have hd : d = 1 ∨ d = 2 ∨ d = 3 := by omega
  rcases hd with rfl | rfl | rfl
  · exact List.all_eq_true.1 h1 k hk
  · exact List.all_eq_true.1 h2 k hk
  · exact List.all_eq_true.1 h3 k hk

/-- Witness of C26: the closure of a node, an edge, a face and a tetrahedron of the
compressed fan. -/
theorem closure_set_eq_union_witness :
    closure_union compact_fan ⟨[4], [9], [0], [1]⟩
      = some ⟨[0, 1, 2, 3, 4], [0, 1, 2, 3, 4, 5, 6, 8, 9], [0, 1, 2, 5, 6], [1]⟩ ∧
    BoundaryLive compact_fan ∧ LiveSet compact_fan ⟨[4], [9], [0], [1]⟩ ∧
    ∃ R, closure_set compact_fan ⟨[4], [9], [0], [1]⟩ SimplexSet.empty = some R ∧
      closure_union compact_fan ⟨[4], [9], [0], [1]⟩ = some R :=
  have hl : LiveSet compact_fan ⟨[4], [9], [0], [1]⟩ :=
    liveSet_of_check (by decide!) (by decide!) (by decide!)
  ⟨by decide!, compact_fan_boundaryLive, hl,
    (closure_set_eq_union compact_fan ⟨[4], [9], [0], [1]⟩).2 compact_fan_boundaryLive hl⟩

/-- Witness of C27: the boundary of the tetrahedron 1 of the compressed fan. -/
theorem boundary_strict_witness :
    boundary compact_fan 3 1 SimplexSet.empty
      = some ⟨[0, 1, 3, 4], [0, 2, 3, 5, 6, 8], [1, 2, 5, 6], []⟩ ∧
    BoundaryLive compact_fan ∧ (compact_fan.lookup_simplex 3 1).isSome ∧
    (∃ R, boundary compact_fan 3 1 SimplexSet.empty = some R) ∧
    (∀ d', 3 ≤ d' →
      (⟨[0, 1, 3, 4], [0, 2, 3, 5, 6, 8], [1, 2, 5, 6], []⟩ : SimplexSet).keys d' = []) :=
  ⟨by decide!, compact_fan_boundaryLive, by decide!,
    (boundary_strict compact_fan 3 1 (by decide)).2 compact_fan_boundaryLive (by decide!),
    ((boundary_strict compact_fan 3 1 (by decide)).1 _ (by decide!)).1⟩

end ISMesh
namespace ISMesh

theorem Mesh.label_of_lookup {m : Mesh} {d k : Nat} {s : Simplex}
    (h : m.lookup_simplex d k = some s) : m.label d k = s.m_label := by
  unfold Mesh.lookup_simplex at h
  have := Kernel.find_eq_some.1 h
  unfold Mesh.label Kernel.label
  rw [this]

theorem Mesh.lookup_of_topology {m m' : Mesh} {d k : Nat} {s : Simplex}
    (h : m'.topology d k = m.topology d k) (hs : m.lookup_simplex d k = some s) :
    ∃ s', m'.lookup_simplex d k = some s' ∧ s'.m_boundary = s.m_boundary ∧
      s'.m_co_boundary = s.m_co_boundary := by
  unfold Mesh.topology at h
  rw [hs] at h
  cases hs' : m'.lookup_simplex d k with
  | none => rw [hs'] at h; cases h
  | some s' =>
    rw [hs'] at h
    simp only [Option.map_some', Option.some.injEq, Prod.mk.injEq] at h
    exact ⟨s', rfl, h.1, h.2⟩

theorem Mesh.topology_modify {m m' : Mesh} {d k : Nat} {f : Simplex → Simplex}
    (h : m.modify d k f = some m')
    (hf : ∀ s, (f s).m_boundary = s.m_boundary ∧ (f s).m_co_boundary = s.m_co_boundary)
    (d' k' : Nat) : m'.topology d' k' = m.topology d' k' := by
  unfold Mesh.topology
  rw [Mesh.lookup_modify h d' k']
  split_ifs with hc
  · obtain ⟨hd, rfl⟩ := hc
    rw [Mesh.lookup_of_min m hd k']
    cases m.lookup_simplex d k' with
    | none => rfl
    | some s => simp [hf s]
  · rfl

theorem Mesh.topology_modify_other {m m' : Mesh} {d k : Nat} {f : Simplex → Simplex}
    (h : m.modify d k f = some m') {d' : Nat} (hd : min d 3 ≠ min d' 3) (k' : Nat) :
    m'.topology d' k' = m.topology d' k' := by
  unfold Mesh.topology
  rw [Mesh.lookup_modify h d' k', if_neg (fun hc => hd hc.1)]

theorem Mesh.label_modify_keep {m m' : Mesh} {d k : Nat} {f : Simplex → Simplex}
    (h : m.modify d k f = some m') (hf : ∀ s, (f s).m_label = s.m_label) (d' k' : Nat) :
    m'.label d' k' = m.label d' k' := by
  rw [Mesh.label_modify h d' k']
  split_ifs with hc
  · obtain ⟨hd, rfl⟩ := hc
    rw [Mesh.label_min m d', ← hd, ← Mesh.label_min m d]
    cases hs : m.lookup_simplex d k' with
    | none =>
      obtain ⟨_, hs'⟩ : ∃ s', m'.lookup_simplex d k' = some s' := by
        have := Mesh.isSome_modify h d k'
        unfold Mesh.modify Kernel.modify at h
        unfold Mesh.lookup_simplex at hs
        rw [hs] at h
        cases h
      exact absurd hs' (by
        have := Mesh.isSome_modify h d k'
        rw [hs] at this
        intro hc
        rw [hc] at this
        cases this)
    | some s => simp [hf s, Mesh.label_of_lookup hs]
  · rfl

theorem Mesh.label_modify_set {m m' : Mesh} {d k : Nat} {l : Int}
    (h : m.modify d k (fun x => x.set_label l) = some m') :
    m'.label d k = l ∧ ∀ d' k', ¬ (min d 3 = min d' 3 ∧ k' = k) → m'.label d' k' = m.label d' k' := by
  constructor
  · rw [Mesh.label_modify h d k]
    simp only [and_self, if_true]
    cases hs : m.lookup_simplex d k with
    | none =>
      unfold Mesh.modify Kernel.modify at h
      unfold Mesh.lookup_simplex at hs
      rw [hs] at h
      cases h
    | some s => rfl
  · intro d' k' hc
    rw [Mesh.label_modify h d' k', if_neg hc]

theorem FadesExcept.fades_refl (L : Nat) (E : Nat → Nat → Prop) (m : Mesh) :
    FadesExcept L E m m :=
  ⟨fun _ => ⟨rfl, rfl⟩, fun _ _ h => h, fun _ _ _ h1 h2 => absurd h2 h1,
    fun _ _ _ h1 h2 => absurd h2 h1⟩

theorem FadesExcept.fades_append {L : Nat} {E : Nat → Nat → Prop} {a b c : Mesh}
    (h1 : FadesExcept L E a b) (h2 : FadesExcept L (fun _ _ => False) b c) :
    FadesExcept L E a c := by
  refine ⟨fun k => ⟨(h2.topo k).1.trans (h1.topo k).1, (h2.topo k).2.trans (h1.topo k).2⟩,
    fun d k h => h1.shrink d k (h2.shrink d k h), ?_, ?_⟩
  · intro y s he ha hc hs x hx
    by_cases hb : b.label L y = 0
    · by_contra hne
      exact h2.shrink _ _ hne (h1.up y s he ha hb hs x hx)
    · obtain ⟨s', hs', -, hco⟩ := Mesh.lookup_of_topology (h1.topo y).1 hs
      exact h2.up y s' (fun h => h) hb hc hs' x (by rw [hco]; exact hx)
  · intro y s he ha hc hs x hx
    by_cases hb : b.label (L + 1) y = 0
    · by_contra hne
      exact h2.shrink _ _ hne (h1.down y s he ha hb hs x hx)
    · obtain ⟨s', hs', hbd, -⟩ := Mesh.lookup_of_topology (h1.topo y).2 hs
      exact h2.down y s' (fun h => h) hb hc hs' x (by rw [hbd]; exact hx)

theorem modify_reset_fades {m m1 : Mesh} {d k : Nat} (L : Nat) (hL : L + 1 ≤ 3) (hd : d ≤ 3)
    (h : m.modify d k Simplex.reset_label = some m1) :
    FadesExcept L (fun d' y => d' = d ∧ y = k) m m1 := by
  obtain ⟨hs, -⟩ := modify_reset_label_shrink h
  have hl := Mesh.label_modify h
  have hkeep : ∀ d' y, d' ≤ 3 → ¬ (d' = d ∧ y = k) → m1.label d' y = m.label d' y := by
    intro d' y hd' hne
    rw [hl d' y, if_neg]
    rintro ⟨h1, h2⟩
    rw [Nat.min_eq_left hd, Nat.min_eq_left hd'] at h1
    exact hne ⟨h1.symm, h2⟩
  refine ⟨fun y => ⟨Mesh.topology_modify h (fun s => ⟨rfl, rfl⟩) _ _,
    Mesh.topology_modify h (fun s => ⟨rfl, rfl⟩) _ _⟩, hs.2, ?_, ?_⟩
  · intro y s he ha hc
    rw [hkeep L y (by omega) he] at hc
    exact absurd hc ha
  · intro y s he ha hc
    rw [hkeep (L + 1) y hL he] at hc
    exact absurd hc ha

theorem modify_keep_fades {m m1 : Mesh} {d k : Nat} {f : Simplex → Simplex} (L : Nat)
    (h : m.modify d k f = some m1) (hf : ∀ s, (f s).m_label = s.m_label)
    (h1 : min d 3 ≠ min L 3) (h2 : min d 3 ≠ min (L + 1) 3) :
    FadesExcept L (fun _ _ => False) m m1 := by
  have hl := Mesh.label_modify_keep h hf
  refine ⟨fun y => ⟨Mesh.topology_modify_other h h1 y, Mesh.topology_modify_other h h2 y⟩,
    fun d' y hne => by rw [← hl]; exact hne, ?_, ?_⟩
  · intro y s _ ha hc
    rw [hl] at hc
    exact absurd hc ha
  · intro y s _ ha hc
    rw [hl] at hc
    exact absurd hc ha

/-- The traversal by `reset_label` resets the labels of a region closed under its steps. -/
theorem reset_label_fades (L : Nat) (hL : L + 1 ≤ 3) (fuel : Nat) :
    (∀ k m m', reset_label fuel L k m = some m' →
      FadesExcept L (fun _ _ => False) m m' ∧ m'.label L k = 0) ∧
    (∀ k m m', reset_co_label fuel (L + 1) k m = some m' →
      FadesExcept L (fun _ _ => False) m m' ∧ m'.label (L + 1) k = 0) := by
  induction fuel with
  | zero =>
    constructor
    · intro k m m' h; simp [reset_label] at h
    · intro k m m' h; simp [reset_co_label] at h
  | succ fuel ih =>
    constructor
    · intro k m m' h
      have hz := ((reset_label_shrink (fuel + 1)).1 _ _ _ _ h).2
      refine ⟨?_, hz⟩
      rw [reset_label] at h
      obtain ⟨s, hs, h⟩ := Option.bind_eq_some.1 h
      obtain ⟨m1, h1, h2⟩ := Option.bind_eq_some.1 h
      have key := foldlM_prefix_spec
        (fun (pre : List Nat) (cur : Mesh) =>
          FadesExcept L (fun d' y => d' = L ∧ y = k) m cur ∧
          ∀ c ∈ pre, cur.label (L + 1) c = 0) _ s.m_co_boundary ?_ m1 m'
        ⟨modify_reset_fades L hL (by omega) h1, fun c hc => absurd hc (List.not_mem_nil _)⟩ h2
      · obtain ⟨hf, hall⟩ := key
        refine ⟨hf.topo, hf.shrink, ?_, ?_⟩
        · intro y s' _ ha hc hs' x hx
          by_cases hy : y = k
          · subst hy
            rw [hs] at hs'
            cases hs'
            exact hall x hx
          · exact hf.up y s' (fun h => hy h.2) ha hc hs' x hx
        · intro y s' _ ha hc hs' x hx
          exact hf.down y s' (fun h => by omega) ha hc hs' x hx
      · intro pre c suf cur cur' _ hI hstep
        obtain ⟨simplex, hsx, hstep⟩ := Option.bind_eq_some.1 hstep
        split_ifs at hstep with hlab
        · obtain ⟨f2, z2⟩ := ih.2 c cur cur' hstep
          refine ⟨hI.1.fades_append f2, fun x hx => ?_⟩
          rcases List.mem_append.1 hx with hx | hx
          · by_contra hne
            exact f2.shrink _ _ hne (hI.2 x hx)
          · simp only [List.mem_singleton] at hx
            subst hx
            exact z2
        · simp only [pure, Option.some.injEq] at hstep
          subst hstep
          refine ⟨hI.1, fun x hx => ?_⟩
          rcases List.mem_append.1 hx with hx | hx
          · exact hI.2 x hx
          · simp only [List.mem_singleton] at hx
            subst hx
            rw [Mesh.label_of_lookup hsx]
            exact not_not.1 hlab
    · intro k m m' h
      have hz := ((reset_label_shrink (fuel + 1)).2 _ _ _ _ h).2
      refine ⟨?_, hz⟩
      rw [reset_co_label] at h
      obtain ⟨s, hs, h⟩ := Option.bind_eq_some.1 h
      obtain ⟨m1, h1, h2⟩ := Option.bind_eq_some.1 h
      simp only [Nat.add_sub_cancel] at h2
      have key := foldlM_prefix_spec
        (fun (pre : List Nat) (cur : Mesh) =>
          FadesExcept L (fun d' y => d' = L + 1 ∧ y = k) m cur ∧
          ∀ c ∈ pre, cur.label L c = 0) _ s.m_boundary ?_ m1 m'
        ⟨modify_reset_fades L hL hL h1, fun c hc => absurd hc (List.not_mem_nil _)⟩ h2
      · obtain ⟨hf, hall⟩ := key
        refine ⟨hf.topo, hf.shrink, ?_, ?_⟩
        · intro y s' _ ha hc hs' x hx
          exact hf.up y s' (fun h => by omega) ha hc hs' x hx
        · intro y s' _ ha hc hs' x hx
          by_cases hy : y = k
          · subst hy
            rw [hs] at hs'
            cases hs'
            exact hall x hx
          · exact hf.down y s' (fun h => hy h.2) ha hc hs' x hx
      · intro pre c suf cur cur' _ hI hstep
        obtain ⟨simplex, hsx, hstep⟩ := Option.bind_eq_some.1 hstep
        split_ifs at hstep with hlab
        · obtain ⟨f2, z2⟩ := ih.1 c cur cur' hstep
          refine ⟨hI.1.fades_append f2, fun x hx => ?_⟩
          rcases List.mem_append.1 hx with hx | hx
          · by_contra hne
            exact f2.shrink _ _ hne (hI.2 x hx)
          · simp only [List.mem_singleton] at hx
            subst hx
            exact z2
        · simp only [pure, Option.some.injEq] at hstep
          subst hstep
          refine ⟨hI.1, fun x hx => ?_⟩
          rcases List.mem_append.1 hx with hx | hx
          · exact hI.2 x hx
          · simp only [List.mem_singleton] at hx
            subst hx
            rw [Mesh.label_of_lookup hsx]
            exact not_not.1 hlab

end ISMesh
namespace ISMesh

theorem Grows.grows_refl (L : Nat) (m : Mesh) : Grows L m m :=
  ⟨fun _ => ⟨rfl, rfl⟩, fun _ _ h => h⟩

theorem Grows.grows_trans {L : Nat} {a b c : Mesh} (h1 : Grows L a b) (h2 : Grows L b c) :
    Grows L a c :=
  ⟨fun k => ⟨(h2.topo k).1.trans (h1.topo k).1, (h2.topo k).2.trans (h1.topo k).2⟩,
    fun d k h => h2.grow d k (h1.grow d k h)⟩

theorem LabelClosed.of_grows {L : Nat} {m m' : Mesh} {vec : List Nat} {C : Nat → Nat → Prop}
    (hg : Grows L m m') (h : LabelClosed m' L vec C) : LabelClosed m L vec C := by
  refine ⟨fun c hc hl => h.root c hc (hg.grow _ _ hl), ?_, ?_⟩
  · intro y s c hy hl hs hc hlc
    obtain ⟨s', hs', -, hco⟩ := Mesh.lookup_of_topology (hg.topo y).1 hs
    exact h.up y s' c hy (hg.grow _ _ hl) hs' (by rw [hco]; exact hc) (hg.grow _ _ hlc)
  · intro c s b hc hl hs hb hlb
    obtain ⟨s', hs', hbd, -⟩ := Mesh.lookup_of_topology (hg.topo c).2 hs
    exact h.down c s' b hc (hg.grow _ _ hl) hs' (by rw [hbd]; exact hb) (hg.grow _ _ hlb)

/-- Labelling one more simplex that is linked keeps every label linked. -/
theorem label_set_linked {m m1 : Mesh} {L d k : Nat} {vec : List Nat} {l : Int}
    (hL : L + 1 ≤ 3) (hd : d = L ∨ d = L + 1) (hl : l ≠ 0)
    (h : m.modify d k (fun x => x.set_label l) = some m1)
    (hlinked : LinkedLabels m L vec)
    (hnew : Grows L m m1 → ∀ C, LabelClosed m1 L vec C → C d k) :
    LinkedLabels m1 L vec ∧ Grows L m m1 := by
  obtain ⟨hset, hkeep⟩ := Mesh.label_modify_set h
  have hd3 : d ≤ 3 := by omega
  have hg : Grows L m m1 := by
    refine ⟨fun y => ⟨Mesh.topology_modify h (fun s => ⟨rfl, rfl⟩) _ _,
      Mesh.topology_modify h (fun s => ⟨rfl, rfl⟩) _ _⟩, ?_⟩
    intro d' k' hne
    by_cases hc : min d 3 = min d' 3 ∧ k' = k
    · obtain ⟨hc1, rfl⟩ := hc
      rw [Mesh.label_min, ← hc1, ← Mesh.label_min, hset]
      exact hl
    · rw [hkeep d' k' hc]
      exact hne
  refine ⟨?_, hg⟩
  intro d' x hd' hne
  by_cases hc : d' = d ∧ x = k
  · obtain ⟨rfl, rfl⟩ := hc
    exact ⟨hd, hnew hg⟩
  · have hc' : ¬ (min d 3 = min d' 3 ∧ x = k) := by
      rintro ⟨h1, h2⟩
      rw [Nat.min_eq_left hd3, Nat.min_eq_left hd'] at h1
      exact hc ⟨h1.symm, h2⟩
    rw [hkeep d' x hc'] at hne
    obtain ⟨a1, a2⟩ := hlinked d' x hd' hne
    exact ⟨a1, fun C hC => a2 C (hC.of_grows hg)⟩

/-- The label traversal of `compress` labels only simplices that are linked to `vec`. -/
theorem label_co_bound_linked (L : Nat) (hL : L + 1 ≤ 3) (vec : List Nat) (sd ssk : Nat)
    (l : Int) (hl : l ≠ 0) (fuel : Nat) :
    (∀ k m m', label_co_bound fuel sd ssk L k l m = some m' → LinkedLabels m L vec →
      (k ∈ vec ∨ ∃ c s, m.label (L + 1) c ≠ 0 ∧ m.lookup_simplex (L + 1) c = some s ∧
        k ∈ s.m_boundary) →
      LinkedLabels m' L vec ∧ Grows L m m') ∧
    (∀ c m m', label_co_co_bound fuel sd ssk (L + 1) c l m = some m' → LinkedLabels m L vec →
      (∃ y s, m.label L y ≠ 0 ∧ m.lookup_simplex L y = some s ∧ c ∈ s.m_co_boundary) →
      LinkedLabels m' L vec ∧ Grows L m m') := by
  induction fuel with
  | zero =>
    constructor
    · intro k m m' h; simp [label_co_bound] at h
    · intro k m m' h; simp [label_co_co_bound] at h
  | succ fuel ih =>
    constructor
    · intro k m m' h hlinked hatt
      rw [label_co_bound] at h
      obtain ⟨s, hs, h⟩ := Option.bind_eq_some.1 h
      split_ifs at h with hlab
      obtain ⟨m1, h1, h2⟩ := Option.bind_eq_some.1 h
      obtain ⟨hset, -⟩ := Mesh.label_modify_set h1
      obtain ⟨l1, g1⟩ := label_set_linked hL (Or.inl rfl) hl h1 hlinked (by
        intro hg C hC
        rcases hatt with hv | ⟨c, sc, hc, hsc, hk⟩
        · exact hC.root k hv (by rw [hset]; exact hl)
        · have hcC := (hlinked (L + 1) c hL hc).2 C (hC.of_grows hg)
          obtain ⟨s', hs', hbd, -⟩ := Mesh.lookup_of_topology (hg.topo c).2 hsc
          exact hC.down c s' k hcC (hg.grow _ _ hc) hs' (by rw [hbd]; exact hk)
            (by rw [hset]; exact hl))
      have key := foldlM_prefix_spec
        (fun (_ : List Nat) (cur : Mesh) => LinkedLabels cur L vec ∧ Grows L m1 cur)
        _ s.m_co_boundary ?_ m1 m' ⟨l1, Grows.grows_refl L m1⟩ h2
      · exact ⟨key.1, g1.grows_trans key.2⟩
      · intro pre c suf cur cur' hpre hI hstep
        obtain ⟨simplex, hsx, hstep⟩ := Option.bind_eq_some.1 hstep
        split_ifs at hstep with hz
        · obtain ⟨sb, -, hstep⟩ := Option.bind_eq_some.1 hstep
          split_ifs at hstep
          · have hc : c ∈ s.m_co_boundary := by rw [hpre]; simp
            have hs1 : m1.lookup_simplex L k = some (s.set_label l) := by
              rw [Mesh.lookup_modify_same h1, hs]; rfl
            obtain ⟨s', hs', -, hco⟩ := Mesh.lookup_of_topology (hI.2.topo k).1 hs1
            obtain ⟨a1, a2⟩ := ih.2 c cur cur' hstep hI.1
              ⟨k, s', hI.2.grow _ _ (by rw [hset]; exact hl), hs', by rw [hco]; exact hc⟩
            exact ⟨a1, hI.2.grows_trans a2⟩
          · simp only [pure, Option.some.injEq] at hstep
            subst hstep
            exact hI
        · simp only [pure, Option.some.injEq] at hstep
          subst hstep
          exact hI
    · intro k m m' h hlinked hatt
      rw [label_co_co_bound] at h
      obtain ⟨s, hs, h⟩ := Option.bind_eq_some.1 h
      split_ifs at h with hlab
      obtain ⟨m1, h1, h2⟩ := Option.bind_eq_some.1 h
      simp only [Nat.add_sub_cancel] at h2
      obtain ⟨hset, -⟩ := Mesh.label_modify_set h1
      obtain ⟨l1, g1⟩ := label_set_linked hL (Or.inr rfl) hl h1 hlinked (by
        intro hg C hC
        obtain ⟨y, sy, hy, hsy, hk⟩ := hatt
        have hyC := (hlinked L y (by omega) hy).2 C (hC.of_grows hg)
        obtain ⟨s', hs', -, hco⟩ := Mesh.lookup_of_topology (hg.topo y).1 hsy
        exact hC.up y s' k hyC (hg.grow _ _ hy) hs' (by rw [hco]; exact hk)
          (by rw [hset]; exact hl))
      have key := foldlM_prefix_spec
        (fun (_ : List Nat) (cur : Mesh) => LinkedLabels cur L vec ∧ Grows L m1 cur)
        _ s.m_boundary ?_ m1 m' ⟨l1, Grows.grows_refl L m1⟩ h2
      · exact ⟨key.1, g1.grows_trans key.2⟩
      · intro pre c suf cur cur' hpre hI hstep
        obtain ⟨simplex, hsx, hstep⟩ := Option.bind_eq_some.1 hstep
        split_ifs at hstep with hz
        · obtain ⟨sb, -, hstep⟩ := Option.bind_eq_some.1 hstep
          split_ifs at hstep
          · have hc : c ∈ s.m_boundary := by rw [hpre]; simp
            have hs1 : m1.lookup_simplex (L + 1) k = some (s.set_label l) := by
              rw [Mesh.lookup_modify_same h1, hs]; rfl
            obtain ⟨s', hs', hbd, -⟩ := Mesh.lookup_of_topology (hI.2.topo k).2 hs1
            obtain ⟨a1, a2⟩ := ih.1 c cur cur' hstep hI.1
              (Or.inr ⟨k, s', hI.2.grow _ _ (by rw [hset]; exact hl), hs',
                by rw [hbd]; exact hc⟩)
            exact ⟨a1, hI.2.grows_trans a2⟩
          · simp only [pure, Option.some.injEq] at hstep
            subst hstep
            exact hI
        · simp only [pure, Option.some.injEq] at hstep
          subst hstep
          exact hI

end ISMesh
namespace ISMesh

theorem label_uncompressed_reset (m : Mesh) (d k : Nat) :
    Mesh.label { m with m_uncompressed := 0 } d k = m.label d k := by
  rcases d with _ | _ | _ | d <;> rfl

/-- One pass of `compress` over a node or an edge leaves every label at 0. -/
theorem compress_one_labels {m m' : Mesh} {d k : Nat} (hd : d ≤ 1) (hz : LabelsZero m)
    (h : compress_one d m k = some m') : LabelsZero m' := by
  unfold compress_one at h
  obtain ⟨simplex, hs, h⟩ := Option.bind_eq_some.1 h
  by_cases hcompact : simplex.m_is_compact = true
  · rw [if_pos hcompact] at h
    simp only [pure, Option.some.injEq] at h
    subst h
    exact hz
  rw [if_neg hcompact] at h
  obtain ⟨m0, h0, h⟩ := Option.bind_eq_some.1 h
  obtain ⟨⟨mA, lA⟩, hA, h⟩ := Option.bind_eq_some.1 h
  obtain ⟨mB, hB, h⟩ := Option.bind_eq_some.1 h
  obtain ⟨⟨mC, lC⟩, hC, h⟩ := Option.bind_eq_some.1 h
  have hL : d + 1 + 1 ≤ 3 := by omega
  have hne1 : min d 3 ≠ min (d + 1) 3 := by omega
  have hne2 : min d 3 ≠ min (d + 1 + 1) 3 := by omega
  -- the labels are all 0 when the first loop starts
  have hz0 : ∀ d' x, m0.label d' x = 0 := fun d' x => by
    rw [Mesh.label_modify_keep h0 (fun s => rfl)]
    exact hz d' x
  -- the first loop labels simplices linked to the co-boundary
  have keyA := foldlM_prefix_spec
    (fun (_ : List Nat) (p : Mesh × Int) =>
      LinkedLabels p.1 (d + 1) simplex.m_co_boundary ∧ 1 ≤ p.2)
    _ simplex.m_co_boundary ?_ (m0, 1) (mA, lA)
    ⟨fun d' x _ hne => absurd (hz0 d' x) hne, le_refl _⟩ hA
  swap
  · intro pre c suf p p' hpre hI hstep
    obtain ⟨cs, hcs, hstep⟩ := Option.bind_eq_some.1 hstep
    split_ifs at hstep with hlab
    · obtain ⟨m2, h2, hstep⟩ := Option.bind_eq_some.1 hstep
      simp only [pure, Option.some.injEq] at hstep
      subst hstep
      have hc : c ∈ simplex.m_co_boundary := by rw [hpre]; simp
      obtain ⟨a1, -⟩ := (label_co_bound_linked (d + 1) hL simplex.m_co_boundary d k p.2
        (by omega) p.1.fuel).1 c p.1 m2 h2 hI.1 (Or.inl hc)
      exact ⟨a1, by simp only; omega⟩
    · simp only [pure, Option.some.injEq] at hstep
      subst hstep
      exact hI
  have hlinkedA : LinkedLabels mA (d + 1) simplex.m_co_boundary := keyA.1
  -- clearing the co-boundary of the simplex keeps labels and incidence above it
  have hlabB : ∀ d' x, mB.label d' x = mA.label d' x :=
    Mesh.label_modify_keep hB (fun s => rfl)
  have hgB : Grows (d + 1) mB mA :=
    ⟨fun y => ⟨(Mesh.topology_modify_other hB hne1 y).symm,
      (Mesh.topology_modify_other hB hne2 y).symm⟩, fun d' x hne => by rw [← hlabB]; exact hne⟩
  have hlinkedB : LinkedLabels mB (d + 1) simplex.m_co_boundary := by
    intro d' x hd' hne
    rw [hlabB] at hne
    obtain ⟨a1, a2⟩ := hlinkedA d' x hd' hne
    refine ⟨a1, fun C hC => a2 C ?_⟩
    refine ⟨fun c hc hl => hC.root c hc (by rw [hlabB]; exact hl), ?_, ?_⟩
    · intro y s c hy hl hsy hc hlc
      obtain ⟨s', hs', -, hco⟩ := Mesh.lookup_of_topology
        (Mesh.topology_modify_other hB hne1 y) hsy
      exact hC.up y s' c hy (by rw [hlabB]; exact hl) hs' (by rw [hco]; exact hc)
        (by rw [hlabB]; exact hlc)
    · intro c s b hc hl hsc hb hlb
      obtain ⟨s', hs', hbd, -⟩ := Mesh.lookup_of_topology
        (Mesh.topology_modify_other hB hne2 c) hsc
      exact hC.down c s' b hc (by rw [hlabB]; exact hl) hs' (by rw [hbd]; exact hb)
        (by rw [hlabB]; exact hlb)
  -- the second loop resets a region closed under the steps of the traversal
  have keyC := foldlM_prefix_spec
    (fun (pre : List Nat) (p : Mesh × Int) =>
      FadesExcept (d + 1) (fun _ _ => False) mB p.1 ∧ ∀ c ∈ pre, p.1.label (d + 1) c = 0)
    _ simplex.m_co_boundary ?_ (mB, 1) (mC, lC)
    ⟨FadesExcept.fades_refl _ _ _, fun c hc => absurd hc (List.not_mem_nil _)⟩ hC
  swap
  · intro pre c suf p p' hpre hI hstep
    obtain ⟨cs, hcs, hstep⟩ := Option.bind_eq_some.1 hstep
    by_cases hle : ¬ cs.m_label ≤ p.2
    · rw [if_pos hle] at hstep
      cases hstep
    rw [if_neg hle] at hstep
    obtain ⟨q, hq, hstep⟩ := Option.bind_eq_some.1 hstep
    obtain ⟨m2, h2, hstep⟩ := Option.bind_eq_some.1 hstep
    simp only [pure, Option.some.injEq] at hstep
    subst hstep
    have hfq : FadesExcept (d + 1) (fun _ _ => False) mB q.1 := by
      split_ifs at hq with heq
      · obtain ⟨m3, h3, hq⟩ := Option.bind_eq_some.1 hq
        simp only [pure, Option.some.injEq] at hq
        subst hq
        exact hI.1.fades_append (modify_keep_fades (d + 1) h3 (fun s => rfl) hne1 hne2)
      · simp only [pure, Option.some.injEq] at hq
        subst hq
        exact hI.1
    have hlab : ∀ x ∈ pre, q.1.label (d + 1) x = 0 := by
      intro x hx
      split_ifs at hq with heq
      · obtain ⟨m3, h3, hq⟩ := Option.bind_eq_some.1 hq
        simp only [pure, Option.some.injEq] at hq
        subst hq
        show m3.label (d + 1) x = 0
        rw [Mesh.label_modify_keep h3 (fun s => rfl)]
        exact hI.2 x hx
      · simp only [pure, Option.some.injEq] at hq
        subst hq
        exact hI.2 x hx
    obtain ⟨f2, z2⟩ := (reset_label_fades (d + 1) hL q.1.fuel).1 c q.1 m2 h2
    refine ⟨hfq.fades_append f2, fun x hx => ?_⟩
    rcases List.mem_append.1 hx with hx | hx
    · by_contra hne
      exact f2.shrink _ _ hne (hlab x hx)
    · simp only [List.mem_singleton] at hx
      subst hx
      exact z2
  obtain ⟨hfC, hallC⟩ := keyC
  have hzC : LabelsZero mC := by
    intro d' x
    rw [Mesh.label_min]
    by_contra hne
    have hB' := hfC.shrink _ _ hne
    obtain ⟨-, a2⟩ := hlinkedB (min d' 3) x (Nat.min_le_right _ _) hB'
    exact hne (a2 (fun d'' y => mC.label d'' y = 0)
      ⟨fun c hc _ => hallC c hc,
        fun y s c hy hl hsy hc _ => hfC.up y s (fun h => h) hl hy hsy c hc,
        fun c s b hc hl hsc hb _ => hfC.down c s (fun h => h) hl hc hsc b hb⟩)
  split_ifs at h
  · simp only [pure, Option.some.injEq] at h
    subst h
    intro d' x
    rw [label_uncompressed_reset]
    exact hzC d' x
  · simp only [pure, Option.some.injEq] at h
    subst h
    exact hzC

theorem compress_labels {m m' : Mesh} {S : SimplexSet} (hz : LabelsZero m)
    (h : compress m S = some m') : LabelsZero m' := by
  unfold compress at h
  obtain ⟨m1, h1, h2⟩ := Option.bind_eq_some.1 h
  have z1 : LabelsZero m1 :=
    foldlM_prefix_spec (fun (_ : List Nat) (x : Mesh) => LabelsZero x) _ S.nodes
      (fun _ _ _ _ _ _ hI hstep => compress_one_labels (by omega) hI hstep) m m1 hz h1
  exact foldlM_prefix_spec (fun (_ : List Nat) (x : Mesh) => LabelsZero x) _ S.edges
    (fun _ _ _ _ _ _ hI hstep => compress_one_labels (by omega) hI hstep) m1 m' z1 h2

/-- C22: labels never persist. On a mesh whose labels are all 0, whenever `star(k, S)`
returns for a node or an edge `k` and an empty set `S`, and whenever `compress(S)` returns
for a simplex set `S`, every simplex of the mesh has label 0 again (for `star` the mesh is
the same as before). -/
theorem labels_never_persist (m : Mesh) (hz : LabelsZero m) :
    (∀ d k m' st, d ≤ 1 → star m d k SimplexSet.empty = some (m', st) →
      LabelsZero m' ∧ m' = m) ∧
    (∀ S m', compress m S = some m' → LabelsZero m') := by
  refine ⟨fun d k m' st _ h => ?_, fun S m' h => compress_labels hz h⟩
  have := star_restores hz h
  subst this
  exact ⟨hz, rfl⟩

/-- Witness of C22: `star` of the node 0 and `compress` of all nodes and edges of the mesh
with one tetrahedron return, with all labels at 0. -/
theorem labels_never_persist_witness :
    LabelsZero tetrahedron_mesh ∧
    (∃ m' st, star tetrahedron_mesh 0 0 SimplexSet.empty = some (m', st) ∧ LabelsZero m') ∧
    (∃ m', compress tetrahedron_mesh ⟨[0, 1, 2, 3], [0, 1, 2, 3, 4, 5], [], []⟩ = some m' ∧
      LabelsZero m') :=
  have hstar : star tetrahedron_mesh 0 0 SimplexSet.empty
      = some (tetrahedron_mesh, ⟨[], [0, 1, 2], [0, 1, 2], [0]⟩) := by decide!
  have hc : (compress tetrahedron_mesh ⟨[0, 1, 2, 3], [0, 1, 2, 3, 4, 5], [], []⟩).isSome
      = true := by decide!
  ⟨labelsZero_tetrahedron,
    ⟨_, _, hstar,
      ((labels_never_persist tetrahedron_mesh labelsZero_tetrahedron).1 0 0 _ _ (by decide)
        hstar).1⟩,
    (Option.isSome_iff_exists.1 hc).elim (fun m' hm' =>
      ⟨m', hm', (labels_never_persist tetrahedron_mesh labelsZero_tetrahedron).2 _ m' hm'⟩)⟩

end ISMesh
namespace ISMesh

theorem Kernel.find_erase_labels (K : Kernel) (k : Nat) :
    K.erase_labels.find k = (K.find k).map Simplex.reset_label := by
  unfold Kernel.find Kernel.erase_labels
  simp only [List.getElem?_map]
  cases K.elements[k]? with
  | none => rfl
  | some e =>
    simp only [Option.map_some']
    cases e.valid <;> simp

theorem Mesh.kernel_erase_labels (m : Mesh) (d : Nat) :
    m.erase_labels.kernel d = (m.kernel d).erase_labels := by
  rcases d with _ | _ | _ | d <;> rfl

theorem Mesh.lookup_erase_labels (m : Mesh) (d k : Nat) :
    m.erase_labels.lookup_simplex d k = (m.lookup_simplex d k).map Simplex.reset_label := by
  unfold Mesh.lookup_simplex
  rw [Mesh.kernel_erase_labels, Kernel.find_erase_labels]

theorem Mesh.topology_of_erase {m m' : Mesh} (h : m'.erase_labels = m.erase_labels)
    (d k : Nat) : m'.topology d k = m.topology d k := by
  have h1 := Mesh.lookup_erase_labels m d k
  have h2 := Mesh.lookup_erase_labels m' d k
  rw [h] at h2
  rw [h1] at h2
  unfold Mesh.topology
  cases hs : m.lookup_simplex d k with
  | none =>
    rw [hs] at h2
    cases hs' : m'.lookup_simplex d k with
    | none => rfl
    | some s' => rw [hs'] at h2; cases h2
  | some s =>
    rw [hs] at h2
    cases hs' : m'.lookup_simplex d k with
    | none => rw [hs'] at h2; cases h2
    | some s' =>
      rw [hs'] at h2
      simp only [Option.map_some', Option.some.injEq] at h2 ⊢
      rcases s with ⟨b, c, cp, l⟩
      rcases s' with ⟨b', c', cp', l'⟩
      simp only [Simplex.reset_label, Simplex.mk.injEq] at h2
      simp [h2.1, h2.2.1]

theorem Mesh.length_of_erase {m m' : Mesh} (h : m'.erase_labels = m.erase_labels) (d : Nat) :
    (m'.kernel d).elements.length = (m.kernel d).elements.length := by
  have h1 := Mesh.kernel_erase_labels m d
  have h2 := Mesh.kernel_erase_labels m' d
  rw [h, h1] at h2
  have := congrArg (fun K => K.elements.length) h2
  simpa [Kernel.erase_labels] using this.symm

theorem Mesh.fuel_of_erase {m m' : Mesh} (h : m'.erase_labels = m.erase_labels) :
    m'.fuel = m.fuel := by
  have h0 := Mesh.length_of_erase h 0
  have h1 := Mesh.length_of_erase h 1
  have h2 := Mesh.length_of_erase h 2
  have h3 := Mesh.length_of_erase h 3
  simp only [Mesh.kernel] at h0 h1 h2 h3
  unfold Mesh.fuel
  omega

theorem Mesh.lookup_of_erase {m m' : Mesh} (h : m'.erase_labels = m.erase_labels)
    {d k : Nat} {s : Simplex} (hs : m.lookup_simplex d k = some s) :
    ∃ s', m'.lookup_simplex d k = some s' ∧ s'.m_boundary = s.m_boundary ∧
      s'.m_co_boundary = s.m_co_boundary :=
  Mesh.lookup_of_topology (Mesh.topology_of_erase h d k) hs

theorem InBoundary.of_topology {m m' : Mesh} (h : ∀ d k, m'.topology d k = m.topology d k) :
    ∀ {d k d' x : Nat}, InBoundary m d k d' x → InBoundary m' d k d' x := by
  intro d
  induction d with
  | zero => intro k d' x hx; exact absurd hx (by simp [InBoundary])
  | succ d ih =>
    intro k d' x hx
    rw [InBoundary.succ_iff] at hx ⊢
    obtain ⟨s, hs, b, hb, hx⟩ := hx
    obtain ⟨s', hs', hbd, -⟩ := Mesh.lookup_of_topology (h (d + 1) k) hs
    refine ⟨s', hs', b, by rw [hbd]; exact hb, ?_⟩
    rcases hx with hx | hx
    · exact Or.inl hx
    · exact Or.inr (ih hx)

theorem InBoundary.iff_of_erase {m m' : Mesh} (h : m'.erase_labels = m.erase_labels)
    {d k d' x : Nat} : InBoundary m' d k d' x ↔ InBoundary m d k d' x :=
  ⟨InBoundary.of_topology (fun d k => (Mesh.topology_of_erase h d k).symm),
    InBoundary.of_topology (fun d k => Mesh.topology_of_erase h d k)⟩

theorem InBoundary.owner_live {m : Mesh} {d k d' x : Nat} (h : InBoundary m d k d' x) :
    (m.lookup_simplex d k).isSome := by
  cases d with
  | zero => exact absurd h (by simp [InBoundary])
  | succ d =>
    rw [InBoundary.succ_iff] at h
    obtain ⟨s, hs, -⟩ := h
    rw [hs]; rfl

theorem first_true_some {g : Nat → Option Bool} :
    ∀ {l : List Nat}, first_true g l = some true → ∃ x ∈ l, g x = some true := by
  intro l
  induction l with
  | nil => intro h; simp [first_true] at h
  | cons a l ih =>
    intro h
    unfold first_true at h
    cases hg : g a with
    | none => rw [hg] at h; cases h
    | some b =>
      rw [hg] at h
      cases b with
      | true => exact ⟨a, List.mem_cons_self _ _, hg⟩
      | false =>
        obtain ⟨x, hx, hgx⟩ := ih h
        exact ⟨x, List.mem_cons_of_mem _ hx, hgx⟩

theorem first_true_returns {g : Nat → Option Bool} :
    ∀ {l : List Nat}, (∀ x ∈ l, ∃ r, g x = some r) → ∃ r, first_true g l = some r := by
  intro l
  induction l with
  | nil => intro _; exact ⟨false, rfl⟩
  | cons a l ih =>
    intro h
    obtain ⟨b, hb⟩ := h a (List.mem_cons_self _ _)
    unfold first_true
    rw [hb]
    cases b with
    | true => exact ⟨true, rfl⟩
    | false => exact ih (fun x hx => h x (List.mem_cons_of_mem _ hx))

/-- A positive answer of `in_boundary(f, s)` is right. -/
theorem in_boundary_sound (m : Mesh) (fd f : Nat) :
    ∀ (sd s : Nat), in_boundary m fd f sd s = some true → InBoundary m sd s fd f := by
  intro sd
  induction sd with
  | zero => intro s h; simp [in_boundary] at h
  | succ sd ih =>
    intro s h
    unfold in_boundary at h
    by_cases hge : fd ≥ sd + 1
    · rw [if_pos hge] at h; cases h
    rw [if_neg hge] at h
    obtain ⟨simplex, hs, h⟩ := Option.bind_eq_some.1 h
    rw [InBoundary.succ_iff]
    by_cases hlt : fd + 1 < sd + 1
    · rw [if_pos hlt] at h
      obtain ⟨b, hb, hgb⟩ := first_true_some h
      exact ⟨simplex, hs, b, List.mem_of_mem_tail hb, Or.inr (ih b hgb)⟩
    · rw [if_neg hlt] at h
      simp only [pure, Option.some.injEq, List.contains_iff_exists_mem_beq, beq_iff_eq,
        exists_eq_right'] at h
      exact ⟨simplex, hs, f, h, Or.inl ⟨by omega, rfl⟩⟩

/-- The call `in_boundary(f, s)` returns on a live simplex of a mesh without dangling
boundary keys. -/
theorem in_boundary_returns (m : Mesh) (hb : BoundaryLive m) (fd f : Nat) :
    ∀ (sd s : Nat), sd ≤ 3 → (m.lookup_simplex sd s).isSome →
      ∃ r, in_boundary m fd f sd s = some r := by
  intro sd
  induction sd with
  | zero => intro s _ _; exact ⟨false, rfl⟩
  | succ sd ih =>
    intro s hsd hl
    unfold in_boundary
    by_cases hge : fd ≥ sd + 1
    · rw [if_pos hge]; exact ⟨false, rfl⟩
    rw [if_neg hge]
    obtain ⟨simplex, hs⟩ := Option.isSome_iff_exists.1 hl
    simp only [bind, hs, Option.some_bind]
    by_cases hlt : fd + 1 < sd + 1
    · rw [if_pos hlt]
      apply first_true_returns
      intro b hbm
      exact ih b (by omega) (hb (sd + 1) s simplex (by omega) hsd hs b (List.mem_of_mem_tail hbm))
    · rw [if_neg hlt]
      exact ⟨_, rfl⟩

theorem Mesh.weight_le {m m' : Mesh} {P : Int → Bool}
    (hlen : ∀ d, (m'.kernel d).elements.length = (m.kernel d).elements.length)
    (h : ∀ d k, P (m'.label d k) = true → P (m.label d k) = true) :
    m'.weight P ≤ m.weight P := by
  unfold Mesh.weight
  apply Finset.sum_le_sum
  intro d _
  apply Finset.card_le_card
  intro k hk
  unfold Mesh.slots at hk ⊢
  rw [Finset.mem_filter] at hk ⊢
  exact ⟨by rw [← hlen]; exact hk.1, h d k hk.2⟩

theorem Mesh.weight_lt {m m' : Mesh} {P : Int → Bool} {e j : Nat} (hd0 : e ≤ 3)
    (hlen : ∀ d, (m'.kernel d).elements.length = (m.kernel d).elements.length)
    (h : ∀ d k, P (m'.label d k) = true → P (m.label d k) = true)
    (hk0 : j < (m.kernel e).elements.length) (hp : P (m.label e j) = true)
    (hp' : P (m'.label e j) = false) :
    m'.weight P < m.weight P := by
  unfold Mesh.weight
  apply Finset.sum_lt_sum
  · intro d _
    apply Finset.card_le_card
    intro k hk
    unfold Mesh.slots at hk ⊢
    rw [Finset.mem_filter] at hk ⊢
    exact ⟨by rw [← hlen]; exact hk.1, h d k hk.2⟩
  · refine ⟨e, Finset.mem_range.2 (by omega), ?_⟩
    apply Finset.card_lt_card
    rw [Finset.ssubset_iff_of_subset]
    · refine ⟨j, ?_, ?_⟩
      · unfold Mesh.slots
        rw [Finset.mem_filter]
        exact ⟨Finset.mem_range.2 hk0, hp⟩
      · unfold Mesh.slots
        rw [Finset.mem_filter]
        rintro ⟨-, h2⟩
        rw [hp'] at h2
        cases h2
    · intro k hk
      unfold Mesh.slots at hk ⊢
      rw [Finset.mem_filter] at hk ⊢
      exact ⟨by rw [← hlen]; exact hk.1, h e k hk.2⟩

theorem Mesh.weight_lt_fuel (m : Mesh) (P : Int → Bool) : m.weight P < m.fuel := by
  unfold Mesh.weight Mesh.fuel
  have hb : ∀ d, (m.slots P d).card ≤ (m.kernel d).elements.length := by
    intro d
    unfold Mesh.slots
    exact (Finset.card_filter_le _ _).trans (by rw [Finset.card_range])
  have h0 := hb 0
  have h1 := hb 1
  have h2 := hb 2
  have h3 := hb 3
  simp only [Mesh.kernel] at h0 h1 h2 h3
  simp only [Finset.sum_range_succ, Finset.sum_range_zero]
  omega

theorem Mesh.lt_length_of_lookup {m : Mesh} {d k : Nat} (h : (m.lookup_simplex d k).isSome) :
    k < (m.kernel d).elements.length := by
  obtain ⟨s, hs⟩ := Option.isSome_iff_exists.1 h
  unfold Mesh.lookup_simplex at hs
  have he := Kernel.find_eq_some.1 hs
  by_contra hc
  rw [List.getElem?_eq_none (by omega)] at he
  cases he

end ISMesh
namespace ISMesh

theorem StarRun.run_refl (sd s : Nat) (E : Nat → Nat → Prop) (p : Mesh × SimplexSet) :
    StarRun sd s E p p :=
  ⟨LabelsShrink.shrink_refl _, fun _ _ h => h, fun _ h => h, fun _ _ _ h => Or.inl h,
    fun _ _ _ h => Or.inl h⟩

theorem StarRun.run_append {sd s : Nat} {E : Nat → Nat → Prop} {a b c : Mesh × SimplexSet}
    (h1 : StarRun sd s E a b) (h2 : StarRun sd s (fun _ _ => False) b c) :
    StarRun sd s E a c := by
  refine ⟨h2.grows.shrink_trans h1.grows, fun d k h => h2.keep d k (h1.keep d k h),
    fun d h => h2.sorted d (h1.sorted d h), ?_, ?_⟩
  · intro d x hd hx
    rcases h2.sound d x hd hx with h | h
    · exact h1.sound d x hd h
    · exact Or.inr ((InBoundary.iff_of_erase h1.grows.1).2 h)
  · intro d x hd hx
    rcases h2.closed d x hd hx with h | h
    · rcases h1.closed d x hd h with h' | ⟨h', hcl⟩
      · exact Or.inl h'
      · refine Or.inr ⟨h2.keep d x h', fun he h2d sx hsx c hc => ?_⟩
        obtain ⟨sx', hsx', -, hco⟩ := Mesh.lookup_of_erase h2.grows.1 hsx
        exact h2.grows.2 _ _ (hcl he h2d sx' hsx' c (by rw [hco]; exact hc))
    · exact Or.inr ⟨h.1, fun _ => h.2 (fun hf => hf)⟩

theorem CoIncidence.co_of_erase {m m' : Mesh} (h : m'.erase_labels = m.erase_labels)
    (hc : CoIncidence m) : CoIncidence m' := by
  intro d k s hd hs c hcm
  obtain ⟨s0, hs0, -, hco⟩ := Mesh.lookup_of_erase h.symm hs
  obtain ⟨sc, hsc, hk⟩ := hc d k s0 hd hs0 c (by rw [hco]; exact hcm)
  obtain ⟨sc', hsc', hbd, -⟩ := Mesh.lookup_of_erase h hsc
  exact ⟨sc', hsc', by rw [hbd]; exact hk⟩

theorem BoundaryLive.live_of_erase {m m' : Mesh} (h : m'.erase_labels = m.erase_labels)
    (hb : BoundaryLive m) : BoundaryLive m' := by
  intro d k s h1 h3 hs b hbm
  obtain ⟨s0, hs0, hbd, -⟩ := Mesh.lookup_of_erase h.symm hs
  have := hb d k s0 h1 h3 hs0 b (by rw [hbd]; exact hbm)
  obtain ⟨sb, hsb⟩ := Option.isSome_iff_exists.1 this
  obtain ⟨sb', hsb', -, -⟩ := Mesh.lookup_of_erase h hsb
  rw [hsb']; rfl

theorem modify_set_label_grows {m m1 : Mesh} {d k : Nat} {l : Int} (hl : l ≠ 0)
    (h : m.modify d k (fun x => x.set_label l) = some m1) :
    LabelsShrink m1 m ∧ m1.label d k ≠ 0 := by
  obtain ⟨hset, hkeep⟩ := Mesh.label_modify_set h
  have he : m1.erase_labels = m.erase_labels :=
    @Mesh.erase_labels_modify m m1 d k (fun x => x.set_label l) (fun s => rfl) h
  refine ⟨⟨he.symm, ?_⟩, by rw [hset]; exact hl⟩
  intro d' k' hne
  by_cases hc : min d 3 = min d' 3 ∧ k' = k
  · obtain ⟨hc1, rfl⟩ := hc
    rw [Mesh.label_min, ← hc1, ← Mesh.label_min, hset]
    exact hl
  · rw [hkeep d' k' hc]
    exact hne

/-- The traversal of `star` only sets labels, and labels the simplex it is called on. -/
theorem star_helper_grows (fuel : Nat) :
    ∀ (sd s td t : Nat) (m : Mesh) (set : SimplexSet) (r : Mesh × SimplexSet),
      star_helper fuel sd s td t m set = some r →
      LabelsShrink r.1 m ∧ r.1.label td t ≠ 0 := by
  induction fuel with
  | zero => intro sd s td t m set r h; simp [star_helper] at h
  | succ fuel ih =>
    intro sd s td t m set r h
    rw [star_helper] at h
    by_cases hlt : sd < td
    swap
    · simp [hlt] at h
    simp only [hlt, not_true_eq_false, if_false, bind, Option.bind_eq_some] at h
    obtain ⟨_, -, m1, h1, up, hup, hdown⟩ := h
    obtain ⟨g1, l1⟩ := modify_set_label_grows (by decide) h1
    have rel : ∀ (f : Mesh × SimplexSet → Nat → Option (Mesh × SimplexSet)) (L : List Nat)
        (a b : Mesh × SimplexSet),
        (∀ a x b, f a x = some b → LabelsShrink b.1 a.1) → L.foldlM f a = some b →
        LabelsShrink b.1 a.1 := fun f L a b hf hfold =>
      foldlM_rel (fun (a b : Mesh × SimplexSet) => LabelsShrink b.1 a.1)
        (fun _ => LabelsShrink.shrink_refl _) (fun _ _ _ h1 h2 => h2.shrink_trans h1) f hf L a b
        hfold
    have g2 : LabelsShrink up.1 m1 := by
      split_ifs at hup with h3
      · simp only [pure, Option.some.injEq] at hup
        subst hup; exact LabelsShrink.shrink_refl _
      · simp only [Option.bind_eq_some] at hup
        obtain ⟨simplex, -, hf⟩ := hup
        refine rel _ _ _ _ (fun a x b hb => ?_) hf
        simp only [bind, Option.bind_eq_some] at hb
        obtain ⟨cs, -, hc⟩ := hb
        split_ifs at hc
        · exact (ih _ _ _ _ _ _ _ hc).1
        · simp only [pure, Option.some.injEq] at hc
          subst hc; exact LabelsShrink.shrink_refl _
    have g3 : LabelsShrink r.1 up.1 := by
      split_ifs at hdown with h3
      · simp only [Option.bind_eq_some] at hdown
        obtain ⟨simplex, -, hf⟩ := hdown
        refine rel _ _ _ _ (fun a x b hb => ?_) hf
        simp only [bind, Option.bind_eq_some] at hb
        obtain ⟨bs, -, hc⟩ := hb
        split_ifs at hc
        · simp only [Option.bind_eq_some] at hc
          obtain ⟨ib, -, hc⟩ := hc
          split_ifs at hc
          · exact (ih _ _ _ _ _ _ _ hc).1
          · simp only [pure, Option.some.injEq] at hc
            subst hc; exact LabelsShrink.shrink_refl _
        · simp only [pure, Option.some.injEq] at hc
          subst hc; exact LabelsShrink.shrink_refl _
      · simp only [pure, Option.some.injEq] at hdown
        subst hdown; exact LabelsShrink.shrink_refl _
    exact ⟨(g3.shrink_trans g2).shrink_trans g1, (g3.shrink_trans g2).2 _ _ l1⟩

end ISMesh
namespace ISMesh

/-- The traversal of `star` called on a simplex `t` that has `s` in its transitive boundary:
every new member of the result set has `s` in its transitive boundary, and every simplex
that got a label is in the result set and has every entry of its co-boundary labelled. -/
theorem star_helper_run (fuel : Nat) :
    ∀ (sd s td t : Nat) (m : Mesh) (set : SimplexSet) (r : Mesh × SimplexSet), td ≤ 3 →
      CoIncidence m → InBoundary m td t sd s →
      star_helper fuel sd s td t m set = some r →
      StarRun sd s (fun _ _ => False) (m, set) r := by
  induction fuel with
  | zero => intro sd s td t m set r _ _ _ h; simp [star_helper] at h
  | succ fuel ih =>
    intro sd s td t m set r htd hco hin h
    rw [star_helper] at h
    by_cases hlt : sd < td
    swap
    · simp [hlt] at h
    simp only [hlt, not_true_eq_false, if_false, bind, Option.bind_eq_some] at h
    obtain ⟨s0, hs0, m1, h1, up, hup, hdown⟩ := h
    obtain ⟨g1, l1⟩ := modify_set_label_grows (l := 1) (by decide) h1
    obtain ⟨hset, hkeep⟩ := Mesh.label_modify_set h1
    have hmin : ∀ d, d ≤ 3 → (min td 3 = min d 3 ↔ d = td) := by
      intro d hd
      rw [Nat.min_eq_left htd, Nat.min_eq_left hd]
      exact eq_comm
    have step1 : StarRun sd s (fun d x => d = td ∧ x = t) (m, set) (m1, set.insert td t) := by
      refine ⟨g1, ?_, ?_, ?_, ?_⟩
      · intro d k hk
        show k ∈ (set.insert td t).keys d
        rw [SimplexSet.keys_insert]
        split_ifs
        · exact (mem_set_insert _ _ _).2 (Or.inr hk)
        · exact hk
      · intro d hsd
        show ((set.insert td t).keys d).Sorted (· < ·)
        rw [SimplexSet.keys_insert]
        split_ifs
        · exact sorted_set_insert _ hsd
        · exact hsd
      · intro d x hd hx
        have hx' : x ∈ (set.insert td t).keys d := hx
        rw [SimplexSet.keys_insert] at hx'
        split_ifs at hx' with hc
        · rcases (mem_set_insert _ _ _).1 hx' with rfl | hx'
          · have := (hmin d hd).1 hc
            subst this
            exact Or.inr hin
          · exact Or.inl hx'
        · exact Or.inl hx'
      · intro d x hd hne
        by_cases hc : d = td ∧ x = t
        · refine Or.inr ⟨?_, fun he => absurd hc he⟩
          obtain ⟨rfl, rfl⟩ := hc
          show x ∈ (set.insert d x).keys d
          rw [SimplexSet.keys_insert, if_pos rfl]
          exact (mem_set_insert _ _ _).2 (Or.inl rfl)
        · left
          have hne' : m1.label d x ≠ 0 := hne
          rw [hkeep d x (fun h => hc ⟨(hmin d hd).1 h.1, h.2⟩)] at hne'
          exact hne'
    have hs1 : m1.lookup_simplex td t = some (s0.set_label 1) := by
      rw [Mesh.lookup_modify_same h1, hs0]; rfl
    have step2 : StarRun sd s (fun d x => d = td ∧ x = t) (m, set) up ∧
        (td ≤ 2 → ∀ c ∈ s0.m_co_boundary, up.1.label (td + 1) c ≠ 0) := by
      split_ifs at hup with h3
      · simp only [pure, Option.some.injEq] at hup
        subst hup
        exact ⟨step1, fun h => absurd h (by omega)⟩
      · simp only [Option.bind_eq_some] at hup
        obtain ⟨simplex, hsx, hf⟩ := hup
        rw [hs1] at hsx
        cases hsx
        have key := foldlM_prefix_spec
          (fun (pre : List Nat) (cur : Mesh × SimplexSet) =>
            StarRun sd s (fun d x => d = td ∧ x = t) (m, set) cur ∧
            ∀ c ∈ pre, cur.1.label (td + 1) c ≠ 0) _ (s0.set_label 1).m_co_boundary ?_
          (m1, set.insert td t) up ⟨step1, fun c hc => absurd hc (List.not_mem_nil _)⟩ hf
        · exact ⟨key.1, fun _ c hc => key.2 c hc⟩
        · intro pre c suf cur cur' hpre hI hstep
          simp only [bind, Option.bind_eq_some] at hstep
          obtain ⟨cs, hcs, hstep⟩ := hstep
          split_ifs at hstep with hz
          · have herase : cur.1.erase_labels = m.erase_labels := hI.1.grows.1.symm
            have hco' := hco.co_of_erase herase
            have hc : c ∈ s0.m_co_boundary := by
              have : c ∈ (s0.set_label 1).m_co_boundary := by rw [hpre]; simp
              exact this
            have hin' : InBoundary cur.1 (td + 1) c sd s := by
              obtain ⟨st', hst', -, hco2⟩ := Mesh.lookup_of_erase herase hs0
              obtain ⟨sc, hsc, htc⟩ := hco' td t st' (by omega) hst' c (by rw [hco2]; exact hc)
              rw [InBoundary.succ_iff]
              exact ⟨sc, hsc, t, htc, Or.inr ((InBoundary.iff_of_erase herase).2 hin)⟩
            have run := ih sd s (td + 1) c cur.1 cur.2 cur' (by omega) hco' hin' hstep
            have lab := (star_helper_grows fuel _ _ _ _ _ _ _ hstep).2
            refine ⟨hI.1.run_append run, fun x hx => ?_⟩
            rcases List.mem_append.1 hx with hx | hx
            · exact run.grows.2 _ _ (hI.2 x hx)
            · simp only [List.mem_singleton] at hx
              subst hx
              exact lab
          · simp only [pure, Option.some.injEq] at hstep
            subst hstep
            refine ⟨hI.1, fun x hx => ?_⟩
            rcases List.mem_append.1 hx with hx | hx
            · exact hI.2 x hx
            · simp only [List.mem_singleton] at hx
              subst hx
              rw [Mesh.label_of_lookup hcs]
              exact hz
    have step3 : StarRun sd s (fun d x => d = td ∧ x = t) (m, set) r ∧
        (td ≤ 2 → ∀ c ∈ s0.m_co_boundary, r.1.label (td + 1) c ≠ 0) := by
      split_ifs at hdown with h3
      · simp only [Option.bind_eq_some] at hdown
        obtain ⟨simplex, hsx, hf⟩ := hdown
        refine foldlM_prefix_spec
          (fun (_ : List Nat) (cur : Mesh × SimplexSet) =>
            StarRun sd s (fun d x => d = td ∧ x = t) (m, set) cur ∧
            (td ≤ 2 → ∀ c ∈ s0.m_co_boundary, cur.1.label (td + 1) c ≠ 0)) _
          simplex.m_boundary ?_ up r step2 hf
        intro pre b suf cur cur' hpre hI hstep
        simp only [bind, Option.bind_eq_some] at hstep
        obtain ⟨bs, hbs, hstep⟩ := hstep
        split_ifs at hstep with hz
        · simp only [Option.bind_eq_some] at hstep
          obtain ⟨ib, hib, hstep⟩ := hstep
          split_ifs at hstep with hibt
          · have herase : cur.1.erase_labels = m.erase_labels := hI.1.grows.1.symm
            have hco' := hco.co_of_erase herase
            have hin' : InBoundary cur.1 (td - 1) b sd s :=
              in_boundary_sound cur.1 sd s (td - 1) b (by rw [hib, hibt])
            have run := ih sd s (td - 1) b cur.1 cur.2 cur' (by omega) hco' hin' hstep
            exact ⟨hI.1.run_append run, fun h2 c hc => run.grows.2 _ _ (hI.2 h2 c hc)⟩
          · simp only [pure, Option.some.injEq] at hstep
            subst hstep
            exact hI
        · simp only [pure, Option.some.injEq] at hstep
          subst hstep
          exact hI
      · simp only [pure, Option.some.injEq] at hdown
        subst hdown
        exact step2
    obtain ⟨run3, hall⟩ := step3
    refine ⟨run3.grows, run3.keep, run3.sorted, run3.sound, ?_⟩
    intro d x hd hne
    rcases run3.closed d x hd hne with h | ⟨hx, hcl⟩
    · exact Or.inl h
    · refine Or.inr ⟨hx, fun _ h2 sx hsx c hc => ?_⟩
      by_cases he : d = td ∧ x = t
      · obtain ⟨rfl, rfl⟩ := he
        obtain ⟨s0', hs0', -, hco2⟩ := Mesh.lookup_of_erase run3.grows.1.symm hs0
        rw [hs0'] at hsx
        cases hsx
        exact hall h2 c (by rw [← hco2]; exact hc)
      · exact hcl he h2 sx hsx c hc

end ISMesh
namespace ISMesh

theorem bind_returns {α β : Type} {x : Option α} {f : α → Option β} (P : α → Prop)
    (hx : ∃ a, x = some a ∧ P a) (hf : ∀ a, x = some a → P a → ∃ b, f a = some b) :
    ∃ b, (x >>= f) = some b := by
  obtain ⟨a, ha, hp⟩ := hx
  obtain ⟨b, hb⟩ := hf a ha hp
  exact ⟨b, by rw [ha]; exact hb⟩

theorem bind_returns_with {α β : Type} {x : Option α} {f : α → Option β} (P : α → Prop)
    (Q : β → Prop) (hx : ∃ a, x = some a ∧ P a)
    (hf : ∀ a, x = some a → P a → ∃ b, f a = some b ∧ Q b) :
    ∃ b, (x >>= f) = some b ∧ Q b := by
  obtain ⟨a, ha, hp⟩ := hx
  obtain ⟨b, hb, hq⟩ := hf a ha hp
  exact ⟨b, by rw [ha]; exact hb, hq⟩

/-- The traversal of `star` returns when its fuel exceeds the number of simplices that have
no label yet. -/
theorem star_helper_returns (sd s : Nat) (fuel : Nat) :
    ∀ (td t : Nat) (m : Mesh) (set : SimplexSet), sd < td → td ≤ 3 →
      BoundaryLive m → CoIncidence m → (m.lookup_simplex td t).isSome →
      (∀ m1, m.modify td t (fun x => x.set_label 1) = some m1 →
        m1.weight (fun l => decide (l = 0)) < fuel) →
      ∃ r, star_helper fuel sd s td t m set = some r := by
  induction fuel with
  | zero =>
    intro td t m set _ _ _ _ hl hw
    obtain ⟨m1, h1⟩ := Mesh.modify_isSome (fun x => x.set_label 1) hl
    exact absurd (hw m1 h1) (by omega)
  | succ fuel ih =>
    intro td t m set hlt htd hbl hco hl hw
    obtain ⟨s0, hs0⟩ := Option.isSome_iff_exists.1 hl
    obtain ⟨m1, h1⟩ := Mesh.modify_isSome (fun x => x.set_label 1) hl
    have hw1 := hw m1 h1
    obtain ⟨g1, -⟩ := modify_set_label_grows (l := 1) (by decide) h1
    have hs1 : m1.lookup_simplex td t = some (s0.set_label 1) := by
      rw [Mesh.lookup_modify_same h1, hs0]; rfl
    -- one nested call, from a state grown from `m1`
    have nested : ∀ (td' c : Nat) (cur : Mesh × SimplexSet), sd < td' → td' ≤ 3 →
        LabelsShrink cur.1 m1 → ∀ cs, cur.1.lookup_simplex td' c = some cs → cs.m_label = 0 →
        ∃ r, star_helper fuel sd s td' c cur.1 cur.2 = some r ∧ LabelsShrink r.1 m1 := by
      intro td' c cur h1' h2' hg cs hcs hz
      have herase : cur.1.erase_labels = m.erase_labels := hg.1.symm.trans g1.1.symm
      obtain ⟨r, hr⟩ := ih td' c cur.1 cur.2 h1' h2' (hbl.live_of_erase herase)
        (hco.co_of_erase herase) (by rw [hcs]; rfl) (by
          intro c1 hc1
          obtain ⟨gc, lc⟩ := modify_set_label_grows (l := 1) (by decide) hc1
          have hlt1 : c1.weight (fun l => decide (l = 0)) <
              cur.1.weight (fun l => decide (l = 0)) := by
            apply Mesh.weight_lt (e := td') (j := c) h2'
              (fun d => Mesh.length_of_erase gc.1.symm d)
            · intro d k hk
              simp only [decide_eq_true_eq] at hk ⊢
              by_contra hne
              exact gc.2 d k hne hk
            · exact Mesh.lt_length_of_lookup (by rw [hcs]; rfl)
            · simp only [decide_eq_true_eq]
              rw [Mesh.label_of_lookup hcs]
              exact hz
            · simp only [decide_eq_false_iff_not]
              exact lc
          have hle : cur.1.weight (fun l => decide (l = 0)) ≤
              m1.weight (fun l => decide (l = 0)) := by
            apply Mesh.weight_le (fun d => Mesh.length_of_erase hg.1.symm d)
            intro d k hk
            simp only [decide_eq_true_eq] at hk ⊢
            by_contra hne
            exact hg.2 d k hne hk
          omega)
      exact ⟨r, hr, (star_helper_grows fuel _ _ _ _ _ _ _ hr).1.shrink_trans hg⟩
    rw [star_helper, if_neg (not_not.2 hlt)]
    refine bind_returns (fun _ => True) ⟨s0, hs0, trivial⟩ (fun _ _ _ => ?_)
    refine bind_returns (fun x => x = m1) ⟨m1, h1, rfl⟩ (fun x _ hx => ?_)
    subst hx
    refine bind_returns (fun (up : Mesh × SimplexSet) => LabelsShrink up.1 x) ?_ ?_
    · split_ifs with h3
      · exact ⟨_, rfl, LabelsShrink.shrink_refl _⟩
      · refine bind_returns_with (fun z => z = s0.set_label 1) _ ⟨_, hs1, rfl⟩
          (fun z _ hz => ?_)
        subst hz
        have key := foldlM_prefix_returns
          (fun (_ : List Nat) (cur : Mesh × SimplexSet) => LabelsShrink cur.1 x)
          (fun (p : Mesh × SimplexSet) c => do
            let cs ← p.1.lookup_simplex (td + 1) c
            if cs.m_label = 0 then star_helper fuel sd s (td + 1) c p.1 p.2 else pure p)
          (s0.set_label 1).m_co_boundary ?_ (x, set.insert td t) (LabelsShrink.shrink_refl _)
        · exact key
        · intro pre c suf cur hpre hI
          have herase : cur.1.erase_labels = m.erase_labels := hI.1.symm.trans g1.1.symm
          have hc : c ∈ s0.m_co_boundary := by
            have : c ∈ (s0.set_label 1).m_co_boundary := by rw [hpre]; simp
            exact this
          obtain ⟨cs0, hcs0, -⟩ := hco td t s0 (by omega) hs0 c hc
          obtain ⟨cs, hcs, -, -⟩ := Mesh.lookup_of_erase herase hcs0
          by_cases hz : cs.m_label = 0
          · obtain ⟨r, hr, hg⟩ := nested (td + 1) c cur (by omega) (by omega) hI cs hcs hz
            exact ⟨r, by simp only [bind, hcs, Option.some_bind, if_pos hz]; exact hr, hg⟩
          · exact ⟨cur, by simp only [bind, hcs, Option.some_bind, if_neg hz]; rfl, hI⟩
    · intro up _ hup
      have heraseU : up.1.erase_labels = m.erase_labels := hup.1.symm.trans g1.1.symm
      split_ifs with h3
      · obtain ⟨su, hsu, hbd, -⟩ := Mesh.lookup_of_erase heraseU hs0
        refine bind_returns (fun z => z = su) ⟨_, hsu, rfl⟩ (fun z _ hz => ?_)
        subst hz
        have key := foldlM_prefix_returns
          (fun (_ : List Nat) (cur : Mesh × SimplexSet) => LabelsShrink cur.1 x)
          (fun (p : Mesh × SimplexSet) b => do
            let bs ← p.1.lookup_simplex (td - 1) b
            if bs.m_label = 0 then do
              let ib ← in_boundary p.1 sd s (td - 1) b
              if ib then star_helper fuel sd s (td - 1) b p.1 p.2 else pure p
            else pure p)
          z.m_boundary ?_ up hup
        · obtain ⟨r, hr, -⟩ := key
          exact ⟨r, hr⟩
        · intro pre b suf cur hpre hI
          have herase : cur.1.erase_labels = m.erase_labels := hI.1.symm.trans g1.1.symm
          have hb : b ∈ s0.m_boundary := by rw [← hbd, hpre]; simp
          have hlb := hbl td t s0 (by omega) htd hs0 b hb
          obtain ⟨bs0, hbs0⟩ := Option.isSome_iff_exists.1 hlb
          obtain ⟨bs, hbs, -, -⟩ := Mesh.lookup_of_erase herase hbs0
          by_cases hz : bs.m_label = 0
          · obtain ⟨ib, hib⟩ := in_boundary_returns cur.1 (hbl.live_of_erase herase) sd s (td - 1) b
              (by omega) (by rw [hbs]; rfl)
            by_cases hibt : ib = true
            · obtain ⟨r, hr, hg⟩ := nested (td - 1) b cur (by omega) (by omega) hI bs hbs hz
              exact ⟨r, by
                simp only [bind, hbs, Option.some_bind, if_pos hz, hib, if_pos hibt]
                exact hr, hg⟩
            · exact ⟨cur, by
                simp only [bind, hbs, Option.some_bind, if_pos hz, hib, if_neg hibt]
                rfl, hI⟩
          · exact ⟨cur, by simp only [bind, hbs, Option.some_bind, if_neg hz]; rfl, hI⟩
      · exact ⟨up, rfl⟩

end ISMesh
namespace ISMesh

/-- The traversal by `reset_label` returns when its fuel exceeds the number of simplices
that carry a label. -/
theorem reset_label_returns (L : Nat) (hL : L + 1 ≤ 3) (fuel : Nat) :
    (∀ k m, BoundaryLive m → CoIncidence m → (m.lookup_simplex L k).isSome →
      (∀ m1, m.modify L k Simplex.reset_label = some m1 →
        m1.weight (fun l => decide (l ≠ 0)) < fuel) →
      ∃ m', reset_label fuel L k m = some m') ∧
    (∀ k m, BoundaryLive m → CoIncidence m → (m.lookup_simplex (L + 1) k).isSome →
      (∀ m1, m.modify (L + 1) k Simplex.reset_label = some m1 →
        m1.weight (fun l => decide (l ≠ 0)) < fuel) →
      ∃ m', reset_co_label fuel (L + 1) k m = some m') := by
  induction fuel with
  | zero =>
    constructor
    · intro k m _ _ hl hw
      obtain ⟨m1, h1⟩ := Mesh.modify_isSome Simplex.reset_label hl
      exact absurd (hw m1 h1) (by omega)
    · intro k m _ _ hl hw
      obtain ⟨m1, h1⟩ := Mesh.modify_isSome Simplex.reset_label hl
      exact absurd (hw m1 h1) (by omega)
  | succ fuel ih =>
    have weight_step : ∀ (d c : Nat) (cur c1 m1 : Mesh) (cs : Simplex), d ≤ 3 →
        LabelsShrink m1 cur → m1.weight (fun l => decide (l ≠ 0)) < fuel + 1 →
        cur.lookup_simplex d c = some cs → cs.m_label ≠ 0 →
        cur.modify d c Simplex.reset_label = some c1 →
        c1.weight (fun l => decide (l ≠ 0)) < fuel := by
      intro d c cur c1 m1 cs hd hg hw1 hcs hz hc1
      obtain ⟨gc, lc⟩ := modify_reset_label_shrink hc1
      have hlt1 : c1.weight (fun l => decide (l ≠ 0)) <
          cur.weight (fun l => decide (l ≠ 0)) := by
        apply Mesh.weight_lt (e := d) (j := c) hd (fun d => Mesh.length_of_erase gc.1 d)
        · intro d' k hk
          simp only [decide_eq_true_eq] at hk ⊢
          exact gc.2 d' k hk
        · exact Mesh.lt_length_of_lookup (by rw [hcs]; rfl)
        · simp only [decide_eq_true_eq]
          rw [Mesh.label_of_lookup hcs]
          exact hz
        · simp only [decide_eq_false_iff_not, not_not]
          exact lc
      have hle : cur.weight (fun l => decide (l ≠ 0)) ≤
          m1.weight (fun l => decide (l ≠ 0)) := by
        apply Mesh.weight_le (fun d => Mesh.length_of_erase hg.1 d)
        intro d' k hk
        simp only [decide_eq_true_eq] at hk ⊢
        exact hg.2 d' k hk
      omega
    constructor
    · intro k m hbl hco hl hw
      obtain ⟨s0, hs0⟩ := Option.isSome_iff_exists.1 hl
      obtain ⟨m1, h1⟩ := Mesh.modify_isSome Simplex.reset_label hl
      have hw1 := hw m1 h1
      obtain ⟨g1, -⟩ := modify_reset_label_shrink h1
      rw [reset_label]
      refine bind_returns (fun z => z = s0) ⟨s0, hs0, rfl⟩ (fun z _ hz => ?_)
      subst hz
      refine bind_returns (fun x => x = m1) ⟨m1, h1, rfl⟩ (fun x _ hx => ?_)
      subst hx
      have key := foldlM_prefix_returns
        (fun (_ : List Nat) (cur : Mesh) => LabelsShrink x cur)
        (fun (m : Mesh) c => do
          let simplex ← m.lookup_simplex (L + 1) c
          if simplex.m_label ≠ 0 then reset_co_label fuel (L + 1) c m else pure m)
        z.m_co_boundary ?_ x (LabelsShrink.shrink_refl _)
      · obtain ⟨r, hr, -⟩ := key
        exact ⟨r, hr⟩
      · intro pre c suf cur hpre hI
        have herase : cur.erase_labels = m.erase_labels := hI.1.trans g1.1
        have hc : c ∈ z.m_co_boundary := by rw [hpre]; simp
        obtain ⟨cs0, hcs0, -⟩ := hco L k z (by omega) hs0 c hc
        obtain ⟨cs, hcs, -, -⟩ := Mesh.lookup_of_erase herase hcs0
        by_cases hz : cs.m_label ≠ 0
        · obtain ⟨r, hr⟩ := ih.2 c cur (hbl.live_of_erase herase) (hco.co_of_erase herase)
            (by rw [hcs]; rfl)
            (fun c1 hc1 => weight_step (L + 1) c cur c1 x cs hL hI hw1 hcs hz hc1)
          exact ⟨r, by simp only [bind, hcs, Option.some_bind, if_pos hz]; exact hr,
            hI.shrink_trans ((reset_label_shrink fuel).2 _ _ _ _ hr).1⟩
        · exact ⟨cur, by simp only [bind, hcs, Option.some_bind, if_neg hz]; rfl, hI⟩
    · intro k m hbl hco hl hw
      obtain ⟨s0, hs0⟩ := Option.isSome_iff_exists.1 hl
      obtain ⟨m1, h1⟩ := Mesh.modify_isSome Simplex.reset_label hl
      have hw1 := hw m1 h1
      obtain ⟨g1, -⟩ := modify_reset_label_shrink h1
      rw [reset_co_label]
      refine bind_returns (fun z => z = s0) ⟨s0, hs0, rfl⟩ (fun z _ hz => ?_)
      subst hz
      refine bind_returns (fun x => x = m1) ⟨m1, h1, rfl⟩ (fun x _ hx => ?_)
      subst hx
      simp only [Nat.add_sub_cancel]
      have key := foldlM_prefix_returns
        (fun (_ : List Nat) (cur : Mesh) => LabelsShrink x cur)
        (fun (m : Mesh) b => do
          let simplex ← m.lookup_simplex L b
          if simplex.m_label ≠ 0 then reset_label fuel L b m else pure m)
        z.m_boundary ?_ x (LabelsShrink.shrink_refl _)
      · obtain ⟨r, hr, -⟩ := key
        exact ⟨r, hr⟩
      · intro pre b suf cur hpre hI
        have herase : cur.erase_labels = m.erase_labels := hI.1.trans g1.1
        have hb : b ∈ z.m_boundary := by rw [hpre]; simp
        have hlb := hbl (L + 1) k z (by omega) hL hs0 b hb
        rw [Nat.add_sub_cancel] at hlb
        obtain ⟨bs0, hbs0⟩ := Option.isSome_iff_exists.1 hlb
        obtain ⟨bs, hbs, -, -⟩ := Mesh.lookup_of_erase herase hbs0
        by_cases hz : bs.m_label ≠ 0
        · obtain ⟨r, hr⟩ := ih.1 b cur (hbl.live_of_erase herase) (hco.co_of_erase herase)
            (by rw [hbs]; rfl)
            (fun c1 hc1 => weight_step L b cur c1 x bs (by omega) hI hw1 hbs hz hc1)
          exact ⟨r, by simp only [bind, hbs, Option.some_bind, if_pos hz]; exact hr,
            hI.shrink_trans ((reset_label_shrink fuel).1 _ _ _ _ hr).1⟩
        · exact ⟨cur, by simp only [bind, hbs, Option.some_bind, if_neg hz]; rfl, hI⟩

end ISMesh
namespace ISMesh

/-- The loop of `star` over the co-boundary of the simplex `key` of dimension `sd`. -/
theorem star_outer (m : Mesh) (sd key : Nat) (simplex : Simplex) (hsd : sd ≤ 1)
    (hbl : BoundaryLive m) (hco : CoIncidence m)
    (hs : m.lookup_simplex sd key = some simplex) :
    ∃ r, simplex.m_co_boundary.foldlM (fun (p : Mesh × SimplexSet) c =>
        star_helper p.1.fuel sd key (sd + 1) c p.1 p.2) (m, SimplexSet.empty) = some r ∧
      StarRun sd key (fun _ _ => False) (m, SimplexSet.empty) r ∧
      ∀ c ∈ simplex.m_co_boundary, r.1.label (sd + 1) c ≠ 0 := by
  refine foldlM_prefix_returns
    (fun (pre : List Nat) (cur : Mesh × SimplexSet) =>
      StarRun sd key (fun _ _ => False) (m, SimplexSet.empty) cur ∧
      ∀ c ∈ pre, cur.1.label (sd + 1) c ≠ 0) _ simplex.m_co_boundary ?_ (m, SimplexSet.empty)
    ⟨StarRun.run_refl _ _ _ _, fun c hc => absurd hc (List.not_mem_nil _)⟩
  intro pre c suf cur hpre hI
  have herase : cur.1.erase_labels = m.erase_labels := hI.1.grows.1.symm
  have hc : c ∈ simplex.m_co_boundary := by rw [hpre]; simp
  obtain ⟨sc0, hsc0, hk0⟩ := hco sd key simplex (by omega) hs c hc
  obtain ⟨sc, hsc, hbd, -⟩ := Mesh.lookup_of_erase herase hsc0
  obtain ⟨r, hr⟩ := star_helper_returns sd key cur.1.fuel (sd + 1) c cur.1 cur.2 (by omega)
    (by omega) (hbl.live_of_erase herase) (hco.co_of_erase herase) (by rw [hsc]; rfl) (by
      intro m1 h1
      have he : m1.erase_labels = cur.1.erase_labels :=
        @Mesh.erase_labels_modify cur.1 m1 (sd + 1) c (fun x => x.set_label 1) (fun s => rfl) h1
      rw [← Mesh.fuel_of_erase he]
      exact Mesh.weight_lt_fuel m1 _)
  have hin : InBoundary cur.1 (sd + 1) c sd key := by
    rw [InBoundary.succ_iff]
    exact ⟨sc, hsc, key, by rw [hbd]; exact hk0, Or.inl ⟨rfl, rfl⟩⟩
  have run := star_helper_run cur.1.fuel sd key (sd + 1) c cur.1 cur.2 r (by omega)
    (hco.co_of_erase herase) hin hr
  have lab := (star_helper_grows _ _ _ _ _ _ _ _ hr).2
  refine ⟨r, hr, hI.1.run_append run, fun x hx => ?_⟩
  rcases List.mem_append.1 hx with hx | hx
  · exact run.grows.2 _ _ (hI.2 x hx)
  · simp only [List.mem_singleton] at hx
    subst hx
    exact lab

theorem star_reset_returns (m0 : Mesh) (hbl : BoundaryLive m0) (hco : CoIncidence m0)
    (d : Nat) (hd : d + 1 ≤ 3) (S : SimplexSet) (cur : Mesh)
    (he : cur.erase_labels = m0.erase_labels)
    (hl : ∀ k ∈ S.keys d, (m0.lookup_simplex d k).isSome) :
    ∃ m', star_reset d S cur = some m' ∧ m'.erase_labels = m0.erase_labels := by
  unfold star_reset
  refine foldlM_prefix_returns
    (fun (_ : List Nat) (x : Mesh) => x.erase_labels = m0.erase_labels) _ (S.keys d) ?_ cur he
  intro pre k suf x hpre hI
  obtain ⟨s0, hs0⟩ := Option.isSome_iff_exists.1 (hl k (by rw [hpre]; simp))
  obtain ⟨sx, hsx, -, -⟩ := Mesh.lookup_of_erase hI hs0
  obtain ⟨r, hr⟩ := (reset_label_returns d hd x.fuel).1 k x (hbl.live_of_erase hI) (hco.co_of_erase hI)
    (by rw [hsx]; rfl) (by
      intro m1 h1
      rw [← Mesh.fuel_of_erase (modify_reset_label_shrink h1).1.1]
      exact Mesh.weight_lt_fuel m1 _)
  exact ⟨r, hr, ((reset_label_shrink _).1 _ _ _ _ hr).1.1.trans hI⟩

theorem star_reset_tetrahedra_returns (m0 : Mesh) (S : SimplexSet) (cur : Mesh)
    (he : cur.erase_labels = m0.erase_labels)
    (hl : ∀ k ∈ S.keys 3, (m0.lookup_simplex 3 k).isSome) :
    ∃ m', star_reset_tetrahedra S cur = some m' := by
  unfold star_reset_tetrahedra
  have key := foldlM_prefix_returns
    (fun (_ : List Nat) (x : Mesh) => x.erase_labels = m0.erase_labels)
    (fun (m : Mesh) k => m.modify 3 k Simplex.reset_label) S.tetrahedra ?_ cur he
  · obtain ⟨r, hr, -⟩ := key
    exact ⟨r, hr⟩
  · intro pre k suf x hpre hI
    have hk : k ∈ S.keys 3 := by
      show k ∈ S.tetrahedra
      rw [hpre]; simp
    obtain ⟨s0, hs0⟩ := Option.isSome_iff_exists.1 (hl k hk)
    obtain ⟨sx, hsx, -, -⟩ := Mesh.lookup_of_erase hI hs0
    obtain ⟨r, hr⟩ := Mesh.modify_isSome Simplex.reset_label (by rw [hsx]; rfl : (x.lookup_simplex 3 k).isSome)
    exact ⟨r, hr, (modify_reset_label_shrink hr).1.1.trans hI⟩

/-- In a mesh with complete co-boundaries, a labelled simplex whose co-faces are labelled
with it has every simplex above it labelled. -/
theorem labelled_above {m r : Mesh} {st : SimplexSet} (hi : Incidence m)
    (he : r.erase_labels = m.erase_labels)
    (hclosed : ∀ d x, d ≤ 3 → r.label d x ≠ 0 → x ∈ st.keys d ∧ (d ≤ 2 → ∀ sx,
      r.lookup_simplex d x = some sx → ∀ c ∈ sx.m_co_boundary, r.label (d + 1) c ≠ 0))
    {d' x : Nat} (hd' : d' ≤ 3) :
    ∀ (n e y : Nat), d' ≤ e + n → r.label e y ≠ 0 → InBoundary m d' x e y →
      r.label d' x ≠ 0 := by
  intro n
  induction n with
  | zero =>
    intro e y hle _ hin
    have := hin.lt
    omega
  | succ n ih =>
    intro e y hle hlab hin
    have hlt := hin.lt
    obtain ⟨y', a', hy', ha', hy⟩ := hin.last
    obtain ⟨sb, hsb, hcob⟩ := hi (e + 1) y' a' (by omega) (by omega) ha' y hy
    rw [Nat.add_sub_cancel] at hsb
    obtain ⟨sx, hsx, -, hco⟩ := Mesh.lookup_of_erase he hsb
    have hlab' : r.label (e + 1) y' ≠ 0 :=
      (hclosed e y (by omega) hlab).2 (by omega) sx hsx y' (by rw [hco]; exact hcob)
    rcases hy' with ⟨rfl, rfl⟩ | hy'
    · exact hlab'
    · exact ih (e + 1) y' (by omega) hlab' hy'

/-- The traversal of `star` on a well-formed mesh with complete co-boundaries: it returns
and its result set holds exactly the simplices that have `key` in their transitive
boundary. -/
theorem star_spec (m : Mesh) (sd key : Nat) (hsd : sd ≤ 1) (hz : LabelsZero m)
    (hi : Incidence m) (hco : CoIncidence m) (hl : (m.lookup_simplex sd key).isSome) :
    ∃ st, star m sd key SimplexSet.empty = some (m, st) ∧
      (∀ d, (st.keys d).Sorted (· < ·)) ∧
      ∀ d x, d ≤ 3 → (x ∈ st.keys d ↔ InBoundary m d x sd key) := by
  have hbl := hi.boundaryLive
  obtain ⟨simplex, hs⟩ := Option.isSome_iff_exists.1 hl
  obtain ⟨⟨m1, st⟩, hfold, run, hall⟩ := star_outer m sd key simplex hsd hbl hco hs
  have he1 : m1.erase_labels = m.erase_labels := run.grows.1.symm
  have hsound : ∀ d x, d ≤ 3 → x ∈ st.keys d → InBoundary m d x sd key := by
    intro d x hd hx
    rcases run.sound d x hd hx with h | h
    · rw [SimplexSet.keys_empty] at h
      cases h
    · exact h
  have hlive : ∀ d, d ≤ 3 → ∀ x ∈ st.keys d, (m.lookup_simplex d x).isSome :=
    fun d hd x hx => (hsound d x hd hx).owner_live
  have hclosed : ∀ d x, d ≤ 3 → m1.label d x ≠ 0 → x ∈ st.keys d ∧ (d ≤ 2 → ∀ sx,
      m1.lookup_simplex d x = some sx → ∀ c ∈ sx.m_co_boundary, m1.label (d + 1) c ≠ 0) := by
    intro d x hd hne
    rcases run.closed d x hd hne with h | h
    · exact absurd (hz d x) h
    · exact ⟨h.1, h.2 (fun hf => hf)⟩
  have hchar : ∀ d x, d ≤ 3 → (x ∈ st.keys d ↔ InBoundary m d x sd key) := by
    intro d x hd
    refine ⟨hsound d x hd, fun hin => ?_⟩
    obtain ⟨y', a', hy', ha', hy⟩ := hin.last
    obtain ⟨sb, hsb, hcob⟩ := hi (sd + 1) y' a' (by omega) (by omega) ha' key hy
    rw [Nat.add_sub_cancel, hs] at hsb
    cases hsb
    have hlab' := hall y' hcob
    rcases hy' with ⟨rfl, rfl⟩ | hy'
    · exact (hclosed _ _ hd hlab').1
    · exact (hclosed d x hd (labelled_above hi he1 hclosed hd 3 (sd + 1) y' (by omega)
        hlab' hy')).1
  have hsorted : ∀ d, (st.keys d).Sorted (· < ·) := fun d =>
    run.sorted d (by
      show (SimplexSet.empty.keys d).Sorted (· < ·)
      rw [SimplexSet.keys_empty]; exact List.sorted_nil)
  have hret : ∃ r, star m sd key SimplexSet.empty = some r ∧ r.2 = st := by
    have hcases : sd = 0 ∨ sd = 1 := by omega
    rcases hcases with rfl | rfl
    · obtain ⟨m2, h2, e2⟩ := star_reset_returns m hbl hco 1 (by omega) st m1 he1
        (hlive 1 (by omega))
      obtain ⟨m3, h3, e3⟩ := star_reset_returns m hbl hco 2 (by omega) st m2 e2
        (hlive 2 (by omega))
      obtain ⟨m4, h4⟩ := star_reset_tetrahedra_returns m st m3 e3 (hlive 3 (by omega))
      refine ⟨(m4, st), ?_, rfl⟩
      unfold star
      simp only [bind, hs, Option.some_bind, hfold, h2, h3, h4, pure]
    · obtain ⟨m3, h3, e3⟩ := star_reset_returns m hbl hco 2 (by omega) st m1 he1
        (hlive 2 (by omega))
      obtain ⟨m4, h4⟩ := star_reset_tetrahedra_returns m st m3 e3 (hlive 3 (by omega))
      refine ⟨(m4, st), ?_, rfl⟩
      unfold star
      simp only [bind, hs, Option.some_bind, hfold, h3, h4, pure]
  obtain ⟨⟨m', st'⟩, hr, hst⟩ := hret
  simp only at hst
  subst hst
  have := star_restores hz hr
  subst this
  exact ⟨st', hr, hsorted, hchar⟩

end ISMesh
namespace ISMesh

theorem coIncidence_of_check {m : Mesh}
    (h0 : m.all_live 0 (fun k s => s.m_co_boundary.all (fun c =>
      match m.lookup_simplex 1 c with
      | some sc => sc.m_boundary.contains k
      | none => false)) = true)
    (h1 : m.all_live 1 (fun k s => s.m_co_boundary.all (fun c =>
      match m.lookup_simplex 2 c with
      | some sc => sc.m_boundary.contains k
      | none => false)) = true)
    (h2 : m.all_live 2 (fun k s => s.m_co_boundary.all (fun c =>
      match m.lookup_simplex 3 c with
      | some sc => sc.m_boundary.contains k
      | none => false)) = true) : CoIncidence m := by
  intro d k s hd hs c hc
  have hcases : d = 0 ∨ d = 1 ∨ d = 2 := by omega
  rcases hcases with rfl | rfl | rfl
  · have := List.all_eq_true.1 (Mesh.all_live_sound h0 hs) c hc
    cases hsc : m.lookup_simplex 1 c with
    | none => rw [hsc] at this; cases this
    | some sc =>
      rw [hsc] at this
      exact ⟨sc, rfl, by simpa using this⟩
  · have := List.all_eq_true.1 (Mesh.all_live_sound h1 hs) c hc
    cases hsc : m.lookup_simplex 2 c with
    | none => rw [hsc] at this; cases this
    | some sc =>
      rw [hsc] at this
      exact ⟨sc, rfl, by simpa using this⟩
  · have := List.all_eq_true.1 (Mesh.all_live_sound h2 hs) c hc
    cases hsc : m.lookup_simplex 3 c with
    | none => rw [hsc] at this; cases this
    | some sc =>
      rw [hsc] at this
      exact ⟨sc, rfl, by simpa using this⟩

/-- C21: `star` computes exactly the co-faces. On a mesh with all labels 0 and literal
bidirectional incidence (every entry of a boundary list is live and lists the simplex in
its co-boundary, every entry of a co-boundary set is live and lists the simplex in its
boundary), for every live node or edge `k`, `star(k)` computed into an empty set returns,
leaves the mesh as it was, and its result holds exactly the live simplices `s` of higher
dimension for which `boundary(s)` holds `k`; `k` itself is not in the result. -/
theorem star_exact (m : Mesh) (d k : Nat) (hd : d ≤ 1) (hz : LabelsZero m)
    (hi : Incidence m) (hc : CoIncidence m) (hk : (m.lookup_simplex d k).isSome) :
    ∃ st, star m d k SimplexSet.empty = some (m, st) ∧
      (∀ d', (st.keys d').Sorted (· < ·)) ∧
      (∀ d' x, d' ≤ 3 → (x ∈ st.keys d' ↔ d < d' ∧ (m.lookup_simplex d' x).isSome ∧
        ∃ R, boundary m d' x SimplexSet.empty = some R ∧ k ∈ R.keys d)) ∧
      k ∉ st.keys d := by
  obtain ⟨st, hst, hsorted, hchar⟩ := star_spec m d k hd hz hi hc hk
  refine ⟨st, hst, hsorted, fun d' x hd' => ?_, fun hmem => ?_⟩
  · rw [hchar d' x hd']
    constructor
    · intro hin
      obtain ⟨R, hR⟩ := boundary_helper_returns m (fun d k => (m.lookup_simplex d k).isSome)
        (fun d k hk => hk)
        (fun d k a h2 h3 _ ha b hbm => hi.boundaryLive d k a (by omega) h3 ha b hbm)
        d' hd' x SimplexSet.empty (fun _ => hin.owner_live)
      refine ⟨hin.lt, hin.owner_live, R, hR, ?_⟩
      exact ((boundary_helper_spec m d' hd' x _ _ hR).1 d (by omega) k).2 (Or.inr hin)
    · rintro ⟨-, -, R, hR, hkR⟩
      rcases ((boundary_helper_spec m d' hd' x _ _ hR).1 d (by omega) k).1 hkR with h | h
      · rw [SimplexSet.keys_empty] at h
        cases h
      · exact h
  · have := ((hchar d k (by omega)).1 hmem).lt
    omega

/-- Witness of C21: the star of the node 0 of the mesh with one tetrahedron. -/
theorem star_exact_witness :
    LabelsZero tetrahedron_mesh ∧ Incidence tetrahedron_mesh ∧ CoIncidence tetrahedron_mesh ∧
    star tetrahedron_mesh 0 0 SimplexSet.empty
      = some (tetrahedron_mesh, ⟨[], [0, 1, 2], [0, 1, 2], [0]⟩) ∧
    ∃ st, star tetrahedron_mesh 0 0 SimplexSet.empty = some (tetrahedron_mesh, st) ∧
      ∀ d' x, d' ≤ 3 → (x ∈ st.keys d' ↔ 0 < d' ∧
        (tetrahedron_mesh.lookup_simplex d' x).isSome ∧
        ∃ R, boundary tetrahedron_mesh d' x SimplexSet.empty = some R ∧ 0 ∈ R.keys 0) :=
  have hi : Incidence tetrahedron_mesh := (reachable_invariants reachable_tetrahedron).2.2
  have hc : CoIncidence tetrahedron_mesh :=
    coIncidence_of_check (by decide!) (by decide!) (by decide!)
  ⟨labelsZero_tetrahedron, hi, hc, by decide!,
    (star_exact tetrahedron_mesh 0 0 (by decide) labelsZero_tetrahedron hi hc (by decide!)).elim
      (fun st h => ⟨st, h.1, h.2.2.1⟩)⟩

end ISMesh
namespace ISMesh

/-- Evaluation of `find_min_multi_face` on the mesh with one tetrahedron. -/
theorem get_intersection_isSome {m : Mesh} {a b : Nat} {sa sb : Simplex} (hne : a ≠ b)
    (ha : m.lookup_simplex 2 a = some sa) (hb : m.lookup_simplex 2 b = some sb) :
    ∃ r, get_intersection m 2 a b = some r ∧ (r.isSome = true ↔ SharesEdge m a b) := by
  refine ⟨sa.m_boundary.find? (fun x => sb.m_boundary.contains x), ?_, ?_⟩
  · unfold get_intersection
    rw [if_neg hne, if_neg (by omega)]
    simp only [bind, ha, hb, Option.some_bind, pure]
  · rw [List.find?_isSome]
    constructor
    · rintro ⟨e, he, hc⟩
      exact ⟨sa, sb, ha, hb, e, he, by simpa using hc⟩
    · rintro ⟨sa', sb', ha', hb', e, he, hc⟩
      rw [ha] at ha'; rw [hb] at hb'
      cases ha'; cases hb'
      exact ⟨e, he, by simpa using hc⟩

theorem countP_lt_of_mem {α : Type} (p q : α → Bool) (L : List α) (x : α) (hx : x ∈ L)
    (hpq : ∀ a, p a = true → q a = true) (hq : q x = true) (hp : p x = false) :
    L.countP p < L.countP q := by
  induction L with
  | nil => cases hx
  | cons a L ih =>
    rw [List.countP_cons, List.countP_cons]
    rcases List.mem_cons.1 hx with h | h
    · subst h
      have := List.countP_mono_left (l := L) (fun a _ => hpq a)
      rw [hq, hp]
      simp only [if_true, Bool.false_eq_true, if_false]
      omega
    · have := ih h
      by_cases ha : p a = true
      · rw [if_pos ha, if_pos (hpq a ha)]
        omega
      · rw [if_neg ha]
        omega

theorem component_scan_step {m : Mesh} {mf : SimplexSet} {f : Nat} {cc added0 : List Nat}
    (hlive : ∀ g ∈ mf.faces, (m.lookup_simplex 2 g).isSome)
    (hcc : ∀ g ∈ cc, g ∈ added0) {fit : Nat} (hfit : fit ∈ cc) {st : ComponentState}
    (hI : ComponentInv m mf f cc added0 st) {mfit : Nat} (hm : mfit ∈ mf.faces) :
    ∃ st', component_scan m fit st mfit = some st' ∧ ComponentInv m mf f cc added0 st' ∧
      st'.visited = st.visited ∧ (∀ g ∈ st.added, g ∈ st'.added) ∧
      (SharesEdge m fit mfit → mfit ∈ st'.added) := by
  have hfa : fit ∈ st.added := (hI.added_split fit).2 (Or.inl (hcc fit hfit))
  unfold component_scan
  by_cases hc : (!st.visited.contains mfit && !st.added.contains mfit) = true
  · rw [if_pos hc]
    simp only [Bool.and_eq_true, Bool.not_eq_true', List.contains_eq_any_beq, List.any_eq_false,
      beq_iff_eq] at hc
    have hna : mfit ∉ st.added := fun h => hc.2 mfit h rfl
    have hne : fit ≠ mfit := fun h => hna (h ▸ hfa)
    obtain ⟨sa, hsa⟩ := Option.isSome_iff_exists.1 (hlive fit (hI.added_reach fit hfa).1)
    obtain ⟨sb, hsb⟩ := Option.isSome_iff_exists.1 (hlive mfit hm)
    obtain ⟨r, hr, hiff⟩ := get_intersection_isSome hne hsa hsb
    simp only [hr, bind, Option.some_bind]
    by_cases hs : r.isSome = true
    · rw [if_pos hs]
      refine ⟨_, rfl, ?_, rfl, fun g hg => List.mem_cons_of_mem _ hg,
        fun _ => List.mem_cons_self _ _⟩
      refine ⟨?_, ?_, hI.visited_cc, ?_, ?_, ?_⟩
      · intro g hg
        rcases List.mem_cons.1 hg with rfl | hg
        · exact ⟨hm, Relation.ReflTransGen.tail (hI.added_reach fit hfa).2 ⟨hm, hiff.1 hs⟩⟩
        · exact hI.added_reach g hg
      · intro g
        simp only [List.mem_cons, mem_set_insert, hI.added_split g]
        tauto
      · intro v hv g hg hsh
        exact List.mem_cons_of_mem _ (hI.closed v hv g hg hsh)
      · have h1 := countP_lt_of_mem (fun g => !(mfit :: st.added).contains g)
          (fun g => !st.added.contains g) mf.faces mfit hm
          (by
            intro a ha
            simp only [Bool.not_eq_true', List.contains_eq_any_beq, List.any_eq_false,
              beq_iff_eq, List.mem_cons] at ha ⊢
            intro x hx
            exact ha x (Or.inr hx))
          (by simpa using hna) (by simp)
        have h2 := hI.measure
        simp only [if_true]
        split_ifs at h2 <;> omega
      · intro h
        cases h
    · rw [if_neg hs]
      exact ⟨st, rfl, hI, rfl, fun g hg => hg, fun h => absurd (hiff.2 h) hs⟩
  · rw [if_neg hc]
    refine ⟨st, rfl, hI, rfl, fun g hg => hg, fun _ => ?_⟩
    by_cases ha : mfit ∈ st.added
    · exact ha
    · have hv : mfit ∈ st.visited := by
        by_contra hv
        apply hc
        simp only [Bool.and_eq_true, Bool.not_eq_true', List.contains_eq_any_beq,
          List.any_eq_false, beq_iff_eq]
        exact ⟨fun x hx hxe => hv (hxe ▸ hx), fun x hx hxe => ha (hxe ▸ hx)⟩
      exact (hI.added_split mfit).2 (Or.inl (hcc _ (hI.visited_cc _ hv)))

theorem component_visit_step {m : Mesh} {mf : SimplexSet} {f : Nat} {cc added0 : List Nat}
    (hlive : ∀ g ∈ mf.faces, (m.lookup_simplex 2 g).isSome)
    (hcc : ∀ g ∈ cc, g ∈ added0) {fit : Nat} (hfit : fit ∈ cc) {st : ComponentState}
    (hI : ComponentInv m mf f cc added0 st) :
    ∃ st', component_visit m mf st fit = some st' ∧ ComponentInv m mf f cc added0 st' ∧
      fit ∈ st'.visited ∧ (∀ v ∈ st.visited, v ∈ st'.visited) := by
  unfold component_visit
  by_cases hc : (!st.visited.contains fit) = true
  · rw [if_pos hc]
    obtain ⟨st1, h1, hI1, hv1, hcl⟩ := foldlM_prefix_returns
      (fun pre (x : ComponentState) => ComponentInv m mf f cc added0 x ∧
        x.visited = st.visited ∧ ∀ g ∈ pre, SharesEdge m fit g → g ∈ x.added)
      (component_scan m fit) mf.faces
      (by
        rintro pre x suf b hL ⟨hb, hbv, hbc⟩
        obtain ⟨b', e, hb', hv', hmono, hx⟩ := component_scan_step hlive hcc hfit hb
          (show x ∈ mf.faces by rw [hL]; simp)
        refine ⟨b', e, hb', hv'.trans hbv, ?_⟩
        intro g hg hsh
        rcases List.mem_append.1 hg with hg | hg
        · exact hmono g (hbc g hg hsh)
        · rw [List.mem_singleton] at hg
          subst hg
          exact hx hsh)
      st ⟨hI, rfl, fun g hg => by cases hg⟩
    simp only [h1, bind, Option.some_bind, pure]
    refine ⟨_, rfl, ?_, List.mem_cons_self _ _, fun v hv => List.mem_cons_of_mem _ (hv1 ▸ hv)⟩
    refine ⟨hI1.added_reach, hI1.added_split, ?_, ?_, hI1.measure, hI1.unchanged⟩
    · intro v hv
      rcases List.mem_cons.1 hv with rfl | hv
      · exact hfit
      · exact hI1.visited_cc v hv
    · intro v hv g hg hsh
      rcases List.mem_cons.1 hv with rfl | hv
      · exact hcl g hg hsh
      · exact hI1.closed v hv g hg hsh
  · rw [if_neg hc]
    refine ⟨st, rfl, hI, ?_, fun v hv => hv⟩
    simpa using hc

theorem component_loop_spec {m : Mesh} {mf : SimplexSet} {f : Nat}
    (hlive : ∀ g ∈ mf.faces, (m.lookup_simplex 2 g).isSome) :
    ∀ (fuel : Nat) (visited added : List Nat) (cc : SimplexSet),
      mf.faces.countP (fun g => !added.contains g) < fuel → f ∈ added →
      (∀ g, g ∈ cc.faces ↔ g ∈ added) →
      (∀ g ∈ added, g ∈ mf.faces ∧ EdgeConnected m mf f g) →
      (∀ v ∈ visited, v ∈ cc.faces) →
      (∀ v ∈ visited, ∀ g ∈ mf.faces, SharesEdge m v g → g ∈ added) →
      ∃ r, component_loop m mf fuel visited added cc = some r ∧ r.nodes = cc.nodes ∧
        r.edges = cc.edges ∧ r.tetrahedra = cc.tetrahedra ∧
        ∀ g, g ∈ r.faces ↔ EdgeConnected m mf f g := by
  intro fuel
  induction fuel with
  | zero => intro _ _ _ h; omega
  | succ fuel ih =>
    intro visited added cc hfuel hf hcc hreach hvis hclosed
    obtain ⟨st, h1, hI, hall⟩ := foldlM_prefix_returns
      (fun pre (x : ComponentState) => ComponentInv m mf f cc.faces added x ∧
        ∀ g ∈ pre, g ∈ x.visited)
      (component_visit m mf) cc.faces
      (by
        rintro pre x suf b hL ⟨hb, hbv⟩
        obtain ⟨b', e, hb', hx, hmono⟩ := component_visit_step hlive
          (fun g hg => (hcc g).1 hg) (show x ∈ cc.faces by rw [hL]; simp) hb
        refine ⟨b', e, hb', ?_⟩
        intro g hg
        rcases List.mem_append.1 hg with hg | hg
        · exact hmono g (hbv g hg)
        · rw [List.mem_singleton] at hg
          subst hg
          exact hx)
      { visited := visited, added := added, adjacent := [], changes := false }
      ⟨⟨hreach, fun g => by simp, hvis, hclosed, by simp, fun _ => rfl⟩,
        fun g hg => by cases hg⟩
    have hfaces : ∀ g, g ∈ (cc.add ⟨[], [], st.adjacent, []⟩).faces ↔ g ∈ st.added := by
      intro g
      show g ∈ st.adjacent.foldl (fun acc k => set_insert k acc) cc.faces ↔ _
      rw [mem_foldl_set_insert, hI.added_split g, hcc g]
      tauto
    unfold component_loop
    simp only [h1, bind, Option.some_bind]
    by_cases hch : st.changes = true
    · rw [if_pos hch]
      have hmeas := hI.measure
      rw [if_pos hch] at hmeas
      obtain ⟨r, hr, a, b, c, d⟩ := ih st.visited st.added (cc.add ⟨[], [], st.adjacent, []⟩)
        (by omega) ((hI.added_split f).2 (Or.inl hf)) hfaces hI.added_reach
        (fun v hv => (hfaces v).2 ((hI.added_split v).2
          (Or.inl ((hcc v).1 (hI.visited_cc v hv))))) hI.closed
      exact ⟨r, hr, a, b, c, d⟩
    · rw [if_neg hch]
      refine ⟨_, rfl, rfl, rfl, rfl, ?_⟩
      intro g
      rw [hfaces g]
      constructor
      · intro hg
        exact (hI.added_reach g hg).2
      · intro hg
        induction hg with
        | refl => exact (hI.added_split f).2 (Or.inl hf)
        | @tail a b _ hstep ihg =>
          have hadj : st.adjacent = [] := hI.unchanged (by simpa using hch)
          have ha : a ∈ cc.faces := by
            have := (hI.added_split a).1 ihg
            rw [hadj] at this
            rcases this with h | h
            · exact (hcc a).2 h
            · cases h
          exact hI.closed a (hall a ha) b hstep.1 hstep.2

/-- C39: `find_connected_component` on a multi-face of live faces that holds `f`, with an
empty component set, returns, and its result holds faces only: the face `g` is in it if and
only if `g` is reached from `f` through a chain of faces of the multi-face in which
consecutive faces share a boundary edge; in particular it holds `f` and only faces of the
multi-face. -/
theorem find_connected_component_reaches (m : Mesh) (f : Nat) (multi_face : SimplexSet)
    (hlive : ∀ g ∈ multi_face.faces, (m.lookup_simplex 2 g).isSome)
    (hf : f ∈ multi_face.faces) :
    ∃ cc, find_connected_component m f multi_face SimplexSet.empty = some cc ∧
      cc.nodes = [] ∧ cc.edges = [] ∧ cc.tetrahedra = [] ∧ f ∈ cc.faces ∧
      (∀ g ∈ cc.faces, g ∈ multi_face.faces) ∧
      ∀ g, g ∈ cc.faces ↔ EdgeConnected m multi_face f g := by
  have hin : ∀ g, EdgeConnected m multi_face f g → g ∈ multi_face.faces := by
    intro g hg
    induction hg with
    | refl => exact hf
    | tail _ hstep _ => exact hstep.1
  obtain ⟨r, hr, a, b, c, d⟩ := component_loop_spec hlive (multi_face.faces.length + 2) []
    [f] (SimplexSet.empty.insert 2 f)
    (by
      have := List.countP_le_length (fun g => !List.contains [f] g) (l := multi_face.faces)
      omega)
    (List.mem_singleton.2 rfl) (fun g => by simp [SimplexSet.insert, SimplexSet.setKeys,
      SimplexSet.keys, SimplexSet.empty, set_insert])
    (fun g hg => by
      rw [List.mem_singleton] at hg
      subst hg
      exact ⟨hf, Relation.ReflTransGen.refl⟩)
    (fun v hv => by cases hv) (fun v hv => by cases hv)
  refine ⟨r, ?_, a, b, c, (d f).2 Relation.ReflTransGen.refl, fun g hg => hin g ((d g).1 hg), d⟩
  unfold find_connected_component
  rw [if_neg (by simpa [SimplexSet.contains, SimplexSet.keys] using hf)]
  exact hr

/-- Witness of C39: the four faces of the mesh with one tetrahedron are one component. -/
theorem find_connected_component_reaches_witness :
    find_connected_component tetrahedron_mesh 0 ⟨[], [], [0, 1, 2, 3], []⟩ SimplexSet.empty
      = some ⟨[], [], [0, 1, 2, 3], []⟩ ∧
    ∃ cc, find_connected_component tetrahedron_mesh 0 ⟨[], [], [0, 1, 2, 3], []⟩
        SimplexSet.empty = some cc ∧
      cc.nodes = [] ∧ cc.edges = [] ∧ cc.tetrahedra = [] ∧ 0 ∈ cc.faces ∧
      (∀ g ∈ cc.faces, g ∈ (⟨[], [], [0, 1, 2, 3], []⟩ : SimplexSet).faces) ∧
      ∀ g, g ∈ cc.faces ↔ EdgeConnected tetrahedron_mesh ⟨[], [], [0, 1, 2, 3], []⟩ 0 g :=
  ⟨by decide!,
    find_connected_component_reaches tetrahedron_mesh 0 ⟨[], [], [0, 1, 2, 3], []⟩
      (by decide!) (by decide)⟩

theorem set_insert_idem (k : Nat) (l : List Nat) :
    set_insert k (set_insert k l) = set_insert k l := by
  induction l with
  | nil => simp [set_insert]
  | cons x l ih =>
    by_cases h1 : k < x
    · simp [set_insert, h1]
    · by_cases h2 : k = x
      · simp [set_insert, h2]
      · simp [set_insert, h1, h2, ih]

/-- The result of `find_min_multi_face` is the given set with `f` inserted, whatever the
multi-face holds. -/
theorem find_min_multi_face_inserts_f (m : Mesh) (f : Nat) (multi_face result r : SimplexSet)
    (h : find_min_multi_face m f multi_face result = some r) : r = result.insert 2 f := by
  have hid : ∀ (a : SimplexSet), (a.insert 2 f).insert 2 f = a.insert 2 f := by
    intro a
    simp only [SimplexSet.insert, SimplexSet.setKeys, SimplexSet.keys, set_insert_idem]
  unfold find_min_multi_face at h
  simp only [bind, Option.bind_eq_some, pure, Option.some.injEq] at h
  obtain ⟨a, ha, rfl⟩ := h
  have key := foldlM_rel (fun (x y : SimplexSet) => y = x ∨ y = x.insert 2 f)
    (fun b => Or.inl rfl)
    (by
      rintro a b c (rfl | rfl) (rfl | rfl)
      · exact Or.inl rfl
      · exact Or.inr rfl
      · exact Or.inr rfl
      · exact Or.inr (hid _))
    _
    (by
      intro b x b' hb
      split_ifs at hb
      · simp only [Option.bind_eq_some] at hb
        obtain ⟨res, -, hres⟩ := hb
        split_ifs at hres
        · exact Or.inr (Option.some.inj hres).symm
        · exact Or.inl (Option.some.inj hres).symm
      · exact Or.inl (Option.some.inj hb).symm)
    multi_face.faces result a ha
  rcases key with rfl | rfl
  · rfl
  · exact hid _

/-- C40, evaluated where the code departs from it: in the mesh with one tetrahedron the
faces 1, 2 and 3 each share an edge with the face 0 (`get_intersection` finds the edges 0,
1 and 3), and `find_min_multi_face` with `f = 0` on the multi-face of the four faces, into
an empty set, yields the face 0 alone. -/
theorem find_min_multi_face_alone :
    get_intersection tetrahedron_mesh 2 0 1 = some (some 0) ∧
    get_intersection tetrahedron_mesh 2 0 2 = some (some 1) ∧
    get_intersection tetrahedron_mesh 2 0 3 = some (some 3) ∧
    find_min_multi_face tetrahedron_mesh 0 ⟨[], [], [0, 1, 2, 3], []⟩ SimplexSet.empty
      = some ⟨[], [], [0], []⟩ := by
  decide!

end ISMesh
namespace ISMesh

theorem undo_dim_pops {d : Nat} {x y : Mesh} (h : undo_dim d x = some y) : PopsMark d x y := by
  unfold PopsMark
  unfold undo_dim at h
  cases hm : x.mark_stack d with
  | nil =>
    simp only [hm, pure, Option.some.injEq] at h
    subst h
    exact ⟨fun _ => ⟨hm, rfl⟩, fun cnt rest hc => by cases hc⟩
  | cons cnt rest =>
    simp only [hm, bind, Option.bind_eq_some] at h
    obtain ⟨K, -, mL, hL, h2⟩ := h
    have hloop : mL.undo_stack d = x.undo_stack d ∧ mL.mark_stack d = x.mark_stack d := by
      have := foldlM_rel (fun (a b : Mesh) => b.undo_stack d = a.undo_stack d ∧
          b.mark_stack d = a.mark_stack d) (fun _ => ⟨rfl, rfl⟩)
        (fun _ _ _ h1 h2 => ⟨h2.1.trans h1.1, h2.2.trans h1.2⟩) _
        (fun b i b' hb => by
          split_ifs at hb
          simp only [Option.bind_eq_some] at hb
          obtain ⟨info, -, hmod⟩ := hb
          exact ⟨Mesh.undo_stack_modify hmod d, Mesh.mark_stack_modify hmod d⟩) _ _ _ hL
      simp only [Mesh.undo_stack_setKernel, Mesh.mark_stack_setKernel] at this
      exact this
    split_ifs at h2 with hlt
    simp only [pure, Option.some.injEq] at h2
    subst h2
    refine ⟨fun hc => (by cases hc), fun c r hc => ?_⟩
    cases hc
    rw [hloop.1] at hlt
    refine ⟨by omega, ?_, ?_⟩
    · rw [Mesh.mark_stack_set_mark_stack]
      simp
    · rw [Mesh.undo_stack_set_mark_stack, Mesh.undo_stack_set_undo_stack, hloop.1]
      simp

theorem commit_dim_pops {d : Nat} {x y : Mesh} (h : commit_dim d x = some y) :
    PopsMark d x y ∧ ∀ d', min d 3 ≠ min d' 3 →
      y.undo_stack d' = x.undo_stack d' ∧ y.mark_stack d' = x.mark_stack d' := by
  unfold PopsMark
  unfold commit_dim at h
  simp only [bind, Option.bind_eq_some] at h
  obtain ⟨K, -, h⟩ := h
  rw [Mesh.mark_stack_setKernel] at h
  cases hm : x.mark_stack d with
  | nil =>
    simp only [hm, pure, Option.some.injEq] at h
    subst h
    refine ⟨⟨fun _ => ⟨?_, ?_⟩, fun cnt rest hc => by cases hc⟩,
      fun d' _ => ⟨?_, ?_⟩⟩
    · rw [Mesh.mark_stack_setKernel, hm]
    · rw [Mesh.undo_stack_setKernel]
    · rw [Mesh.undo_stack_setKernel]
    · rw [Mesh.mark_stack_setKernel]
  | cons cnt rest =>
    simp only [hm, Mesh.undo_stack_setKernel] at h
    split_ifs at h with hlt
    simp only [pure, Option.some.injEq] at h
    subst h
    refine ⟨⟨fun hc => (by cases hc), fun c r hc => ?_⟩,
      fun d' hne => ⟨?_, ?_⟩⟩
    · cases hc
      refine ⟨by omega, ?_, ?_⟩
      · rw [Mesh.mark_stack_set_mark_stack]
        simp
      · rw [Mesh.undo_stack_set_mark_stack, Mesh.undo_stack_set_undo_stack]
        simp
    · rw [Mesh.undo_stack_set_mark_stack, Mesh.undo_stack_set_undo_stack]
      simp [hne, Mesh.undo_stack_setKernel]
    · rw [Mesh.mark_stack_set_mark_stack]
      simp [hne, Mesh.mark_stack_set_undo_stack, Mesh.mark_stack_setKernel]

theorem PopsMark.of_eq {d : Nat} {x y x' y' : Mesh} (h : PopsMark d x y)
    (hx : x.undo_stack d = x'.undo_stack d ∧ x.mark_stack d = x'.mark_stack d)
    (hy : y'.undo_stack d = y.undo_stack d ∧ y'.mark_stack d = y.mark_stack d) :
    PopsMark d x' y' := by
  unfold PopsMark at h ⊢
  rw [hy.1, hy.2, ← hx.1, ← hx.2]
  exact h

/-- The four blocks of `undo` or `commit`: each pops the mark of its own dimension. -/
theorem blocks_pop (f : Nat → Mesh → Option Mesh)
    (hpop : ∀ d x y, f d x = some y → PopsMark d x y)
    (hframe : ∀ d x y, f d x = some y → ∀ d', min d 3 ≠ min d' 3 →
      y.undo_stack d' = x.undo_stack d' ∧ y.mark_stack d' = x.mark_stack d')
    {m m' : Mesh} (h : (do
      let m ← f 0 m
      let m ← f 1 m
      let m ← f 2 m
      f 3 m) = some m') (d : Nat) (hd : d ≤ 3) : PopsMark d m m' := by
  simp only [bind, Option.bind_eq_some] at h
  obtain ⟨a0, h0, a1, h1, a2, h2, h3⟩ := h
  have f0 := hframe 0 _ _ h0
  have f1 := hframe 1 _ _ h1
  have f2 := hframe 2 _ _ h2
  have f3 := hframe 3 _ _ h3
  have e : d = 0 ∨ d = 1 ∨ d = 2 ∨ d = 3 := by omega
  rcases e with rfl | rfl | rfl | rfl
  · refine (hpop 0 _ _ h0).of_eq ⟨rfl, rfl⟩ ?_
    have b1 := f1 0 (by decide)
    have b2 := f2 0 (by decide)
    have b3 := f3 0 (by decide)
    exact ⟨b3.1.trans (b2.1.trans b1.1), b3.2.trans (b2.2.trans b1.2)⟩
  · refine (hpop 1 _ _ h1).of_eq ?_ ?_
    · exact f0 1 (by decide)
    · have b2 := f2 1 (by decide)
      have b3 := f3 1 (by decide)
      exact ⟨b3.1.trans b2.1, b3.2.trans b2.2⟩
  · refine (hpop 2 _ _ h2).of_eq ?_ ?_
    · have b0 := f0 2 (by decide)
      have b1 := f1 2 (by decide)
      exact ⟨b1.1.trans b0.1, b1.2.trans b0.2⟩
    · exact f3 2 (by decide)
  · refine (hpop 3 _ _ h3).of_eq ?_ ⟨rfl, rfl⟩
    have b0 := f0 3 (by decide)
    have b1 := f1 3 (by decide)
    have b2 := f2 3 (by decide)
    exact ⟨b2.1.trans (b1.1.trans b0.1), b2.2.trans (b1.2.trans b0.2)⟩

theorem undo_pops {m m' : Mesh} (h : undo m = some m') (d : Nat) (hd : d ≤ 3) :
    PopsMark d m m' :=
  blocks_pop undo_dim (fun _ _ _ h => undo_dim_pops h)
    (fun _ _ _ h _ hne => ⟨(undo_dim_frame h hne).2.1, (undo_dim_frame h hne).2.2⟩) h d hd

theorem commit_pops {m m' : Mesh} (h : commit m = some m') (d : Nat) (hd : d ≤ 3) :
    PopsMark d m m' :=
  blocks_pop commit_dim (fun _ _ _ h => (commit_dim_pops h).1)
    (fun _ _ _ h => (commit_dim_pops h).2) h d hd

theorem Booked.pop {m m' : Mesh} {d : Nat} {P : List (List Nat)} (hb : Booked m d P)
    (hp : PopsMark d m m') : Booked m' d P.tail := by
  obtain ⟨h1, h2⟩ := hb
  cases P with
  | nil =>
    obtain ⟨a, b⟩ := hp.1 h1
    exact ⟨a, by rw [b]; exact h2⟩
  | cons S P =>
    obtain ⟨hle, a, b⟩ := hp.2 S.length (P.map List.length) h1
    refine ⟨a, ?_⟩
    rw [b, List.map_take, h2]
    simp only [List.reverse_cons, List.flatten_append, List.flatten_cons, List.flatten_nil,
      List.append_nil, List.tail_cons]
    have hlen : (m.undo_stack d).length = P.reverse.flatten.length + S.length := by
      have := congrArg List.length h2
      simpa using this
    rw [hlen, Nat.add_sub_cancel, List.take_left]

theorem forall₂_undo_info_keys {m : Mesh} {d : Nat} {keys : List Nat} {infos : List UndoInfo}
    (h : List.Forall₂ (fun k info => ∃ s, m.lookup_simplex d k = some s ∧
      info = undo_info d k s) keys infos) : infos.map (fun info => info.key) = keys := by
  induction h with
  | nil => rfl
  | cons hab _ ih =>
    obtain ⟨s, -, rfl⟩ := hab
    rw [List.map_cons, ih]
    rfl

theorem Booked.mark {m m' : Mesh} {S : SimplexSet} (h : set_undo_mark m S = some m')
    {d : Nat} (hd : d ≤ 3) {P : List (List Nat)} (hb : Booked m d P) :
    Booked m' d (if S.keys d = [] then P else S.keys d :: P) := by
  obtain ⟨-, h0, h1⟩ := set_undo_mark_spec h d hd
  by_cases hk : S.keys d = []
  · rw [if_pos hk]
    obtain ⟨-, a, b⟩ := h0 hk
    exact ⟨b.trans hb.1, by rw [a]; exact hb.2⟩
  · rw [if_neg hk]
    obtain ⟨a, -, infos, b, c⟩ := h1 hk
    refine ⟨?_, ?_⟩
    · rw [a, hb.1, List.map_cons]
    · rw [b, List.map_append, hb.2, forall₂_undo_info_keys c]
      simp

theorem booked_commit_all (m : Mesh) (d : Nat) (hd : d ≤ 3) : Booked (commit_all m) d [] := by
  have e : d = 0 ∨ d = 1 ∨ d = 2 ∨ d = 3 := by omega
  rcases e with rfl | rfl | rfl | rfl <;> exact ⟨rfl, rfl⟩

theorem booked_garbage_collect (m : Mesh) (d : Nat) (hd : d ≤ 3) :
    Booked (garbage_collect m) d [] := by
  have e : d = 0 ∨ d = 1 ∨ d = 2 ∨ d = 3 := by omega
  rcases e with rfl | rfl | rfl | rfl <;> exact ⟨rfl, rfl⟩

theorem booked_undo_all_loop : ∀ (fuel : Nat) (m m' : Mesh) (P : Nat → List (List Nat)),
    undo_all_loop fuel m = some m' → (∀ d, d ≤ 3 → Booked m d (P d)) →
    ∀ d, d ≤ 3 → Booked m' d [] := by
  intro fuel
  induction fuel with
  | zero => intro m m' P h; cases h
  | succ fuel ih =>
    intro m m' P h hb
    unfold undo_all_loop at h
    split_ifs at h with hc
    · simp only [bind, Option.bind_eq_some] at h
      obtain ⟨m1, h1, h2⟩ := h
      exact ih m1 m' (fun d => (P d).tail) h2 (fun d hd => (hb d hd).pop (undo_pops h1 d hd))
    · simp only [pure, Option.some.injEq] at h
      subst h
      simp only [not_or, not_not] at hc
      intro d hd
      have hm : m.mark_stack d = [] := by
        have e : d = 0 ∨ d = 1 ∨ d = 2 ∨ d = 3 := by omega
        rcases e with rfl | rfl | rfl | rfl
        · exact hc.1
        · exact hc.2.1
        · exact hc.2.2.1
        · exact hc.2.2.2
      have hP : P d = [] := by
        have := (hb d hd).1
        rw [hm] at this
        exact List.map_eq_nil_iff.1 this.symm
      have := hb d hd
      rw [hP] at this
      exact this

theorem marked_booked {m : Mesh} {P : Nat → List (List Nat)} (h : Marked m P) :
    ∀ d, d ≤ 3 → Booked m d (P d) := by
  induction h with
  | fresh =>
    intro d hd
    have e : d = 0 ∨ d = 1 ∨ d = 2 ∨ d = 3 := by omega
    rcases e with rfl | rfl | rfl | rfl <;> exact ⟨rfl, rfl⟩
  | edit _ he ih =>
    intro d hd
    exact ⟨(he d hd).2.trans (ih d hd).1, by rw [(he d hd).1]; exact (ih d hd).2⟩
  | set_undo_mark S _ hs ih => exact fun d hd => (ih d hd).mark hs hd
  | undo _ hu ih => exact fun d hd => (ih d hd).pop (undo_pops hu d hd)
  | commit _ hc ih => exact fun d hd => (ih d hd).pop (commit_pops hc d hd)
  | commit_all _ _ => exact fun d hd => booked_commit_all _ d hd
  | undo_all _ hu ih => exact fun d hd => booked_undo_all_loop _ _ _ _ hu ih d hd
  | garbage_collect _ _ => exact fun d hd => booked_garbage_collect _ d hd

/-- C38: after any sequence of `set_undo_mark`, `undo`, `commit`, `commit_all`, `undo_all`
and `garbage_collect` calls from a fresh mesh (with any steps in between that leave the four
undo stacks and the four mark stacks alone), in each dimension the mark stack holds the
lengths of the key lists of the pending marks and the undo stack their records, the oldest
mark first; so the counts of the mark stack sum to the length of the undo stack, and when
the mark stack is not empty its front count `cnt` is at most that length, the last `cnt`
records of the undo stack are those of the keys of the most recent pending mark, and the
other counts sum to the number of the records before them. -/
theorem undo_stacks_balanced {m : Mesh} {P : Nat → List (List Nat)} (h : Marked m P)
    (d : Nat) (hd : d ≤ 3) :
    Booked m d (P d) ∧ (m.mark_stack d).sum = (m.undo_stack d).length ∧
    ∀ cnt rest, m.mark_stack d = cnt :: rest →
      cnt ≤ (m.undo_stack d).length ∧ rest.sum = (m.undo_stack d).length - cnt ∧
      ∃ S Q, P d = S :: Q ∧ S.length = cnt ∧
        ((m.undo_stack d).drop ((m.undo_stack d).length - cnt)).map (fun info => info.key)
          = S := by
  have hb := marked_booked h d hd
  have hsum : ∀ (Q : List (List Nat)), (Q.map List.length).sum = Q.reverse.flatten.length := by
    intro Q
    rw [List.length_flatten, List.map_reverse, List.sum_reverse]
  have hlen : (m.undo_stack d).length = (P d).reverse.flatten.length := by
    rw [← hb.2, List.length_map]
  refine ⟨hb, ?_, ?_⟩
  · rw [hb.1, hsum, hlen]
  · intro cnt rest hm
    have h1 := hb.1
    rw [hm] at h1
    cases hP : P d with
    | nil => rw [hP] at h1; cases h1
    | cons S Q =>
      rw [hP, List.map_cons] at h1
      cases h1
      rw [hP] at hlen
      simp only [List.reverse_cons, List.flatten_append, List.flatten_cons, List.flatten_nil,
        List.append_nil, List.length_append] at hlen
      refine ⟨by omega, ?_, S, Q, rfl, rfl, ?_⟩
      · rw [hsum, hlen, Nat.add_sub_cancel]
      · rw [List.map_drop, hb.2, hP, hlen, Nat.add_sub_cancel]
        simp only [List.reverse_cons, List.flatten_append, List.flatten_cons, List.flatten_nil,
          List.append_nil]
        rw [List.drop_left]

/-- Witness of C38: the mesh with one tetrahedron after a mark on the node 0, the edge 0,
the face 0 and the tetrahedron 0, a rewrite of the edge 0 and a second mark on the node 0
alone, in the dimension of the nodes; `undo_all` returns on it. -/
theorem undo_stacks_balanced_witness :
    (undo_all second_mark_mesh).isSome ∧
    second_mark_mesh.mark_stack 0 = [1, 1] ∧
    (Booked second_mark_mesh 0 [[0], [0]] ∧
    (second_mark_mesh.mark_stack 0).sum = (second_mark_mesh.undo_stack 0).length ∧
    ∀ cnt rest, second_mark_mesh.mark_stack 0 = cnt :: rest →
      cnt ≤ (second_mark_mesh.undo_stack 0).length ∧
      rest.sum = (second_mark_mesh.undo_stack 0).length - cnt ∧
      ∃ S Q, [[0], [0]] = S :: Q ∧ S.length = cnt ∧
        ((second_mark_mesh.undo_stack 0).drop
          ((second_mark_mesh.undo_stack 0).length - cnt)).map (fun info => info.key) = S) :=
  ⟨by decide!, by decide!,
    undo_stacks_balanced
      (Marked.set_undo_mark ⟨[0], [], [], []⟩
        (Marked.edit
          (Marked.set_undo_mark undo_example_set
            (Marked.edit Marked.fresh
              (show ∀ d, d ≤ 3 → tetrahedron_mesh.undo_stack d = Mesh.empty.undo_stack d ∧
                  tetrahedron_mesh.mark_stack d = Mesh.empty.mark_stack d by decide!))
            (show set_undo_mark tetrahedron_mesh undo_example_set = some undo_example_marked
              by decide!))
          (show ∀ d, d ≤ 3 → first_mark_mesh.undo_stack d = undo_example_marked.undo_stack d ∧
              first_mark_mesh.mark_stack d = undo_example_marked.mark_stack d by decide!))
        (show set_undo_mark first_mark_mesh ⟨[0], [], [], []⟩ = some second_mark_mesh
          by decide!))
      0 (by decide)⟩

end ISMesh
namespace ISMesh

theorem tetrahedron_frame_on : TetrahedronOn tetrahedron_mesh 0 tetrahedron_frame := by
  decide!

theorem list_contains_iff {l : List Nat} {a : Nat} : l.contains a = true ↔ a ∈ l := by
  simp

theorem nodup3_iff {a b c : Nat} : [a, b, c].Nodup ↔ a ≠ b ∧ a ≠ c ∧ b ≠ c := by
  simp
  omega

theorem nodup4_iff {a b c d : Nat} :
    [a, b, c, d].Nodup ↔ a ≠ b ∧ a ≠ c ∧ a ≠ d ∧ b ≠ c ∧ b ≠ d ∧ c ≠ d := by
  simp
  omega

theorem Mesh.lookup_of_boundary_list {m : Mesh} {d k : Nat} {l : List Nat}
    (h : m.boundary_list d k = l) (hl : l ≠ []) :
    ∃ s, m.lookup_simplex d k = some s ∧ s.m_boundary = l := by
  unfold Mesh.boundary_list at h
  cases hs : m.lookup_simplex d k with
  | none => rw [hs] at h; exact absurd h.symm hl
  | some s => rw [hs] at h; exact ⟨s, rfl, h⟩

theorem EdgeOn.edge_live {m : Mesh} {e x y : Nat} (h : EdgeOn m e x y) :
    ∃ s, m.lookup_simplex 1 e = some s ∧ s.m_boundary = m.boundary_list 1 e := by
  unfold EdgeOn at h
  simp only [List.mem_cons, List.mem_singleton, List.not_mem_nil, or_false] at h
  rcases h with h | h <;>
  · obtain ⟨s, hs, hb⟩ := Mesh.lookup_of_boundary_list h (by simp)
    exact ⟨s, hs, by rw [hb, h]⟩

theorem EdgeOn.mem_nodes {m : Mesh} {e x y : Nat} (h : EdgeOn m e x y) (n : Nat) :
    n ∈ m.boundary_list 1 e ↔ n = x ∨ n = y := by
  unfold EdgeOn at h
  simp only [List.mem_cons, List.mem_singleton, List.not_mem_nil, or_false] at h
  rcases h with h | h <;> rw [h] <;> simp <;> omega

theorem FaceOn.face_live {m : Mesh} {f a b c : Nat} (h : FaceOn m f a b c) :
    ∃ s, m.lookup_simplex 2 f = some s ∧ s.m_boundary = m.boundary_list 2 f := by
  unfold FaceOn at h
  simp only [List.mem_cons, List.mem_singleton, List.not_mem_nil, or_false] at h
  rcases h with h | h | h | h | h | h <;>
  · obtain ⟨s, hs, hb⟩ := Mesh.lookup_of_boundary_list h (by simp)
    exact ⟨s, hs, by rw [hb, h]⟩

theorem FaceOn.mem_edges {m : Mesh} {f a b c : Nat} (h : FaceOn m f a b c) (e : Nat) :
    e ∈ m.boundary_list 2 f ↔ e = a ∨ e = b ∨ e = c := by
  unfold FaceOn at h
  simp only [List.mem_cons, List.mem_singleton, List.not_mem_nil, or_false] at h
  rcases h with h | h | h | h | h | h <;> rw [h] <;> simp <;> omega

/-- The two last edges of a triangle lie on its three nodes. -/
theorem TriangleOn.tail_nodes {m : Mesh} {f x y z exy exz eyz : Nat}
    (h : TriangleOn m f x y z exy exz eyz) (n : Nat) :
    (∃ e ∈ (m.boundary_list 2 f).tail, n ∈ m.boundary_list 1 e) ↔ n = x ∨ n = y ∨ n = z := by
  obtain ⟨-, h1, h2, h3, hf⟩ := h
  have m1 := h1.mem_nodes n
  have m2 := h2.mem_nodes n
  have m3 := h3.mem_nodes n
  unfold FaceOn at hf
  simp only [List.mem_cons, List.mem_singleton, List.not_mem_nil, or_false] at hf
  rcases hf with hf | hf | hf | hf | hf | hf <;> rw [hf] <;>
    simp only [List.tail_cons, List.mem_cons, List.mem_singleton, List.not_mem_nil, or_false,
      exists_eq_or_imp, exists_eq_left, m1, m2, m3] <;> omega

theorem TriangleOn.nodes {m : Mesh} {f x y z exy exz eyz : Nat}
    (h : TriangleOn m f x y z exy exz eyz) (n : Nat) :
    (∃ e ∈ m.boundary_list 2 f, n ∈ m.boundary_list 1 e) ↔ n = x ∨ n = y ∨ n = z := by
  obtain ⟨-, h1, h2, h3, hf⟩ := h
  have m1 := h1.mem_nodes n
  have m2 := h2.mem_nodes n
  have m3 := h3.mem_nodes n
  simp only [hf.mem_edges, exists_eq_or_imp, exists_eq_left, m1, m2, m3]
  omega

theorem TetrahedronOn.face0 {m : Mesh} {t : Nat} {F : TetFrame} (h : TetrahedronOn m t F) :
    TriangleOn m F.f0 F.v1 F.v2 F.v3 F.e12 F.e13 F.e23 := by
  obtain ⟨-, hn, -, -, -, h12, h13, h23, hf, -⟩ := h
  refine ⟨?_, h12, h13, h23, hf⟩
  rw [nodup4_iff] at hn
  rw [nodup3_iff]
  omega

theorem TetrahedronOn.face1 {m : Mesh} {t : Nat} {F : TetFrame} (h : TetrahedronOn m t F) :
    TriangleOn m F.f1 F.v0 F.v2 F.v3 F.e02 F.e03 F.e23 := by
  obtain ⟨-, hn, -, h02, h03, -, -, h23, -, hf, -⟩ := h
  refine ⟨?_, h02, h03, h23, hf⟩
  rw [nodup4_iff] at hn
  rw [nodup3_iff]
  omega

theorem TetrahedronOn.face2 {m : Mesh} {t : Nat} {F : TetFrame} (h : TetrahedronOn m t F) :
    TriangleOn m F.f2 F.v0 F.v1 F.v3 F.e01 F.e03 F.e13 := by
  obtain ⟨-, hn, h01, -, h03, -, h13, -, -, -, hf, -⟩ := h
  refine ⟨?_, h01, h03, h13, hf⟩
  rw [nodup4_iff] at hn
  rw [nodup3_iff]
  omega

theorem TetrahedronOn.face3 {m : Mesh} {t : Nat} {F : TetFrame} (h : TetrahedronOn m t F) :
    TriangleOn m F.f3 F.v0 F.v1 F.v2 F.e01 F.e02 F.e12 := by
  obtain ⟨-, hn, h01, h02, -, h12, -, -, -, -, -, hf⟩ := h
  refine ⟨?_, h01, h02, h12, hf⟩
  rw [nodup4_iff] at hn
  rw [nodup3_iff]
  omega

/-! ### The transitive boundary in terms of boundary lists -/

theorem InBoundary.gap_one {m : Mesh} {d k x : Nat} :
    InBoundary m (d + 1) k d x ↔ x ∈ m.boundary_list (d + 1) k := by
  rw [InBoundary.succ_iff]
  constructor
  · rintro ⟨s, hs, b, hb, h | h⟩
    · rw [Mesh.boundary_list_eq hs, h.2]; exact hb
    · exact absurd h.lt (by omega)
  · intro h
    unfold Mesh.boundary_list at h
    cases hs : m.lookup_simplex (d + 1) k with
    | none => rw [hs] at h; cases h
    | some s =>
      rw [hs] at h
      exact ⟨s, rfl, x, h, Or.inl ⟨rfl, rfl⟩⟩

theorem InBoundary.gap_more {m : Mesh} {d k d' x : Nat} (h : d' < d) :
    InBoundary m (d + 1) k d' x ↔ ∃ b ∈ m.boundary_list (d + 1) k, InBoundary m d b d' x := by
  rw [InBoundary.succ_iff]
  constructor
  · rintro ⟨s, hs, b, hb, h1 | h1⟩
    · omega
    · exact ⟨b, by rw [Mesh.boundary_list_eq hs]; exact hb, h1⟩
  · rintro ⟨b, hb, h1⟩
    unfold Mesh.boundary_list at hb
    cases hs : m.lookup_simplex (d + 1) k with
    | none => rw [hs] at hb; cases hb
    | some s =>
      rw [hs] at hb
      exact ⟨s, rfl, b, hb, Or.inr h1⟩

theorem TriangleOn.inBoundary_tri {m : Mesh} {f x y z exy exz eyz : Nat}
    (h : TriangleOn m f x y z exy exz eyz) (n : Nat) :
    InBoundary m 2 f 0 n ↔ n = x ∨ n = y ∨ n = z := by
  rw [InBoundary.gap_more (by omega), ← h.nodes n]
  simp only [InBoundary.gap_one]

theorem TetrahedronOn.inBoundary_faces {m : Mesh} {t : Nat} {F : TetFrame}
    (h : TetrahedronOn m t F) (f : Nat) :
    InBoundary m 3 t 2 f ↔ f = F.f0 ∨ f = F.f1 ∨ f = F.f2 ∨ f = F.f3 := by
  rw [InBoundary.gap_one, h.1]
  simp

theorem TetrahedronOn.inBoundary_edges {m : Mesh} {t : Nat} {F : TetFrame}
    (h : TetrahedronOn m t F) (e : Nat) :
    InBoundary m 3 t 1 e ↔
      e = F.e01 ∨ e = F.e02 ∨ e = F.e03 ∨ e = F.e12 ∨ e = F.e13 ∨ e = F.e23 := by
  rw [InBoundary.gap_more (by omega), h.1]
  simp only [InBoundary.gap_one, List.mem_cons, List.mem_singleton, List.not_mem_nil, or_false,
    exists_eq_or_imp, exists_eq_left, h.face0.2.2.2.2.mem_edges, h.face1.2.2.2.2.mem_edges,
    h.face2.2.2.2.2.mem_edges, h.face3.2.2.2.2.mem_edges]
  omega

theorem TetrahedronOn.inBoundary_tet {m : Mesh} {t : Nat} {F : TetFrame}
    (h : TetrahedronOn m t F) (n : Nat) :
    InBoundary m 3 t 0 n ↔ n = F.v0 ∨ n = F.v1 ∨ n = F.v2 ∨ n = F.v3 := by
  rw [InBoundary.gap_more (by omega), h.1]
  simp only [List.mem_cons, List.mem_singleton, List.not_mem_nil, or_false,
    exists_eq_or_imp, exists_eq_left, h.face0.inBoundary_tri, h.face1.inBoundary_tri,
    h.face2.inBoundary_tri, h.face3.inBoundary_tri]
  omega

/-! ### `in_boundary` on well-formed simplices -/

theorem in_boundary_gap_one {m : Mesh} {d s : Nat} {a : Simplex}
    (h : m.lookup_simplex (d + 1) s = some a) (f : Nat) :
    in_boundary m d f (d + 1) s = some (a.m_boundary.contains f) := by
  unfold in_boundary
  rw [if_neg (by omega)]
  simp only [bind, h, Option.some_bind, lt_self_iff_false, if_false, pure]

theorem in_boundary_gap_more {m : Mesh} {fd sd s : Nat} {a : Simplex} (hlt : fd < sd)
    (h : m.lookup_simplex (sd + 1) s = some a) (f : Nat) :
    in_boundary m fd f (sd + 1) s =
      first_true (fun b => in_boundary m fd f sd b) a.m_boundary.tail := by
  conv_lhs => unfold in_boundary
  rw [if_neg (by omega)]
  simp only [bind, h, Option.some_bind]
  rw [if_pos (by omega)]

theorem first_true_iff {g : Nat → Option Bool} :
    ∀ {l : List Nat}, (∀ x ∈ l, ∃ b, g x = some b) →
      ∃ r, first_true g l = some r ∧ (r = true ↔ ∃ x ∈ l, g x = some true) := by
  intro l
  induction l with
  | nil => intro _; exact ⟨false, rfl, by simp⟩
  | cons a l ih =>
    intro h
    obtain ⟨b, hb⟩ := h a (List.mem_cons_self _ _)
    unfold first_true
    rw [hb]
    cases b with
    | true => exact ⟨true, rfl, fun _ => ⟨a, List.mem_cons_self _ _, hb⟩, fun _ => rfl⟩
    | false =>
      obtain ⟨r, hr, hiff⟩ := ih (fun x hx => h x (List.mem_cons_of_mem _ hx))
      refine ⟨r, hr, hiff.trans ⟨?_, ?_⟩⟩
      · rintro ⟨x, hx, hg⟩
        exact ⟨x, List.mem_cons_of_mem _ hx, hg⟩
      · rintro ⟨x, hx, hg⟩
        rcases List.mem_cons.1 hx with rfl | hx
        · rw [hb] at hg; cases hg
        · exact ⟨x, hx, hg⟩

/-- On a live simplex, `in_boundary` for a key one dimension below looks the key up in the
boundary list. -/
theorem in_boundary_list {m : Mesh} {d s : Nat} {a : Simplex}
    (h : m.lookup_simplex (d + 1) s = some a) (f : Nat) :
    ∃ r, in_boundary m d f (d + 1) s = some r ∧ (r = true ↔ f ∈ m.boundary_list (d + 1) s) := by
  refine ⟨_, in_boundary_gap_one h f, ?_⟩
  rw [Mesh.boundary_list_eq h]
  simp

theorem TriangleOn.in_boundary_nodes {m : Mesh} {f x y z exy exz eyz : Nat}
    (h : TriangleOn m f x y z exy exz eyz) (n : Nat) :
    ∃ r, in_boundary m 0 n 2 f = some r ∧ (r = true ↔ n = x ∨ n = y ∨ n = z) := by
  obtain ⟨s, hs, hb⟩ := h.2.2.2.2.face_live
  have hedge : ∀ e ∈ s.m_boundary.tail, ∃ r, in_boundary m 0 n 1 e = some r ∧
      (r = true ↔ n ∈ m.boundary_list 1 e) := by
    intro e he
    have he' : e ∈ m.boundary_list 2 f := by rw [← hb]; exact List.mem_of_mem_tail he
    rw [h.2.2.2.2.mem_edges] at he'
    have hl : ∃ a, m.lookup_simplex 1 e = some a := by
      rcases he' with rfl | rfl | rfl
      · exact ⟨_, h.2.1.edge_live.choose_spec.1⟩
      · exact ⟨_, h.2.2.1.edge_live.choose_spec.1⟩
      · exact ⟨_, h.2.2.2.1.edge_live.choose_spec.1⟩
    obtain ⟨a, ha⟩ := hl
    exact in_boundary_list ha n
  obtain ⟨r, hr, hiff⟩ := first_true_iff (g := fun b => in_boundary m 0 n 1 b)
    (fun e he => ⟨_, (hedge e he).choose_spec.1⟩)
  refine ⟨r, by rw [in_boundary_gap_more (by omega) hs]; exact hr, ?_⟩
  rw [hiff, ← h.tail_nodes n, ← hb]
  constructor
  · rintro ⟨e, he, hg⟩
    obtain ⟨r', hr', hi'⟩ := hedge e he
    rw [hg] at hr'
    cases hr'
    exact ⟨e, he, hi'.1 rfl⟩
  · rintro ⟨e, he, hg⟩
    obtain ⟨r', hr', hi'⟩ := hedge e he
    have := hi'.2 hg
    subst this
    exact ⟨e, he, hr'⟩

/-- The traversal of `boundary` returns when the simplex and the simplices of dimension 1
and more of its transitive boundary are live. -/
theorem boundary_returns_of_live {m : Mesh} {sd s : Nat} (hsd : sd ≤ 3)
    (hs : (m.lookup_simplex sd s).isSome)
    (hlive : ∀ d x, 1 ≤ d → InBoundary m sd s d x → (m.lookup_simplex d x).isSome) :
    ∃ R, boundary m sd s SimplexSet.empty = some R ∧
      ∀ d, d ≤ 3 → ∀ x, x ∈ R.keys d ↔ InBoundary m sd s d x := by
  obtain ⟨R, hR⟩ := boundary_helper_returns m
    (fun d k => 1 ≤ d ∧ ((d = sd ∧ k = s) ∨ InBoundary m sd s d k))
    (by
      rintro d k ⟨h1, ⟨rfl, rfl⟩ | h⟩
      · exact hs
      · exact hlive d k h1 h)
    (by
      rintro d k a h2 _ ⟨_, h⟩ ha b hb
      obtain ⟨e, rfl⟩ : ∃ e, d = e + 1 := ⟨d - 1, by omega⟩
      refine ⟨by simp only [Nat.add_sub_cancel]; omega, Or.inr ?_⟩
      simp only [Nat.add_sub_cancel]
      rcases h with ⟨rfl, rfl⟩ | h
      · rw [InBoundary.gap_one, Mesh.boundary_list_eq ha]
        exact hb
      · exact h.step ha hb)
    sd hsd s SimplexSet.empty (fun h1 => ⟨h1, Or.inl ⟨rfl, rfl⟩⟩)
  refine ⟨R, hR, fun d hd x => ?_⟩
  rw [(boundary_helper_spec m sd hsd s _ R hR).1 d hd x, SimplexSet.keys_empty]
  simp

/-- C36: `in_boundary` agrees with `boundary`. For a well-formed live simplex `s` of
dimension 1, 2 or 3 (an edge with two distinct nodes, a face whose three edges form a
triangle, a tetrahedron whose four faces form a tetrahedron) and a key `f` of a lower
dimension, `in_boundary(f, s)` and `boundary(s)` into an empty set both return, and
`in_boundary` answers `true` if and only if `f` is in the set that `boundary` computes. -/
theorem in_boundary_agrees (m : Mesh) (sd s fd f : Nat) (hwf : WellFormed m sd s)
    (hfd : fd < sd) :
    ∃ r R, in_boundary m fd f sd s = some r ∧ boundary m sd s SimplexSet.empty = some R ∧
      (r = true ↔ f ∈ R.keys fd) := by
  have key : ∀ (hsd : sd ≤ 3) (a : Simplex), m.lookup_simplex sd s = some a →
      (∀ d x, 1 ≤ d → InBoundary m sd s d x → (m.lookup_simplex d x).isSome) →
      (∃ r, in_boundary m fd f sd s = some r ∧ (r = true ↔ InBoundary m sd s fd f)) →
      ∃ r R, in_boundary m fd f sd s = some r ∧ boundary m sd s SimplexSet.empty = some R ∧
        (r = true ↔ f ∈ R.keys fd) := by
    rintro hsd a ha hlive ⟨r, hr, hiff⟩
    obtain ⟨R, hR, hmem⟩ := boundary_returns_of_live hsd (by rw [ha]; rfl) hlive
    exact ⟨r, R, hr, hR, by rw [hmem fd (by omega) f]; exact hiff⟩
  have some_live : ∀ {d k : Nat} {a : Simplex}, m.lookup_simplex d k = some a →
      (m.lookup_simplex d k).isSome := fun h => by rw [h]; rfl
  rcases sd with _ | _ | _ | _ | sd
  · omega
  · -- an edge
    obtain ⟨x, y, -, he⟩ := hwf
    obtain ⟨a, ha, -⟩ := he.edge_live
    obtain rfl : fd = 0 := by omega
    refine key (by omega) a ha (fun d x h1 hx => absurd hx.lt (by omega)) ?_
    obtain ⟨r, hr, hiff⟩ := in_boundary_list ha f
    exact ⟨r, hr, by rw [InBoundary.gap_one]; exact hiff⟩
  · -- a face
    obtain ⟨x, y, z, exy, exz, eyz, ht⟩ := hwf
    obtain ⟨a, ha, -⟩ := ht.2.2.2.2.face_live
    refine key (by omega) a ha ?_ ?_
    · intro d e h1 he
      obtain rfl : d = 1 := by have := he.lt; omega
      rw [InBoundary.gap_one, ht.2.2.2.2.mem_edges] at he
      rcases he with rfl | rfl | rfl
      · exact some_live ht.2.1.edge_live.choose_spec.1
      · exact some_live ht.2.2.1.edge_live.choose_spec.1
      · exact some_live ht.2.2.2.1.edge_live.choose_spec.1
    · rcases fd with _ | _ | fd
      · obtain ⟨r, hr, hiff⟩ := ht.in_boundary_nodes f
        exact ⟨r, hr, by rw [ht.inBoundary_tri]; exact hiff⟩
      · obtain ⟨r, hr, hiff⟩ := in_boundary_list ha f
        exact ⟨r, hr, by rw [InBoundary.gap_one]; exact hiff⟩
      · omega
  · -- a tetrahedron
    obtain ⟨F, ht⟩ := hwf
    obtain ⟨a, ha, hb⟩ := Mesh.lookup_of_boundary_list ht.1 (by simp)
    have l0 := ht.face0.2.2.2.2.face_live
    have l1 := ht.face1.2.2.2.2.face_live
    have l2 := ht.face2.2.2.2.2.face_live
    have l3 := ht.face3.2.2.2.2.face_live
    refine key (by omega) a ha ?_ ?_
    · intro d x h1 hx
      have hlt := hx.lt
      have hd : d = 1 ∨ d = 2 := by omega
      rcases hd with rfl | rfl
      · rw [ht.inBoundary_edges] at hx
        obtain ⟨-, -, h01, h02, h03, h12, h13, h23, -⟩ := ht
        rcases hx with rfl | rfl | rfl | rfl | rfl | rfl
        · exact some_live h01.edge_live.choose_spec.1
        · exact some_live h02.edge_live.choose_spec.1
        · exact some_live h03.edge_live.choose_spec.1
        · exact some_live h12.edge_live.choose_spec.1
        · exact some_live h13.edge_live.choose_spec.1
        · exact some_live h23.edge_live.choose_spec.1
      · rw [ht.inBoundary_faces] at hx
        rcases hx with rfl | rfl | rfl | rfl
        · exact some_live l0.choose_spec.1
        · exact some_live l1.choose_spec.1
        · exact some_live l2.choose_spec.1
        · exact some_live l3.choose_spec.1
    · have htail : a.m_boundary.tail = [F.f1, F.f2, F.f3] := by rw [hb]; rfl
      rcases fd with _ | _ | _ | fd
      · -- a node
        have hg : ∀ x ∈ [F.f1, F.f2, F.f3], ∃ b, in_boundary m 0 f 2 x = some b := by
          intro x hx
          simp only [List.mem_cons, List.mem_singleton, List.not_mem_nil, or_false] at hx
          rcases hx with rfl | rfl | rfl
          · exact ⟨_, (ht.face1.in_boundary_nodes f).choose_spec.1⟩
          · exact ⟨_, (ht.face2.in_boundary_nodes f).choose_spec.1⟩
          · exact ⟨_, (ht.face3.in_boundary_nodes f).choose_spec.1⟩
        obtain ⟨r, hr, hiff⟩ := first_true_iff (g := fun b => in_boundary m 0 f 2 b) hg
        refine ⟨r, by rw [in_boundary_gap_more (by omega) ha, htail]; exact hr, ?_⟩
        obtain ⟨r1, e1, i1⟩ := ht.face1.in_boundary_nodes f
        obtain ⟨r2, e2, i2⟩ := ht.face2.in_boundary_nodes f
        obtain ⟨r3, e3, i3⟩ := ht.face3.in_boundary_nodes f
        rw [hiff, ht.inBoundary_tet]
        simp only [List.mem_cons, List.mem_singleton, List.not_mem_nil, or_false,
          exists_eq_or_imp, exists_eq_left, e1, e2, e3, Option.some.injEq, i1, i2, i3]
        omega
      · -- an edge
        have e1 := in_boundary_gap_one l1.choose_spec.1 f
        have e2 := in_boundary_gap_one l2.choose_spec.1 f
        have e3 := in_boundary_gap_one l3.choose_spec.1 f
        have hg : ∀ x ∈ [F.f1, F.f2, F.f3], ∃ b, in_boundary m 1 f 2 x = some b := by
          intro x hx
          simp only [List.mem_cons, List.mem_singleton, List.not_mem_nil, or_false] at hx
          rcases hx with rfl | rfl | rfl
          · exact ⟨_, e1⟩
          · exact ⟨_, e2⟩
          · exact ⟨_, e3⟩
        obtain ⟨r, hr, hiff⟩ := first_true_iff (g := fun b => in_boundary m 1 f 2 b) hg
        refine ⟨r, by rw [in_boundary_gap_more (by omega) ha, htail]; exact hr, ?_⟩
        have m1 := ht.face1.2.2.2.2.mem_edges f
        have m2 := ht.face2.2.2.2.2.mem_edges f
        have m3 := ht.face3.2.2.2.2.mem_edges f
        rw [← l1.choose_spec.2] at m1
        rw [← l2.choose_spec.2] at m2
        rw [← l3.choose_spec.2] at m3
        rw [hiff, ht.inBoundary_edges]
        simp only [List.mem_cons, List.mem_singleton, List.not_mem_nil, or_false,
          exists_eq_or_imp, exists_eq_left, e1, e2, e3, Option.some.injEq,
          list_contains_iff, m1, m2, m3]
        omega
      · -- a face
        obtain ⟨r, hr, hiff⟩ := in_boundary_list ha f
        exact ⟨r, hr, by rw [InBoundary.gap_one]; exact hiff⟩
      · omega
  · exact absurd hwf (by simp [WellFormed])

/-- Witness of C36: the edge 3 and the tetrahedron of the mesh with one tetrahedron; of the
four faces only the first of the boundary list and the last hold the edge. -/
theorem in_boundary_agrees_witness :
    in_boundary tetrahedron_mesh 1 3 3 0 = some true ∧
    ∃ r R, in_boundary tetrahedron_mesh 1 3 3 0 = some r ∧
      boundary tetrahedron_mesh 3 0 SimplexSet.empty = some R ∧ (r = true ↔ 3 ∈ R.keys 1) :=
  ⟨by decide!,
    in_boundary_agrees tetrahedron_mesh 3 0 1 3 ⟨tetrahedron_frame, by decide!⟩ (by decide)⟩

end ISMesh
namespace ISMesh

theorem vertices_edge_pair {m : Mesh} {e : Nat} {s : Simplex} {x y : Nat}
    (hs : m.lookup_simplex 1 e = some s) (hb : s.m_boundary = [x, y]) (g0 g1 : Nat) :
    vertices_edge m e [g0, g1] = some [y, x] := by
  unfold vertices_edge
  simp only [bind, hs, Option.some_bind, hb, List.foldlM_cons, List.foldlM_nil]
  simp

theorem vertices_face_core {m : Mesh} {f : Nat} {s s0 s1 : Simplex}
    {e0 e1 e2 x0 y0 x1 y1 : Nat}
    (hs : m.lookup_simplex 2 f = some s) (hb : s.m_boundary = [e0, e1, e2])
    (h0 : m.lookup_simplex 1 e0 = some s0) (hb0 : s0.m_boundary = [x0, y0])
    (h1 : m.lookup_simplex 1 e1 = some s1) (hb1 : s1.m_boundary = [x1, y1])
    (g0 g1 g2 : Nat) :
    vertices_face m f [g0, g1, g2] =
      some [if y1 = x0 ∨ y1 = y0 then x1 else y1, if x0 = y1 ∨ x0 = x1 then y0 else x0,
        if x0 = y1 ∨ x0 = x1 then x0 else y0] := by
  unfold vertices_face
  simp only [bind, hs, Option.some_bind, hb, List.length_cons, List.length_nil,
    List.getElem?_cons_zero, List.getElem?_cons_succ, vertices_edge_pair h0 hb0,
    vertices_edge_pair h1 hb1, List.set_cons_succ, List.set_cons_zero, pure]
  rw [if_neg (by omega)]
  split_ifs <;> rfl

theorem EdgeOn.symm {m : Mesh} {e x y : Nat} (h : EdgeOn m e x y) : EdgeOn m e y x := by
  unfold EdgeOn at h ⊢
  simp only [List.mem_cons, List.mem_singleton, List.not_mem_nil, or_false] at h ⊢
  exact h.symm

/-- The vertices of a face whose first edge joins `b` and `c` and whose second edge joins
`a` and `c`. -/
theorem vertices_face_ordered {m : Mesh} {f e0 e1 e2 a b c : Nat}
    (hf : m.boundary_list 2 f = [e0, e1, e2]) (h0 : EdgeOn m e0 b c) (h1 : EdgeOn m e1 a c)
    (hab : a ≠ b) (hac : a ≠ c) (hbc : b ≠ c) (g0 g1 g2 : Nat) :
    vertices_face m f [g0, g1, g2] = some [a, b, c] := by
  obtain ⟨s, hs, hb⟩ := Mesh.lookup_of_boundary_list hf (by simp)
  unfold EdgeOn at h0 h1
  simp only [List.mem_cons, List.mem_singleton, List.not_mem_nil, or_false] at h0 h1
  rcases h0 with h0 | h0 <;> rcases h1 with h1 | h1 <;>
  · obtain ⟨s0, hs0, hb0⟩ := Mesh.lookup_of_boundary_list h0 (by simp)
    obtain ⟨s1, hs1, hb1⟩ := Mesh.lookup_of_boundary_list h1 (by simp)
    rw [vertices_face_core hs hb hs0 hb0 hs1 hb1]
    simp [hab, hac, hbc, hab.symm, hac.symm, hbc.symm]

/-- The vertices of a triangle: the entry `i` of the result is the node that is not on the
edge `i` of the boundary list. -/
theorem TriangleOn.vertices_tri {m : Mesh} {f x y z exy exz eyz : Nat}
    (h : TriangleOn m f x y z exy exz eyz) (g0 g1 g2 : Nat) :
    ∃ n0 n1 n2 e0 e1 e2, vertices_face m f [g0, g1, g2] = some [n0, n1, n2] ∧
      m.boundary_list 2 f = [e0, e1, e2] ∧
      [n0, n1, n2] ∈ [[x, y, z], [x, z, y], [y, x, z], [y, z, x], [z, x, y], [z, y, x]] ∧
      n0 ∉ m.boundary_list 1 e0 ∧ n1 ∉ m.boundary_list 1 e1 ∧ n2 ∉ m.boundary_list 1 e2 := by
  obtain ⟨hn, h1, h2, h3, hf⟩ := h
  rw [nodup3_iff] at hn
  obtain ⟨hxy, hxz, hyz⟩ := hn
  have m1 := h1.mem_nodes
  have m2 := h2.mem_nodes
  have m3 := h3.mem_nodes
  unfold FaceOn at hf
  simp only [List.mem_cons, List.mem_singleton, List.not_mem_nil, or_false] at hf
  rcases hf with hf | hf | hf | hf | hf | hf
  · exact ⟨z, y, x, _, _, _, vertices_face_ordered hf h1.symm h2.symm hyz.symm hxz.symm
      hxy.symm _ _ _, hf, by simp, by rw [m1]; omega, by rw [m2]; omega, by rw [m3]; omega⟩
  · exact ⟨z, x, y, _, _, _, vertices_face_ordered hf h1 h3.symm hxz.symm hyz.symm hxy _ _ _,
      hf, by simp, by rw [m1]; omega, by rw [m3]; omega, by rw [m2]; omega⟩
  · exact ⟨y, z, x, _, _, _, vertices_face_ordered hf h2.symm h1.symm hyz hxy.symm hxz.symm
      _ _ _, hf, by simp, by rw [m2]; omega, by rw [m1]; omega, by rw [m3]; omega⟩
  · exact ⟨y, x, z, _, _, _, vertices_face_ordered hf h2 h3 hxy.symm hyz hxz _ _ _,
      hf, by simp, by rw [m2]; omega, by rw [m3]; omega, by rw [m1]; omega⟩
  · exact ⟨x, z, y, _, _, _, vertices_face_ordered hf h3.symm h1 hxz hxy hyz.symm _ _ _,
      hf, by simp, by rw [m3]; omega, by rw [m1]; omega, by rw [m2]; omega⟩
  · exact ⟨x, y, z, _, _, _, vertices_face_ordered hf h3 h2 hxy hxz hyz _ _ _,
      hf, by simp, by rw [m3]; omega, by rw [m2]; omega, by rw [m1]; omega⟩

theorem last_where_three (p : Nat → Bool) (init : Int) :
    last_where p 3 init = if p 2 then 2 else if p 1 then 1 else if p 0 then 0 else init := rfl

theorem last_where_four (p : Nat → Bool) (init : Int) :
    last_where p 4 init =
      if p 3 then 3 else if p 2 then 2 else if p 1 then 1 else if p 0 then 0 else init := rfl

theorem vertices_second_face_spec (v0 v1 v2 v3 g0 : Nat) (hn : [v0, v1, v2, v3].Nodup)
    (p q : List Nat)
    (hp : p ∈ [[v1, v2, v3], [v1, v3, v2], [v2, v1, v3], [v2, v3, v1], [v3, v1, v2],
      [v3, v2, v1]])
    (hq : q ∈ [[v0, v2, v3], [v0, v3, v2], [v2, v0, v3], [v2, v3, v0], [v3, v0, v2],
      [v3, v2, v0]]) :
    ∃ r, vertices_second_face (g0 :: p) q = some r ∧
      r.1 ∈ [[v0, v1, v2, v3], [v0, v1, v3, v2]] := by
  rw [nodup4_iff] at hn
  obtain ⟨h01, h02, h03, h12, h13, h23⟩ := hn
  simp only [List.mem_cons, List.mem_singleton, List.not_mem_nil, or_false] at hp hq
  rcases hp with rfl | rfl | rfl | rfl | rfl | rfl <;>
    rcases hq with rfl | rfl | rfl | rfl | rfl | rfl <;>
    simp [vertices_second_face, last_where_three, last_where_four, h01, h02, h03, h12, h13,
      h23, h01.symm, h02.symm, h03.symm, h12.symm, h13.symm, h23.symm]

theorem vertices_third_face_spec (v0 v1 v2 v3 : Nat) (hn : [v0, v1, v2, v3].Nodup)
    (p q : List Nat) (k1 : Int) (hp : p ∈ [[v0, v1, v2, v3], [v0, v1, v3, v2]])
    (hq : q ∈ [[v0, v1, v3], [v0, v3, v1], [v1, v0, v3], [v1, v3, v0], [v3, v0, v1],
      [v3, v1, v0]]) :
    vertices_third_face p q k1 = [v0, v1, v2, v3] := by
  rw [nodup4_iff] at hn
  obtain ⟨h01, h02, h03, h12, h13, h23⟩ := hn
  simp only [List.mem_cons, List.mem_singleton, List.not_mem_nil, or_false] at hp hq
  rcases hp with rfl | rfl <;>
    rcases hq with rfl | rfl | rfl | rfl | rfl | rfl <;>
    simp [vertices_third_face, last_where_four, h01, h02, h03, h12, h13,
      h23, h01.symm, h02.symm, h03.symm, h12.symm, h13.symm, h23.symm]

theorem TetrahedronOn.vertices_tet {m : Mesh} {t : Nat} {F : TetFrame} (h : TetrahedronOn m t F)
    (g0 g1 g2 g3 : Nat) :
    vertices_tetrahedron m t [g0, g1, g2, g3] = some [F.v0, F.v1, F.v2, F.v3] := by
  obtain ⟨s, hs, hb⟩ := Mesh.lookup_of_boundary_list h.1 (by simp)
  obtain ⟨a0, a1, a2, -, -, -, ha, -, hpa, -⟩ :=
    h.face0.vertices_tri undefined_key undefined_key undefined_key
  obtain ⟨b0, b1, b2, -, -, -, hb', -, hpb, -⟩ := h.face1.vertices_tri a0 a1 a2
  obtain ⟨c0, c1, c2, -, -, -, hc, -, hpc, -⟩ := h.face2.vertices_tri b0 b1 b2
  obtain ⟨r, hr, hpr⟩ := vertices_second_face_spec F.v0 F.v1 F.v2 F.v3 g0 h.2.1 _ _ hpa hpb
  have h3 := vertices_third_face_spec F.v0 F.v1 F.v2 F.v3 h.2.1 r.1 [c0, c1, c2] r.2 hpr hpc
  unfold vertices_tetrahedron
  simp only [bind, hs, Option.some_bind, hb, List.length_cons, List.length_nil,
    List.getElem?_cons_zero, List.getElem?_cons_succ, ha, hb', hc, List.set_cons_succ,
    List.set_cons_zero, List.getD_cons_zero, List.getD_cons_succ, hr, pure, h3]
  rw [if_neg (by omega)]

/-- C37: `vertices` lists the opposite vertices in boundary order. For an edge with the
boundary list `[x, y]` the result is `[y, x]`. For a face whose three edges form a triangle
the result holds the three nodes of the face, each once, and its entry `i` is not on the
edge `i` of the boundary list of the face. For a tetrahedron whose four faces form a
tetrahedron the result holds the four nodes of the tetrahedron, each once, and its entry
`i` is not on the face `i` of the boundary list of the tetrahedron. -/
theorem vertices_opposite (m : Mesh) :
    (∀ e x y g0 g1, m.boundary_list 1 e = [x, y] → vertices_edge m e [g0, g1] = some [y, x]) ∧
    (∀ f x y z exy exz eyz g0 g1 g2, TriangleOn m f x y z exy exz eyz →
      ∃ n0 n1 n2 e0 e1 e2, vertices_face m f [g0, g1, g2] = some [n0, n1, n2] ∧
        m.boundary_list 2 f = [e0, e1, e2] ∧ [n0, n1, n2].Nodup ∧
        (∀ n, n ∈ [n0, n1, n2] ↔ InBoundary m 2 f 0 n) ∧
        n0 ∉ m.boundary_list 1 e0 ∧ n1 ∉ m.boundary_list 1 e1 ∧
        n2 ∉ m.boundary_list 1 e2) ∧
    (∀ t F g0 g1 g2 g3, TetrahedronOn m t F →
      vertices_tetrahedron m t [g0, g1, g2, g3] = some [F.v0, F.v1, F.v2, F.v3] ∧
        m.boundary_list 3 t = [F.f0, F.f1, F.f2, F.f3] ∧ [F.v0, F.v1, F.v2, F.v3].Nodup ∧
        (∀ n, n ∈ [F.v0, F.v1, F.v2, F.v3] ↔ InBoundary m 3 t 0 n) ∧
        ¬ InBoundary m 2 F.f0 0 F.v0 ∧ ¬ InBoundary m 2 F.f1 0 F.v1 ∧
        ¬ InBoundary m 2 F.f2 0 F.v2 ∧ ¬ InBoundary m 2 F.f3 0 F.v3) := by
  refine ⟨?_, ?_, ?_⟩
  · intro e x y g0 g1 he
    obtain ⟨s, hs, hb⟩ := Mesh.lookup_of_boundary_list he (by simp)
    exact vertices_edge_pair hs hb g0 g1
  · intro f x y z exy exz eyz g0 g1 g2 h
    obtain ⟨n0, n1, n2, e0, e1, e2, hv, hf, hp, o0, o1, o2⟩ := h.vertices_tri g0 g1 g2
    have hn := h.1
    rw [nodup3_iff] at hn
    refine ⟨n0, n1, n2, e0, e1, e2, hv, hf, ?_, ?_, o0, o1, o2⟩
    · simp only [List.mem_cons, List.mem_singleton, List.not_mem_nil, or_false,
        List.cons.injEq, and_true] at hp
      rw [nodup3_iff]
      omega
    · intro n
      rw [h.inBoundary_tri]
      simp only [List.mem_cons, List.mem_singleton, List.not_mem_nil, or_false,
        List.cons.injEq, and_true] at hp ⊢
      omega
  · intro t F g0 g1 g2 g3 h
    have hn := h.2.1
    rw [nodup4_iff] at hn
    refine ⟨h.vertices_tet g0 g1 g2 g3, h.1, h.2.1, ?_, ?_, ?_, ?_, ?_⟩
    · intro n
      rw [h.inBoundary_tet]
      simp
    · rw [h.face0.inBoundary_tri]; omega
    · rw [h.face1.inBoundary_tri]; omega
    · rw [h.face2.inBoundary_tri]; omega
    · rw [h.face3.inBoundary_tri]; omega

/-- Witness of C37: the tetrahedron of the mesh with one tetrahedron. -/
theorem vertices_opposite_witness :
    TetrahedronOn tetrahedron_mesh 0 tetrahedron_frame ∧
    vertices_tetrahedron tetrahedron_mesh 0 [7, 7, 7, 7] = some [3, 2, 1, 0] ∧
    tetrahedron_mesh.boundary_list 3 0 = [0, 1, 2, 3] ∧
    ¬ InBoundary tetrahedron_mesh 2 0 0 3 :=
  have h := (vertices_opposite tetrahedron_mesh).2.2 0 tetrahedron_frame 7 7 7 7
    tetrahedron_frame_on
  ⟨tetrahedron_frame_on, h.1, h.2.1, h.2.2.2.2.1⟩

end ISMesh
namespace ISMesh

theorem map_get_map_set_same (k v : Nat) (mp : List (Nat × Nat)) :
    map_get k (map_set k v mp) = v := by
  induction mp with
  | nil => simp [map_set, map_get]
  | cons x mp ih =>
    unfold map_set
    by_cases h1 : k < x.1
    · rw [if_pos h1]; simp [map_get]
    · rw [if_neg h1]
      by_cases h2 : k = x.1
      · rw [if_pos h2]; simp [map_get]
      · rw [if_neg h2]
        unfold map_get at ih ⊢
        rw [List.find?_cons_of_neg _ (by simpa using fun h => h2 h.symm)]
        exact ih

theorem map_get_map_set_ne {k k' : Nat} (h : k ≠ k') (v : Nat) (mp : List (Nat × Nat)) :
    map_get k (map_set k' v mp) = map_get k mp := by
  induction mp with
  | nil => simp [map_set, map_get, h.symm]
  | cons x mp ih =>
    unfold map_set
    by_cases h1 : k' < x.1
    · rw [if_pos h1]
      unfold map_get
      rw [List.find?_cons_of_neg _ (by simpa using h.symm)]
    · rw [if_neg h1]
      by_cases h2 : k' = x.1
      · rw [if_pos h2]
        unfold map_get
        rw [List.find?_cons_of_neg _ (by simpa using h.symm),
          List.find?_cons_of_neg _ (by simpa using fun hx => h (hx.symm.trans h2.symm))]
      · rw [if_neg h2]
        unfold map_get at ih ⊢
        by_cases h3 : x.1 = k
        · rw [List.find?_cons_of_pos _ (by simpa using h3),
            List.find?_cons_of_pos _ (by simpa using h3)]
        · rw [List.find?_cons_of_neg _ (by simpa using h3),
            List.find?_cons_of_neg _ (by simpa using h3)]
          exact ih

theorem EdgeOn.ne_of {m : Mesh} {e e' a b c d : Nat} (h : EdgeOn m e a b)
    (h' : EdgeOn m e' c d) (hne : ¬ ((a = c ∧ b = d) ∨ (a = d ∧ b = c))) : e ≠ e' := by
  rintro rfl
  have m1 := (h.mem_nodes a).symm.trans (h'.mem_nodes a)
  have m2 := (h.mem_nodes b).symm.trans (h'.mem_nodes b)
  have m3 := ((h.mem_nodes c).symm.trans (h'.mem_nodes c)).2 (Or.inl rfl)
  have m4 := ((h.mem_nodes d).symm.trans (h'.mem_nodes d)).2 (Or.inr rfl)
  replace m1 := m1.1 (Or.inl rfl)
  replace m2 := m2.1 (Or.inr rfl)
  clear h h'
  omega

/-- The six edges of a well-formed tetrahedron are distinct. -/
theorem TetrahedronOn.edges_ne {m : Mesh} {t : Nat} {F : TetFrame} (h : TetrahedronOn m t F) :
    F.e01 ≠ F.e02 ∧ F.e01 ≠ F.e03 ∧ F.e01 ≠ F.e12 ∧ F.e01 ≠ F.e13 ∧ F.e01 ≠ F.e23 ∧
    F.e02 ≠ F.e03 ∧ F.e02 ≠ F.e12 ∧ F.e02 ≠ F.e13 ∧ F.e02 ≠ F.e23 ∧
    F.e03 ≠ F.e12 ∧ F.e03 ≠ F.e13 ∧ F.e03 ≠ F.e23 ∧
    F.e12 ≠ F.e13 ∧ F.e12 ≠ F.e23 ∧ F.e13 ≠ F.e23 := by
  obtain ⟨-, hn, h01, h02, h03, h12, h13, h23, -⟩ := h
  rw [nodup4_iff] at hn
  refine ⟨h01.ne_of h02 ?_, h01.ne_of h03 ?_, h01.ne_of h12 ?_, h01.ne_of h13 ?_,
    h01.ne_of h23 ?_, h02.ne_of h03 ?_, h02.ne_of h12 ?_, h02.ne_of h13 ?_, h02.ne_of h23 ?_,
    h03.ne_of h12 ?_, h03.ne_of h13 ?_, h03.ne_of h23 ?_, h12.ne_of h13 ?_, h12.ne_of h23 ?_,
    h13.ne_of h23 ?_⟩ <;> omega

/-- The four faces of a well-formed tetrahedron are distinct. -/
theorem TetrahedronOn.faces_nodup {m : Mesh} {t : Nat} {F : TetFrame}
    (h : TetrahedronOn m t F) : [F.f0, F.f1, F.f2, F.f3].Nodup := by
  obtain ⟨n1, n2, n3, n4, n5, n6, n7, n8, n9, n10, n11, n12, n13, n14, n15⟩ := h.edges_ne
  have m0 := h.face0.2.2.2.2.mem_edges
  have m1 := h.face1.2.2.2.2.mem_edges
  have m2 := h.face2.2.2.2.2.mem_edges
  have m3 := h.face3.2.2.2.2.mem_edges
  clear h
  rw [nodup4_iff]
  refine ⟨?_, ?_, ?_, ?_, ?_, ?_⟩ <;> intro heq
  · rcases ((m0 F.e12).symm.trans (heq ▸ m1 F.e12)).1 (Or.inl rfl) with h | h | h <;>
      first | exact absurd h (by assumption) | exact absurd h.symm (by assumption)
  · rcases ((m0 F.e12).symm.trans (heq ▸ m2 F.e12)).1 (Or.inl rfl) with h | h | h <;>
      first | exact absurd h (by assumption) | exact absurd h.symm (by assumption)
  · rcases ((m0 F.e13).symm.trans (heq ▸ m3 F.e13)).1 (Or.inr (Or.inl rfl)) with h | h | h <;>
      first | exact absurd h (by assumption) | exact absurd h.symm (by assumption)
  · rcases ((m1 F.e02).symm.trans (heq ▸ m2 F.e02)).1 (Or.inl rfl) with h | h | h <;>
      first | exact absurd h (by assumption) | exact absurd h.symm (by assumption)
  · rcases ((m1 F.e03).symm.trans (heq ▸ m3 F.e03)).1 (Or.inr (Or.inl rfl)) with h | h | h <;>
      first | exact absurd h (by assumption) | exact absurd h.symm (by assumption)
  · rcases ((m2 F.e03).symm.trans (heq ▸ m3 F.e03)).1 (Or.inr (Or.inl rfl)) with h | h | h <;>
      first | exact absurd h (by assumption) | exact absurd h.symm (by assumption)

theorem get_intersection_sibling {m : Mesh} {sk c e : Nat} (hne : sk ≠ c)
    (h1 : e ∈ m.boundary_list 2 sk) (h2 : e ∈ m.boundary_list 2 c)
    (hu : ∀ x, x ∈ m.boundary_list 2 sk → x ∈ m.boundary_list 2 c → x = e) :
    get_intersection m 2 sk c = some (some e) := by
  obtain ⟨sa, hsa, hba⟩ := Mesh.lookup_of_boundary_list (rfl : m.boundary_list 2 sk = _)
    (List.ne_nil_of_mem h1)
  obtain ⟨sb, hsb, hbb⟩ := Mesh.lookup_of_boundary_list (rfl : m.boundary_list 2 c = _)
    (List.ne_nil_of_mem h2)
  unfold get_intersection
  rw [if_neg hne, if_neg (by omega)]
  simp only [bind, hsa, hsb, Option.some_bind, pure, Option.some.injEq]
  cases hfind : sa.m_boundary.find? (fun b => sb.m_boundary.contains b) with
  | none =>
    rw [List.find?_eq_none] at hfind
    exact absurd (by rw [hbb]; simpa using h2) (hfind e (by rw [hba]; exact h1))
  | some y =>
    have hy1 := List.mem_of_find?_eq_some hfind
    have hy2 := List.find?_some hfind
    rw [hu y (by rw [← hba]; exact hy1) (by rw [← hbb]; simpa using hy2)]

/-- The edges that `get_intersection` finds for the pairs of faces of a well-formed
tetrahedron. -/
theorem TetrahedronOn.intersections {m : Mesh} {t : Nat} {F : TetFrame}
    (h : TetrahedronOn m t F) :
    get_intersection m 2 F.f0 F.f1 = some (some F.e23) ∧
    get_intersection m 2 F.f0 F.f2 = some (some F.e13) ∧
    get_intersection m 2 F.f0 F.f3 = some (some F.e12) ∧
    get_intersection m 2 F.f1 F.f0 = some (some F.e23) ∧
    get_intersection m 2 F.f1 F.f2 = some (some F.e03) ∧
    get_intersection m 2 F.f1 F.f3 = some (some F.e02) ∧
    get_intersection m 2 F.f2 F.f0 = some (some F.e13) ∧
    get_intersection m 2 F.f2 F.f1 = some (some F.e03) ∧
    get_intersection m 2 F.f2 F.f3 = some (some F.e01) ∧
    get_intersection m 2 F.f3 F.f0 = some (some F.e12) ∧
    get_intersection m 2 F.f3 F.f1 = some (some F.e02) ∧
    get_intersection m 2 F.f3 F.f2 = some (some F.e01) := by
  obtain ⟨n1, n2, n3, n4, n5, n6, n7, n8, n9, n10, n11, n12, n13, n14, n15⟩ := h.edges_ne
  have hf := h.faces_nodup
  rw [nodup4_iff] at hf
  obtain ⟨f01, f02, f03, f12, f13, f23⟩ := hf
  have m0 := h.face0.2.2.2.2.mem_edges
  have m1 := h.face1.2.2.2.2.mem_edges
  have m2 := h.face2.2.2.2.2.mem_edges
  have m3 := h.face3.2.2.2.2.mem_edges
  clear h
  refine ⟨?_, ?_, ?_, ?_, ?_, ?_, ?_, ?_, ?_, ?_, ?_, ?_⟩
  · refine get_intersection_sibling f01 (by rw [m0]; simp) (by rw [m1]; simp) (fun x => ?_)
    rw [m0, m1]
    rintro (rfl | rfl | rfl) (h | h | h) <;>
      first | rfl | exact h | exact absurd h (by assumption) |
        exact absurd h.symm (by assumption)
  · refine get_intersection_sibling f02 (by rw [m0]; simp) (by rw [m2]; simp) (fun x => ?_)
    rw [m0, m2]
    rintro (rfl | rfl | rfl) (h | h | h) <;>
      first | rfl | exact h | exact absurd h (by assumption) |
        exact absurd h.symm (by assumption)
  · refine get_intersection_sibling f03 (by rw [m0]; simp) (by rw [m3]; simp) (fun x => ?_)
    rw [m0, m3]
    rintro (rfl | rfl | rfl) (h | h | h) <;>
      first | rfl | exact h | exact absurd h (by assumption) |
        exact absurd h.symm (by assumption)
  · refine get_intersection_sibling f01.symm (by rw [m1]; simp) (by rw [m0]; simp) (fun x => ?_)
    rw [m1, m0]
    rintro (rfl | rfl | rfl) (h | h | h) <;>
      first | rfl | exact h | exact absurd h (by assumption) |
        exact absurd h.symm (by assumption)
  · refine get_intersection_sibling f12 (by rw [m1]; simp) (by rw [m2]; simp) (fun x => ?_)
    rw [m1, m2]
    rintro (rfl | rfl | rfl) (h | h | h) <;>
      first | rfl | exact h | exact absurd h (by assumption) |
        exact absurd h.symm (by assumption)
  · refine get_intersection_sibling f13 (by rw [m1]; simp) (by rw [m3]; simp) (fun x => ?_)
    rw [m1, m3]
    rintro (rfl | rfl | rfl) (h | h | h) <;>
      first | rfl | exact h | exact absurd h (by assumption) |
        exact absurd h.symm (by assumption)
  · refine get_intersection_sibling f02.symm (by rw [m2]; simp) (by rw [m0]; simp) (fun x => ?_)
    rw [m2, m0]
    rintro (rfl | rfl | rfl) (h | h | h) <;>
      first | rfl | exact h | exact absurd h (by assumption) |
        exact absurd h.symm (by assumption)
  · refine get_intersection_sibling f12.symm (by rw [m2]; simp) (by rw [m1]; simp) (fun x => ?_)
    rw [m2, m1]
    rintro (rfl | rfl | rfl) (h | h | h) <;>
      first | rfl | exact h | exact absurd h (by assumption) |
        exact absurd h.symm (by assumption)
  · refine get_intersection_sibling f23 (by rw [m2]; simp) (by rw [m3]; simp) (fun x => ?_)
    rw [m2, m3]
    rintro (rfl | rfl | rfl) (h | h | h) <;>
      first | rfl | exact h | exact absurd h (by assumption) |
        exact absurd h.symm (by assumption)
  · refine get_intersection_sibling f03.symm (by rw [m3]; simp) (by rw [m0]; simp) (fun x => ?_)
    rw [m3, m0]
    rintro (rfl | rfl | rfl) (h | h | h) <;>
      first | rfl | exact h | exact absurd h (by assumption) |
        exact absurd h.symm (by assumption)
  · refine get_intersection_sibling f13.symm (by rw [m3]; simp) (by rw [m1]; simp) (fun x => ?_)
    rw [m3, m1]
    rintro (rfl | rfl | rfl) (h | h | h) <;>
      first | rfl | exact h | exact absurd h (by assumption) |
        exact absurd h.symm (by assumption)
  · refine get_intersection_sibling f23.symm (by rw [m3]; simp) (by rw [m2]; simp) (fun x => ?_)
    rw [m3, m2]
    rintro (rfl | rfl | rfl) (h | h | h) <;>
      first | rfl | exact h | exact absurd h (by assumption) |
        exact absurd h.symm (by assumption)

/-- The shared edges of a face `sk` of a well-formed tetrahedron with its three siblings:
`get_intersection` finds them, they lie on the siblings, different siblings give different
edges, and every edge of `sk` is one of them. -/
theorem TetrahedronOn.shared_edges {m : Mesh} {t : Nat} {F : TetFrame}
    (h : TetrahedronOn m t F) (sk : Nat) (hsk : sk ∈ [F.f0, F.f1, F.f2, F.f3]) :
    (∀ c ∈ [F.f0, F.f1, F.f2, F.f3], c ≠ sk →
      get_intersection m 2 sk c = some (some (shared_edge m sk c)) ∧
      shared_edge m sk c ∈ m.boundary_list 2 c) ∧
    (∀ c ∈ [F.f0, F.f1, F.f2, F.f3], ∀ c' ∈ [F.f0, F.f1, F.f2, F.f3], c ≠ sk → c' ≠ sk →
      shared_edge m sk c = shared_edge m sk c' → c = c') ∧
    (∀ e ∈ m.boundary_list 2 sk, ∃ c ∈ [F.f0, F.f1, F.f2, F.f3], c ≠ sk ∧
      shared_edge m sk c = e) := by
  obtain ⟨n1, n2, n3, n4, n5, n6, n7, n8, n9, n10, n11, n12, n13, n14, n15⟩ := h.edges_ne
  have hf := h.faces_nodup
  rw [nodup4_iff] at hf
  obtain ⟨f01, f02, f03, f12, f13, f23⟩ := hf
  have m0 := h.face0.2.2.2.2.mem_edges
  have m1 := h.face1.2.2.2.2.mem_edges
  have m2 := h.face2.2.2.2.2.mem_edges
  have m3 := h.face3.2.2.2.2.mem_edges
  obtain ⟨t01, t02, t03, t10, t12, t13, t20, t21, t23, t30, t31, t32⟩ := h.intersections
  clear h
  have s01 : shared_edge m F.f0 F.f1 = F.e23 := by unfold shared_edge; rw [t01]; rfl
  have s02 : shared_edge m F.f0 F.f2 = F.e13 := by unfold shared_edge; rw [t02]; rfl
  have s03 : shared_edge m F.f0 F.f3 = F.e12 := by unfold shared_edge; rw [t03]; rfl
  have s10 : shared_edge m F.f1 F.f0 = F.e23 := by unfold shared_edge; rw [t10]; rfl
  have s12 : shared_edge m F.f1 F.f2 = F.e03 := by unfold shared_edge; rw [t12]; rfl
  have s13 : shared_edge m F.f1 F.f3 = F.e02 := by unfold shared_edge; rw [t13]; rfl
  have s20 : shared_edge m F.f2 F.f0 = F.e13 := by unfold shared_edge; rw [t20]; rfl
  have s21 : shared_edge m F.f2 F.f1 = F.e03 := by unfold shared_edge; rw [t21]; rfl
  have s23 : shared_edge m F.f2 F.f3 = F.e01 := by unfold shared_edge; rw [t23]; rfl
  have s30 : shared_edge m F.f3 F.f0 = F.e12 := by unfold shared_edge; rw [t30]; rfl
  have s31 : shared_edge m F.f3 F.f1 = F.e02 := by unfold shared_edge; rw [t31]; rfl
  have s32 : shared_edge m F.f3 F.f2 = F.e01 := by unfold shared_edge; rw [t32]; rfl
  simp only [List.mem_cons, List.mem_singleton, List.not_mem_nil, or_false] at hsk ⊢
  rcases hsk with rfl | rfl | rfl | rfl
  · refine ⟨?_, ?_, ?_⟩
    · rintro c (rfl | rfl | rfl | rfl) hne
      · exact absurd rfl hne
      · exact ⟨by rw [s01]; exact t01, by rw [s01, m1]; simp⟩
      · exact ⟨by rw [s02]; exact t02, by rw [s02, m2]; simp⟩
      · exact ⟨by rw [s03]; exact t03, by rw [s03, m3]; simp⟩
    · rintro c (rfl | rfl | rfl | rfl) c' (rfl | rfl | rfl | rfl) hne hne' heq <;>
        first | rfl | exact absurd rfl hne | exact absurd rfl hne' |
          (simp only [s01, s02, s03] at heq
           first | exact absurd heq (by assumption) | exact absurd heq.symm (by assumption))
    · intro e hm
      rw [m0] at hm
      rcases hm with rfl | rfl | rfl
      · exact ⟨F.f3, by simp, f03.symm, s03⟩
      · exact ⟨F.f2, by simp, f02.symm, s02⟩
      · exact ⟨F.f1, by simp, f01.symm, s01⟩
  · refine ⟨?_, ?_, ?_⟩
    · rintro c (rfl | rfl | rfl | rfl) hne
      · exact ⟨by rw [s10]; exact t10, by rw [s10, m0]; simp⟩
      · exact absurd rfl hne
      · exact ⟨by rw [s12]; exact t12, by rw [s12, m2]; simp⟩
      · exact ⟨by rw [s13]; exact t13, by rw [s13, m3]; simp⟩
    · rintro c (rfl | rfl | rfl | rfl) c' (rfl | rfl | rfl | rfl) hne hne' heq <;>
        first | rfl | exact absurd rfl hne | exact absurd rfl hne' |
          (simp only [s10, s12, s13] at heq
           first | exact absurd heq (by assumption) | exact absurd heq.symm (by assumption))
    · intro e hm
      rw [m1] at hm
      rcases hm with rfl | rfl | rfl
      · exact ⟨F.f3, by simp, f13.symm, s13⟩
      · exact ⟨F.f2, by simp, f12.symm, s12⟩
      · exact ⟨F.f0, by simp, f01, s10⟩
  · refine ⟨?_, ?_, ?_⟩
    · rintro c (rfl | rfl | rfl | rfl) hne
      · exact ⟨by rw [s20]; exact t20, by rw [s20, m0]; simp⟩
      · exact ⟨by rw [s21]; exact t21, by rw [s21, m1]; simp⟩
      · exact absurd rfl hne
      · exact ⟨by rw [s23]; exact t23, by rw [s23, m3]; simp⟩
    · rintro c (rfl | rfl | rfl | rfl) c' (rfl | rfl | rfl | rfl) hne hne' heq <;>
        first | rfl | exact absurd rfl hne | exact absurd rfl hne' |
          (simp only [s20, s21, s23] at heq
           first | exact absurd heq (by assumption) | exact absurd heq.symm (by assumption))
    · intro e hm
      rw [m2] at hm
      rcases hm with rfl | rfl | rfl
      · exact ⟨F.f3, by simp, f23.symm, s23⟩
      · exact ⟨F.f1, by simp, f12, s21⟩
      · exact ⟨F.f0, by simp, f02, s20⟩
  · refine ⟨?_, ?_, ?_⟩
    · rintro c (rfl | rfl | rfl | rfl) hne
      · exact ⟨by rw [s30]; exact t30, by rw [s30, m0]; simp⟩
      · exact ⟨by rw [s31]; exact t31, by rw [s31, m1]; simp⟩
      · exact ⟨by rw [s32]; exact t32, by rw [s32, m2]; simp⟩
      · exact absurd rfl hne
    · rintro c (rfl | rfl | rfl | rfl) c' (rfl | rfl | rfl | rfl) hne hne' heq <;>
        first | rfl | exact absurd rfl hne | exact absurd rfl hne' |
          (simp only [s30, s31, s32] at heq
           first | exact absurd heq (by assumption) | exact absurd heq.symm (by assumption))
    · intro e hm
      rw [m3] at hm
      rcases hm with rfl | rfl | rfl
      · exact ⟨F.f2, by simp, f23, s32⟩
      · exact ⟨F.f1, by simp, f13, s31⟩
      · exact ⟨F.f0, by simp, f03, s30⟩

/-- The loop of `orient_coface_helper` that fills the map `face_to_simplex`. -/
theorem orient_coface_map {m : Mesh} {sk : Nat} (L : List Nat)
    (hsh : ∀ c ∈ L, c ≠ sk → get_intersection m 2 sk c = some (some (shared_edge m sk c)))
    (hinj : ∀ c ∈ L, ∀ c' ∈ L, c ≠ sk → c' ≠ sk →
      shared_edge m sk c = shared_edge m sk c' → c = c') :
    ∀ mp0, ∃ mp, L.foldlM (fun (mp : List (Nat × Nat)) cfb =>
        if cfb ≠ sk then do
          let res ← get_intersection m 2 sk cfb
          match res with
          | none => none
          | some k => pure (map_set k cfb mp)
        else pure mp) mp0 = some mp ∧
      (∀ c ∈ L, c ≠ sk → map_get (shared_edge m sk c) mp = c) ∧
      (∀ e, (∀ c ∈ L, c ≠ sk → shared_edge m sk c ≠ e) → map_get e mp = map_get e mp0) := by
  induction L with
  | nil => intro mp0; exact ⟨mp0, rfl, fun c hc => absurd hc (List.not_mem_nil c), fun e _ => rfl⟩
  | cons a L ih =>
    intro mp0
    have ih' := ih (fun c hc => hsh c (List.mem_cons_of_mem _ hc))
      (fun c hc c' hc' => hinj c (List.mem_cons_of_mem _ hc) c' (List.mem_cons_of_mem _ hc'))
    by_cases ha : a = sk
    · obtain ⟨mp, hmp, p1, p2⟩ := ih' mp0
      refine ⟨mp, ?_, ?_, ?_⟩
      · rw [List.foldlM_cons]
        simp only [ha, ne_eq, not_true_eq_false, if_false, pure, bind, Option.some_bind]
        exact hmp
      · intro c hc hne
        rcases List.mem_cons.1 hc with rfl | hc
        · exact absurd ha hne
        · exact p1 c hc hne
      · intro e he
        exact p2 e (fun c hc => he c (List.mem_cons_of_mem _ hc))
    · obtain ⟨mp, hmp, p1, p2⟩ := ih' (map_set (shared_edge m sk a) a mp0)
      refine ⟨mp, ?_, ?_, ?_⟩
      · rw [List.foldlM_cons]
        simp only [ne_eq, ha, not_false_eq_true, if_true, bind,
          hsh a (List.mem_cons_self _ _) ha, Option.some_bind, pure]
        exact hmp
      · intro c hc hne
        rcases List.mem_cons.1 hc with rfl | hc
        · by_cases hin : c ∈ L
          · exact p1 c hin hne
          · rw [p2 _ (fun c' hc' hne' heq => hin (by
              rw [← hinj c' (List.mem_cons_of_mem _ hc') c (List.mem_cons_self _ _) hne' hne
                heq]
              exact hc')), map_get_map_set_same]
        · exact p1 c hc hne
      · intro e he
        rw [p2 e (fun c hc => he c (List.mem_cons_of_mem _ hc)),
          map_get_map_set_ne (he a (List.mem_cons_self _ _) ha).symm]

theorem FaceOn.nodup {m : Mesh} {f a b c : Nat} (h : FaceOn m f a b c) (hab : a ≠ b)
    (hac : a ≠ c) (hbc : b ≠ c) :
    ∃ e0 e1 e2, m.boundary_list 2 f = [e0, e1, e2] ∧ [e0, e1, e2].Nodup := by
  unfold FaceOn at h
  simp only [List.mem_cons, List.mem_singleton, List.not_mem_nil, or_false] at h
  rcases h with h | h | h | h | h | h <;>
    exact ⟨_, _, _, h, by
      rw [nodup3_iff]
      first
        | exact ⟨hab, hac, hbc⟩ | exact ⟨hac, hab, hbc.symm⟩ | exact ⟨hab.symm, hbc, hac⟩
        | exact ⟨hbc, hab.symm, hac.symm⟩ | exact ⟨hac.symm, hbc.symm, hab⟩
        | exact ⟨hbc.symm, hac.symm, hab.symm⟩⟩

theorem TetrahedronOn.face_edges {m : Mesh} {t : Nat} {F : TetFrame} (h : TetrahedronOn m t F)
    (f : Nat) (hf : f ∈ [F.f0, F.f1, F.f2, F.f3]) :
    ∃ e0 e1 e2, m.boundary_list 2 f = [e0, e1, e2] ∧ [e0, e1, e2].Nodup := by
  obtain ⟨n1, n2, n3, n4, n5, n6, n7, n8, n9, n10, n11, n12, n13, n14, n15⟩ := h.edges_ne
  simp only [List.mem_cons, List.mem_singleton, List.not_mem_nil, or_false] at hf
  rcases hf with rfl | rfl | rfl | rfl
  · exact h.face0.2.2.2.2.nodup n13 n14 n15
  · exact h.face1.2.2.2.2.nodup n6 n9 n12
  · exact h.face2.2.2.2.2.nodup n2 n4 n11
  · exact h.face3.2.2.2.2.nodup n1 n3 n7

theorem ReorderedAt.of_modify {m m1 : Mesh} {d k : Nat} {B : List Nat} (hd : d ≤ 3)
    {s : Simplex} (hs : m.lookup_simplex d k = some s)
    (h : m.modify d k (fun x => x.set_boundary_list B) = some m1) : ReorderedAt m m1 d k B :=
  ⟨⟨s, hs, by rw [Mesh.lookup_modify_same h, hs]; rfl⟩,
    fun _ _ hd' hne => Mesh.lookup_modify_ne h hd hd' hne⟩

theorem ReorderedAt.again {m m1 m2 : Mesh} {d k : Nat} {B B' : List Nat} (hd : d ≤ 3)
    (h1 : ReorderedAt m m1 d k B)
    (h : m1.modify d k (fun x => x.set_boundary_list B') = some m2) :
    ReorderedAt m m2 d k B' := by
  obtain ⟨⟨s, hs, hs1⟩, ho⟩ := h1
  refine ⟨⟨s, hs, by rw [Mesh.lookup_modify_same h, hs1]; rfl⟩, fun d' k' hd' hne => ?_⟩
  rw [Mesh.lookup_modify_ne h hd hd' hne, ho d' k' hd' hne]

/-- What `orient_coface_helper` does to a well-formed tetrahedron `t` for a face `f` of its
boundary list, with `consistently` set and not set. -/
theorem TetrahedronOn.orient_coface {m : Mesh} {t : Nat} {F : TetFrame}
    (h : TetrahedronOn m t F) (f : Nat) (hf : f ∈ [F.f0, F.f1, F.f2, F.f3]) :
    ∃ g1 g2 g3 e0 e1 e2 m1 m2, m.boundary_list 2 f = [e0, e1, e2] ∧
      e0 ∈ m.boundary_list 2 g1 ∧ e1 ∈ m.boundary_list 2 g2 ∧ e2 ∈ m.boundary_list 2 g3 ∧
      [f, g1, g2, g3].Perm [F.f0, F.f1, F.f2, F.f3] ∧
      orient_coface_helper m 2 f t true = some m1 ∧ ReorderedAt m m1 3 t [f, g1, g2, g3] ∧
      orient_coface_helper m 2 f t false = some m2 ∧ ReorderedAt m m2 3 t [g1, f, g2, g3] := by
  obtain ⟨st, hst, hbt⟩ := Mesh.lookup_of_boundary_list h.1 (by simp)
  obtain ⟨e0, e1, e2, hbf, hnd⟩ := h.face_edges f hf
  obtain ⟨sf, hsf, hbsf⟩ := Mesh.lookup_of_boundary_list hbf (by simp)
  obtain ⟨sh1, sh2, sh3⟩ := h.shared_edges f hf
  have hfn := h.faces_nodup
  clear h
  obtain ⟨mp, hmp, hget, -⟩ := orient_coface_map [F.f0, F.f1, F.f2, F.f3]
    (fun c hc hne => (sh1 c hc hne).1) sh2 []
  obtain ⟨g1, hg1, hn1, hs1⟩ := sh3 e0 (by rw [hbf]; simp)
  obtain ⟨g2, hg2, hn2, hs2⟩ := sh3 e1 (by rw [hbf]; simp)
  obtain ⟨g3, hg3, hn3, hs3⟩ := sh3 e2 (by rw [hbf]; simp)
  have G1 : map_get e0 mp = g1 := by rw [← hs1]; exact hget g1 hg1 hn1
  have G2 : map_get e1 mp = g2 := by rw [← hs2]; exact hget g2 hg2 hn2
  have G3 : map_get e2 mp = g3 := by rw [← hs3]; exact hget g3 hg3 hn3
  rw [nodup3_iff] at hnd
  have hperm : [f, g1, g2, g3].Perm [F.f0, F.f1, F.f2, F.f3] := by
    refine (List.Nodup.subperm ?_ ?_).perm_of_length_le (by simp)
    · rw [nodup4_iff]
      refine ⟨hn1.symm, hn2.symm, hn3.symm, ?_, ?_, ?_⟩
      · intro hc; rw [hc, hs2] at hs1; exact hnd.1 hs1.symm
      · intro hc; rw [hc, hs3] at hs1; exact hnd.2.1 hs1.symm
      · intro hc; rw [hc, hs3] at hs2; exact hnd.2.2 hs2.symm
    · intro x hx
      simp only [List.mem_cons, List.mem_singleton, List.not_mem_nil, or_false] at hx
      rcases hx with rfl | rfl | rfl | rfl
      · exact hf
      · exact hg1
      · exact hg2
      · exact hg3
  obtain ⟨m1, hm1⟩ := Mesh.modify_isSome (m := m) (d := 3) (k := t)
    (fun x => x.set_boundary_list [f, g1, g2, g3]) (by rw [hst]; rfl)
  have r1 : ReorderedAt m m1 3 t [f, g1, g2, g3] := ReorderedAt.of_modify (by omega) hst hm1
  obtain ⟨m2, hm2⟩ := Mesh.modify_isSome (m := m1) (d := 3) (k := t)
    (fun x => x.set_boundary_list [g1, f, g2, g3])
    (by obtain ⟨s, -, hs'⟩ := r1.1; rw [hs']; rfl)
  have hcore : ∀ c : Bool, orient_coface_helper m 2 f t c =
      if c then some m1 else invert_orientation m1 3 t := by
    intro c
    unfold orient_coface_helper
    rw [if_neg (by omega)]
    simp only [bind, hsf, hst, Option.some_bind, hbt, hbsf, List.length_cons,
      List.length_nil, List.map_cons, List.map_nil, List.drop_succ_cons,
      List.drop_nil, List.append_nil, List.cons_append, List.nil_append, lt_self_iff_false,
      if_false, pure, List.drop_zero]
    generalize hX : List.foldlM (m := Option) _ ([] : List (Nat × Nat))
      [F.f0, F.f1, F.f2, F.f3] = X
    have hX' : X = some mp := hX.symm.trans hmp
    subst hX'
    simp only [Option.some_bind, G1, G2, G3, hm1]
  refine ⟨g1, g2, g3, e0, e1, e2, m1, m2, hbf, ?_, ?_, ?_, hperm, ?_, r1, ?_,
    r1.again (by omega) hm2⟩
  · rw [← hs1]; exact (sh1 g1 hg1 hn1).2
  · rw [← hs2]; exact (sh1 g2 hg2 hn2).2
  · rw [← hs3]; exact (sh1 g3 hg3 hn3).2
  · rw [hcore]; rfl
  · rw [hcore]
    simp only [Bool.false_eq_true, if_false]
    obtain ⟨s, hs, hs'⟩ := r1.1
    rw [hst] at hs
    cases hs
    unfold invert_orientation
    rw [if_neg (by omega)]
    simp only [bind, hs', Option.some_bind, Simplex.set_boundary_list]
    exact hm2

/-- C35: `orient_coface` only reorders. For a well-formed tetrahedron `t` and a face `f` of
its boundary list, `orient_coface_consistently(f, t)` and `orient_coface_oppositely(f, t)`
return; each leaves a mesh that differs from the given one in the boundary list of `t`
only, and the new list is a permutation of the old one. After
`orient_coface_consistently` the list is `f` followed by three faces `g1`, `g2`, `g3` such
that the edge `i` of the boundary list of `f` lies on `gi`; after
`orient_coface_oppositely` it is that list with its first two entries swapped. -/
theorem orient_coface_reorders (m : Mesh) (t f : Nat) (ht : WellFormed m 3 t)
    (hf : f ∈ m.boundary_list 3 t) :
    ∃ g1 g2 g3 e0 e1 e2 m1 m2, m.boundary_list 2 f = [e0, e1, e2] ∧
      e0 ∈ m.boundary_list 2 g1 ∧ e1 ∈ m.boundary_list 2 g2 ∧ e2 ∈ m.boundary_list 2 g3 ∧
      orient_coface_consistently m 2 f t = some m1 ∧
      ReorderedAt m m1 3 t [f, g1, g2, g3] ∧
      [f, g1, g2, g3].Perm (m.boundary_list 3 t) ∧
      orient_coface_oppositely m 2 f t = some m2 ∧
      ReorderedAt m m2 3 t [g1, f, g2, g3] ∧
      [g1, f, g2, g3].Perm (m.boundary_list 3 t) := by
  obtain ⟨F, h⟩ := ht
  have hb := h.1
  rw [hb] at hf ⊢
  obtain ⟨g1, g2, g3, e0, e1, e2, m1, m2, a1, a2, a3, a4, a5, a6, a7, a8, a9⟩ :=
    h.orient_coface f hf
  exact ⟨g1, g2, g3, e0, e1, e2, m1, m2, a1, a2, a3, a4, a6, a7, a5, a8, a9,
    (List.Perm.swap f g1 [g2, g3]).trans a5⟩

/-- Witness of C35: the face 0 of the mesh with one tetrahedron, whose boundary list holds
the edges 0, 3 and 1, shared with the faces 1, 3 and 2. -/
theorem orient_coface_reorders_witness :
    tetrahedron_mesh.boundary_list 2 0 = [0, 3, 1] ∧
    (orient_coface_consistently tetrahedron_mesh 2 0 0).map (fun x => x.boundary_list 3 0)
      = some [0, 1, 3, 2] ∧
    (orient_coface_oppositely tetrahedron_mesh 2 0 0).map (fun x => x.boundary_list 3 0)
      = some [1, 0, 3, 2] ∧
    ∃ g1 g2 g3 e0 e1 e2 m1 m2, tetrahedron_mesh.boundary_list 2 0 = [e0, e1, e2] ∧
      e0 ∈ tetrahedron_mesh.boundary_list 2 g1 ∧ e1 ∈ tetrahedron_mesh.boundary_list 2 g2 ∧
      e2 ∈ tetrahedron_mesh.boundary_list 2 g3 ∧
      orient_coface_consistently tetrahedron_mesh 2 0 0 = some m1 ∧
      ReorderedAt tetrahedron_mesh m1 3 0 [0, g1, g2, g3] ∧
      [0, g1, g2, g3].Perm (tetrahedron_mesh.boundary_list 3 0) ∧
      orient_coface_oppositely tetrahedron_mesh 2 0 0 = some m2 ∧
      ReorderedAt tetrahedron_mesh m2 3 0 [g1, 0, g2, g3] ∧
      [g1, 0, g2, g3].Perm (tetrahedron_mesh.boundary_list 3 0) :=
  ⟨by decide!, by decide!, by decide!,
    orient_coface_reorders tetrahedron_mesh 0 0 ⟨tetrahedron_frame, tetrahedron_frame_on⟩
      (by decide!)⟩

end ISMesh
namespace ISMesh

theorem list_set_self {α : Type} {l : List α} {k : Nat} {a : α} (h : l[k]? = some a) :
    l.set k a = l := by
  apply List.ext_getElem?
  intro i
  rw [List.getElem?_set]
  by_cases hk : k = i
  · subst hk
    have hlt : k < l.length := by
      by_contra hc
      rw [List.getElem?_eq_none (by omega)] at h
      cases h
    simp [hlt, h]
  · simp [hk]

theorem Kernel.shape_getElem (K : Kernel) (k : Nat) :
    K.shape[k]? = (K.elements[k]?).map (fun e => (e.valid, e.value.m_boundary)) := by
  unfold Kernel.shape
  rw [List.getElem?_map]

theorem Kernel.shape_of_find {K : Kernel} {k : Nat} {s : Simplex} (h : K.find k = some s) :
    K.shape[k]? = some (true, s.m_boundary) := by
  rw [Kernel.shape_getElem, Kernel.find_eq_some.1 h]
  rfl

theorem Kernel.find_of_shape {K : Kernel} {k : Nat} {b : List Nat}
    (h : K.shape[k]? = some (true, b)) : ∃ s, K.find k = some s ∧ s.m_boundary = b := by
  rw [Kernel.shape_getElem] at h
  cases he : K.elements[k]? with
  | none => rw [he] at h; cases h
  | some e =>
    rw [he] at h
    simp only [Option.map_some', Option.some.injEq, Prod.mk.injEq] at h
    refine ⟨e.value, ?_, h.2⟩
    rw [Kernel.find_eq_some, he]
    rcases e with ⟨v, x⟩
    simp only at h
    rw [h.1]

theorem Kernel.find_none_of_shape {K : Kernel} {k : Nat}
    (h : ∀ b, K.shape[k]? ≠ some (true, b)) : K.find k = none := by
  cases hf : K.find k with
  | none => rfl
  | some s => exact absurd (Kernel.shape_of_find hf) (h _)

theorem Kernel.slot_size_shape (K : Kernel) : K.size = K.shape.countP (fun p => p.1) := by
  unfold Kernel.size Kernel.shape
  rw [List.countP_map, List.countP_eq_length_filter]
  rfl

theorem Kernel.slot_shape_modify {K K' : Kernel} {k : Nat} {f : Simplex → Simplex}
    (h : K.modify k f = some K') :
    ∃ s, K.find k = some s ∧ K'.shape = K.shape.set k (true, (f s).m_boundary) := by
  unfold Kernel.modify at h
  cases hs : K.find k with
  | none => simp [hs] at h
  | some s =>
    simp only [hs, Option.some.injEq] at h
    subst h
    refine ⟨s, rfl, ?_⟩
    unfold Kernel.shape
    simp only [List.map_set]

theorem Kernel.slot_shape_keep {K K' : Kernel} {k : Nat} {f : Simplex → Simplex}
    (hf : ∀ s, (f s).m_boundary = s.m_boundary) (h : K.modify k f = some K') :
    K'.shape = K.shape := by
  obtain ⟨s, hs, he⟩ := Kernel.slot_shape_modify h
  rw [he, hf]
  exact list_set_self (Kernel.shape_of_find hs)

theorem Kernel.slot_shape_erase {K K' : Kernel} {k : Nat} (h : K.erase k = some K') :
    ∃ s, K.find k = some s ∧ K'.shape = K.shape.set k (false, s.m_boundary) := by
  unfold Kernel.erase at h
  cases hs : K.find k with
  | none => simp [hs] at h
  | some s =>
    simp only [hs, Option.some.injEq] at h
    subst h
    refine ⟨s, rfl, ?_⟩
    unfold Kernel.shape
    simp only [List.map_set]

theorem Kernel.slot_shape_create (K : Kernel) (d : Nat) :
    (K.create d).1.shape = K.shape ++ [(true, [])] ∧ (K.create d).2 = K.shape.length := by
  unfold Kernel.create Kernel.shape
  simp [Simplex.create]

theorem Mesh.kernel_alias (m : Mesh) {d d' : Nat} (h : min d 3 = min d' 3) :
    m.kernel d' = m.kernel d := by
  rcases d with _ | _ | _ | d <;> rcases d' with _ | _ | _ | d' <;>
    simp [Mesh.kernel] at h ⊢

theorem Mesh.shape_setKernel (m : Mesh) (d : Nat) (K : Kernel) (d' : Nat) :
    (m.setKernel d K).shape d' = if min d 3 = min d' 3 then K.shape else m.shape d' := by
  unfold Mesh.shape
  rw [Mesh.kernel_setKernel]
  split_ifs <;> rfl

theorem Mesh.shape_of_lookup {m : Mesh} {d k : Nat} {s : Simplex}
    (h : m.lookup_simplex d k = some s) : (m.shape d)[k]? = some (true, s.m_boundary) :=
  Kernel.shape_of_find h

theorem Mesh.lookup_of_shape {m : Mesh} {d k : Nat} {b : List Nat}
    (h : (m.shape d)[k]? = some (true, b)) :
    ∃ s, m.lookup_simplex d k = some s ∧ s.m_boundary = b :=
  Kernel.find_of_shape h

theorem Mesh.lookup_none_of_shape {m : Mesh} {d k : Nat}
    (h : ∀ b, (m.shape d)[k]? ≠ some (true, b)) : m.lookup_simplex d k = none :=
  Kernel.find_none_of_shape h

theorem Mesh.boundary_list_of_shape {m : Mesh} {d k : Nat} {b : List Nat}
    (h : (m.shape d)[k]? = some (true, b)) : m.boundary_list d k = b := by
  obtain ⟨s, hs, hb⟩ := Mesh.lookup_of_shape h
  rw [Mesh.boundary_list_eq hs, hb]

/-- The boundary list of a key depends on the shape only. -/
theorem Mesh.boundary_list_congr {m m' : Mesh} {d k : Nat}
    (h : (m'.shape d)[k]? = (m.shape d)[k]?) : m'.boundary_list d k = m.boundary_list d k := by
  cases hs : m.lookup_simplex d k with
  | some s =>
    rw [Mesh.boundary_list_eq hs]
    exact Mesh.boundary_list_of_shape (h.trans (Mesh.shape_of_lookup hs))
  | none =>
    have h' : m'.lookup_simplex d k = none := by
      apply Mesh.lookup_none_of_shape
      intro b hb
      obtain ⟨s, hs', -⟩ := Mesh.lookup_of_shape (h.symm.trans hb)
      rw [hs] at hs'
      cases hs'
    unfold Mesh.boundary_list
    rw [hs, h']

theorem Mesh.size_shape (m : Mesh) :
    m.size_nodes = (m.shape 0).countP (fun p => p.1) ∧
    m.size_edges = (m.shape 1).countP (fun p => p.1) ∧
    m.size_faces = (m.shape 2).countP (fun p => p.1) ∧
    m.size_tetrahedra = (m.shape 3).countP (fun p => p.1) :=
  ⟨Kernel.slot_size_shape _, Kernel.slot_size_shape _, Kernel.slot_size_shape _, Kernel.slot_size_shape _⟩

theorem Mesh.shape_modify {m m' : Mesh} {d k : Nat} {f : Simplex → Simplex}
    (h : m.modify d k f = some m') :
    (∀ d', min d 3 ≠ min d' 3 → m'.shape d' = m.shape d') ∧
    ∃ s, m.lookup_simplex d k = some s ∧
      m'.shape d = (m.shape d).set k (true, (f s).m_boundary) := by
  unfold Mesh.modify at h
  cases hK : (m.kernel d).modify k f with
  | none => simp [hK] at h
  | some K =>
    simp only [hK, Option.some.injEq] at h
    subst h
    obtain ⟨s, hs, he⟩ := Kernel.slot_shape_modify hK
    refine ⟨fun d' hne => ?_, s, hs, ?_⟩
    · rw [Mesh.shape_setKernel, if_neg hne]
    · rw [Mesh.shape_setKernel, if_pos rfl, he]
      rfl

theorem Mesh.shape_modify_keep {m m' : Mesh} {d k : Nat} {f : Simplex → Simplex}
    (hf : ∀ s, (f s).m_boundary = s.m_boundary) (h : m.modify d k f = some m') (d' : Nat) :
    m'.shape d' = m.shape d' := by
  unfold Mesh.modify at h
  cases hK : (m.kernel d).modify k f with
  | none => simp [hK] at h
  | some K =>
    simp only [hK, Option.some.injEq] at h
    subst h
    rw [Mesh.shape_setKernel]
    split_ifs with hd
    · rw [Kernel.slot_shape_keep hf hK]
      unfold Mesh.shape
      rw [Mesh.kernel_alias m hd]
    · rfl

theorem Mesh.shape_create (m : Mesh) (d : Nat) :
    (create m d).1.shape d = m.shape d ++ [(true, [])] ∧ (create m d).2 = (m.shape d).length ∧
    ∀ d', min d 3 ≠ min d' 3 → (create m d).1.shape d' = m.shape d' := by
  unfold create
  refine ⟨?_, ((m.kernel d).slot_shape_create d).2, fun d' hne => ?_⟩
  · rw [Mesh.shape_setKernel, if_pos rfl]
    exact ((m.kernel d).slot_shape_create d).1
  · rw [Mesh.shape_setKernel, if_neg hne]

theorem Mesh.shape_erase {m m' : Mesh} {d k : Nat} (h : unsafe_erase m d k = some m') :
    (∀ d', min d 3 ≠ min d' 3 → m'.shape d' = m.shape d') ∧
    ∃ s, m.lookup_simplex d k = some s ∧ m'.shape d = (m.shape d).set k (false, s.m_boundary) := by
  unfold unsafe_erase at h
  cases hK : (m.kernel d).erase k with
  | none => simp [hK] at h
  | some K =>
    simp only [hK, Option.some.injEq] at h
    subst h
    obtain ⟨s, hs, he⟩ := Kernel.slot_shape_erase hK
    refine ⟨fun d' hne => ?_, s, hs, ?_⟩
    · rw [Mesh.shape_setKernel, if_neg hne]
    · rw [Mesh.shape_setKernel, if_pos rfl, he]
      rfl

end ISMesh
namespace ISMesh

theorem Mesh.shape_set_boundary {m m' : Mesh} {d k : Nat} {B : List Nat} (hd : d ≤ 3)
    (h : m.modify d k (fun x => x.set_boundary_list B) = some m') :
    m'.shape d = (m.shape d).set k (true, B) ∧
    ∀ d', d' ≤ 3 → d' ≠ d → m'.shape d' = m.shape d' := by
  obtain ⟨h1, s, -, h2⟩ := Mesh.shape_modify h
  refine ⟨h2, fun d' hd' hne => h1 d' ?_⟩
  omega

/-- The end of `orient_face_helper`: the new boundary list is written and, when asked for,
its first two entries are swapped. -/
theorem orient_face_finish {m : Mesh} {f : Nat} {sf : Simplex}
    (hsf : m.lookup_simplex 2 f = some sf) (a b c : Nat) (p : Prop) [Decidable p] :
    ∃ m', (m.modify 2 f (fun x => x.set_boundary_list [a, b, c])).bind
        (fun m1 => if p then invert_orientation m1 2 f else pure m1) = some m' ∧
      m'.shape 2 = (m.shape 2).set f (true, if p then [b, a, c] else [a, b, c]) ∧
      m'.shape 0 = m.shape 0 ∧ m'.shape 1 = m.shape 1 ∧ m'.shape 3 = m.shape 3 := by
  obtain ⟨m1, hm1⟩ := Mesh.modify_isSome (fun x => x.set_boundary_list [a, b, c])
    (by rw [hsf]; rfl : (m.lookup_simplex 2 f).isSome)
  obtain ⟨s1, s2⟩ := Mesh.shape_set_boundary (by decide) hm1
  rw [hm1, Option.some_bind]
  by_cases hp : p
  · have hl : m1.lookup_simplex 2 f = some (sf.set_boundary_list [a, b, c]) := by
      rw [Mesh.lookup_modify_same hm1, hsf]; rfl
    obtain ⟨m2, hm2⟩ := Mesh.modify_isSome (fun x => x.set_boundary_list [b, a, c])
      (by rw [hl]; rfl : (m1.lookup_simplex 2 f).isSome)
    obtain ⟨r1, r2⟩ := Mesh.shape_set_boundary (by decide) hm2
    refine ⟨m2, ?_, ?_, ?_, ?_, ?_⟩
    · rw [if_pos hp]
      unfold invert_orientation
      rw [if_neg (by decide)]
      simp only [bind, hl, Option.some_bind, Simplex.set_boundary_list]
      exact hm2
    · rw [if_pos hp, r1, s1, List.set_set]
    · rw [r2 0 (by decide) (by decide), s2 0 (by decide) (by decide)]
    · rw [r2 1 (by decide) (by decide), s2 1 (by decide) (by decide)]
    · rw [r2 3 (by decide) (by decide), s2 3 (by decide) (by decide)]
  · exact ⟨m1, by rw [if_neg hp]; rfl, by rw [if_neg hp, s1],
      s2 0 (by decide) (by decide), s2 1 (by decide) (by decide), s2 3 (by decide) (by decide)⟩

theorem orient_face_case0 {m : Mesh} {t : Nat} {F : TetFrame} (h : TetrahedronOn m t F) :
    ∃ m', orient_face_helper m 3 t F.f0 false = some m' ∧
      m'.shape 2 = (m.shape 2).set F.f0 (true, [F.e13, F.e23, F.e12]) ∧
      m'.shape 0 = m.shape 0 ∧ m'.shape 1 = m.shape 1 ∧ m'.shape 3 = m.shape 3 := by
  obtain ⟨st, hst, hbt⟩ := Mesh.lookup_of_boundary_list h.1 (by simp)
  obtain ⟨e0, e1, e2, hbf, -⟩ := h.face_edges F.f0 (by simp)
  obtain ⟨sf, hsf, hbsf⟩ := Mesh.lookup_of_boundary_list hbf (by simp)
  have hfn := h.faces_nodup
  rw [nodup4_iff] at hfn
  obtain ⟨f01, f02, f03, f12, f13, f23⟩ := hfn
  obtain ⟨t01, t02, t03, t10, t12, t13, t20, t21, t23, t30, t31, t32⟩ := h.intersections
  clear h
  obtain ⟨m', hm', r⟩ := orient_face_finish hsf F.e23 F.e13 F.e12
    ((1 % 2 = 0 ∧ false = true) ∨ (1 % 2 = 1 ∧ false = false))
  refine ⟨m', ?_, by simpa using r⟩
  rw [← hm']
  unfold orient_face_helper
  rw [if_neg (by decide)]
  simp only [bind, hst, hsf, hbt, hbsf, Option.some_bind, Nat.add_sub_cancel, List.foldlM_cons,
    List.foldlM_nil, pure, List.length_cons, List.length_nil, List.replicate,
    if_true, if_false, f01.symm, f02.symm, f03.symm, f12.symm, f13.symm, f23.symm, f01, f02, f03,
    f12, f13, f23, t01, t02, t03, t10, t12, t13, t20, t21, t23, t30, t31, t32]
  simp [List.set] at hm' ⊢

theorem orient_face_case1 {m : Mesh} {t : Nat} {F : TetFrame} (h : TetrahedronOn m t F) :
    ∃ m', orient_face_helper m 3 t F.f1 false = some m' ∧
      m'.shape 2 = (m.shape 2).set F.f1 (true, [F.e23, F.e03, F.e02]) ∧
      m'.shape 0 = m.shape 0 ∧ m'.shape 1 = m.shape 1 ∧ m'.shape 3 = m.shape 3 := by
  obtain ⟨st, hst, hbt⟩ := Mesh.lookup_of_boundary_list h.1 (by simp)
  obtain ⟨e0, e1, e2, hbf, -⟩ := h.face_edges F.f1 (by simp)
  obtain ⟨sf, hsf, hbsf⟩ := Mesh.lookup_of_boundary_list hbf (by simp)
  have hfn := h.faces_nodup
  rw [nodup4_iff] at hfn
  obtain ⟨f01, f02, f03, f12, f13, f23⟩ := hfn
  obtain ⟨t01, t02, t03, t10, t12, t13, t20, t21, t23, t30, t31, t32⟩ := h.intersections
  clear h
  obtain ⟨m', hm', r⟩ := orient_face_finish hsf F.e23 F.e03 F.e02
    ((2 % 2 = 0 ∧ false = true) ∨ (2 % 2 = 1 ∧ false = false))
  refine ⟨m', ?_, by simpa using r⟩
  rw [← hm']
  unfold orient_face_helper
  rw [if_neg (by decide)]
  simp only [bind, hst, hsf, hbt, hbsf, Option.some_bind, Nat.add_sub_cancel, List.foldlM_cons,
    List.foldlM_nil, pure, List.length_cons, List.length_nil, List.replicate,
    if_true, if_false, f01.symm, f02.symm, f03.symm, f12.symm, f13.symm, f23.symm, f01, f02, f03,
    f12, f13, f23, t01, t02, t03, t10, t12, t13, t20, t21, t23, t30, t31, t32]
  simp [List.set] at hm' ⊢

theorem orient_face_case2 {m : Mesh} {t : Nat} {F : TetFrame} (h : TetrahedronOn m t F) :
    ∃ m', orient_face_helper m 3 t F.f2 false = some m' ∧
      m'.shape 2 = (m.shape 2).set F.f2 (true, [F.e03, F.e13, F.e01]) ∧
      m'.shape 0 = m.shape 0 ∧ m'.shape 1 = m.shape 1 ∧ m'.shape 3 = m.shape 3 := by
  obtain ⟨st, hst, hbt⟩ := Mesh.lookup_of_boundary_list h.1 (by simp)
  obtain ⟨e0, e1, e2, hbf, -⟩ := h.face_edges F.f2 (by simp)
  obtain ⟨sf, hsf, hbsf⟩ := Mesh.lookup_of_boundary_list hbf (by simp)
  have hfn := h.faces_nodup
  rw [nodup4_iff] at hfn
  obtain ⟨f01, f02, f03, f12, f13, f23⟩ := hfn
  obtain ⟨t01, t02, t03, t10, t12, t13, t20, t21, t23, t30, t31, t32⟩ := h.intersections
  clear h
  obtain ⟨m', hm', r⟩ := orient_face_finish hsf F.e13 F.e03 F.e01
    ((3 % 2 = 0 ∧ false = true) ∨ (3 % 2 = 1 ∧ false = false))
  refine ⟨m', ?_, by simpa using r⟩
  rw [← hm']
  unfold orient_face_helper
  rw [if_neg (by decide)]
  simp only [bind, hst, hsf, hbt, hbsf, Option.some_bind, Nat.add_sub_cancel, List.foldlM_cons,
    List.foldlM_nil, pure, List.length_cons, List.length_nil, List.replicate,
    if_true, if_false, f01.symm, f02.symm, f03.symm, f12.symm, f13.symm, f23.symm, f01, f02, f03,
    f12, f13, f23, t01, t02, t03, t10, t12, t13, t20, t21, t23, t30, t31, t32]
  simp [List.set] at hm' ⊢

theorem orient_face_case3 {m : Mesh} {t : Nat} {F : TetFrame} (h : TetrahedronOn m t F) :
    ∃ m', orient_face_helper m 3 t F.f3 false = some m' ∧
      m'.shape 2 = (m.shape 2).set F.f3 (true, [F.e12, F.e02, F.e01]) ∧
      m'.shape 0 = m.shape 0 ∧ m'.shape 1 = m.shape 1 ∧ m'.shape 3 = m.shape 3 := by
  obtain ⟨st, hst, hbt⟩ := Mesh.lookup_of_boundary_list h.1 (by simp)
  obtain ⟨e0, e1, e2, hbf, -⟩ := h.face_edges F.f3 (by simp)
  obtain ⟨sf, hsf, hbsf⟩ := Mesh.lookup_of_boundary_list hbf (by simp)
  have hfn := h.faces_nodup
  rw [nodup4_iff] at hfn
  obtain ⟨f01, f02, f03, f12, f13, f23⟩ := hfn
  obtain ⟨t01, t02, t03, t10, t12, t13, t20, t21, t23, t30, t31, t32⟩ := h.intersections
  clear h
  obtain ⟨m', hm', r⟩ := orient_face_finish hsf F.e12 F.e02 F.e01
    ((4 % 2 = 0 ∧ false = true) ∨ (4 % 2 = 1 ∧ false = false))
  refine ⟨m', ?_, by simpa using r⟩
  rw [← hm']
  unfold orient_face_helper
  rw [if_neg (by decide)]
  simp only [bind, hst, hsf, hbt, hbsf, Option.some_bind, Nat.add_sub_cancel, List.foldlM_cons,
    List.foldlM_nil, pure, List.length_cons, List.length_nil, List.replicate,
    if_true, if_false, f01.symm, f02.symm, f03.symm, f12.symm, f13.symm, f23.symm, f01, f02, f03,
    f12, f13, f23, t01, t02, t03, t10, t12, t13, t20, t21, t23, t30, t31, t32]
  simp [List.set] at hm' ⊢

theorem Mesh.boundary_list_set_same {m m' : Mesh} {d k : Nat} {B : List Nat}
    (hl : (m.lookup_simplex d k).isSome) (h : m'.shape d = (m.shape d).set k (true, B)) :
    m'.boundary_list d k = B := by
  obtain ⟨s, hs⟩ := Option.isSome_iff_exists.1 hl
  have hk := Mesh.shape_of_lookup hs
  apply Mesh.boundary_list_of_shape
  rw [h, List.getElem?_set_self (List.getElem?_eq_some.1 hk).1]

theorem Mesh.boundary_list_set_ne {m m' : Mesh} {d k k' : Nat} {p : Bool × List Nat}
    (h : m'.shape d = (m.shape d).set k p) (hne : k ≠ k') :
    m'.boundary_list d k' = m.boundary_list d k' := by
  apply Mesh.boundary_list_congr
  rw [h, List.getElem?_set_ne hne]

theorem Mesh.boundary_list_shape {m m' : Mesh} {d : Nat} (h : m'.shape d = m.shape d)
    (k : Nat) : m'.boundary_list d k = m.boundary_list d k :=
  Mesh.boundary_list_congr (by rw [h])

theorem EdgeOn.of_shape {m m' : Mesh} {e x y : Nat} (h : EdgeOn m e x y)
    (h1 : m'.shape 1 = m.shape 1) : EdgeOn m' e x y := by
  unfold EdgeOn at h ⊢
  rw [Mesh.boundary_list_shape h1]
  exact h

theorem FaceOn.of_list {m m' : Mesh} {f a b c : Nat} (h : FaceOn m f a b c)
    (h2 : m'.boundary_list 2 f = m.boundary_list 2 f) : FaceOn m' f a b c := by
  unfold FaceOn at h ⊢
  rw [h2]
  exact h

/-- A well-formed tetrahedron stays one when the edges and the tetrahedra keep their
boundary lists and the four faces keep their edges. -/
theorem TetrahedronOn.of_shapes {m m' : Mesh} {t : Nat} {F : TetFrame}
    (h : TetrahedronOn m t F) (h1 : m'.shape 1 = m.shape 1) (h3 : m'.shape 3 = m.shape 3)
    (g0 : FaceOn m' F.f0 F.e12 F.e13 F.e23) (g1 : FaceOn m' F.f1 F.e02 F.e03 F.e23)
    (g2 : FaceOn m' F.f2 F.e01 F.e03 F.e13) (g3 : FaceOn m' F.f3 F.e01 F.e02 F.e12) :
    TetrahedronOn m' t F := by
  obtain ⟨a, b, c1, c2, c3, c4, c5, c6, -⟩ := h
  exact ⟨by rw [Mesh.boundary_list_shape h3]; exact a, b, c1.of_shape h1, c2.of_shape h1,
    c3.of_shape h1, c4.of_shape h1, c5.of_shape h1, c6.of_shape h1, g0, g1, g2, g3⟩

theorem list_map_fst_set {l : List (Bool × List Nat)} {k : Nat} {b B : List Nat}
    (h : l[k]? = some (true, b)) : (l.set k (true, B)).map Prod.fst = l.map Prod.fst := by
  rw [List.map_set]
  apply list_set_self
  rw [List.getElem?_map, h]
  rfl

/-- One call of `orient_face_helper` of `orient_faces_oppositely` on a well-formed
tetrahedron: it returns, the tetrahedron stays well-formed, and only boundary lists of
faces change. -/
theorem TetrahedronOn.orient_face {m : Mesh} {t : Nat} {F : TetFrame}
    (h : TetrahedronOn m t F) (f : Nat) (hf : f ∈ [F.f0, F.f1, F.f2, F.f3]) :
    ∃ m', orient_face_helper m 3 t f false = some m' ∧ TetrahedronOn m' t F ∧
      m'.shape 0 = m.shape 0 ∧ m'.shape 1 = m.shape 1 ∧ m'.shape 3 = m.shape 3 ∧
      (m'.shape 2).map Prod.fst = (m.shape 2).map Prod.fst := by
  have hfn := h.faces_nodup
  rw [nodup4_iff] at hfn
  obtain ⟨f01, f02, f03, f12, f13, f23⟩ := hfn
  obtain ⟨s0, l0, -⟩ := h.face0.2.2.2.2.face_live
  obtain ⟨s1, l1, -⟩ := h.face1.2.2.2.2.face_live
  obtain ⟨s2, l2, -⟩ := h.face2.2.2.2.2.face_live
  obtain ⟨s3, l3, -⟩ := h.face3.2.2.2.2.face_live
  have g0 := h.2.2.2.2.2.2.2.2.1
  have g1 := h.2.2.2.2.2.2.2.2.2.1
  have g2 := h.2.2.2.2.2.2.2.2.2.2.1
  have g3 := h.2.2.2.2.2.2.2.2.2.2.2
  simp only [List.mem_cons, List.mem_singleton, List.not_mem_nil, or_false] at hf
  rcases hf with rfl | rfl | rfl | rfl
  · obtain ⟨m', hm', r2, r0, r1, r3⟩ := orient_face_case0 h
    refine ⟨m', hm', h.of_shapes r1 r3 ?_ (g1.of_list (Mesh.boundary_list_set_ne r2 f01))
      (g2.of_list (Mesh.boundary_list_set_ne r2 f02))
      (g3.of_list (Mesh.boundary_list_set_ne r2 f03)), r0, r1, r3, ?_⟩
    · unfold FaceOn
      rw [Mesh.boundary_list_set_same (by rw [l0]; rfl) r2]
      simp
    · rw [r2, list_map_fst_set (Mesh.shape_of_lookup l0)]
  · obtain ⟨m', hm', r2, r0, r1, r3⟩ := orient_face_case1 h
    refine ⟨m', hm', h.of_shapes r1 r3 (g0.of_list (Mesh.boundary_list_set_ne r2 f01.symm)) ?_
      (g2.of_list (Mesh.boundary_list_set_ne r2 f12))
      (g3.of_list (Mesh.boundary_list_set_ne r2 f13)), r0, r1, r3, ?_⟩
    · unfold FaceOn
      rw [Mesh.boundary_list_set_same (by rw [l1]; rfl) r2]
      simp
    · rw [r2, list_map_fst_set (Mesh.shape_of_lookup l1)]
  · obtain ⟨m', hm', r2, r0, r1, r3⟩ := orient_face_case2 h
    refine ⟨m', hm', h.of_shapes r1 r3 (g0.of_list (Mesh.boundary_list_set_ne r2 f02.symm))
      (g1.of_list (Mesh.boundary_list_set_ne r2 f12.symm)) ?_
      (g3.of_list (Mesh.boundary_list_set_ne r2 f23)), r0, r1, r3, ?_⟩
    · unfold FaceOn
      rw [Mesh.boundary_list_set_same (by rw [l2]; rfl) r2]
      simp
    · rw [r2, list_map_fst_set (Mesh.shape_of_lookup l2)]
  · obtain ⟨m', hm', r2, r0, r1, r3⟩ := orient_face_case3 h
    refine ⟨m', hm', h.of_shapes r1 r3 (g0.of_list (Mesh.boundary_list_set_ne r2 f03.symm))
      (g1.of_list (Mesh.boundary_list_set_ne r2 f13.symm))
      (g2.of_list (Mesh.boundary_list_set_ne r2 f23.symm)) ?_, r0, r1, r3, ?_⟩
    · unfold FaceOn
      rw [Mesh.boundary_list_set_same (by rw [l3]; rfl) r2]
      simp
    · rw [r2, list_map_fst_set (Mesh.shape_of_lookup l3)]

/-- On a well-formed tetrahedron `orient_faces_oppositely` returns; the tetrahedron stays
well-formed and only boundary lists of faces change. -/
theorem TetrahedronOn.orient_faces {m : Mesh} {t : Nat} {F : TetFrame}
    (h : TetrahedronOn m t F) :
    ∃ m', orient_faces_oppositely m 3 t = some m' ∧ TetrahedronOn m' t F ∧
      m'.shape 0 = m.shape 0 ∧ m'.shape 1 = m.shape 1 ∧ m'.shape 3 = m.shape 3 ∧
      (m'.shape 2).map Prod.fst = (m.shape 2).map Prod.fst := by
  obtain ⟨st, hst, hbt⟩ := Mesh.lookup_of_boundary_list h.1 (by simp)
  obtain ⟨ma, ha, ta, a0, a1, a3, a2⟩ := h.orient_face F.f0 (by simp)
  obtain ⟨mb, hb, tb, b0, b1, b3, b2⟩ := ta.orient_face F.f1 (by simp)
  obtain ⟨mc, hc, tc, c0, c1, c3, c2⟩ := tb.orient_face F.f2 (by simp)
  obtain ⟨md, hd, td, d0, d1, d3, d2⟩ := tc.orient_face F.f3 (by simp)
  refine ⟨md, ?_, td, by rw [d0, c0, b0, a0], by rw [d1, c1, b1, a1], by rw [d3, c3, b3, a3],
    by rw [d2, c2, b2, a2]⟩
  unfold orient_faces_oppositely
  simp only [bind, hst, hbt, Option.some_bind, List.foldlM_cons, List.foldlM_nil, ha, hb, hc, hd,
    pure]

/-- The boundary set of a well-formed tetrahedron: its four nodes, six edges and four
faces, each once. -/
theorem TetrahedronOn.boundary_set {m : Mesh} {t : Nat} {F : TetFrame}
    (h : TetrahedronOn m t F) :
    ∃ R, boundary m 3 t SimplexSet.empty = some R ∧
      R.nodes.Perm [F.v0, F.v1, F.v2, F.v3] ∧
      R.edges.Perm [F.e01, F.e02, F.e03, F.e12, F.e13, F.e23] ∧
      R.faces.Perm [F.f0, F.f1, F.f2, F.f3] := by
  obtain ⟨st, hst, hbt⟩ := Mesh.lookup_of_boundary_list h.1 (by simp)
  obtain ⟨R, hR, hmem⟩ := @boundary_returns_of_live m 3 t (by decide) (by rw [hst]; rfl) (by
    intro d x hd hx
    have hlt := hx.lt
    have hc : d = 1 ∨ d = 2 := by omega
    rcases hc with rfl | rfl
    · rw [h.inBoundary_edges] at hx
      rcases hx with rfl | rfl | rfl | rfl | rfl | rfl
      · obtain ⟨s, hs, -⟩ := h.2.2.1.edge_live; rw [hs]; rfl
      · obtain ⟨s, hs, -⟩ := h.2.2.2.1.edge_live; rw [hs]; rfl
      · obtain ⟨s, hs, -⟩ := h.2.2.2.2.1.edge_live; rw [hs]; rfl
      · obtain ⟨s, hs, -⟩ := h.2.2.2.2.2.1.edge_live; rw [hs]; rfl
      · obtain ⟨s, hs, -⟩ := h.2.2.2.2.2.2.1.edge_live; rw [hs]; rfl
      · obtain ⟨s, hs, -⟩ := h.2.2.2.2.2.2.2.1.edge_live; rw [hs]; rfl
    · rw [h.inBoundary_faces] at hx
      rcases hx with rfl | rfl | rfl | rfl
      · obtain ⟨s, hs, -⟩ := h.face0.2.2.2.2.face_live; rw [hs]; rfl
      · obtain ⟨s, hs, -⟩ := h.face1.2.2.2.2.face_live; rw [hs]; rfl
      · obtain ⟨s, hs, -⟩ := h.face2.2.2.2.2.face_live; rw [hs]; rfl
      · obtain ⟨s, hs, -⟩ := h.face3.2.2.2.2.face_live; rw [hs]; rfl)
  obtain ⟨-, hsorted, -⟩ := boundary_helper_spec m 3 (by decide) t SimplexSet.empty R hR
  have hnd : ∀ d, (R.keys d).Nodup := fun d =>
    (hsorted d (by
      rcases d with _ | _ | _ | d <;> exact List.sorted_nil)).nodup
  obtain ⟨n1, n2, n3, n4, n5, n6, n7, n8, n9, n10, n11, n12, n13, n14, n15⟩ := h.edges_ne
  refine ⟨R, hR, ?_, ?_, ?_⟩
  · refine (List.perm_ext_iff_of_nodup (hnd 0) h.2.1).2 (fun x => ?_)
    rw [hmem 0 (by decide), h.inBoundary_tet]
    simp
  · refine (List.perm_ext_iff_of_nodup (hnd 1) ?_).2 (fun x => ?_)
    · simp only [List.nodup_cons, List.mem_cons, List.mem_singleton, List.not_mem_nil,
        or_false, not_or, not_false_eq_true, List.nodup_nil, and_true]
      exact ⟨⟨n1, n2, n3, n4, n5⟩, ⟨n6, n7, n8, n9⟩, ⟨n10, n11, n12⟩, ⟨n13, n14⟩, n15⟩
    · rw [hmem 1 (by decide), h.inBoundary_edges]
      simp
  · refine (List.perm_ext_iff_of_nodup (hnd 2) h.faces_nodup).2 (fun x => ?_)
    rw [hmem 2 (by decide), h.inBoundary_faces]
    simp

end ISMesh
namespace ISMesh

theorem Mesh.live_of_shape {m : Mesh} {d k : Nat} {b : List Nat}
    (h : (m.shape d)[k]? = some (true, b)) : (m.lookup_simplex d k).isSome := by
  obtain ⟨s, hs, -⟩ := Mesh.lookup_of_shape h
  rw [hs]; rfl

/-- A write that keeps the boundary list of a live simplex returns and keeps every shape. -/
theorem Mesh.modify_keep {m : Mesh} {d k : Nat} {b : List Nat} (f : Simplex → Simplex)
    (hf : ∀ s, (f s).m_boundary = s.m_boundary) (h : (m.shape d)[k]? = some (true, b)) :
    ∃ m', m.modify d k f = some m' ∧ ∀ d', m'.shape d' = m.shape d' := by
  obtain ⟨m', hm'⟩ := Mesh.modify_isSome f (Mesh.live_of_shape h)
  exact ⟨m', hm', Mesh.shape_modify_keep hf hm'⟩

theorem Mesh.modify_add_face {m : Mesh} {d k : Nat} {b : List Nat} (x : Nat)
    (h : (m.shape d)[k]? = some (true, b)) :
    ∃ m', m.modify d k (fun s => s.add_face x) = some m' ∧
      m'.shape d = (m.shape d).set k (true, b ++ [x]) ∧
      ∀ d', min d 3 ≠ min d' 3 → m'.shape d' = m.shape d' := by
  obtain ⟨m', hm'⟩ := Mesh.modify_isSome (fun s => s.add_face x) (Mesh.live_of_shape h)
  obtain ⟨h1, s, hs, h2⟩ := Mesh.shape_modify hm'
  obtain ⟨s', hs', hb⟩ := Mesh.lookup_of_shape h
  rw [hs] at hs'
  cases hs'
  refine ⟨m', hm', ?_, h1⟩
  rw [h2]
  simp only [Simplex.add_face, hb]

theorem list_set_append_last {α : Type} (l : List α) (x y : α) :
    (l ++ [x]).set l.length y = l ++ [y] := by
  induction l with
  | nil => rfl
  | cons a l ih => simp only [List.cons_append, List.length_cons, List.set_cons_succ, ih]

theorem list_getElem?_append_last {α : Type} (l : List α) (x : α) :
    (l ++ [x])[l.length]? = some x := by
  simp

/-- The overload `unsafe_insert_edge` appends one edge with the two nodes. -/
theorem unsafe_insert_edge_shape (m : Mesh) (a b : Nat) :
    ∃ m', unsafe_insert_edge m a b = some (m', (m.shape 1).length) ∧
      m'.shape 1 = m.shape 1 ++ [(true, [a, b])] ∧
      m'.shape 0 = m.shape 0 ∧ m'.shape 2 = m.shape 2 ∧ m'.shape 3 = m.shape 3 := by
  obtain ⟨c1, c2, c3⟩ := Mesh.shape_create m 1
  obtain ⟨m1, h1, s1, o1⟩ := @Mesh.modify_add_face (create m 1).1 1 (m.shape 1).length [] a
    (by rw [c1]; exact list_getElem?_append_last _ _)
  obtain ⟨m2, h2, s2, o2⟩ := @Mesh.modify_add_face m1 1 (m.shape 1).length [a] b
    (by rw [s1, c1, list_set_append_last]; exact list_getElem?_append_last _ _)
  refine ⟨m2, ?_, ?_, ?_, ?_, ?_⟩
  · unfold unsafe_insert_edge
    simp only [bind, c2, h1, h2, Option.some_bind, pure]
  · rw [s2, s1, c1, list_set_append_last, list_set_append_last]
    rfl
  · rw [o2 0 (by decide), o1 0 (by decide), c3 0 (by decide)]
  · rw [o2 2 (by decide), o1 2 (by decide), c3 2 (by decide)]
  · rw [o2 3 (by decide), o1 3 (by decide), c3 3 (by decide)]

/-- The overload `unsafe_insert_face` appends one face with the three edges. -/
theorem unsafe_insert_face_shape (m : Mesh) (a b c : Nat) :
    ∃ m', unsafe_insert_face m a b c = some (m', (m.shape 2).length) ∧
      m'.shape 2 = m.shape 2 ++ [(true, [a, b, c])] ∧
      m'.shape 0 = m.shape 0 ∧ m'.shape 1 = m.shape 1 ∧ m'.shape 3 = m.shape 3 := by
  obtain ⟨c1, c2, c3⟩ := Mesh.shape_create m 2
  obtain ⟨m1, h1, s1, o1⟩ := @Mesh.modify_add_face (create m 2).1 2 (m.shape 2).length [] a
    (by rw [c1]; exact list_getElem?_append_last _ _)
  obtain ⟨m2, h2, s2, o2⟩ := @Mesh.modify_add_face m1 2 (m.shape 2).length [a] b
    (by rw [s1, c1, list_set_append_last]; exact list_getElem?_append_last _ _)
  obtain ⟨m3, h3, s3, o3⟩ := @Mesh.modify_add_face m2 2 (m.shape 2).length [a, b] c
    (by rw [s2, s1, c1, list_set_append_last, list_set_append_last]
        exact list_getElem?_append_last _ _)
  refine ⟨m3, ?_, ?_, ?_, ?_, ?_⟩
  · unfold unsafe_insert_face
    simp only [bind, c2, h1, h2, h3, Option.some_bind, pure]
  · rw [s3, s2, s1, c1, list_set_append_last, list_set_append_last, list_set_append_last]
    rfl
  · rw [o3 0 (by decide), o2 0 (by decide), o1 0 (by decide), c3 0 (by decide)]
  · rw [o3 1 (by decide), o2 1 (by decide), o1 1 (by decide), c3 1 (by decide)]
  · rw [o3 3 (by decide), o2 3 (by decide), o1 3 (by decide), c3 3 (by decide)]

/-- The overload `unsafe_insert_tetrahedron` on four live faces appends one tetrahedron
with the four faces. -/
theorem unsafe_insert_tetrahedron_shape (m : Mesh) (a b c d : Nat)
    (ha : ∃ l, (m.shape 2)[a]? = some (true, l)) (hb : ∃ l, (m.shape 2)[b]? = some (true, l))
    (hc : ∃ l, (m.shape 2)[c]? = some (true, l)) (hd : ∃ l, (m.shape 2)[d]? = some (true, l)) :
    ∃ m', unsafe_insert_tetrahedron m a b c d = some (m', (m.shape 3).length) ∧
      m'.shape 3 = m.shape 3 ++ [(true, [a, b, c, d])] ∧
      m'.shape 0 = m.shape 0 ∧ m'.shape 1 = m.shape 1 ∧ m'.shape 2 = m.shape 2 := by
  obtain ⟨c1, c2, c3⟩ := Mesh.shape_create m 3
  obtain ⟨la, ha⟩ := ha
  obtain ⟨lb, hb⟩ := hb
  obtain ⟨lc, hc⟩ := hc
  obtain ⟨ld, hd⟩ := hd
  have k0 := c3 2 (by decide)
  obtain ⟨x1, g1, k1⟩ := @Mesh.modify_keep (create m 3).1 2 a la
    (fun x => x.add_co_face (m.shape 3).length) (fun _ => rfl) (by rw [k0]; exact ha)
  obtain ⟨x2, g2, k2⟩ := @Mesh.modify_keep x1 2 b lb
    (fun x => x.add_co_face (m.shape 3).length) (fun _ => rfl) (by rw [k1, k0]; exact hb)
  obtain ⟨x3, g3, k3⟩ := @Mesh.modify_keep x2 2 c lc
    (fun x => x.add_co_face (m.shape 3).length) (fun _ => rfl) (by rw [k2, k1, k0]; exact hc)
  obtain ⟨x4, g4, k4⟩ := @Mesh.modify_keep x3 2 d ld
    (fun x => x.add_co_face (m.shape 3).length) (fun _ => rfl) (by rw [k3, k2, k1, k0]; exact hd)
  obtain ⟨m1, h1, s1, o1⟩ := @Mesh.modify_add_face x4 3 (m.shape 3).length [] a
    (by rw [k4, k3, k2, k1, c1]; exact list_getElem?_append_last _ _)
  obtain ⟨m2, h2, s2, o2⟩ := @Mesh.modify_add_face m1 3 (m.shape 3).length [a] b
    (by rw [s1, k4, k3, k2, k1, c1, list_set_append_last]; exact list_getElem?_append_last _ _)
  obtain ⟨m3, h3, s3, o3⟩ := @Mesh.modify_add_face m2 3 (m.shape 3).length [a, b] c
    (by rw [s2, s1, k4, k3, k2, k1, c1, list_set_append_last, list_set_append_last]
        exact list_getElem?_append_last _ _)
  obtain ⟨m4, h4, s4, o4⟩ := @Mesh.modify_add_face m3 3 (m.shape 3).length [a, b, c] d
    (by rw [s3, s2, s1, k4, k3, k2, k1, c1, list_set_append_last, list_set_append_last,
          list_set_append_last]
        exact list_getElem?_append_last _ _)
  refine ⟨m4, ?_, ?_, ?_, ?_, ?_⟩
  · unfold unsafe_insert_tetrahedron insert_tetrahedron_relations
    simp only [bind, c2, g1, g2, g3, g4, h1, h2, h3, h4, Option.some_bind, pure]
  · rw [s4, s3, s2, s1, k4, k3, k2, k1, c1, list_set_append_last, list_set_append_last,
      list_set_append_last, list_set_append_last]
    rfl
  · rw [o4 0 (by decide), o3 0 (by decide), o2 0 (by decide), o1 0 (by decide), k4, k3, k2, k1,
      c3 0 (by decide)]
  · rw [o4 1 (by decide), o3 1 (by decide), o2 1 (by decide), o1 1 (by decide), k4, k3, k2, k1,
      c3 1 (by decide)]
  · rw [o4 2 (by decide), o3 2 (by decide), o2 2 (by decide), o1 2 (by decide), k4, k3, k2, k1,
      c3 2 (by decide)]

/-- The call `insert_node(is_compact)` appends one node. -/
theorem insert_node_shape (m : Mesh) (c : Bool) :
    ∃ m', insert_node m c = some (m', (m.shape 0).length) ∧
      m'.shape 0 = m.shape 0 ++ [(true, [])] ∧
      m'.shape 1 = m.shape 1 ∧ m'.shape 2 = m.shape 2 ∧ m'.shape 3 = m.shape 3 := by
  obtain ⟨c1, c2, c3⟩ := Mesh.shape_create m 0
  obtain ⟨x1, g1, k1⟩ := @Mesh.modify_keep (create m 0).1 0 (m.shape 0).length []
    (fun x => x.set_compact c) (fun _ => rfl) (by rw [c1]; exact list_getElem?_append_last _ _)
  refine ⟨x1, ?_, by rw [k1, c1], by rw [k1, c3 1 (by decide)], by rw [k1, c3 2 (by decide)],
    by rw [k1, c3 3 (by decide)]⟩
  unfold insert_node
  simp only [bind, c2, g1, Option.some_bind, pure]

/-- The overload `unsafe_remove` of a well-formed tetrahedron returns; the slot of the
tetrahedron is no longer valid and nothing else changes shape. -/
theorem TetrahedronOn.remove {m : Mesh} {t : Nat} {F : TetFrame} (h : TetrahedronOn m t F) :
    ∃ m', unsafe_remove_tetrahedron m t = some m' ∧
      m'.shape 3 = (m.shape 3).set t (false, [F.f0, F.f1, F.f2, F.f3]) ∧
      m'.shape 0 = m.shape 0 ∧ m'.shape 1 = m.shape 1 ∧ m'.shape 2 = m.shape 2 := by
  obtain ⟨st, hst, hbt⟩ := Mesh.lookup_of_boundary_list h.1 (by simp)
  obtain ⟨s0, l0, -⟩ := h.face0.2.2.2.2.face_live
  obtain ⟨s1, l1, -⟩ := h.face1.2.2.2.2.face_live
  obtain ⟨s2, l2, -⟩ := h.face2.2.2.2.2.face_live
  obtain ⟨s3, l3, -⟩ := h.face3.2.2.2.2.face_live
  obtain ⟨x1, g1, k1⟩ := @Mesh.modify_keep m 2 F.f0 _
    (fun x => x.remove_co_face t) (fun _ => rfl) (Mesh.shape_of_lookup l0)
  obtain ⟨x2, g2, k2⟩ := @Mesh.modify_keep x1 2 F.f1 _
    (fun x => x.remove_co_face t) (fun _ => rfl) (by rw [k1]; exact Mesh.shape_of_lookup l1)
  obtain ⟨x3, g3, k3⟩ := @Mesh.modify_keep x2 2 F.f2 _
    (fun x => x.remove_co_face t) (fun _ => rfl) (by rw [k2, k1]; exact Mesh.shape_of_lookup l2)
  obtain ⟨x4, g4, k4⟩ := @Mesh.modify_keep x3 2 F.f3 _
    (fun x => x.remove_co_face t) (fun _ => rfl)
    (by rw [k3, k2, k1]; exact Mesh.shape_of_lookup l3)
  have hk : ∀ d, x4.shape d = m.shape d := fun d => by rw [k4, k3, k2, k1]
  obtain ⟨m', hm'⟩ := @unsafe_erase_returns x4 3 t
    (Mesh.live_of_shape ((congrArg (fun l => l[t]?) (hk 3)).trans (Mesh.shape_of_lookup hst)))
  obtain ⟨e1, s, hs, e2⟩ := Mesh.shape_erase hm'
  have hsb : s.m_boundary = [F.f0, F.f1, F.f2, F.f3] := by
    have := Mesh.shape_of_lookup hs
    rw [hk 3, Mesh.shape_of_lookup hst, hbt] at this
    simpa using this.symm
  refine ⟨m', ?_, by rw [e2, hk, hsb], by rw [e1 0 (by decide), hk],
    by rw [e1 1 (by decide), hk], by rw [e1 2 (by decide), hk]⟩
  unfold unsafe_remove_tetrahedron
  simp only [bind, hst, hbt, Option.some_bind, List.foldlM_cons, List.foldlM_nil, g1, g2, g3, g4,
    pure, hm']

end ISMesh
namespace ISMesh

/-- One round of the loop of `split_tetrahedron_helper` over the nodes: the edge from the
node to the new node `n` is appended. -/
theorem split_tetrahedron_edge_shape (n : Nat) (m : Mesh) (mp : List (Nat × Nat)) (b : Bool)
    (v : Nat) (hn : ∃ l, (m.shape 0)[n]? = some (true, l)) :
    ∃ m', split_tetrahedron_edge n (m, mp, b) v
        = some (m', map_set v (m.shape 1).length mp, false) ∧
      m'.shape 1 = m.shape 1 ++ [(true, [v, n])] ∧
      m'.shape 0 = m.shape 0 ∧ m'.shape 2 = m.shape 2 ∧ m'.shape 3 = m.shape 3 := by
  obtain ⟨l, hn⟩ := hn
  obtain ⟨m1, h1, s1, s0, s2, s3⟩ := unsafe_insert_edge_shape m v n
  obtain ⟨m2, h2, k2⟩ := @Mesh.modify_keep m1 1 (m.shape 1).length [v, n]
    (fun x => x.set_compact true) (fun _ => rfl)
    (by rw [s1]; exact list_getElem?_append_last _ _)
  obtain ⟨m3, h3, k3⟩ := @Mesh.modify_keep m2 0 n l
    (fun x => x.add_co_face (m.shape 1).length) (fun _ => rfl) (by rw [k2, s0]; exact hn)
  unfold split_tetrahedron_edge
  simp only [bind, h1, h2, Option.some_bind, pure]
  cases b
  · exact ⟨m2, by simp, by rw [k2, s1], by rw [k2, s0], by rw [k2, s2], by rw [k2, s3]⟩
  · exact ⟨m3, by simp [h3], by rw [k3, k2, s1], by rw [k3, k2, s0], by rw [k3, k2, s2],
      by rw [k3, k2, s3]⟩

/-- The loop of `split_tetrahedron_helper` over the nodes. -/
theorem split_edges_loop (n : Nat) : ∀ (L : List Nat) (m : Mesh) (mp : List (Nat × Nat))
    (b : Bool), (∃ l, (m.shape 0)[n]? = some (true, l)) → L.Nodup →
    ∃ m' mp' b', L.foldlM (split_tetrahedron_edge n) (m, mp, b) = some (m', mp', b') ∧
      m'.shape 1 = m.shape 1 ++ L.map (fun v => (true, [v, n])) ∧
      m'.shape 0 = m.shape 0 ∧ m'.shape 2 = m.shape 2 ∧ m'.shape 3 = m.shape 3 ∧
      (∀ v ∈ L, (m.shape 1).length ≤ map_get v mp' ∧
        (m'.shape 1)[map_get v mp']? = some (true, [v, n])) ∧
      (∀ v, v ∉ L → map_get v mp' = map_get v mp) := by
  intro L
  induction L with
  | nil =>
    intro m mp b _ _
    exact ⟨m, mp, b, rfl, by simp, rfl, rfl, rfl, fun v hv => absurd hv (List.not_mem_nil v),
      fun _ _ => rfl⟩
  | cons a L ih =>
    intro m mp b hn hnd
    obtain ⟨m1, h1, s1, s0, s2, s3⟩ := split_tetrahedron_edge_shape n m mp b a hn
    obtain ⟨ha, hnd'⟩ := List.nodup_cons.1 hnd
    obtain ⟨m', mp', b', hf, r1, r0, r2, r3, rmap, rout⟩ :=
      ih m1 (map_set a (m.shape 1).length mp) false (by rw [s0]; exact hn) hnd'
    refine ⟨m', mp', b', ?_, ?_, by rw [r0, s0], by rw [r2, s2], by rw [r3, s3], ?_, ?_⟩
    · rw [List.foldlM_cons]
      simp only [bind, h1, Option.some_bind]
      exact hf
    · rw [r1, s1, List.map_cons, List.append_assoc]
      rfl
    · intro v hv
      rcases List.mem_cons.1 hv with rfl | hv
      · rw [rout v ha, map_get_map_set_same]
        refine ⟨le_refl _, ?_⟩
        rw [r1, s1, List.append_assoc, List.getElem?_append_right (le_refl _)]
        simp
      · obtain ⟨q1, q2⟩ := rmap v hv
        refine ⟨?_, q2⟩
        rw [s1, List.length_append] at q1
        exact le_trans (Nat.le_add_right _ _) q1
    · intro v hv
      rw [List.mem_cons, not_or] at hv
      rw [rout v hv.2, map_get_map_set_ne hv.1]

/-- One round of the loop of `split_tetrahedron_helper` over the edges: the face on the
edge and the two new edges of its nodes is appended. -/
theorem split_tetrahedron_face_shape (n2e : List (Nat × Nat)) (m : Mesh)
    (mp : List (Nat × Nat)) (e n1 n2 : Nat) (he : (m.shape 1)[e]? = some (true, [n1, n2]))
    (h1 : ∃ l, (m.shape 1)[map_get n1 n2e]? = some (true, l))
    (h2 : ∃ l, (m.shape 1)[map_get n2 n2e]? = some (true, l)) :
    ∃ m', split_tetrahedron_face n2e (m, mp) e = some (m', map_set e (m.shape 2).length mp) ∧
      m'.shape 2 = m.shape 2 ++ [(true, [e, map_get n1 n2e, map_get n2 n2e])] ∧
      m'.shape 0 = m.shape 0 ∧ m'.shape 1 = m.shape 1 ∧ m'.shape 3 = m.shape 3 := by
  obtain ⟨l1, h1⟩ := h1
  obtain ⟨l2, h2⟩ := h2
  obtain ⟨s, hs, hb⟩ := Mesh.lookup_of_shape he
  obtain ⟨x1, g1, s2, s0, s1, s3⟩ :=
    unsafe_insert_face_shape m e (map_get n1 n2e) (map_get n2 n2e)
  obtain ⟨a1, ha1, -⟩ := Mesh.lookup_of_shape ((congrArg (fun l => l[map_get n1 n2e]?) s1).trans h1)
  obtain ⟨a2, ha2, -⟩ := Mesh.lookup_of_shape ((congrArg (fun l => l[map_get n2 n2e]?) s1).trans h2)
  have step : ∀ (x : Mesh) (k : Nat) (c : Bool), (∀ d, x.shape d = x1.shape d) →
      (∃ l, (x1.shape 1)[k]? = some (true, l)) →
      ∃ y, (if c then x.modify 1 k (fun z => z.add_co_face (m.shape 2).length) else some x)
        = some y ∧ ∀ d, y.shape d = x1.shape d := by
    intro x k c hx hk
    obtain ⟨l, hk⟩ := hk
    cases c
    · exact ⟨x, rfl, hx⟩
    · obtain ⟨y, hy, ky⟩ := @Mesh.modify_keep x 1 k l
        (fun z => z.add_co_face (m.shape 2).length) (fun _ => rfl) (by rw [hx]; exact hk)
      exact ⟨y, by simpa using hy, fun d => by rw [ky, hx]⟩
  obtain ⟨x2, g2, k2⟩ := step x1 (map_get n1 n2e) a1.m_co_boundary.isEmpty (fun _ => rfl)
    ⟨l1, by rw [s1]; exact h1⟩
  obtain ⟨b2, hb2, -⟩ := Mesh.lookup_of_shape
    ((congrArg (fun l => l[map_get n2 n2e]?) ((k2 1).trans s1)).trans h2)
  obtain ⟨x3, g3, k3⟩ := step x2 (map_get n2 n2e) b2.m_co_boundary.isEmpty k2
    ⟨l2, by rw [s1]; exact h2⟩
  refine ⟨x3, ?_, by rw [k3, s2], by rw [k3, s0], by rw [k3, s1], by rw [k3, s3]⟩
  unfold split_tetrahedron_face
  simp only [bind, hs, hb, Option.some_bind, List.length_cons, List.length_nil, ne_eq,
    not_true_eq_false, if_false, List.getElem?_cons_zero, List.getElem?_cons_succ, g1, ha1, ha2,
    g2, hb2, g3, pure, Nat.reduceAdd, zero_add]

/-- The loop of `split_tetrahedron_helper` over the edges. -/
theorem split_faces_loop (n2e : List (Nat × Nat)) : ∀ (L : List Nat) (m : Mesh)
    (mp : List (Nat × Nat)), L.Nodup →
    (∀ e ∈ L, ∃ n1 n2, (m.shape 1)[e]? = some (true, [n1, n2]) ∧
      (∃ l, (m.shape 1)[map_get n1 n2e]? = some (true, l)) ∧
      (∃ l, (m.shape 1)[map_get n2 n2e]? = some (true, l))) →
    ∃ m' mp', L.foldlM (split_tetrahedron_face n2e) (m, mp) = some (m', mp') ∧
      m'.shape 2 = m.shape 2 ++
        L.map (fun e => (true, e :: (m.boundary_list 1 e).map (fun v => map_get v n2e))) ∧
      m'.shape 0 = m.shape 0 ∧ m'.shape 1 = m.shape 1 ∧ m'.shape 3 = m.shape 3 ∧
      (∀ e ∈ L, (m.shape 2).length ≤ map_get e mp' ∧ (m'.shape 2)[map_get e mp']? =
        some (true, e :: (m.boundary_list 1 e).map (fun v => map_get v n2e))) ∧
      (∀ e, e ∉ L → map_get e mp' = map_get e mp) := by
  intro L
  induction L with
  | nil =>
    intro m mp _ _
    exact ⟨m, mp, rfl, by simp, rfl, rfl, rfl, fun v hv => absurd hv (List.not_mem_nil v),
      fun _ _ => rfl⟩
  | cons a L ih =>
    intro m mp hnd hL
    obtain ⟨n1, n2, he, hl1, hl2⟩ := hL a (List.mem_cons_self _ _)
    obtain ⟨m1, h1, s2, s0, s1, s3⟩ := split_tetrahedron_face_shape n2e m mp a n1 n2 he hl1 hl2
    obtain ⟨ha, hnd'⟩ := List.nodup_cons.1 hnd
    have hbl : ∀ e, m1.boundary_list 1 e = m.boundary_list 1 e := Mesh.boundary_list_shape s1
    obtain ⟨m', mp', hf, r2, r0, r1, r3, rmap, rout⟩ :=
      ih m1 (map_set a (m.shape 2).length mp) hnd' (by
        intro e he'
        rw [s1]
        exact hL e (List.mem_cons_of_mem _ he'))
    simp only [hbl] at r2 rmap
    have hba : m.boundary_list 1 a = [n1, n2] := Mesh.boundary_list_of_shape he
    refine ⟨m', mp', ?_, ?_, by rw [r0, s0], by rw [r1, s1], by rw [r3, s3], ?_, ?_⟩
    · rw [List.foldlM_cons]
      simp only [bind, h1, Option.some_bind]
      exact hf
    · rw [r2, s2, List.map_cons, List.append_assoc, hba]
      rfl
    · intro v hv
      rcases List.mem_cons.1 hv with rfl | hv
      · rw [rout v ha, map_get_map_set_same]
        refine ⟨le_refl _, ?_⟩
        rw [r2, s2, List.append_assoc, List.getElem?_append_right (le_refl _), hba]
        simp
      · obtain ⟨q1, q2⟩ := rmap v hv
        refine ⟨?_, q2⟩
        rw [s2, List.length_append] at q1
        exact le_trans (Nat.le_add_right _ _) q1
    · intro v hv
      rw [List.mem_cons, not_or] at hv
      rw [rout v hv.2, map_get_map_set_ne hv.1]

theorem map_get_three {e1 e2 e3 : Nat} (k1 k2 k3 : Nat) (h : [e1, e2, e3].Nodup) :
    [e1, e2, e3].map (fun sb => map_get sb (map_set e3 k3 (map_set e2 k2 (map_set e1 k1 []))))
      = [k1, k2, k3] := by
  rw [nodup3_iff] at h
  obtain ⟨h12, h13, h23⟩ := h
  simp only [List.map_cons, List.map_nil]
  rw [map_get_map_set_ne h13, map_get_map_set_ne h12, map_get_map_set_same,
    map_get_map_set_ne h23, map_get_map_set_same, map_get_map_set_same]

/-- The end of `orient_coface_oppositely` on a tetrahedron: the new boundary list is written
and its first two entries are swapped. -/
theorem orient_coface_finish {m : Mesh} {k : Nat} {l : List Nat}
    (hk : (m.shape 3)[k]? = some (true, l)) (a b c d : Nat) :
    ∃ m', (m.modify 3 k (fun x => x.set_boundary_list [a, b, c, d])).bind
        (fun m1 => invert_orientation m1 3 k) = some m' ∧
      m'.shape 3 = (m.shape 3).set k (true, [b, a, c, d]) ∧
      m'.shape 0 = m.shape 0 ∧ m'.shape 1 = m.shape 1 ∧ m'.shape 2 = m.shape 2 := by
  obtain ⟨sk, hsk, -⟩ := Mesh.lookup_of_shape hk
  obtain ⟨m1, hm1⟩ := Mesh.modify_isSome (fun x => x.set_boundary_list [a, b, c, d])
    (by rw [hsk]; rfl : (m.lookup_simplex 3 k).isSome)
  obtain ⟨s1, s2⟩ := Mesh.shape_set_boundary (by decide) hm1
  rw [hm1, Option.some_bind]
  have hl : m1.lookup_simplex 3 k = some (sk.set_boundary_list [a, b, c, d]) := by
    rw [Mesh.lookup_modify_same hm1, hsk]; rfl
  obtain ⟨m2, hm2⟩ := Mesh.modify_isSome (fun x => x.set_boundary_list [b, a, c, d])
    (by rw [hl]; rfl : (m1.lookup_simplex 3 k).isSome)
  obtain ⟨r1, r2⟩ := Mesh.shape_set_boundary (by decide) hm2
  refine ⟨m2, ?_, ?_, ?_, ?_, ?_⟩
  · unfold invert_orientation
    rw [if_neg (by decide)]
    simp only [bind, hl, Option.some_bind, Simplex.set_boundary_list]
    exact hm2
  · rw [r1, s1, List.set_set]
  · rw [r2 0 (by decide) (by decide), s2 0 (by decide) (by decide)]
  · rw [r2 1 (by decide) (by decide), s2 1 (by decide) (by decide)]
  · rw [r2 2 (by decide) (by decide), s2 2 (by decide) (by decide)]

/-- One round of the loop of `split_tetrahedron_helper` over the faces: the tetrahedron on
the face and the three new faces of its edges is appended, the face second in its boundary
list. -/
theorem split_tetrahedron_fill_shape (t : Nat) (e2f : List (Nat × Nat)) (m : Mesh)
    (mp : List (Nat × Nat)) (f e1 e2 e3 : Nat) (r1 r2 r3 : List Nat)
    (hf : (m.shape 2)[f]? = some (true, [e1, e2, e3])) (hnd : [e1, e2, e3].Nodup)
    (h1 : (m.shape 2)[map_get e1 e2f]? = some (true, e1 :: r1))
    (h2 : (m.shape 2)[map_get e2 e2f]? = some (true, e2 :: r2))
    (h3 : (m.shape 2)[map_get e3 e2f]? = some (true, e3 :: r3))
    (d1 : ∀ y ∈ r1, y ∉ [e1, e2, e3]) (d2 : ∀ y ∈ r2, y ∉ [e1, e2, e3])
    (d3 : ∀ y ∈ r3, y ∉ [e1, e2, e3])
    (n1 : map_get e1 e2f ≠ f) (n2 : map_get e2 e2f ≠ f) (n3 : map_get e3 e2f ≠ f) :
    ∃ m', split_tetrahedron_fill t e2f (m, mp) f
        = some (m', map_set (m.shape 3).length t mp) ∧
      m'.shape 3 = m.shape 3 ++
        [(true, [map_get e1 e2f, f, map_get e2 e2f, map_get e3 e2f])] ∧
      m'.shape 0 = m.shape 0 ∧ m'.shape 1 = m.shape 1 ∧ m'.shape 2 = m.shape 2 := by
  obtain ⟨sf, hsf, hbf⟩ := Mesh.lookup_of_shape hf
  obtain ⟨x1, g1, s3, s0, s1, s2⟩ := unsafe_insert_tetrahedron_shape m f (map_get e1 e2f)
    (map_get e2 e2f) (map_get e3 e2f) ⟨_, hf⟩ ⟨_, h1⟩ ⟨_, h2⟩ ⟨_, h3⟩
  have hbl : ∀ e, x1.boundary_list 2 e = m.boundary_list 2 e := Mesh.boundary_list_shape s2
  have bf : x1.boundary_list 2 f = [e1, e2, e3] := by
    rw [hbl]; exact Mesh.boundary_list_of_shape hf
  have b1 : x1.boundary_list 2 (map_get e1 e2f) = e1 :: r1 := by
    rw [hbl]; exact Mesh.boundary_list_of_shape h1
  have b2 : x1.boundary_list 2 (map_get e2 e2f) = e2 :: r2 := by
    rw [hbl]; exact Mesh.boundary_list_of_shape h2
  have b3 : x1.boundary_list 2 (map_get e3 e2f) = e3 :: r3 := by
    rw [hbl]; exact Mesh.boundary_list_of_shape h3
  have hnd' := hnd
  rw [nodup3_iff] at hnd'
  obtain ⟨h12, h13, h23⟩ := hnd'
  have i1 : get_intersection x1 2 f (map_get e1 e2f) = some (some e1) := by
    apply get_intersection_sibling n1.symm (by rw [bf]; simp) (by rw [b1]; simp)
    intro x hx hx'
    rw [b1] at hx'
    rw [bf] at hx
    rcases List.mem_cons.1 hx' with h | h
    · exact h
    · exact absurd hx (d1 x h)
  have i2 : get_intersection x1 2 f (map_get e2 e2f) = some (some e2) := by
    apply get_intersection_sibling n2.symm (by rw [bf]; simp) (by rw [b2]; simp)
    intro x hx hx'
    rw [b2] at hx'
    rw [bf] at hx
    rcases List.mem_cons.1 hx' with h | h
    · exact h
    · exact absurd hx (d2 x h)
  have i3 : get_intersection x1 2 f (map_get e3 e2f) = some (some e3) := by
    apply get_intersection_sibling n3.symm (by rw [bf]; simp) (by rw [b3]; simp)
    intro x hx hx'
    rw [b3] at hx'
    rw [bf] at hx
    rcases List.mem_cons.1 hx' with h | h
    · exact h
    · exact absurd hx (d3 x h)
  have hk : (x1.shape 3)[(m.shape 3).length]? =
      some (true, [f, map_get e1 e2f, map_get e2 e2f, map_get e3 e2f]) := by
    rw [s3]; exact list_getElem?_append_last _ _
  obtain ⟨st, hst, hbt⟩ := Mesh.lookup_of_shape hk
  obtain ⟨sf1, hsf1, hbf1⟩ := Mesh.lookup_of_boundary_list bf (by simp)
  obtain ⟨x2, g2, q3, q0, q1, q2⟩ := orient_coface_finish hk f (map_get e1 e2f)
    (map_get e2 e2f) (map_get e3 e2f)
  refine ⟨x2, ?_, ?_, by rw [q0, s0], by rw [q1, s1], by rw [q2, s2]⟩
  · unfold split_tetrahedron_fill
    simp only [bind, hsf, hbf, Option.some_bind, List.length_cons, List.length_nil, ne_eq,
      not_true_eq_false, if_false, List.getElem?_cons_zero, List.getElem?_cons_succ, g1, pure,
      Nat.reduceAdd, zero_add]
    have ho : orient_coface_oppositely x1 2 f (m.shape 3).length = some x2 := by
      rw [← g2]
      unfold orient_coface_oppositely orient_coface_helper
      rw [if_neg (by decide)]
      simp only [bind, hsf1, hst, hbt, hbf1, Option.some_bind, List.foldlM_cons,
        List.foldlM_nil, ne_eq, not_true_eq_false, if_false, n1, n2, n3, not_false_eq_true,
        if_true, i1, i2, i3, pure, map_get_three _ _ _ hnd, List.length_cons, List.length_nil,
        List.drop_succ_cons, List.drop_nil, List.append_nil, Nat.lt_irrefl, Bool.false_eq_true]
    rw [ho]
    rfl
  · rw [q3, s3, list_set_append_last]



/-- The loop of `split_tetrahedron_helper` over the faces. -/
theorem split_fill_loop (t : Nat) (e2f : List (Nat × Nat)) : ∀ (L : List Nat) (m : Mesh)
    (mp : List (Nat × Nat)),
    (∀ f ∈ L, ∃ e1 e2 e3 r1 r2 r3, (m.shape 2)[f]? = some (true, [e1, e2, e3]) ∧
      [e1, e2, e3].Nodup ∧
      (m.shape 2)[map_get e1 e2f]? = some (true, e1 :: r1) ∧
      (m.shape 2)[map_get e2 e2f]? = some (true, e2 :: r2) ∧
      (m.shape 2)[map_get e3 e2f]? = some (true, e3 :: r3) ∧
      (∀ y ∈ r1, y ∉ [e1, e2, e3]) ∧ (∀ y ∈ r2, y ∉ [e1, e2, e3]) ∧
      (∀ y ∈ r3, y ∉ [e1, e2, e3]) ∧
      map_get e1 e2f ≠ f ∧ map_get e2 e2f ≠ f ∧ map_get e3 e2f ≠ f) →
    ∃ m' mp', L.foldlM (split_tetrahedron_fill t e2f) (m, mp) = some (m', mp') ∧
      m'.shape 3 = m.shape 3 ++ L.map (fun f => (true,
        ((m.boundary_list 2 f).map (fun e => map_get e e2f)).take 1 ++
          f :: ((m.boundary_list 2 f).map (fun e => map_get e e2f)).drop 1)) ∧
      m'.shape 0 = m.shape 0 ∧ m'.shape 1 = m.shape 1 ∧ m'.shape 2 = m.shape 2 := by
  intro L
  induction L with
  | nil =>
    intro m mp _
    exact ⟨m, mp, rfl, by simp, rfl, rfl, rfl⟩
  | cons a L ih =>
    intro m mp hL
    obtain ⟨e1, e2, e3, r1, r2, r3, hf, hnd, h1, h2, h3, d1, d2, d3, n1, n2, n3⟩ :=
      hL a (List.mem_cons_self _ _)
    obtain ⟨m1, g1, s3, s0, s1, s2⟩ := split_tetrahedron_fill_shape t e2f m mp a e1 e2 e3
      r1 r2 r3 hf hnd h1 h2 h3 d1 d2 d3 n1 n2 n3
    have hbl : ∀ e, m1.boundary_list 2 e = m.boundary_list 2 e := Mesh.boundary_list_shape s2
    obtain ⟨m', mp', hfold, q3, q0, q1, q2⟩ := ih m1 (map_set (m.shape 3).length t mp) (by
      intro f hf'
      rw [s2]
      exact hL f (List.mem_cons_of_mem _ hf'))
    simp only [hbl] at q3
    have hba : m.boundary_list 2 a = [e1, e2, e3] := Mesh.boundary_list_of_shape hf
    refine ⟨m', mp', ?_, ?_, by rw [q0, s0], by rw [q1, s1], by rw [q2, s2]⟩
    · rw [List.foldlM_cons]
      simp only [bind, g1, Option.some_bind]
      exact hfold
    · rw [q3, s3, List.map_cons, List.append_assoc, hba]
      rfl

theorem EdgeOn.shape {m : Mesh} {e x y : Nat} (h : EdgeOn m e x y) :
    ∃ n1 n2, (m.shape 1)[e]? = some (true, [n1, n2]) ∧ (n1 = x ∨ n1 = y) ∧
      (n2 = x ∨ n2 = y) := by
  obtain ⟨s, hs, hb⟩ := h.edge_live
  have hsh := Mesh.shape_of_lookup hs
  rw [hb] at hsh
  unfold EdgeOn at h
  simp only [List.mem_cons, List.mem_singleton, List.not_mem_nil, or_false] at h
  rcases h with h | h
  · exact ⟨x, y, by rw [hsh, h], Or.inl rfl, Or.inr rfl⟩
  · exact ⟨y, x, by rw [hsh, h], Or.inr rfl, Or.inl rfl⟩

theorem getElem?_append_of_some {α : Type} {l : List α} {i : Nat} {a : α} (l' : List α)
    (h : l[i]? = some a) : (l ++ l')[i]? = some a := by
  rw [List.getElem?_append_left (List.getElem?_eq_some.1 h).1]
  exact h

theorem lt_length_of_getElem? {α : Type} {l : List α} {i : Nat} {a : α}
    (h : l[i]? = some a) : i < l.length := (List.getElem?_eq_some.1 h).1

theorem length_of_map_fst {l l' : List (Bool × List Nat)}
    (h : l'.map Prod.fst = l.map Prod.fst) : l'.length = l.length := by
  have := congrArg List.length h
  simpa using this

end ISMesh
namespace ISMesh

/-- The edges of the four faces of a well-formed tetrahedron are among its six edges. -/
theorem TetrahedronOn.edge_of_face {m : Mesh} {t : Nat} {F : TetFrame}
    (h : TetrahedronOn m t F) {f e : Nat} (hf : f ∈ [F.f0, F.f1, F.f2, F.f3])
    (he : e ∈ m.boundary_list 2 f) :
    e ∈ [F.e01, F.e02, F.e03, F.e12, F.e13, F.e23] := by
  have : InBoundary m 3 t 1 e := by
    rw [InBoundary.gap_more (by omega), h.1]
    exact ⟨f, hf, InBoundary.gap_one.2 he⟩
  rw [h.inBoundary_edges] at this
  simpa using this

/-- The six edges of a well-formed tetrahedron are live edges between two of its nodes. -/
theorem TetrahedronOn.edge_shape {m : Mesh} {t : Nat} {F : TetFrame}
    (h : TetrahedronOn m t F) {e : Nat}
    (he : e ∈ [F.e01, F.e02, F.e03, F.e12, F.e13, F.e23]) :
    ∃ n1 n2, (m.shape 1)[e]? = some (true, [n1, n2]) ∧ n1 ∈ [F.v0, F.v1, F.v2, F.v3] ∧
      n2 ∈ [F.v0, F.v1, F.v2, F.v3] := by
  obtain ⟨-, -, c1, c2, c3, c4, c5, c6, -⟩ := h
  simp only [List.mem_cons, List.mem_singleton, List.not_mem_nil, or_false] at he
  rcases he with rfl | rfl | rfl | rfl | rfl | rfl
  · obtain ⟨n1, n2, hs, a, b⟩ := c1.shape
    exact ⟨n1, n2, hs, by rcases a with rfl | rfl <;> simp, by rcases b with rfl | rfl <;> simp⟩
  · obtain ⟨n1, n2, hs, a, b⟩ := c2.shape
    exact ⟨n1, n2, hs, by rcases a with rfl | rfl <;> simp, by rcases b with rfl | rfl <;> simp⟩
  · obtain ⟨n1, n2, hs, a, b⟩ := c3.shape
    exact ⟨n1, n2, hs, by rcases a with rfl | rfl <;> simp, by rcases b with rfl | rfl <;> simp⟩
  · obtain ⟨n1, n2, hs, a, b⟩ := c4.shape
    exact ⟨n1, n2, hs, by rcases a with rfl | rfl <;> simp, by rcases b with rfl | rfl <;> simp⟩
  · obtain ⟨n1, n2, hs, a, b⟩ := c5.shape
    exact ⟨n1, n2, hs, by rcases a with rfl | rfl <;> simp, by rcases b with rfl | rfl <;> simp⟩
  · obtain ⟨n1, n2, hs, a, b⟩ := c6.shape
    exact ⟨n1, n2, hs, by rcases a with rfl | rfl <;> simp, by rcases b with rfl | rfl <;> simp⟩

/-- The shapes of the four kernels after `split_tetrahedron` on a well-formed tetrahedron:
one node, four edges, six faces and four tetrahedra are appended and the slot of the
tetrahedron is no longer valid; every new tetrahedron has one face of the old one second in
its boundary list, next to new faces. -/
theorem TetrahedronOn.split_shapes {m : Mesh} {t : Nat} {F : TetFrame}
    (h : TetrahedronOn m t F) :
    ∃ (m' : Mesh) (S2 : List (Bool × List Nat)) (N E L : List Nat) (G2 H : Nat → List Nat),
      split_tetrahedron m t = some (m', (m.shape 0).length) ∧
      S2.map Prod.fst = (m.shape 2).map Prod.fst ∧
      N.Perm [F.v0, F.v1, F.v2, F.v3] ∧
      E.Perm [F.e01, F.e02, F.e03, F.e12, F.e13, F.e23] ∧
      L.Perm [F.f0, F.f1, F.f2, F.f3] ∧
      m'.shape 0 = m.shape 0 ++ [(true, [])] ∧
      m'.shape 1 = m.shape 1 ++ N.map (fun v => (true, [v, (m.shape 0).length])) ∧
      m'.shape 2 = S2 ++ E.map (fun e => (true, G2 e)) ∧
      m'.shape 3 = (m.shape 3).set t (false, [F.f0, F.f1, F.f2, F.f3]) ++
        L.map (fun f => (true, H f)) ∧
      ∀ f ∈ L, f ∈ H f ∧ ∀ y ∈ H f, y = f ∨ (m.shape 2).length ≤ y := by
  obtain ⟨m1, o1, T1, a0, a1, a3, a2⟩ := h.orient_faces
  obtain ⟨R, hR, pn, pe, pf⟩ := T1.boundary_set
  obtain ⟨m2, o2, b3, b0, b1, b2⟩ := T1.remove
  obtain ⟨m3, o3, c0, c1, c2, c3⟩ := insert_node_shape m2 false
  have hlen0 : (m2.shape 0).length = (m.shape 0).length := by rw [b0, a0]
  rw [hlen0] at o3
  have hn3 : (m3.shape 0)[(m.shape 0).length]? = some (true, []) := by
    rw [c0, ← hlen0]; exact list_getElem?_append_last _ _
  obtain ⟨m4, o4, k4⟩ := @Mesh.modify_keep m3 0 (m.shape 0).length []
    (fun x => x.set_compact true) (fun _ => rfl) hn3
  obtain ⟨m5, n2e, b', o5, e1, e0, e2, e3, emap, -⟩ := split_edges_loop (m.shape 0).length
    R.nodes m4 [] true ⟨[], by rw [k4]; exact hn3⟩ (pn.nodup_iff.2 h.2.1)
  have s41 : m4.shape 1 = m1.shape 1 := by rw [k4, c1, b1]
  have s42 : m4.shape 2 = m1.shape 2 := by rw [k4, c2, b2]
  have hedge : ∀ e ∈ R.edges, ∃ n1 n2, (m1.shape 1)[e]? = some (true, [n1, n2]) ∧
      n1 ∈ R.nodes ∧ n2 ∈ R.nodes := by
    intro e he
    obtain ⟨n1, n2, hs, q1, q2⟩ := T1.edge_shape (pe.mem_iff.1 he)
    exact ⟨n1, n2, hs, pn.mem_iff.2 q1, pn.mem_iff.2 q2⟩
  have hnodup_e : R.edges.Nodup := by
    obtain ⟨n1, n2, n3, n4, n5, n6, n7, n8, n9, n10, n11, n12, n13, n14, n15⟩ := h.edges_ne
    refine pe.nodup_iff.2 ?_
    simp only [List.nodup_cons, List.mem_cons, List.mem_singleton, List.not_mem_nil,
      or_false, not_or, not_false_eq_true, List.nodup_nil, and_true]
    exact ⟨⟨n1, n2, n3, n4, n5⟩, ⟨n6, n7, n8, n9⟩, ⟨n10, n11, n12⟩, ⟨n13, n14⟩, n15⟩
  obtain ⟨m6, e2f, o6, f2, f0, f1, f3, fmap, -⟩ := split_faces_loop n2e R.edges m5 []
    hnodup_e (by
      intro e he
      obtain ⟨n1, n2, hs, q1, q2⟩ := hedge e he
      refine ⟨n1, n2, ?_, ⟨_, (emap n1 q1).2⟩, ⟨_, (emap n2 q2).2⟩⟩
      rw [e1, s41]
      exact getElem?_append_of_some _ hs)
  have s52 : m5.shape 2 = m1.shape 2 := by rw [e2, s42]
  have hE : ∀ e ∈ R.edges, e < (m1.shape 1).length ∧
      (m1.shape 2).length ≤ map_get e e2f ∧
      ∃ r, (m6.shape 2)[map_get e e2f]? = some (true, e :: r) ∧
        ∀ y ∈ r, (m1.shape 1).length ≤ y := by
    intro e he
    obtain ⟨n1, n2, hs, q1, q2⟩ := hedge e he
    obtain ⟨p1, p2⟩ := fmap e he
    have hb5 : m5.boundary_list 1 e = [n1, n2] := by
      apply Mesh.boundary_list_of_shape
      rw [e1, s41]
      exact getElem?_append_of_some _ hs
    refine ⟨lt_length_of_getElem? hs, by rw [← s52]; exact p1, _, p2, ?_⟩
    intro y hy
    rw [hb5] at hy
    simp only [List.map_cons, List.map_nil, List.mem_cons, List.mem_singleton,
      List.not_mem_nil, or_false] at hy
    rw [← s41]
    rcases hy with rfl | rfl
    · exact (emap n1 q1).1
    · exact (emap n2 q2).1
  have hF : ∀ f ∈ R.faces, ∃ x1 x2 x3, (m1.shape 2)[f]? = some (true, [x1, x2, x3]) ∧
      [x1, x2, x3].Nodup ∧ x1 ∈ R.edges ∧ x2 ∈ R.edges ∧ x3 ∈ R.edges := by
    intro f hf
    have hf' := pf.mem_iff.1 hf
    obtain ⟨x1, x2, x3, hb, hnd⟩ := T1.face_edges f hf'
    obtain ⟨sf, hsf, hbf⟩ := Mesh.lookup_of_boundary_list hb (by simp)
    have hsh := Mesh.shape_of_lookup hsf
    rw [hbf] at hsh
    exact ⟨x1, x2, x3, hsh, hnd,
      pe.mem_iff.2 (T1.edge_of_face hf' (by rw [hb]; simp)),
      pe.mem_iff.2 (T1.edge_of_face hf' (by rw [hb]; simp)),
      pe.mem_iff.2 (T1.edge_of_face hf' (by rw [hb]; simp))⟩
  have s62 : ∀ {k : Nat} {p : Bool × List Nat}, (m1.shape 2)[k]? = some p →
      (m6.shape 2)[k]? = some p := by
    intro k p hk
    rw [f2, s52]
    exact getElem?_append_of_some _ hk
  obtain ⟨m7, nt, o7, g3, g0, g1, g2⟩ := split_fill_loop t e2f R.faces m6 [] (by
    intro f hf
    obtain ⟨x1, x2, x3, hsh, hnd, q1, q2, q3⟩ := hF f hf
    obtain ⟨l1, k1, r1, hr1, y1⟩ := hE x1 q1
    obtain ⟨l2, k2, r2, hr2, y2⟩ := hE x2 q2
    obtain ⟨l3, k3, r3, hr3, y3⟩ := hE x3 q3
    have hlt := lt_length_of_getElem? hsh
    have key : ∀ y, (m1.shape 1).length ≤ y → y ∉ [x1, x2, x3] := by
      intro y hy hc
      simp only [List.mem_cons, List.mem_singleton, List.not_mem_nil, or_false] at hc
      omega
    exact ⟨x1, x2, x3, r1, r2, r3, s62 hsh, hnd, hr1, hr2, hr3,
      fun y hy => key y (y1 y hy), fun y hy => key y (y2 y hy), fun y hy => key y (y3 y hy),
      by omega, by omega, by omega⟩)
  have hlen2 : (m1.shape 2).length = (m.shape 2).length := length_of_map_fst a2
  refine ⟨m7, m1.shape 2, R.nodes, R.edges, R.faces,
    fun e => e :: (m5.boundary_list 1 e).map (fun v => map_get v n2e),
    fun f => ((m6.boundary_list 2 f).map (fun e => map_get e e2f)).take 1 ++
      f :: ((m6.boundary_list 2 f).map (fun e => map_get e e2f)).drop 1,
    ?_, a2, pn, pe, pf, ?_, ?_, ?_, ?_, ?_⟩
  · unfold split_tetrahedron split_tetrahedron_helper
    simp only [bind, o1, hR, o2, o3, o4, o5, o6, o7, Option.some_bind, pure]
  · rw [g0, f0, e0, k4, c0, b0, a0]
  · rw [g1, f1, e1, s41, a1]
  · rw [g2, f2, s52]
  · rw [g3, f3, e3, k4, c3, b3, a3]
  · intro f hf
    obtain ⟨x1, x2, x3, hsh, hnd, q1, q2, q3⟩ := hF f hf
    have hb6 : m6.boundary_list 2 f = [x1, x2, x3] := Mesh.boundary_list_of_shape (s62 hsh)
    refine ⟨by simp, ?_⟩
    intro y hy
    simp only [hb6, List.map_cons, List.map_nil, List.take_succ_cons, List.take_zero,
      List.drop_succ_cons, List.drop_zero, List.mem_append, List.mem_cons, List.mem_singleton,
      List.not_mem_nil, or_false] at hy
    rw [← hlen2]
    rcases hy with rfl | rfl | rfl | rfl
    · exact Or.inr (hE x1 q1).2.1
    · exact Or.inl rfl
    · exact Or.inr (hE x2 q2).2.1
    · exact Or.inr (hE x3 q3).2.1

theorem countP_append_live {α : Type} (l : List (Bool × List Nat)) (N : List α)
    (g : α → List Nat) :
    (l ++ N.map (fun v => (true, g v))).countP (fun p => p.1) =
      l.countP (fun p => p.1) + N.length := by
  rw [List.countP_append, List.countP_map]
  congr 1
  induction N with
  | nil => rfl
  | cons a N ih => simp [List.countP_cons, ih]

theorem countP_fst_congr {l l' : List (Bool × List Nat)}
    (h : l'.map Prod.fst = l.map Prod.fst) :
    l'.countP (fun p => p.1) = l.countP (fun p => p.1) := by
  have := congrArg (List.countP id) h
  rw [List.countP_map, List.countP_map] at this
  exact this

theorem countP_set_dead : ∀ (l : List (Bool × List Nat)) (t : Nat) (b b' : List Nat),
    l[t]? = some (true, b) →
    (l.set t (false, b')).countP (fun p => p.1) + 1 = l.countP (fun p => p.1) := by
  intro l
  induction l with
  | nil => intro t b b' h; simp at h
  | cons a l ih =>
    intro t b b' h
    cases t with
    | zero =>
      simp only [List.getElem?_cons_zero, Option.some.injEq] at h
      subst h
      simp [List.countP_cons]
    | succ t =>
      simp only [List.getElem?_cons_succ] at h
      have := ih t b b' h
      simp only [List.set_cons_succ, List.countP_cons]
      omega

/-- Among the slots that are not live in `S`, exactly one of the slots appended for the
keys of `L` holds `f`. -/
theorem unique_new_slot {S S' : List (Bool × List Nat)} {L : List Nat} {H : Nat → List Nat}
    {bound f : Nat} (hS : S'.length = S.length)
    (hdead : ∀ (k : Nat) (b : List Nat), S'[k]? = some (true, b) → S[k]? = some (true, b))
    (hnd : L.Nodup) (hf : f ∈ L)
    (hH : ∀ g ∈ L, g ∈ H g ∧ ∀ y ∈ H g, y = g ∨ bound ≤ y) (hfb : f < bound) :
    ∃! k : Nat, (∀ b : List Nat, S[k]? ≠ some (true, b)) ∧
      ∃ b : List Nat, (S' ++ L.map (fun f => (true, H f)))[k]? = some (true, b) ∧ f ∈ b := by
  obtain ⟨i, hi, rfl⟩ := List.mem_iff_getElem.1 hf
  refine ⟨S.length + i, ⟨?_, H L[i], ?_, (hH _ hf).1⟩, ?_⟩
  · intro b hb
    have := lt_length_of_getElem? hb
    omega
  · rw [List.getElem?_append_right (by omega), hS, Nat.add_sub_cancel_left,
      List.getElem?_map, List.getElem?_eq_getElem hi]
    rfl
  · rintro k ⟨hk1, b, hk2, hk3⟩
    by_cases hk : k < S.length
    · rw [List.getElem?_append_left (by omega)] at hk2
      exact absurd (hdead k b hk2) (hk1 b)
    · rw [List.getElem?_append_right (by omega), hS, List.getElem?_map] at hk2
      cases hj : L[k - S.length]? with
      | none => rw [hj] at hk2; cases hk2
      | some g =>
        rw [hj] at hk2
        simp only [Option.map_some', Option.some.injEq, Prod.mk.injEq, true_and] at hk2
        subst hk2
        obtain ⟨hlt, hg⟩ := List.getElem?_eq_some.1 hj
        have hgm : g ∈ L := hg ▸ List.getElem_mem hlt
        rcases (hH g hgm).2 _ hk3 with h | h
        · have : k - S.length = i := by
            apply (List.Nodup.getElem_inj_iff hnd).1
            rw [hg, h]
          omega
        · omega

end ISMesh
namespace ISMesh

theorem Mesh.lookup_none_iff_shape {m : Mesh} {d k : Nat} :
    m.lookup_simplex d k = none ↔ ∀ b : List Nat, (m.shape d)[k]? ≠ some (true, b) := by
  constructor
  · intro h b hb
    obtain ⟨s, hs, -⟩ := Mesh.lookup_of_shape hb
    rw [h] at hs
    cases hs
  · exact Mesh.lookup_none_of_shape

theorem Mesh.mem_boundary_list_iff_shape {m : Mesh} {d k f : Nat} :
    f ∈ m.boundary_list d k ↔ ∃ b : List Nat, (m.shape d)[k]? = some (true, b) ∧ f ∈ b := by
  constructor
  · intro h
    obtain ⟨s, hs, hb⟩ := Mesh.lookup_of_boundary_list (rfl : m.boundary_list d k = _)
      (List.ne_nil_of_mem h)
    exact ⟨s.m_boundary, Mesh.shape_of_lookup hs, by rw [hb]; exact h⟩
  · rintro ⟨b, hb, hf⟩
    rw [Mesh.boundary_list_of_shape hb]
    exact hf

/-- C32: for a well-formed tetrahedron `t`, `split_tetrahedron(t)` returns a mesh and a
node `n`; `n` is not a live node of the given mesh and is one of the new mesh, `t` is no
longer live, the new mesh has one node, four edges, six faces and three tetrahedra more than
the given one, and each of the four faces of the boundary list of `t` is on the boundary
list of exactly one tetrahedron of the new mesh that is not a live tetrahedron of the given
one. -/
theorem split_tetrahedron_subdivides (m : Mesh) (t : Nat) (ht : WellFormed m 3 t) :
    ∃ m' n, split_tetrahedron m t = some (m', n) ∧
      m.lookup_simplex 0 n = none ∧ (m'.lookup_simplex 0 n).isSome ∧
      (m.lookup_simplex 3 t).isSome ∧ m'.lookup_simplex 3 t = none ∧
      m'.size_nodes = m.size_nodes + 1 ∧ m'.size_edges = m.size_edges + 4 ∧
      m'.size_faces = m.size_faces + 6 ∧ m'.size_tetrahedra = m.size_tetrahedra + 3 ∧
      (m.boundary_list 3 t).length = 4 ∧
      ∀ f ∈ m.boundary_list 3 t,
        ∃! k, m.lookup_simplex 3 k = none ∧ f ∈ m'.boundary_list 3 k := by
  obtain ⟨F, h⟩ := ht
  obtain ⟨m', S2, N, E, L, G2, H, hsplit, hS2, pn, pe, pf, s0, s1, s2, s3, hH⟩ := h.split_shapes
  obtain ⟨st, hst, hbt⟩ := Mesh.lookup_of_boundary_list h.1 (by simp)
  have hts := Mesh.shape_of_lookup hst
  have htl := lt_length_of_getElem? hts
  obtain ⟨z0, z1, z2, z3⟩ := Mesh.size_shape m
  obtain ⟨y0, y1, y2, y3⟩ := Mesh.size_shape m'
  refine ⟨m', (m.shape 0).length, hsplit, ?_, ?_, by rw [hst]; rfl, ?_, ?_, ?_, ?_, ?_,
    by rw [h.1]; rfl, ?_⟩
  · apply Mesh.lookup_none_of_shape
    intro b hb
    exact absurd (lt_length_of_getElem? hb) (lt_irrefl _)
  · exact Mesh.live_of_shape (by rw [s0]; exact list_getElem?_append_last _ _)
  · apply Mesh.lookup_none_of_shape
    intro b hb
    rw [s3, List.getElem?_append_left (by rw [List.length_set]; exact htl),
      List.getElem?_set_self htl] at hb
    cases hb
  · rw [y0, z0, s0, List.countP_append]
    rfl
  · rw [y1, z1, s1, countP_append_live, pn.length_eq]
    rfl
  · rw [y2, z2, s2, countP_append_live, pe.length_eq, countP_fst_congr hS2]
    rfl
  · rw [y3, z3, s3, countP_append_live, pf.length_eq]
    have := countP_set_dead (m.shape 3) t st.m_boundary [F.f0, F.f1, F.f2, F.f3] hts
    simp only [List.length_cons, List.length_nil]
    omega
  · intro f hf
    rw [h.1] at hf
    obtain ⟨sf, hsf, -⟩ : ∃ s, m.lookup_simplex 2 f = some s ∧
        s.m_boundary = m.boundary_list 2 f := by
      simp only [List.mem_cons, List.mem_singleton, List.not_mem_nil, or_false] at hf
      rcases hf with rfl | rfl | rfl | rfl
      · exact h.face0.2.2.2.2.face_live
      · exact h.face1.2.2.2.2.face_live
      · exact h.face2.2.2.2.2.face_live
      · exact h.face3.2.2.2.2.face_live
    have key := @unique_new_slot (m.shape 3)
      ((m.shape 3).set t (false, [F.f0, F.f1, F.f2, F.f3])) L H (m.shape 2).length f
      (List.length_set _ _ _)
      (by
        intro k b hk
        by_cases hkt : t = k
        · subst hkt
          rw [List.getElem?_set_self htl] at hk
          cases hk
        · rw [List.getElem?_set_ne hkt] at hk
          exact hk)
      (pf.nodup_iff.2 h.faces_nodup) (pf.mem_iff.2 hf) hH
      (lt_length_of_getElem? (Mesh.shape_of_lookup hsf))
    rw [← s3] at key
    simp only [Mesh.lookup_none_iff_shape, Mesh.mem_boundary_list_iff_shape]
    exact key

/-- Witness of C32: the tetrahedron of the mesh with one tetrahedron; the new node is the
node 4 and the four new tetrahedra are the tetrahedra 1 to 4. -/
theorem split_tetrahedron_subdivides_witness :
    WellFormed tetrahedron_mesh 3 0 ∧
    (split_tetrahedron tetrahedron_mesh 0).map (fun r => (r.2, r.1.size_nodes, r.1.size_edges,
      r.1.size_faces, r.1.size_tetrahedra)) = some (4, 5, 10, 10, 4) ∧
    ∃ m' n, split_tetrahedron tetrahedron_mesh 0 = some (m', n) ∧
      tetrahedron_mesh.lookup_simplex 0 n = none ∧ (m'.lookup_simplex 0 n).isSome ∧
      (tetrahedron_mesh.lookup_simplex 3 0).isSome ∧ m'.lookup_simplex 3 0 = none ∧
      m'.size_nodes = tetrahedron_mesh.size_nodes + 1 ∧
      m'.size_edges = tetrahedron_mesh.size_edges + 4 ∧
      m'.size_faces = tetrahedron_mesh.size_faces + 6 ∧
      m'.size_tetrahedra = tetrahedron_mesh.size_tetrahedra + 3 ∧
      (tetrahedron_mesh.boundary_list 3 0).length = 4 ∧
      ∀ f ∈ tetrahedron_mesh.boundary_list 3 0,
        ∃! k, tetrahedron_mesh.lookup_simplex 3 k = none ∧ f ∈ m'.boundary_list 3 k :=
  ⟨⟨tetrahedron_frame, tetrahedron_frame_on⟩, by decide!,
    split_tetrahedron_subdivides tetrahedron_mesh 0 ⟨tetrahedron_frame, tetrahedron_frame_on⟩⟩

end ISMesh
namespace ISMesh

/-! ### Shapes under `repair_co_boundaries` and `unsafe_remove` of a set -/

theorem repair_one_shape {interior : SimplexSet} {d k b : Nat} {p p' : Mesh × List Nat}
    (h : repair_one interior d k p b = some p') (d' : Nat) :
    p'.1.shape d' = p.1.shape d' := by
  unfold repair_one at h
  split_ifs at h with hc
  · simp only [pure, Option.some.injEq] at h
    subst h
    rfl
  · simp only [bind, Option.bind_eq_some, pure, Option.some.injEq] at h
    obtain ⟨simplex, hs, m1, hm1, rfl⟩ := h
    cases hf : simplex.m_co_boundary.find? (fun c => interior.contains (d + 1) c) with
    | none =>
      simp only [hf, Option.some.injEq] at hm1
      subst hm1
      rfl
    | some c =>
      simp only [hf] at hm1
      exact @Mesh.shape_modify_keep p.1 m1 d b
        (fun x => x.set_co_boundary_set (set_erase c (set_insert k x.m_co_boundary)))
        (fun _ => rfl) hm1 d'

theorem repair_pass_shape {interior boundary : SimplexSet} {d : Nat} {m m' : Mesh}
    (h : repair_pass interior boundary d m = some m') (d' : Nat) :
    m'.shape d' = m.shape d' := by
  unfold repair_pass at h
  simp only [bind, Option.bind_eq_some, pure, Option.some.injEq] at h
  obtain ⟨r, hr, rfl⟩ := h
  exact foldlM_rel (fun (a b : Mesh × List Nat) => b.1.shape d' = a.1.shape d')
    (fun _ => rfl) (fun _ _ _ h1 h2 => h2.trans h1) _
    (fun b x b' hb => by
      simp only [Option.bind_eq_some] at hb
      obtain ⟨simplex, -, hfold⟩ := hb
      exact foldlM_rel (fun (a b : Mesh × List Nat) => b.1.shape d' = a.1.shape d')
        (fun _ => rfl) (fun _ _ _ h1 h2 => h2.trans h1) (repair_one interior d x)
        (fun _ _ _ hq => repair_one_shape hq d') _ _ _ hfold) _ _ _ hr

theorem repair_co_boundaries_shape {interior boundary : SimplexSet} {m m' : Mesh}
    (h : repair_co_boundaries m interior boundary = some m') (d' : Nat) :
    m'.shape d' = m.shape d' := by
  unfold repair_co_boundaries at h
  simp only [bind, Option.bind_eq_some] at h
  obtain ⟨m1, h1, h2⟩ := h
  rw [repair_pass_shape h2, repair_pass_shape h1]

/-- The overload `unsafe_remove` of a live tetrahedron with live faces returns; the slot of
the tetrahedron is no longer valid and nothing else changes shape. -/
theorem unsafe_remove_tetrahedron_shape {m : Mesh} {t : Nat} {b : List Nat}
    (ht : (m.shape 3)[t]? = some (true, b))
    (hf : ∀ f ∈ b, ∃ l, (m.shape 2)[f]? = some (true, l)) :
    ∃ m', unsafe_remove_tetrahedron m t = some m' ∧
      m'.shape 3 = (m.shape 3).set t (false, b) ∧
      m'.shape 0 = m.shape 0 ∧ m'.shape 1 = m.shape 1 ∧ m'.shape 2 = m.shape 2 := by
  obtain ⟨st, hst, hbt⟩ := Mesh.lookup_of_shape ht
  obtain ⟨x, hx, kx⟩ := foldlM_prefix_returns
    (fun (_ : List Nat) (y : Mesh) => ∀ d, y.shape d = m.shape d)
    (fun m f => m.modify 2 f (fun x => x.remove_co_face t)) st.m_boundary
    (by
      intro pre f suf y hL hy
      obtain ⟨l, hl⟩ := hf f (by rw [← hbt, hL]; simp)
      obtain ⟨y', hy', ky'⟩ := @Mesh.modify_keep y 2 f l (fun x => x.remove_co_face t)
        (fun _ => rfl) (by rw [hy]; exact hl)
      exact ⟨y', hy', fun d => by rw [ky', hy]⟩) m (fun _ => rfl)
  obtain ⟨m', hm'⟩ := @unsafe_erase_returns x 3 t
    (Mesh.live_of_shape ((congrArg (fun l => l[t]?) (kx 3)).trans ht))
  obtain ⟨e1, s, hs, e2⟩ := Mesh.shape_erase hm'
  have hsb : s.m_boundary = b := by
    have := Mesh.shape_of_lookup hs
    rw [kx 3, ht] at this
    simpa using this.symm
  refine ⟨m', ?_, by rw [e2, kx, hsb], by rw [e1 0 (by decide), kx],
    by rw [e1 1 (by decide), kx], by rw [e1 2 (by decide), kx]⟩
  unfold unsafe_remove_tetrahedron
  simp only [bind, hst, Option.some_bind, hx, hm']

theorem unsafe_erase_shape {m : Mesh} {d k : Nat} {b : List Nat} (hd : d ≤ 3)
    (hk : (m.shape d)[k]? = some (true, b)) :
    ∃ m', unsafe_erase m d k = some m' ∧ m'.shape d = (m.shape d).set k (false, b) ∧
      ∀ d', d' ≤ 3 → d' ≠ d → m'.shape d' = m.shape d' := by
  obtain ⟨m', hm'⟩ := @unsafe_erase_returns m d k (Mesh.live_of_shape hk)
  obtain ⟨e1, s, hs, e2⟩ := Mesh.shape_erase hm'
  have hsb : s.m_boundary = b := by
    have := Mesh.shape_of_lookup hs
    rw [hk] at this
    simpa using this.symm
  exact ⟨m', hm', by rw [e2, hsb], fun d' hd' hne => e1 d' (by omega)⟩

/-- A loop of `unsafe_erase` over distinct live keys of one dimension. -/
theorem erase_loop_shape (d : Nat) (hd : d ≤ 3) : ∀ (L : List Nat) (m : Mesh), L.Nodup →
    (∀ k ∈ L, ∃ b, (m.shape d)[k]? = some (true, b)) →
    ∃ m', L.foldlM (fun m k => unsafe_erase m d k) m = some m' ∧
      (m'.shape d).length = (m.shape d).length ∧
      (∀ k, k ∉ L → (m'.shape d)[k]? = (m.shape d)[k]?) ∧
      (∀ k ∈ L, ∀ b : List Nat, (m'.shape d)[k]? ≠ some (true, b)) ∧
      ∀ d', d' ≤ 3 → d' ≠ d → m'.shape d' = m.shape d' := by
  intro L
  induction L with
  | nil =>
    intro m _ _
    exact ⟨m, rfl, rfl, fun _ _ => rfl, fun k hk => absurd hk (List.not_mem_nil k),
      fun _ _ _ => rfl⟩
  | cons a L ih =>
    intro m hnd hl
    obtain ⟨ha, hnd'⟩ := List.nodup_cons.1 hnd
    obtain ⟨b, hb⟩ := hl a (List.mem_cons_self _ _)
    obtain ⟨m1, h1, s1, o1⟩ := unsafe_erase_shape hd hb
    obtain ⟨m', hf, r1, r2, r3, r4⟩ := ih m1 hnd' (by
      intro k hk
      obtain ⟨bk, hbk⟩ := hl k (List.mem_cons_of_mem _ hk)
      refine ⟨bk, ?_⟩
      rw [s1, List.getElem?_set_ne (by rintro rfl; exact ha hk)]
      exact hbk)
    refine ⟨m', ?_, ?_, ?_, ?_, ?_⟩
    · rw [List.foldlM_cons]
      simp only [bind, h1, Option.some_bind]
      exact hf
    · rw [r1, s1, List.length_set]
    · intro k hk
      rw [List.mem_cons, not_or] at hk
      rw [r2 k hk.2, s1, List.getElem?_set_ne (Ne.symm hk.1)]
    · intro k hk
      rcases List.mem_cons.1 hk with rfl | hk
      · intro b' hb'
        rw [r2 k ha, s1, List.getElem?_set_self (lt_length_of_getElem? hb)] at hb'
        cases hb'
      · exact r3 k hk
    · intro d' hd' hne
      rw [r4 d' hd' hne, o1 d' hd' hne]

/-- The loop of `unsafe_remove` over distinct live tetrahedra with live faces. -/
theorem remove_tetrahedra_loop_shape : ∀ (L : List Nat) (m : Mesh), L.Nodup →
    (∀ t ∈ L, ∃ b, (m.shape 3)[t]? = some (true, b) ∧
      ∀ f ∈ b, ∃ l, (m.shape 2)[f]? = some (true, l)) →
    ∃ m', L.foldlM unsafe_remove_tetrahedron m = some m' ∧
      (m'.shape 3).length = (m.shape 3).length ∧
      (∀ k, k ∉ L → (m'.shape 3)[k]? = (m.shape 3)[k]?) ∧
      (∀ k ∈ L, ∀ b : List Nat, (m'.shape 3)[k]? ≠ some (true, b)) ∧
      m'.shape 0 = m.shape 0 ∧ m'.shape 1 = m.shape 1 ∧ m'.shape 2 = m.shape 2 := by
  intro L
  induction L with
  | nil =>
    intro m _ _
    exact ⟨m, rfl, rfl, fun _ _ => rfl, fun k hk => absurd hk (List.not_mem_nil k),
      rfl, rfl, rfl⟩
  | cons a L ih =>
    intro m hnd hl
    obtain ⟨ha, hnd'⟩ := List.nodup_cons.1 hnd
    obtain ⟨b, hb, hfb⟩ := hl a (List.mem_cons_self _ _)
    obtain ⟨m1, h1, s3, s0, s1, s2⟩ := unsafe_remove_tetrahedron_shape hb hfb
    obtain ⟨m', hf, r1, r2, r3, q0, q1, q2⟩ := ih m1 hnd' (by
      intro k hk
      obtain ⟨bk, hbk, hfk⟩ := hl k (List.mem_cons_of_mem _ hk)
      refine ⟨bk, ?_, ?_⟩
      · rw [s3, List.getElem?_set_ne (by rintro rfl; exact ha hk)]
        exact hbk
      · rw [s2]
        exact hfk)
    refine ⟨m', ?_, ?_, ?_, ?_, by rw [q0, s0], by rw [q1, s1], by rw [q2, s2]⟩
    · rw [List.foldlM_cons]
      simp only [bind, h1, Option.some_bind]
      exact hf
    · rw [r1, s3, List.length_set]
    · intro k hk
      rw [List.mem_cons, not_or] at hk
      rw [r2 k hk.2, s3, List.getElem?_set_ne (Ne.symm hk.1)]
    · intro k hk
      rcases List.mem_cons.1 hk with rfl | hk
      · intro b' hb'
        rw [r2 k ha, s3, List.getElem?_set_self (lt_length_of_getElem? hb)] at hb'
        cases hb'
      · exact r3 k hk

/-- The overload `unsafe_remove` of a set of distinct live simplices whose tetrahedra have
live faces returns: the slots of the set are no longer valid, the other slots are as they
were. -/
theorem unsafe_remove_set_shape {m : Mesh} {E : SimplexSet}
    (hnd : ∀ d, d ≤ 3 → (E.keys d).Nodup)
    (hl : ∀ d, d ≤ 3 → ∀ k ∈ E.keys d, ∃ b, (m.shape d)[k]? = some (true, b))
    (hf : ∀ t ∈ E.keys 3, ∀ b, (m.shape 3)[t]? = some (true, b) →
      ∀ f ∈ b, ∃ l, (m.shape 2)[f]? = some (true, l)) :
    ∃ m', unsafe_remove_set m E = some m' ∧ ∀ d, d ≤ 3 →
      (m'.shape d).length = (m.shape d).length ∧
      (∀ k, k ∉ E.keys d → (m'.shape d)[k]? = (m.shape d)[k]?) ∧
      (∀ k ∈ E.keys d, ∀ b : List Nat, (m'.shape d)[k]? ≠ some (true, b)) := by
  obtain ⟨m3, h3, a1, a2, a3, a40, a41, a42⟩ := remove_tetrahedra_loop_shape E.tetrahedra m
    (hnd 3 (by decide)) (by
      intro t ht
      obtain ⟨b, hb⟩ := hl 3 (by decide) t ht
      exact ⟨b, hb, hf t ht b hb⟩)
  obtain ⟨m2, h2, b1, b2, b3, b4⟩ := erase_loop_shape 2 (by decide) E.faces m3
    (hnd 2 (by decide)) (by rw [a42]; exact hl 2 (by decide))
  obtain ⟨m1, h1, c1, c2, c3, c4⟩ := erase_loop_shape 1 (by decide) E.edges m2
    (hnd 1 (by decide)) (by
      rw [b4 1 (by decide) (by decide), a41]; exact hl 1 (by decide))
  obtain ⟨m0, h0, d1, d2, d3, d4⟩ := erase_loop_shape 0 (by decide) E.nodes m1
    (hnd 0 (by decide)) (by
      rw [c4 0 (by decide) (by decide), b4 0 (by decide) (by decide), a40]
      exact hl 0 (by decide))
  refine ⟨m0, ?_, ?_⟩
  · unfold unsafe_remove_set
    simp only [bind, h3, h2, h1, Option.some_bind]
    exact h0
  · intro d hd
    have hc : d = 0 ∨ d = 1 ∨ d = 2 ∨ d = 3 := by omega
    rcases hc with rfl | rfl | rfl | rfl
    · rw [← a40, ← b4 0 (by decide) (by decide), ← c4 0 (by decide) (by decide)]
      exact ⟨d1, d2, d3⟩
    · rw [d4 1 (by decide) (by decide), ← a41, ← b4 1 (by decide) (by decide)]
      exact ⟨c1, c2, c3⟩
    · rw [d4 2 (by decide) (by decide), c4 2 (by decide) (by decide), ← a42]
      exact ⟨b1, b2, b3⟩
    · rw [d4 3 (by decide) (by decide), c4 3 (by decide) (by decide),
        b4 3 (by decide) (by decide)]
      exact ⟨a1, a2, a3⟩

end ISMesh
namespace ISMesh

/-! ### The loops of `vertex_insertion_fill_hole` -/

theorem set_insert_last : ∀ (l : List Nat) (k : Nat), (∀ x ∈ l, x < k) →
    set_insert k l = l ++ [k] := by
  intro l
  induction l with
  | nil => intro k _; rfl
  | cons a l ih =>
    intro k h
    have ha := h a (List.mem_cons_self _ _)
    unfold set_insert
    rw [if_neg (by omega), if_neg (by omega), ih k (fun x hx => h x (List.mem_cons_of_mem _ hx))]
    rfl

/-- Inserting ascending keys above those of the set appends them in order. -/
theorem SimplexSet.keys_insert_range (d : Nat) : ∀ (n k0 : Nat) (s : SimplexSet),
    (∀ x ∈ s.keys d, x < k0) →
    ∀ d', ((List.range' k0 n).foldl (fun s e => s.insert d e) s).keys d' =
      if min d 3 = min d' 3 then s.keys d' ++ List.range' k0 n else s.keys d' := by
  intro n
  induction n with
  | zero =>
    intro k0 s _ d'
    simp
  | succ n ih =>
    intro k0 s hs d'
    rw [List.range'_succ, List.foldl_cons, ih (k0 + 1) (s.insert d k0) (by
      intro x hx
      rw [SimplexSet.keys_insert, if_pos rfl, mem_set_insert] at hx
      rcases hx with rfl | hx
      · omega
      · exact Nat.lt_succ_of_lt (hs x hx)) d', SimplexSet.keys_insert]
    by_cases hd : min d 3 = min d' 3
    · simp only [if_pos hd]
      rw [set_insert_last _ _ (by
        intro x hx
        rw [SimplexSet.keys_of_min s hd] at hx
        exact hs x hx), List.append_assoc]
      rfl
    · simp only [if_neg hd]

/-- One round of the loop of `vertex_insertion_fill_hole` over the nodes: the edge from the
new node `n` to the node is appended. -/
theorem vertex_insertion_edge_shape (n : Nat) (st : FillState) (v : Nat)
    (hn : ∃ l, (st.mesh.shape 0)[n]? = some (true, l)) :
    ∃ m', vertex_insertion_edge n st v = some { st with
        mesh := m', map := map_set v (st.mesh.shape 1).length st.map,
        new_simplices := st.new_simplices.insert 1 (st.mesh.shape 1).length,
        first := false } ∧
      m'.shape 1 = st.mesh.shape 1 ++ [(true, [n, v])] ∧
      m'.shape 0 = st.mesh.shape 0 ∧ m'.shape 2 = st.mesh.shape 2 ∧
      m'.shape 3 = st.mesh.shape 3 := by
  obtain ⟨l, hn⟩ := hn
  obtain ⟨m1, h1, s1, s0, s2, s3⟩ := unsafe_insert_edge_shape st.mesh n v
  obtain ⟨m3, h3, k3⟩ := @Mesh.modify_keep m1 0 n l
    (fun x => x.add_co_face (st.mesh.shape 1).length) (fun _ => rfl) (by rw [s0]; exact hn)
  unfold vertex_insertion_edge
  simp only [bind, h1, Option.some_bind, pure]
  cases hfst : st.first
  · exact ⟨m1, by simp, s1, s0, s2, s3⟩
  · exact ⟨m3, by simp [h3], by rw [k3, s1], by rw [k3, s0], by rw [k3, s2], by rw [k3, s3]⟩

/-- The loop of `vertex_insertion_fill_hole` over the nodes. -/
theorem vertex_edges_loop (n : Nat) : ∀ (L : List Nat) (st : FillState),
    (∃ l, (st.mesh.shape 0)[n]? = some (true, l)) → L.Nodup →
    ∃ st', L.foldlM (vertex_insertion_edge n) st = some st' ∧
      st'.mesh.shape 1 = st.mesh.shape 1 ++ L.map (fun v => (true, [n, v])) ∧
      st'.mesh.shape 0 = st.mesh.shape 0 ∧ st'.mesh.shape 2 = st.mesh.shape 2 ∧
      st'.mesh.shape 3 = st.mesh.shape 3 ∧
      (∀ v ∈ L, (st.mesh.shape 1).length ≤ map_get v st'.map ∧
        (st'.mesh.shape 1)[map_get v st'.map]? = some (true, [n, v])) ∧
      (∀ v, v ∉ L → map_get v st'.map = map_get v st.map) ∧
      st'.new_simplices = (List.range' (st.mesh.shape 1).length L.length).foldl
        (fun s e => s.insert 1 e) st.new_simplices := by
  intro L
  induction L with
  | nil =>
    intro st _ _
    exact ⟨st, rfl, by simp, rfl, rfl, rfl, fun v hv => absurd hv (List.not_mem_nil v),
      fun _ _ => rfl, rfl⟩
  | cons a L ih =>
    intro st hn hnd
    obtain ⟨m1, h1, s1, s0, s2, s3⟩ := vertex_insertion_edge_shape n st a hn
    obtain ⟨ha, hnd'⟩ := List.nodup_cons.1 hnd
    obtain ⟨st', hf, r1, r0, r2, r3, rmap, rout, rns⟩ := ih { st with
        mesh := m1, map := map_set a (st.mesh.shape 1).length st.map,
        new_simplices := st.new_simplices.insert 1 (st.mesh.shape 1).length,
        first := false } (by
      show ∃ l, (m1.shape 0)[n]? = some (true, l)
      rw [s0]; exact hn) hnd'
    simp only [] at r1 r0 r2 r3 rmap rout rns
    refine ⟨st', ?_, ?_, by rw [r0, s0], by rw [r2, s2], by rw [r3, s3], ?_, ?_, ?_⟩
    · rw [List.foldlM_cons]
      simp only [bind, h1, Option.some_bind]
      exact hf
    · rw [r1, s1, List.map_cons, List.append_assoc]
      rfl
    · intro v hv
      rcases List.mem_cons.1 hv with rfl | hv
      · rw [rout v ha, map_get_map_set_same]
        refine ⟨le_refl _, ?_⟩
        rw [r1, s1, List.append_assoc, List.getElem?_append_right (le_refl _)]
        simp
      · obtain ⟨q1, q2⟩ := rmap v hv
        refine ⟨?_, q2⟩
        rw [s1, List.length_append] at q1
        exact le_trans (Nat.le_add_right _ _) q1
    · intro v hv
      rw [List.mem_cons, not_or] at hv
      rw [rout v hv.2, map_get_map_set_ne hv.1]
    · rw [rns, s1, List.length_append, List.length_cons, List.length_cons, List.length_nil,
        List.range'_succ, List.foldl_cons]

/-- One round of the loop of `vertex_insertion_fill_hole` over the edges: the face on the
edge and the two new edges of its nodes is appended. -/
theorem vertex_insertion_face_shape (n2e : List (Nat × Nat)) (st : FillState)
    (e n1 n2 : Nat) (he : (st.mesh.shape 1)[e]? = some (true, [n1, n2]))
    (h1 : ∃ l, (st.mesh.shape 1)[map_get n1 n2e]? = some (true, l))
    (h2 : ∃ l, (st.mesh.shape 1)[map_get n2 n2e]? = some (true, l)) :
    ∃ m' pr, vertex_insertion_face n2e st e = some { st with
        mesh := m', map := map_set e (st.mesh.shape 2).length st.map, processed := pr,
        new_simplices := st.new_simplices.insert 2 (st.mesh.shape 2).length } ∧
      m'.shape 2 = st.mesh.shape 2 ++ [(true, [e, map_get n1 n2e, map_get n2 n2e])] ∧
      m'.shape 0 = st.mesh.shape 0 ∧ m'.shape 1 = st.mesh.shape 1 ∧
      m'.shape 3 = st.mesh.shape 3 := by
  obtain ⟨l1, h1⟩ := h1
  obtain ⟨l2, h2⟩ := h2
  obtain ⟨s, hs, hb⟩ := Mesh.lookup_of_shape he
  obtain ⟨x1, g1, s2, s0, s1, s3⟩ :=
    unsafe_insert_face_shape st.mesh e (map_get n1 n2e) (map_get n2 n2e)
  have step : ∀ (x : Mesh) (k : Nat) (pr : List Nat), (∀ d, x.shape d = x1.shape d) →
      (∃ l, (x1.shape 1)[k]? = some (true, l)) →
      ∃ y pr', (if (!pr.contains k) = true then
          (x.modify 1 k (fun z => z.add_co_face (st.mesh.shape 2).length)).bind
            (fun m => some (m, k :: pr))
          else some (x, pr)) = some (y, pr') ∧ ∀ d, y.shape d = x1.shape d := by
    intro x k pr hx hk
    obtain ⟨l, hk⟩ := hk
    cases hc : !pr.contains k
    · exact ⟨x, pr, by simp, hx⟩
    · obtain ⟨y, hy, ky⟩ := @Mesh.modify_keep x 1 k l
        (fun z => z.add_co_face (st.mesh.shape 2).length) (fun _ => rfl) (by rw [hx]; exact hk)
      exact ⟨y, k :: pr, by simp [hy], fun d => by rw [ky, hx]⟩
  obtain ⟨x2, p2, g2, k2⟩ := step x1 (map_get n1 n2e) st.processed (fun _ => rfl)
    ⟨l1, by rw [s1]; exact h1⟩
  obtain ⟨x3, p3, g3, k3⟩ := step x2 (map_get n2 n2e) p2 k2 ⟨l2, by rw [s1]; exact h2⟩
  refine ⟨x3, p3, ?_, by rw [k3, s2], by rw [k3, s0], by rw [k3, s1], by rw [k3, s3]⟩
  unfold vertex_insertion_face
  simp only [bind, hs, hb, Option.some_bind, List.getElem?_cons_zero, List.getElem?_cons_succ,
    g1, pure, g2, g3]

/-- The loop of `vertex_insertion_fill_hole` over the edges. -/
theorem vertex_faces_loop (n2e : List (Nat × Nat)) : ∀ (L : List Nat) (st : FillState),
    L.Nodup →
    (∀ e ∈ L, ∃ n1 n2, (st.mesh.shape 1)[e]? = some (true, [n1, n2]) ∧
      (∃ l, (st.mesh.shape 1)[map_get n1 n2e]? = some (true, l)) ∧
      (∃ l, (st.mesh.shape 1)[map_get n2 n2e]? = some (true, l))) →
    ∃ st', L.foldlM (vertex_insertion_face n2e) st = some st' ∧
      st'.mesh.shape 2 = st.mesh.shape 2 ++
        L.map (fun e => (true, e :: (st.mesh.boundary_list 1 e).map (fun v => map_get v n2e))) ∧
      st'.mesh.shape 0 = st.mesh.shape 0 ∧ st'.mesh.shape 1 = st.mesh.shape 1 ∧
      st'.mesh.shape 3 = st.mesh.shape 3 ∧
      (∀ e ∈ L, (st.mesh.shape 2).length ≤ map_get e st'.map ∧
        (st'.mesh.shape 2)[map_get e st'.map]? =
          some (true, e :: (st.mesh.boundary_list 1 e).map (fun v => map_get v n2e))) ∧
      (∀ e, e ∉ L → map_get e st'.map = map_get e st.map) ∧
      st'.new_simplices = (List.range' (st.mesh.shape 2).length L.length).foldl
        (fun s e => s.insert 2 e) st.new_simplices := by
  intro L
  induction L with
  | nil =>
    intro st _ _
    exact ⟨st, rfl, by simp, rfl, rfl, rfl, fun v hv => absurd hv (List.not_mem_nil v),
      fun _ _ => rfl, rfl⟩
  | cons a L ih =>
    intro st hnd hL
    obtain ⟨n1, n2, he, hl1, hl2⟩ := hL a (List.mem_cons_self _ _)
    obtain ⟨m1, pr, h1, s2, s0, s1, s3⟩ := vertex_insertion_face_shape n2e st a n1 n2 he hl1 hl2
    obtain ⟨ha, hnd'⟩ := List.nodup_cons.1 hnd
    have hbl : ∀ e, m1.boundary_list 1 e = st.mesh.boundary_list 1 e :=
      Mesh.boundary_list_shape s1
    obtain ⟨st', hf, r2, r0, r1, r3, rmap, rout, rns⟩ := ih { st with
        mesh := m1, map := map_set a (st.mesh.shape 2).length st.map, processed := pr,
        new_simplices := st.new_simplices.insert 2 (st.mesh.shape 2).length } hnd' (by
      intro e he'
      show ∃ n1 n2, (m1.shape 1)[e]? = some (true, [n1, n2]) ∧
        (∃ l, (m1.shape 1)[map_get n1 n2e]? = some (true, l)) ∧
        (∃ l, (m1.shape 1)[map_get n2 n2e]? = some (true, l))
      rw [s1]
      exact hL e (List.mem_cons_of_mem _ he'))
    simp only [hbl] at r2 r0 r1 r3 rmap rout rns
    have hba : st.mesh.boundary_list 1 a = [n1, n2] := Mesh.boundary_list_of_shape he
    refine ⟨st', ?_, ?_, by rw [r0, s0], by rw [r1, s1], by rw [r3, s3], ?_, ?_, ?_⟩
    · rw [List.foldlM_cons]
      simp only [bind, h1, Option.some_bind]
      exact hf
    · rw [r2, s2, List.map_cons, List.append_assoc, hba]
      rfl
    · intro v hv
      rcases List.mem_cons.1 hv with rfl | hv
      · rw [rout v ha, map_get_map_set_same]
        refine ⟨le_refl _, ?_⟩
        rw [r2, s2, List.append_assoc, List.getElem?_append_right (le_refl _), hba]
        simp
      · obtain ⟨q1, q2⟩ := rmap v hv
        refine ⟨?_, q2⟩
        rw [s2, List.length_append] at q1
        exact le_trans (Nat.le_add_right _ _) q1
    · intro v hv
      rw [List.mem_cons, not_or] at hv
      rw [rout v hv.2, map_get_map_set_ne hv.1]
    · rw [rns, s2, List.length_append, List.length_cons, List.length_cons, List.length_nil,
        List.range'_succ, List.foldl_cons]

/-- One round of the loop of `vertex_insertion_fill_hole` over the faces: the tetrahedron
on the face and the three new faces of its edges is appended. -/
theorem vertex_insertion_tetrahedron_shape (e2f : List (Nat × Nat)) (m : Mesh)
    (ns : SimplexSet) (f e1 e2 e3 : Nat)
    (hf : (m.shape 2)[f]? = some (true, [e1, e2, e3]))
    (h1 : ∃ l, (m.shape 2)[map_get e1 e2f]? = some (true, l))
    (h2 : ∃ l, (m.shape 2)[map_get e2 e2f]? = some (true, l))
    (h3 : ∃ l, (m.shape 2)[map_get e3 e2f]? = some (true, l)) :
    ∃ m', vertex_insertion_tetrahedron e2f (m, ns) f
        = some (m', ns.insert 3 (m.shape 3).length) ∧
      m'.shape 3 = m.shape 3 ++
        [(true, [map_get e1 e2f, map_get e2 e2f, map_get e3 e2f, f])] ∧
      m'.shape 0 = m.shape 0 ∧ m'.shape 1 = m.shape 1 ∧ m'.shape 2 = m.shape 2 := by
  obtain ⟨sf, hsf, hbf⟩ := Mesh.lookup_of_shape hf
  obtain ⟨x1, g1, s3, s0, s1, s2⟩ := unsafe_insert_tetrahedron_shape m (map_get e1 e2f)
    (map_get e2 e2f) (map_get e3 e2f) f h1 h2 h3 ⟨_, hf⟩
  refine ⟨x1, ?_, s3, s0, s1, s2⟩
  unfold vertex_insertion_tetrahedron
  simp only [bind, hsf, hbf, Option.some_bind, List.getElem?_cons_zero,
    List.getElem?_cons_succ, g1, pure]

/-- The loop of `vertex_insertion_fill_hole` over the faces. -/
theorem vertex_tetrahedra_loop (e2f : List (Nat × Nat)) : ∀ (L : List Nat) (m : Mesh)
    (ns : SimplexSet),
    (∀ f ∈ L, ∃ e1 e2 e3, (m.shape 2)[f]? = some (true, [e1, e2, e3]) ∧
      (∃ l, (m.shape 2)[map_get e1 e2f]? = some (true, l)) ∧
      (∃ l, (m.shape 2)[map_get e2 e2f]? = some (true, l)) ∧
      (∃ l, (m.shape 2)[map_get e3 e2f]? = some (true, l))) →
    ∃ m' ns', L.foldlM (vertex_insertion_tetrahedron e2f) (m, ns) = some (m', ns') ∧
      m'.shape 3 = m.shape 3 ++ L.map (fun f => (true,
        (m.boundary_list 2 f).map (fun e => map_get e e2f) ++ [f])) ∧
      m'.shape 0 = m.shape 0 ∧ m'.shape 1 = m.shape 1 ∧ m'.shape 2 = m.shape 2 ∧
      ns' = (List.range' (m.shape 3).length L.length).foldl (fun s e => s.insert 3 e) ns := by
  intro L
  induction L with
  | nil =>
    intro m ns _
    exact ⟨m, ns, rfl, by simp, rfl, rfl, rfl, rfl⟩
  | cons a L ih =>
    intro m ns hL
    obtain ⟨e1, e2, e3, hf, h1, h2, h3⟩ := hL a (List.mem_cons_self _ _)
    obtain ⟨m1, g1, s3, s0, s1, s2⟩ :=
      vertex_insertion_tetrahedron_shape e2f m ns a e1 e2 e3 hf h1 h2 h3
    have hbl : ∀ e, m1.boundary_list 2 e = m.boundary_list 2 e := Mesh.boundary_list_shape s2
    obtain ⟨m', ns', hfold, q3, q0, q1, q2, qns⟩ := ih m1 (ns.insert 3 (m.shape 3).length) (by
      intro f hf'
      rw [s2]
      exact hL f (List.mem_cons_of_mem _ hf'))
    simp only [hbl] at q3
    have hba : m.boundary_list 2 a = [e1, e2, e3] := Mesh.boundary_list_of_shape hf
    refine ⟨m', ns', ?_, ?_, by rw [q0, s0], by rw [q1, s1], by rw [q2, s2], ?_⟩
    · rw [List.foldlM_cons]
      simp only [bind, g1, Option.some_bind]
      exact hfold
    · rw [q3, s3, List.map_cons, List.append_assoc, hba]
      rfl
    · rw [qns, s3, List.length_append, List.length_cons, List.length_cons, List.length_nil,
        List.range'_succ, List.foldl_cons]

end ISMesh
namespace ISMesh

theorem SimplexSet.keys_difference_nodup {s t : SimplexSet} {d : Nat}
    (h : (s.keys d).Nodup) : ((s.difference t).keys d).Nodup := by
  rcases d with _ | _ | _ | d <;>
    exact List.Nodup.filter _ h

theorem forall₂_range_of_index {R : Nat → Nat → Prop} : ∀ (L : List Nat) (a : Nat),
    (∀ i v, L[i]? = some v → R v (a + i)) → List.Forall₂ R L (List.range' a L.length) := by
  intro L
  induction L with
  | nil => intro a _; exact List.Forall₂.nil
  | cons x L ih =>
    intro a h
    rw [List.length_cons, List.range'_succ]
    refine List.Forall₂.cons (h 0 x (by simp)) (ih (a + 1) ?_)
    intro i v hv
    have := h (i + 1) v (by simpa using hv)
    rw [show a + 1 + i = a + (i + 1) by omega]
    exact this

/-- The boundary of a set of live tetrahedra, on a mesh without dangling boundary keys:
it returns a set of distinct live faces, edges and nodes without tetrahedra that holds the
boundary entries of its faces and edges. -/
theorem boundary_set_closed {m : Mesh} {S : SimplexSet} (hb : BoundaryLive m)
    (hl : ∀ t ∈ S.tetrahedra, (m.lookup_simplex 3 t).isSome) :
    ∃ B, boundary_set m S SimplexSet.empty = some B ∧ LiveSet m B ∧
      (∀ d, d ≤ 3 → (B.keys d).Nodup) ∧ B.keys 3 = [] ∧
      ∀ d, d < 2 → ∀ k ∈ B.keys (d + 1), ∀ a, m.lookup_simplex (d + 1) k = some a →
        ∀ x ∈ a.m_boundary, x ∈ B.keys d := by
  obtain ⟨B, hB, hlive⟩ := boundary_set_returns hb hl
  have hB' := hB
  unfold boundary_set boundary_helper2 closure_set at hB'
  simp only [bind, Option.bind_eq_some] at hB'
  obtain ⟨occ, -, hR⟩ := hB'
  obtain ⟨c1, c2, c3, c4⟩ := closure_helper_spec hR
  have hk : ∀ d, d ≤ 3 → d ≠ 2 → (((occ.foldl (fun s k => set_insert k s) []).filter
      (fun k => occ.count k % 256 = 1)).foldl
      (fun s k => s.insert (3 - 1) k) SimplexSet.empty).keys d = [] := by
    intro d hd hne
    rw [SimplexSet.keys_foldl_insert, if_neg (by
      have : min (3 - 1) 3 = 2 := by decide
      omega), SimplexSet.keys_empty]
  refine ⟨B, hB, hlive, fun d hd => (c1 d hd).nodup, ?_, ?_⟩
  · apply List.eq_nil_iff_forall_not_mem.2
    intro x hx
    rw [c3 x, hk 3 (by decide) (by decide)] at hx
    cases hx
  · intro d hd k hk' a ha x hx
    rw [c4 d (by omega) x]
    exact Or.inr ⟨k, hk', a, ha, hx⟩

end ISMesh
namespace ISMesh

/-- The state of the mesh when `vertex_insertion_helper` calls `vertex_insertion_fill_hole`:
the call has returned so far, the new node is appended, the slots of the boundary of the
patch are as in the given mesh and the tetrahedra of the patch are no longer valid. -/
theorem vertex_insertion_cleared {m : Mesh} {S : SimplexSet} (hb : BoundaryLive m)
    (hS : S.nodes = [] ∧ S.edges = [] ∧ S.faces = [])
    (hl : ∀ t ∈ S.tetrahedra, (m.lookup_simplex 3 t).isSome) :
    ∃ cl B m1 m2 m3, closure_set m S SimplexSet.empty = some cl ∧
      boundary_set m S SimplexSet.empty = some B ∧
      repair_co_boundaries m (cl.difference B) B = some m1 ∧
      unsafe_remove_set m1 (cl.difference B) = some m2 ∧
      insert_node m2 false = some (m3, (m.shape 0).length) ∧
      LiveSet m B ∧ (∀ d, d ≤ 3 → (B.keys d).Nodup) ∧ B.keys 3 = [] ∧
      (∀ d, d < 2 → ∀ k ∈ B.keys (d + 1), ∀ a, m.lookup_simplex (d + 1) k = some a →
        ∀ x ∈ a.m_boundary, x ∈ B.keys d) ∧
      m3.shape 0 = m2.shape 0 ++ [(true, [])] ∧ (m2.shape 0).length = (m.shape 0).length ∧
      (∀ d, 1 ≤ d → d ≤ 3 → (m3.shape d).length = (m.shape d).length ∧
        (∀ k ∈ B.keys d, (m3.shape d)[k]? = (m.shape d)[k]?)) ∧
      (∀ t ∈ S.tetrahedra, ∀ b : List Nat, (m3.shape 3)[t]? ≠ some (true, b)) := by
  obtain ⟨cl, hcl⟩ := closure_helper_returns (m := m) (S := S)
    (fun d k => 1 ≤ d ∧ d ≤ 3 ∧ (m.lookup_simplex d k).isSome)
    (fun d k h => h.2.2)
    (fun d h1 h3 k hk => ⟨h1, h3, by
      have hc : d = 1 ∨ d = 2 ∨ d = 3 := by omega
      rcases hc with rfl | rfl | rfl
      · rw [show S.keys 1 = S.edges from rfl, hS.2.1] at hk; cases hk
      · rw [show S.keys 2 = S.faces from rfl, hS.2.2] at hk; cases hk
      · exact hl k hk⟩)
    (fun d k a h2 h3 hk ha b hb' =>
      ⟨by omega, by omega, hb d k a (by omega) h3 ha b hb'⟩)
  obtain ⟨c1, c2, c3, c4⟩ := closure_helper_spec hcl
  obtain ⟨B, hB, hlive, hnd, hB3, hdown⟩ := boundary_set_closed hb hl
  obtain ⟨m1, hm1⟩ := @repair_co_boundaries_returns (cl.difference B) B m (by
    intro d hd k hk
    obtain ⟨s, hs⟩ := Option.isSome_iff_exists.1 (hlive (d + 1) (by omega) (by omega) k hk)
    exact ⟨s, hs, fun b hb' => hb (d + 1) k s (by omega) (by omega) hs b hb'⟩)
  have sh1 : ∀ d, m1.shape d = m.shape d := repair_co_boundaries_shape hm1
  have hcl_live : ∀ d, d ≤ 3 → ∀ k ∈ cl.keys d, (m.lookup_simplex d k).isSome := by
    intro d hd k hk
    rcases Nat.eq_zero_or_pos d with rfl | hpos
    · rw [c4 0 (by decide) k] at hk
      rcases hk with hk | ⟨e, he, a, ha, hx⟩
      · rw [show S.keys 0 = S.nodes from rfl, hS.1] at hk; cases hk
      · exact hb 1 e a (by decide) (by decide) ha k hx
    · exact c2 d hpos hd k hk
  obtain ⟨m2, hm2, sh2⟩ := @unsafe_remove_set_shape m1 (cl.difference B)
    (fun d hd => SimplexSet.keys_difference_nodup (c1 d hd).nodup)
    (by
      intro d hd k hk
      rw [SimplexSet.mem_keys_difference] at hk
      obtain ⟨s, hs⟩ := Option.isSome_iff_exists.1 (hcl_live d hd k hk.1)
      exact ⟨s.m_boundary, by rw [sh1]; exact Mesh.shape_of_lookup hs⟩)
    (by
      intro t ht b hbt f hf
      rw [sh1] at hbt ⊢
      obtain ⟨s, hs, hsb⟩ := Mesh.lookup_of_shape hbt
      obtain ⟨sf, hsf⟩ := Option.isSome_iff_exists.1
        (hb 3 t s (by decide) (by decide) hs f (by rw [hsb]; exact hf))
      exact ⟨sf.m_boundary, Mesh.shape_of_lookup hsf⟩)
  obtain ⟨m3, hm3, i0, i1, i2, i3⟩ := insert_node_shape m2 false
  have hlen0 : (m2.shape 0).length = (m.shape 0).length := by
    rw [(sh2 0 (by decide)).1, sh1]
  rw [hlen0] at hm3
  refine ⟨cl, B, m1, m2, m3, hcl, hB, hm1, hm2, hm3, hlive, hnd, hB3, hdown, i0, hlen0, ?_, ?_⟩
  · intro d h1 h3
    have hm3d : m3.shape d = m2.shape d := by
      have hc : d = 1 ∨ d = 2 ∨ d = 3 := by omega
      rcases hc with rfl | rfl | rfl
      · exact i1
      · exact i2
      · exact i3
    rw [hm3d]
    obtain ⟨q1, q2, -⟩ := sh2 d h3
    refine ⟨by rw [q1, sh1], fun k hk => ?_⟩
    rw [q2 k (by
      rw [SimplexSet.mem_keys_difference]
      exact fun h => h.2 hk), sh1]
  · intro t ht b
    rw [i3]
    exact (sh2 3 (by decide)).2.2 t (by
      rw [SimplexSet.mem_keys_difference, c3 t]
      refine ⟨ht, ?_⟩
      rw [hB3]
      exact List.not_mem_nil t) b

/-- The key sets of `new_simplices` after `vertex_insertion_fill_hole` on an empty set. -/
theorem fill_hole_new_simplices (n k1 a k2 b k3 c : Nat) :
    ((List.range' k3 c).foldl (fun s e => s.insert 3 e)
      ((List.range' k2 b).foldl (fun s e => s.insert 2 e)
        ((List.range' k1 a).foldl (fun s e => s.insert 1 e)
          (SimplexSet.empty.insert 0 n)))) =
      ⟨[n], List.range' k1 a, List.range' k2 b, List.range' k3 c⟩ := by
  have hA : ∀ d, (SimplexSet.empty.insert 0 n).keys d = if min 0 3 = min d 3 then [n] else [] := by
    intro d
    rw [SimplexSet.keys_insert, SimplexSet.keys_empty]
    rfl
  have hB := SimplexSet.keys_insert_range 1 a k1 (SimplexSet.empty.insert 0 n) (by
    intro x hx
    rw [hA 1, if_neg (by decide)] at hx
    cases hx)
  have hC := SimplexSet.keys_insert_range 2 b k2 _ (by
    intro x hx
    rw [hB 2, if_neg (by decide), hA 2, if_neg (by decide)] at hx
    cases hx)
  have hD := SimplexSet.keys_insert_range 3 c k3 _ (by
    intro x hx
    rw [hC 3, if_neg (by decide), hB 3, if_neg (by decide), hA 3, if_neg (by decide)] at hx
    cases hx)
  apply SimplexSet.ext_keys
  intro d hd
  have hc : d = 0 ∨ d = 1 ∨ d = 2 ∨ d = 3 := by omega
  rcases hc with rfl | rfl | rfl | rfl
  · rw [hD 0, if_neg (by decide), hC 0, if_neg (by decide), hB 0, if_neg (by decide), hA 0,
      if_pos rfl]
    rfl
  · rw [hD 1, if_neg (by decide), hC 1, if_neg (by decide), hB 1, if_pos rfl, hA 1,
      if_neg (by decide)]
    rfl
  · rw [hD 2, if_neg (by decide), hC 2, if_pos rfl, hB 2, if_neg (by decide), hA 2,
      if_neg (by decide)]
    rfl
  · rw [hD 3, if_pos rfl, hC 3, if_neg (by decide), hB 3, if_neg (by decide), hA 3,
      if_neg (by decide)]
    rfl

theorem list_of_length_two {l : List Nat} (h : l.length = 2) : ∃ a b, l = [a, b] := by
  match l, h with
  | [a, b], _ => exact ⟨a, b, rfl⟩

theorem list_of_length_three {l : List Nat} (h : l.length = 3) : ∃ a b c, l = [a, b, c] := by
  match l, h with
  | [a, b, c], _ => exact ⟨a, b, c, rfl⟩

end ISMesh
namespace ISMesh

/-- C34: on a mesh without dangling boundary keys whose edges and faces have two and three
boundary entries, for a set `S` of live tetrahedra, `vertex_insertion(S, new_simplices)`
with an empty `new_simplices` returns a mesh, a node `n` and `new_simplices`, where `B` is
`boundary(S)`: `n` is not a live node of the given mesh and is one of the new mesh, no
tetrahedron of `S` is live any more, `new_simplices` holds the node `n`, and its edges,
faces and tetrahedra are distinct keys that are not live in the given mesh and are paired
with the nodes, edges and faces of `B` (themselves distinct): the edge paired with the node
`v` has the boundary list `[n, v]`, the face paired with the edge `e` has `e` followed by
two edges of `new_simplices`, the tetrahedron paired with the face `f` has three faces of
`new_simplices` followed by `f`. -/
theorem vertex_insertion_connects (m : Mesh) (S : SimplexSet) (hb : BoundaryLive m)
    (ha : BoundaryArity m) (hS : S.nodes = [] ∧ S.edges = [] ∧ S.faces = [])
    (hl : ∀ t ∈ S.tetrahedra, (m.lookup_simplex 3 t).isSome) :
    ∃ m' n ns B, vertex_insertion m S SimplexSet.empty = some (m', n, ns) ∧
      boundary_set m S SimplexSet.empty = some B ∧
      m.lookup_simplex 0 n = none ∧ (m'.lookup_simplex 0 n).isSome ∧
      (∀ t ∈ S.tetrahedra, m'.lookup_simplex 3 t = none) ∧
      ns.nodes = [n] ∧
      List.Forall₂ (fun v e => m.lookup_simplex 1 e = none ∧ m'.boundary_list 1 e = [n, v])
        B.nodes ns.edges ∧
      List.Forall₂ (fun e f => m.lookup_simplex 2 f = none ∧
        ∃ x y, m'.boundary_list 2 f = [e, x, y] ∧ x ∈ ns.edges ∧ y ∈ ns.edges)
        B.edges ns.faces ∧
      List.Forall₂ (fun f t => m.lookup_simplex 3 t = none ∧
        ∃ x y z, m'.boundary_list 3 t = [x, y, z, f] ∧ x ∈ ns.faces ∧ y ∈ ns.faces ∧
          z ∈ ns.faces) B.faces ns.tetrahedra ∧
      B.nodes.Nodup ∧ B.edges.Nodup ∧ B.faces.Nodup ∧
      ns.edges.Nodup ∧ ns.faces.Nodup ∧ ns.tetrahedra.Nodup := by
  obtain ⟨cl, B, m1, m2, m3, hcl, hB, hm1, hm2, hm3, hlive, hnd, hB3, hdown, i0, hlen0,
    hkeep, hdead⟩ := vertex_insertion_cleared hb hS hl
  have hn3 : (m3.shape 0)[(m.shape 0).length]? = some (true, []) := by
    rw [i0, ← hlen0]; exact list_getElem?_append_last _ _
  obtain ⟨st1, o1, e1, e0, e2, e3, emap, -, ens⟩ := vertex_edges_loop (m.shape 0).length
    B.nodes ⟨m3, [], [], SimplexSet.empty.insert 0 (m.shape 0).length, true⟩ ⟨[], hn3⟩
    (hnd 0 (by decide))
  simp only [] at e1 e0 e2 e3 emap ens
  obtain ⟨k1, -⟩ := hkeep 1 (by decide) (by decide)
  obtain ⟨k2, -⟩ := hkeep 2 (by decide) (by decide)
  obtain ⟨k3, -⟩ := hkeep 3 (by decide) (by decide)
  -- the edges of the boundary
  have hE : ∀ e ∈ B.edges, ∃ n1 n2, (m3.shape 1)[e]? = some (true, [n1, n2]) ∧
      n1 ∈ B.nodes ∧ n2 ∈ B.nodes := by
    intro e he
    obtain ⟨s, hs⟩ := Option.isSome_iff_exists.1 (hlive 1 (by decide) (by decide) e he)
    obtain ⟨n1, n2, hb12⟩ := list_of_length_two (ha 1 e s (by decide) (by decide) hs)
    refine ⟨n1, n2, ?_, hdown 0 (by decide) e he s hs n1 (by rw [hb12]; simp),
      hdown 0 (by decide) e he s hs n2 (by rw [hb12]; simp)⟩
    rw [(hkeep 1 (by decide) (by decide)).2 e he, Mesh.shape_of_lookup hs, hb12]
  have hE1 : ∀ e ∈ B.edges, ∃ n1 n2, (st1.mesh.shape 1)[e]? = some (true, [n1, n2]) ∧
      n1 ∈ B.nodes ∧ n2 ∈ B.nodes := by
    intro e he
    obtain ⟨n1, n2, h12, q1, q2⟩ := hE e he
    exact ⟨n1, n2, by rw [e1]; exact getElem?_append_of_some _ h12, q1, q2⟩
  obtain ⟨st2, o2, f2, f0, f1, f3, fmap, -, fns⟩ := vertex_faces_loop st1.map B.edges
    ⟨st1.mesh, [], [], st1.new_simplices, true⟩ (hnd 1 (by decide)) (by
      intro e he
      obtain ⟨n1, n2, h12, q1, q2⟩ := hE1 e he
      exact ⟨n1, n2, h12, ⟨_, (emap n1 q1).2⟩, ⟨_, (emap n2 q2).2⟩⟩)
  simp only [] at f2 f0 f1 f3 fmap fns
  -- the faces of the boundary
  have hF : ∀ f ∈ B.faces, ∃ x1 x2 x3, (st2.mesh.shape 2)[f]? = some (true, [x1, x2, x3]) ∧
      x1 ∈ B.edges ∧ x2 ∈ B.edges ∧ x3 ∈ B.edges := by
    intro f hf
    obtain ⟨s, hs⟩ := Option.isSome_iff_exists.1 (hlive 2 (by decide) (by decide) f hf)
    obtain ⟨x1, x2, x3, hb123⟩ := list_of_length_three (ha 2 f s (by decide) (by decide) hs)
    refine ⟨x1, x2, x3, ?_, hdown 1 (by decide) f hf s hs x1 (by rw [hb123]; simp),
      hdown 1 (by decide) f hf s hs x2 (by rw [hb123]; simp),
      hdown 1 (by decide) f hf s hs x3 (by rw [hb123]; simp)⟩
    rw [f2, e2]
    apply getElem?_append_of_some
    rw [(hkeep 2 (by decide) (by decide)).2 f hf, Mesh.shape_of_lookup hs, hb123]
  obtain ⟨m7, ns7, o3, g3, g0, g1, g2, gns⟩ := vertex_tetrahedra_loop st2.map B.faces
    st2.mesh st2.new_simplices (by
      intro f hf
      obtain ⟨x1, x2, x3, h123, q1, q2, q3⟩ := hF f hf
      exact ⟨x1, x2, x3, h123, ⟨_, (fmap x1 q1).2⟩, ⟨_, (fmap x2 q2).2⟩, ⟨_, (fmap x3 q3).2⟩⟩)
  have hns : ns7 = ⟨[(m.shape 0).length], List.range' (m.shape 1).length B.nodes.length,
      List.range' (m.shape 2).length B.edges.length,
      List.range' (m.shape 3).length B.faces.length⟩ := by
    rw [gns, fns, ens, f3, e3, e2, k1, k2, k3]
    exact fill_hole_new_simplices _ _ _ _ _ _ _
  have hlen1 : (st1.mesh.shape 1).length = (m.shape 1).length + B.nodes.length := by
    rw [e1, List.length_append, List.length_map, k1]
  have hlen2 : (st2.mesh.shape 2).length = (m.shape 2).length + B.edges.length := by
    rw [f2, List.length_append, List.length_map, e2, k2]
  have hmem1 : ∀ v ∈ B.nodes, map_get v st1.map ∈
      List.range' (m.shape 1).length B.nodes.length := by
    intro v hv
    obtain ⟨q1, q2⟩ := emap v hv
    have := lt_length_of_getElem? q2
    rw [k1] at q1
    rw [List.mem_range'_1]
    omega
  have hmem2 : ∀ e ∈ B.edges, map_get e st2.map ∈
      List.range' (m.shape 2).length B.edges.length := by
    intro e he
    obtain ⟨q1, q2⟩ := fmap e he
    have := lt_length_of_getElem? q2
    rw [e2, k2] at q1
    rw [List.mem_range'_1]
    omega
  subst hns
  refine ⟨m7, (m.shape 0).length, ⟨[(m.shape 0).length],
    List.range' (m.shape 1).length B.nodes.length,
    List.range' (m.shape 2).length B.edges.length,
    List.range' (m.shape 3).length B.faces.length⟩, B, ?_, hB, ?_, ?_, ?_, rfl, ?_, ?_, ?_,
    hnd 0 (by decide), hnd 1 (by decide), hnd 2 (by decide),
    List.nodup_range' _ _, List.nodup_range' _ _, List.nodup_range' _ _⟩
  · unfold vertex_insertion vertex_insertion_helper vertex_insertion_fill_hole
    simp only [bind, hcl, hB, hm1, hm2, hm3, o1, o2, o3, Option.some_bind, pure]
  · apply Mesh.lookup_none_of_shape
    intro b hb'
    exact absurd (lt_length_of_getElem? hb') (lt_irrefl _)
  · exact Mesh.live_of_shape (by rw [g0, f0, e0]; exact hn3)
  · intro t ht
    apply Mesh.lookup_none_of_shape
    intro b hb'
    obtain ⟨s, hs⟩ := Option.isSome_iff_exists.1 (hl t ht)
    have hlt := lt_length_of_getElem? (Mesh.shape_of_lookup hs)
    rw [g3, f3, e3, List.getElem?_append_left (by rw [k3]; exact hlt)] at hb'
    exact hdead t ht b hb'
  · apply forall₂_range_of_index
    intro i v hv
    refine ⟨Mesh.lookup_none_of_shape (fun b hb' => ?_), Mesh.boundary_list_of_shape ?_⟩
    · have := lt_length_of_getElem? hb'
      omega
    · rw [g1, f1, e1, List.getElem?_append_right (by omega), k1, Nat.add_sub_cancel_left,
        List.getElem?_map, hv]
      rfl
  · apply forall₂_range_of_index
    intro i e he
    have hem : e ∈ B.edges := List.getElem?_mem he
    obtain ⟨n1, n2, h12, q1, q2⟩ := hE1 e hem
    refine ⟨Mesh.lookup_none_of_shape (fun b hb' => ?_), map_get n1 st1.map,
      map_get n2 st1.map, Mesh.boundary_list_of_shape ?_, hmem1 n1 q1, hmem1 n2 q2⟩
    · have := lt_length_of_getElem? hb'
      omega
    · rw [g2, f2, List.getElem?_append_right (by rw [e2, k2]; omega), e2, k2,
        Nat.add_sub_cancel_left, List.getElem?_map, he, Option.map_some',
        Mesh.boundary_list_of_shape h12]
      rfl
  · apply forall₂_range_of_index
    intro i f hf
    have hfm : f ∈ B.faces := List.getElem?_mem hf
    obtain ⟨x1, x2, x3, h123, q1, q2, q3⟩ := hF f hfm
    refine ⟨Mesh.lookup_none_of_shape (fun b hb' => ?_), map_get x1 st2.map,
      map_get x2 st2.map, map_get x3 st2.map, Mesh.boundary_list_of_shape ?_,
      hmem2 x1 q1, hmem2 x2 q2, hmem2 x3 q3⟩
    · have := lt_length_of_getElem? hb'
      omega
    · rw [g3, List.getElem?_append_right (by rw [f3, e3, k3]; omega), f3, e3, k3,
        Nat.add_sub_cancel_left, List.getElem?_map, hf, Option.map_some',
        Mesh.boundary_list_of_shape h123]
      rfl

theorem glued_mesh_reachable : Reachable glued_mesh :=
  reachable_run_inserts _ Reachable.empty (by decide! :
    run_inserts Mesh.empty glued_script = some glued_mesh)

/-- Witness of C34: the two tetrahedra of the mesh with two tetrahedra glued along the
face 3; the new node is the node 5, connected to the five nodes, nine edges and six outer
faces. -/
theorem vertex_insertion_connects_witness :
    (vertex_insertion glued_mesh ⟨[], [], [], [0, 1]⟩ SimplexSet.empty).map
      (fun r => (r.2.1, r.2.2)) = some (5, ⟨[5], [9, 10, 11, 12, 13],
        [7, 8, 9, 10, 11, 12, 13, 14, 15], [2, 3, 4, 5, 6, 7]⟩) ∧
    boundary_set glued_mesh ⟨[], [], [], [0, 1]⟩ SimplexSet.empty
      = some ⟨[0, 1, 2, 3, 4], [0, 1, 2, 3, 4, 5, 6, 7, 8], [0, 1, 2, 4, 5, 6], []⟩ ∧
    ∃ m' n ns B, vertex_insertion glued_mesh ⟨[], [], [], [0, 1]⟩ SimplexSet.empty
        = some (m', n, ns) ∧
      boundary_set glued_mesh ⟨[], [], [], [0, 1]⟩ SimplexSet.empty = some B ∧
      glued_mesh.lookup_simplex 0 n = none ∧ (m'.lookup_simplex 0 n).isSome ∧
      (∀ t ∈ [0, 1], m'.lookup_simplex 3 t = none) ∧
      ns.nodes = [n] ∧
      List.Forall₂ (fun v e => glued_mesh.lookup_simplex 1 e = none ∧
        m'.boundary_list 1 e = [n, v]) B.nodes ns.edges ∧
      List.Forall₂ (fun e f => glued_mesh.lookup_simplex 2 f = none ∧
        ∃ x y, m'.boundary_list 2 f = [e, x, y] ∧ x ∈ ns.edges ∧ y ∈ ns.edges)
        B.edges ns.faces ∧
      List.Forall₂ (fun f t => glued_mesh.lookup_simplex 3 t = none ∧
        ∃ x y z, m'.boundary_list 3 t = [x, y, z, f] ∧ x ∈ ns.faces ∧ y ∈ ns.faces ∧
          z ∈ ns.faces) B.faces ns.tetrahedra ∧
      B.nodes.Nodup ∧ B.edges.Nodup ∧ B.faces.Nodup ∧
      ns.edges.Nodup ∧ ns.faces.Nodup ∧ ns.tetrahedra.Nodup :=
  ⟨by decide!, by decide!,
    vertex_insertion_connects glued_mesh ⟨[], [], [], [0, 1]⟩
      (reachable_invariants glued_mesh_reachable).2.2.boundaryLive
      (reachable_invariants glued_mesh_reachable).2.1 ⟨rfl, rfl, rfl⟩
      (by
        intro t ht
        simp only [List.mem_cons, List.mem_singleton, List.not_mem_nil, or_false] at ht
        rcases ht with rfl | rfl <;> decide!)⟩

end ISMesh
namespace ISMesh

theorem LabelStep.step_of_erase {m m' : Mesh} (h : m'.erase_labels = m.erase_labels)
    {n d x d' y : Nat} (hs : LabelStep m n d x d' y) : LabelStep m' n d x d' y := by
  obtain ⟨h1, h2⟩ := hs
  refine ⟨(InBoundary.iff_of_erase h).2 h1, ?_⟩
  rcases h2 with ⟨a, b, s, hs, hy⟩ | ⟨a, b, s, hs, hy⟩
  · obtain ⟨s', hs', -, hco⟩ := Mesh.lookup_of_erase h hs
    exact Or.inl ⟨a, b, s', hs', by rw [hco]; exact hy⟩
  · obtain ⟨s', hs', hbd, -⟩ := Mesh.lookup_of_erase h hs
    exact Or.inr ⟨a, b, s', hs', by rw [hbd]; exact hy⟩

theorem LabelStep.step_iff_of_erase {m m' : Mesh} (h : m'.erase_labels = m.erase_labels)
    {n d x d' y : Nat} : LabelStep m' n d x d' y ↔ LabelStep m n d x d' y :=
  ⟨LabelStep.step_of_erase h.symm, LabelStep.step_of_erase h⟩

/-- A path through simplices labelled `l` stays one when labels `l` are kept. -/
theorem LabelPath.mono {m m' : Mesh} {n : Nat} {l : Int} {x y : Nat × Nat}
    (he : m'.erase_labels = m.erase_labels)
    (hl : ∀ d k, m.label d k = l → m'.label d k = l) (h : LabelPath m n l x y) :
    LabelPath m' n l x y := by
  unfold LabelPath at h ⊢
  exact Relation.ReflTransGen.mono (fun a b hab => ⟨hab.1.step_of_erase he, hl _ _ hab.2⟩) h

theorem LabelRun.labels_kept {n : Nat} {l : Int} {E : Nat → Nat → Prop} {root : Nat × Nat}
    {m m' : Mesh} (h : LabelRun n l E root m m') {d k : Nat} (hne : m.label d k ≠ 0) :
    m'.label d k = m.label d k := by
  rcases h.set d k with h1 | h1
  · exact h1
  · exact absurd h1.1 hne

theorem LabelRun.shrink {n : Nat} {l : Int} {E : Nat → Nat → Prop} {root : Nat × Nat}
    {m m' : Mesh} (h : LabelRun n l E root m m') : LabelsShrink m' m :=
  ⟨h.erase.symm, fun d k hne => by rw [h.labels_kept hne]; exact hne⟩

theorem LabelRun.keeps {n : Nat} {l : Int} {E : Nat → Nat → Prop} {root : Nat × Nat}
    {m m' : Mesh} (h : LabelRun n l E root m m') (hl : l ≠ 0) {d k : Nat}
    (hk : m.label d k = l) : m'.label d k = l := by
  rw [h.labels_kept (by rw [hk]; exact hl), hk]

theorem LabelRun.label_run_refl (n : Nat) (l : Int) (E : Nat → Nat → Prop) (root : Nat × Nat)
    (m : Mesh) : LabelRun n l E root m m :=
  ⟨rfl, fun _ _ => Or.inl rfl, fun _ _ _ _ h1 h2 => absurd h1 h2⟩

/-- A run followed by a run that excepts nothing. -/
theorem LabelRun.label_run_append {n : Nat} {l : Int} {E : Nat → Nat → Prop} {root : Nat × Nat}
    {a b c : Mesh} (hl : l ≠ 0) (h1 : LabelRun n l E root a b)
    (h2 : LabelRun n l (fun _ _ => False) root b c) : LabelRun n l E root a c := by
  refine ⟨h2.erase.trans h1.erase, ?_, ?_⟩
  · intro d k
    rcases h1.set d k with e1 | ⟨z1, l1, i1, p1⟩
    · rcases h2.set d k with e2 | ⟨z2, l2, i2, p2⟩
      · exact Or.inl (e2.trans e1)
      · exact Or.inr ⟨by rw [← e1]; exact z2, l2, (InBoundary.iff_of_erase h1.erase).1 i2, p2⟩
    · refine Or.inr ⟨z1, h2.keeps hl l1, i1, p1.mono h2.erase (fun _ _ h => h2.keeps hl h)⟩
  · intro d k d' y hz hne hE hstep
    by_cases hb : b.label d k = 0
    · exact h2.closed d k d' y hb hne (fun hf => hf) (hstep.step_of_erase h1.erase)
    · have := h1.closed d k d' y hz hb hE hstep
      rw [h2.labels_kept this]
      exact this

/-- A run started on a simplex that is reached from `root` is a run started on `root`. -/
theorem LabelRun.reroot {n : Nat} {l : Int} {E : Nat → Nat → Prop} {root x : Nat × Nat}
    {m m' : Mesh} (h : LabelRun n l E x m m') (hp : LabelPath m' n l root x) :
    LabelRun n l E root m m' :=
  ⟨h.erase, fun d k => by
    rcases h.set d k with e | ⟨z, hl, hi, hpath⟩
    · exact Or.inl e
    · exact Or.inr ⟨z, hl, hi, Relation.ReflTransGen.trans hp hpath⟩, h.closed⟩

/-- The call `boundary(k, set)` for a live simplex on a mesh without dangling boundary keys
returns, and the node `n` is in the set if and only if it is in the transitive boundary. -/
theorem boundary_contains_node {m : Mesh} (hb : BoundaryLive m) {d x : Nat} (hd : d ≤ 3)
    (hl : (m.lookup_simplex d x).isSome) (n : Nat) :
    ∃ R, boundary m d x SimplexSet.empty = some R ∧
      (R.contains 0 n = true ↔ InBoundary m d x 0 n) := by
  obtain ⟨R, hR⟩ := boundary_helper_returns m (fun d k => (m.lookup_simplex d k).isSome)
    (fun d k hk => hk)
    (fun d k a h2 h3 _ ha b hbm => hb d k a (by omega) h3 ha b hbm)
    d hd x SimplexSet.empty (fun _ => hl)
  refine ⟨R, hR, ?_⟩
  have := (boundary_helper_spec m d hd x _ _ hR).1 0 (by omega) n
  rw [SimplexSet.keys_empty] at this
  simp only [List.not_mem_nil, false_or] at this
  rw [← this]
  unfold SimplexSet.contains
  simp

end ISMesh
namespace ISMesh

/-- Setting a label on an unlabelled simplex of a mesh grown from `m1` leaves fewer
unlabelled slots than `m1` has. -/
theorem label_weight_step {cur c1 m1 : Mesh} {d c : Nat} {cs : Simplex} {l : Int}
    {fuel : Nat} (hd : d ≤ 3) (hl : l ≠ 0) (hg : LabelsShrink cur m1)
    (hw : m1.weight (fun x => decide (x = 0)) < fuel + 1)
    (hcs : cur.lookup_simplex d c = some cs) (hz : cs.m_label = 0)
    (hc1 : cur.modify d c (fun x => x.set_label l) = some c1) :
    c1.weight (fun x => decide (x = 0)) < fuel := by
  obtain ⟨gc, lc⟩ := modify_set_label_grows hl hc1
  have hlt1 : c1.weight (fun l => decide (l = 0)) <
      cur.weight (fun l => decide (l = 0)) := by
    apply Mesh.weight_lt (e := d) (j := c) hd
      (fun d => Mesh.length_of_erase gc.1.symm d)
    · intro d k hk
      simp only [decide_eq_true_eq] at hk ⊢
      by_contra hne
      exact gc.2 d k hne hk
    · exact Mesh.lt_length_of_lookup (by rw [hcs]; rfl)
    · simp only [decide_eq_true_eq]
      rw [Mesh.label_of_lookup hcs]
      exact hz
    · simp only [decide_eq_false_iff_not]
      exact lc
  have hle : cur.weight (fun l => decide (l = 0)) ≤
      m1.weight (fun l => decide (l = 0)) := by
    apply Mesh.weight_le (fun d => Mesh.length_of_erase hg.1.symm d)
    intro d k hk
    simp only [decide_eq_true_eq] at hk ⊢
    by_contra hne
    exact hg.2 d k hne hk
  omega

/-- The first write of a call of the label traversal, as a run that excepts the simplex. -/
theorem label_run_init {m m1 : Mesh} {n d k : Nat} {l : Int} {s : Simplex}
    (hd : d = 1 ∨ d = 2) (hs : m.lookup_simplex d k = some s) (hz : s.m_label = 0)
    (hin : InBoundary m d k 0 n) (h1 : m.modify d k (fun x => x.set_label l) = some m1) :
    LabelRun n l (fun d' x => d' = d ∧ x = k) (d, k) m m1 := by
  obtain ⟨hset, hkeep⟩ := Mesh.label_modify_set h1
  have he : m1.erase_labels = m.erase_labels :=
    @Mesh.erase_labels_modify m m1 d k (fun x => x.set_label l) (fun s => rfl) h1
  have hcase : ∀ d' k', ¬ (d' = d ∧ k' = k) → m1.label d' k' = m.label d' k' := by
    intro d' k' hne
    by_cases hd3 : d' ≤ 3
    · exact hkeep d' k' (fun hc => hne ⟨by
        have := hc.1
        rcases hd with rfl | rfl <;> omega, hc.2⟩)
    · rw [Mesh.label_min m1, Mesh.label_min m, show min d' 3 = 3 by omega]
      exact hkeep 3 k' (fun hc => by
        have := hc.1
        rcases hd with rfl | rfl <;> omega)
  refine ⟨he, ?_, ?_⟩
  · intro d' k'
    by_cases hc : d' = d ∧ k' = k
    · obtain ⟨rfl, rfl⟩ := hc
      exact Or.inr ⟨by rw [Mesh.label_of_lookup hs]; exact hz, hset, hin,
        Relation.ReflTransGen.refl⟩
    · exact Or.inl (hcase d' k' hc)
  · intro d' k' d'' y hz' hne hE _
    exact absurd (hcase d' k' hE) (by rw [hz']; exact hne)

/-- The label traversal of `compress` for the node `n`, called with a label other than 0 on
an unlabelled live edge or face that has `n` in its transitive boundary, on a mesh without
dangling keys and with fuel above the number of unlabelled slots: it returns, and it is a
run started on the simplex. -/
theorem label_co_bound_run (n : Nat) (l : Int) (hl : l ≠ 0) (fuel : Nat) :
    (∀ k m, BoundaryLive m → CoIncidence m → ∀ s, m.lookup_simplex 1 k = some s →
      s.m_label = 0 → InBoundary m 1 k 0 n →
      (∀ m1, m.modify 1 k (fun x => x.set_label l) = some m1 →
        m1.weight (fun x => decide (x = 0)) < fuel) →
      ∃ m', label_co_bound fuel 0 n 1 k l m = some m' ∧
        LabelRun n l (fun _ _ => False) (1, k) m m' ∧ m'.label 1 k = l) ∧
    (∀ c m, BoundaryLive m → CoIncidence m → ∀ s, m.lookup_simplex 2 c = some s →
      s.m_label = 0 → InBoundary m 2 c 0 n →
      (∀ m1, m.modify 2 c (fun x => x.set_label l) = some m1 →
        m1.weight (fun x => decide (x = 0)) < fuel) →
      ∃ m', label_co_co_bound fuel 0 n 2 c l m = some m' ∧
        LabelRun n l (fun _ _ => False) (2, c) m m' ∧ m'.label 2 c = l) := by
  induction fuel with
  | zero =>
    constructor
    · intro k m _ _ s hs _ _ hw
      obtain ⟨m1, h1⟩ := Mesh.modify_isSome (fun x => x.set_label l)
        (by rw [hs]; rfl : (m.lookup_simplex 1 k).isSome)
      exact absurd (hw m1 h1) (by omega)
    · intro k m _ _ s hs _ _ hw
      obtain ⟨m1, h1⟩ := Mesh.modify_isSome (fun x => x.set_label l)
        (by rw [hs]; rfl : (m.lookup_simplex 2 k).isSome)
      exact absurd (hw m1 h1) (by omega)
  | succ fuel ih =>
    constructor
    · intro k m hbl hco s hs hz hin hw
      obtain ⟨m1, h1⟩ := Mesh.modify_isSome (fun x => x.set_label l)
        (by rw [hs]; rfl : (m.lookup_simplex 1 k).isSome)
      have hw1 := hw m1 h1
      obtain ⟨g1, -⟩ := modify_set_label_grows hl h1
      obtain ⟨hset, -⟩ := Mesh.label_modify_set h1
      have init := label_run_init (n := n) (Or.inl rfl) hs hz hin h1
      have key := foldlM_prefix_returns
        (fun (pre : List Nat) (cur : Mesh) =>
          LabelRun n l (fun d' x => d' = 1 ∧ x = k) (1, k) m cur ∧ LabelsShrink cur m1 ∧
          cur.label 1 k = l ∧ ∀ c ∈ pre, InBoundary m 2 c 0 n → cur.label 2 c ≠ 0)
        (fun (m : Mesh) c => do
          let simplex ← m.lookup_simplex (1 + 1) c
          if simplex.m_label = 0 then do
            let s_boundary ← boundary m (1 + 1) c SimplexSet.empty
            if s_boundary.contains 0 n then label_co_co_bound fuel 0 n (1 + 1) c l m
            else pure m
          else pure m)
        s.m_co_boundary ?_ m1
        ⟨init, LabelsShrink.shrink_refl _, hset, fun c hc => absurd hc (List.not_mem_nil _)⟩
      · obtain ⟨m', hfold, run, -, lab, hall⟩ := key
        refine ⟨m', ?_, ⟨run.erase, run.set, ?_⟩, lab⟩
        · rw [label_co_bound]
          simp only [bind, hs, Option.some_bind, hz, ne_eq, not_true_eq_false, if_false, h1]
          exact hfold
        · intro d x d' y hzx hne _ hstep
          by_cases hE : d = 1 ∧ x = k
          · obtain ⟨rfl, rfl⟩ := hE
            obtain ⟨hiy, ⟨-, rfl, s', hs', hy⟩ | ⟨hc, -⟩⟩ := hstep
            · rw [hs] at hs'
              cases hs'
              exact hall y hy hiy
            · omega
          · exact run.closed d x d' y hzx hne hE hstep
      · intro pre c suf cur hpre ⟨run, hg, lab, hall⟩
        have herase : cur.erase_labels = m.erase_labels := run.erase
        have hc : c ∈ s.m_co_boundary := by rw [hpre]; simp
        obtain ⟨cs0, hcs0, hk0⟩ := hco 1 k s (by omega) hs c hc
        obtain ⟨cs, hcs, -, -⟩ := Mesh.lookup_of_erase herase hcs0
        have hall' : ∀ x ∈ pre, InBoundary m 2 x 0 n → cur.label 2 x ≠ 0 := hall
        by_cases hz' : cs.m_label = 0
        · obtain ⟨R, hR, hiff⟩ := boundary_contains_node (hbl.live_of_erase herase)
            (d := 2) (x := c) (by omega) (by rw [hcs]; rfl) n
          by_cases hcont : R.contains 0 n = true
          · have hin' : InBoundary cur 2 c 0 n := hiff.1 hcont
            obtain ⟨r, hr, run2, lab2⟩ := ih.2 c cur (hbl.live_of_erase herase)
              (hco.co_of_erase herase) cs hcs hz' hin'
              (fun c1 hc1 => label_weight_step (by omega) hl hg hw1 hcs hz' hc1)
            obtain ⟨sk, hsk, -, hcok⟩ := Mesh.lookup_of_erase (run2.erase.trans herase) hs
            have path : LabelPath r n l (1, k) (2, c) :=
              Relation.ReflTransGen.single
                ⟨⟨(InBoundary.iff_of_erase run2.erase).2 hin',
                  Or.inl ⟨rfl, rfl, sk, hsk, by rw [hcok]; exact hc⟩⟩, lab2⟩
            refine ⟨r, ?_, run.label_run_append hl (run2.reroot path),
              run2.shrink.shrink_trans hg, run2.keeps hl lab, ?_⟩
            · simp only [bind, hcs, Option.some_bind, if_pos hz', hR, hcont, if_true]
              exact hr
            · intro x hx hix
              rcases List.mem_append.1 hx with hx | hx
              · have := hall' x hx hix
                rw [run2.labels_kept this]
                exact this
              · simp only [List.mem_singleton] at hx
                subst hx
                rw [lab2]
                exact hl
          · refine ⟨cur, ?_, run, hg, lab, ?_⟩
            · simp only [bind, hcs, Option.some_bind, if_pos hz', hR, hcont]
              rfl
            · intro x hx hix
              rcases List.mem_append.1 hx with hx | hx
              · exact hall' x hx hix
              · simp only [List.mem_singleton] at hx
                subst hx
                exact absurd (hiff.2 ((InBoundary.iff_of_erase herase).2 hix)) hcont
        · refine ⟨cur, ?_, run, hg, lab, ?_⟩
          · simp only [bind, hcs, Option.some_bind, if_neg hz']
            rfl
          · intro x hx hix
            rcases List.mem_append.1 hx with hx | hx
            · exact hall' x hx hix
            · simp only [List.mem_singleton] at hx
              subst hx
              rw [Mesh.label_of_lookup hcs]
              exact hz'
    · intro k m hbl hco s hs hz hin hw
      obtain ⟨m1, h1⟩ := Mesh.modify_isSome (fun x => x.set_label l)
        (by rw [hs]; rfl : (m.lookup_simplex 2 k).isSome)
      have hw1 := hw m1 h1
      obtain ⟨g1, -⟩ := modify_set_label_grows hl h1
      obtain ⟨hset, -⟩ := Mesh.label_modify_set h1
      have init := label_run_init (n := n) (Or.inr rfl) hs hz hin h1
      have key := foldlM_prefix_returns
        (fun (pre : List Nat) (cur : Mesh) =>
          LabelRun n l (fun d' x => d' = 2 ∧ x = k) (2, k) m cur ∧ LabelsShrink cur m1 ∧
          cur.label 2 k = l ∧ ∀ c ∈ pre, InBoundary m 1 c 0 n → cur.label 1 c ≠ 0)
        (fun (m : Mesh) b => do
          let simplex ← m.lookup_simplex (2 - 1) b
          if simplex.m_label = 0 then do
            let s_boundary ← boundary m (2 - 1) b SimplexSet.empty
            if s_boundary.contains 0 n then label_co_bound fuel 0 n (2 - 1) b l m
            else pure m
          else pure m)
        s.m_boundary ?_ m1
        ⟨init, LabelsShrink.shrink_refl _, hset, fun c hc => absurd hc (List.not_mem_nil _)⟩
      · obtain ⟨m', hfold, run, -, lab, hall⟩ := key
        refine ⟨m', ?_, ⟨run.erase, run.set, ?_⟩, lab⟩
        · rw [label_co_co_bound]
          simp only [bind, hs, Option.some_bind, hz, ne_eq, not_true_eq_false, if_false, h1]
          exact hfold
        · intro d x d' y hzx hne _ hstep
          by_cases hE : d = 2 ∧ x = k
          · obtain ⟨rfl, rfl⟩ := hE
            obtain ⟨hiy, ⟨hc, -⟩ | ⟨-, rfl, s', hs', hy⟩⟩ := hstep
            · omega
            · rw [hs] at hs'
              cases hs'
              exact hall y hy hiy
          · exact run.closed d x d' y hzx hne hE hstep
      · intro pre c suf cur hpre ⟨run, hg, lab, hall⟩
        have herase : cur.erase_labels = m.erase_labels := run.erase
        have hc : c ∈ s.m_boundary := by rw [hpre]; simp
        obtain ⟨cs0, hcs0⟩ := Option.isSome_iff_exists.1
          (hbl 2 k s (by omega) (by omega) hs c hc)
        obtain ⟨cs, hcs, -, -⟩ := Mesh.lookup_of_erase herase hcs0
        have hall' : ∀ x ∈ pre, InBoundary m 1 x 0 n → cur.label 1 x ≠ 0 := hall
        by_cases hz' : cs.m_label = 0
        · obtain ⟨R, hR, hiff⟩ := boundary_contains_node (hbl.live_of_erase herase)
            (d := 1) (x := c) (by omega) (by rw [hcs]; rfl) n
          by_cases hcont : R.contains 0 n = true
          · have hin' : InBoundary cur 1 c 0 n := hiff.1 hcont
            obtain ⟨r, hr, run2, lab2⟩ := ih.1 c cur (hbl.live_of_erase herase)
              (hco.co_of_erase herase) cs hcs hz' hin'
              (fun c1 hc1 => label_weight_step (by omega) hl hg hw1 hcs hz' hc1)
            obtain ⟨sk, hsk, hbdk, -⟩ := Mesh.lookup_of_erase (run2.erase.trans herase) hs
            have path : LabelPath r n l (2, k) (1, c) :=
              Relation.ReflTransGen.single
                ⟨⟨(InBoundary.iff_of_erase run2.erase).2 hin',
                  Or.inr ⟨rfl, rfl, sk, hsk, by rw [hbdk]; exact hc⟩⟩, lab2⟩
            refine ⟨r, ?_, run.label_run_append hl (run2.reroot path),
              run2.shrink.shrink_trans hg, run2.keeps hl lab, ?_⟩
            · simp only [bind, hcs, Option.some_bind, if_pos hz', hR, hcont, if_true]
              exact hr
            · intro x hx hix
              rcases List.mem_append.1 hx with hx | hx
              · have := hall' x hx hix
                rw [run2.labels_kept this]
                exact this
              · simp only [List.mem_singleton] at hx
                subst hx
                rw [lab2]
                exact hl
          · refine ⟨cur, ?_, run, hg, lab, ?_⟩
            · simp only [bind, hcs, Option.some_bind, if_pos hz', hR, hcont]
              rfl
            · intro x hx hix
              rcases List.mem_append.1 hx with hx | hx
              · exact hall' x hx hix
              · simp only [List.mem_singleton] at hx
                subst hx
                exact absurd (hiff.2 ((InBoundary.iff_of_erase herase).2 hix)) hcont
        · refine ⟨cur, ?_, run, hg, lab, ?_⟩
          · simp only [bind, hcs, Option.some_bind, if_neg hz']
            rfl
          · intro x hx hix
            rcases List.mem_append.1 hx with hx | hx
            · exact hall' x hx hix
            · simp only [List.mem_singleton] at hx
              subst hx
              rw [Mesh.label_of_lookup hcs]
              exact hz'

end ISMesh
namespace ISMesh

theorem TopologyOff.off_refl (n : Nat) (m : Mesh) : TopologyOff n m m := fun _ _ _ => rfl

theorem TopologyOff.off_symm {n : Nat} {m m' : Mesh} (h : TopologyOff n m m') :
    TopologyOff n m' m := fun d k hne => (h d k hne).symm

theorem TopologyOff.off_trans {n : Nat} {a b c : Mesh} (h1 : TopologyOff n a b)
    (h2 : TopologyOff n b c) : TopologyOff n a c :=
  fun d k hne => (h2 d k hne).trans (h1 d k hne)

theorem TopologyOff.off_of_erase {m m' : Mesh} (n : Nat) (h : m'.erase_labels = m.erase_labels) :
    TopologyOff n m m' := fun d k _ => Mesh.topology_of_erase h d k

theorem TopologyOff.off_of_modify {m m' : Mesh} {n : Nat} {f : Simplex → Simplex}
    (h : m.modify 0 n f = some m') : TopologyOff n m m' := by
  intro d k hne
  unfold Mesh.topology
  rw [Mesh.lookup_modify h d k, if_neg]
  rintro ⟨h1, h2⟩
  exact hne ⟨by omega, h2⟩

theorem TopologyOff.lookup_off {n : Nat} {m m' : Mesh} (h : TopologyOff n m m') {d k : Nat}
    (hd : 1 ≤ d) {s : Simplex} (hs : m.lookup_simplex d k = some s) :
    ∃ s', m'.lookup_simplex d k = some s' ∧ s'.m_boundary = s.m_boundary ∧
      s'.m_co_boundary = s.m_co_boundary :=
  Mesh.lookup_of_topology (h d k (fun hc => by omega)) hs

theorem InBoundary.in_of_off {n : Nat} {m m' : Mesh} (h : TopologyOff n m m') :
    ∀ {d k d' x : Nat}, InBoundary m d k d' x → InBoundary m' d k d' x := by
  intro d
  induction d with
  | zero => intro k d' x hx; exact absurd hx (by simp [InBoundary])
  | succ d ih =>
    intro k d' x hx
    rw [InBoundary.succ_iff] at hx ⊢
    obtain ⟨s, hs, b, hb, hx⟩ := hx
    obtain ⟨s', hs', hbd, -⟩ := h.lookup_off (by omega) hs
    refine ⟨s', hs', b, by rw [hbd]; exact hb, ?_⟩
    rcases hx with hx | hx
    · exact Or.inl hx
    · exact Or.inr (ih hx)

theorem LabelStep.step_of_off {n0 : Nat} {m m' : Mesh} (h : TopologyOff n0 m m')
    {n d x d' y : Nat} (hs : LabelStep m n d x d' y) : LabelStep m' n d x d' y := by
  obtain ⟨h1, h2⟩ := hs
  refine ⟨InBoundary.in_of_off h h1, ?_⟩
  rcases h2 with ⟨a, b, s, hs, hy⟩ | ⟨a, b, s, hs, hy⟩
  · obtain ⟨s', hs', -, hco⟩ := h.lookup_off (by omega) hs
    exact Or.inl ⟨a, b, s', hs', by rw [hco]; exact hy⟩
  · obtain ⟨s', hs', hbd, -⟩ := h.lookup_off (by omega) hs
    exact Or.inr ⟨a, b, s', hs', by rw [hbd]; exact hy⟩

theorem BoundaryLive.live_of_off {n : Nat} {m m' : Mesh} (hb : BoundaryLive m)
    (h : TopologyOff n m m')
    (hn : (m.lookup_simplex 0 n).isSome → (m'.lookup_simplex 0 n).isSome) :
    BoundaryLive m' := by
  intro d k s h1 h3 hs b hbm
  obtain ⟨s0, hs0, hbd, -⟩ := h.off_symm.lookup_off h1 hs
  have hlive := hb d k s0 h1 h3 hs0 b (by rw [hbd]; exact hbm)
  by_cases hc : d - 1 = 0 ∧ b = n
  · obtain ⟨hc1, rfl⟩ := hc
    rw [hc1] at hlive ⊢
    exact hn hlive
  · obtain ⟨sb, hsb⟩ := Option.isSome_iff_exists.1 hlive
    obtain ⟨sb', hsb', -, -⟩ := Mesh.lookup_of_topology (h (d - 1) b hc) hsb
    rw [hsb']
    rfl

theorem CoIncidence.co_of_off {n : Nat} {m m' : Mesh} (hc : CoIncidence m)
    (h : TopologyOff n m m')
    (hn : ∀ s', m'.lookup_simplex 0 n = some s' → ∀ c ∈ s'.m_co_boundary,
      ∃ sc, m'.lookup_simplex 1 c = some sc ∧ n ∈ sc.m_boundary) :
    CoIncidence m' := by
  intro d k s hd hs c hcm
  by_cases hcase : d = 0 ∧ k = n
  · obtain ⟨rfl, rfl⟩ := hcase
    exact hn s hs c hcm
  · obtain ⟨s0, hs0, -, hco⟩ := Mesh.lookup_of_topology (h.off_symm d k hcase) hs
    obtain ⟨sc, hsc, hk⟩ := hc d k s0 hd hs0 c (by rw [hco]; exact hcm)
    obtain ⟨sc', hsc', hbd, -⟩ := h.lookup_off (by omega) hsc
    exact ⟨sc', hsc', by rw [hbd]; exact hk⟩

/-! ### The counter of the loops of `compress` -/

theorem compress_counter_snoc (m : Mesh) (pre : List Nat) (c : Nat) :
    compress_counter m (pre ++ [c]) =
      if m.label 1 c = compress_counter m pre then compress_counter m pre + 1
      else compress_counter m pre := by
  unfold compress_counter
  rw [List.foldl_append]
  rfl

theorem compress_counter_congr {m m' : Mesh} {pre : List Nat}
    (h : ∀ c ∈ pre, m'.label 1 c = m.label 1 c) :
    compress_counter m' pre = compress_counter m pre := by
  induction pre using List.reverseRecOn with
  | nil => rfl
  | append_singleton l a ih =>
    rw [compress_counter_snoc, compress_counter_snoc,
      ih (fun c hc => h c (List.mem_append_left _ hc)), h a (by simp)]

theorem compress_counter_pos (m : Mesh) (pre : List Nat) : 1 ≤ compress_counter m pre := by
  induction pre using List.reverseRecOn with
  | nil => exact le_refl _
  | append_singleton l a ih =>
    rw [compress_counter_snoc]
    split_ifs <;> omega

/-- A split of a list with one more entry at its end is the split at the new entry or the
extension of a split of the list. -/
theorem split_snoc {pre p q : List Nat} {c x : Nat} (h : pre ++ [c] = p ++ x :: q) :
    (p = pre ∧ x = c ∧ q = []) ∨ ∃ q', q = q' ++ [c] ∧ pre = p ++ x :: q' := by
  induction q using List.reverseRecOn with
  | nil =>
    left
    have h' : pre ++ [c] = p ++ [x] := h
    have := List.append_inj' h' rfl
    exact ⟨this.1.symm, by simpa using this.2.symm, rfl⟩
  | append_singleton q' a _ =>
    right
    have h' : pre ++ [c] = (p ++ x :: q') ++ [a] := by
      rw [h]; simp
    have := List.append_inj' h' rfl
    have ha : c = a := by simpa using this.2
    subst ha
    exact ⟨q', rfl, this.1⟩

/-! ### The traversal of `reset_label` between edges and faces -/

/-- The traversal by `reset_label` from an edge or a face of the region `P`, a region that
holds every labelled target of a step from one of its members, changes no label outside
`P`. -/
theorem reset_label_within (P : Nat → Nat → Prop) (fuel : Nat) :
    (∀ k m m', reset_label fuel 1 k m = some m' → P 1 k →
      (∀ x s, P 1 x → m.lookup_simplex 1 x = some s → ∀ y ∈ s.m_co_boundary,
        m.label 2 y ≠ 0 → P 2 y) →
      (∀ x s, P 2 x → m.lookup_simplex 2 x = some s → ∀ y ∈ s.m_boundary,
        m.label 1 y ≠ 0 → P 1 y) →
      ∀ d x, ¬ P d x → m'.label d x = m.label d x) ∧
    (∀ k m m', reset_co_label fuel 2 k m = some m' → P 2 k →
      (∀ x s, P 1 x → m.lookup_simplex 1 x = some s → ∀ y ∈ s.m_co_boundary,
        m.label 2 y ≠ 0 → P 2 y) →
      (∀ x s, P 2 x → m.lookup_simplex 2 x = some s → ∀ y ∈ s.m_boundary,
        m.label 1 y ≠ 0 → P 1 y) →
      ∀ d x, ¬ P d x → m'.label d x = m.label d x) := by
  induction fuel with
  | zero =>
    constructor
    · intro k m m' h; simp [reset_label] at h
    · intro k m m' h; simp [reset_co_label] at h
  | succ fuel ih =>
    have transfer : ∀ {m cur : Mesh}, LabelsShrink m cur →
        ((∀ x s, P 1 x → m.lookup_simplex 1 x = some s → ∀ y ∈ s.m_co_boundary,
          m.label 2 y ≠ 0 → P 2 y) →
        (∀ x s, P 1 x → cur.lookup_simplex 1 x = some s → ∀ y ∈ s.m_co_boundary,
          cur.label 2 y ≠ 0 → P 2 y)) ∧
        ((∀ x s, P 2 x → m.lookup_simplex 2 x = some s → ∀ y ∈ s.m_boundary,
          m.label 1 y ≠ 0 → P 1 y) →
        (∀ x s, P 2 x → cur.lookup_simplex 2 x = some s → ∀ y ∈ s.m_boundary,
          cur.label 1 y ≠ 0 → P 1 y)) := by
      intro m cur hg
      constructor
      · intro hup x s hx hs y hy hl
        obtain ⟨s0, hs0, -, hco⟩ := Mesh.lookup_of_erase hg.1.symm hs
        exact hup x s0 hx hs0 y (by rw [hco]; exact hy) (hg.2 _ _ hl)
      · intro hdn x s hx hs y hy hl
        obtain ⟨s0, hs0, hbd, -⟩ := Mesh.lookup_of_erase hg.1.symm hs
        exact hdn x s0 hx hs0 y (by rw [hbd]; exact hy) (hg.2 _ _ hl)
    constructor
    · intro k m m' h hk hup hdn
      rw [reset_label] at h
      obtain ⟨s, hs, h⟩ := Option.bind_eq_some.1 h
      obtain ⟨m1, h1, h2⟩ := Option.bind_eq_some.1 h
      obtain ⟨g1, -⟩ := modify_reset_label_shrink h1
      have hl1 : ∀ d x, ¬ P d x → m1.label d x = m.label d x := by
        intro d x hx
        rw [Mesh.label_modify h1 d x, if_neg]
        rintro ⟨a1, rfl⟩
        have : d = 1 := by omega
        subst this
        exact hx hk
      have key := foldlM_prefix_spec
        (fun (_ : List Nat) (cur : Mesh) => LabelsShrink m cur ∧
          ∀ d x, ¬ P d x → cur.label d x = m.label d x)
        _ s.m_co_boundary ?_ m1 m' ⟨g1, hl1⟩ h2
      · exact key.2
      · intro pre c suf cur cur' hpre hI hstep
        obtain ⟨simplex, hsx, hstep⟩ := Option.bind_eq_some.1 hstep
        split_ifs at hstep with hz
        · have hc : c ∈ s.m_co_boundary := by rw [hpre]; simp
          have hlc : cur.label 2 c ≠ 0 := by
            rw [Mesh.label_of_lookup hsx]; exact hz
          have hPc : P 2 c := hup k s hk hs c hc (hI.1.2 _ _ hlc)
          have := ih.2 c cur cur' hstep hPc ((transfer hI.1).1 hup) ((transfer hI.1).2 hdn)
          refine ⟨hI.1.shrink_trans ((reset_label_shrink _).2 _ _ _ _ hstep).1, ?_⟩
          intro d x hx
          rw [this d x hx]
          exact hI.2 d x hx
        · simp only [pure, Option.some.injEq] at hstep
          subst hstep
          exact hI
    · intro k m m' h hk hup hdn
      rw [reset_co_label] at h
      obtain ⟨s, hs, h⟩ := Option.bind_eq_some.1 h
      obtain ⟨m1, h1, h2⟩ := Option.bind_eq_some.1 h
      obtain ⟨g1, -⟩ := modify_reset_label_shrink h1
      have hl1 : ∀ d x, ¬ P d x → m1.label d x = m.label d x := by
        intro d x hx
        rw [Mesh.label_modify h1 d x, if_neg]
        rintro ⟨a1, rfl⟩
        have : d = 2 := by omega
        subst this
        exact hx hk
      have key := foldlM_prefix_spec
        (fun (_ : List Nat) (cur : Mesh) => LabelsShrink m cur ∧
          ∀ d x, ¬ P d x → cur.label d x = m.label d x)
        _ s.m_boundary ?_ m1 m' ⟨g1, hl1⟩ h2
      · exact key.2
      · intro pre c suf cur cur' hpre hI hstep
        obtain ⟨simplex, hsx, hstep⟩ := Option.bind_eq_some.1 hstep
        split_ifs at hstep with hz
        · have hc : c ∈ s.m_boundary := by rw [hpre]; simp
          have hlc : cur.label 1 c ≠ 0 := by
            rw [Mesh.label_of_lookup hsx]; exact hz
          have hPc : P 1 c := hdn k s hk hs c hc (hI.1.2 _ _ hlc)
          have := ih.1 c cur cur' hstep hPc ((transfer hI.1).1 hup) ((transfer hI.1).2 hdn)
          refine ⟨hI.1.shrink_trans ((reset_label_shrink _).1 _ _ _ _ hstep).1, ?_⟩
          intro d x hx
          rw [this d x hx]
          exact hI.2 d x hx
        · simp only [pure, Option.some.injEq] at hstep
          subst hstep
          exact hI

/-- A traversal by `reset_label` that resets a simplex labelled `l` resets every simplex
reached from it through simplices labelled `l`. -/
theorem fades_along_path {m m' M : Mesh} {n n0 : Nat} {l : Int} (hl : l ≠ 0)
    (hf : FadesExcept 1 (fun _ _ => False) m m') (ht : TopologyOff n0 M m)
    (hlab : ∀ d x, M.label d x = l → m.label d x = l) {a b : Nat × Nat}
    (hp : LabelPath M n l a b) (ha : m.label a.1 a.2 = l) (hz : m'.label a.1 a.2 = 0) :
    m.label b.1 b.2 = l ∧ m'.label b.1 b.2 = 0 := by
  induction hp with
  | refl => exact ⟨ha, hz⟩
  | @tail b c _ hbc ih =>
    obtain ⟨hstep, hlc⟩ := hbc
    refine ⟨hlab _ _ hlc, ?_⟩
    have hb : m.label b.1 b.2 ≠ 0 := by rw [ih.1]; exact hl
    obtain ⟨-, ⟨e1, e2, s, hs, hy⟩ | ⟨e1, e2, s, hs, hy⟩⟩ := hstep
    · obtain ⟨s', hs', -, hco⟩ := ht.lookup_off (by omega) hs
      rw [e2]
      rw [e1] at hb ih
      exact hf.up b.2 s' (fun hc => hc) hb ih.2 hs' c.2 (by rw [hco]; exact hy)
    · obtain ⟨s', hs', hbd, -⟩ := ht.lookup_off (by omega) hs
      rw [e2]
      rw [e1] at hb ih
      exact hf.down b.2 s' (fun hc => hc) hb ih.2 hs' c.2 (by rw [hbd]; exact hy)

end ISMesh
namespace ISMesh

theorem ClassLabels.classes_start (m : Mesh) (n : Nat) (hz : LabelsZero m) : ClassLabels m n [] 1 :=
  ⟨rfl, fun d x h => absurd (hz d x) h, fun d x _ _ h => absurd (hz d x) h,
    fun p c q h => absurd h (by simp), fun p c q h => absurd h (by simp),
    fun d x h => absurd (hz d x) h⟩

/-- The first loop of `compress` for a node passes an entry of the co-boundary that has no
label yet: the traversal labels its class with the value of the counter. -/
theorem ClassLabels.label_class {cur r : Mesh} {n c : Nat} {pre : List Nat} {k : Int}
    (cl : ClassLabels cur n pre k) (hzc : cur.label 1 c = 0)
    (run : LabelRun n k (fun _ _ => False) (1, c) cur r) (lab : r.label 1 c = k) :
    ClassLabels r n (pre ++ [c]) (k + 1) := by
  have hk : 1 ≤ k := by rw [← cl.counter]; exact compress_counter_pos _ _
  have hk0 : k ≠ 0 := by omega
  have hmem : ∀ x ∈ pre, r.label 1 x = cur.label 1 x := by
    intro x hx
    obtain ⟨p, q, rfl⟩ := List.append_of_mem hx
    exact run.labels_kept (by have := (cl.order p x q rfl).1; omega)
  have hcnt : ∀ p, (∀ x ∈ p, x ∈ pre) → compress_counter r p = compress_counter cur p :=
    fun p hp => compress_counter_congr (fun x hx => hmem x (hp x hx))
  have hold : ∀ d x, r.label d x ≠ 0 →
      (cur.label d x ≠ 0 ∧ r.label d x = cur.label d x) ∨
      (cur.label d x = 0 ∧ r.label d x = k ∧ InBoundary cur d x 0 n ∧
        LabelPath r n k (1, c) (d, x)) := by
    intro d x hne
    rcases run.set d x with e | e
    · exact Or.inl ⟨by rw [← e]; exact hne, e⟩
    · exact Or.inr e
  have hkeepl : ∀ d x (l : Int), cur.label d x = l → l ≠ 0 → r.label d x = l := by
    intro d x l h1 h2
    rw [run.labels_kept (by rw [h1]; exact h2), h1]
  have hrange : ∀ d x, r.label d x ≠ 0 →
      0 < r.label d x ∧ r.label d x < k + 1 ∧ InBoundary r d x 0 n := by
    intro d x hne
    rcases hold d x hne with ⟨h1, h2⟩ | ⟨-, h2, h3, -⟩
    · obtain ⟨a1, a2, a3⟩ := cl.range d x h1
      rw [h2]
      exact ⟨a1, by omega, (InBoundary.iff_of_erase run.erase).2 a3⟩
    · rw [h2]
      exact ⟨by omega, by omega, (InBoundary.iff_of_erase run.erase).2 h3⟩
  refine ⟨?_, hrange, ?_, ?_, ?_, ?_⟩
  · rw [compress_counter_snoc, hcnt pre (fun _ h => h), cl.counter, lab, if_pos rfl]
  · intro d x d' y hne hstep
    have hstep' : LabelStep cur n d x d' y := (LabelStep.step_iff_of_erase run.erase).1 hstep
    rcases hold d x hne with ⟨h1, h2⟩ | ⟨h1, h2, -, -⟩
    · obtain ⟨a1, a2⟩ := cl.closed d x d' y h1 hstep'
      rw [run.labels_kept a1, h2]
      exact ⟨a1, a2⟩
    · have hy := run.closed d x d' y h1 hne (fun hf => hf) hstep'
      refine ⟨hy, ?_⟩
      have := (hrange d' y hy).2.1
      rw [h2]
      omega
  · intro p c' q h
    rcases split_snoc h with ⟨rfl, rfl, rfl⟩ | ⟨q', rfl, hp⟩
    · rw [lab, hcnt p (fun _ h => h), cl.counter]
      exact ⟨by omega, le_refl _⟩
    · have hc' : c' ∈ pre := by rw [hp]; simp
      obtain ⟨a1, a2⟩ := cl.order p c' q' hp
      rw [hmem c' hc', hcnt p (fun x hx => by rw [hp]; simp [hx])]
      exact ⟨a1, a2⟩
  · intro p c' q h
    rcases split_snoc h with ⟨rfl, rfl, rfl⟩ | ⟨q', rfl, hp⟩
    · intro _ d x hx
      rw [lab] at hx ⊢
      have hne : r.label d x ≠ 0 := by rw [hx]; exact hk0
      rcases hold d x hne with ⟨h1, h2⟩ | ⟨-, -, -, h4⟩
      · have := (cl.range d x h1).2.1
        rw [← h2, hx] at this
        omega
      · exact h4
    · have hc' : c' ∈ pre := by rw [hp]; simp
      rw [hmem c' hc', hcnt p (fun x hx => by rw [hp]; simp [hx])]
      intro hroot d x hx
      have hlt := (cl.range 1 c' (by have := (cl.order p c' q' hp).1; omega)).2.1
      have hne : r.label d x ≠ 0 := by
        rw [hx]; have := (cl.order p c' q' hp).1; omega
      rcases hold d x hne with ⟨h1, h2⟩ | ⟨-, h2, -, -⟩
      · rw [h2] at hx
        exact (cl.root p c' q' hp hroot d x hx).mono run.erase
          (fun d' k' h' => hkeepl d' k' _ h' (by have := (cl.order p c' q' hp).1; omega))
      · rw [h2] at hx
        omega
  · intro d x hne
    rcases hold d x hne with ⟨h1, h2⟩ | ⟨-, h2, -, -⟩
    · obtain ⟨p, c', q, hp, a1, a2⟩ := cl.rooted d x h1
      have hc' : c' ∈ pre := by rw [hp]; simp
      refine ⟨p, c', q ++ [c], by rw [hp]; simp, ?_, ?_⟩
      · rw [hmem c' hc', hcnt p (fun x hx => by rw [hp]; simp [hx])]
        exact a1
      · rw [hmem c' hc', h2]
        exact a2
    · refine ⟨pre, c, [], rfl, ?_, ?_⟩
      · rw [lab, hcnt pre (fun _ h => h), cl.counter]
      · rw [lab, h2]

/-- The first loop of `compress` for a node passes an entry of the co-boundary that carries
a label. -/
theorem ClassLabels.skip {cur : Mesh} {n c : Nat} {pre : List Nat} {k : Int}
    (cl : ClassLabels cur n pre k) (hne : cur.label 1 c ≠ 0) :
    ClassLabels cur n (pre ++ [c]) k := by
  obtain ⟨a1, a2, -⟩ := cl.range 1 c hne
  refine ⟨?_, cl.range, cl.closed, ?_, ?_, ?_⟩
  · rw [compress_counter_snoc, cl.counter, if_neg (by omega)]
  · intro p c' q h
    rcases split_snoc h with ⟨rfl, rfl, rfl⟩ | ⟨q', rfl, hp⟩
    · rw [cl.counter]
      exact ⟨a1, by omega⟩
    · exact cl.order p c' q' hp
  · intro p c' q h
    rcases split_snoc h with ⟨rfl, rfl, rfl⟩ | ⟨q', rfl, hp⟩
    · intro hroot
      rw [cl.counter] at hroot
      omega
    · exact cl.root p c' q' hp
  · intro d x hx
    obtain ⟨p, c', q, hp, b1, b2⟩ := cl.rooted d x hx
    exact ⟨p, c', q ++ [c], by rw [hp]; simp, b1, b2⟩

/-- The first loop of `compress` for the node `n` over a list of live edges that have `n` in
their boundary, on a mesh without labels and without dangling keys: it returns, and its
labels are those of the classes of the list. -/
theorem compress_label_loop (m : Mesh) (n : Nat) (vec : List Nat) (hz : LabelsZero m)
    (hbl : BoundaryLive m) (hco : CoIncidence m)
    (hvec : ∀ c ∈ vec, ∃ sc, m.lookup_simplex 1 c = some sc ∧ n ∈ sc.m_boundary) :
    ∃ r, vec.foldlM (fun (p : Mesh × Int) c => do
        let cs ← p.1.lookup_simplex (0 + 1) c
        if cs.m_label = 0 then do
          let m ← label_co_bound p.1.fuel 0 n (0 + 1) c p.2 p.1
          pure (m, p.2 + 1)
        else pure p) (m, (1 : Int)) = some r ∧
      r.1.erase_labels = m.erase_labels ∧ ClassLabels r.1 n vec r.2 := by
  refine foldlM_prefix_returns
    (fun (pre : List Nat) (p : Mesh × Int) =>
      p.1.erase_labels = m.erase_labels ∧ ClassLabels p.1 n pre p.2) _ vec ?_ (m, 1)
    ⟨rfl, ClassLabels.classes_start m n hz⟩
  rintro pre c suf ⟨cur, k⟩ hpre ⟨he, cl⟩
  simp only at he cl
  have hc : c ∈ vec := by rw [hpre]; simp
  obtain ⟨sc0, hsc0, hn0⟩ := hvec c hc
  obtain ⟨cs, hcs, hbd, -⟩ := Mesh.lookup_of_erase he hsc0
  have hk : 1 ≤ k := by rw [← cl.counter]; exact compress_counter_pos _ _
  by_cases hz' : cs.m_label = 0
  · have hin : InBoundary cur 1 c 0 n :=
      InBoundary.succ_iff.2 ⟨cs, hcs, n, by rw [hbd]; exact hn0, Or.inl ⟨rfl, rfl⟩⟩
    obtain ⟨r, hr, run, lab⟩ := (label_co_bound_run n k (by omega) cur.fuel).1 c cur
      (hbl.live_of_erase he) (hco.co_of_erase he) cs hcs hz' hin (by
        intro m1 h1
        rw [← Mesh.fuel_of_erase (modify_set_label_grows (l := k) (by omega) h1).1.1.symm]
        exact Mesh.weight_lt_fuel m1 _)
    refine ⟨(r, k + 1), ?_, run.erase.trans he,
      cl.label_class (by rw [Mesh.label_of_lookup hcs]; exact hz') run lab⟩
    simp only [bind, hcs, Option.some_bind, if_pos hz']
    have hr' : label_co_bound cur.fuel 0 n (0 + 1) c k cur = some r := hr
    rw [hr']
    rfl
  · refine ⟨(cur, k), ?_, he, cl.skip (by rw [Mesh.label_of_lookup hcs]; exact hz')⟩
    simp only [bind, hcs, Option.some_bind, if_neg hz']
    rfl

end ISMesh
namespace ISMesh

theorem Mesh.lookup_of_erase_flags {m m' : Mesh} (h : m'.erase_labels = m.erase_labels)
    {d k : Nat} {s : Simplex} (hs : m.lookup_simplex d k = some s) :
    ∃ s', m'.lookup_simplex d k = some s' ∧ s'.m_is_compact = s.m_is_compact ∧
      s'.m_co_boundary = s.m_co_boundary := by
  have h1 := Mesh.lookup_erase_labels m d k
  have h2 := Mesh.lookup_erase_labels m' d k
  rw [h, h1, hs] at h2
  cases hs' : m'.lookup_simplex d k with
  | none => rw [hs'] at h2; cases h2
  | some s' =>
    rw [hs'] at h2
    simp only [Option.map_some', Option.some.injEq] at h2
    exact ⟨s', rfl, (congrArg Simplex.m_is_compact h2).symm,
      (congrArg Simplex.m_co_boundary h2).symm⟩

/-- One call of `reset_label` in the second loop of `compress` for a node: with the classes
below `k` reset, the call on an entry whose class is below `j` returns and leaves the
classes below `j` reset, where `j` is `k`, or `k + 1` when the entry is linked to every
simplex of the class `k`. -/
theorem compress_reset_step {M1 mq : Mesh} {n c : Nat} {vec : List Nat} {K k j : Int}
    (cl : ClassLabels M1 n vec K) (hoff : TopologyOff n M1 mq)
    (hbl : BoundaryLive mq) (hco : CoIncidence mq)
    (hlab : ∀ d x, mq.label d x = if M1.label d x < k then 0 else M1.label d x)
    (hlive : (mq.lookup_simplex 1 c).isSome) (hpos : 0 < M1.label 1 c) (hk : 1 ≤ k)
    (hcase : (j = k ∧ M1.label 1 c < k) ∨
      (j = k + 1 ∧ M1.label 1 c = k ∧
        ∀ d x, M1.label d x = k → LabelPath M1 n k (1, c) (d, x))) :
    ∃ r, reset_label mq.fuel 1 c mq = some r ∧ r.erase_labels = mq.erase_labels ∧
      ∀ d x, r.label d x = if M1.label d x < j then 0 else M1.label d x := by
  obtain ⟨r, hr⟩ := (reset_label_returns 1 (by omega) mq.fuel).1 c mq hbl hco hlive (by
    intro m1 h1
    rw [← Mesh.fuel_of_erase (modify_reset_label_shrink h1).1.1]
    exact Mesh.weight_lt_fuel m1 _)
  obtain ⟨hshrink, -⟩ := (reset_label_shrink _).1 _ _ _ _ hr
  obtain ⟨hfades, hzc⟩ := (reset_label_fades 1 (by omega) _).1 _ _ _ hr
  have hk2 : k ≤ j ∧ M1.label 1 c < j := by
    rcases hcase with ⟨rfl, h⟩ | ⟨rfl, h, -⟩
    · exact ⟨le_refl _, h⟩
    · omega
  have hwithin := (reset_label_within
    (fun d x => 0 < M1.label d x ∧ M1.label d x < j) _).1 c mq r hr ⟨hpos, hk2.2⟩
    (by
      intro x s hx hs y hy hl
      have hly : mq.label 2 y = M1.label 2 y := by
        rw [hlab] at hl ⊢
        split_ifs at hl ⊢ with h
        · exact absurd rfl hl
        · rfl
      rw [hly] at hl
      obtain ⟨a1, -, a3⟩ := cl.range 2 y hl
      obtain ⟨s0, hs0, -, hco0⟩ := hoff.off_symm.lookup_off (by omega) hs
      have hstep : LabelStep M1 n 1 x 2 y :=
        ⟨a3, Or.inl ⟨rfl, rfl, s0, hs0, by rw [hco0]; exact hy⟩⟩
      have := (cl.closed 1 x 2 y (by have := hx.1; omega) hstep).2
      exact ⟨a1, by have := hx.2; omega⟩)
    (by
      intro x s hx hs y hy hl
      have hly : mq.label 1 y = M1.label 1 y := by
        rw [hlab] at hl ⊢
        split_ifs at hl ⊢ with h
        · exact absurd rfl hl
        · rfl
      rw [hly] at hl
      obtain ⟨a1, -, a3⟩ := cl.range 1 y hl
      obtain ⟨s0, hs0, hbd0, -⟩ := hoff.off_symm.lookup_off (by omega) hs
      have hstep : LabelStep M1 n 2 x 1 y :=
        ⟨a3, Or.inr ⟨rfl, rfl, s0, hs0, by rw [hbd0]; exact hy⟩⟩
      have := (cl.closed 2 x 1 y (by have := hx.1; omega) hstep).2
      exact ⟨a1, by have := hx.2; omega⟩)
  refine ⟨r, hr, hshrink.1, ?_⟩
  intro d x
  by_cases hlt : M1.label d x < j
  · rw [if_pos hlt]
    by_cases hlt' : M1.label d x < k
    · by_contra hne
      have := hshrink.2 d x hne
      rw [hlab, if_pos hlt'] at this
      exact this rfl
    · rcases hcase with ⟨rfl, -⟩ | ⟨rfl, hck, hpath⟩
      · exact absurd hlt hlt'
      · have hxk : M1.label d x = k := by omega
        have hkeep : ∀ d' x', M1.label d' x' = k → mq.label d' x' = k := by
          intro d' x' h
          rw [hlab, if_neg (by omega), h]
        exact (fades_along_path (n := n) (l := k) (by omega) hfades hoff hkeep
          (hpath d x hxk) (hkeep 1 c hck) hzc).2
  · rw [if_neg hlt, hwithin d x (fun hP => hlt hP.2), hlab, if_neg (by omega)]

/-- The second loop of `compress` for the node `n`, after a first loop that left the labels
of the classes of `vec` and with the co-boundary of `n` cleared: it returns, every label
is 0 again, the co-boundary of `n` holds entries of `vec`, and every entry of `vec` is
linked to one of them through labelled simplices. -/
theorem compress_reset_loop (M1 mb : Mesh) (n : Nat) (vec : List Nat) (K : Int)
    (hbl : BoundaryLive M1) (hco : CoIncidence M1) (cl : ClassLabels M1 n vec K)
    (hvec : ∀ c ∈ vec, ∃ sc, M1.lookup_simplex 1 c = some sc ∧ n ∈ sc.m_boundary)
    (hoff : TopologyOff n M1 mb) (hlab : ∀ d x, mb.label d x = M1.label d x)
    (sn : Simplex) (hsn : mb.lookup_simplex 0 n = some sn) (hcob : sn.m_co_boundary = []) :
    ∃ r sn', vec.foldlM (fun (p : Mesh × Int) c => do
        let cs ← p.1.lookup_simplex (0 + 1) c
        if ¬ cs.m_label ≤ p.2 then none
        else do
          let q ←
            (if cs.m_label = p.2 then do
              let m ← p.1.modify 0 n (fun x => x.add_co_face c)
              pure (m, p.2 + 1)
            else pure p)
          let m ← reset_label q.1.fuel (0 + 1) c q.1
          pure (m, q.2)) (mb, (1 : Int)) = some r ∧
      TopologyOff n M1 r.1 ∧ LabelsZero r.1 ∧ r.1.lookup_simplex 0 n = some sn' ∧
      sn'.m_is_compact = sn.m_is_compact ∧ sn'.m_co_boundary.Sorted (· < ·) ∧
      (∀ x ∈ sn'.m_co_boundary, x ∈ vec) ∧
      ∀ c ∈ vec, ∃ x ∈ sn'.m_co_boundary, LabelPath M1 n (M1.label 1 c) (1, x) (1, c) := by
  have hM1n : (M1.lookup_simplex 0 n).isSome → True := fun _ => trivial
  have key := foldlM_prefix_returns
    (fun (pre : List Nat) (p : Mesh × Int) =>
      p.2 = compress_counter M1 pre ∧ TopologyOff n M1 p.1 ∧
      (∀ d x, p.1.label d x = if M1.label d x < p.2 then 0 else M1.label d x) ∧
      ∃ s', p.1.lookup_simplex 0 n = some s' ∧ s'.m_is_compact = sn.m_is_compact ∧
        s'.m_co_boundary.Sorted (· < ·) ∧ (∀ x ∈ s'.m_co_boundary, x ∈ pre) ∧
        ∀ p' c q, pre = p' ++ c :: q → M1.label 1 c = compress_counter M1 p' →
          c ∈ s'.m_co_boundary)
    (fun (p : Mesh × Int) c => do
        let cs ← p.1.lookup_simplex (0 + 1) c
        if ¬ cs.m_label ≤ p.2 then none
        else do
          let q ←
            (if cs.m_label = p.2 then do
              let m ← p.1.modify 0 n (fun x => x.add_co_face c)
              pure (m, p.2 + 1)
            else pure p)
          let m ← reset_label q.1.fuel (0 + 1) c q.1
          pure (m, q.2)) vec ?_ (mb, 1)
    ⟨rfl, hoff, fun d x => by
        rw [hlab]
        split_ifs with h
        · by_contra hne
          have := (cl.range d x hne).1
          omega
        · rfl,
      sn, hsn, rfl, by rw [hcob]; exact List.sorted_nil,
      fun x hx => (by rw [hcob] at hx; cases hx), fun p' c q h => absurd h (by simp)⟩
  · obtain ⟨⟨r, k⟩, hfold, hk, hoffr, hlabr, sn', hsn', hcomp, hsorted, hsub, hroots⟩ := key
    simp only at hk hoffr hlabr hsn' hsub hroots
    refine ⟨(r, k), sn', hfold, hoffr, ?_, hsn', hcomp, hsorted, hsub, ?_⟩
    · intro d x
      rw [hlabr, if_pos]
      by_cases hne : M1.label d x = 0
      · rw [hne, hk]
        have := compress_counter_pos M1 vec
        omega
      · have := (cl.range d x hne).2.1
        rw [hk, cl.counter]
        exact this
    · intro c hc
      obtain ⟨p0, q0, hsplit⟩ := List.append_of_mem hc
      have hpos := (cl.order p0 c q0 hsplit).1
      obtain ⟨p, c', q, hp, a1, a2⟩ := cl.rooted 1 c (by omega)
      refine ⟨c', hroots p c' q hp a1, ?_⟩
      rw [a2]
      exact cl.root p c' q hp a1 1 c a2
  · rintro pre c suf ⟨cur, k⟩ hpre ⟨hk, hoffc, hlabc, s', hs', hcomp, hsorted, hsub, hroots⟩
    simp only at hk hoffc hlabc hs' hsub hroots
    have hc : c ∈ vec := by rw [hpre]; simp
    obtain ⟨sc0, hsc0, hn0⟩ := hvec c hc
    obtain ⟨cs, hcs, hbd, -⟩ := hoffc.lookup_off (by omega) hsc0
    obtain ⟨hpos, hle⟩ := cl.order pre c suf hpre
    rw [← hk] at hle
    have hk1 : 1 ≤ k := by rw [hk]; exact compress_counter_pos _ _
    have hlc : cs.m_label = if M1.label 1 c < k then 0 else M1.label 1 c := by
      rw [← Mesh.label_of_lookup hcs, hlabc]
    -- a variant of the mesh in which the co-boundary of `n` holds entries of `vec`
    have variant : ∀ (mq : Mesh) (sq : Simplex), TopologyOff n M1 mq →
        mq.lookup_simplex 0 n = some sq → (∀ x ∈ sq.m_co_boundary, x ∈ vec) →
        BoundaryLive mq ∧ CoIncidence mq ∧ (mq.lookup_simplex 1 c).isSome := by
      intro mq sq ho hsq hx
      refine ⟨hbl.live_of_off ho (fun _ => by rw [hsq]; rfl), hco.co_of_off ho ?_, ?_⟩
      · intro s2 hs2 y hy
        rw [hsq] at hs2
        cases hs2
        obtain ⟨sy, hsy, hny⟩ := hvec y (hx y hy)
        obtain ⟨sy', hsy', hbd', -⟩ := ho.lookup_off (by omega) hsy
        exact ⟨sy', hsy', by rw [hbd']; exact hny⟩
      · obtain ⟨cs', hcs', -, -⟩ := ho.lookup_off (by omega) hsc0
        rw [hcs']
        rfl
    by_cases hroot : M1.label 1 c = k
    · -- the entry is the first of its class: it is kept and its class is reset
      have hlck : cs.m_label = k := by rw [hlc, if_neg (by omega), hroot]
      obtain ⟨mq, hmq⟩ := Mesh.modify_isSome (fun x => x.add_co_face c)
        (by rw [hs']; rfl : (cur.lookup_simplex 0 n).isSome)
      have hsq : mq.lookup_simplex 0 n = some (s'.add_co_face c) := by
        rw [Mesh.lookup_modify_same hmq, hs']; rfl
      have hoffq : TopologyOff n M1 mq := hoffc.off_trans (TopologyOff.off_of_modify hmq)
      have hlabq : ∀ d x, mq.label d x = if M1.label d x < k then 0 else M1.label d x := by
        intro d x
        rw [Mesh.label_modify_keep hmq (fun s => rfl)]
        exact hlabc d x
      have hsubq : ∀ x ∈ (s'.add_co_face c).m_co_boundary, x ∈ pre ++ [c] := by
        intro x hx
        rcases (mem_set_insert _ _ _).1 hx with rfl | hx
        · simp
        · exact List.mem_append_left _ (hsub x hx)
      obtain ⟨hblq, hcoq, hliveq⟩ := variant mq _ hoffq hsq
        (fun x hx => by
          have := hsubq x hx
          rw [hpre]
          rcases List.mem_append.1 this with h | h
          · exact List.mem_append_left _ h
          · simp only [List.mem_singleton] at h; subst h; simp)
      obtain ⟨r, hr, her, hlabr⟩ := compress_reset_step (j := k + 1) cl hoffq hblq hcoq hlabq
        hliveq hpos hk1 (Or.inr ⟨rfl, hroot, fun d x hx => by
          have := cl.root pre c suf hpre (by rw [hroot, hk]) d x (by rw [hx, hroot])
          rw [hroot] at this
          exact this⟩)
      obtain ⟨sr, hsr, hcr, hcobr⟩ := Mesh.lookup_of_erase_flags her hsq
      refine ⟨(r, k + 1), ?_, ?_, hoffq.off_trans (TopologyOff.off_of_erase n her), hlabr,
        sr, hsr, hcr.trans hcomp, ?_, ?_, ?_⟩
      · simp only [bind, hcs, Option.some_bind, hlck, le_refl, not_true_eq_false, if_false,
          if_true, hmq, pure]
        have hr' : reset_label mq.fuel (0 + 1) c mq = some r := hr
        rw [hr']
        rfl
      · show k + 1 = compress_counter M1 (pre ++ [c])
        rw [compress_counter_snoc, ← hk, if_pos hroot]
      · rw [hcobr]
        exact sorted_set_insert c hsorted
      · rw [hcobr]
        exact hsubq
      · intro p' c' q h
        rw [hcobr]
        rcases split_snoc h with ⟨rfl, rfl, rfl⟩ | ⟨q', rfl, hp⟩
        · intro _
          exact (mem_set_insert _ _ _).2 (Or.inl rfl)
        · intro h2
          exact (mem_set_insert _ _ _).2 (Or.inr (hroots p' c' q' hp h2))
    · -- the class of the entry has been reset
      have hlt : M1.label 1 c < k := by omega
      have hlc0 : cs.m_label = 0 := by rw [hlc, if_pos hlt]
      obtain ⟨hblq, hcoq, hliveq⟩ := variant cur s' hoffc hs'
        (fun x hx => by rw [hpre]; exact List.mem_append_left _ (hsub x hx))
      obtain ⟨r, hr, her, hlabr⟩ := compress_reset_step (j := k) cl hoffc hblq hcoq hlabc
        hliveq hpos hk1 (Or.inl ⟨rfl, hlt⟩)
      obtain ⟨sr, hsr, hcr, hcobr⟩ := Mesh.lookup_of_erase_flags her hs'
      refine ⟨(r, k), ?_, ?_, hoffc.off_trans (TopologyOff.off_of_erase n her), hlabr,
        sr, hsr, hcr.trans hcomp, ?_, ?_, ?_⟩
      · have hne : ¬ (0 : Int) = k := by omega
        have hle0 : (0 : Int) ≤ k := by omega
        simp only [bind, hcs, Option.some_bind, hlc0, hle0, not_true_eq_false, if_false, hne,
          pure]
        have hr' : reset_label cur.fuel (0 + 1) c cur = some r := hr
        rw [hr']
        rfl
      · show k = compress_counter M1 (pre ++ [c])
        rw [compress_counter_snoc, ← hk, if_neg hroot]
      · rw [hcobr]
        exact hsorted
      · rw [hcobr]
        exact fun x hx => List.mem_append_left _ (hsub x hx)
      · intro p' c' q h
        rw [hcobr]
        rcases split_snoc h with ⟨rfl, rfl, rfl⟩ | ⟨q', rfl, hp⟩
        · intro h2
          rw [← hk] at h2
          exact absurd h2 hroot
        · exact hroots p' c' q' hp

end ISMesh
namespace ISMesh

theorem lookup_uncompressed_reset (m : Mesh) (d k : Nat) :
    Mesh.lookup_simplex { m with m_uncompressed := 0 } d k = m.lookup_simplex d k := by
  rcases d with _ | _ | _ | d <;> rfl

/-- The call `compress` on one node `n` that is not compact, on a mesh without labels and
without dangling keys: it returns, every label is 0 again, only the record of `n` differs,
`n` is compact, its co-boundary is ascending and holds entries of the co-boundary it had,
and every entry of the co-boundary it had is reached from one that is kept by steps of the
label traversal. -/
theorem compress_node_spec (m : Mesh) (n : Nat) (s : Simplex) (hz : LabelsZero m)
    (hbl : BoundaryLive m) (hco : CoIncidence m) (hs : m.lookup_simplex 0 n = some s)
    (hnc : s.m_is_compact = false) :
    ∃ m2 s2, compress m ⟨[n], [], [], []⟩ = some m2 ∧ LabelsZero m2 ∧ TopologyOff n m m2 ∧
      m2.lookup_simplex 0 n = some s2 ∧ s2.m_is_compact = true ∧
      s2.m_co_boundary.Sorted (· < ·) ∧ (∀ x ∈ s2.m_co_boundary, x ∈ s.m_co_boundary) ∧
      ∀ c ∈ s.m_co_boundary, ∃ x ∈ s2.m_co_boundary,
        Relation.ReflTransGen (fun a b => LabelStep m n a.1 a.2 b.1 b.2) (1, x) (1, c) := by
  obtain ⟨ma, ha⟩ := Mesh.modify_isSome (fun x => x.set_compact true)
    (by rw [hs]; rfl : (m.lookup_simplex 0 n).isSome)
  have hsa : ma.lookup_simplex 0 n = some (s.set_compact true) := by
    rw [Mesh.lookup_modify_same ha, hs]; rfl
  have hza : LabelsZero ma := fun d x => by
    rw [Mesh.label_modify_keep ha (fun s => rfl)]; exact hz d x
  have offa : TopologyOff n m ma := TopologyOff.off_of_modify ha
  have hvec : ∀ c ∈ s.m_co_boundary, ∃ sc, ma.lookup_simplex 1 c = some sc ∧
      n ∈ sc.m_boundary := by
    intro c hc
    obtain ⟨sc, hsc, hn⟩ := hco 0 n s (by omega) hs c hc
    obtain ⟨sc', hsc', hbd, -⟩ := offa.lookup_off (by omega) hsc
    exact ⟨sc', hsc', by rw [hbd]; exact hn⟩
  have hbla : BoundaryLive ma := hbl.live_of_off offa (fun _ => by rw [hsa]; rfl)
  have hcoa : CoIncidence ma := hco.co_of_off offa (by
    intro s' hs' c hc
    rw [hsa] at hs'
    cases hs'
    exact hvec c hc)
  obtain ⟨⟨M1, K⟩, hA, he1, cl⟩ := compress_label_loop ma n s.m_co_boundary hza hbla hcoa hvec
  simp only at he1 cl
  have hbl1 : BoundaryLive M1 := hbla.live_of_erase he1
  have hco1 : CoIncidence M1 := hcoa.co_of_erase he1
  have hvec1 : ∀ c ∈ s.m_co_boundary, ∃ sc, M1.lookup_simplex 1 c = some sc ∧
      n ∈ sc.m_boundary := by
    intro c hc
    obtain ⟨sc, hsc, hn⟩ := hvec c hc
    obtain ⟨sc', hsc', hbd, -⟩ := Mesh.lookup_of_erase he1 hsc
    exact ⟨sc', hsc', by rw [hbd]; exact hn⟩
  obtain ⟨s1, hs1, hc1, -⟩ := Mesh.lookup_of_erase_flags he1 hsa
  obtain ⟨mb, hb⟩ := Mesh.modify_isSome (fun x => x.set_co_boundary_set [])
    (by rw [hs1]; rfl : (M1.lookup_simplex 0 n).isSome)
  have hsb : mb.lookup_simplex 0 n = some (s1.set_co_boundary_set []) := by
    rw [Mesh.lookup_modify_same hb, hs1]; rfl
  obtain ⟨⟨M2, K2⟩, sn', hC, hoff2, hz2, hsn', hcomp, hsorted, hsub, hlink⟩ :=
    compress_reset_loop M1 mb n s.m_co_boundary K hbl1 hco1 cl hvec1
      (TopologyOff.off_of_modify hb) (Mesh.label_modify_keep hb (fun s => rfl)) _ hsb rfl
  simp only at hoff2 hz2 hsn'
  refine ⟨{ M2 with m_uncompressed := 0 }, sn', ?_, ?_, ?_, ?_, ?_, hsorted, hsub, ?_⟩
  · have hone : compress_one 0 m n = some { M2 with m_uncompressed := 0 } := by
      unfold compress_one
      simp only [bind] at hA hC
      simp only [bind, hs, Option.some_bind, hnc, Bool.false_eq_true, if_false, ha]
      rw [hA]
      simp only [Option.some_bind, hb]
      rw [hC]
      rfl
    unfold compress
    simp only [List.foldlM_cons, List.foldlM_nil, bind, hone, Option.some_bind, pure]
  · intro d x
    rw [label_uncompressed_reset]
    exact hz2 d x
  · intro d k hne
    unfold Mesh.topology
    rw [lookup_uncompressed_reset]
    exact ((offa.off_trans (TopologyOff.off_of_erase n he1)).off_trans hoff2) d k hne
  · rw [lookup_uncompressed_reset]
    exact hsn'
  · rw [hcomp]
    show s1.m_is_compact = true
    rw [hc1]
    rfl
  · intro c hc
    obtain ⟨x, hx, hpath⟩ := hlink c hc
    refine ⟨x, hx, ?_⟩
    unfold LabelPath at hpath
    refine Relation.ReflTransGen.mono (fun a b hab => ?_) hpath
    exact ((hab.1.step_of_erase he1.symm).step_of_off offa.off_symm)

end ISMesh
namespace ISMesh

theorem StarDown.down_refl (n : Nat) (E : Nat → Prop) (m : Mesh) : StarDown n E m m :=
  ⟨LabelsShrink.shrink_refl _, fun _ _ _ hz hne => absurd hz hne⟩

theorem StarDown.down_append {n : Nat} {E : Nat → Prop} {a b c : Mesh}
    (h1 : StarDown n E a b) (h2 : StarDown n (fun _ => False) b c) : StarDown n E a c := by
  refine ⟨h2.grows.shrink_trans h1.grows, ?_⟩
  intro f sf hE hz hne hsf x hx hin
  by_cases hb : b.label 2 f = 0
  · exact h2.down f sf (fun hf => hf) hb hne hsf x hx hin
  · obtain ⟨sb, hsb, hbd, -⟩ := Mesh.lookup_of_erase h2.grows.1 hsf
    exact h2.grows.2 _ _ (h1.down f sb hE hz hb hsb x (by rw [hbd]; exact hx)
      ((InBoundary.iff_of_erase h2.grows.1).2 hin))

/-- The traversal of `star` for a node passes from every face it labels to the entries of
the boundary list of the face that have the node in their boundary. -/
theorem star_helper_down (n : Nat) (fuel : Nat) :
    ∀ (td t : Nat) (m : Mesh) (set : SimplexSet) (r : Mesh × SimplexSet), td ≤ 3 →
      star_helper fuel 0 n td t m set = some r → StarDown n (fun _ => False) m r.1 := by
  induction fuel with
  | zero => intro td t m set r _ h; simp [star_helper] at h
  | succ fuel ih =>
    intro td t m set r htd h
    rw [star_helper] at h
    by_cases hlt : 0 < td
    swap
    · simp [hlt] at h
    simp only [hlt, not_true_eq_false, if_false, bind, Option.bind_eq_some] at h
    obtain ⟨s0, hs0, m1, h1, up, hup, hdown⟩ := h
    obtain ⟨g1, -⟩ := modify_set_label_grows (l := 1) (by decide) h1
    obtain ⟨-, hkeep⟩ := Mesh.label_modify_set h1
    have step1 : StarDown n (fun f => td = 2 ∧ f = t) m m1 := by
      refine ⟨g1, ?_⟩
      intro f sf hE hz hne _ _ _ _
      rw [hkeep 2 f (fun hc => hE ⟨by have := hc.1; omega, hc.2⟩)] at hne
      exact absurd hz hne
    have step2 : StarDown n (fun f => td = 2 ∧ f = t) m up.1 := by
      split_ifs at hup with h3
      · simp only [pure, Option.some.injEq] at hup
        subst hup
        exact step1
      · simp only [Option.bind_eq_some] at hup
        obtain ⟨simplex, -, hf⟩ := hup
        refine foldlM_prefix_spec
          (fun (_ : List Nat) (cur : Mesh × SimplexSet) =>
            StarDown n (fun f => td = 2 ∧ f = t) m cur.1) _ simplex.m_co_boundary ?_
          (m1, set.insert td t) up step1 hf
        intro pre c suf cur cur' _ hI hstep
        simp only [bind, Option.bind_eq_some] at hstep
        obtain ⟨cs, -, hstep⟩ := hstep
        split_ifs at hstep with hz
        · exact hI.down_append (ih (td + 1) c cur.1 cur.2 cur' (by omega) hstep)
        · simp only [pure, Option.some.injEq] at hstep
          subst hstep
          exact hI
    have step3 : StarDown n (fun f => td = 2 ∧ f = t) m r.1 ∧
        (td = 2 → ∀ b ∈ s0.m_boundary, InBoundary m 1 b 0 n → r.1.label 1 b ≠ 0) := by
      by_cases h3 : td = 3 ∨ td = 2
      · rw [if_pos (by rcases h3 with h | h <;> simp [h])] at hdown
        simp only [Option.bind_eq_some] at hdown
        obtain ⟨simplex, hsx, hf⟩ := hdown
        obtain ⟨su, hsu, hbdu, -⟩ := Mesh.lookup_of_erase step2.grows.1.symm hs0
        rw [hsu] at hsx
        have hsx' : su = simplex := Option.some.inj hsx
        subst hsx'
        have key := foldlM_prefix_spec
          (fun (pre : List Nat) (cur : Mesh × SimplexSet) =>
            StarDown n (fun f => td = 2 ∧ f = t) m cur.1 ∧
            (td = 2 → ∀ b ∈ pre, InBoundary m 1 b 0 n → cur.1.label 1 b ≠ 0)) _
          su.m_boundary ?_ up r ⟨step2, fun _ b hb => absurd hb (List.not_mem_nil _)⟩ hf
        · exact ⟨key.1, fun h2 b hb => key.2 h2 b (by rw [hbdu]; exact hb)⟩
        · intro pre b suf cur cur' _ hI hstep
          simp only [bind, Option.bind_eq_some] at hstep
          obtain ⟨bs, hbs, hstep⟩ := hstep
          split_ifs at hstep with hz
          · simp only [Option.bind_eq_some] at hstep
            obtain ⟨ib, hib, hstep⟩ := hstep
            split_ifs at hstep with hibt
            · have run := ih (td - 1) b cur.1 cur.2 cur' (by omega) hstep
              have lab := (star_helper_grows fuel _ _ _ _ _ _ _ hstep).2
              refine ⟨hI.1.down_append run, fun h2 x hx hin => ?_⟩
              rcases List.mem_append.1 hx with hx | hx
              · exact run.grows.2 _ _ (hI.2 h2 x hx hin)
              · simp only [List.mem_singleton] at hx
                subst hx
                subst h2
                exact lab
            · simp only [pure, Option.some.injEq] at hstep
              subst hstep
              refine ⟨hI.1, fun h2 x hx hin => ?_⟩
              rcases List.mem_append.1 hx with hx | hx
              · exact hI.2 h2 x hx hin
              · simp only [List.mem_singleton] at hx
                subst hx
                subst h2
                exfalso
                have hbs' : cur.1.lookup_simplex (0 + 1) x = some bs := hbs
                have hib' : in_boundary cur.1 0 n (0 + 1) x = some ib := hib
                rw [in_boundary_gap_one hbs' n] at hib'
                have hin' : InBoundary cur.1 (0 + 1) x 0 n :=
                  (InBoundary.iff_of_erase hI.1.grows.1.symm).2 hin
                rw [InBoundary.gap_one, Mesh.boundary_list_eq hbs'] at hin'
                apply hibt
                rw [← Option.some.inj hib']
                simpa using hin'
          · simp only [pure, Option.some.injEq] at hstep
            subst hstep
            refine ⟨hI.1, fun h2 x hx hin => ?_⟩
            rcases List.mem_append.1 hx with hx | hx
            · exact hI.2 h2 x hx hin
            · simp only [List.mem_singleton] at hx
              subst hx
              subst h2
              have hbs' : cur.1.lookup_simplex 1 x = some bs := hbs
              rw [Mesh.label_of_lookup hbs']
              exact hz
      · rw [if_neg (by
          rintro (⟨h, -⟩ | ⟨-, h⟩ | ⟨-, h⟩)
          · exact absurd h (by decide)
          · exact h3 (Or.inl h)
          · exact h3 (Or.inr h))] at hdown
        simp only [pure, Option.some.injEq] at hdown
        subst hdown
        exact ⟨step2, fun h2 => absurd (Or.inr h2) h3⟩
    obtain ⟨run3, hall⟩ := step3
    refine ⟨run3.grows, ?_⟩
    intro f sf _ hz hne hsf b hb hin
    by_cases hE : td = 2 ∧ f = t
    · obtain ⟨rfl, rfl⟩ := hE
      obtain ⟨s0', hs0', hbd, -⟩ := Mesh.lookup_of_erase run3.grows.1.symm hs0
      rw [hs0'] at hsf
      cases hsf
      exact hall rfl b (by rw [← hbd]; exact hb) ((InBoundary.iff_of_erase run3.grows.1.symm).1 hin)
    · exact run3.down f sf hE hz hne hsf b hb hin

/-- The traversal of `star` for a live node `n` on a mesh without labels and without
dangling keys: it returns, leaves the mesh as it was, every edge of its result has `n` in
its boundary, and its result holds every edge reached from an entry of the co-boundary of
`n` by steps from an edge to an entry of its co-boundary and from a face to an entry of
its boundary list that has `n` in its boundary. -/
theorem star_node_reaches (m : Mesh) (n : Nat) (sn : Simplex) (hz : LabelsZero m)
    (hbl : BoundaryLive m) (hco : CoIncidence m) (hs : m.lookup_simplex 0 n = some sn) :
    ∃ st, star m 0 n SimplexSet.empty = some (m, st) ∧
      (∀ d, (st.keys d).Sorted (· < ·)) ∧ (∀ x ∈ st.keys 1, InBoundary m 1 x 0 n) ∧
      ∀ x ∈ sn.m_co_boundary, ∀ c,
        Relation.ReflTransGen (fun a b => LabelStep m n a.1 a.2 b.1 b.2) (1, x) (1, c) →
        c ∈ st.keys 1 := by
  obtain ⟨⟨m1, st⟩, hfold, run, hall⟩ := star_outer m 0 n sn (by omega) hbl hco hs
  simp only at hall
  have he1 : m1.erase_labels = m.erase_labels := run.grows.1.symm
  have hdown : StarDown n (fun _ => False) m m1 :=
    foldlM_prefix_spec
      (fun (_ : List Nat) (cur : Mesh × SimplexSet) => StarDown n (fun _ => False) m cur.1)
      _ sn.m_co_boundary
      (fun pre c suf cur cur' _ hI hstep =>
        hI.down_append (star_helper_down n _ (0 + 1) c cur.1 cur.2 cur' (by omega) hstep))
      (m, SimplexSet.empty) (m1, st) (StarDown.down_refl _ _ _) hfold
  have hsound : ∀ d x, d ≤ 3 → x ∈ st.keys d → InBoundary m d x 0 n := by
    intro d x hd hx
    rcases run.sound d x hd hx with h | h
    · rw [SimplexSet.keys_empty] at h
      cases h
    · exact h
  have hlive : ∀ d, d ≤ 3 → ∀ x ∈ st.keys d, (m.lookup_simplex d x).isSome :=
    fun d hd x hx => (hsound d x hd hx).owner_live
  have hsorted : ∀ d, (st.keys d).Sorted (· < ·) := fun d =>
    run.sorted d (by
      show (SimplexSet.empty.keys d).Sorted (· < ·)
      rw [SimplexSet.keys_empty]; exact List.sorted_nil)
  have hreach : ∀ a b : Nat × Nat,
      Relation.ReflTransGen (fun a b => LabelStep m n a.1 a.2 b.1 b.2) a b →
      m1.label a.1 a.2 ≠ 0 → m1.label b.1 b.2 ≠ 0 := by
    intro a b hp ha
    induction hp with
    | refl => exact ha
    | @tail b c _ hbc ih =>
      obtain ⟨hin, ⟨e1, e2, s, hsb, hy⟩ | ⟨e1, e2, s, hsb, hy⟩⟩ := hbc
      · rw [e1] at ih
        rw [e2]
        rcases run.closed 1 b.2 (by omega) ih with h | ⟨-, hcl⟩
        · exact absurd (hz 1 b.2) h
        · obtain ⟨sx, hsx, -, hcob⟩ := Mesh.lookup_of_erase he1 hsb
          exact hcl (fun hf => hf) (by omega) sx hsx c.2 (by rw [hcob]; exact hy)
      · rw [e1] at ih
        rw [e2] at hin ⊢
        obtain ⟨sx, hsx, hbd, -⟩ := Mesh.lookup_of_erase he1 hsb
        exact hdown.down b.2 sx (fun hf => hf) (hz 2 b.2) ih hsx c.2 (by rw [hbd]; exact hy)
          ((InBoundary.iff_of_erase he1).2 hin)
  obtain ⟨m2, h2, e2⟩ := star_reset_returns m hbl hco 1 (by omega) st m1 he1
    (hlive 1 (by omega))
  obtain ⟨m3, h3, e3⟩ := star_reset_returns m hbl hco 2 (by omega) st m2 e2
    (hlive 2 (by omega))
  obtain ⟨m4, h4⟩ := star_reset_tetrahedra_returns m st m3 e3 (hlive 3 (by omega))
  have hr : star m 0 n SimplexSet.empty = some (m4, st) := by
    unfold star
    simp only [bind, hs, Option.some_bind, hfold, h2, h3, h4, pure]
  have := star_restores hz hr
  subst this
  refine ⟨st, hr, hsorted, fun x hx => hsound 1 x (by omega) hx, ?_⟩
  intro x hx c hp
  have hc := hreach (1, x) (1, c) hp (hall x hx)
  rcases run.closed 1 c (by omega) hc with h | ⟨h, -⟩
  · exact absurd (hz 1 c) h
  · exact h

end ISMesh
namespace ISMesh

/-- The last loop of `uncompress` for the node `n` over edges that have `n` in their
boundary: it returns and adds every edge to the co-boundary of `n`. -/
theorem uncompress_fill_loop (m1 : Mesh) (n : Nat) (L : List Nat) (s0 : Simplex)
    (hs0 : m1.lookup_simplex 0 n = some s0) (hsorted : s0.m_co_boundary.Sorted (· < ·))
    (hL : ∀ x ∈ L, InBoundary m1 1 x 0 n) :
    ∃ r s', L.foldlM (fun m x => do
        let ib ← in_boundary m 0 n (0 + 1) x
        if ib then m.modify 0 n (fun y => y.add_co_face x) else pure m) m1 = some r ∧
      r.lookup_simplex 0 n = some s' ∧ s'.m_is_compact = s0.m_is_compact ∧
      s'.m_co_boundary.Sorted (· < ·) ∧
      ∀ x, x ∈ s'.m_co_boundary ↔ x ∈ s0.m_co_boundary ∨ x ∈ L := by
  have key := foldlM_prefix_returns
    (fun (pre : List Nat) (cur : Mesh) =>
      (∀ k, cur.lookup_simplex 1 k = m1.lookup_simplex 1 k) ∧
      ∃ s', cur.lookup_simplex 0 n = some s' ∧ s'.m_is_compact = s0.m_is_compact ∧
        s'.m_co_boundary.Sorted (· < ·) ∧
        ∀ x, x ∈ s'.m_co_boundary ↔ x ∈ s0.m_co_boundary ∨ x ∈ pre)
    (fun (m : Mesh) x => do
        let ib ← in_boundary m 0 n (0 + 1) x
        if ib then m.modify 0 n (fun y => y.add_co_face x) else pure m) L ?_ m1
    ⟨fun _ => rfl, s0, hs0, rfl, hsorted, fun x => by simp⟩
  · obtain ⟨r, hr, -, s', h1, h2, h3, h4⟩ := key
    exact ⟨r, s', hr, h1, h2, h3, h4⟩
  · rintro pre x suf cur hpre ⟨hedges, s', hs', hcomp, hsort, hmem⟩
    have hx : x ∈ L := by rw [hpre]; simp
    have hin := hL x hx
    obtain ⟨sx, hsx⟩ := Option.isSome_iff_exists.1 hin.owner_live
    have hsx' : cur.lookup_simplex (0 + 1) x = some sx := by rw [← hsx]; exact hedges x
    have hnx : n ∈ sx.m_boundary := by
      have hin' : InBoundary m1 (0 + 1) x 0 n := hin
      rw [InBoundary.gap_one, Mesh.boundary_list_eq hsx] at hin'
      exact hin'
    obtain ⟨r, hr⟩ := Mesh.modify_isSome (fun y => y.add_co_face x)
      (by rw [hs']; rfl : (cur.lookup_simplex 0 n).isSome)
    refine ⟨r, ?_, ?_, s'.add_co_face x, ?_, hcomp, sorted_set_insert x hsort, ?_⟩
    · have hc : sx.m_boundary.contains n = true := by simpa using hnx
      simp only [bind, in_boundary_gap_one hsx' n, Option.some_bind, hc, if_true]
      exact hr
    · intro k
      rw [Mesh.lookup_modify_ne hr (by omega) (by omega) (by omega)]
      exact hedges k
    · rw [Mesh.lookup_modify_same hr, hs']
      rfl
    · intro y
      show y ∈ set_insert x s'.m_co_boundary ↔ _
      rw [mem_set_insert, hmem y, List.mem_append, List.mem_singleton]
      tauto

/-- The call `uncompress` on a compact node `n` of a mesh without labels and without
dangling keys, whose co-boundary holds, for every edge that has `n` in its boundary, an
edge from which it is reached by the steps of the label traversal: it returns, `n` is not
compact any more and its co-boundary is the ascending list `C` of the edges that have `n`
in their boundary. -/
theorem uncompress_node_spec (M : Mesh) (n : Nat) (s2 : Simplex) (C : List Nat)
    (hz : LabelsZero M) (hbl : BoundaryLive M) (hco : CoIncidence M)
    (hs : M.lookup_simplex 0 n = some s2) (hcomp : s2.m_is_compact = true)
    (hsorted2 : s2.m_co_boundary.Sorted (· < ·)) (hC : C.Sorted (· < ·))
    (hlink : ∀ c ∈ C, ∃ x ∈ s2.m_co_boundary,
      Relation.ReflTransGen (fun a b => LabelStep M n a.1 a.2 b.1 b.2) (1, x) (1, c))
    (hcomplete : ∀ e, e ∈ C ↔ ∃ se, M.lookup_simplex 1 e = some se ∧ n ∈ se.m_boundary) :
    ∃ M' s', uncompress M 0 n = some M' ∧ M'.lookup_simplex 0 n = some s' ∧
      s'.m_is_compact = false ∧ s'.m_co_boundary = C := by
  have hk3 : ∀ d k, M.incr_uncompressed.lookup_simplex d k = M.lookup_simplex d k :=
    Mesh.lookup_of_kernel (Mesh.kernel_incr_uncompressed M)
  have hl3 : ∀ d k, M.incr_uncompressed.label d k = M.label d k := by
    intro d k
    unfold Mesh.label
    rw [Mesh.kernel_incr_uncompressed]
  obtain ⟨m1, hm1⟩ := Mesh.modify_isSome (fun x => x.set_compact false)
    (by rw [hk3, hs]; rfl : (M.incr_uncompressed.lookup_simplex 0 n).isSome)
  have hs1 : m1.lookup_simplex 0 n = some (s2.set_compact false) := by
    rw [Mesh.lookup_modify_same hm1, hk3, hs]; rfl
  have hz1 : LabelsZero m1 := fun d x => by
    rw [Mesh.label_modify_keep hm1 (fun s => rfl), hl3]; exact hz d x
  have hoff : TopologyOff n M m1 := by
    refine TopologyOff.off_trans (fun d k _ => ?_) (TopologyOff.off_of_modify hm1)
    unfold Mesh.topology
    rw [hk3]
  have hsub : ∀ x ∈ s2.m_co_boundary, x ∈ C := by
    intro x hx
    obtain ⟨sc, hsc, hn⟩ := hco 0 n s2 (by omega) hs x hx
    exact (hcomplete x).2 ⟨sc, hsc, hn⟩
  have hbl1 : BoundaryLive m1 := hbl.live_of_off hoff (fun _ => by rw [hs1]; rfl)
  have hco1 : CoIncidence m1 := hco.co_of_off hoff (by
    intro s' hs' c hc
    rw [hs1] at hs'
    cases hs'
    obtain ⟨sc, hsc, hn⟩ := hco 0 n s2 (by omega) hs c hc
    obtain ⟨sc', hsc', hbd, -⟩ := hoff.lookup_off (by omega) hsc
    exact ⟨sc', hsc', by rw [hbd]; exact hn⟩)
  obtain ⟨st, hstar, -, hsound, hreach⟩ :=
    star_node_reaches m1 n (s2.set_compact false) hz1 hbl1 hco1 hs1
  obtain ⟨r, s', hfold, hsr, hcr, hsortr, hmemr⟩ :=
    uncompress_fill_loop m1 n (st.keys 1) (s2.set_compact false) hs1 hsorted2 hsound
  refine ⟨r, s', ?_, hsr, hcr, sorted_ext hsortr hC (fun x => ?_)⟩
  · unfold uncompress
    rw [if_neg (by omega)]
    simp only [bind, hk3, hs, Option.some_bind, hcomp, Bool.not_true, Bool.false_eq_true,
      if_false, hm1, hstar]
    exact hfold
  · rw [hmemr x]
    constructor
    · rintro (hx | hx)
      · exact hsub x hx
      · have hin : InBoundary m1 (0 + 1) x 0 n := hsound x hx
        rw [InBoundary.gap_one] at hin
        obtain ⟨sx, hsx⟩ := Option.isSome_iff_exists.1 (hsound x hx).owner_live
        rw [Mesh.boundary_list_eq hsx] at hin
        obtain ⟨sx0, hsx0, hbd, -⟩ := hoff.off_symm.lookup_off (by omega) hsx
        exact (hcomplete x).2 ⟨sx0, hsx0, by rw [hbd]; exact hin⟩
    · intro hx
      obtain ⟨y, hy, hp⟩ := hlink x hx
      refine Or.inr (hreach y hy x ?_)
      exact Relation.ReflTransGen.mono (fun a b hab => hab.step_of_off hoff) hp

end ISMesh
namespace ISMesh

theorem complete_of_check {m : Mesh} {n : Nat} {C : List Nat}
    (h : m.all_live 1 (fun k s => !s.m_boundary.contains n || C.contains k) = true) :
    ∀ e se, m.lookup_simplex 1 e = some se → n ∈ se.m_boundary → e ∈ C := by
  intro e se hse hn
  have := Mesh.all_live_sound h hse
  simp only [Bool.or_eq_true, Bool.not_eq_true'] at this
  rcases this with h1 | h1
  · have hc : se.m_boundary.contains n = true := by simpa using hn
    rw [h1] at hc
    cases hc
  · simpa using h1

/-- C31: `uncompress` is the inverse of `compress` on a node. On a mesh whose labels are
all 0, in which every entry of a boundary list is live and every entry of a co-boundary
set is live and lists the simplex in its boundary, for every live node `n` that is not
compact and whose co-boundary `C` (an ascending list) holds every live edge that has `n`
in its boundary: `compress` on the set that holds `n` alone returns and leaves `n` compact
with a co-boundary that is a part of `C`, and `uncompress(n)` on the result returns and
leaves `n` not compact with the co-boundary `C` again. -/
theorem uncompress_inverts_compress (m : Mesh) (n : Nat) (s : Simplex) (hz : LabelsZero m)
    (hbl : BoundaryLive m) (hco : CoIncidence m) (hs : m.lookup_simplex 0 n = some s)
    (hnc : s.m_is_compact = false) (hsorted : s.m_co_boundary.Sorted (· < ·))
    (hcomplete : ∀ e se, m.lookup_simplex 1 e = some se → n ∈ se.m_boundary →
      e ∈ s.m_co_boundary) :
    ∃ m1 m2 s1 s2, compress m ⟨[n], [], [], []⟩ = some m1 ∧
      m1.lookup_simplex 0 n = some s1 ∧ s1.m_is_compact = true ∧
      (∀ x ∈ s1.m_co_boundary, x ∈ s.m_co_boundary) ∧
      uncompress m1 0 n = some m2 ∧ m2.lookup_simplex 0 n = some s2 ∧
      s2.m_is_compact = false ∧ s2.m_co_boundary = s.m_co_boundary := by
  obtain ⟨m1, s1, hc, hz1, hoff, hs1, hcomp, hsorted1, hsub, hlink⟩ :=
    compress_node_spec m n s hz hbl hco hs hnc
  have hbl1 : BoundaryLive m1 := hbl.live_of_off hoff (fun _ => by rw [hs1]; rfl)
  have hco1 : CoIncidence m1 := hco.co_of_off hoff (by
    intro s' hs' c hc'
    rw [hs1] at hs'
    cases hs'
    obtain ⟨sc, hsc, hn⟩ := hco 0 n s (by omega) hs c (hsub c hc')
    obtain ⟨sc', hsc', hbd, -⟩ := hoff.lookup_off (by omega) hsc
    exact ⟨sc', hsc', by rw [hbd]; exact hn⟩)
  obtain ⟨m2, s2, hu, hs2, hc2, hcob2⟩ := uncompress_node_spec m1 n s1 s.m_co_boundary
    hz1 hbl1 hco1 hs1 hcomp hsorted1 hsorted
    (fun c hc' => by
      obtain ⟨x, hx, hp⟩ := hlink c hc'
      exact ⟨x, hx, Relation.ReflTransGen.mono (fun a b hab => hab.step_of_off hoff) hp⟩)
    (fun e => by
      constructor
      · intro he
        obtain ⟨sc, hsc, hn⟩ := hco 0 n s (by omega) hs e he
        obtain ⟨sc', hsc', hbd, -⟩ := hoff.lookup_off (by omega) hsc
        exact ⟨sc', hsc', by rw [hbd]; exact hn⟩
      · rintro ⟨se, hse, hn⟩
        obtain ⟨se0, hse0, hbd, -⟩ := hoff.off_symm.lookup_off (by omega) hse
        exact hcomplete e se0 hse0 (by rw [hbd]; exact hn))
  exact ⟨m1, m2, s1, s2, hc, hs1, hcomp, hsub, hu, hs2, hc2, hcob2⟩

/-- Witness of C31: the node 0 of the mesh with one tetrahedron whose edges are compact; its
co-boundary holds its three edges, `compress` keeps the edges 0 and 2 and `uncompress`
brings the three edges back. -/
theorem uncompress_inverts_compress_witness :
    LabelsZero tetrahedron_open_mesh ∧ BoundaryLive tetrahedron_open_mesh ∧
    CoIncidence tetrahedron_open_mesh ∧
    tetrahedron_open_mesh.lookup_simplex 0 0 = some
      { m_boundary := [], m_co_boundary := [0, 1, 2], m_is_compact := false, m_label := 0 } ∧
    (∀ e se, tetrahedron_open_mesh.lookup_simplex 1 e = some se → 0 ∈ se.m_boundary →
      e ∈ [0, 1, 2]) ∧
    ((compress tetrahedron_open_mesh ⟨[0], [], [], []⟩).bind
      (fun m => m.lookup_simplex 0 0)).map
      (fun s => (s.m_co_boundary, s.m_is_compact)) = some ([0, 2], true) ∧
    (((compress tetrahedron_open_mesh ⟨[0], [], [], []⟩).bind
      (fun m => uncompress m 0 0)).bind (fun m => m.lookup_simplex 0 0)).map
      (fun s => (s.m_co_boundary, s.m_is_compact)) = some ([0, 1, 2], false) ∧
    ∃ m1 m2 s1 s2, compress tetrahedron_open_mesh ⟨[0], [], [], []⟩ = some m1 ∧
      m1.lookup_simplex 0 0 = some s1 ∧ s1.m_is_compact = true ∧
      (∀ x ∈ s1.m_co_boundary, x ∈ [0, 1, 2]) ∧
      uncompress m1 0 0 = some m2 ∧ m2.lookup_simplex 0 0 = some s2 ∧
      s2.m_is_compact = false ∧ s2.m_co_boundary = [0, 1, 2] :=
  have hz : LabelsZero tetrahedron_open_mesh := labelsZero_of_check (by decide!)
  have hb : BoundaryLive tetrahedron_open_mesh :=
    boundaryLive_of_check (by decide!) (by decide!) (by decide!)
  have hc : CoIncidence tetrahedron_open_mesh :=
    coIncidence_of_check (by decide!) (by decide!) (by decide!)
  have hs : tetrahedron_open_mesh.lookup_simplex 0 0 = some
      { m_boundary := [], m_co_boundary := [0, 1, 2], m_is_compact := false, m_label := 0 } :=
    by decide!
  have hcomplete : ∀ e se, tetrahedron_open_mesh.lookup_simplex 1 e = some se →
      0 ∈ se.m_boundary → e ∈ [0, 1, 2] := complete_of_check (by decide!)
  ⟨hz, hb, hc, hs, hcomplete, by decide!, by decide!,
    uncompress_inverts_compress tetrahedron_open_mesh 0 _ hz hb hc hs rfl (by decide)
      hcomplete⟩

end ISMesh
namespace ISMesh

theorem pinched_fan_around : FanAround pinched_fan 0 ⟨[], [], [0, 1, 2], [0, 1, 2]⟩
    ⟨[1, 2, 3, 4], [4, 5, 6, 7, 8, 9], [4, 6, 8], []⟩
    ⟨[0, 2, 3, 4], [1, 2, 3, 7, 8, 9], [3, 5, 7], []⟩ where
  tetrahedra := by decide!
  faces := by decide!

/-- The condition of C6 on the star of `n2` is needed. On the compact fan with a fourth
tetrahedron at the node 1, the stars and links of the edge 0 = (0,1) are those of the compact
fan, so the link condition holds and there is a fan around the edge, but `star(1)`, computed
from the one representative of the node 1, misses the edges 10, 11, 12 of the fourth
tetrahedron: `edge_collapse(0)` returns the node 0, the node 1 is gone, and the live edges
10, 11, 12 still list it. -/
theorem edge_collapse_pinched :
    LabelsZero pinched_fan ∧ BoundaryLive pinched_fan ∧ EdgesProper pinched_fan ∧
    CompactForm pinched_fan ∧
    pinched_fan.lookup_simplex 1 0 = some ⟨[0, 1], [0], true, 0⟩ ∧
    star pinched_fan 0 1 SimplexSet.empty =
      some (pinched_fan, ⟨[], [0, 4, 5, 6], [0, 1, 2, 4, 6, 8], [0, 1, 2]⟩) ∧
    link_node pinched_fan 0 SimplexSet.empty =
      some (pinched_fan, ⟨[1, 2, 3, 4], [4, 5, 6, 7, 8, 9], [4, 6, 8], []⟩) ∧
    link_node pinched_fan 1 SimplexSet.empty =
      some (pinched_fan, ⟨[0, 2, 3, 4], [1, 2, 3, 7, 8, 9], [3, 5, 7], []⟩) ∧
    star pinched_fan 1 0 SimplexSet.empty =
      some (pinched_fan, ⟨[], [], [0, 1, 2], [0, 1, 2]⟩) ∧
    link_edge pinched_fan 0 SimplexSet.empty =
      some (pinched_fan, ⟨[2, 3, 4], [7, 8, 9], [], []⟩) ∧
    FanAround pinched_fan 0 ⟨[], [], [0, 1, 2], [0, 1, 2]⟩
      ⟨[1, 2, 3, 4], [4, 5, 6, 7, 8, 9], [4, 6, 8], []⟩
      ⟨[0, 2, 3, 4], [1, 2, 3, 7, 8, 9], [3, 5, 7], []⟩ ∧
    (edge_collapse pinched_fan 0).map (fun r =>
      (r.2, r.1.«exists» 0 1, [10, 11, 12].map (fun k => r.1.boundary_list 1 k))) =
      some ((0 : Int), false, [[1, 5], [1, 6], [1, 7]]) :=
  ⟨labelsZero_of_check (by decide!),
    boundaryLive_of_check (by decide!) (by decide!) (by decide!),
    edgesProper_of_check (by decide!), compactForm_of_check (by decide!) (by decide!),
    by decide!, by decide!, by decide!, by decide!, by decide!, by decide!,
    pinched_fan_around, by decide!⟩

end ISMesh
